import Mathlib

/-!
# drbd.c : transfer log, barriers and request completion

A shallow embedding of the Primary-side write path of `drbd/drbd.c`
(transfer log, barrier allocation, `drbd_end_req`, `drbd_send_data`,
`drbd_do_request`) and of the Secondary-side epoch counting
(`receive_data`, `receive_barrier`), followed by the properties proved
about them.

Conventions of the embedding
* pointers into `transfer_log` are slot indices (`p - mdev->transfer_log`);
  a `struct request *` is the address of the request, `0` being `NULL`;
* C `int` values that are only tested or masked (`rq_status`, `uptodate`)
  are carried as natural numbers (their 32-bit pattern);
  `unsigned int` counters wrap explicitly modulo `2^32`;
* everything the code lets the outside observe (printk, packets handed to
  the socket, bitmap calls, request completions, wake-ups) is appended, in
  program order, to `World.trace`;
* locks, timers and wait queues are not represented: every function runs
  atomically.
-/

namespace Drbd

/-! ## Constants -/

/-- Constant `#define TL_BARRIER 0`: the `req` value that marks a barrier entry. -/
def TL_BARRIER : Nat := 0

/-- Constant `#define RQ_DRBD_NOTHING 0xf100` -/
def RQ_DRBD_NOTHING : Nat := 0xf100

/-- Constant `#define RQ_DRBD_SENT 0xf200` -/
def RQ_DRBD_SENT : Nat := 0xf200

/-- Constant `#define RQ_DRBD_WRITTEN 0xf300` -/
def RQ_DRBD_WRITTEN : Nat := 0xf300

/-- Constant `#define RQ_DRBD_SEC_WRITE 0xf400` -/
def RQ_DRBD_SEC_WRITE : Nat := 0xf400

/-- Constant `#define RQ_DRBD_READ 0xf500` -/
def RQ_DRBD_READ : Nat := 0xf500

/-- Modelled from the spec: `RQ_INACTIVE` of the block layer (`linux/blkdev.h`,
not part of the repository), the status of a request structure that is not in
use; it is `(-1)`, carried here as its 32-bit pattern. -/
def RQ_INACTIVE : Nat := 0xffffffff

/-- Block-layer command `READ` (`linux/fs.h`). -/
def READ : Nat := 0

/-- Block-layer command `WRITE` (`linux/fs.h`). -/
def WRITE : Nat := 1

/-- Modelled from the spec: the wire protocols A, B, C of §4.3; the header that
declares `DRBD_PROT_A/B/C` is missing from the repository. -/
def DRBD_PROT_A : Nat := 1

/-- Modelled from the spec: see `DRBD_PROT_A`. -/
def DRBD_PROT_B : Nat := 2

/-- Modelled from the spec: see `DRBD_PROT_A`. -/
def DRBD_PROT_C : Nat := 3

/-- Constant `#define ID_SYNCER (-1LL)` as a `u64`. -/
def ID_SYNCER : Nat := 2 ^ 64 - 1

/-- Constant `#define MAJOR_NR 43` -/
def MAJOR_NR : Nat := 43

/-- Macro `MKDEV(major, minor)` of `linux/kdev_t.h` (8 minor bits). -/
def MKDEV (ma mi : Nat) : Nat := ma * 256 + mi

/-- Bit number of `ISSUE_BARRIER` in `mdev->flags`. -/
def ISSUE_BARRIER : Nat := 0

/-- Modelled from the spec: `SS_OUT_OF_SYNC` of the missing `mbds.h`, the
status "out of sync" (bit value 1, §3 Bitmap). -/
def SS_OUT_OF_SYNC : Nat := 1

/-- Modelled from the spec: `SS_IN_SYNC` of the missing `mbds.h` (bit value 0). -/
def SS_IN_SYNC : Nat := 0

/-- Modelled from the spec: `sizeof(Drbd_Barrier_Packet)`, the 8-byte header of
§6 followed by `barrier_nr : u32`. -/
def sizeof_Drbd_Barrier_Packet : Nat := 12

/-- Modelled from the spec: `sizeof(Drbd_Data_Packet)`, the 8-byte header of §6
followed by `block_nr : u64` and `block_id : u64`. -/
def sizeof_Drbd_Data_Packet : Nat := 24

/-- Modelled from the spec: `sizeof(Drbd_BarrierAck_Packet)`, header,
`barrier_nr : u32`, `set_size : u32`. -/
def sizeof_Drbd_BarrierAck_Packet : Nat := 16

/-- Modelled from the spec: `sizeof(Drbd_BlockAck_Packet)`, header,
`block_nr : u64`, `block_id : u64`. -/
def sizeof_Drbd_BlockAck_Packet : Nat := 24

/-- Constant `#define DRBD_MAGIC 0x83740267` -/
def DRBD_MAGIC : Nat := 0x83740267

/-- Index `Consistent` of `enum MetaDataIndex`, lines 156-163. -/
def Consistent : Nat := 0

/-- Index `HumanCnt` of `enum MetaDataIndex`. -/
def HumanCnt : Nat := 1

/-- Index `ConnectedCnt` of `enum MetaDataIndex`. -/
def ConnectedCnt : Nat := 2

/-- Index `ArbitraryCnt` of `enum MetaDataIndex`. -/
def ArbitraryCnt : Nat := 3

/-- Index `PrimaryInd` of `enum MetaDataIndex`. -/
def PrimaryInd : Nat := 4

/-- Index `MagicNr` of `enum MetaDataIndex`. -/
def MagicNr : Nat := 5

/-- Modelled from the spec: `sizeof(Drbd_Parameter_Packet)`, the 8-byte header of
§6 followed by `size : u64`, `blksize`, `state`, `protocol`, `version : u32` and
`gen_cnt[0..=4] : u32`. -/
def sizeof_Drbd_Parameter_Packet : Nat := 52

/-- Modelled from the spec: `sizeof(Drbd_CState_Packet)`, the 8-byte header of §6
followed by `cstate : u32`. -/
def sizeof_Drbd_CState_Packet : Nat := 12

/-! ## Data model -/

/-- Modelled from the spec: `Drbd_State` (§3 role); its declaration is in the
missing header. `PRIMARY_PLUS` is not a state a device is in. -/
inductive Drbd_State where
  | Primary
  | Secondary
  | Unknown
deriving DecidableEq, Repr, Inhabited

/-- Modelled from the spec: `Drbd_CState`; the declaration is in the missing
header, the order is the one of `cstate_names` in `drbd_proc_get_info`. -/
inductive Drbd_CState where
  | Unconfigured
  | StandAllone
  | Unconnected
  | Timeout
  | BrokenPipe
  | WFConnection
  | WFReportParams
  | Connected
  | SyncingAll
  | SyncingQuick
deriving DecidableEq, Repr, Inhabited

/-- Numeric value of a connection state (position in the enum). -/
def Drbd_CState.toNat : Drbd_CState → Nat
  | .Unconfigured => 0
  | .StandAllone => 1
  | .Unconnected => 2
  | .Timeout => 3
  | .BrokenPipe => 4
  | .WFConnection => 5
  | .WFReportParams => 6
  | .Connected => 7
  | .SyncingAll => 8
  | .SyncingQuick => 9

/-- Modelled from the spec: the packet types of `Drbd_Packet_Cmd` (§4.4), the
ones `drbdd` has a case for; the declaration, and with it the numbers of the
enumerators, is in the missing header. -/
inductive Drbd_Packet_Cmd where
  | Data
  | Barrier
  | RecvAck
  | WriteAck
  | BarrierAck
  | ReportParams
  | CStateChanged
  | Ping
  | PingAck
  | StartSync
  | Postpone
  | BecomeSec
  | SetConsistent
deriving DecidableEq, Repr, Inhabited

/-- Type `Drbd_thread_state`, lines 124-128. -/
inductive Drbd_thread_state where
  | Running
  | Exiting
  | Restarting
deriving DecidableEq, Repr, Inhabited

/-- Modelled from the spec: the parameter block of a `ReportParams` packet
(`Drbd_Parameter_P`, declared in the missing header; fields of §6), with the
fields in host byte order. A `state` word that is neither Primary nor
Secondary is carried as `Unknown`. -/
structure Drbd_Parameter_P where
  size : Nat
  blksize : Nat
  state : Drbd_State
  protocol : Nat
  version : Nat
  gen_cnt : List Nat
deriving DecidableEq, Repr, Inhabited

/-- Type `struct Tl_entry { struct request* req; unsigned long sector_nr; }`. -/
structure Tl_entry where
  req : Nat
  sector_nr : Nat
deriving DecidableEq, Repr, Inhabited

/-- The fields of `struct buffer_head` the model keeps: the block number and
whether the local write has completed (`buffer_uptodate`). -/
structure buffer_head where
  b_blocknr : Nat
  uptodate : Bool
deriving DecidableEq, Repr, Inhabited

/-- Type `struct Tl_epoch_entry { struct buffer_head* bh; u64 block_id; }`. -/
structure Tl_epoch_entry where
  bh : buffer_head
  block_id : Nat
deriving DecidableEq, Repr, Inhabited

/-- The fields of the block layer's `struct request` that drbd.c reads or
writes. -/
structure request where
  rq_status : Nat
  rq_dev : Nat
  cmd : Nat
  sector : Nat
  current_nr_sectors : Nat
deriving DecidableEq, Repr, Inhabited

/-- The fields of `struct Drbd_Conf` used by the modelled functions.
`tl_begin` and `tl_end` are slot indices into `transfer_log`; `epoch_set` is
the Secondary's view of the same memory (`struct Tl_epoch_entry`), kept as the
list of the entries in use (`epoch_size` of them); `sync_log` has `SYNC_LOG_S`
slots. `skip_sync` is `conf.skip_sync`; `mbds_id` tells whether the handle of
the bitmap is non-null; `gen_cnt` and `bit_map_gen` are the arrays `u32 [5]`;
`receiver_t_state` is `receiver.t_state`. -/
structure Drbd_Conf where
  tl_size : Nat
  wire_protocol : Nat
  timeout : Nat
  do_panic : Bool
  sock : Bool
  blk_size_b : Nat
  state : Drbd_State
  cstate : Drbd_CState
  send_cnt : Nat
  recv_cnt : Nat
  read_cnt : Nat
  writ_cnt : Nat
  pending_cnt : Nat
  unacked_cnt : Nat
  tl_end : Nat
  tl_begin : Nat
  transfer_log : List Tl_entry
  flags : Nat
  epoch_size : Nat
  epoch_set : List Tl_epoch_entry
  synced_to : Nat
  sync_log : List (Option buffer_head)
  skip_sync : Bool := false
  lo_usize : Nat := 0
  o_state : Drbd_State := Drbd_State.Unknown
  mbds_id : Bool := false
  gen_cnt : List Nat := [0, 0, 0, 0, 0]
  bit_map_gen : List Nat := [0, 0, 0, 0, 0]
  receiver_t_state : Drbd_thread_state := Drbd_thread_state.Running
  lo_device : Nat := 0
deriving DecidableEq, Repr, Inhabited

/-- The printk diagnostics of the modelled functions. -/
inductive Msg where
  | transferlog_too_small
  | tl_messed_up
  | invalid_barrier_number (found reported : Nat)
  | epoch_set_size_wrong (found : Int) (reported : Nat)
  | request_state_error_A
  | request_state_error_B
  | request_state_error (rq_status : Nat)
  | sock_sendmsg_returned (err : Int)
  | send_timed_out
  | could_not_kmalloc
  | got_barrier_while_not_SEC
  | got_data_while_not_SEC
  | got_blk_ack_while_not_PRI
  | got_barrier_ack_while_not_PRI
  | tl_size_too_small
  | blksize (data_size : Nat)
  | getblk_failed
  | SYNC_LOG_S_too_small
  | syncer_send_failed
  | incompatible_states
  | incompatible_releases
  | incompatible_protocols
  | ll_dev_has_no_size
  | size_hint_bogus (size : Nat)
  | connection_established
  | size_blksize (size : Nat) (blksize : Int)
  | set_state (state : Drbd_State) (pending_cnt unacked_cnt : Nat) (epoch_size : Nat)
  | error_writing_state_file
  | error_reading_state_file
  | ll_device_has_no_size
  | sending_of_parameter_block_failed
  | connection_lost (pending_cnt unacked_cnt : Nat)
  | vmallocing_for_bitmap (size : Nat)
  | BitMap_too_small
  | magic (m c l : Nat)
  | unknown_packet_type
  | got_Postpone
  | Synchronisation_done
  | sending_postpone_packet
  | expire_now
  | p_timeout_is_act
deriving DecidableEq, Repr

/-- What the code makes observable, in program order. -/
inductive Event where
  | printk (m : Msg)
  /-- Call of `sock_sendmsg` for a packet with the header fields `a`, `b`, a
  header of `header_size` and a payload of `data_size` bytes; it returned `ret`. -/
  | send (cmd : Drbd_Packet_Cmd) (a b : Nat) (header_size data_size : Nat) (ret : Int)
  /-- Call `mdev->mops->set_block_status(mbds_id, blocknr, ln2_block_size, status)` -/
  | set_block_status (blocknr ln2_block_size status : Nat)
  /-- Calls `end_that_request_first(req, uptodate)` and `end_that_request_last(req)`. -/
  | end_request (req : Nat) (uptodate : Nat)
  /-- Call `ll_rw_block(cmd, 1, &bh)` for the buffer of request `req`. -/
  | ll_rw_block (cmd : Nat) (req : Nat)
  | wake_asender
  | restart_receiver
  | panic
  /-- The parameter block that `drbd_send_param` hands to `drbd_send`. -/
  | report_params (p : Drbd_Parameter_P)
  /-- Call `set_blocksize(dev, blksize)`. -/
  | set_blocksize (dev : Nat) (blksize : Int)
  /-- Call `mops->init(dev)`. -/
  | mops_init (dev : Nat)
  /-- Call `fsync_dev(dev)`. -/
  | fsync_dev (dev : Nat)
  /-- Call `drbd_setup_sock(mdev)`, made in the role `state`. -/
  | setup_sock (state : Drbd_State)
  /-- Call `drbd_thread_start(&mdev->syncer)`. -/
  | thread_start_syncer
  /-- Calls `drbd_thread_stop` for syncer and asender, and `sock_release`. -/
  | sock_release
  /-- Call `bforget(bh)`. -/
  | bforget (bh : buffer_head)
deriving DecidableEq, Repr

/-- The global state the modelled functions work on: one device
(`drbd_conf[minor]`), the `static unsigned int br_cnt` of `tl_add_barrier`
(shared by all devices), the request structures by address, and the trace. -/
structure World where
  mdev : Drbd_Conf
  minor : Nat
  br_cnt : Nat
  reqs : Nat → request
  trace : List Event
  /-- Entry `blk_size[MAJOR_NR][minor]`, the size of the device in KB. -/
  blk_size : Nat := 0
  /-- The bytes of the meta-data file of the device, `none` while it does not
  exist. -/
  md_file : Option (List Nat) := none

/-! ## The transfer log -/

/-- Read a slot of the transfer log (`p->req`, `p->sector_nr`). -/
def tl_at (mdev : Drbd_Conf) (p : Nat) : Tl_entry :=
  mdev.transfer_log.getD p default

/-- Function `tl_add`, lines 496-545. -/
def tl_add (w : World) (new_item : Nat) : World :=
  let mdev := w.mdev
  let log := mdev.transfer_log.set mdev.tl_end
    { req := new_item, sector_nr := (w.reqs new_item).sector }
  let e1 := mdev.tl_end + 1
  let e2 := if e1 = mdev.tl_size then 0 else e1
  let tr := if e2 = mdev.tl_begin then [Event.printk Msg.transferlog_too_small] else []
  { w with mdev := { mdev with transfer_log := log, tl_end := e2 }, trace := w.trace ++ tr }

/-- Function `tl_add_barrier`, lines 547-575; returns the new world and `br_cnt`. -/
def tl_add_barrier (w : World) : World × Nat :=
  let mdev := w.mdev
  let c1 := (w.br_cnt + 1) % 2 ^ 32
  let c2 := if c1 = 0 then 1 else c1
  let log := mdev.transfer_log.set mdev.tl_end { req := TL_BARRIER, sector_nr := c2 }
  let e1 := mdev.tl_end + 1
  let e2 := if e1 = mdev.tl_size then 0 else e1
  let tr := if e2 = mdev.tl_begin then [Event.printk Msg.transferlog_too_small] else []
  ({ w with mdev := { mdev with transfer_log := log, tl_end := e2 }, br_cnt := c2,
            trace := w.trace ++ tr }, c2)

/-- Function `tl_init`, lines 578-583. -/
def tl_init (mdev : Drbd_Conf) : Drbd_Conf :=
  { mdev with tl_begin := 0, tl_end := 0 }

/-- The `do { ... } while (mdev->tl_begin->req != TL_BARRIER)` loop of
`tl_release`; `b` is `tl_begin`, `es` is `epoch_size`, `tr` the messages
printed so far. `none` when the loop has not ended after `fuel` rounds. -/
def tl_release_loop : Nat → Drbd_Conf → Nat → Int → List Event → Option (Nat × Int × List Event)
  | 0, _, _, _, _ => none
  | fuel + 1, mdev, b, es, tr =>
    let b1 := b + 1
    let b2 := if b1 = mdev.tl_size then 0 else b1
    let tr2 := if b2 = mdev.tl_end then tr ++ [Event.printk Msg.tl_messed_up] else tr
    let es2 := es + 1
    if (tl_at mdev b2).req ≠ TL_BARRIER then tl_release_loop fuel mdev b2 es2 tr2
    else some (b2, es2, tr2)

/-- Function `tl_release`, lines 585-624. `epoch_size` is an `int` and `set_size` an
`unsigned int`, so `epoch_size != set_size` compares modulo `2^32`. -/
def tl_release (fuel : Nat) (w : World) (barrier_nr set_size : Nat) : Option World :=
  let mdev := w.mdev
  let es0 : Int := if (tl_at mdev mdev.tl_begin).req = TL_BARRIER then -1 else 0
  match tl_release_loop fuel mdev mdev.tl_begin es0 [] with
  | none => none
  | some (b, es, tr) =>
    let mdev1 := { mdev with tl_begin := b }
    let found := (tl_at mdev1 b).sector_nr
    let tr1 := if found ≠ barrier_nr
      then tr ++ [Event.printk (Msg.invalid_barrier_number (found % 2 ^ 32) barrier_nr)] else tr
    let tr2 := if es % 2 ^ 32 ≠ (set_size : Int)
      then tr1 ++ [Event.printk (Msg.epoch_set_size_wrong es set_size)] else tr1
    some { w with mdev := mdev1, trace := w.trace ++ tr2 }

/-- The `while (TRUE)` loop of `tl_dependence`; `p` is the scan pointer.
`none` when the loop has not ended after `fuel` rounds. -/
def tl_dependence_loop : Nat → Drbd_Conf → Nat → Nat → Option Bool
  | 0, _, _, _ => none
  | fuel + 1, mdev, sect_nr, p =>
    if p = mdev.tl_begin then some false
    else
      let p1 := if p = 0 then p + mdev.tl_size else p
      if p = 0 ∧ p1 = mdev.tl_begin then some false
      else
        let p2 := p1 - 1
        if (tl_at mdev p2).req = TL_BARRIER then some false
        else if (tl_at mdev p2).sector_nr = sect_nr then some true
        else tl_dependence_loop fuel mdev sect_nr p2

/-- Function `tl_dependence`, lines 626-647. -/
def tl_dependence (fuel : Nat) (mdev : Drbd_Conf) (sect_nr : Nat) : Option Bool :=
  tl_dependence_loop fuel mdev sect_nr mdev.tl_end

/-! ## Flags, counters, sending -/

/-- Kernel `test_bit(nr, &flags)`. -/
def test_bit (nr flags : Nat) : Bool := flags.testBit nr

/-- Kernel `set_bit(nr, &flags)`. -/
def set_bit (nr flags : Nat) : Nat := flags ||| 2 ^ nr

/-- Kernel `clear_bit(nr, &flags)`. -/
def clear_bit (nr flags : Nat) : Nat := if flags.testBit nr then flags ^^^ 2 ^ nr else flags

/-- Function `set_cstate`, lines 809-813 (the wake-up is not represented). -/
def set_cstate (mdev : Drbd_Conf) (cs : Drbd_CState) : Drbd_Conf :=
  { mdev with cstate := cs }

/-- The decrement `x--` of an `unsigned int`: `0` wraps to `2^32 - 1`. -/
def u32_dec (x : Nat) : Nat :=
  if x % 2 ^ 32 = 0 then 2 ^ 32 - 1 else x % 2 ^ 32 - 1

/-- Function `inc_pending`, lines 815-822: `pending_cnt++` on an
`unsigned int`; the ack timer is not represented. -/
def inc_pending (mdev : Drbd_Conf) : Drbd_Conf :=
  { mdev with pending_cnt := (mdev.pending_cnt + 1) % 2 ^ 32 }

/-- Function `dec_pending`, lines 824-842: `pending_cnt--` on an
`unsigned int` (so the `< 0` diagnostic can never fire); timer and wake-up are
not represented. -/
def dec_pending (mdev : Drbd_Conf) : Drbd_Conf :=
  { mdev with pending_cnt := u32_dec mdev.pending_cnt }

/-- What the socket layer does with one `sock_sendmsg`: its return value, and
whether the send timer has signalled the caller (`DRBD_SIG` pending). -/
structure SendOutcome where
  err : Int
  signalled : Bool
deriving DecidableEq, Repr

/-- Function `drbd_send`, lines 1030-1118. `a` and `b` are the two fields of
the command-specific header (carried as values: the byte order conversions of
sender and receiver cancel, and `barrier` is converted by neither). -/
def drbd_send (w : World) (cmd : Drbd_Packet_Cmd) (a b : Nat) (header_size data_size : Nat)
    (o : SendOutcome) : World × Int :=
  let mdev := w.mdev
  if mdev.sock = false then (w, -1000)
  else if mdev.cstate.toNat < Drbd_CState.WFReportParams.toNat then (w, -1001)
  else
    let w1 := { w with trace := w.trace ++ [Event.send cmd a b header_size data_size o.err] }
    if mdev.timeout ≠ 0 ∧ o.signalled = true then
      ({ w1 with mdev := set_cstate mdev Drbd_CState.Timeout,
                 trace := w1.trace ++ [Event.printk Msg.send_timed_out, Event.restart_receiver] },
       -1002)
    else
      let w2 := if o.err ≠ ((header_size + data_size : Nat) : Int)
        then { w1 with trace := w1.trace ++ [Event.printk (Msg.sock_sendmsg_returned o.err)] }
        else w1
      if o.err < 0 then
        ({ w2 with mdev := set_cstate mdev Drbd_CState.BrokenPipe,
                   trace := w2.trace ++ [Event.restart_receiver] }, -1003)
      else (w2, o.err)

/-- Function `_drbd_send_barrier`, lines 903-918. -/
def _drbd_send_barrier (w : World) (o : SendOutcome) : World × Int :=
  let wb := tl_add_barrier w
  let ws := drbd_send wb.1 Drbd_Packet_Cmd.Barrier wb.2 0 sizeof_Drbd_Barrier_Packet 0 o
  if ws.2 = (sizeof_Drbd_Barrier_Packet : Int)
  then ({ ws.1 with mdev := inc_pending ws.1.mdev }, ws.2)
  else ws

/-- The statement
`if(test_and_clear_bit(ISSUE_BARRIER,&mdev->flags)) _drbd_send_barrier(mdev);`
of `drbd_try_send_barrier` (line 923) and of `drbd_send_data` (line 968). -/
def test_and_send_barrier (w : World) (o : SendOutcome) : World :=
  if test_bit ISSUE_BARRIER w.mdev.flags then
    (_drbd_send_barrier
      { w with mdev := { w.mdev with flags := clear_bit ISSUE_BARRIER w.mdev.flags } } o).1
  else w

/-- Function `drbd_try_send_barrier`, lines 920-927. -/
def drbd_try_send_barrier (w : World) (o : SendOutcome) : World :=
  test_and_send_barrier w o

/-- Lines 975-986 of `drbd_send_data`: what follows the send of the data
packet, `ret` being the value `drbd_send` returned. -/
def drbd_send_data_logged (w : World) (ret : Int) (data_size block_nr block_id : Nat) :
    World × Int :=
  if block_id ≠ ID_SYNCER then
    if ret = ((data_size + sizeof_Drbd_Data_Packet : Nat) : Int) then
      let w3 := tl_add w block_id
      let w4 := if w3.mdev.wire_protocol ≠ DRBD_PROT_A
        then { w3 with mdev := inc_pending w3.mdev } else w3
      (w4, ret)
    else
      ({ w with trace := w.trace ++
          [Event.set_block_status block_nr w.mdev.blk_size_b SS_OUT_OF_SYNC] }, 0)
  else (w, ret)

/-- Function `drbd_send_data`, lines 957-991. `ob` is the outcome of the
barrier's send (used only when a barrier is issued), `od` the outcome of the
data packet's send. -/
def drbd_send_data (w : World) (data_size block_nr block_id : Nat) (ob od : SendOutcome) :
    World × Int :=
  let ws := drbd_send (test_and_send_barrier w ob) Drbd_Packet_Cmd.Data block_nr block_id
    sizeof_Drbd_Data_Packet data_size od
  drbd_send_data_logged ws.1 ws.2 data_size block_nr block_id

/-! ## Request completion -/

/-- The request memory with the structure at address `a` replaced by `v`. -/
def req_update (f : Nat → request) (a : Nat) (v : request) : Nat → request :=
  fun x => if x = a then v else f x

/-- The assignment `req->rq_status = v`. -/
def set_rq_status (w : World) (req v : Nat) : World :=
  { w with reqs := req_update w.reqs req { w.reqs req with rq_status := v } }

/-- Modelled from the spec: `end_that_request_first` followed by
`end_that_request_last` of the block layer (kernel functions, not part of the
repository) for a request of one buffer: the completion with its success flag
is handed to the submitter and the request structure becomes `RQ_INACTIVE`. -/
def end_that_request (w : World) (req : Nat) (uptodate : Nat) : World :=
  { set_rq_status w req RQ_INACTIVE with trace := w.trace ++ [Event.end_request req uptodate] }

/-- The part of `drbd_end_req` from the label `end_it_unlocked` on, lines
1210-1235. A `panic` ends the function. -/
def end_it_unlocked (fuel : Nat) (w : World) (req uptodate : Nat) (wake_asender : Bool) :
    Option World :=
  let mdev := w.mdev
  let dep := if mdev.state = Drbd_State.Primary ∧
      Drbd_CState.Connected.toNat ≤ mdev.cstate.toNat
    then tl_dependence fuel mdev (w.reqs req).sector else some false
  match dep with
  | none => none
  | some d =>
    let w1 := if d then { w with mdev := { mdev with flags := set_bit ISSUE_BARRIER mdev.flags } }
      else w
    let wake := wake_asender || d
    let w2 := end_that_request w1 req (uptodate &&& (w1.reqs req).rq_status)
    if mdev.do_panic = true ∧ (uptodate &&& (w2.reqs req).rq_status) = 0 then
      some { w2 with trace := w2.trace ++ [Event.panic] }
    else if wake then some { w2 with trace := w2.trace ++ [Event.wake_asender] }
    else some w2

/-- Function `drbd_end_req`, lines 1156-1236. -/
def drbd_end_req (fuel : Nat) (w : World) (req nextstate uptodate : Nat) : Option World :=
  let r := w.reqs req
  if r.cmd = READ then end_it_unlocked fuel w req uptodate false
  else
    let st := r.rq_status &&& 0xfffe
    if st = RQ_DRBD_SEC_WRITE then end_it_unlocked fuel w req uptodate true
    else if st = RQ_DRBD_NOTHING then
      some (set_rq_status w req (nextstate ||| (if uptodate ≠ 0 then 1 else 0)))
    else if st = RQ_DRBD_SENT then
      if nextstate = RQ_DRBD_WRITTEN then end_it_unlocked fuel w req uptodate false
      else some { w with trace := w.trace ++ [Event.printk Msg.request_state_error_A] }
    else if st = RQ_DRBD_WRITTEN then
      if nextstate = RQ_DRBD_SENT then end_it_unlocked fuel w req uptodate false
      else some { w with trace := w.trace ++ [Event.printk Msg.request_state_error_B] }
    else some { w with trace := w.trace ++ [Event.printk (Msg.request_state_error r.rq_status)] }

/-- Function `drbd_dio_end`, lines 1238-1246: `bh->b_dev_id` is the request. -/
def drbd_dio_end (fuel : Nat) (w : World) (req uptodate : Nat) : Option World :=
  drbd_end_req fuel w req RQ_DRBD_WRITTEN uptodate

/-- The body of the `while` loop of `tl_clear`, lines 659-685, for the entry
`e` that `p` points to; `f0` is the fuel handed to `drbd_end_req`. -/
def tl_clear_body (f0 : Nat) (end_them : Bool) (w : World) (e : Tl_entry) : Option World :=
  if e.req ≠ TL_BARRIER then
    let w1 : World := { w with trace := w.trace ++
      [Event.set_block_status (e.sector_nr >>> (w.mdev.blk_size_b - 9)) w.mdev.blk_size_b
        SS_OUT_OF_SYNC] }
    let r := w1.reqs e.req
    if end_them = true ∧ r.rq_status ≠ RQ_INACTIVE ∧ r.rq_dev = MKDEV MAJOR_NR w.minor ∧
        r.sector = e.sector_nr then
      match drbd_end_req f0 w1 e.req RQ_DRBD_SENT 1 with
      | none => none
      | some w2 =>
        some { w2 with mdev := { w2.mdev with pending_cnt := u32_dec w2.mdev.pending_cnt } }
    else some w1
  else some w

/-- The `while (p != mdev->tl_end)` loop of `tl_clear`, lines 658-689. -/
def tl_clear_loop (f0 : Nat) (end_them : Bool) : Nat → World → Nat → Option World
  | 0, _, _ => none
  | fuel + 1, w, p =>
    if p = w.mdev.tl_end then some w
    else
      match tl_clear_body f0 end_them w (tl_at w.mdev p) with
      | none => none
      | some w1 =>
        tl_clear_loop f0 end_them fuel w1 (if p + 1 = w1.mdev.tl_size then 0 else p + 1)

/-- Function `tl_clear`, lines 649-692. -/
def tl_clear (fuel : Nat) (w : World) : Option World :=
  let end_them := decide (w.mdev.wire_protocol = DRBD_PROT_B ∨
    w.mdev.wire_protocol = DRBD_PROT_C)
  match tl_clear_loop fuel end_them fuel w w.mdev.tl_begin with
  | none => none
  | some w1 => some { w1 with mdev := tl_init w1.mdev }

/-! ## The request function and the receiver, Primary side -/

/-- The test of `drbd_do_request`, lines 1325-1330, whether the request is
sent to the peer. -/
def drbd_do_request_sending (w : World) (req : Nat) : Bool :=
  decide ((w.reqs req).cmd = WRITE ∧ w.mdev.state = Drbd_State.Primary ∧
    Drbd_CState.Connected.toNat ≤ w.mdev.cstate.toNat ∧ w.mdev.synced_to ≤ (w.reqs req).sector)

/-- The block "Do disk - IO" of `drbd_do_request`, lines 1332-1386, once the
buffer head is allocated. -/
def drbd_do_request_disk (w : World) (req : Nat) : World :=
  let mdev := w.mdev
  let r := w.reqs req
  let sending := drbd_do_request_sending w req
  let size_kb := 1 <<< (mdev.blk_size_b - 10)
  let mdev1 := if r.cmd = WRITE
    then { mdev with writ_cnt := (mdev.writ_cnt + size_kb) % 2 ^ 32 }
    else { mdev with read_cnt := (mdev.read_cnt + size_kb) % 2 ^ 32 }
  let st : Nat :=
    if sending then RQ_DRBD_NOTHING
    else if r.cmd = WRITE then
      (if mdev.state = Drbd_State.Secondary then RQ_DRBD_SEC_WRITE ||| 1 else RQ_DRBD_SENT ||| 1)
    else RQ_DRBD_READ ||| 1
  let tr : List Event :=
    if sending = false ∧ r.cmd = WRITE ∧ mdev.state ≠ Drbd_State.Secondary then
      [Event.set_block_status (r.sector >>> (mdev.blk_size_b - 9)) mdev.blk_size_b
        SS_OUT_OF_SYNC]
    else []
  { set_rq_status w req st with
    mdev := mdev1, trace := w.trace ++ tr ++ [Event.ll_rw_block r.cmd req] }

/-- The block "Send it out to the network" of `drbd_do_request`, lines
1388-1409. -/
def drbd_do_request_net (fuel : Nat) (w : World) (req : Nat) (ob od : SendOutcome) :
    Option World :=
  let r := w.reqs req
  let bnr := r.sector >>> (w.mdev.blk_size_b - 9)
  let ws := drbd_send_data w (r.current_nr_sectors <<< 9) bnr req ob od
  let w3 : World := if ws.2 ≠ 0
    then { ws.1 with mdev := { ws.1.mdev with
             send_cnt := (ws.1.mdev.send_cnt + (r.current_nr_sectors <<< 1)) % 2 ^ 32 } }
    else ws.1
  if w3.mdev.wire_protocol = DRBD_PROT_A ∨ ws.2 = 0 then
    drbd_end_req fuel w3 req RQ_DRBD_SENT 1
  else some w3

/-- One round of the `while (TRUE)` loop of `drbd_do_request`, lines 1298-1411,
for the request `req` taken from the queue. `kmalloc_ok` tells whether the
buffer head could be allocated; `ob`, `od` are the send outcomes handed to
`drbd_send_data`. The re-read of the kernel's `blksize_size` table at the top
of the function is outside the model (the block size stays `blk_size_b`). -/
def drbd_do_request (fuel : Nat) (w : World) (req : Nat) (kmalloc_ok : Bool)
    (ob od : SendOutcome) : Option World :=
  if kmalloc_ok = false then
    some { w with trace := w.trace ++ [Event.printk Msg.could_not_kmalloc] }
  else if drbd_do_request_sending w req then
    drbd_do_request_net fuel (drbd_do_request_disk w req) req ob od
  else some (drbd_do_request_disk w req)

/-- Function `receive_block_ack`, lines 2493-2522. `header` is what `drbd_recv`
delivered (`block_nr`, `block_id`), `none` when it failed. -/
def receive_block_ack (fuel : Nat) (w : World) (header : Option (Nat × Nat)) :
    Option (World × Bool) :=
  let w0 : World := if w.mdev.state ≠ Drbd_State.Primary
    then { w with trace := w.trace ++ [Event.printk Msg.got_blk_ack_while_not_PRI] } else w
  match header with
  | none => some (w0, false)
  | some (block_nr, block_id) =>
    if block_id = ID_SYNCER then
      some ({ w0 with trace := w0.trace ++
        [Event.set_block_status block_nr w0.mdev.blk_size_b SS_IN_SYNC] }, true)
    else
      match drbd_end_req fuel w0 block_id RQ_DRBD_SENT 1 with
      | none => none
      | some w1 =>
        some (if w1.mdev.wire_protocol ≠ DRBD_PROT_A
          then { w1 with mdev := dec_pending w1.mdev } else w1, true)

/-- Function `receive_barrier_ack`, lines 2524-2542. `header` is what
`drbd_recv` delivered (`barrier`, `set_size`), `none` when it failed. -/
def receive_barrier_ack (fuel : Nat) (w : World) (header : Option (Nat × Nat)) :
    Option (World × Bool) :=
  let w0 : World := if w.mdev.state ≠ Drbd_State.Primary
    then { w with trace := w.trace ++ [Event.printk Msg.got_barrier_ack_while_not_PRI] } else w
  match header with
  | none => some (w0, false)
  | some (barrier, set_size) =>
    match tl_release fuel w0 barrier set_size with
    | none => none
    | some w1 => some ({ w1 with mdev := dec_pending w1.mdev }, true)

/-! ## The receiver, Secondary side -/

/-- The loop of `drbd_log2`, lines 457-461. -/
def drbd_log2_loop : Nat → Int → Int → Int → Option Int
  | 0, _, _, _ => none
  | fuel + 1, i, bits, add_one =>
    if i = 1 then some (bits + add_one)
    else drbd_log2_loop fuel (i >>> 1) (bits + 1) (if i % 2 = 1 then 1 else add_one)

/-- Function `drbd_log2`, lines 452-463; `none` when the loop has not ended
after `fuel` rounds. -/
def drbd_log2 (fuel : Nat) (i : Int) : Option Int :=
  drbd_log2_loop fuel i 0 0

/-- Function `inc_unacked`, lines 2275-2282 (`unsigned int`, timer not
represented). -/
def inc_unacked (mdev : Drbd_Conf) : Drbd_Conf :=
  { mdev with unacked_cnt := (mdev.unacked_cnt + 1) % 2 ^ 32 }

/-- Function `dec_unacked`, lines 2284-2302 (`unsigned int`, timer and wake-up
not represented). -/
def dec_unacked (mdev : Drbd_Conf) : Drbd_Conf :=
  { mdev with unacked_cnt := u32_dec mdev.unacked_cnt }

/-- Function `drbd_send_b_ack`, lines 929-940. -/
def drbd_send_b_ack (w : World) (barrier_nr set_size : Nat) (o : SendOutcome) : World × Int :=
  drbd_send w Drbd_Packet_Cmd.BarrierAck barrier_nr set_size sizeof_Drbd_BarrierAck_Packet 0 o

/-- Function `drbd_send_ack`, lines 943-955. -/
def drbd_send_ack (w : World) (cmd : Drbd_Packet_Cmd) (block_nr block_id : Nat)
    (o : SendOutcome) : World × Int :=
  drbd_send w cmd block_nr block_id sizeof_Drbd_BlockAck_Packet 0 o

/-- The `for` loop of `receive_barrier` over the epoch set, lines 2329-2351:
`n` rounds are left, `i` is the index. Waiting on the buffer makes it
up to date; `o i` is the outcome of the send in round `i`. -/
def receive_barrier_loop (o : Nat → SendOutcome) : Nat → Nat → World → World
  | 0, _, w => w
  | n + 1, i, w =>
    let e := w.mdev.epoch_set.getD i default
    let bh1 : buffer_head := { e.bh with uptodate := true }
    if w.mdev.wire_protocol = DRBD_PROT_C ∧ e.block_id ≠ 0 then
      let w1 : World := { w with mdev := { w.mdev with
        epoch_set := w.mdev.epoch_set.set i { bh := bh1, block_id := 0 } } }
      let ws := drbd_send_ack w1 Drbd_Packet_Cmd.WriteAck e.bh.b_blocknr e.block_id (o i)
      receive_barrier_loop o n (i + 1) { ws.1 with mdev := dec_unacked ws.1.mdev }
    else
      receive_barrier_loop o n (i + 1) { w with mdev := { w.mdev with
        epoch_set := w.mdev.epoch_set.set i { e with bh := bh1 } } }

/-- Function `receive_barrier`, lines 2305-2360. `header` is the barrier number
`drbd_recv` delivered, `none` when it failed; `o i` is the outcome of the
`i`-th WriteAck's send and `o ep_size` the one of the BarrierAck. -/
def receive_barrier (w : World) (header : Option Nat) (o : Nat → SendOutcome) : World × Bool :=
  let w0 : World := if w.mdev.state ≠ Drbd_State.Secondary
    then { w with trace := w.trace ++ [Event.printk Msg.got_barrier_while_not_SEC] } else w
  match header with
  | none => (w0, false)
  | some barrier =>
    let w1 : World := { w0 with mdev := inc_unacked w0.mdev }
    let ep_size := w1.mdev.epoch_size
    let w2 := receive_barrier_loop o ep_size 0 w1
    let w3 : World := { w2 with mdev := { w2.mdev with epoch_size := 0, epoch_set := [] } }
    let ws := drbd_send_b_ack w3 barrier ep_size (o ep_size)
    ({ ws.1 with mdev := dec_unacked ws.1.mdev }, true)

/-- The search of `receive_data` for a slot of the sync log, lines 2424-2440:
the first slot that is empty or holds a buffer whose write has completed; in
the second case the block number of the replaced buffer is returned for the
WriteAck. `none` when there is no such slot. -/
def sync_log_insert (bh : buffer_head) :
    List (Option buffer_head) → Option (List (Option buffer_head) × Option Nat)
  | [] => none
  | none :: t => some (some bh :: t, none)
  | some b :: t =>
    if b.uptodate then some (some bh :: t, some b.b_blocknr)
    else (sync_log_insert bh t).map (fun r => (some b :: r.1, r.2))

/-- What `drbd_recv` and `getblk` deliver during one `receive_data`: the header
(`block_nr`, `block_id`; `none` when the receive failed), whether `getblk`
returned a buffer, whether the payload arrived. -/
structure RecvData where
  header : Option (Nat × Nat)
  getblk_ok : Bool
  payload_ok : Bool
deriving DecidableEq, Repr

/-- Function `receive_data`, lines 2362-2491. The new buffer is entered as not
up to date (`mark_buffer_uptodate(bh, 0)`); `o` is the outcome of the one
acknowledgement the function may send. `none` when `drbd_log2` does not return
within `fuel` rounds. -/
def receive_data (fuel : Nat) (w : World) (data_size : Nat) (rd : RecvData) (o : SendOutcome) :
    Option (World × Bool) :=
  let w0 : World := if w.mdev.state ≠ Drbd_State.Secondary
    then { w with trace := w.trace ++ [Event.printk Msg.got_data_while_not_SEC] } else w
  match rd.header with
  | none => some (w0, false)
  | some (block_nr, block_id) =>
    let w1? : Option World :=
      if data_size ≠ 1 <<< w0.mdev.blk_size_b then
        match drbd_log2 fuel data_size with
        | none => none
        | some b =>
          let m0 : Drbd_Conf := { w0.mdev with blk_size_b := b.toNat }
          some { w0 with mdev := m0, trace := w0.trace ++ [Event.printk (Msg.blksize data_size)] }
      else some w0
    match w1? with
    | none => none
    | some w1 =>
      if rd.getblk_ok = false then
        some ({ w1 with trace := w1.trace ++ [Event.printk Msg.getblk_failed] }, false)
      else
        let bh : buffer_head := { b_blocknr := block_nr, uptodate := false }
        let w2 : World :=
          if block_id ≠ ID_SYNCER then
            let ep_size := w1.mdev.epoch_size
            let m1 : Drbd_Conf := { w1.mdev with
              epoch_set := w1.mdev.epoch_set.take ep_size ++ [{ bh := bh, block_id := block_id }],
              epoch_size := ep_size + 1 }
            let tr := if m1.tl_size < ep_size + 1 then [Event.printk Msg.tl_size_too_small] else []
            let m2 := if m1.wire_protocol ≠ DRBD_PROT_A then inc_unacked m1 else m1
            { w1 with mdev := m2, trace := w1.trace ++ tr }
          else
            match sync_log_insert bh w1.mdev.sync_log with
            | none => { w1 with trace := w1.trace ++ [Event.printk Msg.SYNC_LOG_S_too_small] }
            | some (sl, none) => { w1 with mdev := { w1.mdev with sync_log := sl } }
            | some (sl, some bnr) =>
              (drbd_send_ack { w1 with mdev := { w1.mdev with sync_log := sl } }
                Drbd_Packet_Cmd.WriteAck bnr ID_SYNCER o).1
        if rd.payload_ok = false then some (w2, false)
        else
          let w3 : World :=
            if w2.mdev.wire_protocol = DRBD_PROT_B ∧ block_id ≠ ID_SYNCER then
              let ws := drbd_send_ack w2 Drbd_Packet_Cmd.RecvAck block_nr block_id o
              { ws.1 with mdev := dec_unacked ws.1.mdev }
            else w2
          let m3 : Drbd_Conf :=
            { w3.mdev with recv_cnt := (w3.mdev.recv_cnt + (data_size >>> 10)) % 2 ^ 32 }
          some ({ w3 with mdev := m3,
                          trace := w3.trace ++ [Event.ll_rw_block WRITE block_nr] }, true)

/-! ## Executions on the Primary -/

/-- One round of the loop of `ds_buffer_send`, lines 3039-3048: the syncer
hands one block to `drbd_send_data` with `ID_SYNCER`. -/
def ds_buffer_send_one (w : World) (blocksize block_nr : Nat) (ob od : SendOutcome) : World :=
  let ws := drbd_send_data w blocksize block_nr ID_SYNCER ob od
  if ws.2 < (blocksize : Int) then
    { ws.1 with trace := ws.1.trace ++ [Event.printk Msg.syncer_send_failed] }
  else
    { ws.1 with mdev := { ws.1.mdev with
        send_cnt := (ws.1.mdev.send_cnt + (blocksize >>> 10)) % 2 ^ 32 } }

/-- What can happen to the Primary: the block layer fills the request
structure at `req` with `r` and `drbd_do_request` takes it from the queue; the
lower device finishes the write of a request (`drbd_dio_end`); the receiver
reads a RecvAck/WriteAck or a BarrierAck; the asender runs
(`drbd_try_send_barrier`); the syncer sends a block; the receiver leaves its
loop and clears the log (`tl_clear`). -/
inductive Action where
  | do_request (req : Nat) (r : request) (kmalloc_ok : Bool) (ob od : SendOutcome)
  | dio_end (req uptodate : Nat)
  | block_ack (block_nr block_id : Nat)
  | barrier_ack (barrier set_size : Nat)
  | asender (o : SendOutcome)
  | sync_data (blocksize block_nr : Nat) (ob od : SendOutcome)
  | tl_clear
deriving DecidableEq, Repr

/-- The effect of one action; `none` when a loop does not end within `fuel`
rounds. -/
def exec (fuel : Nat) (w : World) : Action → Option World
  | Action.do_request req r k ob od =>
    drbd_do_request fuel { w with reqs := req_update w.reqs req r } req k ob od
  | Action.dio_end req uptodate => drbd_dio_end fuel w req uptodate
  | Action.block_ack block_nr block_id =>
    (receive_block_ack fuel w (some (block_nr, block_id))).map (fun x => x.1)
  | Action.barrier_ack barrier set_size =>
    (receive_barrier_ack fuel w (some (barrier, set_size))).map (fun x => x.1)
  | Action.asender o => some (drbd_try_send_barrier w o)
  | Action.sync_data blocksize block_nr ob od =>
    some (ds_buffer_send_one w blocksize block_nr ob od)
  | Action.tl_clear => tl_clear fuel w

/-- A sequence of actions, oldest first. -/
def run (fuel : Nat) : List Action → World → Option World
  | [], w => some w
  | a :: as, w =>
    match exec fuel w a with
    | none => none
    | some w1 => run fuel as w1

/-! ## Meta data -/

/-- Kernel `cpu_to_be32`: the four bytes of a 32-bit word in network byte
order. -/
def cpu_to_be32 (x : Nat) : List Nat :=
  [x / 2 ^ 24 % 256, x / 2 ^ 16 % 256, x / 2 ^ 8 % 256, x % 256]

/-- Kernel `be32_to_cpu`: the 32-bit word that four bytes in network byte order
stand for. -/
def be32_to_cpu (b : List Nat) : Nat :=
  ((b.getD 0 0 * 256 + b.getD 1 0) * 256 + b.getD 2 0) * 256 + b.getD 3 0

/-- The conversion of a 32-bit pattern to `int`. -/
def to_int32 (x : Nat) : Int :=
  if x % 2 ^ 32 < 2 ^ 31 then ((x % 2 ^ 32 : Nat) : Int) else ((x % 2 ^ 32 : Nat) : Int) - 2 ^ 32

/-- The 24 bytes `u32 buffer[6]` that `drbd_md_write` builds from the counters
`g`, lines 3450-3452. -/
def md_buffer (g : List Nat) : List Nat :=
  ((List.range (PrimaryInd + 1)).map (fun i => cpu_to_be32 (g.getD i 0))).flatten ++
    cpu_to_be32 DRBD_MAGIC

/-- Function `drbd_md_write`, lines 3439-3470. `res` is what the file system
does: `none` when `filp_open` fails, else the value the `write` operation
returns (the file then holds that many bytes of the buffer). -/
def drbd_md_write (w : World) (res : Option Int) : World :=
  let g := w.mdev.gen_cnt.set PrimaryInd (if w.mdev.state = Drbd_State.Primary then 1 else 0)
  let w1 : World := { w with mdev := { w.mdev with gen_cnt := g } }
  match res with
  | none => { w1 with trace := w1.trace ++ [Event.printk Msg.error_writing_state_file] }
  | some i =>
    let w2 : World := { w1 with md_file := some ((md_buffer g).take i.toNat) }
    if i = 24 then w2
    else { w2 with trace := w2.trace ++ [Event.printk Msg.error_writing_state_file] }

/-- Function `drbd_md_inc`, lines 3545-3549: `gen_cnt[order]++` on a `u32`. -/
def drbd_md_inc (w : World) (order : Nat) (res : Option Int) : World :=
  let g := w.mdev.gen_cnt.set order ((w.mdev.gen_cnt.getD order 0 + 1) % 2 ^ 32)
  drbd_md_write { w with mdev := { w.mdev with gen_cnt := g } } res

/-- The `for` loop of `drbd_md_compare`, lines 3519-3525, over the indices
that are left. -/
def drbd_md_compare_loop (mdev : Drbd_Conf) (partner : Drbd_Parameter_P) : List Nat → Int
  | [] => 0
  | i :: rest =>
    let me := mdev.gen_cnt.getD i 0
    let other := partner.gen_cnt.getD i 0
    if me > other then 1
    else if me < other then -1
    else drbd_md_compare_loop mdev partner rest

/-- Function `drbd_md_compare`, lines 3514-3526. -/
def drbd_md_compare (mdev : Drbd_Conf) (partner : Drbd_Parameter_P) : Int :=
  drbd_md_compare_loop mdev partner (List.range' 0 (PrimaryInd + 1))

/-- The `for` loop of `drbd_md_syncq_ok`, lines 3537-3542, over the indices
that are left. -/
def drbd_md_syncq_ok_loop (mdev : Drbd_Conf) (partner : Drbd_Parameter_P) : List Nat → Int
  | [] => 1
  | i :: rest =>
    let me := mdev.bit_map_gen.getD i 0
    let other := partner.gen_cnt.getD i 0
    if me ≠ other then 0 else drbd_md_syncq_ok_loop mdev partner rest

/-- Function `drbd_md_syncq_ok`, lines 3531-3543. -/
def drbd_md_syncq_ok (mdev : Drbd_Conf) (partner : Drbd_Parameter_P) : Int :=
  if partner.gen_cnt.getD PrimaryInd 0 = 1 then 0
  else drbd_md_syncq_ok_loop mdev partner (List.range' HumanCnt (ArbitraryCnt + 1 - HumanCnt))

/-! ## Role changes and the handshake -/

/-- Bit number of `WRITER_PRESENT` in `mdev->flags`. -/
def WRITER_PRESENT : Nat := 3

/-- Kernel errno `EINTR`. -/
def EINTR : Int := 4

/-- Kernel errno `EBUSY`. -/
def EBUSY : Int := 16

/-- Kernel errno `EINPROGRESS`. -/
def EINPROGRESS : Int := 115

/-- Modelled from the spec: the values `drbd_set_state` is called with, the two
roles and `PRIMARY_PLUS` (`primary --force`, §3), whose declaration is in the
missing header. -/
inductive Drbd_NewState where
  | Primary
  | Secondary
  | PRIMARY_PLUS
deriving DecidableEq, Repr, Inhabited

/-- Modelled from the spec: the role `(Drbd_State) newstate & 0x03`;
`PRIMARY_PLUS` is Primary with a bit above the two low ones. -/
def Drbd_NewState.role : Drbd_NewState → Drbd_State
  | .Primary => Drbd_State.Primary
  | .Secondary => Drbd_State.Secondary
  | .PRIMARY_PLUS => Drbd_State.Primary

/-- What the surroundings of `receive_param` and `drbd_set_state` deliver:
`ll_size` is the entry `blk_size[MAJOR(ll_dev)][MINOR(ll_dev)]` (`none` when the
table `blk_size[MAJOR(ll_dev)]` is `NULL`), `mops_init` whether `mops->init`
returned a bitmap, `sleeps` the values of `pending_cnt`, `unacked_cnt` and
`signal_pending(current)` found after each `interruptible_sleep_on`, `md_inc`
and `md_adopt` the outcomes of the two meta-data writes, `uninit` the stack
word that `param.h.size` keeps when it is not assigned, `o_param` and
`o_cstate` the outcomes of the sends of `ReportParams` and `CStateChanged`. -/
structure ParamEnv where
  ll_size : Option Nat
  mops_init : Bool
  sleeps : List (Nat × Nat × Bool)
  md_inc : Option Int
  md_adopt : Option Int
  uninit : Nat
  o_param : SendOutcome
  o_cstate : SendOutcome

/-- Lines 862-875 of `drbd_send_param`: the parameter block that is sent.
`MOD_VERSION` is a constant of the build (its definition is not part of the
repository); `uninit` is what `param.h.size` holds when it is not assigned. -/
def drbd_send_param_block (MOD_VERSION : Nat) (w : World) (ll_size : Option Nat)
    (uninit : Nat) : Drbd_Parameter_P :=
  ⟨ll_size.getD uninit, (1 <<< w.mdev.blk_size_b) % 2 ^ 32, w.mdev.state,
    w.mdev.wire_protocol, MOD_VERSION,
    (List.range (PrimaryInd + 1)).map (fun i => w.mdev.gen_cnt.getD i 0)⟩

/-- Function `drbd_send_param`, lines 856-887. The comparison
`err < sizeof(Drbd_Parameter_Packet)` is made in the unsigned type of `sizeof`,
so a negative `err` is not below it. -/
def drbd_send_param (MOD_VERSION : Nat) (w : World) (ll_size : Option Nat) (uninit : Nat)
    (o : SendOutcome) : World × Int :=
  let w0 : World := if ll_size = none
    then { w with trace := w.trace ++ [Event.printk Msg.ll_device_has_no_size] } else w
  let p := drbd_send_param_block MOD_VERSION w ll_size uninit
  let ws := drbd_send { w0 with trace := w0.trace ++ [Event.report_params p] }
    Drbd_Packet_Cmd.ReportParams 0 0 sizeof_Drbd_Parameter_Packet 0 o
  if 0 ≤ ws.2 ∧ ws.2 < (sizeof_Drbd_Parameter_Packet : Int) then
    ({ ws.1 with trace := ws.1.trace ++
        [Event.printk Msg.sending_of_parameter_block_failed] }, ws.2)
  else ws

/-- Function `drbd_send_cstate`, lines 889-901. -/
def drbd_send_cstate (w : World) (o : SendOutcome) : World × Int :=
  drbd_send w Drbd_Packet_Cmd.CStateChanged w.mdev.cstate.toNat 0 sizeof_Drbd_CState_Packet 0 o

/-- The loop `while (pending_cnt > 0 || unacked_cnt > 0)` of `drbd_set_state`,
lines 1636-1651. Each sleep lets the other threads run: the counters found
afterwards and whether a signal is pending come from `sleeps`. The result
tells whether the loop was left by `return -EINTR`; `none` stands for a
sleeper that is never woken. -/
def drbd_set_state_wait : List (Nat × Nat × Bool) → World → Option (World × Bool)
  | [], w => if 0 < w.mdev.pending_cnt ∨ 0 < w.mdev.unacked_cnt then none else some (w, false)
  | (p, u, sig) :: rest, w =>
    if 0 < w.mdev.pending_cnt ∨ 0 < w.mdev.unacked_cnt then
      let w1 : World := { w with
        mdev := { w.mdev with pending_cnt := p, unacked_cnt := u },
        trace := w.trace ++ [Event.printk (Msg.set_state w.mdev.state w.mdev.pending_cnt
          w.mdev.unacked_cnt w.mdev.epoch_size)] }
      if sig then some (w1, true) else drbd_set_state_wait rest w1
    else some (w, false)

/-- Line 1653 of `drbd_set_state`: a forced promotion counts as a human
intervention. -/
def drbd_set_state_human (w : World) (newstate : Drbd_NewState) (env : ParamEnv) : World :=
  if newstate = Drbd_NewState.PRIMARY_PLUS then drbd_md_inc w HumanCnt env.md_inc else w

/-- Lines 1654-1657 of `drbd_set_state`: a promotion is counted. -/
def drbd_set_state_count (w : World) (newstate : Drbd_NewState) (env : ParamEnv) : World :=
  if newstate = Drbd_NewState.Primary then
    drbd_md_inc w (if Drbd_CState.Connected.toNat ≤ w.mdev.cstate.toNat
      then ConnectedCnt else ArbitraryCnt) env.md_inc
  else w

/-- Lines 1659-1660 of `drbd_set_state`. -/
def drbd_set_state_sock (w : World) : World :=
  if w.mdev.sock = true
  then { w with trace := w.trace ++ [Event.setup_sock w.mdev.state] } else w

/-- Lines 1662-1663 of `drbd_set_state`: the peer is told. -/
def drbd_set_state_report (MOD_VERSION : Nat) (w : World) (env : ParamEnv) : World :=
  if Drbd_CState.WFReportParams.toNat ≤ w.mdev.cstate.toNat
  then (drbd_send_param MOD_VERSION w env.ll_size env.uninit env.o_param).1 else w

/-- Lines 1652-1665 of `drbd_set_state`: the role is changed. -/
def drbd_set_state_commit (MOD_VERSION : Nat) (w : World) (newstate : Drbd_NewState)
    (env : ParamEnv) : World :=
  let w3 : World := { w with mdev := { w.mdev with state := newstate.role } }
  drbd_set_state_report MOD_VERSION
    (drbd_set_state_sock (drbd_set_state_count (drbd_set_state_human w3 newstate env)
      newstate env)) env

/-- Function `drbd_set_state`, lines 1602-1666. -/
def drbd_set_state (MOD_VERSION : Nat) (w : World) (newstate : Drbd_NewState)
    (env : ParamEnv) : Option (World × Int) :=
  if newstate ≠ Drbd_NewState.PRIMARY_PLUS ∧ newstate.role = w.mdev.state then some (w, 0)
  else if w.mdev.cstate = Drbd_CState.SyncingAll ∨ w.mdev.cstate = Drbd_CState.SyncingQuick then
    some (w, -EINPROGRESS)
  else if test_bit WRITER_PRESENT w.mdev.flags = true ∧ newstate = Drbd_NewState.Secondary then
    some (w, -EBUSY)
  else
    match drbd_set_state_wait env.sleeps
        { w with trace := w.trace ++ [Event.fsync_dev (MKDEV MAJOR_NR w.minor)] } with
    | none => none
    | some (w2, true) => some (w2, -EINTR)
    | some (w2, false) => some (drbd_set_state_commit MOD_VERSION w2 newstate env, 0)

/-- Lines 2630-2634 of `receive_param`: the tie-break of two Secondaries. -/
def receive_param_tie_break (MOD_VERSION : Nat) (w : World) (param : Drbd_Parameter_P)
    (env : ParamEnv) : Option World :=
  if param.state = Drbd_State.Secondary ∧ w.mdev.state = Drbd_State.Secondary then
    if drbd_md_compare w.mdev param = 1 then
      (drbd_set_state MOD_VERSION w Drbd_NewState.Primary env).map Prod.fst
    else some w
  else some w

/-- Lines 2636-2644 of `receive_param`: the choice of the connection state. -/
def receive_param_sync (w : World) (param : Drbd_Parameter_P) (env : ParamEnv) : World :=
  if w.mdev.state = Drbd_State.Primary ∧ w.mdev.skip_sync = false then
    let cs := if drbd_md_syncq_ok w.mdev param ≠ 0 then Drbd_CState.SyncingQuick
      else Drbd_CState.SyncingAll
    let ws := drbd_send_cstate { w with mdev := set_cstate w.mdev cs } env.o_cstate
    { ws.1 with trace := ws.1.trace ++ [Event.thread_start_syncer] }
  else { w with mdev := set_cstate w.mdev Drbd_CState.Connected }

/-- Lines 2648-2656 of `receive_param`: a Secondary adopts the counters of the
Primary. -/
def receive_param_adopt (w : World) (param : Drbd_Parameter_P) (env : ParamEnv) : World :=
  if w.mdev.state = Drbd_State.Secondary then
    let g := (List.range (PrimaryInd + 1)).map (fun i => param.gen_cnt.getD i 0)
    drbd_md_write { w with mdev := { w.mdev with gen_cnt := g } } env.md_adopt
  else w

/-- The three early exits of `receive_param`, lines 2558-2580, that end the
connection for good. -/
def receive_param_reject (w : World) (m : Msg) : World :=
  let mdev : Drbd_Conf := { set_cstate w.mdev Drbd_CState.StandAllone with
    receiver_t_state := Drbd_thread_state.Exiting }
  { w with mdev := mdev, trace := w.trace ++ [Event.printk m] }

/-- Lines 2604-2610 of `receive_param`: the block size both sides use. The
`max` of a `u32` and an `int` is taken in the unsigned type. -/
def receive_param_blksize (mdev : Drbd_Conf) (param : Drbd_Parameter_P) : Int :=
  if mdev.state = Drbd_State.Primary then to_int32 (1 <<< mdev.blk_size_b)
  else if param.state = Drbd_State.Primary then to_int32 param.blksize
  else to_int32 (max (param.blksize % 2 ^ 32) ((1 <<< mdev.blk_size_b) % 2 ^ 32))

/-- Lines 2612-2614 of `receive_param`: the block size is set, `b` being the
value of `drbd_log2(blksize)`. -/
def receive_param_set_blksize (w : World) (blksize b : Int) : World :=
  { w with
    mdev := { w.mdev with blk_size_b := b.toNat },
    trace := w.trace ++ [Event.set_blocksize (MKDEV MAJOR_NR w.minor) blksize,
      Event.set_blocksize w.mdev.lo_device blksize] }

/-- Lines 2619-2622 of `receive_param`: the bitmap is created when there is
none yet. -/
def receive_param_mbds (w : World) (env : ParamEnv) : World :=
  if w.mdev.mbds_id = false
  then { w with mdev := { w.mdev with mbds_id := env.mops_init },
                trace := w.trace ++ [Event.mops_init (MKDEV MAJOR_NR w.minor)] }
  else w

/-- Lines 2624-2646 of `receive_param`: what is done when the parameters arrive
in the state `WFReportParams`. -/
def receive_param_established (MOD_VERSION : Nat) (w : World) (param : Drbd_Parameter_P)
    (env : ParamEnv) (blksize : Int) : Option World :=
  if w.mdev.cstate = Drbd_CState.WFReportParams then
    let w1 : World := { w with trace := w.trace ++
      [Event.printk Msg.connection_established,
       Event.printk (Msg.size_blksize w.blk_size blksize)] }
    (receive_param_tie_break MOD_VERSION w1 param env).map
      (fun x => receive_param_sync x param env)
  else some w

/-- Lines 2612-2656 of `receive_param`, once the sizes are settled: block
size, bitmap, connection state and counters. -/
def receive_param_accept (MOD_VERSION : Nat) (fuel : Nat) (w : World) (param : Drbd_Parameter_P)
    (env : ParamEnv) : Option (World × Bool) :=
  let blksize := receive_param_blksize w.mdev param
  match drbd_log2 fuel blksize with
  | none => none
  | some b =>
    match receive_param_established MOD_VERSION
        (receive_param_mbds (receive_param_set_blksize w blksize b) env) param env blksize with
    | none => none
    | some w5 => some (receive_param_adopt w5 param env, true)

/-- Function `receive_param`, lines 2545-2659. `param` is the block that
`drbd_recv` delivered, `none` when it failed. -/
def receive_param (MOD_VERSION : Nat) (fuel : Nat) (w : World) (param : Option Drbd_Parameter_P)
    (env : ParamEnv) : Option (World × Bool) :=
  match param with
  | none => some (w, false)
  | some param =>
    if param.state = Drbd_State.Primary ∧ w.mdev.state = Drbd_State.Primary then
      some (receive_param_reject w Msg.incompatible_states, false)
    else if param.version ≠ MOD_VERSION then
      some (receive_param_reject w Msg.incompatible_releases, false)
    else if param.protocol ≠ w.mdev.wire_protocol then
      some (receive_param_reject w Msg.incompatible_protocols, false)
    else
      match env.ll_size with
      | none =>
        some ({ w with blk_size := 0,
                       trace := w.trace ++ [Event.printk Msg.ll_dev_has_no_size] }, false)
      | some lls =>
        let size := min lls param.size
        let w1 : World := { w with mdev := { w.mdev with o_state := param.state },
                                   blk_size := size }
        if w1.mdev.lo_usize ≠ 0 ∧ w1.mdev.lo_usize ≠ size then
          some ({ w1 with mdev := set_cstate w1.mdev Drbd_CState.StandAllone,
                          blk_size := w1.mdev.lo_usize,
                          trace := w1.trace ++ [Event.printk (Msg.size_hint_bogus size)] }, false)
        else receive_param_accept MOD_VERSION fuel w1 param env

/-- The loop of `es_clear`, lines 2697-2702, from index `i` for `n` rounds. -/
def es_clear_loop : Nat → Nat → World → World
  | 0, _, w => w
  | n + 1, i, w =>
    let e := w.mdev.epoch_set.getD i default
    if e.block_id ≠ 0 then
      es_clear_loop n (i + 1) { w with
        mdev := { w.mdev with epoch_set := w.mdev.epoch_set.set i { e with block_id := 0 } },
        trace := w.trace ++ [Event.bforget e.bh] }
    else es_clear_loop n (i + 1) w

/-- Function `es_clear`, lines 2689-2705. -/
def es_clear (w : World) : World :=
  let w1 := es_clear_loop w.mdev.epoch_size 0 w
  { w1 with mdev := { w1.mdev with epoch_size := 0 } }

/-- The loop of `sl_clear`, lines 2713-2718, from slot `i` for `n` rounds. -/
def sl_clear_loop : Nat → Nat → World → World
  | 0, _, w => w
  | n + 1, i, w =>
    match w.mdev.sync_log.getD i none with
    | some bh =>
      sl_clear_loop n (i + 1) { w with
        mdev := { w.mdev with sync_log := w.mdev.sync_log.set i none },
        trace := w.trace ++ [Event.bforget bh] }
    | none => sl_clear_loop n (i + 1) w

/-- Constant `#define SYNC_LOG_S 80` -/
def SYNC_LOG_S : Nat := 80

/-- Function `sl_clear`, lines 2707-2720. -/
def sl_clear (w : World) : World := sl_clear_loop SYNC_LOG_S 0 w

/-- Lines 2806-2818 of `drbdd`: the socket is released and the connection
state becomes `Unconnected`. -/
def drbdd_out_sock (w : World) : World :=
  let w1 : World := if w.mdev.sock = true
    then { w with mdev := { w.mdev with sock := false },
                  trace := w.trace ++ [Event.sock_release] }
    else w
  let w2 : World := { w1 with trace := w1.trace ++
    [Event.printk (Msg.connection_lost w1.mdev.pending_cnt w1.mdev.unacked_cnt)] }
  if w2.mdev.cstate ≠ Drbd_CState.StandAllone
  then { w2 with mdev := set_cstate w2.mdev Drbd_CState.Unconnected } else w2

/-- Lines 2820-2822 of `drbdd`: the counters are copied to `bit_map_gen`. -/
def drbdd_out_snapshot (w : World) : World :=
  { w with mdev := { w.mdev with
      bit_map_gen := (List.range (PrimaryInd + 1)).map (fun i => w.mdev.gen_cnt.getD i 0) } }

/-- Lines 2824-2838 of `drbdd`: what the role asks for. -/
def drbdd_out_role (fuel : Nat) (w : World) (md : Option Int) : Option World :=
  match w.mdev.state with
  | Drbd_State.Primary =>
    match tl_clear fuel w with
    | none => none
    | some x =>
      some (drbd_md_inc
        { x with mdev := { x.mdev with flags := clear_bit ISSUE_BARRIER x.mdev.flags } }
        ConnectedCnt md)
  | Drbd_State.Secondary =>
    let x := sl_clear (es_clear w)
    some { x with mdev := { x.mdev with unacked_cnt := 0 } }
  | Drbd_State.Unknown => some w

/-- The part of `drbdd` after the label `out`, lines 2803-2840: the
connection is lost. `md` is the outcome of the meta-data write. -/
def drbdd_out (fuel : Nat) (w : World) (md : Option Int) : Option World :=
  match drbdd_out_role fuel (drbdd_out_snapshot (drbdd_out_sock w)) md with
  | none => none
  | some w6 => some { w6 with mdev := { w6.mdev with pending_cnt := 0 } }

/-! ## The block source of a full synchronisation -/

/-- The difference `a - b` of two `unsigned long` values; a word has
`2 ^ LN2_BPL` bits (`LN2_BPL` is 5 or 6, lines 3272-3278). -/
def ulong_sub (LN2_BPL : Nat) (a b : Nat) : Nat :=
  if b % 2 ^ 2 ^ LN2_BPL ≤ a % 2 ^ 2 ^ LN2_BPL
  then a % 2 ^ 2 ^ LN2_BPL - b % 2 ^ 2 ^ LN2_BPL
  else a % 2 ^ 2 ^ LN2_BPL + 2 ^ 2 ^ LN2_BPL - b % 2 ^ 2 ^ LN2_BPL

/-- Function `ds_sync_all_get_blk`, lines 3052-3071. `MBDS_DONE` is the sentinel
of the missing `mbds.h`, taken as a parameter; `ln2_bs` is at least 9. -/
def ds_sync_all_get_blk (MBDS_DONE LN2_BPL : Nat) (mdev : Drbd_Conf) (ln2_bs : Nat) :
    Drbd_Conf × Nat :=
  let shift := ln2_bs - 9
  if mdev.synced_to = 0 then (mdev, MBDS_DONE)
  else
    let rv := mdev.synced_to >>> shift
    let old_sync_to := mdev.synced_to
    let s := ulong_sub LN2_BPL mdev.synced_to (1 <<< shift)
    if s > old_sync_to then ({ mdev with synced_to := 0 }, MBDS_DONE)
    else ({ mdev with synced_to := s }, rv)

/-- Lines 3094-3097 of `drbd_syncer`: the start of the sweep in `SyncingAll`.
`blksize_size` is the entry `blksize_size[MAJOR_NR][minor]` of the kernel, the
block size in bytes; the `int` value is converted to `unsigned long`. -/
def drbd_syncer_sync_all_start (LN2_BPL : Nat) (w : World) (blksize_size : Nat) : World :=
  let v : Int := ((w.blk_size : Int) - ((blksize_size >>> 10 : Nat) : Int)) * 2
  { w with mdev := { w.mdev with synced_to := (v % (2 ^ 2 ^ LN2_BPL : Nat)).toNat } }

/-- The values that `k` successive calls of `get_blk = ds_sync_all_get_blk`
return (the calls that `ds_buffer_read` makes, line 2992), with the device
state they leave. -/
def ds_sync_all_calls (MBDS_DONE LN2_BPL : Nat) : Nat → Drbd_Conf → Nat → Drbd_Conf × List Nat
  | 0, mdev, _ => (mdev, [])
  | k + 1, mdev, ln2_bs =>
    let r := ds_sync_all_get_blk MBDS_DONE LN2_BPL mdev ln2_bs
    let rest := ds_sync_all_calls MBDS_DONE LN2_BPL k r.1 ln2_bs
    (rest.1, r.2 :: rest.2)

/-! ## The bitmap -/

/-- Constant `#define BM_BLOCK_SIZE_B 12` -/
def BM_BLOCK_SIZE_B : Nat := 12

/-- Constant `BITS_PER_LONG` of the kernel for the word size chosen by
`LN2_BPL` (5 or 6, lines 3272-3278). -/
def BITS_PER_LONG (LN2_BPL : Nat) : Nat := 2 ^ LN2_BPL

/-- The value `sizeof(unsigned long)`, in bytes. -/
def sizeof_long (LN2_BPL : Nat) : Nat := 2 ^ (LN2_BPL - 3)

/-- Type `struct BitMap`, lines 3280-3289 (without the lock). `bm` holds the
words of the memory behind `sbm->bm` that overlap the `size` bytes allocated;
an access to another word is outside the allocation. -/
structure BitMap where
  dev : Nat
  size : Nat
  bm : List Nat
  sb_bitnr : Nat
  sb_mask : Nat
  gb_bitnr : Nat
  gb_snr : Nat
deriving DecidableEq, Repr, Inhabited

/-- Function `bm_init`, lines 3291-3318. `dev_size` is the entry
`blk_size[MAJOR(dev)][MINOR(dev)]`, the size of the device in KB. The result
is `none` for the null pointer; `vmalloc` is taken to succeed (its result is
not tested). -/
def bm_init (LN2_BPL : Nat) (dev : Nat) (dev_size : Nat) : Option BitMap × List Msg :=
  let size := dev_size >>> (BM_BLOCK_SIZE_B - 7)
  if size = 0 then (none, [])
  else
    (some { dev := dev, size := size,
            bm := List.replicate ((size + sizeof_long LN2_BPL - 1) / sizeof_long LN2_BPL) 0,
            sb_bitnr := 0, sb_mask := 0, gb_bitnr := 0, gb_snr := 0 },
     [Msg.vmallocing_for_bitmap size])

/-- Lines 3356-3363 of `bm_set_bit`: the bit `bitnr` of the bitmap is written.
`none` when the word lies outside the allocation. -/
def bm_set_bit_word (LN2_BPL : Nat) (sbm : BitMap) (bitnr bit : Nat) :
    Option (BitMap × List Msg) :=
  let wnr := bitnr >>> LN2_BPL
  if sbm.size ≤ wnr then some (sbm, [Msg.BitMap_too_small])
  else if sbm.bm.length ≤ wnr then none
  else
    let b := 1 <<< (bitnr &&& ((1 <<< LN2_BPL) - 1))
    let word := sbm.bm.getD wnr 0
    let new := if bit ≠ 0 then word ||| b else word &&& (2 ^ BITS_PER_LONG LN2_BPL - 1 - b)
    some ({ sbm with bm := sbm.bm.set wnr new }, [])

/-- Function `bm_set_bit`, lines 3330-3367. `none` when the call is not
defined: a block size above `BM_BLOCK_SIZE`, a shift `1L << (1 << cb)` by the
width of a word or more, or an access outside the allocation. -/
def bm_set_bit (LN2_BPL : Nat) (sbm : BitMap) (blocknr ln2_block_size bit : Nat) :
    Option (BitMap × List Msg) :=
  if BM_BLOCK_SIZE_B < ln2_block_size then none
  else
    let cb := BM_BLOCK_SIZE_B - ln2_block_size
    let bitnr := blocknr >>> cb
    if bit = 0 ∧ cb ≠ 0 then
      if BITS_PER_LONG LN2_BPL ≤ 1 <<< cb then none
      else if sbm.sb_bitnr = bitnr then
        let sbm1 : BitMap := { sbm with
          sb_mask := sbm.sb_mask ||| (1 <<< (blocknr &&& ((1 <<< cb) - 1))) }
        if sbm1.sb_mask ≠ (1 <<< (1 <<< cb)) - 1 then some (sbm1, [])
        else bm_set_bit_word LN2_BPL sbm1 bitnr bit
      else
        some ({ sbm with sb_bitnr := bitnr,
                         sb_mask := 1 <<< (blocknr &&& ((1 <<< cb) - 1)) }, [])
    else bm_set_bit_word LN2_BPL sbm bitnr bit

/-- The `while` loop of `bm_get_bn`, lines 3373-3376; `none` when it has not
ended after `fuel` rounds. -/
def bm_get_bn_loop (LN2_BPL : Nat) : Nat → Nat → Int → Option Int
  | 0, _, _ => none
  | fuel + 1, word, nr =>
    if word &&& 1 ≠ 0 then some nr
    else if nr + 1 = (BITS_PER_LONG LN2_BPL : Int) then some (-1)
    else bm_get_bn_loop LN2_BPL fuel (word >>> 1) (nr + 1)

/-- Function `bm_get_bn`, lines 3369-3378. -/
def bm_get_bn (LN2_BPL fuel : Nat) (word : Nat) (nr : Int) : Option Int :=
  if nr = (BITS_PER_LONG LN2_BPL : Int) - 1 then some (-1)
  else bm_get_bn_loop LN2_BPL fuel (word >>> (nr + 1).toNat) (nr + 1)

/-- The `for` loop of `bm_get_blocknr`, lines 3392-3404, from the word `wnr`
on: the number of the bit that is found (`some (some bitnr)`), or `some none`
when the loop ends at `nw`. The outer `none` stands for fuel that has run out
or a read outside the allocation. -/
def bm_get_blocknr_loop (LN2_BPL fuel : Nat) (sbm : BitMap) (nw : Nat) :
    Nat → Nat → Option (Option Nat)
  | 0, _ => none
  | rounds + 1, wnr =>
    if nw ≤ wnr then some none
    else if sbm.bm.length ≤ wnr then none
    else if sbm.bm.getD wnr 0 ≠ 0 then
      let bnr : Int := if wnr = sbm.gb_bitnr >>> LN2_BPL
        then ((sbm.gb_bitnr &&& ((1 <<< LN2_BPL) - 1) : Nat) : Int) else -1
      match bm_get_bn LN2_BPL fuel (sbm.bm.getD wnr 0) bnr with
      | none => none
      | some r =>
        if r = -1 then bm_get_blocknr_loop LN2_BPL fuel sbm nw rounds (wnr + 1)
        else some (some ((wnr <<< LN2_BPL) + r.toNat))
    else bm_get_blocknr_loop LN2_BPL fuel sbm nw rounds (wnr + 1)

/-- The label `out` of `bm_get_blocknr`, lines 3408-3412: the next sub-block of
the current bit, as an `unsigned long`. -/
def bm_get_blocknr_out (LN2_BPL : Nat) (sbm : BitMap) (cb : Nat) : BitMap × Nat :=
  ({ sbm with gb_snr := sbm.gb_snr + 1 },
   ((sbm.gb_bitnr <<< cb) + sbm.gb_snr) % 2 ^ BITS_PER_LONG LN2_BPL)

/-- Function `bm_get_blocknr`, lines 3380-3413. `MBDS_DONE` is the sentinel of
the missing `mbds.h`, taken as a parameter. -/
def bm_get_blocknr (MBDS_DONE LN2_BPL fuel : Nat) (sbm : BitMap) (ln2_block_size : Nat) :
    Option (BitMap × Nat) :=
  if BM_BLOCK_SIZE_B < ln2_block_size then none
  else
    let cb := BM_BLOCK_SIZE_B - ln2_block_size
    let nw := sbm.size / sizeof_long LN2_BPL
    if 1 <<< cb ≤ sbm.gb_snr then
      match bm_get_blocknr_loop LN2_BPL fuel sbm nw fuel (sbm.gb_bitnr >>> LN2_BPL) with
      | none => none
      | some none => some (sbm, MBDS_DONE)
      | some (some bitnr) =>
        some (bm_get_blocknr_out LN2_BPL { sbm with gb_bitnr := bitnr, gb_snr := 0 } cb)
    else some (bm_get_blocknr_out LN2_BPL sbm cb)

/-- Function `bm_reset`, lines 3415-3426; `none` when the bitmap has no word
`bm[0]` or the block size is above `BM_BLOCK_SIZE`. -/
def bm_reset (sbm : BitMap) (ln2_block_size : Nat) : Option BitMap :=
  if BM_BLOCK_SIZE_B < ln2_block_size then none
  else if sbm.bm.length = 0 then none
  else if sbm.bm.getD 0 0 &&& 1 ≠ 0 then some { sbm with gb_bitnr := 0, gb_snr := 0 }
  else some { sbm with gb_bitnr := 0, gb_snr := 1 <<< (BM_BLOCK_SIZE_B - ln2_block_size) }

/-- The values that `k` successive calls of `bm_get_blocknr` return, with the
bitmap they leave (the calls that `ds_buffer_read` makes, line 2992). -/
def bm_get_blocknr_calls (MBDS_DONE LN2_BPL fuel : Nat) :
    Nat → BitMap → Nat → Option (BitMap × List Nat)
  | 0, sbm, _ => some (sbm, [])
  | k + 1, sbm, ln2_block_size =>
    match bm_get_blocknr MBDS_DONE LN2_BPL fuel sbm ln2_block_size with
    | none => none
    | some (sbm1, rv) =>
      match bm_get_blocknr_calls MBDS_DONE LN2_BPL fuel k sbm1 ln2_block_size with
      | none => none
      | some (sbm2, rest) => some (sbm2, rv :: rest)

/-- A sequence of calls `bm_set_bit(sbm, blocknr, ln2_block_size, bit)`, given
as the pairs `(blocknr, bit)`, with the bitmap it leaves. -/
def bm_set_bits (LN2_BPL : Nat) (ln2_block_size : Nat) :
    List (Nat × Nat) → BitMap → Option BitMap
  | [], sbm => some sbm
  | (blocknr, bit) :: rest, sbm =>
    match bm_set_bit LN2_BPL sbm blocknr ln2_block_size bit with
    | none => none
    | some (sbm1, _) => bm_set_bits LN2_BPL ln2_block_size rest sbm1

/-- The bit `bitnr` of the bitmap, as the code reads it:
`bm[bitnr >> LN2_BPL]` at position `bitnr & (BITS_PER_LONG - 1)`. -/
def bm_bit (LN2_BPL : Nat) (sbm : BitMap) (bitnr : Nat) : Bool :=
  (sbm.bm.getD (bitnr >>> LN2_BPL) 0).testBit (bitnr &&& ((1 <<< LN2_BPL) - 1))

/-! ## Reading the meta data -/

/-- The word `buffer[i]` of a `u32 buffer[6]` given as bytes, converted with
`be32_to_cpu`. -/
def md_word (buffer : List Nat) (i : Nat) : Nat :=
  be32_to_cpu ((buffer.drop (4 * i)).take 4)

/-- The label `err` of `drbd_md_read`, lines 3499-3506: the counters are set to
1, the indicator to the role, and the record is written. -/
def drbd_md_read_err (w : World) (res : Option Int) : World :=
  let w1 : World := { w with trace := w.trace ++ [Event.printk Msg.error_reading_state_file] }
  let g := (List.range PrimaryInd).map (fun _ => 1) ++
    [if w.mdev.state = Drbd_State.Primary then 1 else 0]
  drbd_md_write { w1 with mdev := { w1.mdev with gen_cnt := g } } res

/-- Function `drbd_md_read`, lines 3472-3507. `rd` is what the file system
does: `none` when `filp_open` fails, else the value the `read` operation
returns and the bytes of `buffer` afterwards; `res` is the outcome of the
write at the label `err`. -/
def drbd_md_read (w : World) (rd : Option (Int × List Nat)) (res : Option Int) : World :=
  match rd with
  | none => drbd_md_read_err w res
  | some (i, buffer) =>
    if i ≠ 24 then drbd_md_read_err w res
    else if md_word buffer MagicNr ≠ DRBD_MAGIC then drbd_md_read_err w res
    else { w with mdev := { w.mdev with
      gen_cnt := (List.range (PrimaryInd + 1)).map (fun i => md_word buffer i) } }

/-! ## The receiver loop -/

/-- Bit number of `COLLECT_ZOMBIES` in `mdev->flags`, line 149. -/
def COLLECT_ZOMBIES : Nat := 1

/-- Kernel `cpu_to_be16`: the two bytes of a 16-bit word in network byte
order. -/
def cpu_to_be16 (x : Nat) : List Nat :=
  [x / 2 ^ 8 % 256, x % 256]

/-- Kernel `be16_to_cpu`: the 16-bit word that two bytes in network byte order
stand for. -/
def be16_to_cpu (b : List Nat) : Nat :=
  b.getD 0 0 * 256 + b.getD 1 0

/-- Modelled from the spec: `sizeof(Drbd_Packet)`, the 8-byte header of §6. -/
def sizeof_Drbd_Packet : Nat := 8

/-- Modelled from the spec: the type `Drbd_Packet` (§6), whose declaration is in
the missing header: `magic : u32`, `command : u16`, `length : u16`, each field
given by its bytes in memory. -/
structure Drbd_Packet where
  magic : List Nat
  command : List Nat
  length : List Nat
deriving DecidableEq, Repr

/-- Modelled from the spec: the eight bytes of a `Drbd_Packet` in memory, the
fields in the order of §6. -/
def Drbd_Packet.bytes (h : Drbd_Packet) : List Nat :=
  h.magic ++ h.command ++ h.length

/-- Modelled from the spec: the `Drbd_Packet` that received bytes are read as
(the fields at the offsets 0, 4 and 6). -/
def Drbd_Packet.ofBytes (b : List Nat) : Drbd_Packet :=
  ⟨b.take 4, (b.drop 4).take 2, (b.drop 6).take 2⟩

/-- Lines 1043-1045 of `drbd_send`: the header of the packet that is handed to
the socket. `code` gives the numbers of the enumerators of `Drbd_Packet_Cmd`
(declared in the missing header); the stores to the `u16` fields keep the 16
low bits. -/
def drbd_send_header (code : Drbd_Packet_Cmd → Nat) (cmd : Drbd_Packet_Cmd) (data_size : Nat) :
    Drbd_Packet :=
  ⟨cpu_to_be32 DRBD_MAGIC, cpu_to_be16 (code cmd), cpu_to_be16 data_size⟩

/-- Function `drbd_send_cmd`, lines 844-854: a packet that is its header only. -/
def drbd_send_cmd (w : World) (cmd : Drbd_Packet_Cmd) (o : SendOutcome) : World × Int :=
  drbd_send w cmd 0 0 sizeof_Drbd_Packet 0 o

/-- Function `drbd_collect_zombies`, lines 694-699 (`waitpid` is not
represented). -/
def drbd_collect_zombies (w : World) : World :=
  { w with mdev := { w.mdev with flags := clear_bit COLLECT_ZOMBIES w.mdev.flags } }

/-- Function `receive_cstate`, lines 2253-2272. `header` is the connection
state `drbd_recv` delivered, `none` when it failed; `md` is the outcome of the
meta-data write. -/
def receive_cstate (w : World) (header : Option Drbd_CState) (md : Option Int) : World × Bool :=
  match header with
  | none => (w, false)
  | some cs =>
    let w1 : World := { w with mdev := set_cstate w.mdev cs }
    if w1.mdev.state = Drbd_State.Secondary ∧
        (w1.mdev.cstate = Drbd_CState.SyncingAll ∨ w1.mdev.cstate = Drbd_CState.SyncingQuick) then
      (drbd_md_write
        { w1 with mdev := { w1.mdev with gen_cnt := w1.mdev.gen_cnt.set Consistent 0 } } md, true)
    else (w1, true)

/-- Function `receive_postpone`, lines 2661-2686. Timers are not represented:
none is pending. -/
def receive_postpone (w : World) : World :=
  { w with trace := w.trace ++ [Event.printk Msg.got_Postpone] }

/-- What the surroundings deliver during one round of the loop of `drbdd`:
`header` the eight bytes of the packet header (`none` when `drbd_recv` failed),
then what the handler of the packet receives (`barrier`, `data`, `block_ack`,
`barrier_ack`, `param`, `cstate`), the surroundings `env` of a handshake or a
role change, the outcomes `o` of the sends and `md` of a meta-data write. -/
structure DrbddInput where
  header : Option (List Nat)
  barrier : Option Nat
  data : RecvData
  block_ack : Option (Nat × Nat)
  barrier_ack : Option (Nat × Nat)
  param : Option Drbd_Parameter_P
  cstate : Option Drbd_CState
  env : ParamEnv
  o : Nat → SendOutcome
  md : Option Int

/-- The case labels of the `switch` of `drbdd`, lines 2746-2792, in the order of
the source. -/
def drbdd_cases : List Drbd_Packet_Cmd :=
  [Drbd_Packet_Cmd.Barrier, Drbd_Packet_Cmd.Data, Drbd_Packet_Cmd.Ping, Drbd_Packet_Cmd.PingAck,
   Drbd_Packet_Cmd.RecvAck, Drbd_Packet_Cmd.WriteAck, Drbd_Packet_Cmd.BarrierAck,
   Drbd_Packet_Cmd.ReportParams, Drbd_Packet_Cmd.CStateChanged, Drbd_Packet_Cmd.StartSync,
   Drbd_Packet_Cmd.Postpone, Drbd_Packet_Cmd.BecomeSec, Drbd_Packet_Cmd.SetConsistent]

/-- The case that `switch (be16_to_cpu(header.command))` selects for the value
`v`; `none` stands for `default`. -/
def drbdd_switch (code : Drbd_Packet_Cmd → Nat) (v : Nat) : Option Drbd_Packet_Cmd :=
  drbdd_cases.find? (fun c => decide (code c = v))

/-- The bodies of the cases of the `switch` of `drbdd`, lines 2746-2795. The
result tells whether the loop goes on (`false` stands for `goto out`). -/
def drbdd_case (MOD_VERSION fuel : Nat) (w : World) (cmd : Drbd_Packet_Cmd) (length : Nat)
    (inp : DrbddInput) : Option (World × Bool) :=
  match cmd with
  | Drbd_Packet_Cmd.Barrier => some (receive_barrier w inp.barrier inp.o)
  | Drbd_Packet_Cmd.Data => receive_data fuel w length inp.data (inp.o 0)
  | Drbd_Packet_Cmd.Ping => some ((drbd_send_cmd w Drbd_Packet_Cmd.PingAck (inp.o 0)).1, true)
  | Drbd_Packet_Cmd.PingAck => some ({ w with mdev := dec_pending w.mdev }, true)
  | Drbd_Packet_Cmd.RecvAck => receive_block_ack fuel w inp.block_ack
  | Drbd_Packet_Cmd.WriteAck => receive_block_ack fuel w inp.block_ack
  | Drbd_Packet_Cmd.BarrierAck => receive_barrier_ack fuel w inp.barrier_ack
  | Drbd_Packet_Cmd.ReportParams => receive_param MOD_VERSION fuel w inp.param inp.env
  | Drbd_Packet_Cmd.CStateChanged => some (receive_cstate w inp.cstate inp.md)
  | Drbd_Packet_Cmd.StartSync =>
    let ws := drbd_send_cstate { w with mdev := set_cstate w.mdev Drbd_CState.SyncingAll } (inp.o 0)
    some ({ ws.1 with trace := ws.1.trace ++ [Event.thread_start_syncer] }, true)
  | Drbd_Packet_Cmd.Postpone => some (receive_postpone w, true)
  | Drbd_Packet_Cmd.BecomeSec =>
    (drbd_set_state MOD_VERSION w Drbd_NewState.Secondary inp.env).map (fun r => (r.1, true))
  | Drbd_Packet_Cmd.SetConsistent =>
    some (drbd_md_write
      { w with mdev := { w.mdev with gen_cnt := w.mdev.gen_cnt.set Consistent 1 } } inp.md, true)

/-- One round of the loop of `drbdd`, lines 2727-2801. The result tells whether
the loop goes on; `false` stands for `break` and `goto out`, which both lead to
the label `out`. -/
def drbdd_round (code : Drbd_Packet_Cmd → Nat) (MOD_VERSION fuel : Nat) (w : World)
    (inp : DrbddInput) : Option (World × Bool) :=
  let w0 := drbd_collect_zombies w
  match inp.header with
  | none => some (w0, false)
  | some b =>
    let header := Drbd_Packet.ofBytes b
    if be32_to_cpu header.magic ≠ DRBD_MAGIC then
      some ({ w0 with trace := w0.trace ++ [Event.printk (Msg.magic (be32_to_cpu header.magic)
        (be16_to_cpu header.command) (be16_to_cpu header.length))] }, false)
    else
      match drbdd_switch code (be16_to_cpu header.command) with
      | none =>
        some ({ w0 with trace := w0.trace ++ [Event.printk Msg.unknown_packet_type] }, false)
      | some cmd => drbdd_case MOD_VERSION fuel w0 cmd (be16_to_cpu header.length) inp

/-- The loop `while (TRUE)` of `drbdd`, lines 2727-2801, over the packets that
arrive. The result `(w, false)` is the world in which the loop is left;
`(w, true)` is the world in which the receiver waits for the next packet. -/
def drbdd_rounds (code : Drbd_Packet_Cmd → Nat) (MOD_VERSION fuel : Nat) :
    List DrbddInput → World → Option (World × Bool)
  | [], w => some (w, true)
  | inp :: rest, w =>
    match drbdd_round code MOD_VERSION fuel w inp with
    | none => none
    | some (w1, true) => drbdd_rounds code MOD_VERSION fuel rest w1
    | some (w1, false) => some (w1, false)

/-- Function `drbdd`, lines 2722-2840: the loop and the part after the label
`out`. `none` when the function does not return: a handler does not return, or
the receiver waits for a packet that does not arrive. -/
def drbdd (code : Drbd_Packet_Cmd → Nat) (MOD_VERSION fuel : Nat) (inputs : List DrbddInput)
    (w : World) (md : Option Int) : Option World :=
  match drbdd_rounds code MOD_VERSION fuel inputs w with
  | none => none
  | some (_, true) => none
  | some (w1, false) => drbdd_out fuel w1 md

/-- One round of the loop of `drbdd_init`, lines 2849-2865. `connect` is what
`drbd_connect` does: the world it leaves and whether it returned non-zero. The
result tells whether the loop goes on, that is, whether the receiver connects
again (signals are not represented). -/
def drbdd_init_round (code : Drbd_Packet_Cmd → Nat) (MOD_VERSION fuel : Nat)
    (connect : World × Bool) (inputs : List DrbddInput) (md : Option Int) :
    Option (World × Bool) :=
  if connect.2 = false then some (connect.1, false)
  else if connect.1.mdev.receiver_t_state = Drbd_thread_state.Exiting then
    some (connect.1, false)
  else
    match drbdd code MOD_VERSION fuel inputs connect.1 md with
    | none => none
    | some w2 =>
      if w2.mdev.receiver_t_state = Drbd_thread_state.Exiting then some (w2, false)
      else if w2.mdev.receiver_t_state = Drbd_thread_state.Restarting then
        some ({ w2 with mdev := { w2.mdev with receiver_t_state := Drbd_thread_state.Running } },
          true)
      else some (w2, true)

/-- The labels `done` and `err` of `drbd_syncer`, lines 3143-3156, as reached by
`goto done`: the end of a synchronisation that has sent all blocks. -/
def drbd_syncer_done (w : World) (o_cmd o_cstate : SendOutcome) : World :=
  let w1 := (drbd_send_cmd w Drbd_Packet_Cmd.SetConsistent o_cmd).1
  let w2 : World := { w1 with trace := w1.trace ++ [Event.printk Msg.Synchronisation_done] }
  let w3 := (drbd_send_cstate
    { w2 with mdev := set_cstate w2.mdev Drbd_CState.Connected } o_cstate).1
  { w3 with mdev := { w3.mdev with synced_to := 0 } }

/-! ## Two nodes and the connection between them

The functions of the send path and of the two receivers, put together: a
Primary and a Secondary, and between them a connection that delivers every
packet in order. The connection is not code of the repository; it is the
surroundings the functions run in. -/

/-- A packet on the wire: the command, the two fields of its header and the
size of its payload. -/
structure Pkt where
  cmd : Drbd_Packet_Cmd
  a : Nat
  b : Nat
  data_size : Nat
deriving DecidableEq, Repr

/-- The packets a stretch of a trace has put on the wire, in order: the calls
of `sock_sendmsg` that took the whole packet. -/
def sent_of (d : List Event) : List Pkt :=
  d.filterMap (fun e => match e with
    | Event.send cmd a b hs ds ret =>
      if ret = ((hs + ds : Nat) : Int) then some ⟨cmd, a, b, ds⟩ else none
    | _ => none)

/-- A Primary `p` and a Secondary `s` with the connection between them: the
packets the Primary has sent and the Secondary has not received yet (`to_s`),
the packets the Secondary has sent and the Primary has not received yet
(`to_p`), both oldest first, and whether the receiver of the Secondary is
still in its loop (`drbdd` leaves the loop when a receive function returns
FALSE). -/
structure Pair where
  p : World
  s : World
  to_s : List Pkt
  to_p : List Pkt
  s_up : Bool

/-- An acknowledgement of a block that the socket takes whole. -/
def ack_taken : SendOutcome := ⟨sizeof_Drbd_BlockAck_Packet, false⟩

/-- An acknowledgement of a barrier that the socket takes whole. -/
def b_ack_taken : SendOutcome := ⟨sizeof_Drbd_BarrierAck_Packet, false⟩

/-- What can happen next: the Primary does something of its own (an `Action`),
the receiver of the Secondary reads the next packet (`getblk_ok` and
`payload_ok` as in `RecvData`), or the receiver of the Primary reads the next
packet. -/
inductive Move where
  | primary (a : Action)
  | deliver (getblk_ok payload_ok : Bool)
  | ack
deriving DecidableEq, Repr

/-- The Primary executes an action; what it sends goes onto the wire. -/
def Pair.primary (fuel : Nat) (st : Pair) (a : Action) : Option Pair :=
  match exec fuel st.p a with
  | none => none
  | some p1 =>
    some { st with p := p1, to_s := st.to_s ++ sent_of (p1.trace.drop st.p.trace.length) }

/-- The receiver of the Secondary reads the next packet and calls
`receive_data` or `receive_barrier` (the `switch` of `drbdd`, lines
2746-2753); its acknowledgements are taken whole by the socket and go onto the
wire. Other packets are not modelled here. -/
def Pair.deliver (fuel : Nat) (st : Pair) (getblk_ok payload_ok : Bool) : Option Pair :=
  if st.s_up = false then none
  else
    match st.to_s with
    | [] => none
    | pk :: rest =>
      match pk.cmd with
      | Drbd_Packet_Cmd.Data =>
        match receive_data fuel st.s pk.data_size ⟨some (pk.a, pk.b), getblk_ok, payload_ok⟩
            ack_taken with
        | none => none
        | some r =>
          some { st with s := r.1, to_s := rest,
                         to_p := st.to_p ++ sent_of (r.1.trace.drop st.s.trace.length),
                         s_up := r.2 }
      | Drbd_Packet_Cmd.Barrier =>
        let r := receive_barrier st.s (some pk.a)
          (fun i => if i = st.s.mdev.epoch_size then b_ack_taken else ack_taken)
        some { st with s := r.1, to_s := rest,
                       to_p := st.to_p ++ sent_of (r.1.trace.drop st.s.trace.length),
                       s_up := r.2 }
      | _ => none

/-- The receiver of the Primary reads the next packet and calls
`receive_barrier_ack` or `receive_block_ack` (lines 2762-2769 of `drbdd`);
what these send goes onto the wire. Other packets are not modelled here. -/
def Pair.ack (fuel : Nat) (st : Pair) : Option Pair :=
  match st.to_p with
  | [] => none
  | pk :: rest =>
    match pk.cmd with
    | Drbd_Packet_Cmd.BarrierAck =>
      match receive_barrier_ack fuel st.p (some (pk.a, pk.b)) with
      | none => none
      | some r =>
        some { st with p := r.1, to_p := rest,
                       to_s := st.to_s ++ sent_of (r.1.trace.drop st.p.trace.length) }
    | Drbd_Packet_Cmd.RecvAck =>
      match receive_block_ack fuel st.p (some (pk.a, pk.b)) with
      | none => none
      | some r =>
        some { st with p := r.1, to_p := rest,
                       to_s := st.to_s ++ sent_of (r.1.trace.drop st.p.trace.length) }
    | Drbd_Packet_Cmd.WriteAck =>
      match receive_block_ack fuel st.p (some (pk.a, pk.b)) with
      | none => none
      | some r =>
        some { st with p := r.1, to_p := rest,
                       to_s := st.to_s ++ sent_of (r.1.trace.drop st.p.trace.length) }
    | _ => none

/-- One move of the pair; `none` when the move is not possible or a loop does
not end within `fuel` rounds. -/
def Pair.step (fuel : Nat) (st : Pair) : Move → Option Pair
  | Move.primary a => st.primary fuel a
  | Move.deliver g y => st.deliver fuel g y
  | Move.ack => st.ack fuel

/-- A sequence of moves, oldest first. -/
def Pair.run (fuel : Nat) : List Move → Pair → Option Pair
  | [], st => some st
  | m :: ms, st =>
    match st.step fuel m with
    | none => none
    | some st1 => Pair.run fuel ms st1

/-! ## The sender of acknowledgements -/

/-- Bit number of `SEND_PING` in `mdev->flags`. -/
def SEND_PING : Nat := 2

/-- Bit number of `SEND_POSTPONE` in `mdev->flags`. -/
def SEND_POSTPONE : Nat := 4

/-- The scan of the sync log in `drbd_asender`, lines 3211-3225, from slot `i`
for `n` rounds; `o i` is the outcome of the send for slot `i`. -/
def asender_sync_loop (o : Nat → SendOutcome) : Nat → Nat → World → World
  | 0, _, w => w
  | n + 1, i, w =>
    match w.mdev.sync_log.getD i none with
    | some bh =>
      if bh.uptodate = true then
        let w1 : World := { w with
          mdev := { w.mdev with sync_log := w.mdev.sync_log.set i none },
          trace := w.trace ++ [Event.bforget bh] }
        asender_sync_loop o n (i + 1)
          (drbd_send_ack w1 Drbd_Packet_Cmd.WriteAck bh.b_blocknr ID_SYNCER (o i)).1
      else asender_sync_loop o n (i + 1) w
    | none => asender_sync_loop o n (i + 1) w

/-- The scan of the epoch set in `drbd_asender`, lines 3231-3244: `n` rounds
are left (`epoch_size - i`; nothing in the loop changes `epoch_size`), `i` is
the index; `o i` is the outcome of the send for entry `i`. -/
def asender_epoch_loop (o : Nat → SendOutcome) : Nat → Nat → World → World
  | 0, _, w => w
  | n + 1, i, w =>
    let e := w.mdev.epoch_set.getD i default
    if e.block_id ≠ 0 ∧ e.bh.uptodate = true then
      let w1 : World := { w with mdev := { w.mdev with
        epoch_set := w.mdev.epoch_set.set i { e with block_id := 0 } } }
      let ws := drbd_send_ack w1 Drbd_Packet_Cmd.WriteAck e.bh.b_blocknr e.block_id (o i)
      asender_epoch_loop o n (i + 1) { ws.1 with mdev := dec_unacked ws.1.mdev }
    else asender_epoch_loop o n (i + 1) w

/-- One round of the loop of `drbd_asender`, lines 3178-3246, after the thread
has been woken while it is `Running`. `timer_pending` is what
`timer_pending(&p_timeout)` returns; `o_ping`, `o_postpone`, `ob` are the
outcomes of the sends of Ping, Postpone and the barrier, `o_sync i` and
`o_epoch i` those of the acknowledgements of sync-log slot `i` and epoch entry
`i`. Timers are not represented. -/
def drbd_asender_round (w : World) (timer_pending : Bool) (o_ping o_postpone ob : SendOutcome)
    (o_sync o_epoch : Nat → SendOutcome) : World :=
  let w1 : World :=
    if test_bit SEND_PING w.mdev.flags then
      let ws := drbd_send_cmd
        { w with mdev := { w.mdev with flags := clear_bit SEND_PING w.mdev.flags } }
        Drbd_Packet_Cmd.Ping o_ping
      if ws.2 = (sizeof_Drbd_Packet : Int) then { ws.1 with mdev := inc_pending ws.1.mdev }
      else ws.1
    else w
  let w2 : World :=
    if test_bit SEND_POSTPONE w1.mdev.flags then
      (drbd_send_cmd
        { w1 with
          mdev := { w1.mdev with flags := clear_bit SEND_POSTPONE w1.mdev.flags },
          trace := w1.trace ++
            ([Event.printk Msg.sending_postpone_packet, Event.printk Msg.expire_now] ++
              (if timer_pending = true then [Event.printk Msg.p_timeout_is_act] else [])) }
        Drbd_Packet_Cmd.Postpone o_postpone).1
    else w1
  if w2.mdev.state = Drbd_State.Primary then drbd_try_send_barrier w2 ob
  else
    let w3 := asender_sync_loop o_sync SYNC_LOG_S 0 w2
    if w3.mdev.wire_protocol ≠ DRBD_PROT_C then w3
    else asender_epoch_loop o_epoch w3.mdev.epoch_size 0 w3

/-! ## The Secondary between packets -/

/-- The disk finishes the write of the buffer of epoch entry `i`: the kernel
marks the buffer up to date. -/
def epoch_written (w : World) (i : Nat) : World :=
  let e := w.mdev.epoch_set.getD i default
  if i < w.mdev.epoch_size then
    { w with mdev := { w.mdev with
        epoch_set := w.mdev.epoch_set.set i { e with bh := { e.bh with uptodate := true } } } }
  else w

/-- A packet of the header only that the socket takes whole. -/
def cmd_taken : SendOutcome := ⟨sizeof_Drbd_Packet, false⟩

/-- What happens on a Secondary while the connection stands: a Data packet
arrives whole (header, buffer and payload), a Barrier packet arrives, the
sender of acknowledgements makes a round, or the disk finishes the write of an
epoch entry. -/
inductive SecMove where
  | data (data_size block_nr block_id : Nat)
  | barrier (nr : Nat)
  | scan (timer_pending : Bool)
  | written (i : Nat)
deriving DecidableEq, Repr

/-- One move of the Secondary: `receive_data` and `receive_barrier` as `drbdd`
calls them (lines 2746-2753), a round of `drbd_asender`, or the completion of
a write. Every acknowledgement is taken whole by the socket. `none` when the
receiver does not go on (`receive_data` returned FALSE, or did not return
within `fuel` rounds). -/
def sec_step (fuel : Nat) (w : World) : SecMove → Option World
  | SecMove.data ds bn id =>
    match receive_data fuel w ds ⟨some (bn, id), true, true⟩ ack_taken with
    | some (w1, true) => some w1
    | _ => none
  | SecMove.barrier nr =>
    some (receive_barrier w (some nr)
      (fun i => if i = w.mdev.epoch_size then b_ack_taken else ack_taken)).1
  | SecMove.scan tp =>
    some (drbd_asender_round w tp cmd_taken cmd_taken ⟨sizeof_Drbd_Barrier_Packet, false⟩
      (fun _ => ack_taken) (fun _ => ack_taken))
  | SecMove.written i => some (epoch_written w i)

/-- A sequence of moves of the Secondary. -/
def sec_run (fuel : Nat) : List SecMove → World → Option World
  | [], w => some w
  | m :: t, w =>
    match sec_step fuel w m with
    | none => none
    | some w1 => sec_run fuel t w1

/-! ## The logical contents of the ring

These definitions are the vocabulary of the properties, not code: the entries
"between `tl_begin` and `tl_end`", oldest first. -/

/-- A transfer log whose pointers lie inside the allocated array of
`conf.tl_size` slots. -/
def tl_wf (mdev : Drbd_Conf) : Prop :=
  mdev.transfer_log.length = mdev.tl_size ∧ mdev.tl_begin < mdev.tl_size ∧
    mdev.tl_end < mdev.tl_size

instance (mdev : Drbd_Conf) : Decidable (tl_wf mdev) := by
  unfold tl_wf; infer_instance

/-- Number of slots from `tl_begin` (included) to `tl_end` (excluded), going
forward around the ring. -/
def tl_count (mdev : Drbd_Conf) : Nat :=
  if mdev.tl_begin ≤ mdev.tl_end then mdev.tl_end - mdev.tl_begin
  else mdev.tl_end + mdev.tl_size - mdev.tl_begin

/-- The slot `i` places after `tl_begin`, around the ring. -/
def tl_slot (mdev : Drbd_Conf) (i : Nat) : Nat :=
  if mdev.tl_begin + i < mdev.tl_size then mdev.tl_begin + i
  else mdev.tl_begin + i - mdev.tl_size

/-- The first `k` entries from `tl_begin` on, oldest first. -/
def ring_take (mdev : Drbd_Conf) (k : Nat) : List Tl_entry :=
  (List.range k).map (fun i => tl_at mdev (tl_slot mdev i))

/-- The entries between `tl_begin` and `tl_end`, oldest first. -/
def tl_entries (mdev : Drbd_Conf) : List Tl_entry :=
  ring_take mdev (tl_count mdev)

/-- Whether an entry is a barrier marker. -/
def Tl_entry.isBarrier (e : Tl_entry) : Bool := e.req == TL_BARRIER

/-- The entries after the most recent barrier (all of them when there is no
barrier), oldest first: the current epoch. -/
def current_epoch (es : List Tl_entry) : List Tl_entry :=
  (es.reverse.takeWhile (fun e => !e.isBarrier)).reverse

/-- Specification of `contains_sector` (§4.1), following the spec's words: a
data entry with sector number `s` lies between the most recent barrier (or
the begin of the log) and the end of the log. -/
def contains_sector_spec (es : List Tl_entry) (s : Nat) : Bool :=
  (current_epoch es).any (fun e => !e.isBarrier && e.sector_nr == s)

/-- The backward scan on a list of entries given youngest first. -/
def dep_rev (s : Nat) : List Tl_entry → Bool
  | [] => false
  | e :: t => if e.req = TL_BARRIER then false else if e.sector_nr = s then true else dep_rev s t

/-- Number of data entries (writes) in a list of log entries. -/
def data_count (es : List Tl_entry) : Nat := (es.filter (fun e => !e.isBarrier)).length

/-- Whether `drbd_end_req`, completing `req`, finds a dependency. -/
def dep_cond (w : World) (req : Nat) : Bool :=
  decide (w.mdev.state = Drbd_State.Primary ∧
    Drbd_CState.Connected.toNat ≤ w.mdev.cstate.toNat) &&
  contains_sector_spec (tl_entries w.mdev) (w.reqs req).sector

/-- The three ways `drbd_end_req` ends: the event is recorded in `rq_status`,
a state error is printed, or the request is completed. -/
def EndReqOutcome (w w1 : World) (req nextstate uptodate : Nat) : Prop :=
  w1.br_cnt = w.br_cnt ∧ w1.minor = w.minor ∧
  ((w1.mdev = w.mdev ∧ w1.trace = w.trace ∧
      w1.reqs = (set_rq_status w req (nextstate ||| (if uptodate ≠ 0 then 1 else 0))).reqs ∧
      (w.reqs req).cmd ≠ READ ∧ (w.reqs req).rq_status &&& 0xfffe = RQ_DRBD_NOTHING) ∨
   (w1.mdev = w.mdev ∧ w1.reqs = w.reqs ∧ ∃ m, w1.trace = w.trace ++ [Event.printk m]) ∨
   (∃ tail, w1.trace = w.trace ++
        Event.end_request req (uptodate &&& (w.reqs req).rq_status) :: tail ∧
      (∀ e ∈ tail, e = Event.panic ∨ e = Event.wake_asender) ∧
      w1.reqs = (set_rq_status w req RQ_INACTIVE).reqs ∧
      w1.mdev = (if dep_cond w req
        then { w.mdev with flags := set_bit ISSUE_BARRIER w.mdev.flags } else w.mdev) ∧
      ((w.reqs req).cmd = READ ∨ (w.reqs req).rq_status &&& 0xfffe = RQ_DRBD_SEC_WRITE ∨
        ((w.reqs req).rq_status &&& 0xfffe = RQ_DRBD_SENT ∧ nextstate = RQ_DRBD_WRITTEN) ∨
        ((w.reqs req).rq_status &&& 0xfffe = RQ_DRBD_WRITTEN ∧ nextstate = RQ_DRBD_SENT))))

/-- The `set_block_status` calls recorded in a trace, in order. -/
def sbs_of (tr : List Event) : List (Nat × Nat × Nat) :=
  tr.filterMap (fun e => match e with
    | Event.set_block_status a b c => some (a, b, c)
    | _ => none)

/-- The test of `tl_clear` for "the request of this entry is still live",
lines 664-666. -/
def tl_live (w : World) (e : Tl_entry) : Prop :=
  (w.reqs e.req).rq_status ≠ RQ_INACTIVE ∧ (w.reqs e.req).rq_dev = MKDEV MAJOR_NR w.minor ∧
    (w.reqs e.req).sector = e.sector_nr

/-- Two device states with the same ring: slots, pointers and size. -/
def same_ring (m m1 : Drbd_Conf) : Prop :=
  m1.transfer_log = m.transfer_log ∧ m1.tl_begin = m.tl_begin ∧ m1.tl_end = m.tl_end ∧
    m1.tl_size = m.tl_size

/-- What the loop of `tl_clear` has done after walking over the entries `seg`,
from world `w` to world `w1`. -/
def ClearRel (et : Bool) (w w1 : World) (seg : List Tl_entry) : Prop :=
  same_ring w.mdev w1.mdev ∧ w1.mdev.blk_size_b = w.mdev.blk_size_b ∧ w1.minor = w.minor ∧
  w1.br_cnt = w.br_cnt ∧
  (∀ a, (w1.reqs a).rq_dev = (w.reqs a).rq_dev ∧ (w1.reqs a).sector = (w.reqs a).sector ∧
    ((w1.reqs a).rq_status ≠ RQ_INACTIVE → (w.reqs a).rq_status ≠ RQ_INACTIVE)) ∧
  ∃ new, w1.trace = w.trace ++ new ∧
    sbs_of new = (seg.filter (fun e => !e.isBarrier)).map
      (fun e => (e.sector_nr >>> (w.mdev.blk_size_b - 9), w.mdev.blk_size_b, SS_OUT_OF_SYNC)) ∧
    (∀ req ok, Event.end_request req ok ∈ new →
      et = true ∧ ∃ e ∈ seg, e.req ≠ TL_BARRIER ∧ e.req = req ∧ tl_live w e)

/-- The states of the transfer log reachable from `tl_init` by `tl_add`,
`tl_add_barrier`, `tl_release` and `tl_clear` without overflow, together with
what is outstanding: `rel` is the barrier of the latest `tl_release` since
`tl_init`/`tl_clear` (if any), `pend` the entries appended and not yet
released, oldest first (writes in flight and un-acked barriers). A release is
taken when a barrier lies after the entry at `tl_begin`; code that leaves the
ring alone (`frame`) may run in between. -/
inductive TlReach (fuel : Nat) : World → Option Tl_entry → List Tl_entry → Prop
  | init (w : World) (hlen : w.mdev.transfer_log.length = w.mdev.tl_size)
      (hpos : 0 < w.mdev.tl_size) (hint : w.mdev.tl_size ≤ 2 ^ 31) :
      TlReach fuel { w with mdev := tl_init w.mdev } none []
  | frame (w w1 : World) (rel : Option Tl_entry) (pend : List Tl_entry)
      (h : TlReach fuel w rel pend) (hr : same_ring w.mdev w1.mdev) : TlReach fuel w1 rel pend
  | add (w : World) (rel : Option Tl_entry) (pend : List Tl_entry) (new_item : Nat)
      (h : TlReach fuel w rel pend) (hreq : new_item ≠ TL_BARRIER)
      (hroom : (rel.toList ++ pend).length + 1 < w.mdev.tl_size) :
      TlReach fuel (tl_add w new_item) rel
        (pend ++ [{ req := new_item, sector_nr := (w.reqs new_item).sector }])
  | add_barrier (w : World) (rel : Option Tl_entry) (pend : List Tl_entry)
      (h : TlReach fuel w rel pend)
      (hroom : (rel.toList ++ pend).length + 1 < w.mdev.tl_size) :
      TlReach fuel (tl_add_barrier w).1 rel
        (pend ++ [{ req := TL_BARRIER, sector_nr := (tl_add_barrier w).2 }])
  | release (w w1 : World) (rel : Option Tl_entry) (pend : List Tl_entry) (nr sz : Nat)
      (e0 : Tl_entry) (ds : List Tl_entry) (B : Tl_entry) (rest : List Tl_entry)
      (h : TlReach fuel w rel pend) (hE : rel.toList ++ pend = e0 :: (ds ++ B :: rest))
      (hds : ∀ e ∈ ds, e.req ≠ TL_BARRIER) (hB : B.req = TL_BARRIER)
      (hf : w.mdev.tl_size ≤ fuel) (hrun : tl_release fuel w nr sz = some w1) :
      TlReach fuel w1 (some B) rest
  | clear (w w1 : World) (rel : Option Tl_entry) (pend : List Tl_entry)
      (h : TlReach fuel w rel pend) (hf : w.mdev.tl_size ≤ fuel)
      (hrun : tl_clear fuel w = some w1) : TlReach fuel w1 none []

/-- The device state after storing the entry `e` in the slot at `tl_end` and
advancing `tl_end`: the common effect of `tl_add` and `tl_add_barrier` on the
ring. -/
def tl_pushed (m : Drbd_Conf) (e : Tl_entry) : Drbd_Conf :=
  { m with transfer_log := m.transfer_log.set m.tl_end e,
           tl_end := if m.tl_end + 1 = m.tl_size then 0 else m.tl_end + 1 }

/-- The requests completed in a trace (`end_that_request_first/last`), in
order. -/
def done_of (tr : List Event) : List Nat :=
  tr.filterMap (fun e => match e with
    | Event.end_request req _ => some req
    | _ => none)

/-- A step that changes no request structure and completes nothing, and keeps
the ring well formed. -/
def Quiet (w w1 : World) : Prop :=
  (tl_wf w.mdev → tl_wf w1.mdev) ∧ w1.mdev.tl_size = w.mdev.tl_size ∧
  w1.mdev.wire_protocol = w.mdev.wire_protocol ∧ w1.minor = w.minor ∧ w1.reqs = w.reqs ∧
  ∃ new, w1.trace = w.trace ++ new ∧ done_of new = []

/-- A step that changes at most the request structure at `req`, there at most
`rq_status`, and completes at most that request. -/
def Touch (req : Nat) (w w1 : World) : Prop :=
  (tl_wf w.mdev → tl_wf w1.mdev) ∧ w1.mdev.tl_size = w.mdev.tl_size ∧
  w1.mdev.wire_protocol = w.mdev.wire_protocol ∧ w1.minor = w.minor ∧
  (∀ a, a ≠ req → w1.reqs a = w.reqs a) ∧ (w1.reqs req).cmd = (w.reqs req).cmd ∧
  ∃ new, w1.trace = w.trace ++ new ∧ ∀ x ∈ done_of new, x = req

/-- The counter vector `a` is lexicographically greater than `b` over the
indices `Consistent .. PrimaryInd`: they agree up to some index, where `a` is
greater. -/
def gen_cnt_gt (a b : List Nat) : Prop :=
  ∃ i, i ≤ PrimaryInd ∧ (∀ j, j < i → a.getD j 0 = b.getD j 0) ∧ b.getD i 0 < a.getD i 0

/-- The counter vectors `a` and `b` agree at every index `Consistent ..
PrimaryInd`. -/
def gen_cnt_eq (a b : List Nat) : Prop :=
  ∀ i, i ≤ PrimaryInd → a.getD i 0 = b.getD i 0

/-- Whether the wait loop of `drbd_set_state`, entered with the counters `p`
and `u`, comes to an end for the sleeps `sl`: nothing is in flight at some
wake-up, or a signal is pending. -/
def wait_ends : List (Nat × Nat × Bool) → Nat → Nat → Bool
  | [], p, u => decide (p = 0 ∧ u = 0)
  | (p1, u1, sig) :: rest, p, u => decide (p = 0 ∧ u = 0) || sig || wait_ends rest p1 u1

/-- Whether the wait loop of `drbd_set_state` is left by a pending signal. -/
def wait_interrupted : List (Nat × Nat × Bool) → Nat → Nat → Bool
  | [], _, _ => false
  | (p1, u1, sig) :: rest, p, u =>
    if p = 0 ∧ u = 0 then false else if sig then true else wait_interrupted rest p1 u1

/-- The send is taken by the socket: no send timeout has signalled the sender
and `sock_sendmsg` reports no error. -/
def send_taken (mdev : Drbd_Conf) (o : SendOutcome) : Prop :=
  (mdev.timeout = 0 ∨ o.signalled = false) ∧ 0 ≤ o.err

/-- The role after the tie-break of `receive_param`: the device was Primary,
or both sides were Secondary, the local counters are the greater ones and the
promotion was not interrupted. -/
def primary_after_tie_break (w : World) (param : Drbd_Parameter_P) (env : ParamEnv) : Prop :=
  w.mdev.state = Drbd_State.Primary ∨
  (param.state = Drbd_State.Secondary ∧ w.mdev.state = Drbd_State.Secondary ∧
    drbd_md_compare w.mdev param = 1 ∧
    wait_interrupted env.sleeps w.mdev.pending_cnt w.mdev.unacked_cnt = false)

/-- The checks of `receive_param`, lines 2554-2602, that a `ReportParams` has to
pass: roles, version, protocol, the size of the lower device is known, and the
size hint of the user (if any) is the negotiated size. -/
def handshake_passes (MOD_VERSION : Nat) (w : World) (param : Drbd_Parameter_P)
    (env : ParamEnv) : Prop :=
  ¬ (param.state = Drbd_State.Primary ∧ w.mdev.state = Drbd_State.Primary) ∧
  param.version = MOD_VERSION ∧ param.protocol = w.mdev.wire_protocol ∧
  ∃ lls, env.ll_size = some lls ∧
    (w.mdev.lo_usize = 0 ∨ w.mdev.lo_usize = min lls param.size)

/-- The device state `m1` differs from `m` at most in the role, the generation
counters, the connection state and the counters of what is in flight. -/
def role_step (m m1 : Drbd_Conf) : Prop :=
  m1 = { m with state := m1.state, gen_cnt := m1.gen_cnt, cstate := m1.cstate,
                pending_cnt := m1.pending_cnt, unacked_cnt := m1.unacked_cnt }

/-- The device state `m1` differs from `m` at most in the flags, in
`pending_cnt` and in the pointers of the transfer log. -/
def log_step (m m1 : Drbd_Conf) : Prop :=
  m1 = { m with flags := m1.flags, pending_cnt := m1.pending_cnt, tl_begin := m1.tl_begin,
                tl_end := m1.tl_end }

/-- The numbers of the bits that are set in the words `bm_get_blocknr` scans
(`nw = size / sizeof(long)` words), in increasing order. -/
def bm_out_of_sync (LN2_BPL : Nat) (sbm : BitMap) : List Nat :=
  (List.range' 0 ((sbm.size / sizeof_long LN2_BPL) * 2 ^ LN2_BPL)).filter
    (fun b => bm_bit LN2_BPL sbm b)

/-- The block numbers `(b << cb) + s`, `s = 0 .. 2^cb - 1`, of the bitmap bit
`b`. -/
def bm_blocks (cb : Nat) (b : Nat) : List Nat :=
  (List.range' 0 (2 ^ cb)).map (fun s => (b <<< cb) + s)

/-- The bitmap `sbm` with the scan cursor at bit `g`, sub-block `s`. -/
def bm_cursor (sbm : BitMap) (g s : Nat) : BitMap :=
  { sbm with gb_bitnr := g, gb_snr := s }

/-- The request at `req` is a write that waits for the acknowledgement of the
peer: the event `RQ_DRBD_SENT` has not been recorded in its `rq_status`
(the local write may or may not have finished). -/
def awaits_ack (w : World) (req : Nat) : Prop :=
  (w.reqs req).cmd = WRITE ∧
    ((w.reqs req).rq_status &&& 0xfffe = RQ_DRBD_NOTHING ∨
     (w.reqs req).rq_status &&& 0xfffe = RQ_DRBD_WRITTEN)

/-- A step that keeps the protocol, appends to the trace, and neither
completes a request `req` that waits for its acknowledgement nor records
`RQ_DRBD_SENT` for it. -/
def keeps_waiting (req : Nat) (w w1 : World) : Prop :=
  w1.mdev.wire_protocol = w.mdev.wire_protocol ∧
  ∃ d, w1.trace = w.trace ++ d ∧ (awaits_ack w req → awaits_ack w1 req ∧ req ∉ done_of d)

/-- A step that leaves the request structure at `req` alone and does not
complete it. -/
def leaves_req (req : Nat) (w w1 : World) : Prop :=
  w1.mdev.wire_protocol = w.mdev.wire_protocol ∧ w1.reqs req = w.reqs req ∧
  ∃ d, w1.trace = w.trace ++ d ∧ req ∉ done_of d

/-- `drbd_do_request` hands the write `req` to the peer: the request is one
that is sent, and `drbd_send_data` reports success (`send_ok`). -/
def handed_to_peer (w : World) (req : Nat) (ob od : SendOutcome) : Prop :=
  drbd_do_request_sending w req = true ∧
  (drbd_send_data (drbd_do_request_disk w req) ((w.reqs req).current_nr_sectors <<< 9)
    ((w.reqs req).sector >>> (w.mdev.blk_size_b - 9)) req ob od).2 ≠ 0

/-- The actions under which a write keeps waiting for its acknowledgement:
everything but the acknowledgement itself, a new submission of the same
request structure, and `tl_clear`. -/
def not_acking (req : Nat) : Action → Prop
  | Action.do_request r _ _ _ _ => r ≠ req
  | Action.block_ack _ block_id => block_id ≠ req
  | Action.tl_clear => False
  | _ => True

/-- What makes `drbd_md_read` reject the meta-data file: it cannot be opened,
the read does not deliver 24 bytes, or the sixth word is not the magic. -/
def md_invalid (rd : Option (Int × List Nat)) : Prop :=
  rd = none ∨ ∃ i buffer, rd = some (i, buffer) ∧ (i ≠ 24 ∨ md_word buffer MagicNr ≠ DRBD_MAGIC)

/-- The counter that a promotion by `drbd_set_state(minor, Primary)` counts in:
`ConnectedCnt` when `cstate >= Connected`, else `ArbitraryCnt` (lines
1655-1656). -/
def promotion_cnt (w : World) : Nat :=
  if Drbd_CState.Connected.toNat ≤ w.mdev.cstate.toNat then ConnectedCnt else ArbitraryCnt

/-- The counters after the case `SetConsistent` of `drbdd`: `gen_cnt[Consistent]`
is 1 and `drbd_md_write` has set `gen_cnt[PrimaryInd]` from the role. -/
def consistent_set (m : Drbd_Conf) : List Nat :=
  (m.gen_cnt.set Consistent 1).set PrimaryInd (if m.state = Drbd_State.Primary then 1 else 0)

/-- The meta-data file after `drbd_md_write` has written the counters `g` with
the outcome `md`; `old` is the file before. -/
def md_file_after (md : Option Int) (old : Option (List Nat)) (g : List Nat) :
    Option (List Nat) :=
  match md with
  | none => old
  | some i => some ((md_buffer g).take i.toNat)

/-- What `drbd_md_write` prints when the outcome of the write is `md`. -/
def md_write_trace (md : Option Int) : List Event :=
  if md = some 24 then [] else [Event.printk Msg.error_writing_state_file]

/-- The device replicates writes: it is Primary, connected, and has a socket
(the tests of `drbd_do_request` and `drbd_send`). -/
def link_up (w : World) : Prop :=
  w.mdev.state = Drbd_State.Primary ∧
    Drbd_CState.Connected.toNat ≤ w.mdev.cstate.toNat ∧ w.mdev.sock = true

/-- A call of `sock_sendmsg` for a Barrier packet. -/
def Event.isBarrierSend : Event → Bool
  | Event.send Drbd_Packet_Cmd.Barrier _ _ _ _ _ => true
  | _ => false

/-- A call of `sock_sendmsg` for a Data packet. -/
def Event.isDataSend : Event → Bool
  | Event.send Drbd_Packet_Cmd.Data _ _ _ _ _ => true
  | _ => false

/-- A Barrier packet is sent in the stretch `d` of a trace. -/
def barrier_sent (d : List Event) : Prop := ∃ e ∈ d, e.isBarrierSend = true

/-- The transfer log has complained in the stretch `d` of a trace: it was too
small for an entry, or a release ran over `tl_end`. -/
def log_trouble (d : List Event) : Prop :=
  Event.printk Msg.transferlog_too_small ∈ d ∨ Event.printk Msg.tl_messed_up ∈ d

/-- The flag `ISSUE_BARRIER` is set. -/
def barrier_flag (w : World) : Prop := test_bit ISSUE_BARRIER w.mdev.flags = true

/-- What a step from `w` to `w1` keeps of the barrier mechanism, seen from the
logged write `E`, the transfer log being well formed: unless a Barrier packet
is sent, the log complains or the connection is gone, a set `ISSUE_BARRIER`
stays set, `E` stays in the current epoch of the log, and the completion of
`E`'s request sets `ISSUE_BARRIER`. -/
def barrier_due (E : Tl_entry) (w w1 : World) : Prop :=
  tl_wf w.mdev →
  tl_wf w1.mdev ∧ w1.mdev.tl_size = w.mdev.tl_size ∧
  (link_up w1 → link_up w) ∧ (w1.reqs E.req).sector = (w.reqs E.req).sector ∧
  ∃ d, w1.trace = w.trace ++ d ∧
    (barrier_sent d ∨ log_trouble d ∨ ¬ link_up w1 ∨
      ((barrier_flag w → barrier_flag w1) ∧
       ((w.reqs E.req).sector = E.sector_nr →
          E ∈ current_epoch (tl_entries w.mdev) →
          E ∈ current_epoch (tl_entries w1.mdev) ∧ (E.req ∈ done_of d → barrier_flag w1))))

/-- The actions between the submission of the write logged as `E` and the
next write that the ordering is about: no new submission of `E`'s request
structure, no null request, no `tl_clear`. -/
def keeps_log (E : Tl_entry) : Action → Prop
  | Action.do_request r _ _ _ _ => r ≠ E.req ∧ r ≠ TL_BARRIER
  | Action.tl_clear => False
  | _ => True

/-- In the stretch `l` of a trace every Data packet is sent under the condition
`Q` and, if `F` holds, after a Barrier packet of the same stretch. -/
def data_guarded (F Q : Prop) (l : List Event) : Prop :=
  ∀ b e c, l = b ++ e :: c → e.isDataSend = true → Q ∧ (F → barrier_sent b)

/-- The socket takes the whole packet of `n` bytes and no send timer fires. -/
def taken (o : SendOutcome) (n : Nat) : Prop := o.err = (n : Int) ∧ o.signalled = false

/-- The moves of a run on a connection that delivers every packet: what the
Primary sends is taken whole by the socket, no request structure lives at the
null address, and the acknowledgements of barriers reach the Primary through
the connection only. A `block_ack` as an action of its own stands for the
acknowledgements that the asender of the Secondary sends. -/
def Move.whole : Move → Prop
  | Move.primary (Action.do_request req r _ ob od) =>
    req ≠ TL_BARRIER ∧ taken ob sizeof_Drbd_Barrier_Packet ∧
      taken od (sizeof_Drbd_Data_Packet + r.current_nr_sectors <<< 9)
  | Move.primary (Action.asender o) => taken o sizeof_Drbd_Barrier_Packet
  | Move.primary (Action.sync_data blocksize _ ob od) =>
    taken ob sizeof_Drbd_Barrier_Packet ∧ taken od (sizeof_Drbd_Data_Packet + blocksize)
  | Move.primary (Action.barrier_ack _ _) => False
  | Move.primary Action.tl_clear => False
  | _ => True

/-- The device can send: it has a socket and the connection is established. -/
def wired (w : World) : Prop :=
  w.mdev.sock = true ∧ Drbd_CState.WFReportParams.toNat ≤ w.mdev.cstate.toNat

/-- The pair right after the connection is established: the transfer log of
the Primary is empty, `ISSUE_BARRIER` is clear (`drbdd` clears both when a
connection ends, lines 2826-2827), the epoch set of the Secondary is empty and
nothing is on the wire. -/
def Pair.fresh (st : Pair) : Prop :=
  tl_wf st.p.mdev ∧ st.p.mdev.tl_size ≤ 2 ^ 31 ∧ st.p.mdev.tl_begin = st.p.mdev.tl_end ∧
  test_bit ISSUE_BARRIER st.p.mdev.flags = false ∧ st.p.mdev.state = Drbd_State.Primary ∧
  wired st.p ∧ wired st.s ∧
  st.s.mdev.epoch_size = 0 ∧ st.to_s = [] ∧ st.to_p = [] ∧ st.s_up = true

/-- What an entry of the transfer log is to the epochs: `none` for a write,
`some n` for the barrier number `n`. -/
def Tl_entry.sym (e : Tl_entry) : Option Nat :=
  if e.req = TL_BARRIER then some e.sector_nr else none

/-- The epochs announced by the packets on their way to the Primary: each
`BarrierAck` with the fields `n`, `k` stands for `k` writes and barrier `n`. -/
def syms_of_acks : List Pkt → List (Option Nat)
  | [] => []
  | pk :: t =>
    (if pk.cmd = Drbd_Packet_Cmd.BarrierAck then List.replicate pk.b none ++ [some pk.a]
     else []) ++ syms_of_acks t

/-- The writes and barriers among the packets on their way to the Secondary:
a `Data` packet of a request is a write, a `Barrier` packet a barrier; the
blocks of the syncer (`ID_SYNCER`) are not logged. -/
def syms_of_pkts : List Pkt → List (Option Nat)
  | [] => []
  | pk :: t =>
    (if pk.cmd = Drbd_Packet_Cmd.Data then (if pk.b = ID_SYNCER then [] else [none])
     else if pk.cmd = Drbd_Packet_Cmd.Barrier then [some pk.a] else []) ++ syms_of_pkts t

/-- Whether the list ends in a write; `b` is the answer for the empty list. -/
def last_data : Bool → List (Option Nat) → Bool
  | b, [] => b
  | _, none :: t => last_data true t
  | _, some _ :: t => last_data false t

/-- Whether every barrier of the list comes right after a write; `b` tells
whether a barrier may stand at the head. -/
def spaced : Bool → List (Option Nat) → Bool
  | _, [] => true
  | _, none :: t => spaced true t
  | b, some _ :: t => b && spaced false t

/-- What the send path of the Primary does to the transfer log (`es`, the
entries between `tl_begin` and `tl_end`), to the flag `ISSUE_BARRIER` (`f`)
and to the wire (`out`): a write is logged and sent, a block of the syncer is
sent only, a barrier is logged and sent when the flag is set, which clears the
flag, and the flag is set when the log ends in a write. -/
inductive LogRun : List Tl_entry → Bool → List Pkt → List Tl_entry → Bool → Prop
  | refl (es : List Tl_entry) (f : Bool) : LogRun es f [] es f
  | data (es : List Tl_entry) (f : Bool) (out : List Pkt) (es1 : List Tl_entry) (f1 : Bool)
      (bn id ds sec : Nat) (h : LogRun es f out es1 f1) (hs : id ≠ ID_SYNCER)
      (h0 : id ≠ TL_BARRIER) :
      LogRun es f (out ++ [⟨Drbd_Packet_Cmd.Data, bn, id, ds⟩]) (es1 ++ [⟨id, sec⟩]) f1
  | sync (es : List Tl_entry) (f : Bool) (out : List Pkt) (es1 : List Tl_entry) (f1 : Bool)
      (bn ds : Nat) (h : LogRun es f out es1 f1) :
      LogRun es f (out ++ [⟨Drbd_Packet_Cmd.Data, bn, ID_SYNCER, ds⟩]) es1 f1
  | barrier (es : List Tl_entry) (f : Bool) (out : List Pkt) (es1 : List Tl_entry)
      (n : Nat) (h : LogRun es f out es1 true) :
      LogRun es f (out ++ [⟨Drbd_Packet_Cmd.Barrier, n, 0, 0⟩]) (es1 ++ [⟨TL_BARRIER, n⟩]) false
  | flag (es : List Tl_entry) (f : Bool) (out : List Pkt) (es1 : List Tl_entry) (f1 : Bool)
      (h : LogRun es f out es1 f1) (hl : last_data false (es1.map Tl_entry.sym) = true) :
      LogRun es f out es1 true

/-- The transfer log of the Primary against the rest of the pair: the log
holds the barrier released last (`rel`, if any) and then the pending entries
`pend`; these are, in order, the epochs whose acknowledgements are on their way
to the Primary, then (as long as the receiver of the Secondary runs) the
writes of the epoch set of the Secondary and what is on its way to the
Secondary. Every pending barrier comes right after a write, and
`ISSUE_BARRIER` is set only when the log ends in a write. -/
def Pair.matched (es : List Tl_entry) (f : Bool) (to_s to_p : List Pkt) (ep : Nat)
    (up : Bool) : Prop :=
  ∃ (rel : Option Tl_entry) (pend : List Tl_entry),
    es = rel.toList ++ pend ∧ (∀ B ∈ rel, B.req = TL_BARRIER) ∧
    spaced false (pend.map Tl_entry.sym) = true ∧
    (f = true → last_data false (pend.map Tl_entry.sym) = true) ∧
    ∃ X, pend.map Tl_entry.sym = syms_of_acks to_p ++ X ∧
      (up = true → X = List.replicate ep none ++ syms_of_pkts to_s)

/-- The invariant of the pair: the log of the Primary is well formed, both
nodes can send, and unless the log has overflown (`transferlog too small`) it
matches the rest of the pair. -/
def Pair.inv (st : Pair) : Prop :=
  tl_wf st.p.mdev ∧ st.p.mdev.tl_size ≤ 2 ^ 31 ∧ st.p.mdev.state = Drbd_State.Primary ∧
  wired st.p ∧ wired st.s ∧
  (Event.printk Msg.transferlog_too_small ∈ st.p.trace ∨
    Pair.matched (tl_entries st.p.mdev) (test_bit ISSUE_BARRIER st.p.mdev.flags)
      st.to_s st.to_p st.s.mdev.epoch_size st.s_up)

/-- What an action of the Primary does, seen from the pair: the log stays well
formed, the device can still send, and unless the log overflows the log, the
flag and the wire change as `LogRun` tells. -/
def sends_logged (w w1 : World) : Prop :=
  tl_wf w.mdev → wired w →
  tl_wf w1.mdev ∧ w1.mdev.tl_size = w.mdev.tl_size ∧ w1.mdev.state = w.mdev.state ∧ wired w1 ∧
  ∃ d, w1.trace = w.trace ++ d ∧
    (Event.printk Msg.transferlog_too_small ∈ d ∨
      LogRun (tl_entries w.mdev) (test_bit ISSUE_BARRIER w.mdev.flags) (sent_of d)
        (tl_entries w1.mdev) (test_bit ISSUE_BARRIER w1.mdev.flags))

/-- What a step of the receiver of the Secondary does, seen from the pair: it
keeps the connection, enters `k` writes into the epoch set and sends no
`BarrierAck`. -/
def epoch_step (k : Nat) (w w1 : World) : Prop :=
  w1.mdev.sock = w.mdev.sock ∧ w1.mdev.cstate = w.mdev.cstate ∧
  w1.mdev.epoch_size = w.mdev.epoch_size + k ∧
  ∃ d, w1.trace = w.trace ++ d ∧ syms_of_acks (sent_of d) = []

/-- Whether an event is a call of `sock_sendmsg`. -/
def Event.isSend : Event → Bool
  | Event.send _ _ _ _ _ _ => true
  | _ => false

/-- The calls of `sock_sendmsg` among the events `d`, in their order: what goes
to the wire. -/
def wire_of (d : List Event) : List Event := d.filter Event.isSend

instance (w : World) : Decidable (wired w) := by
  unfold wired; infer_instance

/-- The socket takes the whole packet of `n` bytes from `drbd_send` in the
world `w`: the device has its socket and a connection state from
`WFReportParams` on, the send timer (if `conf.timeout` is set) has not
signalled, and `sock_sendmsg` returned `n`. -/
def sent_whole (w : World) (o : SendOutcome) (n : Nat) : Prop :=
  wired w ∧ ¬(w.mdev.timeout ≠ 0 ∧ o.signalled = true) ∧ o.err = (n : Int)

instance (w : World) (o : SendOutcome) (n : Nat) : Decidable (sent_whole w o n) := by
  unfold sent_whole; infer_instance

/-- The event of marking a block in the bitmap. -/
def Event.isSetBlockStatus : Event → Bool
  | Event.set_block_status _ _ _ => true
  | _ => false

/-- The entries `epoch[0] .. epoch[epoch_size - 1]` of the epoch set. -/
def epoch_live (m : Drbd_Conf) : List Tl_epoch_entry :=
  (List.range m.epoch_size).map (fun j => m.epoch_set.getD j default)

/-- An epoch entry that is not acknowledged yet: its `block_id` is not 0. -/
def Tl_epoch_entry.owed (e : Tl_epoch_entry) : Bool := decide (e.block_id ≠ 0)

/-- The entries of the epoch set that are not acknowledged yet. -/
def epoch_pending (m : Drbd_Conf) : List Tl_epoch_entry :=
  (epoch_live m).filter Tl_epoch_entry.owed

/-- The call of `sock_sendmsg` for the WriteAck of an epoch entry that the
socket takes whole. -/
def write_ack_of (e : Tl_epoch_entry) : Event :=
  Event.send Drbd_Packet_Cmd.WriteAck e.bh.b_blocknr e.block_id sizeof_Drbd_BlockAck_Packet 0
    ((sizeof_Drbd_BlockAck_Packet + 0 : Nat) : Int)

/-- Block number and block id of an epoch entry. -/
def Tl_epoch_entry.key (e : Tl_epoch_entry) : Nat × Nat := (e.bh.b_blocknr, e.block_id)

/-- Block number and block id of the WriteAck packets for application writes
(`block_id != ID_SYNCER`) among the events `d`, in their order. -/
def write_acked (d : List Event) : List (Nat × Nat) :=
  d.filterMap (fun e => match e with
    | Event.send Drbd_Packet_Cmd.WriteAck a b _ _ _ => if b ≠ ID_SYNCER then some (a, b) else none
    | _ => none)

/-- Block number and block id of the application writes among the moves. -/
def received : List SecMove → List (Nat × Nat)
  | [] => []
  | SecMove.data _ bn id :: t => (if id ≠ ID_SYNCER then [(bn, id)] else []) ++ received t
  | _ :: t => received t

/-- The number of application Data packets since the last Barrier packet among
the moves, starting with the count `k`. -/
def epoch_count_from : Nat → List SecMove → Nat
  | k, [] => k
  | k, SecMove.data _ _ id :: t => epoch_count_from (if id ≠ ID_SYNCER then k + 1 else k) t
  | _, SecMove.barrier _ :: t => epoch_count_from 0 t
  | k, _ :: t => epoch_count_from k t

/-- A Secondary at the start of a connection: socket and connection state are
there, the epoch set is empty and no acknowledgement is owed. -/
def sec_fresh (w : World) : Prop :=
  wired w ∧ w.mdev.state = Drbd_State.Secondary ∧ w.mdev.epoch_size = 0 ∧
    w.mdev.unacked_cnt = 0

instance (w : World) : Decidable (sec_fresh w) := by
  unfold sec_fresh; infer_instance

/-- The entries `epoch[i] .. epoch[i + n - 1]` of the epoch set. -/
def epoch_seg (m : Drbd_Conf) (i n : Nat) : List Tl_epoch_entry :=
  (List.range' i n).map (fun j => m.epoch_set.getD j default)

/-- An epoch entry that `drbd_asender` acknowledges: its `block_id` is not 0
and its buffer is up to date. -/
def Tl_epoch_entry.ready (e : Tl_epoch_entry) : Bool :=
  decide (e.block_id ≠ 0 ∧ e.bh.uptodate = true)

/-- An epoch entry after `drbd_asender` has looked at it. -/
def Tl_epoch_entry.scanned (e : Tl_epoch_entry) : Tl_epoch_entry :=
  if e.ready = true then { e with block_id := 0 } else e

/-- Barrier number and set size of the BarrierAck packets among the events
`d`, in their order. -/
def barrier_acked (d : List Event) : List (Nat × Nat) :=
  d.filterMap (fun e => match e with
    | Event.send Drbd_Packet_Cmd.BarrierAck a b _ _ _ => some (a, b)
    | _ => none)

/-- The device state of `w1` is that of `w` except for the epoch set, the
counter `unacked_cnt` and the flags and counters the sender of
acknowledgements uses; the trace has grown. -/
def sec_frame (w w1 : World) : Prop :=
  wired w1 ∧ w1.mdev.state = w.mdev.state ∧ w1.mdev.wire_protocol = w.mdev.wire_protocol ∧
    w1.mdev.epoch_size = w.mdev.epoch_size ∧
    w1.mdev.epoch_set.length = w.mdev.epoch_set.length

/-- The world after the acknowledgement of epoch entry `i`: the slot holds `x`,
the WriteAck for the entry has been taken by the socket, and `unacked_cnt` has
been decremented. -/
def acked_at (w : World) (i : Nat) (x : Tl_epoch_entry) : World :=
  { w with
    mdev := dec_unacked { w.mdev with epoch_set := w.mdev.epoch_set.set i x },
    trace := w.trace ++ [write_ack_of (w.mdev.epoch_set.getD i default)] }

/-- The world after `receive_barrier` has waited for the buffer of epoch entry
`i` without acknowledging it. -/
def waited_at (w : World) (i : Nat) : World :=
  { w with mdev := { w.mdev with epoch_set := (w.mdev.epoch_set.set i
      { w.mdev.epoch_set.getD i default with
        bh := { (w.mdev.epoch_set.getD i default).bh with uptodate := true } }) } }

/-- The BarrierAck packets a Secondary owes for the Barrier packets among the
moves, when `k` application Data packets have arrived since the last barrier:
barrier number and number of application Data packets of the epoch. -/
def barrier_replies : Nat → List SecMove → List (Nat × Nat)
  | _, [] => []
  | k, SecMove.data _ _ id :: t => barrier_replies (if id ≠ ID_SYNCER then k + 1 else k) t
  | k, SecMove.barrier nr :: t => (nr, k) :: barrier_replies 0 t
  | k, _ :: t => barrier_replies k t

/-- What holds on a Secondary between packets while the connection stands: the
connection is there, the entries below `epoch_size` exist and none of them
carries `ID_SYNCER`. -/
def sec_inv (w : World) : Prop :=
  wired w ∧ w.mdev.state = Drbd_State.Secondary ∧
    w.mdev.epoch_size ≤ w.mdev.epoch_set.length ∧
    ∀ e ∈ epoch_live w.mdev, e.block_id ≠ ID_SYNCER

/-- What the moves `ms` have done between the worlds `w` and `w1` of a
Secondary: the invariant holds again, `epoch_size` counts the application Data
packets since the last Barrier packet, the BarrierAck packets sent are the
replies owed, and under protocol C, when no application write carries the
block id 0, the WriteAck packets sent together with the entries still owed an
acknowledgement are the entries that were owed one before together with the
writes received, and `unacked_cnt` is the number of entries owed. -/
def sec_run_ok (w w1 : World) (ms : List SecMove) : Prop :=
  sec_inv w1 ∧ w1.mdev.wire_protocol = w.mdev.wire_protocol ∧
  w1.mdev.epoch_size = epoch_count_from w.mdev.epoch_size ms ∧
  ∃ d, w1.trace = w.trace ++ d ∧
    barrier_acked d = barrier_replies w.mdev.epoch_size ms ∧
    (w.mdev.wire_protocol = DRBD_PROT_C → (∀ p ∈ received ms, p.2 ≠ 0) →
      List.Perm (write_acked d ++ (epoch_pending w1.mdev).map Tl_epoch_entry.key)
        ((epoch_pending w.mdev).map Tl_epoch_entry.key ++ received ms) ∧
      (w.mdev.unacked_cnt = (epoch_pending w.mdev).length →
        w.mdev.epoch_size + ms.length < 2 ^ 32 →
        w1.mdev.unacked_cnt = (epoch_pending w1.mdev).length))

/-- Whether the event "sent" finishes the request `r`: the cases in which
`drbd_end_req(req, RQ_DRBD_SENT, 1)` reaches the label `end_it` or
`end_it_unlocked` (lines 1166-1203): a read, a write of a Secondary, or a
write whose local I/O has already been reported (`RQ_DRBD_WRITTEN`). -/
def sent_completes (r : request) : Prop :=
  r.cmd = READ ∨ r.rq_status &&& 0xfffe = RQ_DRBD_SEC_WRITE ∨
    r.rq_status &&& 0xfffe = RQ_DRBD_WRITTEN

instance (r : request) : Decidable (sent_completes r) := by
  unfold sent_completes; infer_instance

instance (w : World) (e : Tl_entry) : Decidable (tl_live w e) := by
  unfold tl_live; infer_instance

/-- The requests for which the loop of `tl_clear`, walking over `seg` from the
world `w`, calls `drbd_end_req`: `end_them` is set and a data entry of `seg`
names the request, which is live. -/
def tl_handled (et : Bool) (w : World) (seg : List Tl_entry) (a : Nat) : Prop :=
  et = true ∧ ∃ e ∈ seg, e.req ≠ TL_BARRIER ∧ e.req = a ∧ tl_live w e

/-- What the loop of `tl_clear` has done to the requests after walking over
the entries `seg`, from world `w` to world `w1`: the completions it has made
and the `rq_status` it leaves. -/
def ClearEnds (et : Bool) (w w1 : World) (seg : List Tl_entry) : Prop :=
  w1.minor = w.minor ∧
  (∀ a, (w1.reqs a).rq_dev = (w.reqs a).rq_dev ∧ (w1.reqs a).sector = (w.reqs a).sector ∧
    (w1.reqs a).cmd = (w.reqs a).cmd) ∧
  ∃ new, w1.trace = w.trace ++ new ∧
    (∀ req ok, Event.end_request req ok ∈ new →
      tl_handled et w seg req ∧ sent_completes (w.reqs req) ∧
        ok = 1 &&& (w.reqs req).rq_status) ∧
    (∀ a, tl_handled et w seg a →
      (sent_completes (w.reqs a) →
        Event.end_request a (1 &&& (w.reqs a).rq_status) ∈ new ∧
          (w1.reqs a).rq_status = RQ_INACTIVE) ∧
      (¬ sent_completes (w.reqs a) →
        ((w.reqs a).rq_status &&& 0xfffe = RQ_DRBD_NOTHING →
          (w1.reqs a).rq_status = RQ_DRBD_SENT ||| 1) ∧
        ((w.reqs a).rq_status &&& 0xfffe ≠ RQ_DRBD_NOTHING →
          (w1.reqs a).rq_status = (w.reqs a).rq_status))) ∧
    (∀ a, ¬ tl_handled et w seg a → (w1.reqs a).rq_status = (w.reqs a).rq_status)

/-! ## Example states -/

/-- A Primary, connected under protocol C, with an empty transfer log of four
slots. -/
def mdev0 : Drbd_Conf :=
  { tl_size := 4, wire_protocol := DRBD_PROT_C, timeout := 0, do_panic := false, sock := true,
    blk_size_b := 12, state := Drbd_State.Primary, cstate := Drbd_CState.Connected,
    send_cnt := 0, recv_cnt := 0, read_cnt := 0, writ_cnt := 0, pending_cnt := 0,
    unacked_cnt := 0, tl_end := 0, tl_begin := 0,
    transfer_log := [⟨0, 0⟩, ⟨0, 0⟩, ⟨0, 0⟩, ⟨0, 0⟩], flags := 0, epoch_size := 0,
    epoch_set := [], synced_to := 0, sync_log := List.replicate 80 none }

/-- A ring that wraps: `tl_begin = 2`, `tl_end = 1`; it holds, oldest first, a
write of sector 7, barrier 5 and a write of sector 9 (slots 2, 3, 0). -/
def mdev_wrapped : Drbd_Conf :=
  { mdev0 with tl_begin := 2, tl_end := 1,
               transfer_log := [⟨103, 9⟩, ⟨0, 0⟩, ⟨101, 7⟩, ⟨TL_BARRIER, 5⟩] }

/-- All request structures unused. -/
def reqs0 : Nat → request :=
  fun _ => { rq_status := RQ_INACTIVE, rq_dev := 0, cmd := READ, sector := 0,
             current_nr_sectors := 0 }

/-- The world of `mdev0`: minor 0, barrier counter 0, nothing observed yet. -/
def world0 : World :=
  { mdev := mdev0, minor := 0, br_cnt := 0, reqs := reqs0, trace := [] }

/-- A log of four slots holding a write of sector 7 (request 101) and the
barrier number 1 after it: `tl_begin = 0`, `tl_end = 2`. -/
def world_one_epoch : World :=
  { world0 with
    mdev := { mdev0 with tl_end := 2,
                         transfer_log := [⟨101, 7⟩, ⟨TL_BARRIER, 1⟩, ⟨0, 0⟩, ⟨0, 0⟩] },
    br_cnt := 1 }

/-- A world in which request 101, a write of sector 7, has just been handed to
the network and the disk (`RQ_DRBD_NOTHING`). -/
def world_nothing : World :=
  { world0 with reqs := req_update reqs0 101 ⟨RQ_DRBD_NOTHING, MKDEV MAJOR_NR 0, WRITE, 7, 8⟩ }

/-- A Primary that has lost its connection (`cstate == Unconnected`), protocol
C: the log holds the write of sector 8 (request 101, local write done with
success), barrier 1, and the write of sector 16 (request 102, neither event
delivered yet). -/
def world_clear : World :=
  { world0 with
    mdev := { mdev0 with cstate := Drbd_CState.Unconnected, tl_end := 3, pending_cnt := 3,
                         transfer_log := [⟨101, 8⟩, ⟨TL_BARRIER, 1⟩, ⟨102, 16⟩, ⟨0, 0⟩] },
    br_cnt := 1,
    reqs := req_update (req_update reqs0 101 ⟨RQ_DRBD_WRITTEN ||| 1, MKDEV MAJOR_NR 0, WRITE, 8, 8⟩)
      102 ⟨RQ_DRBD_NOTHING, MKDEV MAJOR_NR 0, WRITE, 16, 8⟩ }

/-- The world `world0` in which request 101 is a write of sector 7. -/
def world_w7 : World :=
  { world0 with reqs := req_update reqs0 101 ⟨1, MKDEV MAJOR_NR 0, WRITE, 7, 8⟩ }

/-- A Primary that has just connected (`WFReportParams`); its counters have
moved on since the snapshot `bit_map_gen` was taken. -/
def world_handshake : World :=
  { world0 with
    mdev := { mdev0 with cstate := Drbd_CState.WFReportParams, gen_cnt := [1, 1, 5, 1, 1],
                         bit_map_gen := [1, 1, 4, 1, 1] } }

/-- The parameters a Secondary reports: 1024 KB, blocks of 4096 bytes, protocol
C, version 58, counters `[1, 1, 4, 1, 0]`. -/
def param_secondary : Drbd_Parameter_P :=
  ⟨1024, 4096, Drbd_State.Secondary, DRBD_PROT_C, 58, [1, 1, 4, 1, 0]⟩

/-- Surroundings in which everything works: the lower device has 2048 KB, the
bitmap is created, nobody has to sleep, files are written and packets are
taken whole. -/
def env_ok : ParamEnv :=
  { ll_size := some 2048, mops_init := true, sleeps := [], md_inc := some 24,
    md_adopt := some 24, uninit := 0, o_param := ⟨52, false⟩, o_cstate := ⟨12, false⟩ }

/-- A Secondary with an empty epoch set and counters `[1, 1, 1, 1, 0]`. -/
def world_secondary : World :=
  { world0 with
    mdev := { mdev0 with state := Drbd_State.Secondary, gen_cnt := [1, 1, 1, 1, 0] } }

/-- A bitmap of 8 bytes (a device of 256 KB) in which bit 0 is set; cache and
cursor are as `bm_init` leaves them. -/
def bm_dirty : BitMap :=
  { dev := 0, size := 8, bm := [1], sb_bitnr := 0, sb_mask := 0, gb_bitnr := 0, gb_snr := 0 }

/-- A bitmap of 8 bytes in which the bits 0, 3 and 63 are set. -/
def bm_sparse : BitMap :=
  { dev := 0, size := 8, bm := [2 ^ 63 + 2 ^ 3 + 1], sb_bitnr := 0, sb_mask := 0,
    gb_bitnr := 0, gb_snr := 0 }

/-- A write of the eight sectors from `sector` on, as the block layer hands it
to the device of minor 0. -/
def rq_write (sector : Nat) : request :=
  { rq_status := RQ_INACTIVE, rq_dev := MKDEV MAJOR_NR 0, cmd := WRITE, sector := sector,
    current_nr_sectors := 8 }

/-- A barrier packet that the socket takes whole. -/
def barrier_taken : SendOutcome := ⟨12, false⟩

/-- A data packet of 4096 bytes that the socket takes whole. -/
def data_taken : SendOutcome := ⟨4120, false⟩

/-- The world `world0` after the write of sector 8 (request 101) has been handed
to the disk and to the peer. -/
def world_sent : World :=
  (exec 4 world0 (Action.do_request 101 (rq_write 8) true barrier_taken data_taken)).getD world0

/-- The world `world_sent` after the local write has finished and the asender
has run. -/
def world_sent_written : World :=
  (run 4 [Action.dio_end 101 1, Action.asender barrier_taken] world_sent).getD world0

/-- The world `world_handshake` whose user has declared a device size of 512 KB. -/
def world_size_hint : World :=
  { world_handshake with mdev := { world_handshake.mdev with lo_usize := 512 } }

/-- Node A of the tie-break: a Secondary in `WFReportParams` with the counters
`[1, 1, 5, 1, 0]`. -/
def world_tie_a : World :=
  { world0 with
    mdev := { mdev0 with state := Drbd_State.Secondary, cstate := Drbd_CState.WFReportParams,
                         gen_cnt := [1, 1, 5, 1, 0] } }

/-- Node B of the tie-break: a Secondary in `WFReportParams` with the counters
`[1, 1, 4, 9, 0]`. -/
def world_tie_b : World :=
  { world0 with
    mdev := { mdev0 with state := Drbd_State.Secondary, cstate := Drbd_CState.WFReportParams,
                         gen_cnt := [1, 1, 4, 9, 0] } }

/-- A numbering of the packet types: the position in the list of §4.4. -/
def cmd_code : Drbd_Packet_Cmd → Nat
  | Drbd_Packet_Cmd.Data => 0
  | Drbd_Packet_Cmd.Barrier => 1
  | Drbd_Packet_Cmd.Ping => 2
  | Drbd_Packet_Cmd.PingAck => 3
  | Drbd_Packet_Cmd.RecvAck => 4
  | Drbd_Packet_Cmd.WriteAck => 5
  | Drbd_Packet_Cmd.BarrierAck => 6
  | Drbd_Packet_Cmd.ReportParams => 7
  | Drbd_Packet_Cmd.CStateChanged => 8
  | Drbd_Packet_Cmd.StartSync => 9
  | Drbd_Packet_Cmd.Postpone => 10
  | Drbd_Packet_Cmd.BecomeSec => 11
  | Drbd_Packet_Cmd.SetConsistent => 12

/-- A round in which nothing arrives: `drbd_recv` fails for the header and for
whatever a handler asks for; sends are taken whole. -/
def input_none : DrbddInput :=
  { header := none, barrier := none, data := ⟨none, false, false⟩, block_ack := none,
    barrier_ack := none, param := none, cstate := none, env := env_ok,
    o := fun _ => ⟨24, false⟩, md := some 24 }

/-- The parameters a Secondary of another release reports: as
`param_secondary`, with version 57. -/
def param_old_release : Drbd_Parameter_P :=
  ⟨1024, 4096, Drbd_State.Secondary, DRBD_PROT_C, 57, [1, 1, 4, 1, 0]⟩

/-- The round in which a `ReportParams` packet with the block
`param_old_release` arrives. -/
def input_old_release : DrbddInput :=
  { input_none with
    header := some (drbd_send_header cmd_code Drbd_Packet_Cmd.ReportParams 0).bytes,
    param := some param_old_release }

/-- A connected Secondary whose data are consistent: counters
`[1, 1, 4, 1, 0]`. -/
def world_sync_target : World :=
  { world0 with
    mdev := { mdev0 with state := Drbd_State.Secondary, gen_cnt := [1, 1, 4, 1, 0] } }

/-- A Primary that is synchronising its peer (`SyncingAll`). -/
def world_syncing : World :=
  { world0 with mdev := { mdev0 with cstate := Drbd_CState.SyncingAll } }

/-- The round in which `CStateChanged` with `SyncingAll` arrives. -/
def input_cstate_syncing : DrbddInput :=
  { input_none with
    header := some (drbd_send_header cmd_code Drbd_Packet_Cmd.CStateChanged 0).bytes,
    cstate := some Drbd_CState.SyncingAll }

/-- The round in which the syncer's block 5 arrives (`Data` with `ID_SYNCER`,
4096 bytes). -/
def input_resync_data : DrbddInput :=
  { input_none with
    header := some (drbd_send_header cmd_code Drbd_Packet_Cmd.Data 4096).bytes,
    data := ⟨some (5, ID_SYNCER), true, true⟩ }

/-- The round in which `SetConsistent` arrives. -/
def input_set_consistent : DrbddInput :=
  { input_none with
    header := some (drbd_send_header cmd_code Drbd_Packet_Cmd.SetConsistent 0).bytes }

/-- A Primary as in `world0` with a transfer log of eight slots. -/
def world_s2 : World :=
  { world0 with
    mdev := { mdev0 with tl_size := 8, transfer_log := List.replicate 8 ⟨0, 0⟩ } }

/-- The world `world_s2` after the writes of the sectors 0 (request 101) and 8
(request 102) have been handed to the disk and to the peer. -/
def world_s2_sent : World :=
  (run 8 [Action.do_request 101 (rq_write 0) true barrier_taken data_taken,
    Action.do_request 102 (rq_write 8) true barrier_taken data_taken] world_s2).getD world0

/-- The world `world_s2_sent` after the peer has acknowledged the write of
sector 0. -/
def world_s2_acked : World :=
  (exec 8 world_s2_sent (Action.block_ack 0 101)).getD world0

/-- The world `world_sent` after the local write of request 101 has finished
and the peer has acknowledged it: the request is completed. -/
def world_sent_done : World :=
  (run 4 [Action.dio_end 101 1, Action.block_ack 1 101] world_sent).getD world0

/-- The world `world_sent_done` after a second write of sector 8 (request 102)
has been handed to the disk and to the peer. -/
def world_second_sent : World :=
  (exec 4 world_sent_done (Action.do_request 102 (rq_write 8) true barrier_taken
    data_taken)).getD world0

/-- A Primary, connected under protocol B, with an empty transfer log of `n`
slots. -/
def primary_b (n : Nat) : World :=
  { world0 with mdev := { mdev0 with wire_protocol := DRBD_PROT_B, tl_size := n,
                                      transfer_log := List.replicate n ⟨0, 0⟩ } }

/-- A Secondary, connected under protocol B, with an empty epoch set. -/
def secondary_b : World :=
  { world0 with mdev := { mdev0 with wire_protocol := DRBD_PROT_B,
                                      state := Drbd_State.Secondary } }

/-- The pair of `primary_b n` and `secondary_b` with nothing on the wire. -/
def pair_b (n : Nat) : Pair := ⟨primary_b n, secondary_b, [], [], true⟩

/-- The block layer hands the write of the eight sectors from `sector` on, in
the request structure `req`, to `drbd_do_request`; the socket takes barrier
and data whole. -/
def write_move (req sector : Nat) : Move :=
  Move.primary (Action.do_request req (rq_write sector) true barrier_taken data_taken)

/-- Three writes go out, the Secondary receives and acknowledges them and the
Primary reads the three `RecvAck`; the local write of the third finishes, a
fourth write is submitted, and the Secondary reads the barrier that precedes
it. -/
def run_overflow : List Move :=
  [write_move 101 8, write_move 102 16, write_move 103 24,
   Move.deliver true true, Move.deliver true true, Move.deliver true true,
   Move.ack, Move.ack, Move.ack, Move.primary (Action.dio_end 103 1),
   write_move 104 32, Move.deliver true true]

/-- The pair after `run_overflow` on a transfer log of two slots. -/
def pair_overflow : Pair := (Pair.run 2 run_overflow (pair_b 2)).getD (pair_b 2)

/-- One write goes out, is received and acknowledged, and its local write
finishes; a second write is submitted, and the Secondary reads the barrier
that precedes it. -/
def run_epoch : List Move :=
  [write_move 101 8, Move.deliver true true, Move.ack, Move.primary (Action.dio_end 101 1),
   write_move 102 8, Move.deliver true true]

/-- The pair after `run_epoch` on a transfer log of four slots. -/
def pair_epoch : Pair := (Pair.run 4 run_epoch (pair_b 4)).getD (pair_b 4)

/-- The parameters of a Primary that reports a block size of 0. -/
def param_blksize_zero : Drbd_Parameter_P :=
  ⟨1024, 0, Drbd_State.Primary, DRBD_PROT_C, 58, [1, 1, 4, 1, 1]⟩

/-- A Secondary that is connected under protocol C, with two writes in its
epoch set, one buffer in its sync log and three acknowledgements owed. -/
def world_secondary_busy : World :=
  { world_secondary with
    mdev := { world_secondary.mdev with
      epoch_size := 2,
      epoch_set := [⟨⟨1, true⟩, 101⟩, ⟨⟨2, false⟩, 102⟩],
      sync_log := (List.replicate 80 none).set 3 (some ⟨7, false⟩),
      unacked_cnt := 3, pending_cnt := 1 } }

/-- The bitmap `bm_init` makes for a device of 256 KB on a machine with words
of 64 bits: 8 bytes, one word. -/
def bm_256k : BitMap := (bm_init 6 0 256).1.getD default

/-- The world `primary_b 8` with `ISSUE_BARRIER` set and request 101 a write of
sector 8. -/
def world_flagged : World :=
  { primary_b 8 with
    mdev := { (primary_b 8).mdev with flags := set_bit ISSUE_BARRIER 0 },
    reqs := req_update reqs0 101 ⟨RQ_DRBD_NOTHING, MKDEV MAJOR_NR 0, WRITE, 8, 8⟩ }

/-- A data packet of 4096 bytes of which the socket takes 100 bytes. -/
def data_short : SendOutcome := ⟨100, false⟩

/-- Two application writes arrive, the first is written and acknowledged by a
round of `drbd_asender`, a resync block arrives, then the barrier. -/
def moves_epoch : List SecMove :=
  [SecMove.data 4096 7 101, SecMove.data 4096 8 102, SecMove.written 0, SecMove.scan false,
   SecMove.data 4096 9 ID_SYNCER]

/-- The Secondary `world_secondary` (protocol C) after the moves `moves_epoch`. -/
def world_epoch_open : World := (sec_run 0 moves_epoch world_secondary).getD world0

/-! # Lemmas and theorems -/

@[simp] theorem req_update_same (f : Nat → request) (a : Nat) (v : request) :
    req_update f a v a = v := by
  simp [req_update]

theorem req_update_ne (f : Nat → request) (a : Nat) (v : request) (x : Nat) (h : x ≠ a) :
    req_update f a v x = f x := by
  simp [req_update, h]

theorem ring_take_succ (mdev : Drbd_Conf) (k : Nat) :
    ring_take mdev (k + 1) = ring_take mdev k ++ [tl_at mdev (tl_slot mdev k)] := by
  simp [ring_take, List.range_succ]

theorem ring_take_length (mdev : Drbd_Conf) (k : Nat) : (ring_take mdev k).length = k := by
  simp [ring_take]

theorem tl_slot_count (mdev : Drbd_Conf) (h : tl_wf mdev) :
    tl_slot mdev (tl_count mdev) = mdev.tl_end := by
  obtain ⟨_, hb, he⟩ := h
  unfold tl_slot tl_count
  split <;> split <;> omega

theorem tl_count_lt (mdev : Drbd_Conf) (h : tl_wf mdev) : tl_count mdev < mdev.tl_size := by
  obtain ⟨_, hb, he⟩ := h
  unfold tl_count
  split <;> omega

theorem dep_rev_eq_spec (s : Nat) (es : List Tl_entry) :
    dep_rev s es.reverse = contains_sector_spec es s := by
  unfold contains_sector_spec current_epoch
  rw [List.any_reverse]
  generalize es.reverse = l
  induction l with
  | nil => rfl
  | cons e t ih =>
    by_cases hb : e.req = TL_BARRIER
    · simp [dep_rev, List.takeWhile_cons, Tl_entry.isBarrier, hb]
    · have hb1 : (e.req == TL_BARRIER) = false := by simpa using hb
      by_cases hs : e.sector_nr = s
      · simp [dep_rev, List.takeWhile_cons, Tl_entry.isBarrier, hb, hb1, hs]
      · simp [dep_rev, List.takeWhile_cons, Tl_entry.isBarrier, hb, hb1, hs, ih]

theorem tl_dependence_loop_spec (mdev : Drbd_Conf) (s : Nat) (h : tl_wf mdev) :
    ∀ k, k ≤ tl_count mdev → ∀ fuel, k < fuel →
      tl_dependence_loop fuel mdev s (tl_slot mdev k)
        = some (dep_rev s (ring_take mdev k).reverse) := by
  have hc := tl_count_lt mdev h
  obtain ⟨_, hb, he⟩ := h
  intro k
  induction k with
  | zero =>
    intro _ fuel hf
    obtain ⟨f, rfl⟩ : ∃ f, fuel = f + 1 := ⟨fuel - 1, by omega⟩
    have h0 : tl_slot mdev 0 = mdev.tl_begin := by unfold tl_slot; simp [hb]
    simp [tl_dependence_loop, h0, ring_take, dep_rev]
  | succ k ih =>
    intro hk fuel hf
    obtain ⟨f, rfl⟩ : ∃ f, fuel = f + 1 := ⟨fuel - 1, by omega⟩
    have hne : tl_slot mdev (k + 1) ≠ mdev.tl_begin := by
      unfold tl_slot; split <;> omega
    have hp2 : (if tl_slot mdev (k + 1) = 0 then tl_slot mdev (k + 1) + mdev.tl_size
        else tl_slot mdev (k + 1)) - 1 = tl_slot mdev k := by
      unfold tl_slot; split <;> split <;> split <;> omega
    have hp1 : ¬ (tl_slot mdev (k + 1) = 0 ∧
        (if tl_slot mdev (k + 1) = 0 then tl_slot mdev (k + 1) + mdev.tl_size
          else tl_slot mdev (k + 1)) = mdev.tl_begin) := by
      rintro ⟨h0, h1⟩
      rw [if_pos h0, h0] at h1
      omega
    rw [ring_take_succ, List.reverse_append]
    simp only [List.reverse_cons, List.reverse_nil, List.nil_append, List.singleton_append]
    unfold tl_dependence_loop
    simp only [hne, if_false, hp1, hp2]
    rw [ih (by omega) f (by omega)]
    simp only [dep_rev]
    split <;> [rfl; (split <;> rfl)]

/-- The result of `tl_dependence` on a well-formed ring. -/
theorem tl_dependence_spec (mdev : Drbd_Conf) (s fuel : Nat) (h : tl_wf mdev)
    (hf : mdev.tl_size ≤ fuel) :
    tl_dependence fuel mdev s = some (contains_sector_spec (tl_entries mdev) s) := by
  have hc := tl_count_lt mdev h
  have := tl_dependence_loop_spec mdev s h (tl_count mdev) (le_refl _) fuel (by omega)
  rw [tl_slot_count mdev h] at this
  rw [tl_dependence, this, dep_rev_eq_spec]
  rfl

theorem tl_entries_length (mdev : Drbd_Conf) : (tl_entries mdev).length = tl_count mdev := by
  simp [tl_entries, ring_take]

theorem tl_entries_get (mdev : Drbd_Conf) (i : Nat) (hi : i < tl_count mdev) :
    (tl_entries mdev)[i]? = some (tl_at mdev (tl_slot mdev i)) := by
  simp [tl_entries, ring_take, List.getElem?_map, List.getElem?_range hi]

theorem tl_entries_drop (mdev : Drbd_Conf) (h : tl_wf mdev) (k : Nat) (hk : k ≤ tl_count mdev) :
    tl_entries { mdev with tl_begin := tl_slot mdev k } = (tl_entries mdev).drop k := by
  have hc := tl_count_lt mdev h
  obtain ⟨_, hb, he⟩ := h
  have hcnt : tl_count { mdev with tl_begin := tl_slot mdev k } = tl_count mdev - k := by
    unfold tl_count tl_slot at *
    simp only
    split at hk <;> split <;> split <;> omega
  apply List.ext_getElem?
  intro i
  rw [List.getElem?_drop]
  by_cases hi : i < tl_count mdev - k
  · rw [tl_entries_get _ _ (by omega), tl_entries_get _ _ (by omega)]
    have : tl_slot { mdev with tl_begin := tl_slot mdev k } i = tl_slot mdev (k + i) := by
      unfold tl_count at hi hk hc
      unfold tl_slot
      simp only
      split at hk <;> split <;> split <;> split <;> omega
    rw [this]
    rfl
  · rw [List.getElem?_eq_none (by rw [tl_entries_length]; omega),
      List.getElem?_eq_none (by rw [tl_entries_length]; omega)]

theorem tl_release_loop_spec (mdev : Drbd_Conf) (h : tl_wf mdev) :
    ∀ d j (es : Int) (tr : List Event) fuel, j + d + 1 < tl_count mdev →
      (∀ i, j < i → i ≤ j + d → (tl_at mdev (tl_slot mdev i)).req ≠ TL_BARRIER) →
      (tl_at mdev (tl_slot mdev (j + d + 1))).req = TL_BARRIER → d < fuel →
      tl_release_loop fuel mdev (tl_slot mdev j) es tr
        = some (tl_slot mdev (j + d + 1), es + d + 1, tr) := by
  have hc := tl_count_lt mdev h
  obtain ⟨_, hb, he⟩ := h
  have hnext : ∀ j, j + 1 < tl_count mdev →
      (if tl_slot mdev j + 1 = mdev.tl_size then 0 else tl_slot mdev j + 1)
        = tl_slot mdev (j + 1) := by
    intro j hj
    unfold tl_slot
    split <;> split <;> split <;> omega
  have hend : ∀ j, j < tl_count mdev → tl_slot mdev j ≠ mdev.tl_end := by
    intro j hj
    unfold tl_count at hj hc
    unfold tl_slot
    split at hj <;> split <;> omega
  intro d
  induction d with
  | zero =>
    intro j es tr fuel hj _ hB hf
    obtain ⟨f, rfl⟩ : ∃ f, fuel = f + 1 := ⟨fuel - 1, by omega⟩
    unfold tl_release_loop
    simp only [hnext j (by omega), hend (j + 1) (by omega), if_false]
    simp only [Nat.add_zero] at hB
    simp [hB]
  | succ d ih =>
    intro j es tr fuel hj hD hB hf
    obtain ⟨f, rfl⟩ : ∃ f, fuel = f + 1 := ⟨fuel - 1, by omega⟩
    unfold tl_release_loop
    simp only [hnext j (by omega), hend (j + 1) (by omega), if_false]
    rw [if_pos (hD (j + 1) (by omega) (by omega))]
    rw [ih (j + 1) (es + 1) tr f (by omega) (fun i h1 h2 => hD i (by omega) (by omega))
      (by rw [show j + 1 + d + 1 = j + (d + 1) + 1 by omega]; exact hB) (by omega)]
    congr 2
    · congr 1; omega
    · congr 1; push_cast; ring

theorem data_count_all_data (ds : List Tl_entry) (hds : ∀ e ∈ ds, e.req ≠ TL_BARRIER) :
    data_count ds = ds.length := by
  unfold data_count
  rw [List.filter_eq_self.mpr]
  intro e he
  simp [Tl_entry.isBarrier, hds e he]

theorem data_count_cons (e : Tl_entry) (es : List Tl_entry) :
    data_count (e :: es) = (if e.req = TL_BARRIER then 0 else 1) + data_count es := by
  unfold data_count
  by_cases hb : e.req = TL_BARRIER
  · simp [List.filter_cons, Tl_entry.isBarrier, hb]
  · have hb1 : (e.req == TL_BARRIER) = false := by simpa using hb
    simp [List.filter_cons, Tl_entry.isBarrier, hb, hb1]
    omega

/-- The effect of `tl_release` on a log whose entries are `e0`, then the data
entries `ds`, then the barrier `B`, then `rest`. -/
theorem tl_release_spec (w : World) (nr sz fuel : Nat) (h : tl_wf w.mdev)
    (hf : w.mdev.tl_size ≤ fuel) (hs : w.mdev.tl_size ≤ 2 ^ 31)
    (e0 : Tl_entry) (ds : List Tl_entry) (B : Tl_entry) (rest : List Tl_entry)
    (hE : tl_entries w.mdev = e0 :: (ds ++ B :: rest))
    (hds : ∀ e ∈ ds, e.req ≠ TL_BARRIER) (hB : B.req = TL_BARRIER) :
    tl_release fuel w nr sz = some
      { w with
        mdev := { w.mdev with tl_begin := tl_slot w.mdev (ds.length + 1) },
        trace := w.trace ++
          ((if B.sector_nr ≠ nr
              then [Event.printk (Msg.invalid_barrier_number (B.sector_nr % 2 ^ 32) nr)]
              else []) ++
           (if data_count (e0 :: ds) ≠ sz
              then [Event.printk (Msg.epoch_set_size_wrong (data_count (e0 :: ds)) sz)]
              else [])) } := by
  have hc := tl_count_lt w.mdev h
  have hlen : tl_count w.mdev = ds.length + 2 + rest.length := by
    rw [← tl_entries_length, hE]; simp; omega
  have h0 : tl_slot w.mdev 0 = w.mdev.tl_begin := by
    unfold tl_slot; simp [h.2.1]
  have hget : ∀ i, i < tl_count w.mdev →
      (e0 :: (ds ++ B :: rest))[i]? = some (tl_at w.mdev (tl_slot w.mdev i)) := by
    intro i hi; rw [← hE]; exact tl_entries_get _ _ hi
  have he0 : tl_at w.mdev w.mdev.tl_begin = e0 := by
    have := hget 0 (by omega)
    rw [h0] at this
    simpa using this.symm
  have hD : ∀ i, 0 < i → i ≤ 0 + ds.length →
      (tl_at w.mdev (tl_slot w.mdev i)).req ≠ TL_BARRIER := by
    intro i hi1 hi2
    have := hget i (by omega)
    obtain ⟨k, rfl⟩ : ∃ k, i = k + 1 := ⟨i - 1, by omega⟩
    rw [List.getElem?_cons_succ, List.getElem?_append_left (by omega)] at this
    rw [List.getElem?_eq_getElem (by omega)] at this
    have hk := Option.some.inj this
    rw [← hk]
    exact hds _ (List.getElem_mem _)
  have hBat : tl_at w.mdev (tl_slot w.mdev (0 + ds.length + 1)) = B := by
    have := hget (ds.length + 1) (by omega)
    rw [List.getElem?_cons_succ, List.getElem?_append_right (le_refl _)] at this
    simp at this
    rw [Nat.zero_add]
    exact this.symm
  have hloop := tl_release_loop_spec w.mdev h ds.length 0
    (if (tl_at w.mdev w.mdev.tl_begin).req = TL_BARRIER then -1 else 0) [] fuel (by omega) hD
    (by rw [hBat]; exact hB) (by omega)
  rw [h0] at hloop
  have hes : ((if (tl_at w.mdev w.mdev.tl_begin).req = TL_BARRIER then (-1 : Int) else 0)
      + (ds.length : Int) + 1) = ((data_count (e0 :: ds) : Nat) : Int) := by
    rw [data_count_cons, data_count_all_data ds hds, he0]
    split <;> push_cast <;> ring
  have hdc : data_count (e0 :: ds) < 2 ^ 32 := by
    rw [data_count_cons, data_count_all_data ds hds]
    split <;> omega
  unfold tl_release
  simp only [hloop, Nat.zero_add] at hBat ⊢
  have hat : tl_at { w.mdev with tl_begin := tl_slot w.mdev (ds.length + 1) }
      (tl_slot w.mdev (ds.length + 1)) = B := hBat
  rw [hat, hes]
  have hmod : ((data_count (e0 :: ds) : Nat) : Int) % 2 ^ 32 = (data_count (e0 :: ds) : Nat) := by
    apply Int.emod_eq_of_lt (by positivity)
    exact_mod_cast hdc
  rw [hmod]
  simp only [List.nil_append, ne_eq, Nat.cast_inj]
  congr 2
  by_cases h1 : B.sector_nr = nr <;> by_cases h2 : data_count (e0 :: ds) = sz <;> simp [h1, h2]

/-! ## Request completion: what `drbd_end_req` does -/

theorem end_it_unlocked_spec (fuel : Nat) (w : World) (req uptodate : Nat) (wake : Bool)
    (h : tl_wf w.mdev) (hf : w.mdev.tl_size ≤ fuel) :
    ∃ w1 tail, end_it_unlocked fuel w req uptodate wake = some w1 ∧
      w1.trace = w.trace ++ Event.end_request req (uptodate &&& (w.reqs req).rq_status) :: tail ∧
      (∀ e ∈ tail, e = Event.panic ∨ e = Event.wake_asender) ∧
      w1.reqs = (set_rq_status w req RQ_INACTIVE).reqs ∧
      w1.br_cnt = w.br_cnt ∧ w1.minor = w.minor ∧
      w1.mdev = (if dep_cond w req
        then { w.mdev with flags := set_bit ISSUE_BARRIER w.mdev.flags } else w.mdev) := by
  have hdep : (if w.mdev.state = Drbd_State.Primary ∧
      Drbd_CState.Connected.toNat ≤ w.mdev.cstate.toNat
      then tl_dependence fuel w.mdev (w.reqs req).sector else some false)
      = some (dep_cond w req) := by
    unfold dep_cond
    split
    · next hc => rw [tl_dependence_spec w.mdev _ fuel h hf]; simp [hc]
    · next hc => simp [hc]
  unfold end_it_unlocked
  simp only [hdep]
  cases dep_cond w req
  · simp only [Bool.false_eq_true, if_false, Bool.or_false]
    split
    · exact ⟨_, [Event.panic], rfl, by simp [end_that_request, set_rq_status], by simp, rfl,
        rfl, rfl, rfl⟩
    · split
      · exact ⟨_, [Event.wake_asender], rfl, by simp [end_that_request, set_rq_status],
          by simp, rfl, rfl, rfl, rfl⟩
      · exact ⟨_, [], rfl, by simp [end_that_request, set_rq_status], by simp, rfl, rfl, rfl,
          rfl⟩
  · simp only [if_true, Bool.or_true]
    split
    · exact ⟨_, [Event.panic], rfl, by simp [end_that_request, set_rq_status], by simp, rfl,
        rfl, rfl, rfl⟩
    · exact ⟨_, [Event.wake_asender], rfl, by simp [end_that_request, set_rq_status], by simp,
        rfl, rfl, rfl, rfl⟩

theorem drbd_end_req_spec (fuel : Nat) (w : World) (req nextstate uptodate : Nat)
    (h : tl_wf w.mdev) (hf : w.mdev.tl_size ≤ fuel) :
    ∃ w1, drbd_end_req fuel w req nextstate uptodate = some w1 ∧
      EndReqOutcome w w1 req nextstate uptodate := by
  have hcompl : ∀ wake, ((w.reqs req).cmd = READ ∨
        (w.reqs req).rq_status &&& 0xfffe = RQ_DRBD_SEC_WRITE ∨
        ((w.reqs req).rq_status &&& 0xfffe = RQ_DRBD_SENT ∧ nextstate = RQ_DRBD_WRITTEN) ∨
        ((w.reqs req).rq_status &&& 0xfffe = RQ_DRBD_WRITTEN ∧ nextstate = RQ_DRBD_SENT)) →
      ∃ w1, end_it_unlocked fuel w req uptodate wake = some w1 ∧
        EndReqOutcome w w1 req nextstate uptodate := by
    intro wake hc
    obtain ⟨w1, tail, h1, h2, h3, h4, h5, h6, h7⟩ :=
      end_it_unlocked_spec fuel w req uptodate wake h hf
    exact ⟨w1, h1, h5, h6, Or.inr (Or.inr ⟨tail, h2, h3, h4, h7, hc⟩)⟩
  unfold drbd_end_req
  simp only
  split
  · next hr => exact hcompl _ (Or.inl hr)
  · next hr =>
    split
    · next h1 => exact hcompl _ (Or.inr (Or.inl h1))
    · split
      · next h2 => exact ⟨_, rfl, rfl, rfl, Or.inl ⟨rfl, rfl, rfl, hr, h2⟩⟩
      · split
        · next h3 =>
          split
          · next h4 => exact hcompl _ (Or.inr (Or.inr (Or.inl ⟨h3, h4⟩)))
          · exact ⟨_, rfl, rfl, rfl, Or.inr (Or.inl ⟨rfl, rfl, _, rfl⟩)⟩
        · split
          · next h3 =>
            split
            · next h4 => exact hcompl _ (Or.inr (Or.inr (Or.inr ⟨h3, h4⟩)))
            · exact ⟨_, rfl, rfl, rfl, Or.inr (Or.inl ⟨rfl, rfl, _, rfl⟩)⟩
          · exact ⟨_, rfl, rfl, rfl, Or.inr (Or.inl ⟨rfl, rfl, _, rfl⟩)⟩

/-! ## Properties of the transfer log -/

/-- C4: for a transfer log whose pointers lie in the ring (the ring then holds
fewer than `tl_size` entries), `tl_dependence s` returns, within `tl_size`
rounds, TRUE exactly when a data entry with `sector_nr = s` lies between the
most recent barrier (or `tl_begin`) and `tl_end`; this covers rings that wrap
around. -/
theorem tl_dependence_correct (mdev : Drbd_Conf) (s fuel : Nat) (h : tl_wf mdev)
    (hf : mdev.tl_size ≤ fuel) :
    tl_dependence fuel mdev s = some (contains_sector_spec (tl_entries mdev) s) :=
  tl_dependence_spec mdev s fuel h hf

/-- C4, witness: the wrapped ring `mdev_wrapped`, asked for sector 9 (found in
slot 0, after the barrier) . -/
theorem tl_dependence_correct_witness :
    tl_wf mdev_wrapped ∧ mdev_wrapped.tl_size ≤ 4 ∧
      tl_dependence 4 mdev_wrapped 9
        = some (contains_sector_spec (tl_entries mdev_wrapped) 9) :=
  ⟨by decide, by decide, tl_dependence_correct mdev_wrapped 9 4 (by decide) (by decide)⟩

/-- C7: `tl_add_barrier` never returns 0; it returns the previous counter plus
one modulo `2^32`, or 1 when that is 0; the number is the new counter and is
stored in a BARRIER entry in the slot at the old `tl_end`, all other slots and
`tl_begin` being kept; `tl_end` advances by one slot modulo `tl_size`; and the
next call returns a larger number unless this one returned `2^32 - 1`, in
which case it returns 1. -/
theorem tl_add_barrier_spec (w : World) (he : w.mdev.tl_end < w.mdev.tl_size)
    (hlen : w.mdev.transfer_log.length = w.mdev.tl_size) :
    (tl_add_barrier w).2 ≠ 0 ∧
    (tl_add_barrier w).2
      = (if (w.br_cnt + 1) % 2 ^ 32 = 0 then 1 else (w.br_cnt + 1) % 2 ^ 32) ∧
    (tl_add_barrier w).1.br_cnt = (tl_add_barrier w).2 ∧
    tl_at (tl_add_barrier w).1.mdev w.mdev.tl_end
      = { req := TL_BARRIER, sector_nr := (tl_add_barrier w).2 } ∧
    (∀ p, p ≠ w.mdev.tl_end → tl_at (tl_add_barrier w).1.mdev p = tl_at w.mdev p) ∧
    (tl_add_barrier w).1.mdev.tl_end = (w.mdev.tl_end + 1) % w.mdev.tl_size ∧
    (tl_add_barrier w).1.mdev.tl_begin = w.mdev.tl_begin ∧
    ((tl_add_barrier w).2 < (tl_add_barrier (tl_add_barrier w).1).2 ∨
      ((tl_add_barrier w).2 = 2 ^ 32 - 1 ∧ (tl_add_barrier (tl_add_barrier w).1).2 = 1)) := by
  refine ⟨?_, rfl, rfl, ?_, ?_, ?_, rfl, ?_⟩
  · simp only [tl_add_barrier]
    split <;> omega
  · simp only [tl_add_barrier, tl_at]
    rw [List.getD_eq_getElem?_getD, List.getElem?_set_self (by omega)]
    rfl
  · intro p hp
    simp only [tl_add_barrier, tl_at]
    rw [List.getD_eq_getElem?_getD, List.getD_eq_getElem?_getD,
      List.getElem?_set_ne (Ne.symm hp)]
  · simp only [tl_add_barrier]
    split
    · next h => rw [h, Nat.mod_self]
    · next h => rw [Nat.mod_eq_of_lt (by omega)]
  · simp only [tl_add_barrier]
    have h1 : (w.br_cnt + 1) % 2 ^ 32 < 2 ^ 32 := Nat.mod_lt _ (by norm_num)
    split <;> split <;> omega

/-- C7, witness: the counter at `2^32 - 1` in `world0`; the call returns 1. -/
theorem tl_add_barrier_spec_witness :
    world0.mdev.tl_end < world0.mdev.tl_size ∧
    world0.mdev.transfer_log.length = world0.mdev.tl_size ∧
    (tl_add_barrier { world0 with br_cnt := 2 ^ 32 - 1 }).2 ≠ 0 :=
  ⟨by decide, by decide,
    (tl_add_barrier_spec { world0 with br_cnt := 2 ^ 32 - 1 } (by decide) (by decide)).1⟩

/-- C5, counterexample: on the log `[write 7, barrier 1]` the matching
`tl_release(1, 1)` prints nothing and leaves `tl_begin` at slot 1, the slot of
the barrier itself, not at slot 2 behind it: the barrier is still the first
entry of `[tl_begin, tl_end)`. -/
theorem tl_release_past_barrier_counterexample :
    (tl_release 4 world_one_epoch 1 1).map (fun w => (w.mdev.tl_begin, w.trace)) = some (1, []) ∧
    (tl_release 4 world_one_epoch 1 1).map (fun w => tl_entries w.mdev)
      = some [⟨TL_BARRIER, 1⟩] := by
  decide

/-- C5 (amended): when the entries after the one at `tl_begin` are the data
entries `ds` followed by a barrier `B` (the oldest barrier not yet released),
`tl_release` returns and moves `tl_begin` onto the slot of `B`: `B` becomes the
first entry of `[tl_begin, tl_end)`, everything younger than `B` is still
behind it, and `tl_end` and the slots are untouched. -/
theorem tl_release_advances_to_barrier (w : World) (nr sz fuel : Nat) (h : tl_wf w.mdev)
    (hf : w.mdev.tl_size ≤ fuel) (hs : w.mdev.tl_size ≤ 2 ^ 31)
    (e0 : Tl_entry) (ds : List Tl_entry) (B : Tl_entry) (rest : List Tl_entry)
    (hE : tl_entries w.mdev = e0 :: (ds ++ B :: rest))
    (hds : ∀ e ∈ ds, e.req ≠ TL_BARRIER) (hB : B.req = TL_BARRIER) :
    ∃ w1, tl_release fuel w nr sz = some w1 ∧
      w1.mdev.tl_begin = tl_slot w.mdev (ds.length + 1) ∧
      tl_at w1.mdev w1.mdev.tl_begin = B ∧
      tl_entries w1.mdev = B :: rest ∧
      w1.mdev.tl_end = w.mdev.tl_end ∧
      w1.mdev.transfer_log = w.mdev.transfer_log := by
  refine ⟨_, tl_release_spec w nr sz fuel h hf hs e0 ds B rest hE hds hB, rfl, ?_, ?_, rfl, rfl⟩
  · have hlen : tl_count w.mdev = ds.length + 2 + rest.length := by
      rw [← tl_entries_length, hE]; simp; omega
    have := tl_entries_get w.mdev (ds.length + 1) (by omega)
    rw [hE, List.getElem?_cons_succ, List.getElem?_append_right (le_refl _)] at this
    simp at this
    exact this.symm
  · have hlen : tl_count w.mdev = ds.length + 2 + rest.length := by
      rw [← tl_entries_length, hE]; simp; omega
    show tl_entries { w.mdev with tl_begin := tl_slot w.mdev (ds.length + 1) } = B :: rest
    rw [tl_entries_drop w.mdev h _ (by omega), hE]
    simp

/-- C5 (amended), witness: the log `[write 7, barrier 1]`. -/
theorem tl_release_advances_to_barrier_witness :
    tl_wf world_one_epoch.mdev ∧
    tl_entries world_one_epoch.mdev = ⟨101, 7⟩ :: ([] ++ ⟨TL_BARRIER, 1⟩ :: []) ∧
    ∃ w1, tl_release 4 world_one_epoch 1 1 = some w1 ∧
      w1.mdev.tl_begin = tl_slot world_one_epoch.mdev (([] : List Tl_entry).length + 1) ∧
      tl_at w1.mdev w1.mdev.tl_begin = ⟨TL_BARRIER, 1⟩ ∧
      tl_entries w1.mdev = ⟨TL_BARRIER, 1⟩ :: [] ∧
      w1.mdev.tl_end = world_one_epoch.mdev.tl_end ∧
      w1.mdev.transfer_log = world_one_epoch.mdev.transfer_log :=
  ⟨by decide, by decide,
    tl_release_advances_to_barrier world_one_epoch 1 1 4 (by decide) (by decide) (by decide)
      ⟨101, 7⟩ [] ⟨TL_BARRIER, 1⟩ [] (by decide) (by simp) rfl⟩

/-- C6: on a well-formed log (the entries after the one at `tl_begin` are the
data entries `ds`, then a barrier `B`) the epoch size `tl_release` computes is
the number of data entries among `e0 :: ds`, that is between the barrier
released before (`e0`, when it is a barrier) or the start of the log and `B`;
"invalid barrier number" is printed iff `B`'s number differs from
`barrier_nr`, "Epoch set size wrong" iff the computed size differs from
`set_size`, with the computed size as `found`; and the release itself does not
depend on `barrier_nr` and `set_size`: any two calls leave the same device
state (`tl_begin`, `tl_end`, slots), requests and barrier counter. -/
theorem tl_release_epoch_size (w : World) (nr sz nr2 sz2 fuel : Nat) (h : tl_wf w.mdev)
    (hf : w.mdev.tl_size ≤ fuel) (hs : w.mdev.tl_size ≤ 2 ^ 31)
    (e0 : Tl_entry) (ds : List Tl_entry) (B : Tl_entry) (rest : List Tl_entry)
    (hE : tl_entries w.mdev = e0 :: (ds ++ B :: rest))
    (hds : ∀ e ∈ ds, e.req ≠ TL_BARRIER) (hB : B.req = TL_BARRIER) :
    ∃ w1 w2, tl_release fuel w nr sz = some w1 ∧ tl_release fuel w nr2 sz2 = some w2 ∧
      w1.mdev = w2.mdev ∧ w1.reqs = w2.reqs ∧ w1.br_cnt = w2.br_cnt ∧
      w1.trace = w.trace ++
        ((if B.sector_nr ≠ nr
            then [Event.printk (Msg.invalid_barrier_number (B.sector_nr % 2 ^ 32) nr)]
            else []) ++
         (if data_count (e0 :: ds) ≠ sz
            then [Event.printk (Msg.epoch_set_size_wrong (data_count (e0 :: ds)) sz)]
            else [])) :=
  ⟨_, _, tl_release_spec w nr sz fuel h hf hs e0 ds B rest hE hds hB,
    tl_release_spec w nr2 sz2 fuel h hf hs e0 ds B rest hE hds hB, rfl, rfl, rfl, rfl⟩

/-- C6, witness: the log `[write 7, barrier 1]` released with the wrong
number 9 and the wrong size 3, against the matching call. -/
theorem tl_release_epoch_size_witness :
    tl_wf world_one_epoch.mdev ∧
    tl_entries world_one_epoch.mdev = ⟨101, 7⟩ :: ([] ++ ⟨TL_BARRIER, 1⟩ :: []) ∧
    ∃ w1 w2, tl_release 4 world_one_epoch 9 3 = some w1 ∧
      tl_release 4 world_one_epoch 1 1 = some w2 ∧
      w1.mdev = w2.mdev ∧ w1.reqs = w2.reqs ∧ w1.br_cnt = w2.br_cnt ∧
      w1.trace = world_one_epoch.trace ++
        ((if (⟨TL_BARRIER, 1⟩ : Tl_entry).sector_nr ≠ 9
            then [Event.printk (Msg.invalid_barrier_number
              ((⟨TL_BARRIER, 1⟩ : Tl_entry).sector_nr % 2 ^ 32) 9)]
            else []) ++
         (if data_count (⟨101, 7⟩ :: []) ≠ 3
            then [Event.printk (Msg.epoch_set_size_wrong (data_count (⟨101, 7⟩ :: [])) 3)]
            else [])) :=
  ⟨by decide, by decide,
    tl_release_epoch_size world_one_epoch 9 3 1 1 4 (by decide) (by decide) (by decide)
      ⟨101, 7⟩ [] ⟨TL_BARRIER, 1⟩ [] (by decide) (by simp) rfl⟩

/-! ## Properties of request completion -/

/-- C10: for a replicated write (`rq_status == RQ_DRBD_NOTHING`) the first of
the two events `RQ_DRBD_WRITTEN` and `RQ_DRBD_SENT`, whichever it is, only
records its state and success bit in `rq_status` (device and trace are
unchanged, nothing is completed); the second one completes the request:
`end_that_request_first/last` is called once, with the conjunction of the
second event's `uptodate` and the recorded status, and the request becomes
inactive. -/
theorem drbd_end_req_two_events (fuel : Nat) (w : World) (req n1 n2 u1 u2 : Nat)
    (hcmd : (w.reqs req).cmd = WRITE) (hst : (w.reqs req).rq_status = RQ_DRBD_NOTHING)
    (hn : (n1 = RQ_DRBD_WRITTEN ∧ n2 = RQ_DRBD_SENT) ∨ (n1 = RQ_DRBD_SENT ∧ n2 = RQ_DRBD_WRITTEN))
    (h : tl_wf w.mdev) (hf : w.mdev.tl_size ≤ fuel) :
    ∃ w1 w2 tail,
      drbd_end_req fuel w req n1 u1 = some w1 ∧
      w1.trace = w.trace ∧ w1.mdev = w.mdev ∧
      (w1.reqs req).rq_status = n1 ||| (if u1 ≠ 0 then 1 else 0) ∧
      (∀ r, r ≠ req → w1.reqs r = w.reqs r) ∧
      drbd_end_req fuel w1 req n2 u2 = some w2 ∧
      w2.trace = w.trace ++
        Event.end_request req (u2 &&& (n1 ||| (if u1 ≠ 0 then 1 else 0))) :: tail ∧
      (∀ e ∈ tail, e = Event.panic ∨ e = Event.wake_asender) ∧
      (w2.reqs req).rq_status = RQ_INACTIVE := by
  have hfirst : drbd_end_req fuel w req n1 u1
      = some (set_rq_status w req (n1 ||| (if u1 ≠ 0 then 1 else 0))) := by
    unfold drbd_end_req
    simp +decide [hcmd, hst, READ, WRITE, RQ_DRBD_NOTHING, RQ_DRBD_SEC_WRITE]
  obtain ⟨w2, tail, h2, htr, htail, hreqs, -, -, -⟩ := end_it_unlocked_spec fuel
    (set_rq_status w req (n1 ||| (if u1 ≠ 0 then 1 else 0))) req u2 false h hf
  have hsecond : drbd_end_req fuel
      (set_rq_status w req (n1 ||| (if u1 ≠ 0 then 1 else 0))) req n2 u2 = some w2 := by
    rw [← h2]
    unfold drbd_end_req
    rcases hn with ⟨rfl, rfl⟩ | ⟨rfl, rfl⟩ <;> by_cases hu : u1 = 0 <;>
      simp +decide [set_rq_status, hcmd, hu, READ, WRITE, RQ_DRBD_NOTHING, RQ_DRBD_SEC_WRITE,
        RQ_DRBD_SENT, RQ_DRBD_WRITTEN]
  refine ⟨_, w2, tail, hfirst, rfl, rfl, by simp [set_rq_status], ?_, hsecond, ?_, htail, ?_⟩
  · intro r hr; simp [set_rq_status, req_update, hr]
  · rw [htr]; simp [set_rq_status]
  · rw [hreqs]; simp [set_rq_status]

/-- C10, witness: the local write finishes first, then the ack arrives. -/
theorem drbd_end_req_two_events_witness :
    (world_nothing.reqs 101).cmd = WRITE ∧
    (world_nothing.reqs 101).rq_status = RQ_DRBD_NOTHING ∧
    tl_wf world_nothing.mdev ∧
    ∃ w1 w2 tail,
      drbd_end_req 4 world_nothing 101 RQ_DRBD_WRITTEN 1 = some w1 ∧
      w1.trace = world_nothing.trace ∧ w1.mdev = world_nothing.mdev ∧
      (w1.reqs 101).rq_status = RQ_DRBD_WRITTEN ||| (if 1 ≠ 0 then 1 else 0) ∧
      (∀ r, r ≠ 101 → w1.reqs r = world_nothing.reqs r) ∧
      drbd_end_req 4 w1 101 RQ_DRBD_SENT 1 = some w2 ∧
      w2.trace = world_nothing.trace ++
        Event.end_request 101 (1 &&& (RQ_DRBD_WRITTEN ||| (if 1 ≠ 0 then 1 else 0))) :: tail ∧
      (∀ e ∈ tail, e = Event.panic ∨ e = Event.wake_asender) ∧
      (w2.reqs 101).rq_status = RQ_INACTIVE :=
  ⟨by decide, by decide, by decide,
    drbd_end_req_two_events 4 world_nothing 101 RQ_DRBD_WRITTEN RQ_DRBD_SENT 1 1
      (by decide) (by decide) (Or.inl ⟨rfl, rfl⟩) (by decide) (by decide)⟩

/-! ## What `tl_clear` does -/

theorem same_ring_refl (m : Drbd_Conf) : same_ring m m := ⟨rfl, rfl, rfl, rfl⟩

theorem same_ring_trans {m m1 m2 : Drbd_Conf} (h1 : same_ring m m1) (h2 : same_ring m1 m2) :
    same_ring m m2 :=
  ⟨h2.1.trans h1.1, h2.2.1.trans h1.2.1, h2.2.2.1.trans h1.2.2.1, h2.2.2.2.trans h1.2.2.2⟩

theorem same_ring_wf {m m1 : Drbd_Conf} (h : same_ring m m1) (hw : tl_wf m) : tl_wf m1 := by
  obtain ⟨h1, h2, h3, h4⟩ := h
  unfold tl_wf at *
  rw [h1, h2, h3, h4]; exact hw

theorem same_ring_slot {m m1 : Drbd_Conf} (h : same_ring m m1) (i : Nat) :
    tl_slot m1 i = tl_slot m i := by
  obtain ⟨h1, h2, h3, h4⟩ := h
  unfold tl_slot; rw [h2, h4]

theorem same_ring_count {m m1 : Drbd_Conf} (h : same_ring m m1) : tl_count m1 = tl_count m := by
  obtain ⟨h1, h2, h3, h4⟩ := h
  unfold tl_count; rw [h2, h3, h4]

theorem same_ring_at {m m1 : Drbd_Conf} (h : same_ring m m1) (p : Nat) :
    tl_at m1 p = tl_at m p := by
  unfold tl_at; rw [h.1]

theorem same_ring_entries {m m1 : Drbd_Conf} (h : same_ring m m1) :
    tl_entries m1 = tl_entries m := by
  unfold tl_entries ring_take
  rw [same_ring_count h]
  congr 1
  funext i
  rw [same_ring_slot h, same_ring_at h]

theorem sbs_of_append (a b : List Event) : sbs_of (a ++ b) = sbs_of a ++ sbs_of b := by
  simp [sbs_of, List.filterMap_append]

theorem ClearRel_nil (et : Bool) (w : World) : ClearRel et w w [] :=
  ⟨same_ring_refl _, rfl, rfl, rfl, fun _ => ⟨rfl, rfl, id⟩, [], by simp, rfl, by simp⟩

theorem ClearRel_trans {et : Bool} {w w1 w2 : World} {s1 s2 : List Tl_entry}
    (h1 : ClearRel et w w1 s1) (h2 : ClearRel et w1 w2 s2) : ClearRel et w w2 (s1 ++ s2) := by
  obtain ⟨r1, b1, m1, c1, q1, n1, t1, sb1, e1⟩ := h1
  obtain ⟨r2, b2, m2, c2, q2, n2, t2, sb2, e2⟩ := h2
  refine ⟨same_ring_trans r1 r2, b2.trans b1, m2.trans m1, c2.trans c1, ?_, n1 ++ n2, ?_, ?_, ?_⟩
  · intro a
    exact ⟨(q2 a).1.trans (q1 a).1, (q2 a).2.1.trans (q1 a).2.1,
      fun h => (q1 a).2.2 ((q2 a).2.2 h)⟩
  · rw [t2, t1, List.append_assoc]
  · rw [sbs_of_append, sb1, sb2, b1, List.filter_append, List.map_append]
  · intro req ok hmem
    rcases List.mem_append.mp hmem with hm | hm
    · obtain ⟨he, e, hes, hd, hr, hl⟩ := e1 req ok hm
      exact ⟨he, e, List.mem_append_left _ hes, hd, hr, hl⟩
    · obtain ⟨he, e, hes, hd, hr, hl⟩ := e2 req ok hm
      refine ⟨he, e, List.mem_append_right _ hes, hd, hr, ?_⟩
      obtain ⟨l1, l2, l3⟩ := hl
      exact ⟨(q1 e.req).2.2 l1, by rw [← (q1 e.req).1, l2, m1], by rw [← (q1 e.req).2.1, l3]⟩

theorem set_rq_status_dev (w : World) (req v a : Nat) :
    ((set_rq_status w req v).reqs a).rq_dev = (w.reqs a).rq_dev := by
  unfold set_rq_status req_update
  by_cases h : a = req <;> simp [h]

theorem set_rq_status_sector (w : World) (req v a : Nat) :
    ((set_rq_status w req v).reqs a).sector = (w.reqs a).sector := by
  unfold set_rq_status req_update
  by_cases h : a = req <;> simp [h]

theorem set_rq_status_cmd (w : World) (req v a : Nat) :
    ((set_rq_status w req v).reqs a).cmd = (w.reqs a).cmd := by
  unfold set_rq_status req_update
  by_cases h : a = req <;> simp [h]

theorem set_rq_status_status (w : World) (req v a : Nat) :
    ((set_rq_status w req v).reqs a).rq_status = if a = req then v else (w.reqs a).rq_status := by
  unfold set_rq_status req_update
  by_cases h : a = req <;> simp [h]

theorem sbs_of_tail (tail : List Event)
    (h : ∀ e ∈ tail, e = Event.panic ∨ e = Event.wake_asender) : sbs_of tail = [] := by
  induction tail with
  | nil => rfl
  | cons e t ih =>
    have ht := ih (fun x hx => h x (List.mem_cons_of_mem _ hx))
    rcases h e (List.mem_cons_self _ _) with rfl | rfl <;> simpa [sbs_of] using ht

theorem tl_clear_body_spec (f0 : Nat) (et : Bool) (w : World) (e : Tl_entry)
    (h : tl_wf w.mdev) (hf : w.mdev.tl_size ≤ f0) :
    ∃ w1, tl_clear_body f0 et w e = some w1 ∧ ClearRel et w w1 [e] := by
  unfold tl_clear_body
  by_cases hb : e.req = TL_BARRIER
  · simp only [hb, ne_eq, not_true_eq_false, if_false]
    refine ⟨w, rfl, same_ring_refl _, rfl, rfl, rfl, fun _ => ⟨rfl, rfl, id⟩, [], by simp, ?_,
      by simp⟩
    simp [sbs_of, Tl_entry.isBarrier, hb]
  · have hb1 : (e.req == TL_BARRIER) = false := by simpa using hb
    simp only [ne_eq, hb, not_false_eq_true, if_true]
    split
    · next hl =>
      obtain ⟨het, hl1, hl2, hl3⟩ := hl
      obtain ⟨w2, h2, hbr, hmin, hout⟩ := drbd_end_req_spec f0
        { w with trace := w.trace ++
          [Event.set_block_status (e.sector_nr >>> (w.mdev.blk_size_b - 9)) w.mdev.blk_size_b
            SS_OUT_OF_SYNC] } e.req RQ_DRBD_SENT 1 h hf
      rw [h2]
      refine ⟨_, rfl, ?_⟩
      have hlive : tl_live w e := ⟨hl1, hl2, hl3⟩
      rcases hout with ⟨hm, ht, hr, -, -⟩ | ⟨hm, hr, m, ht⟩ | ⟨tail, ht, htl, hr, hm, -⟩
      · refine ⟨⟨?_, ?_, ?_, ?_⟩, ?_, hmin, hbr, ?_, [_], ht, ?_, by simp⟩
        · dsimp only; rw [hm]
        · dsimp only; rw [hm]
        · dsimp only; rw [hm]
        · dsimp only; rw [hm]
        · dsimp only; rw [hm]
        · intro a
          dsimp only
          rw [hr]
          refine ⟨set_rq_status_dev _ _ _ _, set_rq_status_sector _ _ _ _, ?_⟩
          rw [set_rq_status_status]
          split
          · next ha => intro _; rw [ha]; exact hl1
          · exact id
        · simp [sbs_of, Tl_entry.isBarrier, hb1]
      · refine ⟨⟨?_, ?_, ?_, ?_⟩, ?_, hmin, hbr, ?_,
          [Event.set_block_status (e.sector_nr >>> (w.mdev.blk_size_b - 9)) w.mdev.blk_size_b
            SS_OUT_OF_SYNC, Event.printk m], ?_, ?_, by simp⟩
        · dsimp only; rw [hm]
        · dsimp only; rw [hm]
        · dsimp only; rw [hm]
        · dsimp only; rw [hm]
        · dsimp only; rw [hm]
        · intro a; dsimp only; rw [hr]; exact ⟨rfl, rfl, id⟩
        · dsimp only; rw [ht]; simp
        · simp [sbs_of, Tl_entry.isBarrier, hb1]
      · refine ⟨?_, ?_, hmin, hbr, ?_,
          Event.set_block_status (e.sector_nr >>> (w.mdev.blk_size_b - 9)) w.mdev.blk_size_b
            SS_OUT_OF_SYNC :: Event.end_request e.req (1 &&& (w.reqs e.req).rq_status) :: tail,
          ?_, ?_, ?_⟩
        · unfold same_ring; dsimp only; rw [hm]; split <;> exact ⟨rfl, rfl, rfl, rfl⟩
        · dsimp only; rw [hm]; split <;> rfl
        · intro a
          dsimp only
          rw [hr]
          refine ⟨set_rq_status_dev _ _ _ _, set_rq_status_sector _ _ _ _, ?_⟩
          rw [set_rq_status_status]
          split
          · next ha => intro _; rw [ha]; exact hl1
          · exact id
        · dsimp only; rw [ht]; simp
        · have := sbs_of_tail tail htl
          simp [sbs_of, Tl_entry.isBarrier, hb1] at this ⊢
          exact this
        · intro req ok hmem
          simp only [List.mem_cons] at hmem
          rcases hmem with hmem | hmem | hmem
          · cases hmem
          · injection hmem with h1 h2
            exact ⟨het, e, by simp, hb, h1.symm, hlive⟩
          · rcases htl _ hmem with h1 | h1 <;> cases h1
    · refine ⟨_, rfl, same_ring_refl _, rfl, rfl, rfl, fun _ => ⟨rfl, rfl, id⟩, [_], rfl, ?_,
        by simp⟩
      simp [sbs_of, Tl_entry.isBarrier, hb1]

theorem tl_slot_next (mdev : Drbd_Conf) (h : tl_wf mdev) (j : Nat) (hj : j < tl_count mdev) :
    (if tl_slot mdev j + 1 = mdev.tl_size then 0 else tl_slot mdev j + 1)
      = tl_slot mdev (j + 1) := by
  have hc := tl_count_lt mdev h
  obtain ⟨_, hb, he⟩ := h
  unfold tl_slot
  split <;> split <;> split <;> omega

theorem tl_slot_ne_end (mdev : Drbd_Conf) (h : tl_wf mdev) (j : Nat) (hj : j < tl_count mdev) :
    tl_slot mdev j ≠ mdev.tl_end := by
  have hc := tl_count_lt mdev h
  obtain ⟨_, hb, he⟩ := h
  unfold tl_count at hj hc
  unfold tl_slot
  split at hj <;> split <;> omega

theorem tl_entries_drop_cons (mdev : Drbd_Conf) (j : Nat) (hj : j < tl_count mdev) :
    (tl_entries mdev).drop j = tl_at mdev (tl_slot mdev j) :: (tl_entries mdev).drop (j + 1) := by
  have hlen : j < (tl_entries mdev).length := by rw [tl_entries_length]; exact hj
  rw [List.drop_eq_getElem_cons hlen]
  congr 1
  have := tl_entries_get mdev j hj
  rw [List.getElem?_eq_getElem hlen] at this
  exact Option.some.inj this

theorem tl_clear_loop_spec (f0 : Nat) (et : Bool) (w0 : World) (h : tl_wf w0.mdev)
    (hf : w0.mdev.tl_size ≤ f0) :
    ∀ k j (w : World) fuel, same_ring w0.mdev w.mdev → j + k = tl_count w0.mdev → k < fuel →
      ∃ w1, tl_clear_loop f0 et fuel w (tl_slot w0.mdev j) = some w1 ∧
        ClearRel et w w1 ((tl_entries w0.mdev).drop j) := by
  intro k
  induction k with
  | zero =>
    intro j w fuel hr hj hfu
    obtain ⟨f, rfl⟩ : ∃ f, fuel = f + 1 := ⟨fuel - 1, by omega⟩
    have hjc : j = tl_count w0.mdev := by omega
    subst hjc
    unfold tl_clear_loop
    rw [tl_slot_count _ h, ← hr.2.2.1, if_pos rfl]
    refine ⟨w, rfl, ?_⟩
    rw [List.drop_of_length_le (by rw [tl_entries_length])]
    exact ClearRel_nil et w
  | succ k ih =>
    intro j w fuel hr hj hfu
    obtain ⟨f, rfl⟩ : ∃ f, fuel = f + 1 := ⟨fuel - 1, by omega⟩
    have hjc : j < tl_count w0.mdev := by omega
    have hwf : tl_wf w.mdev := same_ring_wf hr h
    obtain ⟨w1, hb1, hrel1⟩ := tl_clear_body_spec f0 et w (tl_at w0.mdev (tl_slot w0.mdev j))
      hwf (by rw [hr.2.2.2]; exact hf)
    obtain ⟨w2, hl2, hrel2⟩ := ih (j + 1) w1 f (same_ring_trans hr hrel1.1) (by omega) (by omega)
    unfold tl_clear_loop
    rw [hr.2.2.1, if_neg (tl_slot_ne_end _ h j hjc), same_ring_at hr, hb1]
    simp only
    rw [hrel1.1.2.2.2, hr.2.2.2, tl_slot_next _ h j hjc, hl2]
    refine ⟨w2, rfl, ?_⟩
    rw [tl_entries_drop_cons _ j hjc]
    exact ClearRel_trans hrel1 hrel2

/-- What `tl_clear` does on a well-formed ring. -/
theorem tl_clear_spec (fuel : Nat) (w : World) (h : tl_wf w.mdev) (hf : w.mdev.tl_size ≤ fuel) :
    ∃ w1 new, tl_clear fuel w = some w1 ∧
      w1.mdev.tl_begin = 0 ∧ w1.mdev.tl_end = 0 ∧
      (∀ s f, 0 < f → tl_dependence f w1.mdev s = some false) ∧
      w1.trace = w.trace ++ new ∧
      sbs_of new = ((tl_entries w.mdev).filter (fun e => !e.isBarrier)).map
        (fun e => (e.sector_nr >>> (w.mdev.blk_size_b - 9), w.mdev.blk_size_b, SS_OUT_OF_SYNC)) ∧
      (∀ req ok, Event.end_request req ok ∈ new →
        (w.mdev.wire_protocol = DRBD_PROT_B ∨ w.mdev.wire_protocol = DRBD_PROT_C) ∧
        ∃ e ∈ tl_entries w.mdev, e.req ≠ TL_BARRIER ∧ e.req = req ∧ tl_live w e) ∧
      w1.mdev.transfer_log = w.mdev.transfer_log ∧ w1.mdev.tl_size = w.mdev.tl_size := by
  have hc := tl_count_lt w.mdev h
  obtain ⟨w1, hl, hr, hb, hm, hbr, hq, new, ht, hs, he⟩ :=
    tl_clear_loop_spec fuel
      (decide (w.mdev.wire_protocol = DRBD_PROT_B ∨ w.mdev.wire_protocol = DRBD_PROT_C)) w h hf
      (tl_count w.mdev) 0 w fuel (same_ring_refl _) (by omega) (by omega)
  have h0 : tl_slot w.mdev 0 = w.mdev.tl_begin := by
    unfold tl_slot; simp [h.2.1]
  rw [h0] at hl
  rw [List.drop_zero] at hs he
  refine ⟨{ w1 with mdev := tl_init w1.mdev }, new, ?_, rfl, rfl, ?_, ht, hs, ?_, hr.1, hr.2.2.2⟩
  · unfold tl_clear
    simp only [hl]
  · intro s f hf0
    obtain ⟨g, rfl⟩ : ∃ g, f = g + 1 := ⟨f - 1, by omega⟩
    simp [tl_dependence, tl_dependence_loop, tl_init]
  · intro req ok hmem
    obtain ⟨h1, h2⟩ := he req ok hmem
    exact ⟨by simpa using h1, h2⟩

/-! ## The ring as a queue of pending entries -/

theorem tl_slot_lt (mdev : Drbd_Conf) (h : tl_wf mdev) (j : Nat) (hj : j ≤ tl_count mdev) :
    tl_slot mdev j < mdev.tl_size := by
  have hc := tl_count_lt mdev h
  obtain ⟨_, hb, he⟩ := h
  unfold tl_slot
  split <;> omega

theorem tl_entries_nil_iff (mdev : Drbd_Conf) (h : tl_wf mdev) :
    tl_entries mdev = [] ↔ mdev.tl_begin = mdev.tl_end := by
  rw [← List.length_eq_zero, tl_entries_length]
  obtain ⟨_, hb, he⟩ := h
  unfold tl_count
  split <;> omega

/-- Appending an entry at `tl_end`, as `tl_add` and `tl_add_barrier` do, on a
ring with room for it. -/
theorem tl_append_spec (m : Drbd_Conf) (e : Tl_entry) (h : tl_wf m)
    (hroom : tl_count m + 1 < m.tl_size) :
    tl_wf (tl_pushed m e) ∧ tl_entries (tl_pushed m e) = tl_entries m ++ [e] := by
  have hwf := h
  obtain ⟨hl, hb, he⟩ := h
  have hcnt : tl_count (tl_pushed m e) = tl_count m + 1 := by
    unfold tl_count at hroom ⊢
    unfold tl_pushed
    dsimp only
    split at hroom <;> split <;> split <;> omega
  constructor
  · refine ⟨?_, hb, ?_⟩
    · unfold tl_pushed; dsimp only; rw [List.length_set]; exact hl
    · unfold tl_pushed; dsimp only; split <;> omega
  · unfold tl_entries
    rw [hcnt, ring_take_succ]
    congr 1
    · unfold ring_take
      apply List.map_congr_left
      intro i hi
      have hi2 : i < tl_count m := List.mem_range.mp hi
      have hne := tl_slot_ne_end m hwf i hi2
      show tl_at _ (tl_slot m i) = tl_at m (tl_slot m i)
      unfold tl_at tl_pushed
      dsimp only
      rw [List.getD_eq_getElem?_getD, List.getD_eq_getElem?_getD,
        List.getElem?_set_ne (Ne.symm hne)]
    · congr 1
      show tl_at _ (tl_slot m (tl_count m)) = e
      rw [tl_slot_count m hwf]
      unfold tl_at tl_pushed
      dsimp only
      rw [List.getD_eq_getElem?_getD, List.getElem?_set_self (by omega)]
      rfl

theorem tl_add_entries (w : World) (x : Nat) (h : tl_wf w.mdev)
    (hroom : tl_count w.mdev + 1 < w.mdev.tl_size) :
    tl_wf (tl_add w x).mdev ∧
    tl_entries (tl_add w x).mdev
      = tl_entries w.mdev ++ [{ req := x, sector_nr := (w.reqs x).sector }] :=
  tl_append_spec w.mdev _ h hroom

theorem tl_add_barrier_entries (w : World) (h : tl_wf w.mdev)
    (hroom : tl_count w.mdev + 1 < w.mdev.tl_size) :
    tl_wf (tl_add_barrier w).1.mdev ∧
    tl_entries (tl_add_barrier w).1.mdev
      = tl_entries w.mdev ++ [{ req := TL_BARRIER, sector_nr := (tl_add_barrier w).2 }] :=
  tl_append_spec w.mdev _ h hroom

/-- The ring holds the barrier released last, followed by what is pending. -/
theorem tl_reach_inv (fuel : Nat) (w : World) (rel : Option Tl_entry) (pend : List Tl_entry)
    (h : TlReach fuel w rel pend) :
    tl_wf w.mdev ∧ w.mdev.tl_size ≤ 2 ^ 31 ∧ tl_entries w.mdev = rel.toList ++ pend := by
  induction h with
  | init w hlen hpos hint =>
    refine ⟨⟨hlen, hpos, hpos⟩, hint, ?_⟩
    rfl
  | frame w w1 rel pend _ hr ih =>
    obtain ⟨h1, h2, h3⟩ := ih
    exact ⟨same_ring_wf hr h1, by rw [hr.2.2.2]; exact h2, by rw [same_ring_entries hr]; exact h3⟩
  | add w rel pend x _ _ hroom ih =>
    obtain ⟨h1, h2, h3⟩ := ih
    have hc : tl_count w.mdev + 1 < w.mdev.tl_size := by
      rw [← tl_entries_length, h3]; exact hroom
    obtain ⟨a1, a2⟩ := tl_add_entries w x h1 hc
    exact ⟨a1, h2, by rw [a2, h3, List.append_assoc]⟩
  | add_barrier w rel pend _ hroom ih =>
    obtain ⟨h1, h2, h3⟩ := ih
    have hc : tl_count w.mdev + 1 < w.mdev.tl_size := by
      rw [← tl_entries_length, h3]; exact hroom
    obtain ⟨a1, a2⟩ := tl_add_barrier_entries w h1 hc
    exact ⟨a1, h2, by rw [a2, h3, List.append_assoc]⟩
  | release w w1 rel pend nr sz e0 ds B rest _ hE hds hB hf hrun ih =>
    obtain ⟨h1, h2, h3⟩ := ih
    have hE2 : tl_entries w.mdev = e0 :: (ds ++ B :: rest) := by rw [h3, hE]
    have hspec := tl_release_spec w nr sz fuel h1 hf h2 e0 ds B rest hE2 hds hB
    rw [hspec] at hrun
    have hw1 := Option.some.inj hrun
    have hlen : tl_count w.mdev = ds.length + 2 + rest.length := by
      rw [← tl_entries_length, hE2]; simp; omega
    have hent : tl_entries { w.mdev with tl_begin := tl_slot w.mdev (ds.length + 1) }
        = B :: rest := by
      rw [tl_entries_drop w.mdev h1 _ (by omega), hE2]
      simp
    rw [← hw1]
    refine ⟨⟨h1.1, tl_slot_lt w.mdev h1 _ (by omega), h1.2.2⟩, h2, ?_⟩
    exact hent
  | clear w w1 rel pend _ hf hrun ih =>
    obtain ⟨h1, h2, h3⟩ := ih
    obtain ⟨w2, new, c1, c2, c3, -, -, -, -, c8, c9⟩ := tl_clear_spec fuel w h1 hf
    rw [c1] at hrun
    have hw := Option.some.inj hrun
    subst hw
    have hpos : 0 < w.mdev.tl_size := by have := h1.2.1; omega
    have hwf : tl_wf w2.mdev := ⟨by rw [c8, c9]; exact h1.1, by rw [c2, c9]; exact hpos,
      by rw [c3, c9]; exact hpos⟩
    refine ⟨hwf, by rw [c9]; exact h2, ?_⟩
    exact (tl_entries_nil_iff w2.mdev hwf).mpr (by rw [c2, c3])

/-- C9, counterexample: from the empty log, one write is added, a barrier is
issued and the matching `tl_release(1, 1)` arrives (nothing is printed). No
write is in flight and no barrier is outstanding any more, yet
`tl_begin = 1` and `tl_end = 2`: the log is not empty. -/
theorem tl_nonempty_after_release_counterexample :
    ∃ w, tl_release 4 (tl_add_barrier (tl_add world_w7 101)).1 1 1 = some w ∧
      w.trace = [] ∧ TlReach 4 w (some ⟨TL_BARRIER, 1⟩) [] ∧
      w.mdev.tl_begin = 1 ∧ w.mdev.tl_end = 2 ∧ w.mdev.tl_begin ≠ w.mdev.tl_end := by
  have r0 : TlReach 4 world_w7 none [] := TlReach.init world_w7 rfl (by decide) (by decide)
  have r1 := TlReach.add world_w7 none [] 101 r0 (by decide) (by decide)
  have r2 := TlReach.add_barrier _ none _ r1 (by decide)
  refine ⟨_, rfl, rfl, ?_, rfl, rfl, by decide⟩
  exact TlReach.release _ _ none _ 1 1 ⟨101, 7⟩ [] ⟨TL_BARRIER, 1⟩ [] r2 (by decide)
    (by simp) rfl (by decide) rfl

/-- C9 (amended): in every state reachable from `tl_init` by `tl_add`,
`tl_add_barrier`, `tl_release` and `tl_clear` without overflow, the entries of
`[tl_begin, tl_end)` are the barrier released last (when one was released
since `tl_init`/`tl_clear`) followed by exactly the pending entries, the writes
in flight and the un-acked barriers; so `tl_begin == tl_end` holds iff nothing
is pending and no barrier was released since `tl_init`/`tl_clear`, and the log
is non-empty iff something is pending or a barrier has been released. -/
theorem tl_log_nonempty_iff (fuel : Nat) (w : World) (rel : Option Tl_entry)
    (pend : List Tl_entry) (h : TlReach fuel w rel pend) :
    tl_entries w.mdev = rel.toList ++ pend ∧
    (w.mdev.tl_begin = w.mdev.tl_end ↔ rel = none ∧ pend = []) ∧
    (w.mdev.tl_begin ≠ w.mdev.tl_end ↔ rel ≠ none ∨ pend ≠ []) := by
  obtain ⟨h1, -, h3⟩ := tl_reach_inv fuel w rel pend h
  have key : w.mdev.tl_begin = w.mdev.tl_end ↔ rel = none ∧ pend = [] := by
    rw [← tl_entries_nil_iff w.mdev h1, h3]
    cases rel <;> simp
  refine ⟨h3, key, ?_⟩
  rw [Ne, key]
  tauto

/-- C9 (amended), witness: one write added to the empty log. -/
theorem tl_log_nonempty_iff_witness :
    TlReach 4 (tl_add world_w7 101) none ([] ++ [⟨101, (world_w7.reqs 101).sector⟩]) ∧
    tl_entries (tl_add world_w7 101).mdev
      = (none : Option Tl_entry).toList ++ ([] ++ [⟨101, (world_w7.reqs 101).sector⟩]) :=
  ⟨TlReach.add world_w7 none [] 101
      (TlReach.init world_w7 rfl (by decide) (by decide)) (by decide) (by decide),
   (tl_log_nonempty_iff 4 (tl_add world_w7 101) none _
      (TlReach.add world_w7 none [] 101
        (TlReach.init world_w7 rfl (by decide) (by decide)) (by decide) (by decide))).1⟩

/-! ## Success and failure of a completion -/

theorem and_bit_of_le_one (u s : Nat) (hu : u ≤ 1) (hs : s % 2 = 1) : u &&& s = u := by
  interval_cases u
  · simp
  · rw [Nat.and_comm]; exact (Nat.and_one_is_mod s).trans hs

theorem drbd_do_request_disk_req (w : World) (req : Nat) :
    (drbd_do_request_disk w req).reqs req =
      { w.reqs req with rq_status :=
          if drbd_do_request_sending w req then RQ_DRBD_NOTHING
          else if (w.reqs req).cmd = WRITE then
            (if w.mdev.state = Drbd_State.Secondary then RQ_DRBD_SEC_WRITE ||| 1
              else RQ_DRBD_SENT ||| 1)
          else RQ_DRBD_READ ||| 1 } := by
  simp [drbd_do_request_disk, set_rq_status]


theorem drbd_end_req_completes (fuel : Nat) (w : World) (req nextstate uptodate : Nat)
    (h : tl_wf w.mdev) (hf : w.mdev.tl_size ≤ fuel)
    (hc : (w.reqs req).cmd = READ ∨
      (w.reqs req).rq_status &&& 0xfffe = RQ_DRBD_SEC_WRITE ∨
      ((w.reqs req).rq_status &&& 0xfffe = RQ_DRBD_SENT ∧ nextstate = RQ_DRBD_WRITTEN) ∨
      ((w.reqs req).rq_status &&& 0xfffe = RQ_DRBD_WRITTEN ∧ nextstate = RQ_DRBD_SENT)) :
    ∃ w1 tail, drbd_end_req fuel w req nextstate uptodate = some w1 ∧
      w1.trace = w.trace ++ Event.end_request req (uptodate &&& (w.reqs req).rq_status) :: tail ∧
      (∀ e ∈ tail, e = Event.panic ∨ e = Event.wake_asender) ∧
      (w1.reqs req).rq_status = RQ_INACTIVE := by
  have key : ∃ wake, drbd_end_req fuel w req nextstate uptodate
      = end_it_unlocked fuel w req uptodate wake := by
    unfold drbd_end_req
    simp only
    rcases hc with hc | hc | ⟨hc, hn⟩ | ⟨hc, hn⟩
    · exact ⟨false, by simp [hc]⟩
    · by_cases hr : (w.reqs req).cmd = READ
      · exact ⟨false, by simp [hr]⟩
      · exact ⟨true, by simp [hr, hc]⟩
    · by_cases hr : (w.reqs req).cmd = READ
      · exact ⟨false, by simp [hr]⟩
      · exact ⟨false, by simp +decide [hr, hc, hn, RQ_DRBD_SENT, RQ_DRBD_SEC_WRITE,
          RQ_DRBD_NOTHING, RQ_DRBD_WRITTEN]⟩
    · by_cases hr : (w.reqs req).cmd = READ
      · exact ⟨false, by simp [hr]⟩
      · exact ⟨false, by simp +decide [hr, hc, hn, RQ_DRBD_SENT, RQ_DRBD_SEC_WRITE,
          RQ_DRBD_NOTHING, RQ_DRBD_WRITTEN]⟩
  obtain ⟨wake, hk⟩ := key
  obtain ⟨w1, tail, h1, h2, h3, h4, -, -, -⟩ := end_it_unlocked_spec fuel w req uptodate wake h hf
  refine ⟨w1, tail, hk.trans h1, h2, h3, ?_⟩
  rw [h4]; simp [set_rq_status]

/-- C11: with `uptodate` flags in {0, 1}, a request that `drbd_do_request` has
handed to the disk is completed with success exactly when all of its events
reported success. A replicated write (`sending`, status `RQ_DRBD_NOTHING`)
takes two events, `RQ_DRBD_WRITTEN` and `RQ_DRBD_SENT` in either order: the
first one completes nothing, the second one completes the request with flag 1
iff both events carried 1. A read, an unreplicated Primary write and a
Secondary write are completed by `drbd_dio_end` with the flag of the local
I/O. So a failed local I/O (`uptodate == 0`) always gives a failure
completion. -/
theorem drbd_end_req_success_iff (fuel : Nat) (w : World) (req : Nat)
    (hcmd : (w.reqs req).cmd = READ ∨ (w.reqs req).cmd = WRITE) :
    (drbd_do_request_sending w req = true →
      ∀ n1 n2 u1 u2 : Nat, u1 ≤ 1 → u2 ≤ 1 →
        (n1 = RQ_DRBD_WRITTEN ∧ n2 = RQ_DRBD_SENT) ∨ (n1 = RQ_DRBD_SENT ∧ n2 = RQ_DRBD_WRITTEN) →
        ∀ wa : World, wa.reqs req = (drbd_do_request_disk w req).reqs req →
          ∃ wa1, drbd_end_req fuel wa req n1 u1 = some wa1 ∧ wa1.trace = wa.trace ∧
            wa1.mdev = wa.mdev ∧
            ∀ wb : World, wb.reqs req = wa1.reqs req → tl_wf wb.mdev → wb.mdev.tl_size ≤ fuel →
              ∃ wb1 tail, drbd_end_req fuel wb req n2 u2 = some wb1 ∧
                wb1.trace = wb.trace ++
                  Event.end_request req (if u1 = 1 ∧ u2 = 1 then 1 else 0) :: tail ∧
                (∀ e ∈ tail, e = Event.panic ∨ e = Event.wake_asender)) ∧
    (drbd_do_request_sending w req = false →
      ∀ u : Nat, u ≤ 1 →
        ∀ wa : World, wa.reqs req = (drbd_do_request_disk w req).reqs req →
          tl_wf wa.mdev → wa.mdev.tl_size ≤ fuel →
          ∃ wa1 tail, drbd_dio_end fuel wa req u = some wa1 ∧
            wa1.trace = wa.trace ++ Event.end_request req u :: tail ∧
            (∀ e ∈ tail, e = Event.panic ∨ e = Event.wake_asender)) := by
  constructor
  · intro hs n1 n2 u1 u2 hu1 hu2 hn wa hwa
    have hW : (w.reqs req).cmd = WRITE := by
      simp only [drbd_do_request_sending, decide_eq_true_eq] at hs
      exact hs.1
    rw [drbd_do_request_disk_req, hs] at hwa
    simp only [if_true] at hwa
    have hfirst : drbd_end_req fuel wa req n1 u1
        = some (set_rq_status wa req (n1 ||| (if u1 ≠ 0 then 1 else 0))) := by
      unfold drbd_end_req
      simp +decide [hwa, hW, READ, WRITE, RQ_DRBD_NOTHING, RQ_DRBD_SEC_WRITE]
    refine ⟨_, hfirst, rfl, rfl, ?_⟩
    intro wb hwb hwf hfu
    have hst : (wb.reqs req).rq_status = n1 ||| (if u1 ≠ 0 then 1 else 0) := by
      rw [hwb]; simp [set_rq_status]
    have hc : ((wb.reqs req).rq_status &&& 0xfffe = RQ_DRBD_SENT ∧ n2 = RQ_DRBD_WRITTEN) ∨
        ((wb.reqs req).rq_status &&& 0xfffe = RQ_DRBD_WRITTEN ∧ n2 = RQ_DRBD_SENT) := by
      rw [hst]
      rcases hn with ⟨rfl, rfl⟩ | ⟨rfl, rfl⟩ <;> interval_cases u1 <;>
        simp +decide [RQ_DRBD_SENT, RQ_DRBD_WRITTEN]
    obtain ⟨wb1, tail, h1, h2, h3, -⟩ :=
      drbd_end_req_completes fuel wb req n2 u2 hwf hfu (Or.inr (Or.inr hc))
    refine ⟨wb1, tail, h1, ?_, h3⟩
    rw [h2, hst]
    have : u2 &&& (n1 ||| (if u1 ≠ 0 then 1 else 0)) = if u1 = 1 ∧ u2 = 1 then 1 else 0 := by
      rcases hn with ⟨rfl, rfl⟩ | ⟨rfl, rfl⟩ <;> interval_cases u1 <;> interval_cases u2 <;>
        simp +decide [RQ_DRBD_SENT, RQ_DRBD_WRITTEN]
    rw [this]
  · intro hs u hu wa hwa hwf hfu
    rw [drbd_do_request_disk_req, hs] at hwa
    simp only [Bool.false_eq_true, if_false] at hwa
    have hc : (wa.reqs req).cmd = READ ∨
        (wa.reqs req).rq_status &&& 0xfffe = RQ_DRBD_SEC_WRITE ∨
        ((wa.reqs req).rq_status &&& 0xfffe = RQ_DRBD_SENT ∧ RQ_DRBD_WRITTEN = RQ_DRBD_WRITTEN) ∨
        ((wa.reqs req).rq_status &&& 0xfffe = RQ_DRBD_WRITTEN ∧
          RQ_DRBD_WRITTEN = RQ_DRBD_SENT) := by
      rw [hwa]
      rcases hcmd with hr | hr
      · exact Or.inl hr
      · by_cases h2 : w.mdev.state = Drbd_State.Secondary
        · exact Or.inr (Or.inl (by simp +decide [hr, h2, RQ_DRBD_SEC_WRITE]))
        · exact Or.inr (Or.inr (Or.inl ⟨by simp +decide [hr, h2, RQ_DRBD_SENT], rfl⟩))
    have hodd : (wa.reqs req).rq_status % 2 = 1 := by
      rw [hwa]
      rcases hcmd with hr | hr
      · simp +decide [hr, READ, WRITE, RQ_DRBD_READ]
      · by_cases h2 : w.mdev.state = Drbd_State.Secondary
        · simp +decide [hr, h2, RQ_DRBD_SEC_WRITE]
        · simp +decide [hr, h2, RQ_DRBD_SENT]
    obtain ⟨wa1, tail, h1, h2, h3, -⟩ :=
      drbd_end_req_completes fuel wa req RQ_DRBD_WRITTEN u hwf hfu hc
    refine ⟨wa1, tail, h1, ?_, h3⟩
    rw [h2, and_bit_of_le_one u _ hu hodd]

/-- C11, witness: request 101 of `world_w7`, a write on a connected Primary. -/
theorem drbd_end_req_success_iff_witness :
    ((world_w7.reqs 101).cmd = READ ∨ (world_w7.reqs 101).cmd = WRITE) ∧
    (drbd_do_request_sending world_w7 101 = true →
      ∀ n1 n2 u1 u2 : Nat, u1 ≤ 1 → u2 ≤ 1 →
        (n1 = RQ_DRBD_WRITTEN ∧ n2 = RQ_DRBD_SENT) ∨ (n1 = RQ_DRBD_SENT ∧ n2 = RQ_DRBD_WRITTEN) →
        ∀ wa : World, wa.reqs 101 = (drbd_do_request_disk world_w7 101).reqs 101 →
          ∃ wa1, drbd_end_req 4 wa 101 n1 u1 = some wa1 ∧ wa1.trace = wa.trace ∧
            wa1.mdev = wa.mdev ∧
            ∀ wb : World, wb.reqs 101 = wa1.reqs 101 → tl_wf wb.mdev → wb.mdev.tl_size ≤ 4 →
              ∃ wb1 tail, drbd_end_req 4 wb 101 n2 u2 = some wb1 ∧
                wb1.trace = wb.trace ++
                  Event.end_request 101 (if u1 = 1 ∧ u2 = 1 then 1 else 0) :: tail ∧
                (∀ e ∈ tail, e = Event.panic ∨ e = Event.wake_asender)) ∧
    (drbd_do_request_sending world_w7 101 = false →
      ∀ u : Nat, u ≤ 1 →
        ∀ wa : World, wa.reqs 101 = (drbd_do_request_disk world_w7 101).reqs 101 →
          tl_wf wa.mdev → wa.mdev.tl_size ≤ 4 →
          ∃ wa1 tail, drbd_dio_end 4 wa 101 u = some wa1 ∧
            wa1.trace = wa.trace ++ Event.end_request 101 u :: tail ∧
            (∀ e ∈ tail, e = Event.panic ∨ e = Event.wake_asender)) :=
  ⟨Or.inr (by decide), drbd_end_req_success_iff 4 world_w7 101 (Or.inr (by decide))⟩

/-! ## Generation counters -/

theorem drbd_md_compare_loop_spec (mdev : Drbd_Conf) (partner : Drbd_Parameter_P) :
    ∀ (n s : Nat),
      (drbd_md_compare_loop mdev partner (List.range' s n) = 1 ↔
        ∃ i, s ≤ i ∧ i < s + n ∧
          (∀ j, s ≤ j → j < i → mdev.gen_cnt.getD j 0 = partner.gen_cnt.getD j 0) ∧
          partner.gen_cnt.getD i 0 < mdev.gen_cnt.getD i 0) ∧
      (drbd_md_compare_loop mdev partner (List.range' s n) = -1 ↔
        ∃ i, s ≤ i ∧ i < s + n ∧
          (∀ j, s ≤ j → j < i → mdev.gen_cnt.getD j 0 = partner.gen_cnt.getD j 0) ∧
          mdev.gen_cnt.getD i 0 < partner.gen_cnt.getD i 0) ∧
      (drbd_md_compare_loop mdev partner (List.range' s n) = 0 ↔
        ∀ j, s ≤ j → j < s + n → mdev.gen_cnt.getD j 0 = partner.gen_cnt.getD j 0) := by
  intro n
  induction n with
  | zero =>
    intro s
    simp only [List.range', drbd_md_compare_loop]
    refine ⟨⟨fun h => absurd h (by decide), ?_⟩, ⟨fun h => absurd h (by decide), ?_⟩,
      ⟨fun _ j h1 h2 => by omega, fun _ => trivial⟩⟩
    · rintro ⟨i, h1, h2, -⟩; omega
    · rintro ⟨i, h1, h2, -⟩; omega
  | succ n ih =>
    intro s
    obtain ⟨ih1, ih2, ih3⟩ := ih (s + 1)
    simp only [List.range', drbd_md_compare_loop]
    rcases Nat.lt_trichotomy (mdev.gen_cnt.getD s 0) (partner.gen_cnt.getD s 0) with hlt | heq | hgt
    · have h1 : ¬ mdev.gen_cnt.getD s 0 > partner.gen_cnt.getD s 0 := by omega
      simp only [h1, if_false, hlt, if_true]
      refine ⟨⟨fun h => absurd h (by decide), ?_⟩,
        ⟨fun _ => ⟨s, le_refl _, by omega, fun j a b => by omega, hlt⟩, fun _ => trivial⟩,
        ⟨fun h => absurd h (by decide), ?_⟩⟩
      · rintro ⟨i, hi1, hi2, hi3, hi4⟩
        rcases Nat.eq_or_lt_of_le hi1 with rfl | hlt2
        · omega
        · have := hi3 s (le_refl _) hlt2; omega
      · intro h; have := h s (le_refl _) (by omega); omega
    · have h1 : ¬ mdev.gen_cnt.getD s 0 > partner.gen_cnt.getD s 0 := by omega
      have h2 : ¬ mdev.gen_cnt.getD s 0 < partner.gen_cnt.getD s 0 := by omega
      simp only [h1, h2, if_false]
      refine ⟨ih1.trans ⟨?_, ?_⟩, ih2.trans ⟨?_, ?_⟩, ih3.trans ⟨?_, ?_⟩⟩
      · rintro ⟨i, hi1, hi2, hi3, hi4⟩
        refine ⟨i, by omega, by omega, fun j a b => ?_, hi4⟩
        rcases Nat.eq_or_lt_of_le a with rfl | hlt2
        · exact heq
        · exact hi3 j hlt2 b
      · rintro ⟨i, hi1, hi2, hi3, hi4⟩
        rcases Nat.eq_or_lt_of_le hi1 with rfl | hlt2
        · omega
        · exact ⟨i, hlt2, by omega, fun j a b => hi3 j (by omega) b, hi4⟩
      · rintro ⟨i, hi1, hi2, hi3, hi4⟩
        refine ⟨i, by omega, by omega, fun j a b => ?_, hi4⟩
        rcases Nat.eq_or_lt_of_le a with rfl | hlt2
        · exact heq
        · exact hi3 j hlt2 b
      · rintro ⟨i, hi1, hi2, hi3, hi4⟩
        rcases Nat.eq_or_lt_of_le hi1 with rfl | hlt2
        · omega
        · exact ⟨i, hlt2, by omega, fun j a b => hi3 j (by omega) b, hi4⟩
      · intro h j a b
        rcases Nat.eq_or_lt_of_le a with rfl | hlt2
        · exact heq
        · exact h j hlt2 (by omega)
      · intro h j a b
        exact h j (by omega) (by omega)
    · simp only [hgt, if_true]
      refine ⟨⟨fun _ => ⟨s, le_refl _, by omega, fun j a b => by omega, hgt⟩, fun _ => trivial⟩,
        ⟨fun h => absurd h (by decide), ?_⟩, ⟨fun h => absurd h (by decide), ?_⟩⟩
      · rintro ⟨i, hi1, hi2, hi3, hi4⟩
        rcases Nat.eq_or_lt_of_le hi1 with rfl | hlt2
        · omega
        · have := hi3 s (le_refl _) hlt2; omega
      · intro h; have := h s (le_refl _) (by omega); omega

theorem drbd_md_compare_spec (mdev : Drbd_Conf) (partner : Drbd_Parameter_P) :
    (drbd_md_compare mdev partner = 1 ↔ gen_cnt_gt mdev.gen_cnt partner.gen_cnt) ∧
    (drbd_md_compare mdev partner = -1 ↔ gen_cnt_gt partner.gen_cnt mdev.gen_cnt) ∧
    (drbd_md_compare mdev partner = 0 ↔ gen_cnt_eq mdev.gen_cnt partner.gen_cnt) := by
  obtain ⟨h1, h2, h3⟩ := drbd_md_compare_loop_spec mdev partner (PrimaryInd + 1) 0
  unfold drbd_md_compare gen_cnt_gt gen_cnt_eq
  refine ⟨h1.trans ⟨?_, ?_⟩, h2.trans ⟨?_, ?_⟩, h3.trans ⟨?_, ?_⟩⟩
  · rintro ⟨i, -, hi2, hi3, hi4⟩
    exact ⟨i, by omega, fun j hj => hi3 j (Nat.zero_le _) hj, hi4⟩
  · rintro ⟨i, hi1, hi3, hi4⟩
    exact ⟨i, Nat.zero_le _, by omega, fun j _ hj => hi3 j hj, hi4⟩
  · rintro ⟨i, -, hi2, hi3, hi4⟩
    exact ⟨i, by omega, fun j hj => (hi3 j (Nat.zero_le _) hj).symm, hi4⟩
  · rintro ⟨i, hi1, hi3, hi4⟩
    exact ⟨i, Nat.zero_le _, by omega, fun j _ hj => (hi3 j hj).symm, hi4⟩
  · intro h i hi; exact h i (Nat.zero_le _) (by omega)
  · intro h j _ hj; exact h j (by omega)

theorem drbd_md_syncq_ok_spec (mdev : Drbd_Conf) (partner : Drbd_Parameter_P) :
    (drbd_md_syncq_ok mdev partner = 1 ↔
      partner.gen_cnt.getD PrimaryInd 0 ≠ 1 ∧
      ∀ i, HumanCnt ≤ i → i ≤ ArbitraryCnt →
        mdev.bit_map_gen.getD i 0 = partner.gen_cnt.getD i 0) ∧
    (drbd_md_syncq_ok mdev partner ≠ 1 → drbd_md_syncq_ok mdev partner = 0) := by
  have hall : (∀ i, HumanCnt ≤ i → i ≤ ArbitraryCnt →
        mdev.bit_map_gen.getD i 0 = partner.gen_cnt.getD i 0) ↔
      (mdev.bit_map_gen.getD 1 0 = partner.gen_cnt.getD 1 0 ∧
       mdev.bit_map_gen.getD 2 0 = partner.gen_cnt.getD 2 0 ∧
       mdev.bit_map_gen.getD 3 0 = partner.gen_cnt.getD 3 0) := by
    simp only [HumanCnt, ArbitraryCnt]
    constructor
    · intro h
      exact ⟨h 1 (by omega) (by omega), h 2 (by omega) (by omega), h 3 (by omega) (by omega)⟩
    · rintro ⟨h1, h2, h3⟩ i hi1 hi2
      interval_cases i
      · exact h1
      · exact h2
      · exact h3
  rw [hall]
  unfold drbd_md_syncq_ok
  simp only [HumanCnt, ArbitraryCnt, List.range', drbd_md_syncq_ok_loop]
  by_cases hp : partner.gen_cnt.getD PrimaryInd 0 = 1
  · simp only [hp, if_true, ne_eq, not_true_eq_false, false_and]
    decide
  · by_cases h1 : mdev.bit_map_gen.getD 1 0 = partner.gen_cnt.getD 1 0
    · by_cases h2 : mdev.bit_map_gen.getD 2 0 = partner.gen_cnt.getD 2 0
      · by_cases h3 : mdev.bit_map_gen.getD 3 0 = partner.gen_cnt.getD 3 0
        · simp only [hp, h1, h2, h3, if_true, if_false, ne_eq, not_true_eq_false,
            not_false_eq_true, true_and, and_true, false_and, and_false]
          decide
        · simp only [hp, h1, h2, h3, if_true, if_false, ne_eq, not_true_eq_false,
            not_false_eq_true, true_and, and_true, false_and, and_false]
          decide
      · simp only [hp, h1, h2, if_true, if_false, ne_eq, not_true_eq_false,
          not_false_eq_true, true_and, and_true, false_and, and_false]
        decide
    · simp only [hp, h1, if_true, if_false, ne_eq, not_true_eq_false,
        not_false_eq_true, true_and, and_true, false_and, and_false]
      decide

/-- C20: `drbd_md_compare` compares the counters (values of type `u32`) at the
indices `Consistent, HumanCnt, ConnectedCnt, ArbitraryCnt, PrimaryInd` in this
order: it returns 1 iff the local vector is lexicographically greater than the
partner's, -1 iff it is smaller and 0 iff the two agree at all five indices;
local `[1,1,5,1,0]` against partner `[1,1,4,9,0]` gives 1. -/
theorem drbd_md_compare_lexicographic (mdev : Drbd_Conf) (partner : Drbd_Parameter_P) :
    (drbd_md_compare mdev partner = 1 ↔ gen_cnt_gt mdev.gen_cnt partner.gen_cnt) ∧
    (drbd_md_compare mdev partner = -1 ↔ gen_cnt_gt partner.gen_cnt mdev.gen_cnt) ∧
    (drbd_md_compare mdev partner = 0 ↔ gen_cnt_eq mdev.gen_cnt partner.gen_cnt) ∧
    drbd_md_compare { mdev with gen_cnt := [1, 1, 5, 1, 0] }
      { partner with gen_cnt := [1, 1, 4, 9, 0] } = 1 := by
  obtain ⟨h1, h2, h3⟩ := drbd_md_compare_spec mdev partner
  exact ⟨h1, h2, h3, rfl⟩

/-- C17: `drbd_md_syncq_ok` returns 1 if and only if the `PrimaryInd` the
partner reports is not 1 and the local `bit_map_gen` equals the partner's
`gen_cnt` at `HumanCnt`, `ConnectedCnt` and `ArbitraryCnt`; in every other
case it returns 0. -/
theorem drbd_md_syncq_ok_iff (mdev : Drbd_Conf) (partner : Drbd_Parameter_P) :
    (drbd_md_syncq_ok mdev partner = 1 ↔
      partner.gen_cnt.getD PrimaryInd 0 ≠ 1 ∧
      mdev.bit_map_gen.getD HumanCnt 0 = partner.gen_cnt.getD HumanCnt 0 ∧
      mdev.bit_map_gen.getD ConnectedCnt 0 = partner.gen_cnt.getD ConnectedCnt 0 ∧
      mdev.bit_map_gen.getD ArbitraryCnt 0 = partner.gen_cnt.getD ArbitraryCnt 0) ∧
    (drbd_md_syncq_ok mdev partner ≠ 1 → drbd_md_syncq_ok mdev partner = 0) := by
  obtain ⟨h1, h2⟩ := drbd_md_syncq_ok_spec mdev partner
  refine ⟨h1.trans ⟨?_, ?_⟩, h2⟩
  · rintro ⟨hp, h⟩
    exact ⟨hp, h 1 (by decide) (by decide), h 2 (by decide) (by decide),
      h 3 (by decide) (by decide)⟩
  · rintro ⟨hp, a, b, c⟩
    refine ⟨hp, fun i hi1 hi2 => ?_⟩
    simp only [HumanCnt, ArbitraryCnt] at hi1 hi2
    interval_cases i
    · exact a
    · exact b
    · exact c

/-! ## The handshake -/

theorem drbd_log2_loop_terminates : ∀ (fuel : Nat) (i bits add_one : Int),
    1 ≤ i → i < 2 ^ fuel → ∃ b, drbd_log2_loop fuel i bits add_one = some b := by
  intro fuel
  induction fuel with
  | zero => intro i bits a h1 h2; simp at h2; omega
  | succ n ih =>
    intro i bits a h1 h2
    unfold drbd_log2_loop
    by_cases hi : i = 1
    · exact ⟨_, by rw [if_pos hi]⟩
    · rw [if_neg hi]
      obtain ⟨m, rfl⟩ := Int.eq_ofNat_of_zero_le (by omega : 0 ≤ i)
      have hs : ((m : ℤ) >>> (1 : ℤ)) = ((m >>> 1 : ℕ) : ℤ) := Int.shiftRight_coe_nat m 1
      rw [hs, Nat.shiftRight_eq_div_pow]
      have hp : (2 : ℤ) ^ (n + 1) = 2 * 2 ^ n := by ring
      have hm : (m : ℤ) < 2 * 2 ^ n := by rw [← hp]; exact h2
      have hm2 : m < 2 * 2 ^ n := by exact_mod_cast hm
      apply ih
      · have : 1 ≤ m / 2 ^ 1 := by
          have : 2 ≤ m := by omega
          omega
        exact_mod_cast this
      · have : m / 2 ^ 1 < 2 ^ n := by omega
        exact_mod_cast this

theorem drbd_log2_terminates (fuel : Nat) (i : Int) (h1 : 1 ≤ i) (h2 : i < 2 ^ fuel) :
    ∃ b, drbd_log2 fuel i = some b :=
  drbd_log2_loop_terminates fuel i 0 0 h1 h2

theorem drbd_send_mdev (w : World) (cmd : Drbd_Packet_Cmd) (a b hs ds : Nat) (o : SendOutcome) :
    (drbd_send w cmd a b hs ds o).1.mdev =
      { w.mdev with cstate := (drbd_send w cmd a b hs ds o).1.mdev.cstate } ∧
    (drbd_send w cmd a b hs ds o).1.blk_size = w.blk_size := by
  unfold drbd_send
  simp only
  repeat' split
  all_goals exact ⟨rfl, rfl⟩

theorem drbd_send_taken (w : World) (cmd : Drbd_Packet_Cmd) (a b hs ds : Nat) (o : SendOutcome)
    (h : send_taken w.mdev o) : (drbd_send w cmd a b hs ds o).1.mdev = w.mdev := by
  obtain ⟨h1, h2⟩ := h
  unfold drbd_send
  simp only
  split
  · rfl
  · split
    · rfl
    · have hn : ¬ (w.mdev.timeout ≠ 0 ∧ o.signalled = true) := by
        rintro ⟨a1, a2⟩
        rcases h1 with h1 | h1
        · exact a1 h1
        · rw [h1] at a2; exact Bool.noConfusion a2
      rw [if_neg hn]
      have hn2 : ¬ o.err < 0 := by omega
      rw [if_neg hn2]
      split <;> rfl


theorem drbd_md_write_mdev (w : World) (res : Option Int) :
    (drbd_md_write w res).mdev =
      { w.mdev with gen_cnt := (drbd_md_write w res).mdev.gen_cnt } ∧
    (drbd_md_write w res).blk_size = w.blk_size := by
  unfold drbd_md_write
  simp only
  repeat' split
  all_goals exact ⟨rfl, rfl⟩

theorem drbd_md_inc_mdev (w : World) (order : Nat) (res : Option Int) :
    (drbd_md_inc w order res).mdev =
      { w.mdev with gen_cnt := (drbd_md_inc w order res).mdev.gen_cnt } ∧
    (drbd_md_inc w order res).blk_size = w.blk_size := by
  unfold drbd_md_inc
  simp only
  exact ⟨by rw [(drbd_md_write_mdev _ res).1], (drbd_md_write_mdev _ res).2⟩

theorem drbd_send_param_mdev (MV : Nat) (w : World) (ll : Option Nat) (u : Nat)
    (o : SendOutcome) :
    (drbd_send_param MV w ll u o).1.mdev =
      { w.mdev with cstate := (drbd_send_param MV w ll u o).1.mdev.cstate } ∧
    (drbd_send_param MV w ll u o).1.blk_size = w.blk_size := by
  unfold drbd_send_param
  simp only
  split
  · split
    · exact drbd_send_mdev _ _ _ _ _ _ _
    · exact drbd_send_mdev _ _ _ _ _ _ _
  · split
    · exact drbd_send_mdev _ _ _ _ _ _ _
    · exact drbd_send_mdev _ _ _ _ _ _ _

theorem drbd_set_state_wait_spec : ∀ (sl : List (Nat × Nat × Bool)) (w : World),
    wait_ends sl w.mdev.pending_cnt w.mdev.unacked_cnt = true →
    ∃ w2, drbd_set_state_wait sl w =
        some (w2, wait_interrupted sl w.mdev.pending_cnt w.mdev.unacked_cnt) ∧
      w2.mdev = { w.mdev with pending_cnt := w2.mdev.pending_cnt,
                              unacked_cnt := w2.mdev.unacked_cnt } ∧
      w2.blk_size = w.blk_size ∧ w2.minor = w.minor := by
  intro sl
  induction sl with
  | nil =>
    intro w h
    simp only [wait_ends, decide_eq_true_eq] at h
    refine ⟨w, ?_, rfl, rfl, rfl⟩
    unfold drbd_set_state_wait wait_interrupted
    rw [if_neg (by omega)]
  | cons x rest ih =>
    obtain ⟨p1, u1, sig⟩ := x
    intro w h
    unfold drbd_set_state_wait wait_interrupted
    by_cases h0 : w.mdev.pending_cnt = 0 ∧ w.mdev.unacked_cnt = 0
    · rw [if_neg (by omega), if_pos h0]
      exact ⟨w, rfl, rfl, rfl, rfl⟩
    · rw [if_pos (by omega), if_neg h0]
      simp only
      cases sig with
      | true =>
        simp only [↓reduceIte]
        exact ⟨_, rfl, rfl, rfl, rfl⟩
      | false =>
        simp only [wait_ends, h0, decide_False, Bool.false_or] at h
        obtain ⟨w2, e1, e2, e3, e4⟩ := ih
          { w with mdev := { w.mdev with pending_cnt := p1, unacked_cnt := u1 },
                   trace := w.trace ++ [Event.printk (Msg.set_state w.mdev.state
                     w.mdev.pending_cnt w.mdev.unacked_cnt w.mdev.epoch_size)] } h
        refine ⟨w2, ?_, ?_, e3, e4⟩
        · simpa using e1
        · rw [e2]


theorem role_step_refl (m : Drbd_Conf) : role_step m m := rfl

theorem role_step_trans {m m1 m2 : Drbd_Conf} (h1 : role_step m m1) (h2 : role_step m1 m2) :
    role_step m m2 := by
  unfold role_step at *
  rw [h2]; dsimp only
  rw [h1]

theorem role_step_of_cstate {m m1 : Drbd_Conf} (h : m1 = { m with cstate := m1.cstate }) :
    role_step m m1 := by
  unfold role_step
  rw [h]

theorem role_step_of_gen_cnt {m m1 : Drbd_Conf} (h : m1 = { m with gen_cnt := m1.gen_cnt }) :
    role_step m m1 := by
  unfold role_step
  rw [h]

theorem drbd_set_state_human_step (w : World) (ns : Drbd_NewState) (env : ParamEnv) :
    role_step w.mdev (drbd_set_state_human w ns env).mdev ∧
    (drbd_set_state_human w ns env).mdev.state = w.mdev.state := by
  unfold drbd_set_state_human
  split
  · exact ⟨role_step_of_gen_cnt (drbd_md_inc_mdev _ _ _).1,
      by rw [(drbd_md_inc_mdev _ _ _).1]⟩
  · exact ⟨role_step_refl _, rfl⟩

theorem drbd_set_state_count_step (w : World) (ns : Drbd_NewState) (env : ParamEnv) :
    role_step w.mdev (drbd_set_state_count w ns env).mdev ∧
    (drbd_set_state_count w ns env).mdev.state = w.mdev.state := by
  unfold drbd_set_state_count
  split
  · exact ⟨role_step_of_gen_cnt (drbd_md_inc_mdev _ _ _).1,
      by rw [(drbd_md_inc_mdev _ _ _).1]⟩
  · exact ⟨role_step_refl _, rfl⟩

theorem drbd_set_state_sock_mdev (w : World) : (drbd_set_state_sock w).mdev = w.mdev := by
  unfold drbd_set_state_sock
  split <;> rfl

theorem drbd_set_state_report_step (MV : Nat) (w : World) (env : ParamEnv) :
    role_step w.mdev (drbd_set_state_report MV w env).mdev ∧
    (drbd_set_state_report MV w env).mdev.state = w.mdev.state := by
  unfold drbd_set_state_report
  split
  · exact ⟨role_step_of_cstate (drbd_send_param_mdev _ _ _ _ _).1,
      by rw [(drbd_send_param_mdev _ _ _ _ _).1]⟩
  · exact ⟨role_step_refl _, rfl⟩

theorem drbd_set_state_commit_step (MV : Nat) (w : World) (ns : Drbd_NewState) (env : ParamEnv) :
    role_step w.mdev (drbd_set_state_commit MV w ns env).mdev ∧
    (drbd_set_state_commit MV w ns env).mdev.state = ns.role := by
  have h0 : role_step w.mdev
      ({ w with mdev := { w.mdev with state := ns.role } } : World).mdev := rfl
  have h1 := drbd_set_state_human_step { w with mdev := { w.mdev with state := ns.role } } ns env
  have h2 := drbd_set_state_count_step
    (drbd_set_state_human { w with mdev := { w.mdev with state := ns.role } } ns env) ns env
  have h3 := drbd_set_state_report_step MV (drbd_set_state_sock (drbd_set_state_count
    (drbd_set_state_human { w with mdev := { w.mdev with state := ns.role } } ns env) ns env)) env
  rw [drbd_set_state_sock_mdev] at h3
  refine ⟨role_step_trans h0 (role_step_trans h1.1 (role_step_trans h2.1 h3.1)), ?_⟩
  unfold drbd_set_state_commit
  exact h3.2.trans (h2.2.trans h1.2)


theorem drbd_set_state_promote (MV : Nat) (w : World) (env : ParamEnv)
    (hs : w.mdev.state = Drbd_State.Secondary)
    (hc : w.mdev.cstate = Drbd_CState.WFReportParams)
    (hw : wait_ends env.sleeps w.mdev.pending_cnt w.mdev.unacked_cnt = true) :
    ∃ wt r, drbd_set_state MV w Drbd_NewState.Primary env = some (wt, r) ∧
      role_step w.mdev wt.mdev ∧
      (wt.mdev.state = Drbd_State.Primary ↔
        wait_interrupted env.sleeps w.mdev.pending_cnt w.mdev.unacked_cnt = false) := by
  obtain ⟨w2, e1, e2, -, -⟩ := drbd_set_state_wait_spec env.sleeps
    { w with trace := w.trace ++ [Event.fsync_dev (MKDEV MAJOR_NR w.minor)] } hw
  have hstep : role_step w.mdev w2.mdev := by
    unfold role_step
    rw [e2]
  have hst : w2.mdev.state = Drbd_State.Secondary := by
    rw [e2]; exact hs
  unfold drbd_set_state
  rw [if_neg (by rw [hs]; simp [Drbd_NewState.role]), if_neg (by rw [hc]; simp),
    if_neg (by simp), e1]
  dsimp only
  cases wait_interrupted env.sleeps w.mdev.pending_cnt w.mdev.unacked_cnt with
  | true =>
    refine ⟨w2, _, rfl, hstep, ?_⟩
    rw [hst]; simp
  | false =>
    obtain ⟨c1, c2⟩ := drbd_set_state_commit_step MV w2 Drbd_NewState.Primary env
    refine ⟨_, _, rfl, role_step_trans hstep c1, ?_⟩
    rw [c2]; simp [Drbd_NewState.role]

theorem receive_param_tie_break_spec (MV : Nat) (w : World) (param : Drbd_Parameter_P)
    (env : ParamEnv) (hc : w.mdev.cstate = Drbd_CState.WFReportParams)
    (hw : param.state = Drbd_State.Secondary → w.mdev.state = Drbd_State.Secondary →
      drbd_md_compare w.mdev param = 1 →
      wait_ends env.sleeps w.mdev.pending_cnt w.mdev.unacked_cnt = true) :
    ∃ wt, receive_param_tie_break MV w param env = some wt ∧ role_step w.mdev wt.mdev ∧
      (wt.mdev.state = Drbd_State.Primary ↔ primary_after_tie_break w param env) := by
  unfold receive_param_tie_break primary_after_tie_break
  by_cases h1 : param.state = Drbd_State.Secondary ∧ w.mdev.state = Drbd_State.Secondary
  · rw [if_pos h1]
    by_cases h2 : drbd_md_compare w.mdev param = 1
    · rw [if_pos h2]
      obtain ⟨wt, r, e1, e2, e3⟩ := drbd_set_state_promote MV w env h1.2 hc (hw h1.1 h1.2 h2)
      refine ⟨wt, by rw [e1]; rfl, e2, ?_⟩
      rw [e3]
      constructor
      · intro h; exact Or.inr ⟨h1.1, h1.2, h2, h⟩
      · rintro (h | ⟨-, -, -, h⟩)
        · rw [h1.2] at h; exact Drbd_State.noConfusion h
        · exact h
    · rw [if_neg h2]
      refine ⟨w, rfl, role_step_refl _, ?_⟩
      constructor
      · intro h; exact Or.inl h
      · rintro (h | ⟨-, -, h, -⟩)
        · exact h
        · exact absurd h h2
  · rw [if_neg h1]
    refine ⟨w, rfl, role_step_refl _, ?_⟩
    constructor
    · intro h; exact Or.inl h
    · rintro (h | ⟨a, b, -, -⟩)
      · exact h
      · exact absurd ⟨a, b⟩ h1


theorem role_step_fields {m m1 : Drbd_Conf} (h : role_step m m1) :
    m1.skip_sync = m.skip_sync ∧ m1.bit_map_gen = m.bit_map_gen ∧ m1.timeout = m.timeout ∧
    m1.sock = m.sock ∧ m1.wire_protocol = m.wire_protocol ∧ m1.lo_usize = m.lo_usize := by
  unfold role_step at h
  refine ⟨?_, ?_, ?_, ?_, ?_, ?_⟩ <;> rw [h]

theorem drbd_md_syncq_ok_congr (m m1 : Drbd_Conf) (p : Drbd_Parameter_P)
    (h : m1.bit_map_gen = m.bit_map_gen) : drbd_md_syncq_ok m1 p = drbd_md_syncq_ok m p := by
  unfold drbd_md_syncq_ok
  have : ∀ l, drbd_md_syncq_ok_loop m1 p l = drbd_md_syncq_ok_loop m p l := by
    intro l
    induction l with
    | nil => rfl
    | cons i rest ih => simp only [drbd_md_syncq_ok_loop, h, ih]
  rw [this]

theorem drbd_md_compare_congr (m m1 : Drbd_Conf) (p : Drbd_Parameter_P)
    (h : m1.gen_cnt = m.gen_cnt) : drbd_md_compare m1 p = drbd_md_compare m p := by
  unfold drbd_md_compare
  have : ∀ l, drbd_md_compare_loop m1 p l = drbd_md_compare_loop m p l := by
    intro l
    induction l with
    | nil => rfl
    | cons i rest ih => simp only [drbd_md_compare_loop, h, ih]
  rw [this]

theorem receive_param_sync_spec (w : World) (param : Drbd_Parameter_P) (env : ParamEnv) :
    (w.mdev.skip_sync = true ∨ w.mdev.state ≠ Drbd_State.Primary →
      (receive_param_sync w param env).mdev.cstate = Drbd_CState.Connected) ∧
    (w.mdev.skip_sync = false → w.mdev.state = Drbd_State.Primary →
      send_taken w.mdev env.o_cstate →
      (receive_param_sync w param env).mdev.cstate =
        if drbd_md_syncq_ok w.mdev param = 1 then Drbd_CState.SyncingQuick
        else Drbd_CState.SyncingAll) ∧
    role_step w.mdev (receive_param_sync w param env).mdev ∧
    (receive_param_sync w param env).mdev.state = w.mdev.state := by
  unfold receive_param_sync
  by_cases h : w.mdev.state = Drbd_State.Primary ∧ w.mdev.skip_sync = false
  · rw [if_pos h]
    dsimp only
    refine ⟨?_, ?_, ?_, ?_⟩
    · rintro (h1 | h1)
      · rw [h.2] at h1; exact Bool.noConfusion h1
      · exact absurd h.1 h1
    · intro _ _ ht
      have hcs : (if drbd_md_syncq_ok w.mdev param ≠ 0 then Drbd_CState.SyncingQuick
          else Drbd_CState.SyncingAll) =
          (if drbd_md_syncq_ok w.mdev param = 1 then Drbd_CState.SyncingQuick
          else Drbd_CState.SyncingAll) := by
        by_cases hq : drbd_md_syncq_ok w.mdev param = 1
        · rw [if_pos hq, if_pos (by rw [hq]; decide)]
        · rw [if_neg hq, if_neg (by rw [(drbd_md_syncq_ok_spec w.mdev param).2 hq]; decide)]
      rw [hcs]
      generalize (if drbd_md_syncq_ok w.mdev param = 1 then Drbd_CState.SyncingQuick
          else Drbd_CState.SyncingAll) = cs
      unfold drbd_send_cstate
      have key := drbd_send_taken ({ w with mdev := set_cstate w.mdev cs } : World)
        Drbd_Packet_Cmd.CStateChanged cs.toNat 0 sizeof_Drbd_CState_Packet 0 env.o_cstate ht
      exact congrArg Drbd_Conf.cstate key
    · unfold drbd_send_cstate
      refine role_step_trans ?_ (role_step_of_cstate (drbd_send_mdev _ _ _ _ _ _ _).1)
      rfl
    · unfold drbd_send_cstate
      rw [(drbd_send_mdev _ _ _ _ _ _ _).1]; rfl
  · rw [if_neg h]
    refine ⟨fun _ => rfl, ?_, rfl, rfl⟩
    intro h1 h2 _
    exact absurd ⟨h2, h1⟩ h

theorem receive_param_adopt_spec (w : World) (param : Drbd_Parameter_P) (env : ParamEnv) :
    (receive_param_adopt w param env).mdev.cstate = w.mdev.cstate ∧
    (receive_param_adopt w param env).mdev.state = w.mdev.state := by
  unfold receive_param_adopt
  split
  · refine ⟨?_, ?_⟩ <;> rw [(drbd_md_write_mdev _ _).1]
  · exact ⟨rfl, rfl⟩


theorem primary_after_tie_break_congr (w w1 : World) (param : Drbd_Parameter_P) (env : ParamEnv)
    (h1 : w1.mdev.state = w.mdev.state) (h2 : w1.mdev.gen_cnt = w.mdev.gen_cnt)
    (h3 : w1.mdev.pending_cnt = w.mdev.pending_cnt)
    (h4 : w1.mdev.unacked_cnt = w.mdev.unacked_cnt) :
    primary_after_tie_break w1 param env ↔ primary_after_tie_break w param env := by
  unfold primary_after_tie_break
  rw [h1, h3, h4, drbd_md_compare_congr w.mdev w1.mdev param h2]

theorem receive_param_established_spec (MV : Nat) (w : World) (param : Drbd_Parameter_P)
    (env : ParamEnv) (blksize : Int)
    (hw : param.state = Drbd_State.Secondary → w.mdev.state = Drbd_State.Secondary →
      drbd_md_compare w.mdev param = 1 →
      wait_ends env.sleeps w.mdev.pending_cnt w.mdev.unacked_cnt = true) :
    ∃ w5, receive_param_established MV w param env blksize = some w5 ∧
      (w.mdev.cstate ≠ Drbd_CState.WFReportParams → w5 = w) ∧
      (w.mdev.cstate = Drbd_CState.WFReportParams →
        (w.mdev.skip_sync = true ∨ ¬ primary_after_tie_break w param env →
          w5.mdev.cstate = Drbd_CState.Connected) ∧
        (w.mdev.skip_sync = false → primary_after_tie_break w param env →
          send_taken w.mdev env.o_cstate →
          w5.mdev.cstate = if drbd_md_syncq_ok w.mdev param = 1 then Drbd_CState.SyncingQuick
            else Drbd_CState.SyncingAll)) := by
  unfold receive_param_established
  by_cases hc : w.mdev.cstate = Drbd_CState.WFReportParams
  · rw [if_pos hc]
    dsimp only
    obtain ⟨wt, e1, e2, e3⟩ := receive_param_tie_break_spec MV
      { w with trace := w.trace ++ [Event.printk Msg.connection_established,
          Event.printk (Msg.size_blksize w.blk_size blksize)] } param env hc hw
    have e3' : wt.mdev.state = Drbd_State.Primary ↔ primary_after_tie_break w param env := e3
    obtain ⟨f1, f2, f3, -⟩ := role_step_fields e2
    obtain ⟨s1, s2, -, -⟩ := receive_param_sync_spec wt param env
    rw [e1]
    refine ⟨_, rfl, fun h => absurd hc h, fun _ => ⟨?_, ?_⟩⟩
    · intro h
      apply s1
      rcases h with h | h
      · exact Or.inl (f1.trans h)
      · exact Or.inr (fun hp => h (e3'.1 hp))
    · intro h1 h2 h3
      rw [s2 (f1.trans h1) (e3'.2 h2) ⟨by rw [f3]; exact h3.1, h3.2⟩,
        drbd_md_syncq_ok_congr _ _ _ f2]
  · rw [if_neg hc]
    exact ⟨w, rfl, fun _ => rfl, fun h => absurd h hc⟩


theorem receive_param_pre_fields (w : World) (blksize b : Int) (env : ParamEnv) :
    (receive_param_mbds (receive_param_set_blksize w blksize b) env).mdev.cstate = w.mdev.cstate ∧
    (receive_param_mbds (receive_param_set_blksize w blksize b) env).mdev.state = w.mdev.state ∧
    (receive_param_mbds (receive_param_set_blksize w blksize b) env).mdev.gen_cnt
      = w.mdev.gen_cnt ∧
    (receive_param_mbds (receive_param_set_blksize w blksize b) env).mdev.bit_map_gen
      = w.mdev.bit_map_gen ∧
    (receive_param_mbds (receive_param_set_blksize w blksize b) env).mdev.skip_sync
      = w.mdev.skip_sync ∧
    (receive_param_mbds (receive_param_set_blksize w blksize b) env).mdev.timeout
      = w.mdev.timeout ∧
    (receive_param_mbds (receive_param_set_blksize w blksize b) env).mdev.pending_cnt
      = w.mdev.pending_cnt ∧
    (receive_param_mbds (receive_param_set_blksize w blksize b) env).mdev.unacked_cnt
      = w.mdev.unacked_cnt := by
  unfold receive_param_mbds receive_param_set_blksize
  split
  · exact ⟨rfl, rfl, rfl, rfl, rfl, rfl, rfl, rfl⟩
  · exact ⟨rfl, rfl, rfl, rfl, rfl, rfl, rfl, rfl⟩

theorem receive_param_spec (MOD_VERSION fuel : Nat) (w : World) (param : Drbd_Parameter_P)
    (env : ParamEnv) (hpass : handshake_passes MOD_VERSION w param env)
    (hb1 : 1 ≤ receive_param_blksize w.mdev param)
    (hb2 : receive_param_blksize w.mdev param < 2 ^ fuel)
    (hw : param.state = Drbd_State.Secondary → w.mdev.state = Drbd_State.Secondary →
      drbd_md_compare w.mdev param = 1 →
      wait_ends env.sleeps w.mdev.pending_cnt w.mdev.unacked_cnt = true) :
    ∃ w1, receive_param MOD_VERSION fuel w (some param) env = some (w1, true) ∧
      (w.mdev.cstate ≠ Drbd_CState.WFReportParams → w1.mdev.cstate = w.mdev.cstate) ∧
      (w.mdev.cstate = Drbd_CState.WFReportParams →
        (w.mdev.skip_sync = true ∨ ¬ primary_after_tie_break w param env →
          w1.mdev.cstate = Drbd_CState.Connected) ∧
        (w.mdev.skip_sync = false → primary_after_tie_break w param env →
          send_taken w.mdev env.o_cstate →
          w1.mdev.cstate = if drbd_md_syncq_ok w.mdev param = 1 then Drbd_CState.SyncingQuick
            else Drbd_CState.SyncingAll)) := by
  obtain ⟨p1, p2, p3, lls, p4, p5⟩ := hpass
  obtain ⟨b, hb⟩ := drbd_log2_terminates fuel _ hb1 hb2
  obtain ⟨g1, g2, g3, g4, g5, g6, g7, g8⟩ := receive_param_pre_fields
    ({ w with mdev := { w.mdev with o_state := param.state },
              blk_size := min lls param.size } : World)
    (receive_param_blksize w.mdev param) b env
  dsimp only at g1 g2 g3 g4 g5 g6 g7 g8
  obtain ⟨w5, e1, e2, e3⟩ := receive_param_established_spec MOD_VERSION
    (receive_param_mbds (receive_param_set_blksize
      ({ w with mdev := { w.mdev with o_state := param.state },
                blk_size := min lls param.size } : World)
      (receive_param_blksize w.mdev param) b) env) param env (receive_param_blksize w.mdev param)
    (by rw [g2, g7, g8, drbd_md_compare_congr _ _ _ g3]; exact hw)
  obtain ⟨a1, -⟩ := receive_param_adopt_spec w5 param env
  have hrun : receive_param MOD_VERSION fuel w (some param) env
      = some (receive_param_adopt w5 param env, true) := by
    unfold receive_param
    dsimp only
    rw [if_neg p1, if_neg (by rw [p2]; simp), if_neg (by rw [p3]; simp), p4]
    dsimp only
    rw [if_neg (by
      rintro ⟨c1, c2⟩
      rcases p5 with p5 | p5
      · exact c1 p5
      · exact c2 p5)]
    unfold receive_param_accept
    dsimp only
    have hbs : receive_param_blksize
        ({ w.mdev with o_state := param.state } : Drbd_Conf) param
        = receive_param_blksize w.mdev param := rfl
    rw [hbs, hb]
    dsimp only
    rw [e1]
  refine ⟨_, hrun, ?_, ?_⟩
  · intro hc
    rw [a1, e2 (by rw [g1]; exact hc), g1]
  · intro hc
    obtain ⟨k1, k2⟩ := e3 (by rw [g1]; exact hc)
    have hpa := primary_after_tie_break_congr
      ({ w with mdev := { w.mdev with o_state := param.state },
                blk_size := min lls param.size } : World)
      (receive_param_mbds (receive_param_set_blksize
        ({ w with mdev := { w.mdev with o_state := param.state },
                  blk_size := min lls param.size } : World)
        (receive_param_blksize w.mdev param) b) env) param env g2 g3 g7 g8
    have hpa2 : primary_after_tie_break
        ({ w with mdev := { w.mdev with o_state := param.state },
                  blk_size := min lls param.size } : World) param env ↔
        primary_after_tie_break w param env := Iff.rfl
    refine ⟨?_, ?_⟩
    · intro h
      rw [a1]
      apply k1
      rcases h with h | h
      · exact Or.inl (g5.trans h)
      · exact Or.inr (fun hp => h (hpa2.1 (hpa.1 hp)))
    · intro h1 h2 h3
      rw [a1, k2 (g5.trans h1) (hpa.2 (hpa2.2 h2)) ⟨by rw [g6]; exact h3.1, h3.2⟩,
        drbd_md_syncq_ok_congr _ _ _ g4]


/-- C18: a `ReportParams` that passes the checks of `receive_param` (and whose
block size is positive, so that `drbd_log2` returns) is accepted with TRUE. If
it arrives in a state other than `WFReportParams` the connection state is left
as it is. If it arrives in `WFReportParams`, the connection state becomes
`Connected` when `skip_sync` is set or the device is not Primary after the
tie-break; when the device is Primary and `skip_sync` is clear it becomes
`SyncingQuick` if `drbd_md_syncq_ok` returns 1 and `SyncingAll` if not (the
`CStateChanged` packet that announces it being taken by the socket: a failing
send moves the state on to `Timeout` or `BrokenPipe`). -/
theorem receive_param_chooses_cstate (MOD_VERSION fuel : Nat) (w : World)
    (param : Drbd_Parameter_P) (env : ParamEnv)
    (hpass : handshake_passes MOD_VERSION w param env)
    (hb1 : 1 ≤ receive_param_blksize w.mdev param)
    (hb2 : receive_param_blksize w.mdev param < 2 ^ fuel)
    (hw : param.state = Drbd_State.Secondary → w.mdev.state = Drbd_State.Secondary →
      drbd_md_compare w.mdev param = 1 →
      wait_ends env.sleeps w.mdev.pending_cnt w.mdev.unacked_cnt = true) :
    ∃ w1, receive_param MOD_VERSION fuel w (some param) env = some (w1, true) ∧
      (w.mdev.cstate ≠ Drbd_CState.WFReportParams → w1.mdev.cstate = w.mdev.cstate) ∧
      (w.mdev.cstate = Drbd_CState.WFReportParams →
        (w.mdev.skip_sync = true ∨ ¬ primary_after_tie_break w param env →
          w1.mdev.cstate = Drbd_CState.Connected) ∧
        (w.mdev.skip_sync = false → primary_after_tie_break w param env →
          send_taken w.mdev env.o_cstate →
          w1.mdev.cstate = if drbd_md_syncq_ok w.mdev param = 1 then Drbd_CState.SyncingQuick
            else Drbd_CState.SyncingAll)) :=
  receive_param_spec MOD_VERSION fuel w param env hpass hb1 hb2 hw

/-- C18, witness: a Primary in `WFReportParams` receives the parameters of a
Secondary. -/
theorem receive_param_chooses_cstate_witness :
    handshake_passes 58 world_handshake param_secondary env_ok ∧
    1 ≤ receive_param_blksize world_handshake.mdev param_secondary ∧
    receive_param_blksize world_handshake.mdev param_secondary < 2 ^ 13 ∧
    ∃ w1, receive_param 58 13 world_handshake (some param_secondary) env_ok = some (w1, true) ∧
      (world_handshake.mdev.cstate ≠ Drbd_CState.WFReportParams →
        w1.mdev.cstate = world_handshake.mdev.cstate) ∧
      (world_handshake.mdev.cstate = Drbd_CState.WFReportParams →
        (world_handshake.mdev.skip_sync = true ∨
            ¬ primary_after_tie_break world_handshake param_secondary env_ok →
          w1.mdev.cstate = Drbd_CState.Connected) ∧
        (world_handshake.mdev.skip_sync = false →
          primary_after_tie_break world_handshake param_secondary env_ok →
          send_taken world_handshake.mdev env_ok.o_cstate →
          w1.mdev.cstate =
            if drbd_md_syncq_ok world_handshake.mdev param_secondary = 1
            then Drbd_CState.SyncingQuick else Drbd_CState.SyncingAll)) :=
  have hp : handshake_passes 58 world_handshake param_secondary env_ok :=
    ⟨by decide, rfl, rfl, 2048, rfl, Or.inl rfl⟩
  ⟨hp, by decide, by decide,
    receive_param_chooses_cstate 58 13 world_handshake param_secondary env_ok hp
      (by decide) (by decide) (fun _ h => absurd h (by decide))⟩

/-! ## Disconnect and reconnect -/

theorem log_step_refl (m : Drbd_Conf) : log_step m m := rfl

theorem log_step_trans {m m1 m2 : Drbd_Conf} (h1 : log_step m m1) (h2 : log_step m1 m2) :
    log_step m m2 := by
  unfold log_step at *
  rw [h2]; dsimp only
  rw [h1]

theorem end_it_unlocked_frame (fuel : Nat) (w w1 : World) (req uptodate : Nat) (wake : Bool)
    (h : end_it_unlocked fuel w req uptodate wake = some w1) : log_step w.mdev w1.mdev := by
  unfold end_it_unlocked at h
  simp only at h
  split at h
  · exact Option.noConfusion h
  · next d _ =>
    cases d
    · simp only [Bool.false_eq_true, if_false, Bool.or_false] at h
      split at h
      · cases h; rfl
      · split at h
        · cases h; rfl
        · cases h; rfl
    · simp only [if_true, Bool.or_true] at h
      split at h
      · cases h; rfl
      · cases h; rfl

theorem drbd_end_req_frame (fuel : Nat) (w w1 : World) (req nextstate uptodate : Nat)
    (h : drbd_end_req fuel w req nextstate uptodate = some w1) : log_step w.mdev w1.mdev := by
  unfold drbd_end_req at h
  simp only at h
  split at h
  · exact end_it_unlocked_frame _ _ _ _ _ _ h
  · split at h
    · exact end_it_unlocked_frame _ _ _ _ _ _ h
    · split at h
      · cases h; rfl
      · split at h
        · split at h
          · exact end_it_unlocked_frame _ _ _ _ _ _ h
          · cases h; rfl
        · split at h
          · split at h
            · exact end_it_unlocked_frame _ _ _ _ _ _ h
            · cases h; rfl
          · cases h; rfl

theorem tl_clear_body_frame (f0 : Nat) (et : Bool) (w w1 : World) (e : Tl_entry)
    (h : tl_clear_body f0 et w e = some w1) : log_step w.mdev w1.mdev := by
  unfold tl_clear_body at h
  split at h
  · simp only at h
    split at h
    · split at h
      · exact Option.noConfusion h
      · next w2 hw2 =>
        cases h
        have := drbd_end_req_frame _ _ _ _ _ _ hw2
        exact log_step_trans this rfl
    · cases h; rfl
  · cases h; rfl

theorem tl_clear_loop_frame (f0 : Nat) (et : Bool) : ∀ (fuel : Nat) (w w1 : World) (p : Nat),
    tl_clear_loop f0 et fuel w p = some w1 → log_step w.mdev w1.mdev := by
  intro fuel
  induction fuel with
  | zero => intro w w1 p h; exact Option.noConfusion h
  | succ n ih =>
    intro w w1 p h
    unfold tl_clear_loop at h
    split at h
    · cases h; rfl
    · split at h
      · exact Option.noConfusion h
      · next w2 hw2 =>
        exact log_step_trans (tl_clear_body_frame _ _ _ _ _ hw2) (ih _ _ _ h)

theorem tl_clear_frame (fuel : Nat) (w w1 : World) (h : tl_clear fuel w = some w1) :
    log_step w.mdev w1.mdev := by
  unfold tl_clear at h
  simp only at h
  split at h
  · exact Option.noConfusion h
  · next w2 hw2 =>
    cases h
    exact log_step_trans (tl_clear_loop_frame _ _ _ _ _ _ hw2) rfl


theorem drbdd_out_sock_mdev (w : World) :
    (drbdd_out_sock w).mdev =
      { w.mdev with sock := (drbdd_out_sock w).mdev.sock,
                    cstate := (drbdd_out_sock w).mdev.cstate } := by
  unfold drbdd_out_sock
  simp only
  split <;> split <;> rfl

theorem es_clear_loop_keeps : ∀ (n i : Nat) (w : World),
    (es_clear_loop n i w).mdev.gen_cnt = w.mdev.gen_cnt ∧
    (es_clear_loop n i w).mdev.state = w.mdev.state := by
  intro n
  induction n with
  | zero => intro i w; exact ⟨rfl, rfl⟩
  | succ n ih =>
    intro i w
    unfold es_clear_loop
    simp only
    split
    · exact ih _ _
    · exact ih _ _

theorem sl_clear_loop_keeps : ∀ (n i : Nat) (w : World),
    (sl_clear_loop n i w).mdev.gen_cnt = w.mdev.gen_cnt ∧
    (sl_clear_loop n i w).mdev.state = w.mdev.state := by
  intro n
  induction n with
  | zero => intro i w; exact ⟨rfl, rfl⟩
  | succ n ih =>
    intro i w
    unfold sl_clear_loop
    split
    · exact ih _ _
    · exact ih _ _

theorem drbdd_out_role_secondary (fuel : Nat) (w : World) (md : Option Int)
    (hs : w.mdev.state = Drbd_State.Secondary) :
    ∃ w1, drbdd_out_role fuel w md = some w1 ∧ w1.mdev.gen_cnt = w.mdev.gen_cnt ∧
      w1.mdev.state = Drbd_State.Secondary := by
  unfold drbdd_out_role
  rw [hs]
  dsimp only
  refine ⟨_, rfl, ?_, ?_⟩
  · dsimp only
    unfold sl_clear es_clear
    rw [(sl_clear_loop_keeps _ _ _).1]
    dsimp only
    rw [(es_clear_loop_keeps _ _ _).1]
  · dsimp only
    unfold sl_clear es_clear
    rw [(sl_clear_loop_keeps _ _ _).2]
    dsimp only
    rw [(es_clear_loop_keeps _ _ _).2, hs]

theorem drbdd_out_role_primary (fuel : Nat) (w : World) (md : Option Int)
    (hs : w.mdev.state = Drbd_State.Primary) (hwf : tl_wf w.mdev)
    (hf : w.mdev.tl_size ≤ fuel) :
    ∃ w1, drbdd_out_role fuel w md = some w1 ∧ w1.mdev.bit_map_gen = w.mdev.bit_map_gen ∧
      w1.mdev.state = Drbd_State.Primary ∧ w1.mdev.skip_sync = w.mdev.skip_sync := by
  obtain ⟨x, -, hx, -⟩ := tl_clear_spec fuel w hwf hf
  have hfr := tl_clear_frame fuel w x hx
  unfold log_step at hfr
  unfold drbdd_out_role
  rw [hs]
  dsimp only
  rw [hx]
  dsimp only
  refine ⟨_, rfl, ?_, ?_, ?_⟩
  · rw [(drbd_md_inc_mdev _ _ _).1]; dsimp only; rw [hfr]
  · rw [(drbd_md_inc_mdev _ _ _).1]; dsimp only; rw [hfr]; exact hs
  · rw [(drbd_md_inc_mdev _ _ _).1]; dsimp only; rw [hfr]


theorem drbd_md_write_gen_cnt (w : World) (res : Option Int) :
    (drbd_md_write w res).mdev.gen_cnt =
      w.mdev.gen_cnt.set PrimaryInd (if w.mdev.state = Drbd_State.Primary then 1 else 0) ∧
    (drbd_md_write w res).mdev.state = w.mdev.state := by
  unfold drbd_md_write
  simp only
  repeat' split
  all_goals exact ⟨rfl, rfl⟩

theorem gen_cnt_range_map (f : Nat → Nat) :
    (List.range (PrimaryInd + 1)).map f = [f 0, f 1, f 2, f 3, f 4] := rfl

theorem receive_param_adopt_gen_cnt (w : World) (param : Drbd_Parameter_P) (env : ParamEnv)
    (hs : w.mdev.state = Drbd_State.Secondary) :
    (receive_param_adopt w param env).mdev.gen_cnt =
      [param.gen_cnt.getD 0 0, param.gen_cnt.getD 1 0, param.gen_cnt.getD 2 0,
        param.gen_cnt.getD 3 0, 0] ∧
    (receive_param_adopt w param env).mdev.state = Drbd_State.Secondary := by
  unfold receive_param_adopt
  rw [if_pos hs]
  dsimp only
  obtain ⟨h1, h2⟩ := drbd_md_write_gen_cnt
    ({ w with mdev := { w.mdev with gen_cnt :=
        (List.range (PrimaryInd + 1)).map (fun i => param.gen_cnt.getD i 0) } } : World)
    env.md_adopt
  dsimp only at h1 h2
  rw [h1, h2, hs, gen_cnt_range_map]
  exact ⟨rfl, rfl⟩

theorem drbdd_out_primary (fuel : Nat) (w : World) (md : Option Int)
    (hs : w.mdev.state = Drbd_State.Primary) (hwf : tl_wf w.mdev)
    (hf : w.mdev.tl_size ≤ fuel) :
    ∃ w1, drbdd_out fuel w md = some w1 ∧
      w1.mdev.bit_map_gen = [w.mdev.gen_cnt.getD 0 0, w.mdev.gen_cnt.getD 1 0,
        w.mdev.gen_cnt.getD 2 0, w.mdev.gen_cnt.getD 3 0, w.mdev.gen_cnt.getD 4 0] ∧
      w1.mdev.state = Drbd_State.Primary ∧ w1.mdev.skip_sync = w.mdev.skip_sync := by
  have hm := drbdd_out_sock_mdev w
  have hring : same_ring w.mdev (drbdd_out_snapshot (drbdd_out_sock w)).mdev := by
    unfold drbdd_out_snapshot same_ring
    dsimp only
    refine ⟨?_, ?_, ?_, ?_⟩ <;> rw [hm]
  have hst : (drbdd_out_snapshot (drbdd_out_sock w)).mdev.state = Drbd_State.Primary := by
    unfold drbdd_out_snapshot
    dsimp only
    rw [hm]; exact hs
  have hsz : (drbdd_out_snapshot (drbdd_out_sock w)).mdev.tl_size ≤ fuel := by
    rw [hring.2.2.2]; exact hf
  obtain ⟨w1, e1, e2, e3, e4⟩ := drbdd_out_role_primary fuel _ md hst (same_ring_wf hring hwf) hsz
  unfold drbdd_out
  rw [e1]
  dsimp only
  refine ⟨_, rfl, ?_, e3, ?_⟩
  · dsimp only
    rw [e2]
    unfold drbdd_out_snapshot
    dsimp only
    rw [gen_cnt_range_map, hm]
  · dsimp only
    rw [e4]
    unfold drbdd_out_snapshot
    dsimp only
    rw [hm]

theorem drbdd_out_secondary (fuel : Nat) (w : World) (md : Option Int)
    (hs : w.mdev.state = Drbd_State.Secondary) :
    ∃ w1, drbdd_out fuel w md = some w1 ∧ w1.mdev.gen_cnt = w.mdev.gen_cnt ∧
      w1.mdev.state = Drbd_State.Secondary := by
  have hm := drbdd_out_sock_mdev w
  have hst : (drbdd_out_snapshot (drbdd_out_sock w)).mdev.state = Drbd_State.Secondary := by
    unfold drbdd_out_snapshot
    dsimp only
    rw [hm]; exact hs
  obtain ⟨w1, e1, e2, e3⟩ := drbdd_out_role_secondary fuel _ md hst
  unfold drbdd_out
  rw [e1]
  dsimp only
  refine ⟨_, rfl, ?_, e3⟩
  dsimp only
  rw [e2]
  unfold drbdd_out_snapshot
  dsimp only
  rw [hm]


/-- C19: let a Secondary adopt (lines 2648-2656 of `receive_param`) the counters
that a Primary reports, and let both sides then lose the connection (`drbdd`
after `out`). Both disconnect paths return. If afterwards the Primary still
has the snapshot `bit_map_gen` that its disconnect path took, is Primary with
`skip_sync` clear, and the counters of the Secondary are unchanged (no
promotion in between), then the parameter block the Secondary sends agrees
with that snapshot in `HumanCnt`, `ConnectedCnt` and `ArbitraryCnt` and reports
`PrimaryInd` 0, so `drbd_md_syncq_ok` returns 1, and a handshake of the Primary
in `WFReportParams` that passes the checks ends in `SyncingQuick`. -/
theorem reconnect_selects_quick_sync (MOD_VERSION fuel : Nat) (wp ws : World)
    (llP llS : Option Nat) (uP uS : Nat) (envS envP : ParamEnv) (mdP mdS : Option Int)
    (hP : wp.mdev.state = Drbd_State.Primary) (hS : ws.mdev.state = Drbd_State.Secondary)
    (hwf : tl_wf wp.mdev) (hfuel : wp.mdev.tl_size ≤ fuel) :
    ∃ wp1 ws1,
      drbdd_out fuel wp mdP = some wp1 ∧
      drbdd_out fuel
        (receive_param_adopt ws (drbd_send_param_block MOD_VERSION wp llP uP) envS) mdS
        = some ws1 ∧
      ∀ wp2 ws2 : World,
        wp2.mdev.bit_map_gen = wp1.mdev.bit_map_gen → wp2.mdev.state = Drbd_State.Primary →
        wp2.mdev.skip_sync = false → ws2.mdev.gen_cnt = ws1.mdev.gen_cnt →
        (∀ i, HumanCnt ≤ i → i ≤ ArbitraryCnt →
          wp2.mdev.bit_map_gen.getD i 0 =
            (drbd_send_param_block MOD_VERSION ws2 llS uS).gen_cnt.getD i 0) ∧
        (drbd_send_param_block MOD_VERSION ws2 llS uS).gen_cnt.getD PrimaryInd 0 = 0 ∧
        drbd_md_syncq_ok wp2.mdev (drbd_send_param_block MOD_VERSION ws2 llS uS) = 1 ∧
        (wp2.mdev.cstate = Drbd_CState.WFReportParams →
          handshake_passes MOD_VERSION wp2 (drbd_send_param_block MOD_VERSION ws2 llS uS) envP →
          1 ≤ receive_param_blksize wp2.mdev (drbd_send_param_block MOD_VERSION ws2 llS uS) →
          receive_param_blksize wp2.mdev (drbd_send_param_block MOD_VERSION ws2 llS uS)
            < 2 ^ fuel →
          send_taken wp2.mdev envP.o_cstate →
          ∃ w1, receive_param MOD_VERSION fuel wp2
              (some (drbd_send_param_block MOD_VERSION ws2 llS uS)) envP = some (w1, true) ∧
            w1.mdev.cstate = Drbd_CState.SyncingQuick) := by
  obtain ⟨wp1, a1, a2, -, -⟩ := drbdd_out_primary fuel wp mdP hP hwf hfuel
  obtain ⟨b1, b2⟩ := receive_param_adopt_gen_cnt ws
    (drbd_send_param_block MOD_VERSION wp llP uP) envS hS
  obtain ⟨ws1, c1, c2, -⟩ := drbdd_out_secondary fuel
    (receive_param_adopt ws (drbd_send_param_block MOD_VERSION wp llP uP) envS) mdS b2
  refine ⟨wp1, ws1, a1, c1, ?_⟩
  intro wp2 ws2 h1 h2 h3 h4
  have hps : (drbd_send_param_block MOD_VERSION ws2 llS uS).gen_cnt =
      [wp.mdev.gen_cnt.getD 0 0, wp.mdev.gen_cnt.getD 1 0, wp.mdev.gen_cnt.getD 2 0,
        wp.mdev.gen_cnt.getD 3 0, 0] := by
    unfold drbd_send_param_block
    dsimp only
    rw [gen_cnt_range_map, h4, c2, b1]
    rfl
  have hbm : wp2.mdev.bit_map_gen = [wp.mdev.gen_cnt.getD 0 0, wp.mdev.gen_cnt.getD 1 0,
      wp.mdev.gen_cnt.getD 2 0, wp.mdev.gen_cnt.getD 3 0, wp.mdev.gen_cnt.getD 4 0] := by
    rw [h1, a2]
  have heq : ∀ i, HumanCnt ≤ i → i ≤ ArbitraryCnt →
      wp2.mdev.bit_map_gen.getD i 0 =
        (drbd_send_param_block MOD_VERSION ws2 llS uS).gen_cnt.getD i 0 := by
    intro i hi1 hi2
    rw [hps, hbm]
    simp only [HumanCnt, ArbitraryCnt] at hi1 hi2
    interval_cases i <;> rfl
  have hpi : (drbd_send_param_block MOD_VERSION ws2 llS uS).gen_cnt.getD PrimaryInd 0 = 0 := by
    rw [hps]; rfl
  have hq : drbd_md_syncq_ok wp2.mdev (drbd_send_param_block MOD_VERSION ws2 llS uS) = 1 :=
    (drbd_md_syncq_ok_spec _ _).1.2 ⟨by rw [hpi]; decide, heq⟩
  refine ⟨heq, hpi, hq, ?_⟩
  intro hc hpass hb1 hb2 hsend
  obtain ⟨w1, r1, -, r3⟩ := receive_param_spec MOD_VERSION fuel wp2 _ envP hpass hb1 hb2
    (fun _ hsec => by rw [h2] at hsec; exact Drbd_State.noConfusion hsec)
  refine ⟨w1, r1, ?_⟩
  rw [(r3 hc).2 h3 (Or.inl h2) hsend, if_pos hq]

/-- C19, witness: the Primary `world_handshake` (counters `[1, 1, 5, 1, 1]`)
and a Secondary built from `world0`. -/
theorem reconnect_selects_quick_sync_witness :
    world_handshake.mdev.state = Drbd_State.Primary ∧
    world_secondary.mdev.state = Drbd_State.Secondary ∧
    tl_wf world_handshake.mdev ∧ world_handshake.mdev.tl_size ≤ 13 ∧
    ∃ wp1 ws1,
      drbdd_out 13 world_handshake (some 24) = some wp1 ∧
      drbdd_out 13
        (receive_param_adopt world_secondary
          (drbd_send_param_block 58 world_handshake (some 2048) 0) env_ok) (some 24)
        = some ws1 ∧
      ∀ wp2 ws2 : World,
        wp2.mdev.bit_map_gen = wp1.mdev.bit_map_gen → wp2.mdev.state = Drbd_State.Primary →
        wp2.mdev.skip_sync = false → ws2.mdev.gen_cnt = ws1.mdev.gen_cnt →
        (∀ i, HumanCnt ≤ i → i ≤ ArbitraryCnt →
          wp2.mdev.bit_map_gen.getD i 0 =
            (drbd_send_param_block 58 ws2 (some 1024) 0).gen_cnt.getD i 0) ∧
        (drbd_send_param_block 58 ws2 (some 1024) 0).gen_cnt.getD PrimaryInd 0 = 0 ∧
        drbd_md_syncq_ok wp2.mdev (drbd_send_param_block 58 ws2 (some 1024) 0) = 1 ∧
        (wp2.mdev.cstate = Drbd_CState.WFReportParams →
          handshake_passes 58 wp2 (drbd_send_param_block 58 ws2 (some 1024) 0) env_ok →
          1 ≤ receive_param_blksize wp2.mdev (drbd_send_param_block 58 ws2 (some 1024) 0) →
          receive_param_blksize wp2.mdev (drbd_send_param_block 58 ws2 (some 1024) 0)
            < 2 ^ 13 →
          send_taken wp2.mdev env_ok.o_cstate →
          ∃ w1, receive_param 58 13 wp2
              (some (drbd_send_param_block 58 ws2 (some 1024) 0)) env_ok = some (w1, true) ∧
            w1.mdev.cstate = Drbd_CState.SyncingQuick) :=
  ⟨by decide, by decide, by decide, by decide,
    reconnect_selects_quick_sync 58 13 world_handshake world_secondary (some 2048) (some 1024)
      0 0 env_ok env_ok (some 24) (some 24) (by decide) (by decide) (by decide) (by decide)⟩

/-! ## The sweep of a full synchronisation -/

theorem ds_sync_all_get_blk_step (D L : Nat) (mdev : Drbd_Conf) (ln2_bs k : Nat) (hk : 1 ≤ k)
    (hs : mdev.synced_to = k <<< (ln2_bs - 9)) (hfit : k <<< (ln2_bs - 9) < 2 ^ 2 ^ L) :
    ds_sync_all_get_blk D L mdev ln2_bs =
      ({ mdev with synced_to := (k - 1) <<< (ln2_bs - 9) }, k) := by
  have hpos : 0 < 2 ^ (ln2_bs - 9) := Nat.pow_pos (by decide)
  rw [Nat.shiftLeft_eq] at hs hfit
  have hle : 2 ^ (ln2_bs - 9) ≤ k * 2 ^ (ln2_bs - 9) := Nat.le_mul_of_pos_left _ hk
  have hsub : ulong_sub L mdev.synced_to (1 <<< (ln2_bs - 9)) = (k - 1) * 2 ^ (ln2_bs - 9) := by
    unfold ulong_sub
    rw [hs, Nat.shiftLeft_eq, Nat.one_mul, Nat.mod_eq_of_lt hfit,
      Nat.mod_eq_of_lt (lt_of_le_of_lt hle hfit), if_pos hle, Nat.sub_mul, Nat.one_mul]
  unfold ds_sync_all_get_blk
  have hne : mdev.synced_to ≠ 0 := by rw [hs]; omega
  rw [if_neg hne]
  dsimp only
  rw [hsub]
  have hnot : ¬ (k - 1) * 2 ^ (ln2_bs - 9) > mdev.synced_to := by
    rw [hs]
    exact Nat.not_lt.mpr (Nat.mul_le_mul_right _ (Nat.sub_le _ _))
  rw [if_neg hnot, hs, Nat.shiftRight_eq_div_pow, Nat.mul_div_cancel _ hpos, Nat.shiftLeft_eq]

theorem ds_sync_all_sweep (D L ln2_bs : Nat) : ∀ (k : Nat) (mdev : Drbd_Conf),
    mdev.synced_to = k <<< (ln2_bs - 9) → k <<< (ln2_bs - 9) < 2 ^ 2 ^ L →
    (ds_sync_all_calls D L (k + 1) mdev ln2_bs).2 = (List.range' 1 k).reverse ++ [D] ∧
    (ds_sync_all_calls D L (k + 1) mdev ln2_bs).1.synced_to = 0 := by
  intro k
  induction k with
  | zero =>
    intro mdev hs _
    have h0 : mdev.synced_to = 0 := by rw [hs]; simp
    simp only [ds_sync_all_calls, ds_sync_all_get_blk, h0, if_true]
    exact ⟨rfl, trivial⟩
  | succ k ih =>
    intro mdev hs hfit
    have hstep := ds_sync_all_get_blk_step D L mdev ln2_bs (k + 1) (by omega) hs hfit
    rw [Nat.add_sub_cancel] at hstep
    have hfit2 : k <<< (ln2_bs - 9) < 2 ^ 2 ^ L := by
      rw [Nat.shiftLeft_eq] at hfit ⊢
      exact lt_of_le_of_lt (Nat.mul_le_mul_right _ (Nat.le_succ k)) hfit
    obtain ⟨i1, i2⟩ := ih { mdev with synced_to := k <<< (ln2_bs - 9) } rfl hfit2
    have hunf : ds_sync_all_calls D L (k + 1 + 1) mdev ln2_bs =
        ((ds_sync_all_calls D L (k + 1)
            (ds_sync_all_get_blk D L mdev ln2_bs).1 ln2_bs).1,
          (ds_sync_all_get_blk D L mdev ln2_bs).2 ::
            (ds_sync_all_calls D L (k + 1)
              (ds_sync_all_get_blk D L mdev ln2_bs).1 ln2_bs).2) := rfl
    rw [hunf, hstep]
    dsimp only
    rw [i1, i2]
    refine ⟨?_, rfl⟩
    rw [List.range'_concat, List.reverse_append]
    simp [Nat.add_comm]


theorem drbd_syncer_sync_all_start_spec (L : Nat) (w : World) (ln2_bs n : Nat)
    (h10 : 10 ≤ ln2_bs) (hn : 1 ≤ n) (hsize : w.blk_size = n * 2 ^ (ln2_bs - 10))
    (hfit : n <<< (ln2_bs - 9) < 2 ^ 2 ^ L) :
    (drbd_syncer_sync_all_start L w (2 ^ ln2_bs)).mdev.synced_to = (n - 1) <<< (ln2_bs - 9) := by
  unfold drbd_syncer_sync_all_start
  dsimp only
  have hb : 2 ^ ln2_bs >>> 10 = 2 ^ (ln2_bs - 10) := by
    rw [Nat.shiftRight_eq_div_pow, Nat.pow_div h10 (by decide)]
  have h9 : ln2_bs - 9 = (ln2_bs - 10) + 1 := by omega
  have e : (n - 1) * 2 ^ (ln2_bs - 10) + 2 ^ (ln2_bs - 10) = n * 2 ^ (ln2_bs - 10) := by
    rw [Nat.sub_mul, Nat.one_mul]
    exact Nat.sub_add_cancel (Nat.le_mul_of_pos_left _ hn)
  have hv : ((w.blk_size : Int) - ((2 ^ ln2_bs >>> 10 : Nat) : Int)) * 2 =
      (((n - 1) * 2 ^ (ln2_bs - 9) : Nat) : Int) := by
    rw [hb, hsize, ← e, h9, Nat.pow_succ]
    push_cast
    ring
  rw [hv, Nat.shiftLeft_eq]
  rw [Nat.shiftLeft_eq] at hfit
  have hlt : (n - 1) * 2 ^ (ln2_bs - 9) < 2 ^ 2 ^ L :=
    lt_of_le_of_lt (Nat.mul_le_mul_right _ (Nat.sub_le _ _)) hfit
  rw [← Int.natCast_mod, Int.toNat_ofNat, Nat.mod_eq_of_lt hlt]

/-- C12: in `SyncingAll`, for a device of `n ≥ 1` blocks of `2 ^ ln2_bs ≥ 1024`
bytes (the block numbers fitting a machine word), the block source started by
`drbd_syncer` returns the blocks `n - 1`, `n - 2`, ..., `1`, in this order, and
`MBDS_DONE` at the `n`-th call: block 0 is never returned. -/
theorem ds_sync_all_skips_block_zero (MBDS_DONE LN2_BPL : Nat) (w : World) (ln2_bs n : Nat)
    (h10 : 10 ≤ ln2_bs) (hn : 1 ≤ n) (hsize : w.blk_size = n * 2 ^ (ln2_bs - 10))
    (hfit : n <<< (ln2_bs - 9) < 2 ^ 2 ^ LN2_BPL) :
    (ds_sync_all_calls MBDS_DONE LN2_BPL n
        (drbd_syncer_sync_all_start LN2_BPL w (2 ^ ln2_bs)).mdev ln2_bs).2 =
      (List.range' 1 (n - 1)).reverse ++ [MBDS_DONE] ∧
    0 ∉ (List.range' 1 (n - 1)).reverse := by
  have hs := drbd_syncer_sync_all_start_spec LN2_BPL w ln2_bs n h10 hn hsize hfit
  have hfit2 : (n - 1) <<< (ln2_bs - 9) < 2 ^ 2 ^ LN2_BPL := by
    rw [Nat.shiftLeft_eq] at hfit ⊢
    exact lt_of_le_of_lt (Nat.mul_le_mul_right _ (Nat.sub_le _ _)) hfit
  have h := (ds_sync_all_sweep MBDS_DONE LN2_BPL ln2_bs (n - 1) _ hs hfit2).1
  rw [Nat.sub_add_cancel hn] at h
  refine ⟨h, ?_⟩
  simp only [List.mem_reverse, List.mem_range'_1]
  omega

/-- C12, witness: a device of 8 KB with blocks of 1 KB on a 64-bit machine; the
calls return 7, 6, 5, 4, 3, 2, 1 and then `MBDS_DONE`. -/
theorem ds_sync_all_skips_block_zero_witness :
    10 ≤ 10 ∧ 1 ≤ 8 ∧ ({ world0 with blk_size := 8 } : World).blk_size = 8 * 2 ^ (10 - 10) ∧
    8 <<< (10 - 9) < 2 ^ 2 ^ 6 ∧
    (ds_sync_all_calls (2 ^ 64 - 3) 6 8
        (drbd_syncer_sync_all_start 6 { world0 with blk_size := 8 } (2 ^ 10)).mdev 10).2 =
      (List.range' 1 (8 - 1)).reverse ++ [2 ^ 64 - 3] ∧
    0 ∉ (List.range' 1 (8 - 1)).reverse :=
  ⟨by decide, by decide, by decide, by decide,
    ds_sync_all_skips_block_zero (2 ^ 64 - 3) 6 { world0 with blk_size := 8 } 10 8
      (by decide) (by decide) (by decide) (by decide)⟩

/-! ## The bitmap: the coalescing cache -/

theorem blocknr_split (bitnr cb s : Nat) (hs : s < 2 ^ cb) :
    ((bitnr <<< cb) + s) >>> cb = bitnr ∧
    ((bitnr <<< cb) + s) &&& ((1 <<< cb) - 1) = s := by
  have hpos : 0 < 2 ^ cb := Nat.pow_pos (by decide)
  refine ⟨?_, ?_⟩
  · rw [Nat.shiftLeft_eq, Nat.shiftRight_eq_div_pow, Nat.add_comm,
      Nat.add_mul_div_right _ _ hpos, Nat.div_eq_of_lt hs, Nat.zero_add]
  · rw [Nat.one_shiftLeft, Nat.and_pow_two_sub_one_eq_mod, Nat.shiftLeft_eq, Nat.add_comm,
      Nat.add_mul_mod_self_right, Nat.mod_eq_of_lt hs]

theorem bm_set_bit_in_sync (L : Nat) (sbm : BitMap) (bitnr ln2 s : Nat)
    (hln : ln2 ≤ BM_BLOCK_SIZE_B) (hcb : 0 < BM_BLOCK_SIZE_B - ln2)
    (hfit : BM_BLOCK_SIZE_B - ln2 < L) (hs : s < 2 ^ (BM_BLOCK_SIZE_B - ln2)) :
    bm_set_bit L sbm ((bitnr <<< (BM_BLOCK_SIZE_B - ln2)) + s) ln2 0 =
      if sbm.sb_bitnr = bitnr then
        if sbm.sb_mask ||| 2 ^ s ≠ 2 ^ 2 ^ (BM_BLOCK_SIZE_B - ln2) - 1 then
          some ({ sbm with sb_mask := sbm.sb_mask ||| 2 ^ s }, [])
        else bm_set_bit_word L { sbm with sb_mask := sbm.sb_mask ||| 2 ^ s } bitnr 0
      else some ({ sbm with sb_bitnr := bitnr, sb_mask := 2 ^ s }, []) := by
  obtain ⟨h1, h2⟩ := blocknr_split bitnr (BM_BLOCK_SIZE_B - ln2) s hs
  unfold bm_set_bit
  rw [if_neg (by omega)]
  dsimp only
  rw [if_pos ⟨rfl, by omega⟩, h1, h2]
  have hlt : ¬ BITS_PER_LONG L ≤ 1 <<< (BM_BLOCK_SIZE_B - ln2) := by
    unfold BITS_PER_LONG
    rw [Nat.one_shiftLeft, Nat.not_le]
    exact Nat.pow_lt_pow_right (by decide) hfit
  rw [if_neg hlt, Nat.one_shiftLeft, Nat.one_shiftLeft, Nat.one_shiftLeft]


theorem bm_set_bit_word_clear (L : Nat) (sbm : BitMap) (bitnr : Nat)
    (h1 : bitnr >>> L < sbm.size) (h2 : bitnr >>> L < sbm.bm.length) :
    ∃ sbm1, bm_set_bit_word L sbm bitnr 0 = some (sbm1, []) ∧ bm_bit L sbm1 bitnr = false ∧
      sbm1.size = sbm.size ∧ sbm1.bm.length = sbm.bm.length ∧
      sbm1.sb_bitnr = sbm.sb_bitnr ∧ sbm1.sb_mask = sbm.sb_mask := by
  unfold bm_set_bit_word
  dsimp only
  rw [if_neg (by omega), if_neg (by omega), if_neg (by simp)]
  refine ⟨_, rfl, ?_, rfl, by simp, rfl, rfl⟩
  unfold bm_bit BITS_PER_LONG
  dsimp only
  have hk : bitnr &&& ((1 <<< L) - 1) < 2 ^ L := by
    rw [Nat.one_shiftLeft, Nat.and_pow_two_sub_one_eq_mod]
    exact Nat.mod_lt _ (Nat.pow_pos (by decide))
  have hx : 2 ^ (bitnr &&& ((1 <<< L) - 1)) < 2 ^ 2 ^ L := Nat.pow_lt_pow_right (by decide) hk
  rw [List.getD_eq_getElem?_getD, List.getElem?_set_self h2, Option.getD_some, Nat.testBit_and,
    Nat.one_shiftLeft (bitnr &&& _), Nat.sub_sub, Nat.add_comm 1,
    Nat.testBit_two_pow_sub_succ hx, Nat.testBit_two_pow_self]
  simp


theorem bm_set_bit_in_sync_cb (L : Nat) (sbm : BitMap) (bitnr ln2 cb s : Nat)
    (hdef : cb = BM_BLOCK_SIZE_B - ln2)
    (hln : ln2 ≤ BM_BLOCK_SIZE_B) (hcb : 0 < cb) (hfit : cb < L) (hs : s < 2 ^ cb) :
    bm_set_bit L sbm ((bitnr <<< cb) + s) ln2 0 =
      if sbm.sb_bitnr = bitnr then
        if sbm.sb_mask ||| 2 ^ s ≠ 2 ^ 2 ^ cb - 1 then
          some ({ sbm with sb_mask := sbm.sb_mask ||| 2 ^ s }, [])
        else bm_set_bit_word L { sbm with sb_mask := sbm.sb_mask ||| 2 ^ s } bitnr 0
      else some ({ sbm with sb_bitnr := bitnr, sb_mask := 2 ^ s }, []) := by
  subst hdef
  exact bm_set_bit_in_sync L sbm bitnr ln2 s hln hcb hfit hs

theorem mask_full_of_bits (m n : Nat) (hlt : m < 2 ^ n) (hall : ∀ i, i < n → m.testBit i = true) :
    m = 2 ^ n - 1 := by
  apply Nat.eq_of_testBit_eq
  intro i
  rw [Nat.testBit_two_pow_sub_one]
  by_cases hi : i < n
  · rw [hall i hi]; simp [hi]
  · have : m < 2 ^ i := lt_of_lt_of_le hlt (Nat.pow_le_pow_right (by decide) (by omega))
    rw [Nat.testBit_lt_two_pow this]; simp [hi]

theorem bm_coalesce_run (L ln2 cb bitnr : Nat) (hdef : cb = BM_BLOCK_SIZE_B - ln2)
    (hln : ln2 ≤ BM_BLOCK_SIZE_B) (hcb : 0 < cb) (hfit : cb < L) :
    ∀ (subs : List Nat) (sbm : BitMap) (seen : List Nat),
      sbm.sb_bitnr = bitnr → (∀ x ∈ seen, sbm.sb_mask.testBit x = true) →
      sbm.sb_mask < 2 ^ 2 ^ cb → bitnr >>> L < sbm.size → bitnr >>> L < sbm.bm.length →
      (∀ s ∈ subs, s < 2 ^ cb) →
      ∃ sbm1, bm_set_bits L ln2 (subs.map (fun s => ((bitnr <<< cb) + s, 0))) sbm = some sbm1 ∧
        sbm1.sb_bitnr = bitnr ∧ (∀ x ∈ seen ++ subs, sbm1.sb_mask.testBit x = true) ∧
        sbm1.sb_mask < 2 ^ 2 ^ cb ∧ bitnr >>> L < sbm1.size ∧ bitnr >>> L < sbm1.bm.length ∧
        (subs ≠ [] → sbm1.sb_mask = 2 ^ 2 ^ cb - 1 → bm_bit L sbm1 bitnr = false) := by
  intro subs
  induction subs with
  | nil =>
    intro sbm seen h1 h2 h3 h4 h5 _
    exact ⟨sbm, rfl, h1, by simpa using h2, h3, h4, h5, fun h => absurd rfl h⟩
  | cons s rest ih =>
    intro sbm seen h1 h2 h3 h4 h5 h6
    have hs : s < 2 ^ cb := h6 s (List.mem_cons_self _ _)
    have hrest : ∀ x ∈ rest, x < 2 ^ cb := fun x hx => h6 x (List.mem_cons_of_mem _ hx)
    have hm : sbm.sb_mask ||| 2 ^ s < 2 ^ 2 ^ cb :=
      Nat.or_lt_two_pow h3 (Nat.pow_lt_pow_right (by decide) hs)
    have hbits : ∀ x ∈ seen ++ [s], (sbm.sb_mask ||| 2 ^ s).testBit x = true := by
      intro x hx
      rw [Nat.testBit_or]
      rcases List.mem_append.1 hx with hx | hx
      · rw [h2 x hx]; rfl
      · rw [List.mem_singleton.1 hx, Nat.testBit_two_pow_self]; simp
    have hcall := bm_set_bit_in_sync_cb L sbm bitnr ln2 cb s hdef hln hcb hfit hs
    rw [if_pos h1] at hcall
    -- the state after this call
    have key : ∃ sbm', bm_set_bit L sbm ((bitnr <<< cb) + s) ln2 0 = some (sbm', []) ∧
        sbm'.sb_bitnr = bitnr ∧ sbm'.sb_mask = sbm.sb_mask ||| 2 ^ s ∧
        bitnr >>> L < sbm'.size ∧ bitnr >>> L < sbm'.bm.length ∧
        (sbm'.sb_mask = 2 ^ 2 ^ cb - 1 → bm_bit L sbm' bitnr = false) := by
      by_cases hfull : sbm.sb_mask ||| 2 ^ s = 2 ^ 2 ^ cb - 1
      · rw [if_neg (by simpa using hfull)] at hcall
        obtain ⟨sbm', e1, e2, e3, e4, e5, e6⟩ := bm_set_bit_word_clear L
          { sbm with sb_mask := sbm.sb_mask ||| 2 ^ s } bitnr h4 h5
        exact ⟨sbm', hcall.trans e1, e5.trans h1, e6, by rw [e3]; exact h4,
          by rw [e4]; exact h5, fun _ => e2⟩
      · rw [if_pos hfull] at hcall
        exact ⟨_, hcall, h1, rfl, h4, h5, fun h => absurd h hfull⟩
    obtain ⟨sbm', k1, k2, k3, k4, k5, k6⟩ := key
    obtain ⟨sbm1, r1, r2, r3, r4, r5, r6, r7⟩ := ih sbm' (seen ++ [s]) k2
      (by rw [k3]; exact hbits) (by rw [k3]; exact hm) k4 k5 hrest
    refine ⟨sbm1, ?_, r2, ?_, r4, r5, r6, ?_⟩
    · simp only [List.map_cons, bm_set_bits, k1]
      exact r1
    · intro x hx
      apply r3
      simpa [List.append_assoc] using hx
    · intro _ hfull
      by_cases hr : rest = []
      · subst hr
        simp only [List.map_nil, bm_set_bits, Option.some.injEq] at r1
        subst r1
        exact k6 hfull
      · exact r7 hr hfull


theorem bm_coalesce_pending (L ln2 cb bitnr : Nat) (hdef : cb = BM_BLOCK_SIZE_B - ln2)
    (hln : ln2 ≤ BM_BLOCK_SIZE_B) (hcb : 0 < cb) (hfit : cb < L) :
    ∀ (p : List Nat) (sbm : BitMap) (seen : List Nat),
      sbm.sb_bitnr = bitnr → (∀ i, sbm.sb_mask.testBit i = true ↔ i ∈ seen) →
      (∀ s ∈ p, s < 2 ^ cb) → (∃ s0, s0 < 2 ^ cb ∧ s0 ∉ seen ++ p) →
      ∃ sbm1, bm_set_bits L ln2 (p.map (fun s => ((bitnr <<< cb) + s, 0))) sbm = some sbm1 ∧
        sbm1.bm = sbm.bm ∧ sbm1.sb_bitnr = bitnr ∧
        (∀ i, sbm1.sb_mask.testBit i = true ↔ i ∈ seen ++ p) := by
  intro p
  induction p with
  | nil =>
    intro sbm seen h1 h2 _ _
    exact ⟨sbm, rfl, rfl, h1, by simpa using h2⟩
  | cons s rest ih =>
    intro sbm seen h1 h2 h3 h4
    obtain ⟨s0, hs0, hnot⟩ := h4
    have hs : s < 2 ^ cb := h3 s (List.mem_cons_self _ _)
    have hrest : ∀ x ∈ rest, x < 2 ^ cb := fun x hx => h3 x (List.mem_cons_of_mem _ hx)
    have hbits : ∀ i, (sbm.sb_mask ||| 2 ^ s).testBit i = true ↔ i ∈ seen ++ [s] := by
      intro i
      rw [Nat.testBit_or, Bool.or_eq_true, h2 i, Nat.testBit_two_pow, decide_eq_true_eq,
        List.mem_append, List.mem_singleton]
      exact ⟨fun h => h.imp id Eq.symm, fun h => h.imp id Eq.symm⟩
    have hne : sbm.sb_mask ||| 2 ^ s ≠ 2 ^ 2 ^ cb - 1 := by
      intro hfull
      have h0 : (sbm.sb_mask ||| 2 ^ s).testBit s0 = true := by
        rw [hfull, Nat.testBit_two_pow_sub_one]; simpa using hs0
      have := (hbits s0).1 h0
      apply hnot
      rcases List.mem_append.1 this with h | h
      · exact List.mem_append_left _ h
      · exact List.mem_append_right _ (by rw [List.mem_singleton.1 h]; exact List.mem_cons_self _ _)
    have hcall := bm_set_bit_in_sync_cb L sbm bitnr ln2 cb s hdef hln hcb hfit hs
    rw [if_pos h1, if_pos hne] at hcall
    obtain ⟨sbm1, r1, r2, r3, r4⟩ := ih { sbm with sb_mask := sbm.sb_mask ||| 2 ^ s }
      (seen ++ [s]) h1 hbits hrest ⟨s0, hs0, by simpa [List.append_assoc] using hnot⟩
    refine ⟨sbm1, ?_, r2, r3, ?_⟩
    · simp only [List.map_cons, bm_set_bits, hcall]
      exact r1
    · intro i
      rw [r4 i]
      simp [List.append_assoc]

theorem bm_coalesce_spec (L : Nat) (sbm : BitMap) (bitnr ln2 cb : Nat) (subs : List Nat)
    (hdef : cb = BM_BLOCK_SIZE_B - ln2) (hln : ln2 ≤ BM_BLOCK_SIZE_B)
    (hr1 : bitnr >>> L < sbm.size) (hr2 : bitnr >>> L < sbm.bm.length)
    (hsubs : ∀ s ∈ subs, s < 2 ^ cb) :
    (0 < cb → cb < L → sbm.sb_mask < 2 ^ 2 ^ cb → (∀ s, s < 2 ^ cb → s ∈ subs) →
      ∃ sbm1, bm_set_bits L ln2 (subs.map (fun s => ((bitnr <<< cb) + s, 0))) sbm = some sbm1 ∧
        bm_bit L sbm1 bitnr = false) ∧
    (0 < cb → cb < L → sbm.sb_bitnr ≠ bitnr ∨ sbm.sb_mask = 0 →
      ∀ p q, subs = p ++ q → (∃ s0, s0 < 2 ^ cb ∧ s0 ∉ p) →
        ∃ sbm1, bm_set_bits L ln2 (p.map (fun s => ((bitnr <<< cb) + s, 0))) sbm = some sbm1 ∧
          sbm1.bm = sbm.bm) ∧
    (cb = 0 →
      ∃ sbm1, bm_set_bit L sbm bitnr ln2 0 = some (sbm1, []) ∧ bm_bit L sbm1 bitnr = false) := by
  refine ⟨?_, ?_, ?_⟩
  · intro hcb hfit hmask hall
    have h2 : 2 ≤ 2 ^ cb := by
      calc 2 = 2 ^ 1 := rfl
        _ ≤ 2 ^ cb := Nat.pow_le_pow_right (by decide) hcb
    have finish : ∀ sbm1 : BitMap, sbm1.sb_mask < 2 ^ 2 ^ cb →
        (∀ x ∈ subs, sbm1.sb_mask.testBit x = true) → sbm1.sb_mask = 2 ^ 2 ^ cb - 1 :=
      fun sbm1 a b => mask_full_of_bits _ _ a (fun i hi => b i (hall i hi))
    by_cases hb : sbm.sb_bitnr = bitnr
    · obtain ⟨sbm1, r1, -, r3, r4, -, -, r7⟩ := bm_coalesce_run L ln2 cb bitnr hdef hln hcb hfit
        subs sbm [] hb (by simp) hmask hr1 hr2 hsubs
      have hne : subs ≠ [] := by
        intro h
        have := hall 0 (by omega)
        rw [h] at this
        exact absurd this (List.not_mem_nil _)
      exact ⟨sbm1, r1, r7 hne (finish sbm1 r4 (fun x hx => r3 x (by simpa using hx)))⟩
    · cases subs with
      | nil => exact absurd (hall 0 (by omega)) (List.not_mem_nil _)
      | cons s rest =>
        have hs : s < 2 ^ cb := hsubs s (List.mem_cons_self _ _)
        have hrest : ∀ x ∈ rest, x < 2 ^ cb := fun x hx => hsubs x (List.mem_cons_of_mem _ hx)
        have hcall := bm_set_bit_in_sync_cb L sbm bitnr ln2 cb s hdef hln hcb hfit hs
        rw [if_neg hb] at hcall
        obtain ⟨sbm1, r1, -, r3, r4, -, -, r7⟩ := bm_coalesce_run L ln2 cb bitnr hdef hln hcb
          hfit rest { sbm with sb_bitnr := bitnr, sb_mask := 2 ^ s } [s] rfl
          (by intro x hx; rw [List.mem_singleton.1 hx]; exact Nat.testBit_two_pow_self)
          (Nat.pow_lt_pow_right (by decide) hs) hr1 hr2 hrest
        have hne : rest ≠ [] := by
          intro h
          subst h
          have a0 := hall 0 (by omega)
          have a1 := hall 1 (by omega)
          rw [List.mem_singleton] at a0 a1
          omega
        refine ⟨sbm1, ?_, r7 hne (finish sbm1 r4 (fun x hx => r3 x (by simpa using hx)))⟩
        simp only [List.map_cons, bm_set_bits, hcall]
        exact r1
  · intro hcb hfit hempty p q _ hmiss
    obtain ⟨s0, hs0, hnot⟩ := hmiss
    have hp : ∀ s ∈ p, s < 2 ^ cb := fun s hs => hsubs s (by
      subst_vars; exact List.mem_append_left _ hs)
    by_cases hb : sbm.sb_bitnr = bitnr
    · have hm0 : sbm.sb_mask = 0 := by
        rcases hempty with h | h
        · exact absurd hb h
        · exact h
      obtain ⟨sbm1, r1, r2, -, -⟩ := bm_coalesce_pending L ln2 cb bitnr hdef hln hcb hfit p sbm []
        hb (by intro i; rw [hm0]; simp) hp ⟨s0, hs0, by simpa using hnot⟩
      exact ⟨sbm1, r1, r2⟩
    · cases p with
      | nil => exact ⟨sbm, rfl, rfl⟩
      | cons s rest =>
        have hs : s < 2 ^ cb := hp s (List.mem_cons_self _ _)
        have hrest : ∀ x ∈ rest, x < 2 ^ cb := fun x hx => hp x (List.mem_cons_of_mem _ hx)
        have hcall := bm_set_bit_in_sync_cb L sbm bitnr ln2 cb s hdef hln hcb hfit hs
        rw [if_neg hb] at hcall
        obtain ⟨sbm1, r1, r2, -, -⟩ := bm_coalesce_pending L ln2 cb bitnr hdef hln hcb hfit rest
          { sbm with sb_bitnr := bitnr, sb_mask := 2 ^ s } [s] rfl
          (by
            intro i
            rw [Nat.testBit_two_pow, decide_eq_true_eq, List.mem_singleton]
            exact ⟨Eq.symm, Eq.symm⟩)
          hrest ⟨s0, hs0, by simpa using hnot⟩
        refine ⟨sbm1, ?_, r2⟩
        simp only [List.map_cons, bm_set_bits, hcall]
        exact r1
  · intro hcb0
    have hl : ln2 = BM_BLOCK_SIZE_B := by omega
    obtain ⟨sbm1, e1, e2, -⟩ := bm_set_bit_word_clear L sbm bitnr hr1 hr2
    refine ⟨sbm1, ?_, e2⟩
    unfold bm_set_bit
    rw [if_neg (by omega)]
    dsimp only
    rw [if_neg (by omega), hl, Nat.sub_self, Nat.shiftRight_zero]
    exact e1


theorem bm_set_bit_word_cache (L : Nat) (sbm sbm1 : BitMap) (bitnr bit : Nat) (m : List Msg)
    (h : bm_set_bit_word L sbm bitnr bit = some (sbm1, m)) : sbm1.sb_mask = sbm.sb_mask := by
  unfold bm_set_bit_word at h
  dsimp only at h
  split at h
  · cases h; rfl
  · split at h
    · exact Option.noConfusion h
    · cases h; rfl

theorem bm_set_bit_cache_ok (L : Nat) (sbm sbm1 : BitMap) (blocknr ln2 bit : Nat) (m : List Msg)
    (h : bm_set_bit L sbm blocknr ln2 bit = some (sbm1, m))
    (hc : sbm.sb_mask < 2 ^ 2 ^ (BM_BLOCK_SIZE_B - ln2)) :
    sbm1.sb_mask < 2 ^ 2 ^ (BM_BLOCK_SIZE_B - ln2) := by
  have hsub : 1 <<< (blocknr &&& ((1 <<< (BM_BLOCK_SIZE_B - ln2)) - 1))
      < 2 ^ 2 ^ (BM_BLOCK_SIZE_B - ln2) := by
    rw [Nat.one_shiftLeft, Nat.one_shiftLeft, Nat.and_pow_two_sub_one_eq_mod]
    exact Nat.pow_lt_pow_right (by decide) (Nat.mod_lt _ (Nat.pow_pos (by decide)))
  unfold bm_set_bit at h
  split at h
  · exact Option.noConfusion h
  · dsimp only at h
    split at h
    · split at h
      · exact Option.noConfusion h
      · split at h
        · split at h
          · cases h
            exact Nat.or_lt_two_pow hc hsub
          · rw [bm_set_bit_word_cache L _ _ _ _ _ h]
            exact Nat.or_lt_two_pow hc hsub
        · cases h
          exact hsub
    · rw [bm_set_bit_word_cache L _ _ _ _ _ h]
      exact hc

/-- C15: let `cb = 12 - ln2_block_size` and let `bitnr` be a bit of the bitmap
(its word lies in the allocation). For `0 < cb < LN2_BPL` (the mask of `2^cb`
sub-blocks fits a word: every block size from 128 or 256 bytes on) and a cache
built with this block size (`sb_mask < 2^(2^cb)`, which `bm_init` establishes
and every `bm_set_bit` keeps): a series of calls `bm_set_bit(.., 0)` for
sub-blocks of `bitnr` only, in any order and with repetitions, that covers all
`2^cb` sub-blocks returns and leaves the bit clear; if the cache was empty at
the start (`sb_bitnr` another bit, or `sb_mask == 0`), the bitmap is untouched
after every part of the series that does not yet cover all sub-blocks. For
`cb == 0` a single call clears the bit. -/
theorem bm_set_bit_coalesces (LN2_BPL : Nat) (sbm : BitMap) (bitnr ln2_block_size cb : Nat)
    (subs : List Nat)
    (hdef : cb = BM_BLOCK_SIZE_B - ln2_block_size) (hln : ln2_block_size ≤ BM_BLOCK_SIZE_B)
    (hr1 : bitnr >>> LN2_BPL < sbm.size) (hr2 : bitnr >>> LN2_BPL < sbm.bm.length)
    (hsubs : ∀ s ∈ subs, s < 2 ^ cb) :
    (0 < cb → cb < LN2_BPL → sbm.sb_mask < 2 ^ 2 ^ cb → (∀ s, s < 2 ^ cb → s ∈ subs) →
      ∃ sbm1, bm_set_bits LN2_BPL ln2_block_size
          (subs.map (fun s => ((bitnr <<< cb) + s, 0))) sbm = some sbm1 ∧
        bm_bit LN2_BPL sbm1 bitnr = false) ∧
    (0 < cb → cb < LN2_BPL → sbm.sb_bitnr ≠ bitnr ∨ sbm.sb_mask = 0 →
      ∀ p q, subs = p ++ q → (∃ s0, s0 < 2 ^ cb ∧ s0 ∉ p) →
        ∃ sbm1, bm_set_bits LN2_BPL ln2_block_size
            (p.map (fun s => ((bitnr <<< cb) + s, 0))) sbm = some sbm1 ∧
          sbm1.bm = sbm.bm) ∧
    (cb = 0 →
      ∃ sbm1, bm_set_bit LN2_BPL sbm bitnr ln2_block_size 0 = some (sbm1, []) ∧
        bm_bit LN2_BPL sbm1 bitnr = false) :=
  bm_coalesce_spec LN2_BPL sbm bitnr ln2_block_size cb subs hdef hln hr1 hr2 hsubs

/-- C15, witness: a bitmap of one word with bit 0 set, blocks of 2048 bytes
(`cb = 1`), the sub-blocks marked in the order 1, 0. -/
theorem bm_set_bit_coalesces_witness :
    1 = BM_BLOCK_SIZE_B - 11 ∧ 11 ≤ BM_BLOCK_SIZE_B ∧ 0 >>> 6 < bm_dirty.size ∧
    0 >>> 6 < bm_dirty.bm.length ∧ (∀ s ∈ [1, 0], s < 2 ^ 1) ∧
    (0 < 1 → 1 < 6 → bm_dirty.sb_mask < 2 ^ 2 ^ 1 → (∀ s, s < 2 ^ 1 → s ∈ [1, 0]) →
      ∃ sbm1, bm_set_bits 6 11 ([1, 0].map (fun s => ((0 <<< 1) + s, 0))) bm_dirty = some sbm1 ∧
        bm_bit 6 sbm1 0 = false) ∧
    (0 < 1 → 1 < 6 → bm_dirty.sb_bitnr ≠ 0 ∨ bm_dirty.sb_mask = 0 →
      ∀ p q, [1, 0] = p ++ q → (∃ s0, s0 < 2 ^ 1 ∧ s0 ∉ p) →
        ∃ sbm1, bm_set_bits 6 11 (p.map (fun s => ((0 <<< 1) + s, 0))) bm_dirty = some sbm1 ∧
          sbm1.bm = bm_dirty.bm) ∧
    (1 = 0 →
      ∃ sbm1, bm_set_bit 6 bm_dirty 0 11 0 = some (sbm1, []) ∧ bm_bit 6 sbm1 0 = false) :=
  ⟨by decide, by decide, by decide, by decide, by decide,
    bm_set_bit_coalesces 6 bm_dirty 0 11 1 [1, 0] (by decide) (by decide) (by decide)
      (by decide) (by decide)⟩

/-! ## The bitmap: what the code does on two inputs -/

/-- C14: on a bitmap whose bit 0 is set, with blocks of 2048 bytes (two
sub-blocks per bit), the calls `bm_set_bit(0, 11, 0)`, `bm_set_bit(0, 11, 1)`,
`bm_set_bit(1, 11, 0)` leave bit 0 clear, although sub-block 0 was marked out
of sync after its last in-sync mark: the call with `bit == 1` sets the bit
(it is set after the second call) but leaves `sb_mask` as it is, so the mask
is complete at the third call. The same on a 32-bit machine. -/
theorem bm_set_bit_stale_cache_clears :
    (bm_set_bits 6 11 [(0, 0), (0, 1)] bm_dirty).map (fun b => bm_bit 6 b 0) = some true ∧
    (bm_set_bits 6 11 [(0, 0), (0, 1), (1, 0)] bm_dirty).map (fun b => bm_bit 6 b 0)
      = some false ∧
    (bm_set_bits 5 11 [(0, 0), (0, 1)] bm_dirty).map (fun b => bm_bit 5 b 0) = some true ∧
    (bm_set_bits 5 11 [(0, 0), (0, 1), (1, 0)] bm_dirty).map (fun b => bm_bit 5 b 0)
      = some false := by
  decide

/-- C16: a device of 384 KB has 96 blocks of 4 KB. On a 64-bit machine
`bm_init` allocates 12 bytes, all zero; `bm_set_bit(70, 12, 1)` sets bit 70;
but after `bm_reset` the first call of `bm_get_blocknr` returns `MBDS_DONE`,
because it scans `size / sizeof(long) = 1` word only: block 70 is never
returned. For a device of 36 KB (9 blocks) `bm_init` allocates 1 byte, and
`bm_set_bit(8, 12, 1)` sets bit 8, which is not among the 8 bits
allocated. -/
theorem bm_init_rounds_down (MBDS_DONE : Nat) :
    (∃ b0 b1 b2, (bm_init 6 0 384).1 = some b0 ∧ b0.size = 12 ∧ (∀ w ∈ b0.bm, w = 0) ∧
      70 < 384 / 4 ∧
      bm_set_bit 6 b0 70 12 1 = some (b1, []) ∧ bm_bit 6 b1 70 = true ∧
      bm_reset b1 12 = some b2 ∧
      bm_get_blocknr MBDS_DONE 6 64 b2 12 = some (b2, MBDS_DONE)) ∧
    (∃ b0 b1, (bm_init 6 0 36).1 = some b0 ∧ b0.size = 1 ∧ 8 < 36 / 4 ∧
      bm_set_bit 6 b0 8 12 1 = some (b1, []) ∧ bm_bit 6 b1 8 = true ∧
      ¬ 8 < 8 * b0.size) :=
  ⟨⟨_, _, _, rfl, rfl, by decide, by decide, rfl, rfl, rfl, rfl⟩,
    ⟨_, _, rfl, rfl, by decide, rfl, rfl, by decide⟩⟩

/-! ## The bitmap: the iterator -/

theorem testBit_iff_and_one (word j : Nat) : (word >>> j) &&& 1 ≠ 0 ↔ word.testBit j = true := by
  unfold Nat.testBit
  rw [Nat.and_comm]
  simp

theorem bm_get_bn_loop_spec (L : Nat) (word : Nat) : ∀ (fuel j : Nat),
    j < 2 ^ L → 2 ^ L - j ≤ fuel →
    bm_get_bn_loop L fuel (word >>> j) (j : Int) =
      some (match (List.range' j (2 ^ L - j)).find? (fun i => word.testBit i) with
        | some r => (r : Int)
        | none => -1) := by
  intro fuel
  induction fuel with
  | zero => intro j h1 h2; omega
  | succ f ih =>
    intro j h1 h2
    have hr : List.range' j (2 ^ L - j) = j :: List.range' (j + 1) (2 ^ L - (j + 1)) := by
      have : 2 ^ L - j = (2 ^ L - (j + 1)) + 1 := by omega
      rw [this, List.range']
    unfold bm_get_bn_loop
    by_cases hb : word.testBit j = true
    · rw [if_pos ((testBit_iff_and_one word j).2 hb), hr, List.find?_cons_of_pos _ hb]
    · rw [if_neg (fun h => hb ((testBit_iff_and_one word j).1 h)), hr,
        List.find?_cons_of_neg _ hb]
      unfold BITS_PER_LONG
      by_cases he : j + 1 = 2 ^ L
      · rw [if_pos (by exact_mod_cast he)]
        have : 2 ^ L - (j + 1) = 0 := by omega
        rw [this]
        rfl
      · rw [if_neg (by exact_mod_cast he)]
        have hs : (word >>> j) >>> 1 = word >>> (j + 1) := by
          rw [← Nat.shiftRight_add]
        rw [hs]
        have := ih (j + 1) (by omega) (by omega)
        rw [← this]
        rfl

theorem bm_get_bn_spec (L fuel : Nat) (word : Nat) (nr : Int) (hfuel : 2 ^ L ≤ fuel)
    (h1 : -1 ≤ nr) (h2 : nr < 2 ^ L) :
    bm_get_bn L fuel word nr =
      some (match (List.range' (nr + 1).toNat (2 ^ L - (nr + 1).toNat)).find?
          (fun i => word.testBit i) with
        | some r => (r : Int)
        | none => -1) := by
  unfold bm_get_bn BITS_PER_LONG
  by_cases he : nr = ((2 ^ L : Nat) : Int) - 1
  · rw [if_pos he]
    have : (nr + 1).toNat = 2 ^ L := by
      have e : ((2 ^ L : Nat) : Int) - 1 + 1 = ((2 ^ L : Nat) : Int) := by ring
      rw [he, e, Int.toNat_ofNat]
    rw [this, Nat.sub_self]
    rfl
  · rw [if_neg he]
    obtain ⟨j, hj⟩ : ∃ j : Nat, nr + 1 = (j : Int) := ⟨(nr + 1).toNat, by omega⟩
    rw [hj, Int.toNat_ofNat]
    have hc : ((2 ^ L : Nat) : Int) = (2 : Int) ^ L := by push_cast; rfl
    have hjlt : j < 2 ^ L := by
      have : (j : Int) < ((2 ^ L : Nat) : Int) := by omega
      exact_mod_cast this
    exact bm_get_bn_loop_spec L word fuel j hjlt (by omega)


theorem bm_bit_word (L : Nat) (sbm : BitMap) (wnr j : Nat) (hj : j < 2 ^ L) :
    bm_bit L sbm (wnr * 2 ^ L + j) = (sbm.bm.getD wnr 0).testBit j := by
  have hpos : 0 < 2 ^ L := Nat.pow_pos (by decide)
  unfold bm_bit
  rw [Nat.shiftRight_eq_div_pow, Nat.one_shiftLeft, Nat.and_pow_two_sub_one_eq_mod,
    Nat.add_comm, Nat.add_mul_div_right _ _ hpos, Nat.div_eq_of_lt hj, Nat.zero_add,
    Nat.add_mul_mod_self_right, Nat.mod_eq_of_lt hj]

theorem bm_word_find (L : Nat) (sbm : BitMap) (wnr : Nat) : ∀ (n j : Nat), j + n ≤ 2 ^ L →
    (List.range' (wnr * 2 ^ L + j) n).find? (fun b => bm_bit L sbm b) =
      ((List.range' j n).find? (fun i => (sbm.bm.getD wnr 0).testBit i)).map
        (fun i => wnr * 2 ^ L + i) := by
  intro n
  induction n with
  | zero => intro j _; rfl
  | succ n ih =>
    intro j hj
    simp only [List.range']
    have hb := bm_bit_word L sbm wnr j (by omega)
    by_cases ht : (sbm.bm.getD wnr 0).testBit j = true
    · rw [List.find?_cons_of_pos _ (by rw [hb]; exact ht), List.find?_cons_of_pos _ ht]
      rfl
    · rw [List.find?_cons_of_neg _ (by rw [hb]; exact ht), List.find?_cons_of_neg _ ht]
      have := ih (j + 1) (by omega)
      rw [← this, Nat.add_assoc]

theorem find_testBit_zero (l : List Nat) : l.find? (fun i => (0 : Nat).testBit i) = none := by
  induction l with
  | nil => rfl
  | cons a rest ih => rw [List.find?_cons_of_neg _ (by simp), ih]


theorem bm_get_blocknr_loop_spec (L fuel : Nat) (sbm : BitMap) (nw : Nat)
    (hfuel : 2 ^ L ≤ fuel) (hlen : sbm.bm.length = nw) :
    ∀ (rounds wnr : Nat), sbm.gb_bitnr / 2 ^ L ≤ wnr → nw - wnr < rounds →
      bm_get_blocknr_loop L fuel sbm nw rounds wnr =
        some ((List.range'
            (wnr * 2 ^ L + (if wnr = sbm.gb_bitnr / 2 ^ L then sbm.gb_bitnr % 2 ^ L + 1 else 0))
            (nw * 2 ^ L -
              (wnr * 2 ^ L +
                (if wnr = sbm.gb_bitnr / 2 ^ L then sbm.gb_bitnr % 2 ^ L + 1 else 0)))).find?
          (fun b => bm_bit L sbm b)) := by
  have hpos : 0 < 2 ^ L := Nat.pow_pos (by decide)
  intro rounds
  induction rounds with
  | zero => intro wnr _ h; omega
  | succ r ih =>
    intro wnr hge hr
    generalize hj : (if wnr = sbm.gb_bitnr / 2 ^ L then sbm.gb_bitnr % 2 ^ L + 1 else 0) = j
    have hjle : j ≤ 2 ^ L := by
      rw [← hj]
      split
      · have := Nat.mod_lt sbm.gb_bitnr hpos
        omega
      · omega
    unfold bm_get_blocknr_loop
    by_cases hnw : nw ≤ wnr
    · rw [if_pos hnw]
      have : nw * 2 ^ L - (wnr * 2 ^ L + j) = 0 := by
        have := Nat.mul_le_mul_right (2 ^ L) hnw
        omega
      rw [this]
      rfl
    · rw [if_neg hnw, if_neg (by omega)]
      have hnext := ih (wnr + 1) (by omega) (by omega)
      rw [if_neg (by omega), Nat.add_zero] at hnext
      have hmul : (wnr + 1) * 2 ^ L ≤ nw * 2 ^ L := Nat.mul_le_mul_right _ (by omega)
      have hsucc : (wnr + 1) * 2 ^ L = wnr * 2 ^ L + 2 ^ L := by ring
      have hsplit : List.range' (wnr * 2 ^ L + j) (nw * 2 ^ L - (wnr * 2 ^ L + j)) =
          List.range' (wnr * 2 ^ L + j) (2 ^ L - j) ++
            List.range' ((wnr + 1) * 2 ^ L) (nw * 2 ^ L - (wnr + 1) * 2 ^ L) := by
        have e1 : nw * 2 ^ L - (wnr * 2 ^ L + j) =
            (2 ^ L - j) + (nw * 2 ^ L - (wnr + 1) * 2 ^ L) := by omega
        have e2 : (wnr + 1) * 2 ^ L = wnr * 2 ^ L + j + (2 ^ L - j) := by omega
        rw [e1, e2, List.range'_append_1]
        rw [Nat.add_comm (2 ^ L - j)]
      have hfirst := bm_word_find L sbm wnr (2 ^ L - j) j (by omega)
      rw [hsplit, List.find?_append, hfirst]
      by_cases hw : sbm.bm.getD wnr 0 ≠ 0
      · rw [if_pos hw]
        dsimp only
        have hbnr : ∃ bnr : Int, (if wnr = sbm.gb_bitnr >>> L
            then ((sbm.gb_bitnr &&& ((1 <<< L) - 1) : Nat) : Int) else -1) = bnr ∧
            -1 ≤ bnr ∧ bnr < 2 ^ L ∧ (bnr + 1).toNat = j := by
          refine ⟨_, rfl, ?_, ?_, ?_⟩
          · split <;> omega
          · split
            · rw [Nat.one_shiftLeft, Nat.and_pow_two_sub_one_eq_mod]
              have := Nat.mod_lt sbm.gb_bitnr hpos
              have hc : ((2 ^ L : Nat) : Int) = (2 : Int) ^ L := by push_cast; rfl
              omega
            · have : (0 : Int) < 2 ^ L := by positivity
              omega
          · rw [← hj, Nat.shiftRight_eq_div_pow, Nat.one_shiftLeft,
              Nat.and_pow_two_sub_one_eq_mod]
            split
            · rw [Int.toNat_ofNat_add_one]
            · rfl
        obtain ⟨bnr, hb0, hb1, hb2, hb3⟩ := hbnr
        rw [hb0, bm_get_bn_spec L fuel _ bnr hfuel hb1 hb2, hb3]
        dsimp only
        cases hfind : (List.range' j (2 ^ L - j)).find?
            (fun i => (sbm.bm.getD wnr 0).testBit i) with
        | none =>
          rw [if_pos rfl, hnext]
          rfl
        | some i =>
          dsimp only
          have hi : ¬ ((i : Int) = -1) := by omega
          rw [if_neg hi, Int.toNat_ofNat, Nat.shiftLeft_eq]
          rfl
      · rw [if_neg hw, hnext]
        have h0 : sbm.bm.getD wnr 0 = 0 := by
          by_contra h
          exact hw h
        rw [h0, find_testBit_zero]
        rfl


theorem range'_find_filter (p : Nat → Bool) : ∀ (n lo : Nat),
    ((List.range' lo n).find? p = none → (List.range' lo n).filter p = []) ∧
    (∀ b, (List.range' lo n).find? p = some b →
      lo ≤ b ∧ b < lo + n ∧
      (List.range' lo n).filter p = b :: (List.range' (b + 1) (lo + n - (b + 1))).filter p) := by
  intro n
  induction n with
  | zero =>
    intro lo
    exact ⟨fun _ => rfl, fun b h => by simp at h⟩
  | succ n ih =>
    intro lo
    obtain ⟨i1, i2⟩ := ih (lo + 1)
    simp only [List.range']
    by_cases hp : p lo = true
    · rw [List.find?_cons_of_pos _ hp, List.filter_cons_of_pos hp]
      refine ⟨fun h => Option.noConfusion h, fun b hb => ?_⟩
      have : lo = b := Option.some.inj hb
      subst this
      refine ⟨le_refl _, by omega, ?_⟩
      have : lo + (n + 1) - (lo + 1) = n := by omega
      rw [this]
    · rw [List.find?_cons_of_neg _ hp, List.filter_cons_of_neg hp]
      refine ⟨i1, fun b hb => ?_⟩
      obtain ⟨a1, a2, a3⟩ := i2 b hb
      refine ⟨by omega, by omega, ?_⟩
      rw [a3]
      have : lo + 1 + n - (b + 1) = lo + (n + 1) - (b + 1) := by omega
      rw [this]

theorem bm_get_blocknr_calls_append (D L fuel ln2 : Nat) : ∀ (a b : Nat) (s0 s1 s2 : BitMap)
    (l1 l2 : List Nat),
    bm_get_blocknr_calls D L fuel a s0 ln2 = some (s1, l1) →
    bm_get_blocknr_calls D L fuel b s1 ln2 = some (s2, l2) →
    bm_get_blocknr_calls D L fuel (a + b) s0 ln2 = some (s2, l1 ++ l2) := by
  intro a
  induction a with
  | zero =>
    intro b s0 s1 s2 l1 l2 h1 h2
    simp only [bm_get_blocknr_calls, Option.some.injEq, Prod.mk.injEq] at h1
    obtain ⟨rfl, rfl⟩ := h1
    rw [Nat.zero_add]
    exact h2
  | succ a ih =>
    intro b s0 s1 s2 l1 l2 h1 h2
    rw [Nat.add_right_comm]
    unfold bm_get_blocknr_calls at h1 ⊢
    cases hc : bm_get_blocknr D L fuel s0 ln2 with
    | none => rw [hc] at h1; exact Option.noConfusion h1
    | some r =>
      obtain ⟨sa, rv⟩ := r
      rw [hc] at h1
      dsimp only at h1 ⊢
      cases hr : bm_get_blocknr_calls D L fuel a sa ln2 with
      | none => rw [hr] at h1; exact Option.noConfusion h1
      | some r2 =>
        obtain ⟨sb, rest⟩ := r2
        rw [hr] at h1
        dsimp only at h1
        simp only [Option.some.injEq, Prod.mk.injEq] at h1
        obtain ⟨rfl, rfl⟩ := h1
        rw [ih b sa sb s2 rest l2 hr h2]
        rfl


theorem bm_get_blocknr_sub (D L fuel : Nat) (sbm : BitMap) (ln2 cb g s : Nat)
    (hdef : cb = BM_BLOCK_SIZE_B - ln2) (hln : ln2 ≤ BM_BLOCK_SIZE_B) (hs : s < 2 ^ cb)
    (hov : (g <<< cb) + s < 2 ^ 2 ^ L) :
    bm_get_blocknr D L fuel (bm_cursor sbm g s) ln2 =
      some (bm_cursor sbm g (s + 1), (g <<< cb) + s) := by
  subst hdef
  unfold bm_get_blocknr
  rw [if_neg (by omega)]
  dsimp only
  have h1 : ¬ 1 <<< (BM_BLOCK_SIZE_B - ln2) ≤ (bm_cursor sbm g s).gb_snr := by
    rw [Nat.one_shiftLeft]
    exact Nat.not_le.mpr hs
  rw [if_neg h1]
  unfold bm_get_blocknr_out BITS_PER_LONG
  have h2 : (((bm_cursor sbm g s).gb_bitnr <<< (BM_BLOCK_SIZE_B - ln2)) +
      (bm_cursor sbm g s).gb_snr) % 2 ^ 2 ^ L = (g <<< (BM_BLOCK_SIZE_B - ln2)) + s :=
    Nat.mod_eq_of_lt hov
  rw [h2]
  rfl

theorem bm_get_blocknr_scan (D L fuel : Nat) (sbm : BitMap) (ln2 cb g s : Nat)
    (hdef : cb = BM_BLOCK_SIZE_B - ln2) (hln : ln2 ≤ BM_BLOCK_SIZE_B) (hs : 2 ^ cb ≤ s)
    (hlen : sbm.bm.length = sbm.size / sizeof_long L)
    (hf1 : 2 ^ L ≤ fuel) (hf2 : sbm.size / sizeof_long L < fuel) :
    bm_get_blocknr D L fuel (bm_cursor sbm g s) ln2 =
      match (List.range' (g + 1) ((sbm.size / sizeof_long L) * 2 ^ L - (g + 1))).find?
          (fun b => bm_bit L sbm b) with
      | none => some (bm_cursor sbm g s, D)
      | some b => some (bm_cursor sbm b 1, (b <<< cb) % 2 ^ 2 ^ L) := by
  subst hdef
  have hloop := bm_get_blocknr_loop_spec L fuel (bm_cursor sbm g s) (sbm.size / sizeof_long L)
    hf1 hlen fuel ((bm_cursor sbm g s).gb_bitnr / 2 ^ L) (le_refl _)
    (lt_of_le_of_lt (Nat.sub_le _ _) hf2)
  rw [if_pos rfl] at hloop
  have hg : (bm_cursor sbm g s).gb_bitnr / 2 ^ L * 2 ^ L +
      ((bm_cursor sbm g s).gb_bitnr % 2 ^ L + 1) = g + 1 := by
    have := Nat.div_add_mod (bm_cursor sbm g s).gb_bitnr (2 ^ L)
    have e : (bm_cursor sbm g s).gb_bitnr = g := rfl
    rw [e] at this ⊢
    rw [Nat.mul_comm] at this
    omega
  rw [hg] at hloop
  have hp : (fun b => bm_bit L (bm_cursor sbm g s) b) = (fun b => bm_bit L sbm b) := rfl
  rw [hp] at hloop
  unfold bm_get_blocknr
  rw [if_neg (by omega)]
  dsimp only
  have h1 : 1 <<< (BM_BLOCK_SIZE_B - ln2) ≤ (bm_cursor sbm g s).gb_snr := by
    rw [Nat.one_shiftLeft]
    exact hs
  have hsz : (bm_cursor sbm g s).size = sbm.size := rfl
  rw [if_pos h1, hsz, Nat.shiftRight_eq_div_pow, hloop]
  cases (List.range' (g + 1) ((sbm.size / sizeof_long L) * 2 ^ L - (g + 1))).find?
      (fun b => bm_bit L sbm b) with
  | none => rfl
  | some b =>
    dsimp only
    unfold bm_get_blocknr_out BITS_PER_LONG
    rfl


theorem bm_calls_sub (D L fuel : Nat) (sbm : BitMap) (ln2 cb g : Nat)
    (hdef : cb = BM_BLOCK_SIZE_B - ln2) (hln : ln2 ≤ BM_BLOCK_SIZE_B)
    (hov : (g + 1) * 2 ^ cb ≤ 2 ^ 2 ^ L) :
    ∀ (k s : Nat), s + k = 2 ^ cb →
      bm_get_blocknr_calls D L fuel k (bm_cursor sbm g s) ln2 =
        some (bm_cursor sbm g (2 ^ cb), (List.range' s k).map (fun x => (g <<< cb) + x)) := by
  intro k
  induction k with
  | zero =>
    intro s hs
    rw [Nat.add_zero] at hs
    subst hs
    rfl
  | succ k ih =>
    intro s hs
    have hlt : s < 2 ^ cb := by omega
    have hov2 : (g <<< cb) + s < 2 ^ 2 ^ L := by
      rw [Nat.shiftLeft_eq]
      have : (g + 1) * 2 ^ cb = g * 2 ^ cb + 2 ^ cb := by ring
      omega
    unfold bm_get_blocknr_calls
    rw [bm_get_blocknr_sub D L fuel sbm ln2 cb g s hdef hln hlt hov2]
    dsimp only
    rw [ih (s + 1) (by omega)]
    rfl

theorem bm_calls_scan (D L fuel : Nat) (sbm : BitMap) (ln2 cb : Nat)
    (hdef : cb = BM_BLOCK_SIZE_B - ln2) (hln : ln2 ≤ BM_BLOCK_SIZE_B)
    (hlen : sbm.bm.length = sbm.size / sizeof_long L)
    (hf1 : 2 ^ L ≤ fuel) (hf2 : sbm.size / sizeof_long L < fuel)
    (hov : (sbm.size / sizeof_long L) * 2 ^ L * 2 ^ cb ≤ 2 ^ 2 ^ L) :
    ∀ (m g : Nat), (sbm.size / sizeof_long L) * 2 ^ L - g ≤ m →
      g < (sbm.size / sizeof_long L) * 2 ^ L →
      ∃ s1, bm_get_blocknr_calls D L fuel
          (((List.range' (g + 1) ((sbm.size / sizeof_long L) * 2 ^ L - (g + 1))).filter
            (fun b => bm_bit L sbm b)).length * 2 ^ cb + 1)
          (bm_cursor sbm g (2 ^ cb)) ln2 =
          some (s1,
            ((List.range' (g + 1) ((sbm.size / sizeof_long L) * 2 ^ L - (g + 1))).filter
              (fun b => bm_bit L sbm b)).flatMap (bm_blocks cb) ++ [D]) ∧
        s1.bm = sbm.bm := by
  have hpos : 0 < 2 ^ cb := Nat.pow_pos (by decide)
  intro m
  induction m with
  | zero => intro g h1 h2; omega
  | succ m ih =>
    intro g h1 h2
    have hscan := bm_get_blocknr_scan D L fuel sbm ln2 cb g (2 ^ cb) hdef hln (le_refl _)
      hlen hf1 hf2
    obtain ⟨r1, r2⟩ := range'_find_filter (fun b => bm_bit L sbm b)
      ((sbm.size / sizeof_long L) * 2 ^ L - (g + 1)) (g + 1)
    cases hfind : (List.range' (g + 1) ((sbm.size / sizeof_long L) * 2 ^ L - (g + 1))).find?
        (fun b => bm_bit L sbm b) with
    | none =>
      rw [hfind] at hscan
      rw [r1 hfind]
      refine ⟨bm_cursor sbm g (2 ^ cb), ?_, rfl⟩
      simp only [List.length_nil, Nat.zero_mul, Nat.zero_add, List.flatMap_nil, List.nil_append]
      unfold bm_get_blocknr_calls
      rw [hscan]
      rfl
    | some b =>
      rw [hfind] at hscan
      obtain ⟨b1, b2, b3⟩ := r2 b hfind
      have hbN : b < (sbm.size / sizeof_long L) * 2 ^ L := by omega
      have hcnt : g + 1 + ((sbm.size / sizeof_long L) * 2 ^ L - (g + 1)) - (b + 1) =
          (sbm.size / sizeof_long L) * 2 ^ L - (b + 1) := by omega
      rw [hcnt] at b3
      rw [b3]
      have hbov : (b + 1) * 2 ^ cb ≤ 2 ^ 2 ^ L :=
        le_trans (Nat.mul_le_mul_right _ hbN) hov
      have hb0 : (b <<< cb) % 2 ^ 2 ^ L = b <<< cb := by
        apply Nat.mod_eq_of_lt
        rw [Nat.shiftLeft_eq]
        have : (b + 1) * 2 ^ cb = b * 2 ^ cb + 2 ^ cb := by ring
        omega
      have hscan2 : bm_get_blocknr D L fuel (bm_cursor sbm g (2 ^ cb)) ln2 =
          some (bm_cursor sbm b 1, b <<< cb) := by
        rw [hscan]
        dsimp only
        rw [hb0]
      have c1 : bm_get_blocknr_calls D L fuel 1 (bm_cursor sbm g (2 ^ cb)) ln2 =
          some (bm_cursor sbm b 1, [b <<< cb]) := by
        unfold bm_get_blocknr_calls
        rw [hscan2]
        rfl
      have c2 := bm_calls_sub D L fuel sbm ln2 cb b hdef hln hbov (2 ^ cb - 1) 1 (by omega)
      obtain ⟨s1, c3, c4⟩ := ih b (by omega) hbN
      have c12 := bm_get_blocknr_calls_append D L fuel ln2 _ _ _ _ _ _ _ c1 c2
      have c123 := bm_get_blocknr_calls_append D L fuel ln2 _ _ _ _ _ _ _ c12 c3
      refine ⟨s1, ?_, c4⟩
      have hn : (b :: (List.range' (b + 1) ((sbm.size / sizeof_long L) * 2 ^ L - (b + 1))).filter
          (fun b => bm_bit L sbm b)).length * 2 ^ cb + 1 =
          1 + (2 ^ cb - 1) +
            (((List.range' (b + 1) ((sbm.size / sizeof_long L) * 2 ^ L - (b + 1))).filter
              (fun b => bm_bit L sbm b)).length * 2 ^ cb + 1) := by
        rw [List.length_cons, Nat.succ_mul]
        omega
      rw [hn, c123, List.flatMap_cons]
      have hblocks : bm_blocks cb b =
          [b <<< cb] ++ List.map (fun x => (b <<< cb) + x) (List.range' 1 (2 ^ cb - 1)) := by
        unfold bm_blocks
        have : 2 ^ cb = (2 ^ cb - 1) + 1 := by omega
        rw [this, List.range']
        simp
      rw [hblocks]
      simp only [List.append_assoc]

theorem bm_blocks_sorted (cb : Nat) (l : List Nat) (hl : List.Pairwise (fun a b => a < b) l) :
    List.Pairwise (fun a b => a < b) (l.flatMap (bm_blocks cb)) := by
  rw [List.pairwise_flatMap]
  constructor
  · intro a _
    unfold bm_blocks
    exact List.Pairwise.map _ (fun x y h => Nat.add_lt_add_left h _)
      (List.pairwise_lt_range' 0 (2 ^ cb) 1 (by decide))
  · refine List.Pairwise.imp ?_ hl
    intro a b hab x hx y hy
    unfold bm_blocks at hx hy
    rw [List.mem_map] at hx hy
    obtain ⟨i, hi, rfl⟩ := hx
    obtain ⟨j, _, rfl⟩ := hy
    rw [List.mem_range'_1] at hi
    rw [Nat.shiftLeft_eq, Nat.shiftLeft_eq]
    have h1 : (a + 1) * 2 ^ cb ≤ b * 2 ^ cb := Nat.mul_le_mul_right _ hab
    have h2 : (a + 1) * 2 ^ cb = a * 2 ^ cb + 2 ^ cb := by ring
    omega

theorem bm_out_of_sync_sorted (L : Nat) (sbm : BitMap) :
    List.Pairwise (fun a b => a < b) (bm_out_of_sync L sbm) := by
  unfold bm_out_of_sync
  exact List.Pairwise.filter _ (List.pairwise_lt_range' 0 _ 1 (by decide))

theorem bm_bit_zero (L : Nat) (sbm : BitMap) :
    bm_bit L sbm 0 = true ↔ sbm.bm.getD 0 0 &&& 1 ≠ 0 := by
  unfold bm_bit
  rw [Nat.zero_shiftRight, Nat.zero_and]
  have h := testBit_iff_and_one (sbm.bm.getD 0 0) 0
  rw [Nat.shiftRight_zero] at h
  exact h.symm

theorem bm_out_of_sync_split (L : Nat) (sbm : BitMap)
    (hpos : 0 < (sbm.size / sizeof_long L) * 2 ^ L) :
    bm_out_of_sync L sbm =
      if bm_bit L sbm 0 = true then
        0 :: (List.range' 1 ((sbm.size / sizeof_long L) * 2 ^ L - 1)).filter
          (fun b => bm_bit L sbm b)
      else (List.range' 1 ((sbm.size / sizeof_long L) * 2 ^ L - 1)).filter
          (fun b => bm_bit L sbm b) := by
  unfold bm_out_of_sync
  have h : (sbm.size / sizeof_long L) * 2 ^ L =
      ((sbm.size / sizeof_long L) * 2 ^ L - 1) + 1 := by omega
  generalize (sbm.size / sizeof_long L) * 2 ^ L - 1 = n at h
  rw [h, List.range'_succ]
  by_cases hb : bm_bit L sbm 0 = true
  · rw [if_pos hb, List.filter_cons_of_pos hb]
  · rw [if_neg hb, List.filter_cons_of_neg hb]

theorem bm_iterate (D L fuel : Nat) (sbm : BitMap) (ln2 : Nat)
    (hln : ln2 ≤ BM_BLOCK_SIZE_B)
    (hlen : sbm.bm.length = sbm.size / sizeof_long L)
    (hne : 0 < sbm.bm.length)
    (hf1 : 2 ^ L ≤ fuel) (hf2 : sbm.size / sizeof_long L < fuel)
    (hov : (sbm.size / sizeof_long L) * 2 ^ L * 2 ^ (BM_BLOCK_SIZE_B - ln2) ≤ 2 ^ 2 ^ L) :
    ∃ s0 s1, bm_reset sbm ln2 = some s0 ∧ s0.bm = sbm.bm ∧
      bm_get_blocknr_calls D L fuel
        ((bm_out_of_sync L sbm).length * 2 ^ (BM_BLOCK_SIZE_B - ln2) + 1) s0 ln2 =
        some (s1, (bm_out_of_sync L sbm).flatMap (bm_blocks (BM_BLOCK_SIZE_B - ln2)) ++ [D]) ∧
      s1.bm = sbm.bm := by
  have hpos : 0 < (sbm.size / sizeof_long L) * 2 ^ L := by
    rw [← hlen]
    exact Nat.mul_pos hne (Nat.pow_pos (by decide))
  have hcb : 0 < 2 ^ (BM_BLOCK_SIZE_B - ln2) := Nat.pow_pos (by decide)
  obtain ⟨s1, hs1, hbm⟩ := bm_calls_scan D L fuel sbm ln2 (BM_BLOCK_SIZE_B - ln2) rfl hln hlen
    hf1 hf2 hov _ 0 (le_refl _) hpos
  rw [Nat.zero_add] at hs1
  rw [bm_out_of_sync_split L sbm hpos]
  by_cases hb : bm_bit L sbm 0 = true
  · have hw := (bm_bit_zero L sbm).1 hb
    refine ⟨bm_cursor sbm 0 0, s1, ?_, rfl, ?_, hbm⟩
    · unfold bm_reset
      rw [if_neg (by omega), if_neg (by omega), if_pos hw]
      rfl
    · rw [if_pos hb]
      have hov0 : (0 + 1) * 2 ^ (BM_BLOCK_SIZE_B - ln2) ≤ 2 ^ 2 ^ L := by
        refine le_trans ?_ hov
        exact Nat.mul_le_mul_right _ hpos
      have c1 := bm_calls_sub D L fuel sbm ln2 (BM_BLOCK_SIZE_B - ln2) 0 rfl hln hov0
        (2 ^ (BM_BLOCK_SIZE_B - ln2)) 0 (Nat.zero_add _)
      have c12 := bm_get_blocknr_calls_append D L fuel ln2 _ _ _ _ _ _ _ c1 hs1
      rw [List.length_cons, Nat.succ_mul, List.flatMap_cons]
      have hn : ∀ x : Nat, x + 2 ^ (BM_BLOCK_SIZE_B - ln2) + 1 =
          2 ^ (BM_BLOCK_SIZE_B - ln2) + (x + 1) := by intro x; omega
      rw [hn, c12]
      unfold bm_blocks
      simp only [List.append_assoc]
  · have hw : ¬ (sbm.bm.getD 0 0 &&& 1 ≠ 0) := fun h => hb ((bm_bit_zero L sbm).2 h)
    refine ⟨bm_cursor sbm 0 (2 ^ (BM_BLOCK_SIZE_B - ln2)), s1, ?_, rfl, ?_, hbm⟩
    · unfold bm_reset
      rw [if_neg (by omega), if_neg (by omega), if_neg hw, Nat.one_shiftLeft]
      rfl
    · rw [if_neg hb]
      exact hs1

/-- C13: for a bitmap whose `size` bytes are exactly its words (at least one),
and a block size with `cb = 12 - ln2_block_size ≥ 0` for which the block numbers
fit a machine word, `bm_reset` followed by successive calls of `bm_get_blocknr`
returns the block numbers `(b << cb) + s`, `s = 0 .. 2^cb - 1`, of exactly the
bits `b` that are set, bit by bit in increasing order, and then `MBDS_DONE`;
the list is strictly increasing and the words of the bitmap are unchanged. -/
theorem bm_get_blocknr_yields_out_of_sync (MBDS_DONE LN2_BPL fuel : Nat) (sbm : BitMap)
    (ln2_block_size : Nat)
    (hln : ln2_block_size ≤ BM_BLOCK_SIZE_B)
    (hsize : sbm.size = sbm.bm.length * sizeof_long LN2_BPL)
    (hne : 0 < sbm.bm.length)
    (hfit : sbm.bm.length * BITS_PER_LONG LN2_BPL * 2 ^ (BM_BLOCK_SIZE_B - ln2_block_size) ≤
      2 ^ BITS_PER_LONG LN2_BPL)
    (hf1 : BITS_PER_LONG LN2_BPL ≤ fuel) (hf2 : sbm.bm.length < fuel) :
    ∃ s0 s1, bm_reset sbm ln2_block_size = some s0 ∧ s0.bm = sbm.bm ∧
      bm_get_blocknr_calls MBDS_DONE LN2_BPL fuel
        ((bm_out_of_sync LN2_BPL sbm).length * 2 ^ (BM_BLOCK_SIZE_B - ln2_block_size) + 1)
        s0 ln2_block_size =
        some (s1, (bm_out_of_sync LN2_BPL sbm).flatMap
          (bm_blocks (BM_BLOCK_SIZE_B - ln2_block_size)) ++ [MBDS_DONE]) ∧
      s1.bm = sbm.bm ∧
      List.Pairwise (fun a b => a < b)
        ((bm_out_of_sync LN2_BPL sbm).flatMap (bm_blocks (BM_BLOCK_SIZE_B - ln2_block_size))) ∧
      ∀ b, b ∈ bm_out_of_sync LN2_BPL sbm ↔
        (b < sbm.bm.length * BITS_PER_LONG LN2_BPL ∧ bm_bit LN2_BPL sbm b = true) := by
  have hsl : 0 < sizeof_long LN2_BPL := Nat.pow_pos (by decide)
  have hlen : sbm.bm.length = sbm.size / sizeof_long LN2_BPL := by
    rw [hsize, Nat.mul_div_cancel _ hsl]
  unfold BITS_PER_LONG at hfit hf1
  rw [hlen] at hfit hf2
  obtain ⟨s0, s1, h0, h1, h2, h3⟩ :=
    bm_iterate MBDS_DONE LN2_BPL fuel sbm ln2_block_size hln hlen hne hf1 hf2 hfit
  refine ⟨s0, s1, h0, h1, h2, h3,
    bm_blocks_sorted _ _ (bm_out_of_sync_sorted LN2_BPL sbm), ?_⟩
  intro b
  unfold bm_out_of_sync BITS_PER_LONG
  rw [List.mem_filter, List.mem_range'_1, ← hlen]
  constructor
  · rintro ⟨⟨_, hb⟩, hbit⟩
    exact ⟨by omega, hbit⟩
  · rintro ⟨hb, hbit⟩
    exact ⟨⟨Nat.zero_le _, by omega⟩, hbit⟩

/-- C13, witness: a bitmap of one 64-bit word with the bits 0, 3 and 63 set and
blocks of 2048 bytes (`cb = 1`); the calls return 0, 1, 6, 7, 126, 127 and then
`MBDS_DONE`. -/
theorem bm_get_blocknr_yields_out_of_sync_witness :
    11 ≤ BM_BLOCK_SIZE_B ∧ bm_sparse.size = bm_sparse.bm.length * sizeof_long 6 ∧
    0 < bm_sparse.bm.length ∧
    bm_sparse.bm.length * BITS_PER_LONG 6 * 2 ^ (BM_BLOCK_SIZE_B - 11) ≤ 2 ^ BITS_PER_LONG 6 ∧
    BITS_PER_LONG 6 ≤ 64 ∧ bm_sparse.bm.length < 64 ∧
    ∃ s0 s1, bm_reset bm_sparse 11 = some s0 ∧ s0.bm = bm_sparse.bm ∧
      bm_get_blocknr_calls (2 ^ 64 - 3) 6 64
        ((bm_out_of_sync 6 bm_sparse).length * 2 ^ (BM_BLOCK_SIZE_B - 11) + 1) s0 11 =
        some (s1, (bm_out_of_sync 6 bm_sparse).flatMap
          (bm_blocks (BM_BLOCK_SIZE_B - 11)) ++ [2 ^ 64 - 3]) ∧
      s1.bm = bm_sparse.bm ∧
      List.Pairwise (fun a b => a < b)
        ((bm_out_of_sync 6 bm_sparse).flatMap (bm_blocks (BM_BLOCK_SIZE_B - 11))) ∧
      ∀ b, b ∈ bm_out_of_sync 6 bm_sparse ↔
        (b < bm_sparse.bm.length * BITS_PER_LONG 6 ∧ bm_bit 6 bm_sparse b = true) :=
  ⟨by decide, by decide, by decide, by decide, by decide, by decide,
    bm_get_blocknr_yields_out_of_sync (2 ^ 64 - 3) 6 64 bm_sparse 11
      (by decide) (by decide) (by decide) (by decide) (by decide) (by decide)⟩

/-- The blocks that the bits of `bm_sparse` stand for with blocks of 2048 bytes. -/
theorem bm_sparse_blocks :
    (bm_out_of_sync 6 bm_sparse).flatMap (bm_blocks (BM_BLOCK_SIZE_B - 11)) =
      [0, 1, 6, 7, 126, 127] := by decide

/-! ## Ack discipline -/

theorem done_of_append (a b : List Event) : done_of (a ++ b) = done_of a ++ done_of b := by
  simp [done_of, List.filterMap_append]

theorem leaves_req_refl (req : Nat) (w : World) : leaves_req req w w :=
  ⟨rfl, rfl, [], by simp, by simp [done_of]⟩

theorem leaves_req_trans {req : Nat} {w w1 w2 : World} (h1 : leaves_req req w w1)
    (h2 : leaves_req req w1 w2) : leaves_req req w w2 := by
  obtain ⟨a1, a2, d1, a3, a4⟩ := h1
  obtain ⟨b1, b2, d2, b3, b4⟩ := h2
  refine ⟨b1.trans a1, b2.trans a2, d1 ++ d2, ?_, ?_⟩
  · rw [b3, a3, List.append_assoc]
  · rw [done_of_append, List.mem_append]
    rintro (h | h)
    · exact a4 h
    · exact b4 h

theorem keeps_waiting_refl (req : Nat) (w : World) : keeps_waiting req w w :=
  ⟨rfl, [], by simp, fun h => ⟨h, by simp [done_of]⟩⟩

theorem keeps_waiting_trans {req : Nat} {w w1 w2 : World} (h1 : keeps_waiting req w w1)
    (h2 : keeps_waiting req w1 w2) : keeps_waiting req w w2 := by
  obtain ⟨a1, d1, a3, a4⟩ := h1
  obtain ⟨b1, d2, b3, b4⟩ := h2
  refine ⟨b1.trans a1, d1 ++ d2, ?_, ?_⟩
  · rw [b3, a3, List.append_assoc]
  · intro h
    obtain ⟨h1, n1⟩ := a4 h
    obtain ⟨h2, n2⟩ := b4 h1
    refine ⟨h2, ?_⟩
    rw [done_of_append, List.mem_append]
    rintro (h | h)
    · exact n1 h
    · exact n2 h

theorem leaves_req_keeps {req : Nat} {w w1 : World} (h : leaves_req req w w1) :
    keeps_waiting req w w1 := by
  obtain ⟨a1, a2, d, a3, a4⟩ := h
  refine ⟨a1, d, a3, fun h => ⟨?_, a4⟩⟩
  unfold awaits_ack at *
  rw [a2]
  exact h

/-- The five ways `drbd_send` ends. -/
theorem drbd_send_cases (w : World) (cmd : Drbd_Packet_Cmd) (a b hs ds : Nat) (o : SendOutcome) :
    ((w.mdev.sock = false ∨ w.mdev.cstate.toNat < Drbd_CState.WFReportParams.toNat) ∧
      (drbd_send w cmd a b hs ds o).1 = w ∧ (drbd_send w cmd a b hs ds o).2 < 0) ∨
    (w.mdev.sock = true ∧ Drbd_CState.WFReportParams.toNat ≤ w.mdev.cstate.toNat ∧
      (((drbd_send w cmd a b hs ds o).1 =
          { w with mdev := set_cstate w.mdev Drbd_CState.Timeout,
                   trace := w.trace ++ [Event.send cmd a b hs ds o.err,
                     Event.printk Msg.send_timed_out, Event.restart_receiver] } ∧
        (drbd_send w cmd a b hs ds o).2 = -1002) ∨
       ((drbd_send w cmd a b hs ds o).1 =
          { w with mdev := set_cstate w.mdev Drbd_CState.BrokenPipe,
                   trace := w.trace ++ [Event.send cmd a b hs ds o.err,
                     Event.printk (Msg.sock_sendmsg_returned o.err), Event.restart_receiver] } ∧
        (drbd_send w cmd a b hs ds o).2 = -1003) ∨
       ((drbd_send w cmd a b hs ds o).1 =
          { w with trace := w.trace ++ [Event.send cmd a b hs ds o.err,
                     Event.printk (Msg.sock_sendmsg_returned o.err)] } ∧
        (drbd_send w cmd a b hs ds o).2 = o.err ∧ 0 ≤ o.err ∧ o.err ≠ ((hs + ds : Nat) : Int)) ∨
       ((drbd_send w cmd a b hs ds o).1 =
          { w with trace := w.trace ++ [Event.send cmd a b hs ds o.err] } ∧
        (drbd_send w cmd a b hs ds o).2 = o.err ∧ o.err = ((hs + ds : Nat) : Int)))) := by
  unfold drbd_send
  dsimp only
  by_cases h1 : w.mdev.sock = false
  · left
    rw [if_pos h1]
    exact ⟨Or.inl h1, rfl, by show (-1000 : Int) < 0; decide⟩
  · rw [if_neg h1]
    by_cases h2 : w.mdev.cstate.toNat < Drbd_CState.WFReportParams.toNat
    · left
      rw [if_pos h2]
      exact ⟨Or.inr h2, rfl, by show (-1001 : Int) < 0; decide⟩
    · right
      rw [if_neg h2]
      refine ⟨by simpa using h1, by omega, ?_⟩
      by_cases h3 : w.mdev.timeout ≠ 0 ∧ o.signalled = true
      · left
        rw [if_pos h3]
        refine ⟨?_, rfl⟩
        simp only [List.append_assoc, List.singleton_append, List.cons_append, List.nil_append]
      · right
        rw [if_neg h3]
        by_cases h4 : o.err ≠ ((hs + ds : Nat) : Int)
        · rw [if_pos h4]
          by_cases h5 : o.err < 0
          · left
            rw [if_pos h5]
            refine ⟨?_, rfl⟩
            simp only [List.append_assoc, List.singleton_append, List.cons_append, List.nil_append]
          · right; left
            rw [if_neg h5]
            refine ⟨?_, rfl, by omega, h4⟩
            simp only [List.append_assoc, List.singleton_append, List.cons_append, List.nil_append]
        · rw [if_neg h4]
          have h4b : o.err = ((hs + ds : Nat) : Int) := by
            by_contra hc; exact h4 hc
          have h5 : ¬ o.err < 0 := by omega
          right; right
          rw [if_neg h5]
          exact ⟨rfl, rfl, h4b⟩

theorem drbd_send_leaves (req : Nat) (w : World) (cmd : Drbd_Packet_Cmd) (a b hs ds : Nat)
    (o : SendOutcome) : leaves_req req w (drbd_send w cmd a b hs ds o).1 := by
  rcases drbd_send_cases w cmd a b hs ds o with ⟨_, h, _⟩ | ⟨_, _, ⟨h, _⟩ | ⟨h, _⟩ | ⟨h, _⟩ | ⟨h, _⟩⟩
  · rw [h]; exact leaves_req_refl req w
  all_goals
    rw [h]
    exact ⟨rfl, rfl, _, rfl, by simp [done_of]⟩

theorem tl_add_leaves (req : Nat) (w : World) (x : Nat) : leaves_req req w (tl_add w x) := by
  refine ⟨rfl, rfl, _, rfl, ?_⟩
  dsimp only
  split <;> simp [done_of]

theorem tl_add_barrier_leaves (req : Nat) (w : World) :
    leaves_req req w (tl_add_barrier w).1 := by
  refine ⟨rfl, rfl, _, rfl, ?_⟩
  dsimp only
  split <;> simp [done_of]

/-- A change of the device state that keeps the protocol. -/
theorem leaves_req_mdev (req : Nat) (w : World) (m : Drbd_Conf)
    (hp : m.wire_protocol = w.mdev.wire_protocol) : leaves_req req w { w with mdev := m } :=
  ⟨hp, rfl, [], by simp, by simp [done_of]⟩

/-- Events that are no completion of `req`, appended to the trace. -/
theorem leaves_req_trace (req : Nat) (w : World) (d : List Event) (h : req ∉ done_of d) :
    leaves_req req w { w with trace := w.trace ++ d } :=
  ⟨rfl, rfl, d, rfl, h⟩

theorem _drbd_send_barrier_leaves (req : Nat) (w : World) (o : SendOutcome) :
    leaves_req req w (_drbd_send_barrier w o).1 := by
  unfold _drbd_send_barrier
  dsimp only
  have h1 := leaves_req_trans (tl_add_barrier_leaves req w)
    (drbd_send_leaves req (tl_add_barrier w).1 Drbd_Packet_Cmd.Barrier (tl_add_barrier w).2 0
      sizeof_Drbd_Barrier_Packet 0 o)
  split
  · exact leaves_req_trans h1 (leaves_req_mdev req _ (inc_pending _) rfl)
  · exact h1

theorem test_and_send_barrier_leaves (req : Nat) (w : World) (o : SendOutcome) :
    leaves_req req w (test_and_send_barrier w o) := by
  unfold test_and_send_barrier
  split
  · exact leaves_req_trans
      (leaves_req_mdev req w { w.mdev with flags := clear_bit ISSUE_BARRIER w.mdev.flags } rfl)
      (_drbd_send_barrier_leaves req _ o)
  · exact leaves_req_refl req w

theorem drbd_send_data_logged_leaves (req : Nat) (w : World) (ret : Int) (ds bn id : Nat) :
    leaves_req req w (drbd_send_data_logged w ret ds bn id).1 := by
  unfold drbd_send_data_logged
  split
  · split
    · dsimp only
      split
      · exact leaves_req_trans (tl_add_leaves req w id) (leaves_req_mdev req _ (inc_pending _) rfl)
      · exact tl_add_leaves req w id
    · exact leaves_req_trace req w _ (by simp [done_of])
  · exact leaves_req_refl req w

theorem drbd_send_data_leaves (req : Nat) (w : World) (ds bn id : Nat) (ob od : SendOutcome) :
    leaves_req req w (drbd_send_data w ds bn id ob od).1 := by
  unfold drbd_send_data
  dsimp only
  exact leaves_req_trans (leaves_req_trans (test_and_send_barrier_leaves req w ob)
    (drbd_send_leaves req _ Drbd_Packet_Cmd.Data bn id sizeof_Drbd_Data_Packet ds od))
    (drbd_send_data_logged_leaves req _ _ ds bn id)

theorem ds_buffer_send_one_leaves (req : Nat) (w : World) (bs bn : Nat) (ob od : SendOutcome) :
    leaves_req req w (ds_buffer_send_one w bs bn ob od) := by
  unfold ds_buffer_send_one
  dsimp only
  have h := drbd_send_data_leaves req w bs bn ID_SYNCER ob od
  split
  · exact leaves_req_trans h (leaves_req_trace req _ _ (by simp [done_of]))
  · exact leaves_req_trans h (leaves_req_mdev req _ _ rfl)

/-- What `end_it_unlocked` does when it returns. -/
theorem end_it_unlocked_returns (fuel : Nat) (w w1 : World) (req uptodate : Nat) (wake : Bool)
    (h : end_it_unlocked fuel w req uptodate wake = some w1) :
    w1.mdev.wire_protocol = w.mdev.wire_protocol ∧
    w1.reqs = (set_rq_status w req RQ_INACTIVE).reqs ∧
    ∃ tail, w1.trace = w.trace ++ Event.end_request req (uptodate &&& (w.reqs req).rq_status)
        :: tail ∧ (∀ e ∈ tail, e = Event.panic ∨ e = Event.wake_asender) := by
  unfold end_it_unlocked at h
  simp only at h
  split at h
  · exact Option.noConfusion h
  · next d _ =>
    cases d
    · simp only [Bool.false_eq_true, if_false, Bool.or_false] at h
      split at h
      · cases h
        exact ⟨rfl, rfl, [Event.panic], by simp [end_that_request], by simp⟩
      · split at h
        · cases h
          exact ⟨rfl, rfl, [Event.wake_asender], by simp [end_that_request], by simp⟩
        · cases h
          exact ⟨rfl, rfl, [], by simp [end_that_request], by simp⟩
    · simp only [if_true, Bool.or_true] at h
      split at h
      · cases h
        exact ⟨rfl, rfl, [Event.panic], by simp [end_that_request, set_rq_status], by simp⟩
      · cases h
        exact ⟨rfl, rfl, [Event.wake_asender], by simp [end_that_request, set_rq_status],
          by simp⟩

theorem done_of_end_request (req ok : Nat) (tail : List Event)
    (h : ∀ e ∈ tail, e = Event.panic ∨ e = Event.wake_asender) :
    done_of (Event.end_request req ok :: tail) = [req] := by
  have ht : done_of tail = [] := by
    induction tail with
    | nil => rfl
    | cons e t ih =>
      have he := h e (List.mem_cons_self _ _)
      have iht := ih (fun x hx => h x (List.mem_cons_of_mem _ hx))
      rcases he with rfl | rfl
      · simpa [done_of] using iht
      · simpa [done_of] using iht
  have : done_of (Event.end_request req ok :: tail) = req :: done_of tail := by
    simp [done_of]
  rw [this, ht]

/-- The completion of a request `r` leaves every other request alone. -/
theorem end_it_unlocked_leaves (fuel : Nat) (w w1 : World) (req r uptodate : Nat) (wake : Bool)
    (hne : r ≠ req) (h : end_it_unlocked fuel w r uptodate wake = some w1) :
    leaves_req req w w1 := by
  obtain ⟨a1, a2, tail, a3, a4⟩ := end_it_unlocked_returns fuel w w1 r uptodate wake h
  refine ⟨a1, ?_, _, a3, ?_⟩
  · rw [a2]
    unfold set_rq_status
    exact req_update_ne _ _ _ _ (Ne.symm hne)
  · rw [done_of_end_request r _ tail a4]
    simp
    exact Ne.symm hne

theorem drbd_end_req_leaves (fuel : Nat) (w w1 : World) (req r nextstate uptodate : Nat)
    (hne : r ≠ req) (h : drbd_end_req fuel w r nextstate uptodate = some w1) :
    leaves_req req w w1 := by
  unfold drbd_end_req at h
  simp only at h
  have hset : ∀ v, leaves_req req w (set_rq_status w r v) := fun v =>
    ⟨rfl, req_update_ne _ _ _ _ (Ne.symm hne), [], by simp [set_rq_status], by simp [done_of]⟩
  split at h
  · exact end_it_unlocked_leaves _ _ _ _ _ _ _ hne h
  · split at h
    · exact end_it_unlocked_leaves _ _ _ _ _ _ _ hne h
    · split at h
      · cases h; exact hset _
      · split at h
        · split at h
          · exact end_it_unlocked_leaves _ _ _ _ _ _ _ hne h
          · cases h; exact leaves_req_trace req w _ (by simp [done_of])
        · split at h
          · split at h
            · exact end_it_unlocked_leaves _ _ _ _ _ _ _ hne h
            · cases h; exact leaves_req_trace req w _ (by simp [done_of])
          · cases h; exact leaves_req_trace req w _ (by simp [done_of])

theorem written_or_bit (u : Nat) :
    (RQ_DRBD_WRITTEN ||| (if u ≠ 0 then 1 else 0)) &&& 0xfffe = RQ_DRBD_WRITTEN := by
  split <;> decide

/-- The end of the local write never completes a request that waits for its
acknowledgement. -/
theorem drbd_end_req_written_keeps (fuel : Nat) (w w1 : World) (req uptodate : Nat)
    (h : drbd_end_req fuel w req RQ_DRBD_WRITTEN uptodate = some w1) :
    keeps_waiting req w w1 := by
  by_cases hw : awaits_ack w req
  · obtain ⟨hc, hs⟩ := hw
    unfold drbd_end_req at h
    simp only at h
    have hr : ¬ (w.reqs req).cmd = READ := by rw [hc]; decide
    rw [if_neg hr] at h
    rcases hs with hs | hs
    · rw [hs] at h
      simp only [show ¬ RQ_DRBD_NOTHING = RQ_DRBD_SEC_WRITE by decide, if_false, if_true] at h
      cases h
      refine ⟨rfl, [], by simp [set_rq_status], fun _ => ⟨?_, by simp [done_of]⟩⟩
      refine ⟨?_, Or.inr ?_⟩
      · rw [set_rq_status_cmd]; exact hc
      · rw [set_rq_status_status, if_pos rfl]
        exact written_or_bit uptodate
    · rw [hs] at h
      simp only [show ¬ RQ_DRBD_WRITTEN = RQ_DRBD_SEC_WRITE by decide,
        show ¬ RQ_DRBD_WRITTEN = RQ_DRBD_NOTHING by decide,
        show ¬ RQ_DRBD_WRITTEN = RQ_DRBD_SENT by decide, if_false, if_true] at h
      cases h
      exact leaves_req_keeps (leaves_req_trace req w _ (by simp [done_of]))
  · -- nothing is claimed for a request that does not wait
    have hp : w1.mdev.wire_protocol = w.mdev.wire_protocol := by
      have := drbd_end_req_frame fuel w w1 req RQ_DRBD_WRITTEN uptodate h
      unfold log_step at this
      rw [this]
    unfold drbd_end_req at h
    simp only at h
    have key : ∀ u wk, end_it_unlocked fuel w req u wk = some w1 →
        ∃ d, w1.trace = w.trace ++ d := by
      intro u wk hh
      obtain ⟨_, _, tail, a3, _⟩ := end_it_unlocked_returns fuel w w1 req u wk hh
      exact ⟨_, a3⟩
    have htr : ∃ d, w1.trace = w.trace ++ d := by
      split at h
      · exact key _ _ h
      · split at h
        · exact key _ _ h
        · split at h
          · cases h; exact ⟨[], by simp [set_rq_status]⟩
          · split at h
            · split at h
              · exact key _ _ h
              · cases h; exact ⟨_, rfl⟩
            · split at h
              · split at h
                · exact key _ _ h
                · cases h; exact ⟨_, rfl⟩
              · cases h; exact ⟨_, rfl⟩
    obtain ⟨d, hd⟩ := htr
    exact ⟨hp, d, hd, fun hx => absurd hx hw⟩

theorem done_of_printk (d : List Event) (h : ∀ e ∈ d, ∃ m, e = Event.printk m) :
    done_of d = [] := by
  induction d with
  | nil => rfl
  | cons e t ih =>
    obtain ⟨m, rfl⟩ := h e (List.mem_cons_self _ _)
    have := ih (fun x hx => h x (List.mem_cons_of_mem _ hx))
    simpa [done_of] using this

theorem tl_release_loop_trace : ∀ (fuel : Nat) (mdev : Drbd_Conf) (b : Nat) (es : Int)
    (tr : List Event) (b1 : Nat) (es1 : Int) (tr1 : List Event),
    tl_release_loop fuel mdev b es tr = some (b1, es1, tr1) →
    ∃ x, tr1 = tr ++ x ∧ ∀ e ∈ x, e = Event.printk Msg.tl_messed_up := by
  intro fuel
  induction fuel with
  | zero => intro mdev b es tr b1 es1 tr1 h; exact Option.noConfusion h
  | succ f ih =>
    intro mdev b es tr b1 es1 tr1 h
    unfold tl_release_loop at h
    dsimp only at h
    generalize (if b + 1 = mdev.tl_size then 0 else b + 1) = b2 at h
    have hstep : ∃ y, (if b2 = mdev.tl_end
        then tr ++ [Event.printk Msg.tl_messed_up] else tr) = tr ++ y ∧
        ∀ e ∈ y, e = Event.printk Msg.tl_messed_up := by
      by_cases hb : b2 = mdev.tl_end
      · rw [if_pos hb]
        exact ⟨_, rfl, by simp⟩
      · rw [if_neg hb]
        exact ⟨[], by simp, by simp⟩
    obtain ⟨y, hy, hy2⟩ := hstep
    rw [hy] at h
    by_cases hbar : (tl_at mdev b2).req ≠ TL_BARRIER
    · rw [if_pos hbar] at h
      obtain ⟨x, hx, hx2⟩ := ih _ _ _ _ _ _ _ h
      refine ⟨y ++ x, by rw [hx, List.append_assoc], ?_⟩
      intro e he
      rcases List.mem_append.mp he with h1 | h1
      · exact hy2 e h1
      · exact hx2 e h1
    · rw [if_neg hbar] at h
      cases h
      exact ⟨y, rfl, hy2⟩

/-- What `tl_release` does when it returns: it moves `tl_begin` and prints. -/
theorem tl_release_returns (fuel : Nat) (w w1 : World) (nr sz : Nat)
    (h : tl_release fuel w nr sz = some w1) :
    ∃ b d, w1 = { w with mdev := { w.mdev with tl_begin := b }, trace := w.trace ++ d } ∧
      (∀ e ∈ d, ∃ m, e = Event.printk m) := by
  unfold tl_release at h
  dsimp only at h
  split at h
  · exact Option.noConfusion h
  · next b es tr heq =>
    obtain ⟨x, hx, hx2⟩ := tl_release_loop_trace _ _ _ _ _ _ _ _ heq
    cases h
    refine ⟨b, _, rfl, ?_⟩
    rw [hx]
    intro e he
    have hx3 : ∀ e ∈ ([] : List Event) ++ x, ∃ m, e = Event.printk m := by
      intro e he
      rw [List.nil_append] at he
      exact ⟨_, hx2 e he⟩
    split at he
    · rcases List.mem_append.mp he with h1 | h1
      · split at h1
        · rcases List.mem_append.mp h1 with h2 | h2
          · exact hx3 e h2
          · exact ⟨_, List.mem_singleton.mp h2⟩
        · exact hx3 e h1
      · exact ⟨_, List.mem_singleton.mp h1⟩
    · split at he
      · rcases List.mem_append.mp he with h2 | h2
        · exact hx3 e h2
        · exact ⟨_, List.mem_singleton.mp h2⟩
      · exact hx3 e he

theorem tl_release_leaves (req fuel : Nat) (w w1 : World) (nr sz : Nat)
    (h : tl_release fuel w nr sz = some w1) : leaves_req req w w1 := by
  obtain ⟨b, d, rfl, hd⟩ := tl_release_returns fuel w w1 nr sz h
  exact ⟨rfl, rfl, d, rfl, by rw [done_of_printk d hd]; simp⟩

theorem drbd_do_request_disk_frame (w : World) (r : Nat) :
    (drbd_do_request_disk w r).mdev.wire_protocol = w.mdev.wire_protocol ∧
    (∀ x, x ≠ r → (drbd_do_request_disk w r).reqs x = w.reqs x) ∧
    ∃ d, (drbd_do_request_disk w r).trace = w.trace ++ d ∧ done_of d = [] := by
  unfold drbd_do_request_disk
  dsimp only
  refine ⟨?_, ?_, ?_⟩
  · split <;> rfl
  · intro x hx
    exact req_update_ne _ _ _ _ hx
  · refine ⟨_, List.append_assoc _ _ _, ?_⟩
    split <;> simp [done_of]

theorem drbd_do_request_disk_leaves (req : Nat) (w : World) (r : Nat) (hne : r ≠ req) :
    leaves_req req w (drbd_do_request_disk w r) := by
  obtain ⟨h1, h2, d, h3, h4⟩ := drbd_do_request_disk_frame w r
  exact ⟨h1, h2 req (Ne.symm hne), d, h3, by rw [h4]; simp⟩

theorem drbd_do_request_net_leaves (req fuel : Nat) (w w1 : World) (r : Nat) (ob od : SendOutcome)
    (hne : r ≠ req) (h : drbd_do_request_net fuel w r ob od = some w1) :
    leaves_req req w w1 := by
  have key : ∀ (ws : World × Int) (n : Nat), leaves_req req w ws.1 → ∀ w3 : World,
      w3 = (if ws.2 ≠ 0
        then { ws.1 with mdev := { ws.1.mdev with send_cnt := (ws.1.mdev.send_cnt + n) % 2 ^ 32 } }
        else ws.1) →
      (if w3.mdev.wire_protocol = DRBD_PROT_A ∨ ws.2 = 0
        then drbd_end_req fuel w3 r RQ_DRBD_SENT 1 else some w3) = some w1 →
      leaves_req req w w1 := by
    intro ws n h1 w3 hw3 h
    have h2 : leaves_req req w w3 := by
      rw [hw3]
      split
      · exact leaves_req_trans h1 (leaves_req_mdev req _ _ rfl)
      · exact h1
    split at h
    · exact leaves_req_trans h2 (drbd_end_req_leaves _ _ _ _ _ _ _ hne h)
    · cases h
      exact h2
  exact key _ _ (drbd_send_data_leaves req w _ _ r ob od) _ rfl h

/-- Every action but the acknowledgement of `req`, a new submission of its
structure and `tl_clear` leaves a waiting request waiting. -/
theorem exec_keeps_waiting (fuel : Nat) (w w1 : World) (req : Nat) (a : Action)
    (ha : not_acking req a) (h : exec fuel w a = some w1) : keeps_waiting req w w1 := by
  cases a with
  | do_request r rq k ob od =>
    have hne : r ≠ req := ha
    simp only [exec] at h
    have h0 : leaves_req req w { w with reqs := req_update w.reqs r rq } :=
      ⟨rfl, req_update_ne _ _ _ _ (Ne.symm hne), [], by simp, by simp [done_of]⟩
    unfold drbd_do_request at h
    split at h
    · cases h
      exact leaves_req_keeps (leaves_req_trans h0 (leaves_req_trace req _ _ (by simp [done_of])))
    · split at h
      · exact leaves_req_keeps (leaves_req_trans h0 (leaves_req_trans
          (drbd_do_request_disk_leaves req _ r hne)
          (drbd_do_request_net_leaves req fuel _ _ r ob od hne h)))
      · cases h
        exact leaves_req_keeps (leaves_req_trans h0 (drbd_do_request_disk_leaves req _ r hne))
  | dio_end r u =>
    simp only [exec, drbd_dio_end] at h
    by_cases hr : r = req
    · subst hr
      exact drbd_end_req_written_keeps fuel w w1 r u h
    · exact leaves_req_keeps (drbd_end_req_leaves _ _ _ _ _ _ _ hr h)
  | block_ack bn id =>
    have hne : id ≠ req := ha
    simp only [exec] at h
    unfold receive_block_ack at h
    dsimp only at h
    have h0 : leaves_req req w (if w.mdev.state ≠ Drbd_State.Primary
        then { w with trace := w.trace ++ [Event.printk Msg.got_blk_ack_while_not_PRI] }
        else w) := by
      split
      · exact leaves_req_trace req w _ (by simp [done_of])
      · exact leaves_req_refl req w
    split at h
    · simp only [Option.map_some', Option.some.injEq] at h
      subst h
      exact leaves_req_keeps (leaves_req_trans h0 (leaves_req_trace req _ _ (by simp [done_of])))
    · split at h
      · exact Option.noConfusion h
      · next w2 heq =>
        simp only [Option.map_some', Option.some.injEq] at h
        subst h
        have h1 := leaves_req_trans h0 (drbd_end_req_leaves _ _ _ _ _ _ _ hne heq)
        split
        · exact leaves_req_keeps (leaves_req_trans h1 (leaves_req_mdev req _ (dec_pending _) rfl))
        · exact leaves_req_keeps h1
  | barrier_ack nr sz =>
    simp only [exec] at h
    unfold receive_barrier_ack at h
    dsimp only at h
    have h0 : leaves_req req w (if w.mdev.state ≠ Drbd_State.Primary
        then { w with trace := w.trace ++ [Event.printk Msg.got_barrier_ack_while_not_PRI] }
        else w) := by
      split
      · exact leaves_req_trace req w _ (by simp [done_of])
      · exact leaves_req_refl req w
    split at h
    · exact Option.noConfusion h
    · next w2 heq =>
      simp only [Option.map_some', Option.some.injEq] at h
      subst h
      exact leaves_req_keeps (leaves_req_trans (leaves_req_trans h0
        (tl_release_leaves req _ _ _ _ _ heq)) (leaves_req_mdev req _ (dec_pending _) rfl))
  | asender o =>
    simp only [exec, Option.some.injEq] at h
    subst h
    exact leaves_req_keeps (test_and_send_barrier_leaves req w o)
  | sync_data bs bn ob od =>
    simp only [exec, Option.some.injEq] at h
    subst h
    exact leaves_req_keeps (ds_buffer_send_one_leaves req w bs bn ob od)
  | tl_clear => exact absurd ha (by simp [not_acking])

theorem run_keeps_waiting (fuel : Nat) (req : Nat) : ∀ (acts : List Action) (w w1 : World),
    (∀ a ∈ acts, not_acking req a) → run fuel acts w = some w1 → keeps_waiting req w w1 := by
  intro acts
  induction acts with
  | nil =>
    intro w w1 _ h
    unfold run at h
    cases h
    exact keeps_waiting_refl req w
  | cons a t ih =>
    intro w w1 ha h
    unfold run at h
    split at h
    · exact Option.noConfusion h
    · next w2 heq =>
      exact keeps_waiting_trans
        (exec_keeps_waiting fuel w w2 req a (ha a (List.mem_cons_self _ _)) heq)
        (ih w2 w1 (fun x hx => ha x (List.mem_cons_of_mem _ hx)) h)

/-- The step of `drbd_do_request` that hands a write to the peer under a
protocol other than A leaves the request waiting, not completed. -/
theorem drbd_do_request_handed (fuel : Nat) (w0 wm : World) (req : Nat) (r : request)
    (ob od : SendOutcome) (hprot : w0.mdev.wire_protocol ≠ DRBD_PROT_A)
    (hsent : handed_to_peer { w0 with reqs := req_update w0.reqs req r } req ob od)
    (hstep : exec fuel w0 (Action.do_request req r true ob od) = some wm) :
    wm.mdev.wire_protocol = w0.mdev.wire_protocol ∧ awaits_ack wm req ∧
    ∃ d, wm.trace = w0.trace ++ d ∧ req ∉ done_of d := by
  obtain ⟨hs1, hs2⟩ := hsent
  simp only [exec] at hstep
  unfold drbd_do_request at hstep
  rw [if_neg (by simp), if_pos hs1] at hstep
  unfold drbd_do_request_net at hstep
  dsimp only at hstep
  obtain ⟨f1, f2, d1, f3, f4⟩ :=
    drbd_do_request_disk_frame { w0 with reqs := req_update w0.reqs req r } req
  have hreq := drbd_do_request_disk_req { w0 with reqs := req_update w0.reqs req r } req
  rw [if_pos hs1] at hreq
  have hrr : ({ w0 with reqs := req_update w0.reqs req r } : World).reqs req = r :=
    req_update_same _ _ _
  rw [hrr] at hreq
  have hcmd : r.cmd = WRITE := by
    unfold drbd_do_request_sending at hs1
    rw [decide_eq_true_eq, hrr] at hs1
    exact hs1.1
  have hbs : (drbd_do_request_disk { w0 with reqs := req_update w0.reqs req r } req).mdev.blk_size_b
      = w0.mdev.blk_size_b := by
    unfold drbd_do_request_disk
    dsimp only
    split <;> rfl
  rw [hreq] at hstep
  dsimp only at hstep
  rw [hbs] at hstep
  rw [hrr] at hs2
  dsimp only at hs2
  obtain ⟨g1, g2, d2, g3, g4⟩ := drbd_send_data_leaves req
    (drbd_do_request_disk { w0 with reqs := req_update w0.reqs req r } req)
    (r.current_nr_sectors <<< 9) (r.sector >>> (w0.mdev.blk_size_b - 9)) req ob od
  rw [if_pos hs2] at hstep
  dsimp only at hstep
  have hp : (drbd_send_data (drbd_do_request_disk { w0 with reqs := req_update w0.reqs req r } req)
      (r.current_nr_sectors <<< 9) (r.sector >>> (w0.mdev.blk_size_b - 9)) req ob od).1.mdev.wire_protocol
      = w0.mdev.wire_protocol := by rw [g1, f1]
  rw [if_neg (by rw [hp]; exact fun h => h.elim hprot hs2)] at hstep
  cases hstep
  refine ⟨hp, ⟨?_, Or.inl ?_⟩, d1 ++ d2, ?_, ?_⟩
  · show ((drbd_send_data _ _ _ _ _ _).1.reqs req).cmd = WRITE
    rw [g2, hreq]
    exact hcmd
  · show ((drbd_send_data _ _ _ _ _ _).1.reqs req).rq_status &&& 0xfffe = RQ_DRBD_NOTHING
    rw [g2, hreq]
    show RQ_DRBD_NOTHING &&& 0xfffe = RQ_DRBD_NOTHING
    decide
  · show (drbd_send_data _ _ _ _ _ _).1.trace = _
    rw [g3, f3, List.append_assoc]
  · rw [done_of_append, f4]
    exact g4

/-- C2, counterexample: under protocol C the write of sector 8 (request 101) is
sent to the peer and its local write finishes; the send of the next write
fails (`sock_sendmsg` returns -32), the connection is lost and the receiver
calls `tl_clear`, which completes request 101 with success although no
acknowledgement for it was ever received. -/
theorem tl_clear_completes_unacked_counterexample :
    world0.mdev.wire_protocol = DRBD_PROT_C ∧
    ∃ w, run 4 [Action.do_request 101 (rq_write 8) true barrier_taken data_taken,
        Action.dio_end 101 1,
        Action.do_request 102 (rq_write 16) true barrier_taken ⟨-32, false⟩,
        Action.tl_clear] world0 = some w ∧
      w.trace = [Event.ll_rw_block WRITE 101,
        Event.send Drbd_Packet_Cmd.Data 1 101 24 4096 4120,
        Event.ll_rw_block WRITE 102,
        Event.send Drbd_Packet_Cmd.Data 2 102 24 4096 (-32),
        Event.printk (Msg.sock_sendmsg_returned (-32)),
        Event.restart_receiver,
        Event.set_block_status 2 12 SS_OUT_OF_SYNC,
        Event.set_block_status 1 12 SS_OUT_OF_SYNC,
        Event.end_request 101 1] :=
  ⟨rfl, _, rfl, by decide⟩

/-- C2 (amended): under protocol C (and B: every protocol but A), once
`drbd_do_request` has handed a write to the peer, no sequence of the other
actions of the Primary (requests for other request structures, ends of local
writes with any result, acknowledgements of other blocks, barrier
acknowledgements, the asender, the syncer) completes it to the submitter: the
request still waits (`RQ_DRBD_SENT` is not recorded) and no
`end_that_request_first/last` for it is in the trace. Only the block
acknowledgement carrying its `block_id`, or `tl_clear` after the loss of the
connection, ends the wait. -/
theorem write_waits_for_ack (fuel : Nat) (w0 wm w : World) (req : Nat) (r : request)
    (ob od : SendOutcome) (post : List Action)
    (hprot : w0.mdev.wire_protocol ≠ DRBD_PROT_A)
    (hsent : handed_to_peer { w0 with reqs := req_update w0.reqs req r } req ob od)
    (hstep : exec fuel w0 (Action.do_request req r true ob od) = some wm)
    (hpost : ∀ a ∈ post, not_acking req a)
    (hrun : run fuel post wm = some w) :
    awaits_ack w req ∧ ∃ d, w.trace = w0.trace ++ d ∧ req ∉ done_of d := by
  obtain ⟨_, h1, d1, h2, h3⟩ := drbd_do_request_handed fuel w0 wm req r ob od hprot hsent hstep
  obtain ⟨_, d2, h4, h5⟩ := run_keeps_waiting fuel req post wm w hpost hrun
  obtain ⟨h6, h7⟩ := h5 h1
  refine ⟨h6, d1 ++ d2, by rw [h4, h2, List.append_assoc], ?_⟩
  rw [done_of_append, List.mem_append]
  rintro (h | h)
  · exact h3 h
  · exact h7 h

/-- C2 (amended), witness: the write of sector 8 under protocol C, followed by
the end of its local write and a run of the asender. -/
theorem write_waits_for_ack_witness :
    awaits_ack world_sent_written 101 ∧
    ∃ d, world_sent_written.trace = world0.trace ++ d ∧ 101 ∉ done_of d :=
  write_waits_for_ack 4 world0 world_sent world_sent_written 101 (rq_write 8) barrier_taken
    data_taken [Action.dio_end 101 1, Action.asender barrier_taken] (by decide)
    ⟨by decide, by decide⟩ rfl (by simp [not_acking]) rfl

/-! ## The meta-data record -/

theorem be32_roundtrip (x : Nat) : be32_to_cpu (cpu_to_be32 x) = x % 2 ^ 32 := by
  unfold be32_to_cpu cpu_to_be32
  simp only [List.getD_cons_zero, List.getD_cons_succ]
  omega

theorem md_buffer_eq (g : List Nat) :
    md_buffer g = cpu_to_be32 (g.getD 0 0) ++ cpu_to_be32 (g.getD 1 0) ++
      cpu_to_be32 (g.getD 2 0) ++ cpu_to_be32 (g.getD 3 0) ++ cpu_to_be32 (g.getD 4 0) ++
      cpu_to_be32 DRBD_MAGIC := by
  unfold md_buffer
  have h : (List.range (PrimaryInd + 1)).map (fun i => cpu_to_be32 (g.getD i 0)) =
      [cpu_to_be32 (g.getD 0 0), cpu_to_be32 (g.getD 1 0), cpu_to_be32 (g.getD 2 0),
        cpu_to_be32 (g.getD 3 0), cpu_to_be32 (g.getD 4 0)] := rfl
  rw [h]
  simp [List.flatten]

theorem cpu_to_be32_length (x : Nat) : (cpu_to_be32 x).length = 4 := rfl

theorem md_buffer_length (g : List Nat) : (md_buffer g).length = 24 := by
  rw [md_buffer_eq]
  simp [cpu_to_be32_length]

theorem md_word_buffer (g : List Nat) :
    md_word (md_buffer g) 0 = g.getD 0 0 % 2 ^ 32 ∧
    md_word (md_buffer g) 1 = g.getD 1 0 % 2 ^ 32 ∧
    md_word (md_buffer g) 2 = g.getD 2 0 % 2 ^ 32 ∧
    md_word (md_buffer g) 3 = g.getD 3 0 % 2 ^ 32 ∧
    md_word (md_buffer g) 4 = g.getD 4 0 % 2 ^ 32 ∧
    md_word (md_buffer g) 5 = DRBD_MAGIC := by
  have h : ∀ (a b c d e f : Nat),
      md_word (cpu_to_be32 a ++ cpu_to_be32 b ++ cpu_to_be32 c ++ cpu_to_be32 d ++
        cpu_to_be32 e ++ cpu_to_be32 f) 0 = be32_to_cpu (cpu_to_be32 a) ∧
      md_word (cpu_to_be32 a ++ cpu_to_be32 b ++ cpu_to_be32 c ++ cpu_to_be32 d ++
        cpu_to_be32 e ++ cpu_to_be32 f) 1 = be32_to_cpu (cpu_to_be32 b) ∧
      md_word (cpu_to_be32 a ++ cpu_to_be32 b ++ cpu_to_be32 c ++ cpu_to_be32 d ++
        cpu_to_be32 e ++ cpu_to_be32 f) 2 = be32_to_cpu (cpu_to_be32 c) ∧
      md_word (cpu_to_be32 a ++ cpu_to_be32 b ++ cpu_to_be32 c ++ cpu_to_be32 d ++
        cpu_to_be32 e ++ cpu_to_be32 f) 3 = be32_to_cpu (cpu_to_be32 d) ∧
      md_word (cpu_to_be32 a ++ cpu_to_be32 b ++ cpu_to_be32 c ++ cpu_to_be32 d ++
        cpu_to_be32 e ++ cpu_to_be32 f) 4 = be32_to_cpu (cpu_to_be32 e) ∧
      md_word (cpu_to_be32 a ++ cpu_to_be32 b ++ cpu_to_be32 c ++ cpu_to_be32 d ++
        cpu_to_be32 e ++ cpu_to_be32 f) 5 = be32_to_cpu (cpu_to_be32 f) := by
    intro a b c d e f
    refine ⟨rfl, rfl, rfl, rfl, rfl, rfl⟩
  rw [md_buffer_eq]
  obtain ⟨h0, h1, h2, h3, h4, h5⟩ := h (g.getD 0 0) (g.getD 1 0) (g.getD 2 0) (g.getD 3 0)
    (g.getD 4 0) DRBD_MAGIC
  rw [h0, h1, h2, h3, h4, h5]
  simp only [be32_roundtrip]
  refine ⟨trivial, trivial, trivial, trivial, trivial, by decide⟩

theorem list_eq_of_getD {g : List Nat} (hlen : g.length = 5) :
    g = [g.getD 0 0, g.getD 1 0, g.getD 2 0, g.getD 3 0, g.getD 4 0] := by
  match g, hlen with
  | [a, b, c, d, e], _ => rfl

theorem drbd_md_read_err_spec (w : World) (res : Option Int) :
    (drbd_md_read_err w res).mdev =
      { w.mdev with gen_cnt := [1, 1, 1, 1, if w.mdev.state = Drbd_State.Primary then 1 else 0] } ∧
    Event.printk Msg.error_reading_state_file ∈ (drbd_md_read_err w res).trace ∧
    (∀ i, res = some i → (drbd_md_read_err w res).md_file = some ((md_buffer
      [1, 1, 1, 1, if w.mdev.state = Drbd_State.Primary then 1 else 0]).take i.toNat)) := by
  unfold drbd_md_read_err drbd_md_write
  have hg : ((List.range PrimaryInd).map (fun _ => 1) ++
      [if w.mdev.state = Drbd_State.Primary then 1 else 0]).set PrimaryInd
        (if w.mdev.state = Drbd_State.Primary then 1 else 0) =
      [1, 1, 1, 1, if w.mdev.state = Drbd_State.Primary then 1 else 0] := rfl
  dsimp only
  rw [hg]
  cases res with
  | none =>
    dsimp only
    exact ⟨rfl, by simp, fun i h => Option.noConfusion h⟩
  | some i =>
    dsimp only
    split
    · refine ⟨rfl, by simp, ?_⟩
      intro j hj
      cases hj
      rfl
    · refine ⟨rfl, by simp, ?_⟩
      intro j hj
      cases hj
      rfl

/-- C27: the record that `drbd_md_write` stores when the file takes all 24
bytes is the six words `[Consistent, HumanCnt, ConnectedCnt, ArbitraryCnt,
PrimaryInd, 0x83740267]`, each as four bytes in network byte order, with
`PrimaryInd` 1 iff the role is Primary; and `drbd_md_read`, reading these 24
bytes back on any device state, takes exactly the five counters that were
written (the counters being `u32` values in an array of five). -/
theorem md_record_roundtrip (w w2 : World) (res : Option Int)
    (hlen : w.mdev.gen_cnt.length = 5) (hu32 : ∀ x ∈ w.mdev.gen_cnt, x < 2 ^ 32) :
    (drbd_md_write w (some 24)).md_file = some (md_buffer (drbd_md_write w (some 24)).mdev.gen_cnt) ∧
    md_buffer (drbd_md_write w (some 24)).mdev.gen_cnt =
      cpu_to_be32 (w.mdev.gen_cnt.getD Consistent 0) ++
      cpu_to_be32 (w.mdev.gen_cnt.getD HumanCnt 0) ++
      cpu_to_be32 (w.mdev.gen_cnt.getD ConnectedCnt 0) ++
      cpu_to_be32 (w.mdev.gen_cnt.getD ArbitraryCnt 0) ++
      cpu_to_be32 (if w.mdev.state = Drbd_State.Primary then 1 else 0) ++
      cpu_to_be32 0x83740267 ∧
    (md_buffer (drbd_md_write w (some 24)).mdev.gen_cnt).length = 24 ∧
    ((drbd_md_write w (some 24)).mdev.gen_cnt.getD PrimaryInd 0 = 1 ↔
      w.mdev.state = Drbd_State.Primary) ∧
    (drbd_md_read w2 (some (24, md_buffer (drbd_md_write w (some 24)).mdev.gen_cnt)) res).mdev.gen_cnt
      = (drbd_md_write w (some 24)).mdev.gen_cnt := by
  obtain ⟨hg, _⟩ := drbd_md_write_gen_cnt w (some 24)
  have hg5 := list_eq_of_getD hlen
  generalize hind : (if w.mdev.state = Drbd_State.Primary then 1 else 0) = ind at hg
  have hind2 : ind < 2 ^ 32 := by
    rw [← hind]; split <;> decide
  have hset : (drbd_md_write w (some 24)).mdev.gen_cnt =
      [w.mdev.gen_cnt.getD 0 0, w.mdev.gen_cnt.getD 1 0, w.mdev.gen_cnt.getD 2 0,
        w.mdev.gen_cnt.getD 3 0, ind] := by
    rw [hg, hg5]
    rfl
  have hb : ∀ i, w.mdev.gen_cnt.getD i 0 < 2 ^ 32 := by
    intro i
    rw [List.getD_eq_getElem?_getD]
    cases hi : w.mdev.gen_cnt[i]? with
    | none => simp
    | some x =>
      have := List.getElem?_mem hi
      simpa using hu32 x this
  refine ⟨?_, ?_, md_buffer_length _, ?_, ?_⟩
  · unfold drbd_md_write
    dsimp only
    rw [if_pos rfl]
    dsimp only
    have h24 : (24 : Int).toNat = 24 := rfl
    rw [h24, List.take_of_length_le (by rw [md_buffer_length])]
  · rw [hset, md_buffer_eq]
    rfl
  · rw [hset, ← hind]
    show (if w.mdev.state = Drbd_State.Primary then 1 else 0) = 1 ↔ _
    split
    · simp [*]
    · simp [*]
  · unfold drbd_md_read
    dsimp only
    obtain ⟨m0, m1, m2, m3, m4, m5⟩ := md_word_buffer (drbd_md_write w (some 24)).mdev.gen_cnt
    rw [if_neg (by simp), if_neg (by rw [show MagicNr = 5 from rfl, m5]; simp)]
    rw [gen_cnt_range_map]
    dsimp only
    rw [m0, m1, m2, m3, m4, hset]
    simp only [List.getD_cons_zero, List.getD_cons_succ]
    rw [Nat.mod_eq_of_lt (hb 0), Nat.mod_eq_of_lt (hb 1), Nat.mod_eq_of_lt (hb 2),
      Nat.mod_eq_of_lt (hb 3), Nat.mod_eq_of_lt hind2]

/-- C27, witness: the Primary `world_handshake` with the counters
`[1, 1, 5, 1, 1]`, read back by the Secondary `world_secondary`. -/
theorem md_record_roundtrip_witness :
    (drbd_md_write world_handshake (some 24)).md_file =
      some (md_buffer (drbd_md_write world_handshake (some 24)).mdev.gen_cnt) ∧
    md_buffer (drbd_md_write world_handshake (some 24)).mdev.gen_cnt =
      cpu_to_be32 (world_handshake.mdev.gen_cnt.getD Consistent 0) ++
      cpu_to_be32 (world_handshake.mdev.gen_cnt.getD HumanCnt 0) ++
      cpu_to_be32 (world_handshake.mdev.gen_cnt.getD ConnectedCnt 0) ++
      cpu_to_be32 (world_handshake.mdev.gen_cnt.getD ArbitraryCnt 0) ++
      cpu_to_be32 (if world_handshake.mdev.state = Drbd_State.Primary then 1 else 0) ++
      cpu_to_be32 0x83740267 ∧
    (md_buffer (drbd_md_write world_handshake (some 24)).mdev.gen_cnt).length = 24 ∧
    ((drbd_md_write world_handshake (some 24)).mdev.gen_cnt.getD PrimaryInd 0 = 1 ↔
      world_handshake.mdev.state = Drbd_State.Primary) ∧
    (drbd_md_read world_secondary
      (some (24, md_buffer (drbd_md_write world_handshake (some 24)).mdev.gen_cnt))
      (some 24)).mdev.gen_cnt
      = (drbd_md_write world_handshake (some 24)).mdev.gen_cnt :=
  md_record_roundtrip world_handshake world_secondary (some 24) (by decide) (by decide)

/-- C28: when the meta-data file cannot be opened, the read does not deliver 24
bytes, or the sixth word is not `0x83740267`, `drbd_md_read` reports the error,
sets `Consistent`, `HumanCnt`, `ConnectedCnt` and `ArbitraryCnt` to 1 and
`PrimaryInd` to 1 iff the role is Primary (no word of the buffer is taken),
and writes this record (the file holds as many of its bytes as the write
delivers); when the record is valid, `gen_cnt` becomes the five decoded words
and nothing else changes. -/
theorem drbd_md_read_spec (w : World) (rd : Option (Int × List Nat)) (res : Option Int) :
    (md_invalid rd →
      (drbd_md_read w rd res).mdev =
        { w.mdev with gen_cnt :=
            [1, 1, 1, 1, if w.mdev.state = Drbd_State.Primary then 1 else 0] } ∧
      Event.printk Msg.error_reading_state_file ∈ (drbd_md_read w rd res).trace ∧
      (∀ i, res = some i → (drbd_md_read w rd res).md_file = some ((md_buffer
        [1, 1, 1, 1, if w.mdev.state = Drbd_State.Primary then 1 else 0]).take i.toNat))) ∧
    (∀ buffer, rd = some (24, buffer) → md_word buffer MagicNr = DRBD_MAGIC →
      drbd_md_read w rd res =
        { w with mdev := { w.mdev with gen_cnt :=
            [md_word buffer Consistent, md_word buffer HumanCnt, md_word buffer ConnectedCnt,
              md_word buffer ArbitraryCnt, md_word buffer PrimaryInd] } }) := by
  constructor
  · intro hinv
    have h : drbd_md_read w rd res = drbd_md_read_err w res := by
      rcases hinv with rfl | ⟨i, buffer, rfl, hi | hm⟩
      · rfl
      · unfold drbd_md_read
        dsimp only
        rw [if_pos hi]
      · unfold drbd_md_read
        dsimp only
        rw [if_pos hm, ite_self]
    rw [h]
    exact drbd_md_read_err_spec w res
  · intro buffer hrd hm
    subst hrd
    unfold drbd_md_read
    dsimp only
    rw [if_neg (by simp), if_neg (by simp [hm])]
    rfl

/-- C28, witness: a file of 24 bytes whose last word is not the magic, read by
the Secondary `world_secondary`. -/
theorem drbd_md_read_spec_witness :
    md_invalid (some (24, List.replicate 24 0)) ∧
    (drbd_md_read world_secondary (some (24, List.replicate 24 0)) (some 24)).mdev.gen_cnt =
      [1, 1, 1, 1, 0] :=
  ⟨Or.inr ⟨24, List.replicate 24 0, rfl, Or.inr (by decide)⟩,
    by
      have h := (drbd_md_read_spec world_secondary (some (24, List.replicate 24 0)) (some 24)).1
        (Or.inr ⟨24, List.replicate 24 0, rfl, Or.inr (by decide)⟩)
      rw [h.1]
      rfl⟩

/-! ## Role changes and the counters -/

theorem getD_set_of_lt (l : List Nat) (i j a : Nat) (hi : i < l.length) :
    (l.set i a).getD j 0 = if j = i then a else l.getD j 0 := by
  rw [List.getD_eq_getElem?_getD, List.getD_eq_getElem?_getD, List.getElem?_set]
  by_cases h : i = j
  · subst h
    simp [hi]
  · rw [if_neg h, if_neg (fun hh => h hh.symm)]

theorem drbd_set_state_wait_frame : ∀ (sl : List (Nat × Nat × Bool)) (w w2 : World) (b : Bool),
    drbd_set_state_wait sl w = some (w2, b) →
    w2.mdev = { w.mdev with pending_cnt := w2.mdev.pending_cnt,
                            unacked_cnt := w2.mdev.unacked_cnt } := by
  intro sl
  induction sl with
  | nil =>
    intro w w2 b h
    unfold drbd_set_state_wait at h
    split at h
    · exact Option.noConfusion h
    · cases h; rfl
  | cons x rest ih =>
    obtain ⟨p1, u1, sig⟩ := x
    intro w w2 b h
    unfold drbd_set_state_wait at h
    split at h
    · dsimp only at h
      cases sig with
      | true =>
        simp only [if_true] at h
        cases h
        rfl
      | false =>
        simp only [Bool.false_eq_true, if_false] at h
        have := ih _ w2 b h
        rw [this]
    · cases h; rfl

theorem drbd_md_inc_gen_cnt (w : World) (order : Nat) (res : Option Int) :
    (drbd_md_inc w order res).mdev.gen_cnt =
      (w.mdev.gen_cnt.set order ((w.mdev.gen_cnt.getD order 0 + 1) % 2 ^ 32)).set PrimaryInd
        (if w.mdev.state = Drbd_State.Primary then 1 else 0) ∧
    (drbd_md_inc w order res).mdev.state = w.mdev.state ∧
    (drbd_md_inc w order res).mdev.cstate = w.mdev.cstate := by
  unfold drbd_md_inc
  dsimp only
  exact ⟨(drbd_md_write_gen_cnt _ res).1, (drbd_md_write_gen_cnt _ res).2,
    by rw [(drbd_md_write_mdev _ res).1]⟩

theorem drbd_set_state_report_gen_cnt (MV : Nat) (w : World) (env : ParamEnv) :
    (drbd_set_state_report MV w env).mdev.gen_cnt = w.mdev.gen_cnt := by
  unfold drbd_set_state_report
  split
  · have h := (drbd_send_param_mdev MV w env.ll_size env.uninit env.o_param).1
    rw [h]
  · rfl

/-- The counters after the role is changed, lines 1652-1665. -/
theorem drbd_set_state_commit_gen_cnt (MV : Nat) (w : World) (ns : Drbd_NewState)
    (env : ParamEnv) :
    (drbd_set_state_commit MV w ns env).mdev.gen_cnt =
      match ns with
      | Drbd_NewState.Primary =>
        (w.mdev.gen_cnt.set (promotion_cnt w)
          ((w.mdev.gen_cnt.getD (promotion_cnt w) 0 + 1) % 2 ^ 32)).set PrimaryInd 1
      | Drbd_NewState.PRIMARY_PLUS =>
        (w.mdev.gen_cnt.set HumanCnt ((w.mdev.gen_cnt.getD HumanCnt 0 + 1) % 2 ^ 32)).set
          PrimaryInd 1
      | Drbd_NewState.Secondary => w.mdev.gen_cnt := by
  unfold drbd_set_state_commit
  dsimp only
  rw [drbd_set_state_report_gen_cnt, drbd_set_state_sock_mdev]
  cases ns with
  | Primary =>
    unfold drbd_set_state_human drbd_set_state_count
    rw [if_pos rfl, if_neg (by decide)]
    rw [(drbd_md_inc_gen_cnt _ _ _).1]
    rfl
  | Secondary =>
    unfold drbd_set_state_human drbd_set_state_count
    rw [if_neg (by decide), if_neg (by decide)]
  | PRIMARY_PLUS =>
    unfold drbd_set_state_human drbd_set_state_count
    rw [if_neg (by decide), if_pos rfl]
    rw [(drbd_md_inc_gen_cnt _ _ _).1]
    rfl

/-- The ways `drbd_set_state` returns. -/
theorem drbd_set_state_cases (MV : Nat) (w w1 : World) (ns : Drbd_NewState) (env : ParamEnv)
    (r : Int) (h : drbd_set_state MV w ns env = some (w1, r)) :
    (w1 = w ∧ r = 0 ∧ ns ≠ Drbd_NewState.PRIMARY_PLUS ∧ ns.role = w.mdev.state) ∨
    (w1 = w ∧ r = -EINPROGRESS) ∨ (w1 = w ∧ r = -EBUSY) ∨
    (r = -EINTR ∧ w1.mdev =
      { w.mdev with pending_cnt := w1.mdev.pending_cnt, unacked_cnt := w1.mdev.unacked_cnt }) ∨
    (r = 0 ∧ ¬ (ns ≠ Drbd_NewState.PRIMARY_PLUS ∧ ns.role = w.mdev.state) ∧
      ∃ w2, w2.mdev =
          { w.mdev with pending_cnt := w2.mdev.pending_cnt, unacked_cnt := w2.mdev.unacked_cnt } ∧
        w1 = drbd_set_state_commit MV w2 ns env) := by
  unfold drbd_set_state at h
  split at h
  · next h0 =>
    cases h
    exact Or.inl ⟨rfl, rfl, h0.1, h0.2⟩
  · next h0 =>
    split at h
    · cases h
      exact Or.inr (Or.inl ⟨rfl, rfl⟩)
    · split at h
      · cases h
        exact Or.inr (Or.inr (Or.inl ⟨rfl, rfl⟩))
      · split at h
        · exact Option.noConfusion h
        · next w2 heq =>
          cases h
          have hf := drbd_set_state_wait_frame _ _ _ _ heq
          exact Or.inr (Or.inr (Or.inr (Or.inl ⟨rfl, hf⟩)))
        · next w2 heq =>
          cases h
          have hf := drbd_set_state_wait_frame _ _ _ _ heq
          exact Or.inr (Or.inr (Or.inr (Or.inr ⟨rfl, h0, w2, hf, rfl⟩)))

/-- C25: `drbd_set_state` returns 0, `-EINPROGRESS`, `-EBUSY` or `-EINTR`. A
successful promotion by `Primary` adds one (as `u32`) to exactly one of the
counters `Consistent .. ArbitraryCnt`: to `ConnectedCnt` when
`cstate >= Connected`, else to `ArbitraryCnt`; a successful `PRIMARY_PLUS` adds
one to `HumanCnt` and to no other of them; a demotion, a request for the role
already held and every failing call leave all of `gen_cnt` as it was. -/
theorem drbd_set_state_counters (MV : Nat) (w w1 : World) (ns : Drbd_NewState) (env : ParamEnv)
    (r : Int) (hlen : w.mdev.gen_cnt.length = 5)
    (h : drbd_set_state MV w ns env = some (w1, r)) :
    (r = 0 ∨ r = -EINPROGRESS ∨ r = -EBUSY ∨ r = -EINTR) ∧
    (r = 0 → ns = Drbd_NewState.Primary → w.mdev.state ≠ Drbd_State.Primary →
      ∀ i, i ≤ ArbitraryCnt → w1.mdev.gen_cnt.getD i 0 =
        if i = promotion_cnt w then (w.mdev.gen_cnt.getD i 0 + 1) % 2 ^ 32
        else w.mdev.gen_cnt.getD i 0) ∧
    (r = 0 → ns = Drbd_NewState.PRIMARY_PLUS →
      ∀ i, i ≤ ArbitraryCnt → w1.mdev.gen_cnt.getD i 0 =
        if i = HumanCnt then (w.mdev.gen_cnt.getD i 0 + 1) % 2 ^ 32
        else w.mdev.gen_cnt.getD i 0) ∧
    (ns = Drbd_NewState.Secondary ∨ (ns = Drbd_NewState.Primary ∧ w.mdev.state = Drbd_State.Primary)
        ∨ r ≠ 0 → w1.mdev.gen_cnt = w.mdev.gen_cnt) := by
  have hcases := drbd_set_state_cases MV w w1 ns env r h
  have hE1 : (0 : Int) ≠ -EINPROGRESS := by decide
  have hE2 : (0 : Int) ≠ -EBUSY := by decide
  have hE3 : (0 : Int) ≠ -EINTR := by decide
  have hget : ∀ (idx i : Nat), idx ≤ ArbitraryCnt → i ≤ ArbitraryCnt →
      ((w.mdev.gen_cnt.set idx ((w.mdev.gen_cnt.getD idx 0 + 1) % 2 ^ 32)).set
        PrimaryInd 1).getD i 0 =
      if i = idx then (w.mdev.gen_cnt.getD i 0 + 1) % 2 ^ 32 else w.mdev.gen_cnt.getD i 0 := by
    intro idx i hidx hi
    have h3 : ArbitraryCnt = 3 := rfl
    have h4 : PrimaryInd = 4 := rfl
    rw [getD_set_of_lt _ _ _ _ (by rw [List.length_set]; omega), if_neg (by omega),
      getD_set_of_lt _ _ _ _ (by omega)]
    by_cases hii : i = idx
    · rw [if_pos hii, if_pos hii, hii]
    · rw [if_neg hii, if_neg hii]
  refine ⟨?_, ?_, ?_, ?_⟩
  · rcases hcases with ⟨_, h1, _⟩ | ⟨_, h1⟩ | ⟨_, h1⟩ | ⟨h1, _⟩ | ⟨h1, _⟩
    · exact Or.inl h1
    · exact Or.inr (Or.inl h1)
    · exact Or.inr (Or.inr (Or.inl h1))
    · exact Or.inr (Or.inr (Or.inr h1))
    · exact Or.inl h1
  · intro hr hns hst i hi
    subst hr hns
    rcases hcases with ⟨_, _, _, h1⟩ | ⟨_, h1⟩ | ⟨_, h1⟩ | ⟨h1, _⟩ | ⟨_, _, w2, h2, h3⟩
    · exact absurd h1.symm hst
    · exact absurd h1 hE1
    · exact absurd h1 hE2
    · exact absurd h1 hE3
    · have hc := drbd_set_state_commit_gen_cnt MV w2 Drbd_NewState.Primary env
      dsimp only at hc
      have hg : w2.mdev.gen_cnt = w.mdev.gen_cnt := by rw [h2]
      have hp : promotion_cnt w2 = promotion_cnt w := by
        unfold promotion_cnt
        rw [h2]
      rw [h3, hc, hg, hp]
      refine hget _ i ?_ hi
      unfold promotion_cnt
      split <;> decide
  · intro hr hns i hi
    subst hr hns
    rcases hcases with ⟨_, _, h1, _⟩ | ⟨_, h1⟩ | ⟨_, h1⟩ | ⟨h1, _⟩ | ⟨_, _, w2, h2, h3⟩
    · exact absurd rfl h1
    · exact absurd h1 hE1
    · exact absurd h1 hE2
    · exact absurd h1 hE3
    · have hc := drbd_set_state_commit_gen_cnt MV w2 Drbd_NewState.PRIMARY_PLUS env
      dsimp only at hc
      have hg : w2.mdev.gen_cnt = w.mdev.gen_cnt := by rw [h2]
      rw [h3, hc, hg]
      exact hget HumanCnt i (by decide) hi
  · intro hor
    rcases hcases with ⟨h1, _⟩ | ⟨h1, _⟩ | ⟨h1, _⟩ | ⟨_, h1⟩ | ⟨hr, hnot, w2, h2, h3⟩
    · rw [h1]
    · rw [h1]
    · rw [h1]
    · rw [h1]
    · have hg : w2.mdev.gen_cnt = w.mdev.gen_cnt := by rw [h2]
      have hst : w2.mdev.state = w.mdev.state := by rw [h2]
      rcases hor with hs | ⟨hp, hst2⟩ | hne
      · subst hs
        have hc := drbd_set_state_commit_gen_cnt MV w2 Drbd_NewState.Secondary env
        dsimp only at hc
        rw [h3, hc, hg]
      · subst hp
        exact absurd ⟨by decide, hst2.symm⟩ hnot
      · exact absurd hr hne

/-- C25, witness: the Secondary `world_secondary` (connected) is promoted; its
`ConnectedCnt` goes from 1 to 2. -/
theorem drbd_set_state_counters_witness :
    ((0 : Int) = 0 ∨ (0 : Int) = -EINPROGRESS ∨ (0 : Int) = -EBUSY ∨ (0 : Int) = -EINTR) ∧
    ((0 : Int) = 0 → Drbd_NewState.Primary = Drbd_NewState.Primary →
      world_secondary.mdev.state ≠ Drbd_State.Primary →
      ∀ i, i ≤ ArbitraryCnt →
        ((drbd_set_state 58 world_secondary Drbd_NewState.Primary env_ok).getD
          (world0, 0)).1.mdev.gen_cnt.getD i 0 =
        if i = promotion_cnt world_secondary
        then (world_secondary.mdev.gen_cnt.getD i 0 + 1) % 2 ^ 32
        else world_secondary.mdev.gen_cnt.getD i 0) ∧
    ((0 : Int) = 0 → Drbd_NewState.Primary = Drbd_NewState.PRIMARY_PLUS →
      ∀ i, i ≤ ArbitraryCnt →
        ((drbd_set_state 58 world_secondary Drbd_NewState.Primary env_ok).getD
          (world0, 0)).1.mdev.gen_cnt.getD i 0 =
        if i = HumanCnt then (world_secondary.mdev.gen_cnt.getD i 0 + 1) % 2 ^ 32
        else world_secondary.mdev.gen_cnt.getD i 0) ∧
    (Drbd_NewState.Primary = Drbd_NewState.Secondary ∨
        (Drbd_NewState.Primary = Drbd_NewState.Primary ∧
          world_secondary.mdev.state = Drbd_State.Primary) ∨ (0 : Int) ≠ 0 →
      ((drbd_set_state 58 world_secondary Drbd_NewState.Primary env_ok).getD
        (world0, 0)).1.mdev.gen_cnt = world_secondary.mdev.gen_cnt) :=
  drbd_set_state_counters 58 world_secondary
    ((drbd_set_state 58 world_secondary Drbd_NewState.Primary env_ok).getD (world0, 0)).1
    Drbd_NewState.Primary env_ok 0 (by decide) rfl

/-- The demotion of the Primary `world_handshake`, whose `gen_cnt` holds
`PrimaryInd = 1`, as a run: the call succeeds and the role is Secondary, yet
`gen_cnt[PrimaryInd]` is still 1 (`drbd_md_write` is not called), and the
`ReportParams` that this very `drbd_set_state` sends reports the role Secondary
together with `PrimaryInd = 1`. -/
theorem demotion_sends_stale_primary_ind :
    ∃ w1, drbd_set_state 58 world_handshake Drbd_NewState.Secondary env_ok = some (w1, 0) ∧
      world_handshake.mdev.state = Drbd_State.Primary ∧
      w1.mdev.state = Drbd_State.Secondary ∧ w1.mdev.gen_cnt.getD PrimaryInd 0 = 1 ∧
      Event.report_params ⟨2048, 4096, Drbd_State.Secondary, DRBD_PROT_C, 58, [1, 1, 5, 1, 1]⟩
        ∈ w1.trace :=
  ⟨_, rfl, rfl, rfl, rfl, by decide⟩

/-- What a successful `drbd_set_state` that changes the role does to the
primary indicator: the role is the requested one. A promotion (`Primary` or
`PRIMARY_PLUS`) runs `drbd_md_write` through `drbd_md_inc`: `gen_cnt[PrimaryInd]`
is 1 and the next `drbd_send_param` reports 1. A demotion does not run
`drbd_md_write`: `gen_cnt` is unchanged, `PrimaryInd` included, and the next
`drbd_send_param` reports the value that was there before. -/
theorem drbd_set_state_primary_ind (MV : Nat) (w w1 : World) (ns : Drbd_NewState)
    (env : ParamEnv) (ll : Option Nat) (u : Nat) (hlen : w.mdev.gen_cnt.length = 5)
    (h : drbd_set_state MV w ns env = some (w1, 0)) (hrole : ns.role ≠ w.mdev.state) :
    w1.mdev.state = ns.role ∧
    (ns.role = Drbd_State.Primary →
      w1.mdev.gen_cnt.getD PrimaryInd 0 = 1 ∧
      (drbd_send_param_block MV w1 ll u).gen_cnt.getD PrimaryInd 0 = 1) ∧
    (ns.role = Drbd_State.Secondary →
      w1.mdev.gen_cnt = w.mdev.gen_cnt ∧
      (drbd_send_param_block MV w1 ll u).gen_cnt.getD PrimaryInd 0 =
        w.mdev.gen_cnt.getD PrimaryInd 0) := by
  have hblock : ∀ x : World, (drbd_send_param_block MV x ll u).gen_cnt.getD PrimaryInd 0 =
      x.mdev.gen_cnt.getD PrimaryInd 0 := fun x => rfl
  have hE1 : (0 : Int) ≠ -EINPROGRESS := by decide
  have hE2 : (0 : Int) ≠ -EBUSY := by decide
  have hE3 : (0 : Int) ≠ -EINTR := by decide
  rcases drbd_set_state_cases MV w w1 ns env 0 h with
    ⟨_, _, _, h1⟩ | ⟨_, h1⟩ | ⟨_, h1⟩ | ⟨h1, _⟩ | ⟨_, _, w2, h2, h3⟩
  · exact absurd h1 hrole
  · exact absurd h1 hE1
  · exact absurd h1 hE2
  · exact absurd h1 hE3
  · have hg : w2.mdev.gen_cnt = w.mdev.gen_cnt := by rw [h2]
    have hc := drbd_set_state_commit_gen_cnt MV w2 ns env
    have hs := (drbd_set_state_commit_step MV w2 ns env).2
    rw [← h3] at hc hs
    refine ⟨hs, ?_, ?_⟩
    · intro hp
      have hone : w1.mdev.gen_cnt.getD PrimaryInd 0 = 1 := by
        cases ns with
        | Primary =>
          dsimp only at hc
          rw [hc, getD_set_of_lt _ _ _ _ (by rw [List.length_set, hg, hlen]; decide), if_pos rfl]
        | Secondary => exact absurd hp (by decide)
        | PRIMARY_PLUS =>
          dsimp only at hc
          rw [hc, getD_set_of_lt _ _ _ _ (by rw [List.length_set, hg, hlen]; decide), if_pos rfl]
      exact ⟨hone, by rw [hblock, hone]⟩
    · intro hp
      have hsame : w1.mdev.gen_cnt = w.mdev.gen_cnt := by
        cases ns with
        | Primary => exact absurd hp (by decide)
        | Secondary =>
          dsimp only at hc
          rw [hc, hg]
        | PRIMARY_PLUS => exact absurd hp (by decide)
      exact ⟨hsame, by rw [hblock, hsame]⟩

/-- The promotion of the connected Secondary `world_secondary`, an instance of
`drbd_set_state_primary_ind`. -/
theorem drbd_set_state_primary_ind_witness :
    ((drbd_set_state 58 world_secondary Drbd_NewState.Primary env_ok).getD
      (world0, 0)).1.mdev.state = Drbd_NewState.Primary.role ∧
    (Drbd_NewState.Primary.role = Drbd_State.Primary →
      ((drbd_set_state 58 world_secondary Drbd_NewState.Primary env_ok).getD
        (world0, 0)).1.mdev.gen_cnt.getD PrimaryInd 0 = 1 ∧
      (drbd_send_param_block 58 ((drbd_set_state 58 world_secondary Drbd_NewState.Primary
        env_ok).getD (world0, 0)).1 (some 2048) 0).gen_cnt.getD PrimaryInd 0 = 1) ∧
    (Drbd_NewState.Primary.role = Drbd_State.Secondary →
      ((drbd_set_state 58 world_secondary Drbd_NewState.Primary env_ok).getD
        (world0, 0)).1.mdev.gen_cnt = world_secondary.mdev.gen_cnt ∧
      (drbd_send_param_block 58 ((drbd_set_state 58 world_secondary Drbd_NewState.Primary
        env_ok).getD (world0, 0)).1 (some 2048) 0).gen_cnt.getD PrimaryInd 0 =
        world_secondary.mdev.gen_cnt.getD PrimaryInd 0) :=
  drbd_set_state_primary_ind 58 world_secondary
    ((drbd_set_state 58 world_secondary Drbd_NewState.Primary env_ok).getD (world0, 0)).1
    Drbd_NewState.Primary env_ok (some 2048) 0 (by decide) rfl (by decide)

/-! ## The negotiated size -/

theorem drbd_set_state_wait_blk_size : ∀ (sl : List (Nat × Nat × Bool)) (w w2 : World) (b : Bool),
    drbd_set_state_wait sl w = some (w2, b) → w2.blk_size = w.blk_size := by
  intro sl
  induction sl with
  | nil =>
    intro w w2 b h
    unfold drbd_set_state_wait at h
    split at h
    · exact Option.noConfusion h
    · cases h; rfl
  | cons x rest ih =>
    obtain ⟨p1, u1, sig⟩ := x
    intro w w2 b h
    unfold drbd_set_state_wait at h
    split at h
    · dsimp only at h
      cases sig with
      | true =>
        simp only [if_true] at h
        cases h
        rfl
      | false =>
        simp only [Bool.false_eq_true, if_false] at h
        have := ih _ w2 b h
        exact this
    · cases h; rfl

theorem drbd_set_state_commit_blk_size (MV : Nat) (w : World) (ns : Drbd_NewState)
    (env : ParamEnv) : (drbd_set_state_commit MV w ns env).blk_size = w.blk_size := by
  have h1 : ∀ x : World, (drbd_set_state_human x ns env).blk_size = x.blk_size := by
    intro x
    unfold drbd_set_state_human
    split
    · exact (drbd_md_inc_mdev _ _ _).2
    · rfl
  have h2 : ∀ x : World, (drbd_set_state_count x ns env).blk_size = x.blk_size := by
    intro x
    unfold drbd_set_state_count
    split
    · exact (drbd_md_inc_mdev _ _ _).2
    · rfl
  have h3 : ∀ x : World, (drbd_set_state_sock x).blk_size = x.blk_size := by
    intro x
    unfold drbd_set_state_sock
    split <;> rfl
  have h4 : ∀ x : World, (drbd_set_state_report MV x env).blk_size = x.blk_size := by
    intro x
    unfold drbd_set_state_report
    split
    · exact (drbd_send_param_mdev _ _ _ _ _).2
    · rfl
  unfold drbd_set_state_commit
  dsimp only
  rw [h4, h3, h2, h1]

/-- The call `drbd_set_state` leaves the size of the device as it is; the role
is the old one or the one asked for. -/
theorem drbd_set_state_blk_size (MV : Nat) (w w1 : World) (ns : Drbd_NewState) (env : ParamEnv)
    (r : Int) (h : drbd_set_state MV w ns env = some (w1, r)) :
    w1.blk_size = w.blk_size ∧ (w1.mdev.state = w.mdev.state ∨ w1.mdev.state = ns.role) := by
  unfold drbd_set_state at h
  split at h
  · cases h
    exact ⟨rfl, Or.inl rfl⟩
  · split at h
    · cases h
      exact ⟨rfl, Or.inl rfl⟩
    · split at h
      · cases h
        exact ⟨rfl, Or.inl rfl⟩
      · split at h
        · exact Option.noConfusion h
        · next w2 heq =>
          cases h
          have hf := drbd_set_state_wait_frame _ _ _ _ heq
          have hb := drbd_set_state_wait_blk_size _ _ _ _ heq
          exact ⟨hb, Or.inl (by rw [hf])⟩
        · next w2 heq =>
          cases h
          have hb := drbd_set_state_wait_blk_size _ _ _ _ heq
          exact ⟨(drbd_set_state_commit_blk_size MV w2 ns env).trans hb,
            Or.inr (drbd_set_state_commit_step MV w2 ns env).2⟩

theorem receive_param_tie_break_frame (MV : Nat) (w wt : World) (param : Drbd_Parameter_P)
    (env : ParamEnv) (h : receive_param_tie_break MV w param env = some wt) :
    wt.blk_size = w.blk_size ∧
    (wt.mdev.state = w.mdev.state ∨ wt.mdev.state = Drbd_State.Primary) := by
  unfold receive_param_tie_break at h
  split at h
  · split at h
    · cases hs : drbd_set_state MV w Drbd_NewState.Primary env with
      | none => rw [hs] at h; exact Option.noConfusion h
      | some x =>
        obtain ⟨x1, r⟩ := x
        rw [hs] at h
        cases h
        exact drbd_set_state_blk_size MV w x1 _ env r hs
    · cases h
      exact ⟨rfl, Or.inl rfl⟩
  · cases h
    exact ⟨rfl, Or.inl rfl⟩

theorem receive_param_sync_blk_size (w : World) (param : Drbd_Parameter_P) (env : ParamEnv) :
    (receive_param_sync w param env).blk_size = w.blk_size := by
  unfold receive_param_sync
  split
  · unfold drbd_send_cstate
    exact (drbd_send_mdev _ _ _ _ _ _ _).2
  · rfl

theorem receive_param_adopt_blk_size (w : World) (param : Drbd_Parameter_P) (env : ParamEnv) :
    (receive_param_adopt w param env).blk_size = w.blk_size := by
  unfold receive_param_adopt
  split
  · exact (drbd_md_write_mdev _ _).2
  · rfl

theorem receive_param_established_frame (MV : Nat) (w w5 : World) (param : Drbd_Parameter_P)
    (env : ParamEnv) (blksize : Int)
    (h : receive_param_established MV w param env blksize = some w5) :
    w5.blk_size = w.blk_size ∧
    (w5.mdev.state = w.mdev.state ∨ w5.mdev.state = Drbd_State.Primary) := by
  unfold receive_param_established at h
  split at h
  · dsimp only at h
    cases ht : receive_param_tie_break MV { w with trace := w.trace ++
        [Event.printk Msg.connection_established,
         Event.printk (Msg.size_blksize w.blk_size blksize)] } param env with
    | none => rw [ht] at h; exact Option.noConfusion h
    | some wt =>
      rw [ht] at h
      cases h
      obtain ⟨a1, a2⟩ := receive_param_tie_break_frame _ _ _ _ _ ht
      rw [receive_param_sync_blk_size, (receive_param_sync_spec wt param env).2.2.2]
      exact ⟨a1, a2⟩
  · cases h
    exact ⟨rfl, Or.inl rfl⟩

theorem receive_param_pre_blk_size (w : World) (blksize b : Int) (env : ParamEnv) :
    (receive_param_mbds (receive_param_set_blksize w blksize b) env).blk_size = w.blk_size := by
  unfold receive_param_mbds receive_param_set_blksize
  split <;> rfl

/-- What `receive_param_accept` leaves of the size and the role. -/
theorem receive_param_accept_frame (MV fuel : Nat) (w w1 : World) (param : Drbd_Parameter_P)
    (env : ParamEnv) (r : Bool) (h : receive_param_accept MV fuel w param env = some (w1, r)) :
    r = true ∧ w1.blk_size = w.blk_size ∧
    (w1.mdev.state = w.mdev.state ∨ w1.mdev.state = Drbd_State.Primary) := by
  unfold receive_param_accept at h
  dsimp only at h
  split at h
  · exact Option.noConfusion h
  · next b hb =>
    split at h
    · exact Option.noConfusion h
    · next w5 h5 =>
      cases h
      obtain ⟨a1, a2⟩ := receive_param_established_frame _ _ _ _ _ _ h5
      rw [receive_param_pre_blk_size] at a1
      rw [(receive_param_pre_fields w _ b env).2.1] at a2
      rw [receive_param_adopt_blk_size, (receive_param_adopt_spec w5 param env).2]
      exact ⟨rfl, a1, a2⟩

/-- The run of `receive_param` on a block that passes the checks of roles,
version and protocol, the size of the lower device being known. -/
theorem receive_param_checked (MV fuel : Nat) (w : World) (param : Drbd_Parameter_P)
    (env : ParamEnv) (lls : Nat)
    (p1 : ¬ (param.state = Drbd_State.Primary ∧ w.mdev.state = Drbd_State.Primary))
    (p2 : param.version = MV) (p3 : param.protocol = w.mdev.wire_protocol)
    (p4 : env.ll_size = some lls) :
    receive_param MV fuel w (some param) env =
      if w.mdev.lo_usize ≠ 0 ∧ w.mdev.lo_usize ≠ min lls param.size then
        some ({ w with mdev := { w.mdev with o_state := param.state,
                                             cstate := Drbd_CState.StandAllone },
                       blk_size := w.mdev.lo_usize,
                       trace := w.trace ++ [Event.printk (Msg.size_hint_bogus
                         (min lls param.size))] }, false)
      else receive_param_accept MV fuel
        { w with mdev := { w.mdev with o_state := param.state },
                 blk_size := min lls param.size } param env := by
  unfold receive_param
  dsimp only
  rw [if_neg p1, if_neg (by rw [p2]; simp), if_neg (by rw [p3]; simp), p4]
  rfl

/-- C23, counterexample: a Primary whose user has declared 512 KB, on a lower
device of 2048 KB, receives the parameters of a Secondary of 1024 KB. The
block passes the checks of roles, version and protocol and the declared size
is smaller than both device sizes, yet `receive_param` returns FALSE and the
connection state is `StandAllone`. -/
theorem size_hint_rejected_counterexample :
    ¬ (param_secondary.state = Drbd_State.Primary ∧
        world_size_hint.mdev.state = Drbd_State.Primary) ∧
    param_secondary.version = 58 ∧
    param_secondary.protocol = world_size_hint.mdev.wire_protocol ∧
    env_ok.ll_size = some 2048 ∧ param_secondary.size = 1024 ∧
    world_size_hint.mdev.lo_usize = 512 ∧
    ∃ w1, receive_param 58 13 world_size_hint (some param_secondary) env_ok = some (w1, false) ∧
      w1.mdev.cstate = Drbd_CState.StandAllone ∧ w1.blk_size = 512 ∧
      w1.trace = [Event.printk (Msg.size_hint_bogus 1024)] :=
  ⟨by decide, rfl, rfl, rfl, rfl, rfl, _, rfl, rfl, rfl, rfl⟩

/-- C23: for a `ReportParams` that passes the checks of roles, version and
protocol, the size of the lower device being known, `receive_param` takes
`min(our_size, peer_size)` as the size of the device. When the user declared no
size (`lo_usize == 0`) or declared just this minimum, the handshake is accepted
with this size (the block size being positive, so that `drbd_log2` returns,
and a promotion not waiting for ever). When the user declared any other
non-zero size, also one smaller than both device sizes, the size of the device
becomes the declared size, but the handshake is refused: the message "Your
size hint is bogus" names the minimum, `cstate` becomes `StandAllone` and
`receive_param` returns FALSE, the role being left as it is. -/
theorem receive_param_size (MV fuel : Nat) (w : World) (param : Drbd_Parameter_P)
    (env : ParamEnv) (lls : Nat)
    (p1 : ¬ (param.state = Drbd_State.Primary ∧ w.mdev.state = Drbd_State.Primary))
    (p2 : param.version = MV) (p3 : param.protocol = w.mdev.wire_protocol)
    (p4 : env.ll_size = some lls) :
    (w.mdev.lo_usize = 0 ∨ w.mdev.lo_usize = min lls param.size →
      1 ≤ receive_param_blksize w.mdev param → receive_param_blksize w.mdev param < 2 ^ fuel →
      (param.state = Drbd_State.Secondary → w.mdev.state = Drbd_State.Secondary →
        drbd_md_compare w.mdev param = 1 →
        wait_ends env.sleeps w.mdev.pending_cnt w.mdev.unacked_cnt = true) →
      ∃ w1, receive_param MV fuel w (some param) env = some (w1, true) ∧
        w1.blk_size = min lls param.size) ∧
    (w.mdev.lo_usize ≠ 0 → w.mdev.lo_usize ≠ min lls param.size →
      ∃ w1, receive_param MV fuel w (some param) env = some (w1, false) ∧
        w1.blk_size = w.mdev.lo_usize ∧ w1.mdev.cstate = Drbd_CState.StandAllone ∧
        w1.mdev.state = w.mdev.state ∧
        w1.trace = w.trace ++ [Event.printk (Msg.size_hint_bogus (min lls param.size))]) := by
  have hrun := receive_param_checked MV fuel w param env lls p1 p2 p3 p4
  refine ⟨?_, ?_⟩
  · intro p5 hb1 hb2 hw
    obtain ⟨w1, e1, -⟩ := receive_param_spec MV fuel w param env ⟨p1, p2, p3, lls, p4, p5⟩
      hb1 hb2 hw
    refine ⟨w1, e1, ?_⟩
    rw [hrun, if_neg (by
      rintro ⟨c1, c2⟩
      rcases p5 with p5 | p5
      · exact c1 p5
      · exact c2 p5)] at e1
    exact (receive_param_accept_frame _ _ _ _ _ _ _ e1).2.1
  · intro h1 h2
    rw [hrun, if_pos ⟨h1, h2⟩]
    exact ⟨_, rfl, rfl, rfl, rfl, rfl⟩

/-- C23, witness: a Primary without a size hint, on a lower device of 2048 KB,
receives the parameters of a Secondary of 1024 KB and takes 1024 KB; with the
size hint 512 KB the same block is refused. -/
theorem receive_param_size_witness :
    (∃ w1, receive_param 58 13 world_handshake (some param_secondary) env_ok =
        some (w1, true) ∧
      w1.blk_size = min 2048 param_secondary.size) ∧
    (∃ w1, receive_param 58 13 world_size_hint (some param_secondary) env_ok =
        some (w1, false) ∧
      w1.blk_size = world_size_hint.mdev.lo_usize ∧
      w1.mdev.cstate = Drbd_CState.StandAllone ∧
      w1.mdev.state = world_size_hint.mdev.state ∧
      w1.trace = world_size_hint.trace ++
        [Event.printk (Msg.size_hint_bogus (min 2048 param_secondary.size))]) :=
  ⟨(receive_param_size 58 13 world_handshake param_secondary env_ok 2048 (by decide) rfl rfl
      rfl).1 (Or.inl rfl) (by decide) (by decide) (fun _ _ _ => rfl),
   (receive_param_size 58 13 world_size_hint param_secondary env_ok 2048 (by decide) rfl rfl
      rfl).2 (by decide) (by decide)⟩

/-! ## The tie-break of two Secondaries -/

theorem receive_param_established_role (MV : Nat) (w w5 : World) (param : Drbd_Parameter_P)
    (env : ParamEnv) (blksize : Int) (hc : w.mdev.cstate = Drbd_CState.WFReportParams)
    (hw : param.state = Drbd_State.Secondary → w.mdev.state = Drbd_State.Secondary →
      drbd_md_compare w.mdev param = 1 →
      wait_ends env.sleeps w.mdev.pending_cnt w.mdev.unacked_cnt = true)
    (h : receive_param_established MV w param env blksize = some w5) :
    w5.mdev.state = Drbd_State.Primary ↔ primary_after_tie_break w param env := by
  unfold receive_param_established at h
  rw [if_pos hc] at h
  dsimp only at h
  obtain ⟨wt, e1, -, e3⟩ := receive_param_tie_break_spec MV
    { w with trace := w.trace ++ [Event.printk Msg.connection_established,
        Event.printk (Msg.size_blksize w.blk_size blksize)] } param env hc hw
  have e3' : wt.mdev.state = Drbd_State.Primary ↔ primary_after_tie_break w param env := e3
  rw [e1] at h
  cases h
  rw [(receive_param_sync_spec wt param env).2.2.2]
  exact e3'

theorem receive_param_accept_role (MV fuel : Nat) (w w1 : World) (param : Drbd_Parameter_P)
    (env : ParamEnv) (r : Bool) (hc : w.mdev.cstate = Drbd_CState.WFReportParams)
    (hw : param.state = Drbd_State.Secondary → w.mdev.state = Drbd_State.Secondary →
      drbd_md_compare w.mdev param = 1 →
      wait_ends env.sleeps w.mdev.pending_cnt w.mdev.unacked_cnt = true)
    (h : receive_param_accept MV fuel w param env = some (w1, r)) :
    w1.mdev.state = Drbd_State.Primary ↔ primary_after_tie_break w param env := by
  unfold receive_param_accept at h
  dsimp only at h
  split at h
  · exact Option.noConfusion h
  · next b hb =>
    split at h
    · exact Option.noConfusion h
    · next w5 h5 =>
      cases h
      obtain ⟨g1, g2, g3, -, -, -, g7, g8⟩ := receive_param_pre_fields w
        (receive_param_blksize w.mdev param) b env
      have hr := receive_param_established_role MV _ w5 param env _ (g1.trans hc)
        (by rw [g2, g7, g8, drbd_md_compare_congr _ _ _ g3]; exact hw) h5
      rw [(receive_param_adopt_spec w5 param env).2, hr]
      exact primary_after_tie_break_congr w _ param env g2 g3 g7 g8

/-- The role `receive_param` leaves when it accepts a block that arrives in
`WFReportParams`. -/
theorem receive_param_role (MV fuel : Nat) (w w1 : World) (param : Drbd_Parameter_P)
    (env : ParamEnv) (hpass : handshake_passes MV w param env)
    (hc : w.mdev.cstate = Drbd_CState.WFReportParams)
    (hw : param.state = Drbd_State.Secondary → w.mdev.state = Drbd_State.Secondary →
      drbd_md_compare w.mdev param = 1 →
      wait_ends env.sleeps w.mdev.pending_cnt w.mdev.unacked_cnt = true)
    (h : receive_param MV fuel w (some param) env = some (w1, true)) :
    (w1.mdev.state = Drbd_State.Primary ↔ primary_after_tie_break w param env) ∧
    (w1.mdev.state = w.mdev.state ∨ w1.mdev.state = Drbd_State.Primary) := by
  obtain ⟨p1, p2, p3, lls, p4, p5⟩ := hpass
  rw [receive_param_checked MV fuel w param env lls p1 p2 p3 p4, if_neg (by
    rintro ⟨c1, c2⟩
    rcases p5 with p5 | p5
    · exact c1 p5
    · exact c2 p5)] at h
  have hf := (receive_param_accept_frame MV fuel _ w1 param env true h).2.2
  have hr := fun a b => receive_param_accept_role MV fuel _ w1 param env true a b h
  exact ⟨hr hc hw, hf⟩

theorem drbd_md_compare_loop_antisymm (ma mb : Drbd_Conf) (pa pb : Drbd_Parameter_P) :
    ∀ l : List Nat, (∀ i ∈ l, pa.gen_cnt.getD i 0 = ma.gen_cnt.getD i 0) →
      (∀ i ∈ l, pb.gen_cnt.getD i 0 = mb.gen_cnt.getD i 0) →
      drbd_md_compare_loop ma pb l = - drbd_md_compare_loop mb pa l := by
  intro l
  induction l with
  | nil => intro _ _; rfl
  | cons i rest ih =>
    intro h1 h2
    have a1 := h1 i (List.mem_cons_self _ _)
    have a2 := h2 i (List.mem_cons_self _ _)
    have hrec := ih (fun j hj => h1 j (List.mem_cons_of_mem _ hj))
      (fun j hj => h2 j (List.mem_cons_of_mem _ hj))
    simp only [drbd_md_compare_loop, a1, a2]
    rcases Nat.lt_trichotomy (ma.gen_cnt.getD i 0) (mb.gen_cnt.getD i 0) with hlt | heq | hgt
    · rw [if_neg (by omega), if_pos hlt, if_pos hlt]
    · rw [if_neg (by omega), if_neg (by omega), if_neg (by omega), if_neg (by omega)]
      exact hrec
    · rw [if_pos hgt, if_neg (by omega), if_pos hgt]; rfl

/-- The outcome `drbd_md_compare` changes its sign when the two sides are
exchanged, each block carrying the counters of the side that sent it. -/
theorem drbd_md_compare_antisymm (ma mb : Drbd_Conf) (pa pb : Drbd_Parameter_P)
    (ha : gen_cnt_eq pa.gen_cnt ma.gen_cnt) (hb : gen_cnt_eq pb.gen_cnt mb.gen_cnt) :
    drbd_md_compare ma pb = - drbd_md_compare mb pa := by
  unfold drbd_md_compare
  apply drbd_md_compare_loop_antisymm
  · intro i hi
    rw [List.mem_range'_1] at hi
    exact ha i (by omega)
  · intro i hi
    rw [List.mem_range'_1] at hi
    exact hb i (by omega)

theorem drbd_send_param_block_gen_cnt (MV : Nat) (w : World) (ll : Option Nat) (u : Nat) :
    gen_cnt_eq (drbd_send_param_block MV w ll u).gen_cnt w.mdev.gen_cnt := by
  intro i hi
  have h5 : PrimaryInd = 4 := rfl
  rw [h5] at hi
  unfold drbd_send_param_block
  dsimp only
  rw [h5]
  interval_cases i <;> rfl

theorem gen_cnt_gt_congr (a b b1 : List Nat) (h : gen_cnt_eq b1 b) :
    gen_cnt_gt a b1 ↔ gen_cnt_gt a b := by
  unfold gen_cnt_gt
  constructor
  · rintro ⟨i, h1, h2, h3⟩
    exact ⟨i, h1, fun j hj => (h2 j hj).trans (h j (by omega)), by rw [← h i h1]; exact h3⟩
  · rintro ⟨i, h1, h2, h3⟩
    exact ⟨i, h1, fun j hj => (h2 j hj).trans (h j (by omega)).symm, by rw [h i h1]; exact h3⟩

/-- C21: two Secondaries in `WFReportParams` receive each other's parameter
block (each block carries the counters and the role of the side that sent it;
both blocks pass the checks of `receive_param`, the block sizes are positive,
and the wait of a promotion ends without a signal). `drbd_md_compare` changes
its sign when the sides are exchanged, for all counters. Both calls of
`receive_param` return TRUE. If the counters of A are lexicographically greater
than those of B, A is Primary afterwards and B is Secondary and `Connected`;
likewise with the sides exchanged; if the counters agree both stay Secondary
and both are `Connected`. -/
theorem tie_break_promotes_larger (MV fuel : Nat) (wa wb : World) (enva envb : ParamEnv)
    (lla llb : Option Nat) (ua ub : Nat)
    (hsa : wa.mdev.state = Drbd_State.Secondary) (hsb : wb.mdev.state = Drbd_State.Secondary)
    (hca : wa.mdev.cstate = Drbd_CState.WFReportParams)
    (hcb : wb.mdev.cstate = Drbd_CState.WFReportParams)
    (hpa : handshake_passes MV wa (drbd_send_param_block MV wb llb ub) enva)
    (hpb : handshake_passes MV wb (drbd_send_param_block MV wa lla ua) envb)
    (hba1 : 1 ≤ receive_param_blksize wa.mdev (drbd_send_param_block MV wb llb ub))
    (hba2 : receive_param_blksize wa.mdev (drbd_send_param_block MV wb llb ub) < 2 ^ fuel)
    (hbb1 : 1 ≤ receive_param_blksize wb.mdev (drbd_send_param_block MV wa lla ua))
    (hbb2 : receive_param_blksize wb.mdev (drbd_send_param_block MV wa lla ua) < 2 ^ fuel)
    (hwa : wait_ends enva.sleeps wa.mdev.pending_cnt wa.mdev.unacked_cnt = true)
    (hia : wait_interrupted enva.sleeps wa.mdev.pending_cnt wa.mdev.unacked_cnt = false)
    (hwb : wait_ends envb.sleeps wb.mdev.pending_cnt wb.mdev.unacked_cnt = true)
    (hib : wait_interrupted envb.sleeps wb.mdev.pending_cnt wb.mdev.unacked_cnt = false) :
    (∀ (ma mb : Drbd_Conf) (pa pb : Drbd_Parameter_P),
      gen_cnt_eq pa.gen_cnt ma.gen_cnt → gen_cnt_eq pb.gen_cnt mb.gen_cnt →
      drbd_md_compare ma pb = - drbd_md_compare mb pa) ∧
    ∃ wa1 wb1,
      receive_param MV fuel wa (some (drbd_send_param_block MV wb llb ub)) enva
        = some (wa1, true) ∧
      receive_param MV fuel wb (some (drbd_send_param_block MV wa lla ua)) envb
        = some (wb1, true) ∧
      (gen_cnt_gt wa.mdev.gen_cnt wb.mdev.gen_cnt →
        wa1.mdev.state = Drbd_State.Primary ∧ wb1.mdev.state = Drbd_State.Secondary ∧
        wb1.mdev.cstate = Drbd_CState.Connected) ∧
      (gen_cnt_gt wb.mdev.gen_cnt wa.mdev.gen_cnt →
        wb1.mdev.state = Drbd_State.Primary ∧ wa1.mdev.state = Drbd_State.Secondary ∧
        wa1.mdev.cstate = Drbd_CState.Connected) ∧
      (gen_cnt_eq wa.mdev.gen_cnt wb.mdev.gen_cnt →
        wa1.mdev.state = Drbd_State.Secondary ∧ wb1.mdev.state = Drbd_State.Secondary ∧
        wa1.mdev.cstate = Drbd_CState.Connected ∧ wb1.mdev.cstate = Drbd_CState.Connected) := by
  refine ⟨drbd_md_compare_antisymm, ?_⟩
  obtain ⟨wa1, ea, -, ka⟩ := receive_param_spec MV fuel wa _ enva hpa hba1 hba2 (fun _ _ _ => hwa)
  obtain ⟨wb1, eb, -, kb⟩ := receive_param_spec MV fuel wb _ envb hpb hbb1 hbb2 (fun _ _ _ => hwb)
  obtain ⟨ra, fa⟩ := receive_param_role MV fuel wa wa1 _ enva hpa hca (fun _ _ _ => hwa) ea
  obtain ⟨rb, fb⟩ := receive_param_role MV fuel wb wb1 _ envb hpb hcb (fun _ _ _ => hwb) eb
  have ga := drbd_send_param_block_gen_cnt MV wa lla ua
  have gb := drbd_send_param_block_gen_cnt MV wb llb ub
  obtain ⟨ca1, ca2, ca3⟩ := drbd_md_compare_spec wa.mdev (drbd_send_param_block MV wb llb ub)
  obtain ⟨cb1, cb2, cb3⟩ := drbd_md_compare_spec wb.mdev (drbd_send_param_block MV wa lla ua)
  have hanti := drbd_md_compare_antisymm wa.mdev wb.mdev (drbd_send_param_block MV wa lla ua)
    (drbd_send_param_block MV wb llb ub) ga gb
  -- the role after the tie-break, in terms of the comparison
  have pa_iff : primary_after_tie_break wa (drbd_send_param_block MV wb llb ub) enva ↔
      drbd_md_compare wa.mdev (drbd_send_param_block MV wb llb ub) = 1 := by
    unfold primary_after_tie_break
    constructor
    · rintro (h | ⟨-, -, h, -⟩)
      · rw [hsa] at h; exact Drbd_State.noConfusion h
      · exact h
    · intro h; exact Or.inr ⟨hsb, hsa, h, hia⟩
  have pb_iff : primary_after_tie_break wb (drbd_send_param_block MV wa lla ua) envb ↔
      drbd_md_compare wb.mdev (drbd_send_param_block MV wa lla ua) = 1 := by
    unfold primary_after_tie_break
    constructor
    · rintro (h | ⟨-, -, h, -⟩)
      · rw [hsb] at h; exact Drbd_State.noConfusion h
      · exact h
    · intro h; exact Or.inr ⟨hsa, hsb, h, hib⟩
  have stay_a : drbd_md_compare wa.mdev (drbd_send_param_block MV wb llb ub) ≠ 1 →
      wa1.mdev.state = Drbd_State.Secondary ∧ wa1.mdev.cstate = Drbd_CState.Connected := by
    intro h
    have hn : ¬ primary_after_tie_break wa (drbd_send_param_block MV wb llb ub) enva :=
      fun hp => h (pa_iff.1 hp)
    refine ⟨?_, (ka hca).1 (Or.inr hn)⟩
    rcases fa with fa | fa
    · exact fa.trans hsa
    · exact absurd (ra.1 fa) hn
  have stay_b : drbd_md_compare wb.mdev (drbd_send_param_block MV wa lla ua) ≠ 1 →
      wb1.mdev.state = Drbd_State.Secondary ∧ wb1.mdev.cstate = Drbd_CState.Connected := by
    intro h
    have hn : ¬ primary_after_tie_break wb (drbd_send_param_block MV wa lla ua) envb :=
      fun hp => h (pb_iff.1 hp)
    refine ⟨?_, (kb hcb).1 (Or.inr hn)⟩
    rcases fb with fb | fb
    · exact fb.trans hsb
    · exact absurd (rb.1 fb) hn
  refine ⟨wa1, wb1, ea, eb, ?_, ?_, ?_⟩
  · intro hgt
    have h1 : drbd_md_compare wa.mdev (drbd_send_param_block MV wb llb ub) = 1 :=
      ca1.2 ((gen_cnt_gt_congr _ _ _ gb).2 hgt)
    have h2 : drbd_md_compare wb.mdev (drbd_send_param_block MV wa lla ua) ≠ 1 := by
      intro h; rw [hanti, h] at h1; exact absurd h1 (by decide)
    exact ⟨ra.2 (pa_iff.2 h1), stay_b h2⟩
  · intro hgt
    have h1 : drbd_md_compare wb.mdev (drbd_send_param_block MV wa lla ua) = 1 :=
      cb1.2 ((gen_cnt_gt_congr _ _ _ ga).2 hgt)
    have h2 : drbd_md_compare wa.mdev (drbd_send_param_block MV wb llb ub) ≠ 1 := by
      intro h; rw [hanti, h1] at h; exact absurd h (by decide)
    exact ⟨rb.2 (pb_iff.2 h1), stay_a h2⟩
  · intro heq
    have h0 : drbd_md_compare wa.mdev (drbd_send_param_block MV wb llb ub) = 0 :=
      ca3.2 (fun i hi => (heq i hi).trans (gb i hi).symm)
    have h2 : drbd_md_compare wb.mdev (drbd_send_param_block MV wa lla ua) ≠ 1 := by
      intro h; rw [hanti, h] at h0; exact absurd h0 (by decide)
    obtain ⟨x1, x2⟩ := stay_a (by rw [h0]; decide)
    obtain ⟨y1, y2⟩ := stay_b h2
    exact ⟨x1, y1, x2, y2⟩

/-- C21, witness: node A has the counters `[1, 1, 5, 1, 0]`, node B has
`[1, 1, 4, 9, 0]`; A becomes Primary, B stays Secondary and is `Connected`. -/
theorem tie_break_promotes_larger_witness :
    ∃ wa1 wb1,
      receive_param 58 13 world_tie_a
        (some (drbd_send_param_block 58 world_tie_b (some 2048) 0)) env_ok = some (wa1, true) ∧
      receive_param 58 13 world_tie_b
        (some (drbd_send_param_block 58 world_tie_a (some 2048) 0)) env_ok = some (wb1, true) ∧
      wa1.mdev.state = Drbd_State.Primary ∧ wb1.mdev.state = Drbd_State.Secondary ∧
      wb1.mdev.cstate = Drbd_CState.Connected := by
  obtain ⟨wa1, wb1, ea, eb, h, -, -⟩ := (tie_break_promotes_larger 58 13 world_tie_a world_tie_b
    env_ok env_ok (some 2048) (some 2048) 0 0 rfl rfl rfl rfl
    ⟨by decide, rfl, rfl, 2048, rfl, Or.inl rfl⟩ ⟨by decide, rfl, rfl, 2048, rfl, Or.inl rfl⟩
    (by decide) (by decide) (by decide) (by decide) rfl rfl rfl rfl).2
  exact ⟨wa1, wb1, ea, eb, h ⟨2, by decide, by decide, by decide⟩⟩

/-! ## The packet header and the receiver loop -/

theorem be16_roundtrip (x : Nat) : be16_to_cpu (cpu_to_be16 x) = x % 2 ^ 16 := by
  unfold be16_to_cpu cpu_to_be16
  simp only [List.getD_cons_zero, List.getD_cons_succ]
  omega

theorem cmd_code_injective : Function.Injective cmd_code := by
  intro a b h
  cases a <;> cases b <;> first | rfl | exact absurd h (by decide)

theorem cmd_code_lt (c : Drbd_Packet_Cmd) : cmd_code c < 2 ^ 16 := by
  cases c <;> decide

theorem drbdd_cases_complete (c : Drbd_Packet_Cmd) : c ∈ drbdd_cases := by
  cases c <;> decide

theorem find_code (code : Drbd_Packet_Cmd → Nat) (hinj : Function.Injective code)
    (c : Drbd_Packet_Cmd) : ∀ l : List Drbd_Packet_Cmd, c ∈ l →
      l.find? (fun x => decide (code x = code c)) = some c := by
  intro l
  induction l with
  | nil => intro h; exact absurd h (List.not_mem_nil _)
  | cons x rest ih =>
    intro h
    by_cases hx : x = c
    · subst hx
      simp [List.find?]
    · have hne : code x ≠ code c := fun e => hx (hinj e)
      rw [List.find?_cons_of_neg _ (by simpa using hne)]
      rcases List.mem_cons.1 h with h | h
      · exact absurd h.symm hx
      · exact ih h

/-- The `switch` of `drbdd` selects the case of the command whose number it is
given. -/
theorem drbdd_switch_code (code : Drbd_Packet_Cmd → Nat) (hinj : Function.Injective code)
    (c : Drbd_Packet_Cmd) : drbdd_switch code (code c) = some c :=
  find_code code hinj c drbdd_cases (drbdd_cases_complete c)

theorem drbdd_switch_default (code : Drbd_Packet_Cmd → Nat) (v : Nat)
    (h : ∀ c, code c ≠ v) : drbdd_switch code v = none := by
  unfold drbdd_switch
  rw [List.find?_eq_none]
  intro x _
  simpa using h x

/-- What the receiver reads from the first eight bytes of a packet that
`drbd_send` has built. -/
theorem drbd_send_header_decode (code : Drbd_Packet_Cmd → Nat) (cmd : Drbd_Packet_Cmd)
    (ds : Nat) (payload : List Nat) :
    Drbd_Packet.ofBytes (((drbd_send_header code cmd ds).bytes ++ payload).take
      sizeof_Drbd_Packet) = drbd_send_header code cmd ds := rfl

/-- The round of `drbdd` on a header that `drbd_send` has built: the handler of
the command runs, with the length the sender stored. -/
theorem drbdd_round_decoded (code : Drbd_Packet_Cmd → Nat) (hinj : Function.Injective code)
    (hcode : ∀ c, code c < 2 ^ 16) (MV fuel : Nat) (w : World) (inp : DrbddInput)
    (cmd : Drbd_Packet_Cmd) (ds : Nat)
    (hh : inp.header = some (drbd_send_header code cmd ds).bytes) :
    drbdd_round code MV fuel w inp =
      drbdd_case MV fuel (drbd_collect_zombies w) cmd (ds % 2 ^ 16) inp := by
  have hd : Drbd_Packet.ofBytes (drbd_send_header code cmd ds).bytes
      = drbd_send_header code cmd ds := rfl
  unfold drbdd_round
  dsimp only
  rw [hh]
  dsimp only
  rw [hd]
  have hm : be32_to_cpu (drbd_send_header code cmd ds).magic = DRBD_MAGIC := by
    show be32_to_cpu (cpu_to_be32 DRBD_MAGIC) = DRBD_MAGIC
    decide
  have hc : be16_to_cpu (drbd_send_header code cmd ds).command = code cmd := by
    show be16_to_cpu (cpu_to_be16 (code cmd)) = code cmd
    rw [be16_roundtrip, Nat.mod_eq_of_lt (hcode cmd)]
  have hl : be16_to_cpu (drbd_send_header code cmd ds).length = ds % 2 ^ 16 :=
    be16_roundtrip ds
  rw [if_neg (by rw [hm]; simp), hc, hl, drbdd_switch_code code hinj cmd]

/-- The round of `drbdd` on a header with a wrong magic or with a command that
no case of the `switch` has: the loop is left. -/
theorem drbdd_round_violation (code : Drbd_Packet_Cmd → Nat) (MV fuel : Nat) (w : World)
    (inp : DrbddInput) (b : List Nat) (hh : inp.header = some b)
    (hv : be32_to_cpu (Drbd_Packet.ofBytes b).magic ≠ DRBD_MAGIC ∨
      ∀ c, code c ≠ be16_to_cpu (Drbd_Packet.ofBytes b).command) :
    ∃ m, drbdd_round code MV fuel w inp =
      some ({ drbd_collect_zombies w with
        trace := w.trace ++ [Event.printk m] }, false) ∧
      (m = Msg.unknown_packet_type ∨
       m = Msg.magic (be32_to_cpu (Drbd_Packet.ofBytes b).magic)
        (be16_to_cpu (Drbd_Packet.ofBytes b).command)
        (be16_to_cpu (Drbd_Packet.ofBytes b).length)) := by
  unfold drbdd_round
  dsimp only
  rw [hh]
  dsimp only
  by_cases hm : be32_to_cpu (Drbd_Packet.ofBytes b).magic ≠ DRBD_MAGIC
  · rw [if_pos hm]
    exact ⟨_, rfl, Or.inr rfl⟩
  · rw [if_neg hm]
    rcases hv with hv | hv
    · exact absurd hv hm
    · rw [drbdd_switch_default code _ hv]
      exact ⟨_, rfl, Or.inl rfl⟩

/-- C29: the header that `drbd_send` builds is the eight bytes magic
`0x83740267` (`u32`), command (`u16`), payload length (`u16`) in network byte
order (the numbers `code` of the commands, declared in the missing header,
being distinct and below `2 ^ 16`). Read as `drbdd` reads the first eight bytes
of a packet, the magic is `DRBD_MAGIC`, the `switch` selects the case of the
command that was sent, and for a payload size below 65536 the length is the
one sent. A round of `drbdd` whose header has another magic, or a command that
is not the number of a packet type, prints a diagnostic and leaves the loop:
`drbdd` goes on with the part after the label `out`. -/
theorem packet_header_roundtrip (code : Drbd_Packet_Cmd → Nat) (hinj : Function.Injective code)
    (hcode : ∀ c, code c < 2 ^ 16) :
    (∀ (cmd : Drbd_Packet_Cmd) (ds : Nat) (payload : List Nat),
      (drbd_send_header code cmd ds).bytes =
        cpu_to_be32 0x83740267 ++ cpu_to_be16 (code cmd) ++ cpu_to_be16 ds ∧
      (drbd_send_header code cmd ds).bytes.length = 8 ∧
      be32_to_cpu (Drbd_Packet.ofBytes (((drbd_send_header code cmd ds).bytes ++ payload).take
        sizeof_Drbd_Packet)).magic = DRBD_MAGIC ∧
      drbdd_switch code (be16_to_cpu (Drbd_Packet.ofBytes
        (((drbd_send_header code cmd ds).bytes ++ payload).take
          sizeof_Drbd_Packet)).command) = some cmd ∧
      (ds < 65536 → be16_to_cpu (Drbd_Packet.ofBytes
        (((drbd_send_header code cmd ds).bytes ++ payload).take
          sizeof_Drbd_Packet)).length = ds)) ∧
    (∀ (MV fuel : Nat) (w : World) (inp : DrbddInput) (b : List Nat)
      (rest : List DrbddInput) (md : Option Int), inp.header = some b →
      (be32_to_cpu (Drbd_Packet.ofBytes b).magic ≠ DRBD_MAGIC ∨
        ∀ c, code c ≠ be16_to_cpu (Drbd_Packet.ofBytes b).command) →
      ∃ w1 m, drbdd_round code MV fuel w inp = some (w1, false) ∧
        w1.trace = w.trace ++ [Event.printk m] ∧
        drbdd_rounds code MV fuel (inp :: rest) w = some (w1, false) ∧
        drbdd code MV fuel (inp :: rest) w md = drbdd_out fuel w1 md) := by
  refine ⟨?_, ?_⟩
  · intro cmd ds payload
    rw [drbd_send_header_decode]
    refine ⟨rfl, rfl, ?_, ?_, ?_⟩
    · show be32_to_cpu (cpu_to_be32 DRBD_MAGIC) = DRBD_MAGIC
      decide
    · have hc : be16_to_cpu (drbd_send_header code cmd ds).command = code cmd := by
        show be16_to_cpu (cpu_to_be16 (code cmd)) = code cmd
        rw [be16_roundtrip, Nat.mod_eq_of_lt (hcode cmd)]
      rw [hc]
      exact drbdd_switch_code code hinj cmd
    · intro hds
      show be16_to_cpu (cpu_to_be16 ds) = ds
      rw [be16_roundtrip]
      exact Nat.mod_eq_of_lt hds
  · intro MV fuel w inp b rest md hh hv
    obtain ⟨m, e, -⟩ := drbdd_round_violation code MV fuel w inp b hh hv
    refine ⟨_, m, e, rfl, ?_, ?_⟩
    · unfold drbdd_rounds
      rw [e]
    · unfold drbdd drbdd_rounds
      rw [e]

/-- C29, witness: the numbering `cmd_code` of the packet types is one to one and
below `2 ^ 16`. -/
theorem packet_header_roundtrip_witness :
    (drbd_send_header cmd_code Drbd_Packet_Cmd.Data 4096).bytes =
      [0x83, 0x74, 0x02, 0x67, 0, 0, 0x10, 0] ∧
    drbdd_switch cmd_code (be16_to_cpu (Drbd_Packet.ofBytes
      (((drbd_send_header cmd_code Drbd_Packet_Cmd.Data 4096).bytes ++ [1, 2, 3]).take
        sizeof_Drbd_Packet)).command) = some Drbd_Packet_Cmd.Data ∧
    be16_to_cpu (Drbd_Packet.ofBytes
      (((drbd_send_header cmd_code Drbd_Packet_Cmd.Data 4096).bytes ++ [1, 2, 3]).take
        sizeof_Drbd_Packet)).length = 4096 ∧
    ∃ w1 m, drbdd_round cmd_code 58 13 world0
        { input_none with header := some [0x83, 0x74, 0x02, 0x67, 0, 13, 0, 0] }
        = some (w1, false) ∧
      w1.trace = world0.trace ++ [Event.printk m] ∧
      drbdd_rounds cmd_code 58 13
        [{ input_none with header := some [0x83, 0x74, 0x02, 0x67, 0, 13, 0, 0] }] world0
        = some (w1, false) ∧
      drbdd cmd_code 58 13
        [{ input_none with header := some [0x83, 0x74, 0x02, 0x67, 0, 13, 0, 0] }] world0
        (some 24) = drbdd_out 13 w1 (some 24) :=
  have h := packet_header_roundtrip cmd_code cmd_code_injective cmd_code_lt
  have h1 := h.1 Drbd_Packet_Cmd.Data 4096 [1, 2, 3]
  ⟨h1.1, h1.2.2.2.1, h1.2.2.2.2 (by decide),
    h.2 58 13 world0 { input_none with header := some [0x83, 0x74, 0x02, 0x67, 0, 13, 0, 0] }
      [0x83, 0x74, 0x02, 0x67, 0, 13, 0, 0] [] (some 24) rfl
      (Or.inr (by intro c; cases c <;> decide))⟩

/-! ## A handshake that is refused -/

theorem drbdd_out_sock_stand_alone (w : World)
    (hc : w.mdev.cstate = Drbd_CState.StandAllone) :
    (drbdd_out_sock w).mdev.cstate = Drbd_CState.StandAllone ∧
    (drbdd_out_sock w).mdev.receiver_t_state = w.mdev.receiver_t_state := by
  have hm := drbdd_out_sock_mdev w
  refine ⟨?_, by rw [hm]⟩
  unfold drbdd_out_sock
  dsimp only
  split
  · rw [if_neg (by simpa using hc)]
    exact hc
  · rw [if_neg (by simpa using hc)]
    exact hc

theorem es_clear_loop_cstate : ∀ (n i : Nat) (w : World),
    (es_clear_loop n i w).mdev.cstate = w.mdev.cstate ∧
    (es_clear_loop n i w).mdev.receiver_t_state = w.mdev.receiver_t_state := by
  intro n
  induction n with
  | zero => intro i w; exact ⟨rfl, rfl⟩
  | succ n ih =>
    intro i w
    unfold es_clear_loop
    simp only
    split
    · exact ih _ _
    · exact ih _ _

theorem sl_clear_loop_cstate : ∀ (n i : Nat) (w : World),
    (sl_clear_loop n i w).mdev.cstate = w.mdev.cstate ∧
    (sl_clear_loop n i w).mdev.receiver_t_state = w.mdev.receiver_t_state := by
  intro n
  induction n with
  | zero => intro i w; exact ⟨rfl, rfl⟩
  | succ n ih =>
    intro i w
    unfold sl_clear_loop
    split
    · exact ih _ _
    · exact ih _ _

theorem drbdd_out_role_cstate (fuel : Nat) (w w1 : World) (md : Option Int)
    (h : drbdd_out_role fuel w md = some w1) :
    w1.mdev.cstate = w.mdev.cstate ∧ w1.mdev.receiver_t_state = w.mdev.receiver_t_state := by
  unfold drbdd_out_role at h
  split at h
  · split at h
    · exact Option.noConfusion h
    · next x hx =>
      cases h
      have hfr := tl_clear_frame fuel w x hx
      unfold log_step at hfr
      refine ⟨?_, ?_⟩
      · rw [(drbd_md_inc_mdev _ _ _).1]; dsimp only; rw [hfr]
      · rw [(drbd_md_inc_mdev _ _ _).1]; dsimp only; rw [hfr]
  · cases h
    dsimp only
    unfold sl_clear es_clear
    refine ⟨?_, ?_⟩
    · rw [(sl_clear_loop_cstate _ _ _).1]
      dsimp only
      rw [(es_clear_loop_cstate _ _ _).1]
    · rw [(sl_clear_loop_cstate _ _ _).2]
      dsimp only
      rw [(es_clear_loop_cstate _ _ _).2]
  · cases h
    exact ⟨rfl, rfl⟩

/-- The part of `drbdd` after `out` leaves `StandAllone` and the state of the
receiver thread as they are. -/
theorem drbdd_out_stand_alone (fuel : Nat) (w w2 : World) (md : Option Int)
    (h : drbdd_out fuel w md = some w2) (hc : w.mdev.cstate = Drbd_CState.StandAllone) :
    w2.mdev.cstate = Drbd_CState.StandAllone ∧
    w2.mdev.receiver_t_state = w.mdev.receiver_t_state := by
  unfold drbdd_out at h
  split at h
  · exact Option.noConfusion h
  · next w6 h6 =>
    cases h
    obtain ⟨a1, a2⟩ := drbdd_out_role_cstate _ _ _ _ h6
    obtain ⟨b1, b2⟩ := drbdd_out_sock_stand_alone w hc
    exact ⟨a1.trans b1, a2.trans b2⟩

/-- The part of `drbdd` after `out` returns; on a Primary the transfer log is
walked, which takes at most `tl_size` rounds. -/
theorem drbdd_out_returns (fuel : Nat) (w : World) (md : Option Int)
    (hlog : w.mdev.state = Drbd_State.Primary → tl_wf w.mdev ∧ w.mdev.tl_size ≤ fuel) :
    ∃ w2, drbdd_out fuel w md = some w2 := by
  cases hs : w.mdev.state with
  | Primary =>
    obtain ⟨h1, h2⟩ := hlog hs
    obtain ⟨w1, e, -⟩ := drbdd_out_primary fuel w md hs h1 h2
    exact ⟨w1, e⟩
  | Secondary =>
    obtain ⟨w1, e, -⟩ := drbdd_out_secondary fuel w md hs
    exact ⟨w1, e⟩
  | Unknown =>
    have hm := drbdd_out_sock_mdev w
    have hst : (drbdd_out_snapshot (drbdd_out_sock w)).mdev.state = Drbd_State.Unknown := by
      unfold drbdd_out_snapshot
      dsimp only
      rw [hm]; exact hs
    unfold drbdd_out drbdd_out_role
    rw [hst]
    exact ⟨_, rfl⟩

/-- The three refusals of `receive_param`, lines 2558-2580. -/
theorem receive_param_refused (MV fuel : Nat) (w : World) (param : Drbd_Parameter_P)
    (env : ParamEnv)
    (hrej : (param.state = Drbd_State.Primary ∧ w.mdev.state = Drbd_State.Primary) ∨
      param.version ≠ MV ∨ param.protocol ≠ w.mdev.wire_protocol) :
    ∃ m, receive_param MV fuel w (some param) env = some (receive_param_reject w m, false) ∧
      (m = Msg.incompatible_states ∨ m = Msg.incompatible_releases ∨
        m = Msg.incompatible_protocols) := by
  unfold receive_param
  dsimp only
  by_cases h1 : param.state = Drbd_State.Primary ∧ w.mdev.state = Drbd_State.Primary
  · rw [if_pos h1]
    exact ⟨_, rfl, Or.inl rfl⟩
  · rw [if_neg h1]
    by_cases h2 : param.version ≠ MV
    · rw [if_pos h2]
      exact ⟨_, rfl, Or.inr (Or.inl rfl)⟩
    · rw [if_neg h2]
      by_cases h3 : param.protocol ≠ w.mdev.wire_protocol
      · rw [if_pos h3]
        exact ⟨_, rfl, Or.inr (Or.inr rfl)⟩
      · rcases hrej with h | h | h
        · exact absurd h h1
        · exact absurd h h2
        · exact absurd h h3

/-- C22: let the peer's `ReportParams` report Primary while the device is
Primary, or a version other than `MOD_VERSION`, or a wire protocol other than
the configured one. Then `receive_param` returns FALSE, having printed one of
the three diagnostics and set `cstate` to `StandAllone` and the state of the
receiver thread to `Exiting`; nothing else of the device (role, sizes,
generation counters) is changed. When the packet arrives in `drbdd` (the
numbers `code` of the commands being distinct and below `2 ^ 16`), the loop is
left, the part after the label `out` returns (on a Primary the transfer log,
taken well formed, is cleared) with `cstate` still `StandAllone` and the thread
state still `Exiting`, and the round of `drbdd_init` ends its loop: the
receiver does not connect again. -/
theorem handshake_mismatch_stands_alone (code : Drbd_Packet_Cmd → Nat)
    (hinj : Function.Injective code) (hcode : ∀ c, code c < 2 ^ 16) (MV fuel : Nat) (w : World)
    (param : Drbd_Parameter_P) (inp : DrbddInput) (rest : List DrbddInput) (md : Option Int)
    (ds : Nat)
    (hh : inp.header = some (drbd_send_header code Drbd_Packet_Cmd.ReportParams ds).bytes)
    (hp : inp.param = some param)
    (hrej : (param.state = Drbd_State.Primary ∧ w.mdev.state = Drbd_State.Primary) ∨
      param.version ≠ MV ∨ param.protocol ≠ w.mdev.wire_protocol)
    (hlog : w.mdev.state = Drbd_State.Primary → tl_wf w.mdev ∧ w.mdev.tl_size ≤ fuel) :
    (∃ m, (m = Msg.incompatible_states ∨ m = Msg.incompatible_releases ∨
          m = Msg.incompatible_protocols) ∧
      receive_param MV fuel w (some param) inp.env =
        some ({ w with mdev := { w.mdev with cstate := Drbd_CState.StandAllone,
                                             receiver_t_state := Drbd_thread_state.Exiting },
                       trace := w.trace ++ [Event.printk m] }, false)) ∧
    (∃ w1 w2, drbdd_rounds code MV fuel (inp :: rest) w = some (w1, false) ∧
      w1.mdev.cstate = Drbd_CState.StandAllone ∧
      w1.mdev.receiver_t_state = Drbd_thread_state.Exiting ∧
      drbdd code MV fuel (inp :: rest) w md = some w2 ∧
      w2.mdev.cstate = Drbd_CState.StandAllone ∧
      w2.mdev.receiver_t_state = Drbd_thread_state.Exiting) ∧
    ∃ w3, drbdd_init_round code MV fuel (w, true) (inp :: rest) md = some (w3, false) := by
  obtain ⟨m0, e0, hm0⟩ := receive_param_refused MV fuel w param inp.env hrej
  obtain ⟨m, e, -⟩ := receive_param_refused MV fuel (drbd_collect_zombies w) param inp.env hrej
  have hround : drbdd_round code MV fuel w inp
      = some (receive_param_reject (drbd_collect_zombies w) m, false) := by
    rw [drbdd_round_decoded code hinj hcode MV fuel w inp _ ds hh]
    unfold drbdd_case
    dsimp only
    rw [hp, e]
  have hrounds : drbdd_rounds code MV fuel (inp :: rest) w
      = some (receive_param_reject (drbd_collect_zombies w) m, false) := by
    unfold drbdd_rounds
    rw [hround]
  have hring : same_ring w.mdev (receive_param_reject (drbd_collect_zombies w) m).mdev :=
    ⟨rfl, rfl, rfl, rfl⟩
  obtain ⟨w2, e2⟩ := drbdd_out_returns fuel (receive_param_reject (drbd_collect_zombies w) m) md
    (fun hs => ⟨same_ring_wf hring (hlog hs).1, (hlog hs).2⟩)
  obtain ⟨c1, c2'⟩ := drbdd_out_stand_alone fuel _ w2 md e2 rfl
  have c2 : w2.mdev.receiver_t_state = Drbd_thread_state.Exiting := c2'
  have hd : drbdd code MV fuel (inp :: rest) w md = some w2 := by
    unfold drbdd
    rw [hrounds]
    exact e2
  refine ⟨⟨m0, hm0, e0⟩, ⟨_, w2, hrounds, rfl, rfl, hd, c1, c2⟩, ?_⟩
  unfold drbdd_init_round
  dsimp only
  rw [if_neg (by decide)]
  by_cases hx : w.mdev.receiver_t_state = Drbd_thread_state.Exiting
  · rw [if_pos hx]
    exact ⟨_, rfl⟩
  · rw [if_neg hx, hd]
    dsimp only
    rw [if_pos c2]
    exact ⟨_, rfl⟩

/-- C22, witness: a Primary in `WFReportParams` receives the parameters of
another release. -/
theorem handshake_mismatch_stands_alone_witness :
    (∃ m, (m = Msg.incompatible_states ∨ m = Msg.incompatible_releases ∨
          m = Msg.incompatible_protocols) ∧
      receive_param 58 13 world_handshake (some param_old_release) input_old_release.env =
        some ({ world_handshake with
                mdev := { world_handshake.mdev with
                          cstate := Drbd_CState.StandAllone,
                          receiver_t_state := Drbd_thread_state.Exiting },
                trace := world_handshake.trace ++ [Event.printk m] }, false)) ∧
    (∃ w1 w2, drbdd_rounds cmd_code 58 13 [input_old_release] world_handshake
        = some (w1, false) ∧
      w1.mdev.cstate = Drbd_CState.StandAllone ∧
      w1.mdev.receiver_t_state = Drbd_thread_state.Exiting ∧
      drbdd cmd_code 58 13 [input_old_release] world_handshake (some 24) = some w2 ∧
      w2.mdev.cstate = Drbd_CState.StandAllone ∧
      w2.mdev.receiver_t_state = Drbd_thread_state.Exiting) ∧
    ∃ w3, drbdd_init_round cmd_code 58 13 (world_handshake, true) [input_old_release]
      (some 24) = some (w3, false) :=
  handshake_mismatch_stands_alone cmd_code cmd_code_injective cmd_code_lt 58 13 world_handshake
    param_old_release input_old_release [] (some 24) 0 rfl rfl (Or.inr (Or.inl (by decide)))
    (fun _ => ⟨by decide, by decide⟩)

/-! ## The consistency flag -/

theorem drbd_send_ack_gen_cnt (w : World) (cmd : Drbd_Packet_Cmd) (a b : Nat) (o : SendOutcome) :
    (drbd_send_ack w cmd a b o).1.mdev.gen_cnt = w.mdev.gen_cnt ∧
    (drbd_send_ack w cmd a b o).1.mdev.state = w.mdev.state := by
  unfold drbd_send_ack
  constructor <;> rw [(drbd_send_mdev _ _ _ _ _ _ _).1]

/-- The function `receive_data` leaves the generation counters and the role as
they are. -/
theorem receive_data_gen_cnt (fuel : Nat) (w w1 : World) (ds : Nat) (rd : RecvData)
    (o : SendOutcome) (b : Bool) (h : receive_data fuel w ds rd o = some (w1, b)) :
    w1.mdev.gen_cnt = w.mdev.gen_cnt ∧ w1.mdev.state = w.mdev.state := by
  unfold receive_data at h
  dsimp only at h
  generalize hw0 : (if w.mdev.state ≠ Drbd_State.Secondary
      then ({ w with trace := w.trace ++ [Event.printk Msg.got_data_while_not_SEC] } : World)
      else w) = w0 at h
  have e0 : w0.mdev.gen_cnt = w.mdev.gen_cnt ∧ w0.mdev.state = w.mdev.state := by
    rw [← hw0]; split <;> exact ⟨rfl, rfl⟩
  split at h
  · cases h
    exact e0
  · next bn id hh =>
    split at h
    · exact Option.noConfusion h
    · next wx hx =>
      have hwx : wx.mdev.gen_cnt = w.mdev.gen_cnt ∧ wx.mdev.state = w.mdev.state := by
        split at hx
        · split at hx
          · exact Option.noConfusion hx
          · cases hx
            exact e0
        · cases hx
          exact e0
      split at h
      · cases h
        exact hwx
      · generalize hW2 : (if id ≠ ID_SYNCER then (_ : World) else _) = w2 at h
        have e2 : w2.mdev.gen_cnt = w.mdev.gen_cnt ∧ w2.mdev.state = w.mdev.state := by
          rw [← hW2]
          split
          · dsimp only
            split
            · exact hwx
            · exact hwx
          · split
            · exact hwx
            · exact hwx
            · exact ⟨(drbd_send_ack_gen_cnt _ _ _ _ _).1.trans hwx.1,
                (drbd_send_ack_gen_cnt _ _ _ _ _).2.trans hwx.2⟩
        split at h
        · cases h
          exact e2
        · generalize hW3 : (if w2.mdev.wire_protocol = DRBD_PROT_B ∧ id ≠ ID_SYNCER
              then (_ : World) else _) = w3 at h
          have e3 : w3.mdev.gen_cnt = w.mdev.gen_cnt ∧ w3.mdev.state = w.mdev.state := by
            rw [← hW3]
            split
            · exact ⟨(drbd_send_ack_gen_cnt _ _ _ _ _).1.trans e2.1,
                (drbd_send_ack_gen_cnt _ _ _ _ _).2.trans e2.2⟩
            · exact e2
          cases h
          exact e3

theorem list_set_set_idem (l : List Nat) (i j a b : Nat) :
    (((l.set i a).set j b).set i a).set j b = (l.set i a).set j b := by
  apply List.ext_getElem?
  intro n
  simp only [List.getElem?_set, List.length_set]
  split_ifs <;> simp_all

theorem clear_bit_idem (nr flags : Nat) :
    clear_bit nr (clear_bit nr flags) = clear_bit nr flags := by
  unfold clear_bit
  by_cases h : flags.testBit nr = true
  · rw [if_pos h]
    have : (flags ^^^ 2 ^ nr).testBit nr = false := by
      rw [Nat.testBit_xor, h, Nat.testBit_two_pow_self]; rfl
    rw [if_neg (by rw [this]; decide)]
  · rw [if_neg h, if_neg h]

/-- What the case `SetConsistent` of `drbdd` does to the world. -/
theorem set_consistent_eq (x : World) (md : Option Int) :
    drbd_md_write { x with mdev := { x.mdev with gen_cnt := x.mdev.gen_cnt.set Consistent 1 } } md
      = { x with
          mdev := { x.mdev with gen_cnt := consistent_set x.mdev },
          md_file := md_file_after md x.md_file (consistent_set x.mdev),
          trace := x.trace ++ md_write_trace md } := by
  unfold drbd_md_write consistent_set md_file_after md_write_trace
  cases md with
  | none => rfl
  | some i =>
    dsimp only
    split
    · next hi => simp [hi]
    · next hi => simp [hi]

/-- The round of `drbdd` in which a `SetConsistent` packet arrives. -/
theorem drbdd_round_set_consistent (code : Drbd_Packet_Cmd → Nat)
    (hinj : Function.Injective code) (hcode : ∀ c, code c < 2 ^ 16) (MV fuel : Nat) (w : World)
    (inp : DrbddInput) (ds : Nat)
    (hh : inp.header = some (drbd_send_header code Drbd_Packet_Cmd.SetConsistent ds).bytes) :
    ∃ w1, drbdd_round code MV fuel w inp = some (w1, true) ∧
      w1.mdev = { w.mdev with flags := clear_bit COLLECT_ZOMBIES w.mdev.flags,
                              gen_cnt := consistent_set w.mdev } ∧
      w1.md_file = md_file_after inp.md w.md_file (consistent_set w.mdev) ∧
      w1.trace = w.trace ++ md_write_trace inp.md ∧
      w1.minor = w.minor ∧ w1.br_cnt = w.br_cnt ∧ w1.reqs = w.reqs ∧
      w1.blk_size = w.blk_size := by
  rw [drbdd_round_decoded code hinj hcode MV fuel w inp _ ds hh]
  unfold drbdd_case
  dsimp only
  rw [set_consistent_eq]
  exact ⟨_, rfl, rfl, rfl, rfl, rfl, rfl, rfl, rfl⟩

theorem consistent_set_idem (m m1 : Drbd_Conf) (hs : m1.state = m.state)
    (hg : m1.gen_cnt = consistent_set m) : consistent_set m1 = consistent_set m := by
  unfold consistent_set at *
  rw [hg, hs]
  exact list_set_set_idem _ _ _ _ _

theorem getD_set_ne (l : List Nat) (i j a : Nat) (h : j ≠ i) :
    (l.set i a).getD j 0 = l.getD j 0 := by
  rw [List.getD_eq_getElem?_getD, List.getD_eq_getElem?_getD, List.getElem?_set]
  rw [if_neg (fun hh => h hh.symm)]

theorem getD_set_zero (l : List Nat) (i j : Nat) : (l.set i 0).getD j 0 = 0 ∨
    (l.set i 0).getD j 0 = l.getD j 0 := by
  by_cases h : j = i
  · subst h
    left
    rw [List.getD_eq_getElem?_getD, List.getElem?_set]
    simp only [if_true]
    split <;> rfl
  · right
    exact getD_set_ne l i j 0 h

/-- The function `receive_cstate` does not set `gen_cnt[Consistent]`. -/
theorem receive_cstate_consistent (w : World) (header : Option Drbd_CState) (md : Option Int)
    (h0 : w.mdev.gen_cnt.getD Consistent 0 = 0) :
    (receive_cstate w header md).1.mdev.gen_cnt.getD Consistent 0 = 0 := by
  unfold receive_cstate
  cases header with
  | none => exact h0
  | some cs =>
    dsimp only
    split
    · rw [(drbd_md_write_gen_cnt _ _).1]
      dsimp only
      rw [getD_set_ne _ _ _ _ (by decide)]
      rcases getD_set_zero w.mdev.gen_cnt Consistent Consistent with h | h
      · exact h
      · exact h.trans h0
    · exact h0

/-- A send that the socket takes whole, on a connection that is up. -/
theorem drbd_send_whole (w : World) (cmd : Drbd_Packet_Cmd) (a b hs ds : Nat) (o : SendOutcome)
    (h1 : w.mdev.sock = true)
    (h2 : Drbd_CState.WFReportParams.toNat ≤ w.mdev.cstate.toNat)
    (h3 : w.mdev.timeout = 0 ∨ o.signalled = false) (h4 : o.err = ((hs + ds : Nat) : Int)) :
    (drbd_send w cmd a b hs ds o).1 =
      { w with trace := w.trace ++ [Event.send cmd a b hs ds o.err] } := by
  unfold drbd_send
  dsimp only
  rw [if_neg (by rw [h1]; decide), if_neg (by omega)]
  have hn : ¬ (w.mdev.timeout ≠ 0 ∧ o.signalled = true) := by
    rintro ⟨a1, a2⟩
    rcases h3 with h3 | h3
    · exact a1 h3
    · rw [h3] at a2; exact Bool.noConfusion a2
  rw [if_neg hn, if_neg (by rw [h4]; exact not_lt.2 (Int.ofNat_nonneg _)),
    if_neg (by rw [h4]; simp)]

/-- The packets that end a synchronisation, in the order `drbd_syncer` sends
them: `SetConsistent` first, then `CStateChanged` with `Connected`. -/
theorem drbd_syncer_done_trace (w : World) (o1 o2 : SendOutcome)
    (h1 : w.mdev.sock = true)
    (h2 : Drbd_CState.WFReportParams.toNat ≤ w.mdev.cstate.toNat)
    (h3 : w.mdev.timeout = 0 ∨ (o1.signalled = false ∧ o2.signalled = false))
    (h4 : o1.err = 8) (h5 : o2.err = 12) :
    (drbd_syncer_done w o1 o2).trace = w.trace ++
      [Event.send Drbd_Packet_Cmd.SetConsistent 0 0 8 0 8,
       Event.printk Msg.Synchronisation_done,
       Event.send Drbd_Packet_Cmd.CStateChanged Drbd_CState.Connected.toNat 0 12 0 12] := by
  unfold drbd_syncer_done drbd_send_cmd drbd_send_cstate
  dsimp only
  rw [drbd_send_whole w _ 0 0 sizeof_Drbd_Packet 0 o1 h1 h2
    (h3.imp id (fun x => x.1)) (by rw [h4]; rfl)]
  dsimp only
  rw [drbd_send_whole]
  · dsimp only
    rw [h4, h5]
    simp only [List.append_assoc, List.singleton_append, List.cons_append, List.nil_append]
    rfl
  · exact h1
  · show Drbd_CState.WFReportParams.toNat ≤ Drbd_CState.Connected.toNat
    decide
  · exact h3.imp id (fun x => x.2)
  · rw [h5]; rfl

/-- C26, counterexample: a Primary that ends a synchronisation sends
`SetConsistent` and then `CStateChanged` with `Connected`. A Secondary with
consistent data receives `CStateChanged` with `SyncingAll` and a block of the
syncer: its `cstate` is `SyncingAll` and `gen_cnt[Consistent]` is 0. The
`SetConsistent` packet that arrives next sets `gen_cnt[Consistent]` to 1 while
`cstate` is still `SyncingAll`. -/
theorem set_consistent_while_syncing_counterexample :
    (drbd_syncer_done world_syncing ⟨8, false⟩ ⟨12, false⟩).trace =
      [Event.send Drbd_Packet_Cmd.SetConsistent 0 0 8 0 8,
       Event.printk Msg.Synchronisation_done,
       Event.send Drbd_Packet_Cmd.CStateChanged 7 0 12 0 12] ∧
    world_sync_target.mdev.state = Drbd_State.Secondary ∧
    ∃ wa, drbdd_rounds cmd_code 58 13 [input_cstate_syncing, input_resync_data]
        world_sync_target = some (wa, true) ∧
      wa.mdev.cstate = Drbd_CState.SyncingAll ∧ wa.mdev.gen_cnt.getD Consistent 0 = 0 ∧
      ∃ wb, drbdd_round cmd_code 58 13 wa input_set_consistent = some (wb, true) ∧
        wb.mdev.cstate = Drbd_CState.SyncingAll ∧ wb.mdev.gen_cnt.getD Consistent 0 = 1 :=
  ⟨rfl, rfl, _, rfl, rfl, rfl, _, rfl, rfl, rfl⟩

/-- C26: a `SetConsistent` packet that arrives in `drbdd` (the numbers `code` of
the commands being distinct and below `2 ^ 16`) sets `gen_cnt[Consistent]` to 1
and writes the meta data, whatever `cstate` is, and leaves `cstate` as it is;
a second one (with the same outcome of the write) changes nothing but what is
printed. A `Data` or a `CStateChanged` packet never takes `gen_cnt[Consistent]`
from 0 to 1. The packet that sets it reaches the Secondary while `cstate` is
still `SyncingAll` or `SyncingQuick`: `drbd_syncer` sends `SetConsistent`
before it sends `CStateChanged` with `Connected`. -/
theorem set_consistent_rounds (code : Drbd_Packet_Cmd → Nat) (hinj : Function.Injective code)
    (hcode : ∀ c, code c < 2 ^ 16) (MV fuel : Nat) :
    (∀ (w : World) (inp : DrbddInput) (ds : Nat),
      inp.header = some (drbd_send_header code Drbd_Packet_Cmd.SetConsistent ds).bytes →
      ∃ w1 w2, drbdd_round code MV fuel w inp = some (w1, true) ∧
        w1.mdev.cstate = w.mdev.cstate ∧
        (0 < w.mdev.gen_cnt.length → w1.mdev.gen_cnt.getD Consistent 0 = 1) ∧
        drbdd_round code MV fuel w1 inp = some (w2, true) ∧
        w2.mdev = w1.mdev ∧ w2.md_file = w1.md_file ∧ w2.minor = w1.minor ∧
        w2.br_cnt = w1.br_cnt ∧ w2.reqs = w1.reqs ∧ w2.blk_size = w1.blk_size) ∧
    (∀ (w w1 : World) (inp : DrbddInput) (cmd : Drbd_Packet_Cmd) (ds : Nat) (b : Bool),
      cmd = Drbd_Packet_Cmd.Data ∨ cmd = Drbd_Packet_Cmd.CStateChanged →
      inp.header = some (drbd_send_header code cmd ds).bytes →
      drbdd_round code MV fuel w inp = some (w1, b) →
      w.mdev.gen_cnt.getD Consistent 0 = 0 → w1.mdev.gen_cnt.getD Consistent 0 = 0) ∧
    (∀ (w : World) (o1 o2 : SendOutcome), w.mdev.sock = true →
      Drbd_CState.WFReportParams.toNat ≤ w.mdev.cstate.toNat →
      w.mdev.timeout = 0 ∨ (o1.signalled = false ∧ o2.signalled = false) →
      o1.err = 8 → o2.err = 12 →
      (drbd_syncer_done w o1 o2).trace = w.trace ++
        [Event.send Drbd_Packet_Cmd.SetConsistent 0 0 8 0 8,
         Event.printk Msg.Synchronisation_done,
         Event.send Drbd_Packet_Cmd.CStateChanged Drbd_CState.Connected.toNat 0 12 0 12]) := by
  refine ⟨?_, ?_, ?_⟩
  · intro w inp ds hh
    obtain ⟨w1, e1, m1, f1, -, a1, a2, a3, a4⟩ :=
      drbdd_round_set_consistent code hinj hcode MV fuel w inp ds hh
    obtain ⟨w2, e2, m2, f2, -, b1, b2, b3, b4⟩ :=
      drbdd_round_set_consistent code hinj hcode MV fuel w1 inp ds hh
    have hs : w1.mdev.state = w.mdev.state := by rw [m1]
    have hg : w1.mdev.gen_cnt = consistent_set w.mdev := by rw [m1]
    have hfl : w1.mdev.flags = clear_bit COLLECT_ZOMBIES w.mdev.flags := by rw [m1]
    have hidem := consistent_set_idem w.mdev w1.mdev hs hg
    refine ⟨w1, w2, e1, by rw [m1], ?_, e2, ?_, ?_, b1, b2, b3, b4⟩
    · intro hlen
      rw [hg]
      unfold consistent_set
      rw [getD_set_ne _ _ _ _ (by decide), List.getD_eq_getElem?_getD, List.getElem?_set]
      simp [hlen, Consistent]
    · rw [m2, hidem, hfl, clear_bit_idem, ← hfl, ← hg]
    · rw [f2, f1, hidem]
      unfold md_file_after
      cases inp.md <;> rfl
  · intro w w1 inp cmd ds b hcmd hh hr h0
    rw [drbdd_round_decoded code hinj hcode MV fuel w inp cmd ds hh] at hr
    rcases hcmd with rfl | rfl
    · unfold drbdd_case at hr
      dsimp only at hr
      rw [(receive_data_gen_cnt _ _ _ _ _ _ _ hr).1]
      exact h0
    · have hr' : some (receive_cstate (drbd_collect_zombies w) inp.cstate inp.md)
          = some (w1, b) := hr
      have hw1 : w1 = (receive_cstate (drbd_collect_zombies w) inp.cstate inp.md).1 := by
        rw [Option.some.inj hr']
      rw [hw1]
      exact receive_cstate_consistent _ _ _ h0
  · intro w o1 o2 h1 h2 h3 h4 h5
    exact drbd_syncer_done_trace w o1 o2 h1 h2 h3 h4 h5

/-- C26, witness: with the numbering `cmd_code`, two `SetConsistent` packets
reach the Secondary `world_sync_target`. -/
theorem set_consistent_rounds_witness :
    ∃ w1 w2, drbdd_round cmd_code 58 13 world_sync_target input_set_consistent
        = some (w1, true) ∧
      w1.mdev.cstate = world_sync_target.mdev.cstate ∧
      (0 < world_sync_target.mdev.gen_cnt.length → w1.mdev.gen_cnt.getD Consistent 0 = 1) ∧
      drbdd_round cmd_code 58 13 w1 input_set_consistent = some (w2, true) ∧
      w2.mdev = w1.mdev ∧ w2.md_file = w1.md_file ∧ w2.minor = w1.minor ∧
      w2.br_cnt = w1.br_cnt ∧ w2.reqs = w1.reqs ∧ w2.blk_size = w1.blk_size :=
  (set_consistent_rounds cmd_code cmd_code_injective cmd_code_lt 58 13).1 world_sync_target
    input_set_consistent 0 rfl

/-! ## The flag `ISSUE_BARRIER` and the local completion -/

theorem test_bit_set_bit (nr flags : Nat) : test_bit nr (set_bit nr flags) = true := by
  unfold test_bit set_bit
  rw [Nat.testBit_or, Nat.testBit_two_pow_self]
  simp

/-- The flag after `end_it_unlocked`: it is set when it was set or when a
connected Primary finds a dependency. -/
theorem end_it_unlocked_flag (fuel : Nat) (w : World) (req uptodate : Nat) (wake : Bool)
    (h : tl_wf w.mdev) (hf : w.mdev.tl_size ≤ fuel) :
    ∃ w1 tail, end_it_unlocked fuel w req uptodate wake = some w1 ∧
      w1.trace = w.trace ++ Event.end_request req (uptodate &&& (w.reqs req).rq_status) :: tail ∧
      (∀ e ∈ tail, e = Event.panic ∨ e = Event.wake_asender) ∧
      (test_bit ISSUE_BARRIER w1.mdev.flags = true ↔
        test_bit ISSUE_BARRIER w.mdev.flags = true ∨
        (w.mdev.state = Drbd_State.Primary ∧
          Drbd_CState.Connected.toNat ≤ w.mdev.cstate.toNat ∧
          tl_dependence fuel w.mdev (w.reqs req).sector = some true)) := by
  obtain ⟨w1, tail, e1, e2, e3, -, -, -, e7⟩ := end_it_unlocked_spec fuel w req uptodate wake h hf
  refine ⟨w1, tail, e1, e2, e3, ?_⟩
  rw [e7, tl_dependence_spec w.mdev _ fuel h hf]
  unfold dep_cond
  by_cases hc : w.mdev.state = Drbd_State.Primary ∧
      Drbd_CState.Connected.toNat ≤ w.mdev.cstate.toNat
  · by_cases hd : contains_sector_spec (tl_entries w.mdev) (w.reqs req).sector = true
    · rw [if_pos (by simp [hc, hd])]
      dsimp only
      rw [test_bit_set_bit]
      simp [hc, hd]
    · rw [if_neg (by simp [hc, hd])]
      simp [hd]
  · rw [if_neg (by simp [hc])]
    constructor
    · intro hx; exact Or.inl hx
    · rintro (hx | ⟨a, b, -⟩)
      · exact hx
      · exact absurd ⟨a, b⟩ hc

/-- C30, counterexample: scenario S2. Under protocol C the writes of the sectors
0 and 8 have been sent and are not acknowledged; `tl_dependence` holds for
sector 0. The local write of the first request finishes: `drbd_dio_end`
leaves `ISSUE_BARRIER` clear. The third write, again of sector 0, goes out as
`Data` with no `Barrier` before it. -/
theorem dio_end_sets_no_flag_counterexample :
    world_s2.mdev.wire_protocol = DRBD_PROT_C ∧
    run 8 [Action.do_request 101 (rq_write 0) true barrier_taken data_taken,
      Action.do_request 102 (rq_write 8) true barrier_taken data_taken] world_s2
      = some world_s2_sent ∧
    tl_dependence 8 world_s2_sent.mdev (world_s2_sent.reqs 101).sector = some true ∧
    ∃ w3, drbd_dio_end 8 world_s2_sent 101 1 = some w3 ∧
      test_bit ISSUE_BARRIER w3.mdev.flags = false ∧
      ∃ w4, exec 8 w3 (Action.do_request 103 (rq_write 0) true barrier_taken data_taken)
          = some w4 ∧
        w4.trace =
          [Event.ll_rw_block 1 101, Event.send Drbd_Packet_Cmd.Data 0 101 24 4096 4120,
           Event.ll_rw_block 1 102, Event.send Drbd_Packet_Cmd.Data 1 102 24 4096 4120,
           Event.ll_rw_block 1 103, Event.send Drbd_Packet_Cmd.Data 0 103 24 4096 4120] :=
  ⟨rfl, rfl, by decide, _, rfl, rfl, _, rfl, rfl⟩

/-- C30: the local completion of a write (`drbd_dio_end`) on a device with a
well-formed transfer log. If neither event of the request has been recorded
yet (`RQ_DRBD_NOTHING`: the write was sent and, under protocol B or C, is not
acknowledged), the completion is only recorded in `rq_status`: device, flags
and trace are as before. If the other event has been recorded
(`RQ_DRBD_SENT`), the request is completed, and `ISSUE_BARRIER` is set
afterwards just when it was set before or the device is a connected Primary
and `tl_dependence` holds for the sector of the request. The same holds for
the acknowledgement (`RQ_DRBD_SENT`) that arrives after the local completion
was recorded (`RQ_DRBD_WRITTEN`). -/
theorem dio_end_issue_barrier (fuel : Nat) (w : World) (req u : Nat) (hwf : tl_wf w.mdev)
    (hf : w.mdev.tl_size ≤ fuel) (hcmd : (w.reqs req).cmd = WRITE) :
    ((w.reqs req).rq_status &&& 0xfffe = RQ_DRBD_NOTHING →
      drbd_dio_end fuel w req u =
        some { w with reqs := req_update w.reqs req { w.reqs req with
          rq_status := RQ_DRBD_WRITTEN ||| (if u ≠ 0 then 1 else 0) } }) ∧
    ((w.reqs req).rq_status &&& 0xfffe = RQ_DRBD_SENT →
      ∃ w1 tail, drbd_dio_end fuel w req u = some w1 ∧
        w1.trace = w.trace ++ Event.end_request req (u &&& (w.reqs req).rq_status) :: tail ∧
        (∀ e ∈ tail, e = Event.panic ∨ e = Event.wake_asender) ∧
        (test_bit ISSUE_BARRIER w1.mdev.flags = true ↔
          test_bit ISSUE_BARRIER w.mdev.flags = true ∨
          (w.mdev.state = Drbd_State.Primary ∧
            Drbd_CState.Connected.toNat ≤ w.mdev.cstate.toNat ∧
            tl_dependence fuel w.mdev (w.reqs req).sector = some true))) ∧
    ((w.reqs req).rq_status &&& 0xfffe = RQ_DRBD_WRITTEN →
      ∃ w1 tail, drbd_end_req fuel w req RQ_DRBD_SENT 1 = some w1 ∧
        w1.trace = w.trace ++ Event.end_request req (1 &&& (w.reqs req).rq_status) :: tail ∧
        (∀ e ∈ tail, e = Event.panic ∨ e = Event.wake_asender) ∧
        (test_bit ISSUE_BARRIER w1.mdev.flags = true ↔
          test_bit ISSUE_BARRIER w.mdev.flags = true ∨
          (w.mdev.state = Drbd_State.Primary ∧
            Drbd_CState.Connected.toNat ≤ w.mdev.cstate.toNat ∧
            tl_dependence fuel w.mdev (w.reqs req).sector = some true))) := by
  have hr : ¬ (w.reqs req).cmd = READ := by rw [hcmd]; decide
  refine ⟨?_, ?_, ?_⟩
  · intro hst
    unfold drbd_dio_end drbd_end_req
    dsimp only
    rw [if_neg hr, if_neg (by rw [hst]; decide), if_pos hst]
    rfl
  · intro hst
    unfold drbd_dio_end drbd_end_req
    dsimp only
    rw [if_neg hr, if_neg (by rw [hst]; decide), if_neg (by rw [hst]; decide), if_pos hst,
      if_pos rfl]
    exact end_it_unlocked_flag fuel w req u false hwf hf
  · intro hst
    unfold drbd_end_req
    dsimp only
    rw [if_neg hr, if_neg (by rw [hst]; decide), if_neg (by rw [hst]; decide),
      if_neg (by rw [hst]; decide), if_pos hst, if_pos rfl]
    exact end_it_unlocked_flag fuel w req 1 false hwf hf

/-- C30, witness: scenario S2 with the acknowledgement of the first write
arriving before its local completion. `drbd_dio_end` then completes the
request and sets `ISSUE_BARRIER`, and the third write of sector 0 is preceded
by `Barrier` number 1. -/
theorem dio_end_issue_barrier_witness :
    (∃ w1 tail, drbd_dio_end 8 world_s2_acked 101 1 = some w1 ∧
      w1.trace = world_s2_acked.trace ++
        Event.end_request 101 (1 &&& (world_s2_acked.reqs 101).rq_status) :: tail ∧
      (∀ e ∈ tail, e = Event.panic ∨ e = Event.wake_asender) ∧
      (test_bit ISSUE_BARRIER w1.mdev.flags = true ↔
        test_bit ISSUE_BARRIER world_s2_acked.mdev.flags = true ∨
        (world_s2_acked.mdev.state = Drbd_State.Primary ∧
          Drbd_CState.Connected.toNat ≤ world_s2_acked.mdev.cstate.toNat ∧
          tl_dependence 8 world_s2_acked.mdev (world_s2_acked.reqs 101).sector
            = some true))) ∧
    ∃ w4, run 8 [Action.dio_end 101 1,
        Action.do_request 103 (rq_write 0) true barrier_taken data_taken] world_s2_acked
        = some w4 ∧
      w4.trace =
        [Event.ll_rw_block 1 101, Event.send Drbd_Packet_Cmd.Data 0 101 24 4096 4120,
         Event.ll_rw_block 1 102, Event.send Drbd_Packet_Cmd.Data 1 102 24 4096 4120,
         Event.end_request 101 1, Event.wake_asender,
         Event.ll_rw_block 1 103, Event.send Drbd_Packet_Cmd.Barrier 1 0 12 0 12,
         Event.send Drbd_Packet_Cmd.Data 0 103 24 4096 4120] :=
  ⟨(dio_end_issue_barrier 8 world_s2_acked 101 1 (by decide) (by decide) (by decide)).2.1
      (by decide), _, rfl, rfl⟩

/-! ## Barrier causality -/

theorem barrier_sent_append_left {d : List Event} (h : barrier_sent d) (d2 : List Event) :
    barrier_sent (d ++ d2) := by
  obtain ⟨e, he, hb⟩ := h
  exact ⟨e, List.mem_append_left _ he, hb⟩

theorem barrier_sent_append_right {d : List Event} (h : barrier_sent d) (d1 : List Event) :
    barrier_sent (d1 ++ d) := by
  obtain ⟨e, he, hb⟩ := h
  exact ⟨e, List.mem_append_right _ he, hb⟩

theorem log_trouble_append_left {d : List Event} (h : log_trouble d) (d2 : List Event) :
    log_trouble (d ++ d2) := by
  rcases h with h | h
  · exact Or.inl (List.mem_append_left _ h)
  · exact Or.inr (List.mem_append_left _ h)

theorem log_trouble_append_right {d : List Event} (h : log_trouble d) (d1 : List Event) :
    log_trouble (d1 ++ d) := by
  rcases h with h | h
  · exact Or.inl (List.mem_append_right _ h)
  · exact Or.inr (List.mem_append_right _ h)

theorem barrier_due_refl (E : Tl_entry) (w : World) : barrier_due E w w :=
  fun hwf => ⟨hwf, rfl, id, rfl, [], by simp, Or.inr (Or.inr (Or.inr ⟨id, fun _ h =>
    ⟨h, fun hd => absurd hd (by simp [done_of])⟩⟩))⟩

theorem barrier_due_trans {E : Tl_entry} {w w1 w2 : World} (h1 : barrier_due E w w1)
    (h2 : barrier_due E w1 w2) : barrier_due E w w2 := by
  intro hwf
  obtain ⟨a1, a2, a3, a4, d1, a5, a6⟩ := h1 hwf
  obtain ⟨b1, b2, b3, b4, d2, b5, b6⟩ := h2 a1
  refine ⟨b1, b2.trans a2, fun h => a3 (b3 h), b4.trans a4, d1 ++ d2,
    by rw [b5, a5, List.append_assoc], ?_⟩
  rcases a6 with h | h | h | ⟨f1, e1⟩
  · exact Or.inl (barrier_sent_append_left h _)
  · exact Or.inr (Or.inl (log_trouble_append_left h _))
  · exact Or.inr (Or.inr (Or.inl (fun hl => h (b3 hl))))
  · rcases b6 with h | h | h | ⟨f2, e2⟩
    · exact Or.inl (barrier_sent_append_right h _)
    · exact Or.inr (Or.inl (log_trouble_append_right h _))
    · exact Or.inr (Or.inr (Or.inl h))
    · refine Or.inr (Or.inr (Or.inr ⟨fun h => f2 (f1 h), ?_⟩))
      intro hsec hE
      obtain ⟨g1, g2⟩ := e1 hsec hE
      obtain ⟨g3, g4⟩ := e2 (a4.trans hsec) g1
      refine ⟨g3, ?_⟩
      rw [done_of_append, List.mem_append]
      rintro (h | h)
      · exact f2 (g2 h)
      · exact g4 h

/-- A step that keeps the ring, the flags and the state of the connection, and
completes no request. -/
theorem barrier_due_neutral (E : Tl_entry) (w w1 : World) (d : List Event)
    (hr : same_ring w.mdev w1.mdev) (hfl : w1.mdev.flags = w.mdev.flags)
    (hl : link_up w1 → link_up w)
    (hs : (w1.reqs E.req).sector = (w.reqs E.req).sector)
    (ht : w1.trace = w.trace ++ d) (hd : done_of d = []) : barrier_due E w w1 := by
  intro hwf
  refine ⟨same_ring_wf hr hwf, hr.2.2.2, hl, hs, d, ht, Or.inr (Or.inr (Or.inr ⟨?_, ?_⟩))⟩
  · unfold barrier_flag
    rw [hfl]
    exact id
  · intro _ hE
    rw [same_ring_entries hr]
    exact ⟨hE, fun h => by rw [hd] at h; exact absurd h (by simp)⟩

theorem barrier_due_trace (E : Tl_entry) (w : World) (d : List Event) (hd : done_of d = []) :
    barrier_due E w { w with trace := w.trace ++ d } :=
  barrier_due_neutral E w _ d ⟨rfl, rfl, rfl, rfl⟩ rfl id rfl rfl hd

theorem not_link_up_of_cstate (w : World)
    (h : w.mdev.cstate.toNat < Drbd_CState.WFReportParams.toNat) : ¬ link_up w := by
  rintro ⟨_, h2, _⟩
  have : Drbd_CState.WFReportParams.toNat < Drbd_CState.Connected.toNat := by decide
  omega

theorem drbd_send_due (E : Tl_entry) (w : World) (cmd : Drbd_Packet_Cmd) (a b hs ds : Nat)
    (o : SendOutcome) : barrier_due E w (drbd_send w cmd a b hs ds o).1 := by
  rcases drbd_send_cases w cmd a b hs ds o with ⟨_, h, _⟩ | ⟨_, _, ⟨h, _⟩ | ⟨h, _⟩ | ⟨h, _⟩ | ⟨h, _⟩⟩
  · rw [h]; exact barrier_due_refl E w
  · rw [h]
    refine barrier_due_neutral E w _ _ ⟨rfl, rfl, rfl, rfl⟩ rfl ?_ rfl rfl (by simp [done_of])
    intro hl
    exact absurd hl (not_link_up_of_cstate _
      (by show Drbd_CState.Timeout.toNat < Drbd_CState.WFReportParams.toNat; decide))
  · rw [h]
    refine barrier_due_neutral E w _ _ ⟨rfl, rfl, rfl, rfl⟩ rfl ?_ rfl rfl (by simp [done_of])
    intro hl
    exact absurd hl (not_link_up_of_cstate _
      (by show Drbd_CState.BrokenPipe.toNat < Drbd_CState.WFReportParams.toNat; decide))
  · rw [h]
    exact barrier_due_trace E w _ (by simp [done_of])
  · rw [h]
    exact barrier_due_trace E w _ (by simp [done_of])

/-- A change of counters of the device. -/
theorem barrier_due_mdev (E : Tl_entry) (w : World) (m : Drbd_Conf)
    (hr : same_ring w.mdev m) (hfl : m.flags = w.mdev.flags) (h1 : m.state = w.mdev.state)
    (h2 : m.cstate = w.mdev.cstate) (h3 : m.sock = w.mdev.sock) :
    barrier_due E w { w with mdev := m } := by
  refine barrier_due_neutral E w _ [] hr hfl ?_ rfl (by simp) rfl
  unfold link_up
  dsimp only
  rw [h1, h2, h3]
  exact id

theorem tl_pushed_wf (m : Drbd_Conf) (e : Tl_entry) (h : tl_wf m) : tl_wf (tl_pushed m e) := by
  obtain ⟨hl, hb, he⟩ := h
  refine ⟨?_, hb, ?_⟩
  · unfold tl_pushed; dsimp only; rw [List.length_set]; exact hl
  · unfold tl_pushed; dsimp only; split <;> omega

theorem tl_full_next (m : Drbd_Conf) (h : tl_wf m) (hfull : ¬ tl_count m + 1 < m.tl_size) :
    (if m.tl_end + 1 = m.tl_size then 0 else m.tl_end + 1) = m.tl_begin := by
  have hc := tl_count_lt m h
  obtain ⟨_, hb, he⟩ := h
  unfold tl_count at hfull hc
  split at hfull <;> split <;> omega

theorem current_epoch_append_data (es : List Tl_entry) (e : Tl_entry)
    (h : e.isBarrier = false) : current_epoch (es ++ [e]) = current_epoch es ++ [e] := by
  unfold current_epoch
  rw [List.reverse_append, List.reverse_singleton, List.singleton_append,
    List.takeWhile_cons_of_pos (by simp [h]), List.reverse_cons]

theorem takeWhile_append_stop {α : Type} (p : α → Bool) (x : α) (hx : p x = false) :
    ∀ (l1 l2 : List α), (l1 ++ x :: l2).takeWhile p = (l1 ++ [x]).takeWhile p := by
  intro l1
  induction l1 with
  | nil =>
    intro l2
    simp [List.takeWhile, hx]
  | cons a t ih =>
    intro l2
    by_cases ha : p a = true
    · simp only [List.cons_append, List.takeWhile_cons_of_pos ha]
      rw [ih l2]
    · simp only [List.cons_append, List.takeWhile_cons_of_neg ha]

theorem current_epoch_after_barrier (pre : List Tl_entry) (B : Tl_entry) (rest : List Tl_entry)
    (hB : B.isBarrier = true) :
    current_epoch (pre ++ B :: rest) = current_epoch (B :: rest) := by
  unfold current_epoch
  have h1 : (pre ++ B :: rest).reverse = rest.reverse ++ B :: pre.reverse := by
    simp
  have h2 : (B :: rest).reverse = rest.reverse ++ [B] := by simp
  rw [h1, h2, takeWhile_append_stop _ B (by simp [hB])]

theorem contains_sector_of_mem (es : List Tl_entry) (E : Tl_entry)
    (hE : E ∈ current_epoch es) (hb : E.req ≠ TL_BARRIER) :
    contains_sector_spec es E.sector_nr = true := by
  unfold contains_sector_spec
  rw [List.any_eq_true]
  refine ⟨E, hE, ?_⟩
  simp [Tl_entry.isBarrier, hb]

/-- An entry pushed on the ring: the log complains when it is full. -/
theorem tl_pushed_due (E : Tl_entry) (w w1 : World) (e : Tl_entry) (d : List Event)
    (hm : w1.mdev = tl_pushed w.mdev e) (hrq : w1.reqs = w.reqs)
    (ht : w1.trace = w.trace ++ d)
    (hd : d = if (if w.mdev.tl_end + 1 = w.mdev.tl_size then 0 else w.mdev.tl_end + 1)
        = w.mdev.tl_begin then [Event.printk Msg.transferlog_too_small] else [])
    (he : e.isBarrier = false) : barrier_due E w w1 := by
  intro hwf
  have hl : link_up w1 → link_up w := by
    unfold link_up; rw [hm]; exact id
  refine ⟨by rw [hm]; exact tl_pushed_wf w.mdev e hwf, by rw [hm]; rfl, hl, by rw [hrq],
    d, ht, ?_⟩
  by_cases hroom : tl_count w.mdev + 1 < w.mdev.tl_size
  · refine Or.inr (Or.inr (Or.inr ⟨?_, ?_⟩))
    · unfold barrier_flag; rw [hm]; exact id
    · intro _ hE
      rw [hm, (tl_append_spec w.mdev e hwf hroom).2, current_epoch_append_data _ _ he]
      refine ⟨List.mem_append_left _ hE, ?_⟩
      intro hx
      exfalso
      rw [hd] at hx
      revert hx
      split <;> simp [done_of]
  · refine Or.inr (Or.inl (Or.inl ?_))
    rw [hd, if_pos (tl_full_next w.mdev hwf hroom)]
    simp

theorem tl_add_due (E : Tl_entry) (w : World) (x : Nat) (hx : x ≠ TL_BARRIER) :
    barrier_due E w (tl_add w x) :=
  tl_pushed_due E w _ ⟨x, (w.reqs x).sector⟩ _ rfl rfl rfl rfl (by simp [Tl_entry.isBarrier, hx])

/-- The statement that sends the barrier when `ISSUE_BARRIER` is set: the flag
is cleared only when a Barrier packet goes out, unless the connection is
gone. -/
theorem test_and_send_barrier_due (E : Tl_entry) (w : World) (o : SendOutcome) :
    barrier_due E w (test_and_send_barrier w o) := by
  unfold test_and_send_barrier
  split
  · intro hwf
    unfold _drbd_send_barrier
    dsimp only
    generalize hw0 : ({ w with mdev := { w.mdev with
      flags := clear_bit ISSUE_BARRIER w.mdev.flags } } : World) = w0
    have hwf0 : tl_wf w0.mdev := by subst hw0; exact hwf
    have hsz0 : w0.mdev.tl_size = w.mdev.tl_size := by subst hw0; rfl
    have hl0 : link_up w0 → link_up w := by subst hw0; exact id
    have hrq0 : w0.reqs = w.reqs := by subst hw0; rfl
    have htr0 : w0.trace = w.trace := by subst hw0; rfl
    generalize hwb : tl_add_barrier w0 = wb
    have hwf1 : tl_wf wb.1.mdev := by
      subst hwb; exact tl_pushed_wf w0.mdev _ hwf0
    have hsz1 : wb.1.mdev.tl_size = w0.mdev.tl_size := by subst hwb; rfl
    have hl1 : link_up wb.1 → link_up w0 := by subst hwb; exact id
    have hrq1 : wb.1.reqs = w0.reqs := by subst hwb; rfl
    have htr1 : ∃ d, wb.1.trace = w0.trace ++ d := by subst hwb; exact ⟨_, rfl⟩
    obtain ⟨d1, htr1⟩ := htr1
    have key : ∀ w2 : World, (w2 = (drbd_send wb.1 Drbd_Packet_Cmd.Barrier wb.2 0
          sizeof_Drbd_Barrier_Packet 0 o).1 ∨
        w2 = { (drbd_send wb.1 Drbd_Packet_Cmd.Barrier wb.2 0
          sizeof_Drbd_Barrier_Packet 0 o).1 with
          mdev := inc_pending (drbd_send wb.1 Drbd_Packet_Cmd.Barrier wb.2 0
            sizeof_Drbd_Barrier_Packet 0 o).1.mdev }) →
        tl_wf w2.mdev ∧ w2.mdev.tl_size = w.mdev.tl_size ∧
        (link_up w2 → link_up w) ∧ (w2.reqs E.req).sector = (w.reqs E.req).sector ∧
        ∃ d, w2.trace = w.trace ++ d ∧
          (barrier_sent d ∨ log_trouble d ∨ ¬ link_up w2 ∨
            ((barrier_flag w → barrier_flag w2) ∧
             ((w.reqs E.req).sector = E.sector_nr →
                E ∈ current_epoch (tl_entries w.mdev) →
                E ∈ current_epoch (tl_entries w2.mdev) ∧
                (E.req ∈ done_of d → barrier_flag w2)))) := by
      intro w2 hw2
      obtain ⟨c1, c2, c3, c4, d2, c5, _⟩ := drbd_send_due E wb.1 Drbd_Packet_Cmd.Barrier wb.2 0
        sizeof_Drbd_Barrier_Packet 0 o hwf1
      have hfin : barrier_sent d2 ∨ ¬ link_up (drbd_send wb.1 Drbd_Packet_Cmd.Barrier wb.2 0
          sizeof_Drbd_Barrier_Packet 0 o).1 := by
        rcases drbd_send_cases wb.1 Drbd_Packet_Cmd.Barrier wb.2 0 sizeof_Drbd_Barrier_Packet 0 o
          with ⟨hg, h, _⟩ | ⟨_, _, ⟨h, _⟩ | ⟨h, _⟩ | ⟨h, _⟩ | ⟨h, _⟩⟩
        · right
          rw [h]
          rintro ⟨_, l2, l3⟩
          rcases hg with hg | hg
          · rw [hg] at l3; exact Bool.noConfusion l3
          · have : Drbd_CState.WFReportParams.toNat < Drbd_CState.Connected.toNat := by decide
            omega
        all_goals
          left
          rw [h] at c5
          have hd2 := List.append_cancel_left c5
          rw [← hd2]
          exact ⟨_, List.mem_cons_self _ _, rfl⟩
      rcases hw2 with rfl | rfl
      · refine ⟨c1, (c2.trans hsz1).trans hsz0,
          fun h => hl0 (hl1 (c3 h)), ?_, d1 ++ d2, ?_, ?_⟩
        · rw [c4, hrq1, hrq0]
        · rw [c5, htr1, htr0, List.append_assoc]
        · rcases hfin with h | h
          · exact Or.inl (barrier_sent_append_right h _)
          · exact Or.inr (Or.inr (Or.inl h))
      · refine ⟨c1, (c2.trans hsz1).trans hsz0,
          fun h => hl0 (hl1 (c3 h)), ?_, d1 ++ d2, ?_, ?_⟩
        · show ((drbd_send _ _ _ _ _ _ _).1.reqs E.req).sector = _
          rw [c4, hrq1, hrq0]
        · show (drbd_send _ _ _ _ _ _ _).1.trace = _
          rw [c5, htr1, htr0, List.append_assoc]
        · rcases hfin with h | h
          · exact Or.inl (barrier_sent_append_right h _)
          · exact Or.inr (Or.inr (Or.inl h))
    split
    · exact key _ (Or.inr rfl)
    · exact key _ (Or.inl rfl)
  · exact barrier_due_refl E w

theorem drbd_send_data_logged_due (E : Tl_entry) (w : World) (ret : Int) (ds bn id : Nat)
    (hid : id ≠ TL_BARRIER) : barrier_due E w (drbd_send_data_logged w ret ds bn id).1 := by
  unfold drbd_send_data_logged
  split
  · split
    · dsimp only
      split
      · exact barrier_due_trans (tl_add_due E w id hid)
          (barrier_due_mdev E _ _ ⟨rfl, rfl, rfl, rfl⟩ rfl rfl rfl rfl)
      · exact tl_add_due E w id hid
    · exact barrier_due_trace E w _ (by simp [done_of])
  · exact barrier_due_refl E w

theorem drbd_send_data_due (E : Tl_entry) (w : World) (ds bn id : Nat) (ob od : SendOutcome)
    (hid : id ≠ TL_BARRIER) : barrier_due E w (drbd_send_data w ds bn id ob od).1 := by
  unfold drbd_send_data
  dsimp only
  exact barrier_due_trans (test_and_send_barrier_due E w ob)
    (barrier_due_trans (drbd_send_due E _ _ _ _ _ _ _) (drbd_send_data_logged_due E _ _ _ _ _ hid))

theorem ds_buffer_send_one_due (E : Tl_entry) (w : World) (bs bn : Nat) (ob od : SendOutcome) :
    barrier_due E w (ds_buffer_send_one w bs bn ob od) := by
  have hid : ID_SYNCER ≠ TL_BARRIER := by decide
  unfold ds_buffer_send_one
  dsimp only
  split
  · exact barrier_due_trans (drbd_send_data_due E w bs bn ID_SYNCER ob od hid)
      (barrier_due_trace E _ _ (by simp [done_of]))
  · exact barrier_due_trans (drbd_send_data_due E w bs bn ID_SYNCER ob od hid)
      (barrier_due_mdev E _ _ ⟨rfl, rfl, rfl, rfl⟩ rfl rfl rfl rfl)

/-- The completion path: the request that `E` logs, when completed on a
connected Primary while `E` is in the current epoch, sets `ISSUE_BARRIER`. -/
theorem drbd_end_req_due (E : Tl_entry) (fuel : Nat) (w w1 : World) (req ns u : Nat)
    (hE0 : E.req ≠ TL_BARRIER) (hf : w.mdev.tl_size ≤ fuel)
    (h : drbd_end_req fuel w req ns u = some w1) : barrier_due E w w1 := by
  intro hwf
  obtain ⟨w1', e, -, -, out⟩ := drbd_end_req_spec fuel w req ns u hwf hf
  rw [h] at e
  cases e
  rcases out with ⟨hm, ht, hr, -, -⟩ | ⟨hm, hr, m, ht⟩ | ⟨tail, ht, htail, hr, hm, -⟩
  · have hs : (w1.reqs E.req).sector = (w.reqs E.req).sector := by
      rw [hr]; exact set_rq_status_sector _ _ _ _
    exact barrier_due_neutral E w w1 [] (by rw [hm]; exact ⟨rfl, rfl, rfl, rfl⟩) (by rw [hm])
      (by unfold link_up; rw [hm]; exact id) hs (by rw [ht]; simp) rfl hwf
  · exact barrier_due_neutral E w w1 _ (by rw [hm]; exact ⟨rfl, rfl, rfl, rfl⟩) (by rw [hm])
      (by unfold link_up; rw [hm]; exact id) (by rw [hr]) ht (by simp [done_of]) hwf
  · have hs : (w1.reqs E.req).sector = (w.reqs E.req).sector := by
      rw [hr]; exact set_rq_status_sector _ _ _ _
    have hring : same_ring w.mdev w1.mdev := by
      rw [hm]; split <;> exact ⟨rfl, rfl, rfl, rfl⟩
    have hlink : link_up w1 ↔ link_up w := by
      unfold link_up; rw [hm]; split <;> exact Iff.rfl
    have hdone := done_of_end_request req (u &&& (w.reqs req).rq_status) tail htail
    refine ⟨same_ring_wf hring hwf, hring.2.2.2, hlink.1, hs, _, ht, ?_⟩
    by_cases hl : link_up w
    · refine Or.inr (Or.inr (Or.inr ⟨?_, ?_⟩))
      · unfold barrier_flag
        rw [hm]
        split
        · intro _; exact test_bit_set_bit _ _
        · exact id
      · intro hsec hE
        rw [same_ring_entries hring]
        refine ⟨hE, ?_⟩
        intro hx
        rw [hdone, List.mem_singleton] at hx
        have hdep : dep_cond w req = true := by
          unfold dep_cond
          rw [← hx, hsec, contains_sector_of_mem _ E hE hE0]
          simp [hl.1, hl.2.1]
        unfold barrier_flag
        rw [hm, if_pos hdep]
        exact test_bit_set_bit _ _
    · exact Or.inr (Or.inr (Or.inl (fun h => hl (hlink.1 h))))

theorem tl_release_loop_lt : ∀ (fuel : Nat) (mdev : Drbd_Conf) (b : Nat) (es : Int)
    (tr : List Event) (b1 : Nat) (es1 : Int) (tr1 : List Event), 0 < mdev.tl_size →
    tl_release_loop fuel mdev b es tr = some (b1, es1, tr1) → b < mdev.tl_size →
    b1 < mdev.tl_size := by
  intro fuel
  induction fuel with
  | zero => intro mdev b es tr b1 es1 tr1 _ h; exact Option.noConfusion h
  | succ f ih =>
    intro mdev b es tr b1 es1 tr1 hpos h hb
    unfold tl_release_loop at h
    dsimp only at h
    have hb2 : (if b + 1 = mdev.tl_size then 0 else b + 1) < mdev.tl_size := by
      split <;> omega
    generalize (if b + 1 = mdev.tl_size then 0 else b + 1) = b2 at h hb2
    generalize (if b2 = mdev.tl_end then tr ++ [Event.printk Msg.tl_messed_up] else tr) = tr2 at h
    split at h
    · exact ih mdev b2 _ tr2 b1 es1 tr1 hpos h hb2
    · cases h
      exact hb2

/-- The scan of `tl_release`, started inside the ring: it stops at a barrier
inside the ring, or it runs over `tl_end` and complains. -/
theorem tl_release_loop_stop (mdev : Drbd_Conf) (hwf : tl_wf mdev) : ∀ (fuel j : Nat) (es : Int)
    (tr : List Event) (b1 : Nat) (es1 : Int) (tr1 : List Event), j < tl_count mdev →
    tl_release_loop fuel mdev (tl_slot mdev j) es tr = some (b1, es1, tr1) →
    Event.printk Msg.tl_messed_up ∈ tr1 ∨
    (tr1 = tr ∧ ∃ k, j < k ∧ k < tl_count mdev ∧ b1 = tl_slot mdev k ∧
      (tl_at mdev (tl_slot mdev k)).req = TL_BARRIER) := by
  intro fuel
  induction fuel with
  | zero => intro j es tr b1 es1 tr1 _ h; exact Option.noConfusion h
  | succ f ih =>
    intro j es tr b1 es1 tr1 hj h
    unfold tl_release_loop at h
    dsimp only at h
    rw [tl_slot_next mdev hwf j hj] at h
    by_cases hin : j + 1 < tl_count mdev
    · rw [if_neg (tl_slot_ne_end mdev hwf (j + 1) hin)] at h
      split at h
      · rcases ih (j + 1) _ tr b1 es1 tr1 hin h with r | ⟨r1, k, k1, k2, k3, k4⟩
        · exact Or.inl r
        · exact Or.inr ⟨r1, k, by omega, k2, k3, k4⟩
      · next hB =>
        cases h
        exact Or.inr ⟨rfl, j + 1, by omega, hin, rfl, by simpa using hB⟩
    · have hend : tl_slot mdev (j + 1) = mdev.tl_end := by
        have : j + 1 = tl_count mdev := by omega
        rw [this]; exact tl_slot_count mdev hwf
      rw [if_pos hend] at h
      left
      split at h
      · obtain ⟨x, hx, -⟩ := tl_release_loop_trace _ _ _ _ _ _ _ _ h
        rw [hx]
        simp
      · cases h
        simp

theorem tl_release_due (E : Tl_entry) (fuel : Nat) (w w1 : World) (nr sz : Nat)
    (h : tl_release fuel w nr sz = some w1) : barrier_due E w w1 := by
  intro hwf
  unfold tl_release at h
  dsimp only at h
  split at h
  · exact Option.noConfusion h
  · next b es tr heq =>
    cases h
    have hpos : 0 < w.mdev.tl_size := by have := hwf.2.1; omega
    have hb : b < w.mdev.tl_size := tl_release_loop_lt _ _ _ _ _ _ _ _ hpos heq hwf.2.1
    refine ⟨⟨hwf.1, hb, hwf.2.2⟩, rfl, id, rfl, _, rfl, ?_⟩
    by_cases hne : 0 < tl_count w.mdev
    · have h0 : tl_slot w.mdev 0 = w.mdev.tl_begin := by
        unfold tl_slot; simp [hwf.2.1]
      rw [← h0] at heq
      rcases tl_release_loop_stop w.mdev hwf _ 0 _ _ _ _ _ hne heq with r | ⟨r1, k, k1, k2, k3, k4⟩
      · refine Or.inr (Or.inl (Or.inr ?_))
        split <;> split <;> simp [r]
      · refine Or.inr (Or.inr (Or.inr ⟨id, ?_⟩))
        intro _ hE
        have hdrop := tl_entries_drop w.mdev hwf k (by omega)
        rw [← k3] at hdrop
        have hsplit : tl_entries w.mdev = (tl_entries w.mdev).take k ++
            tl_at w.mdev (tl_slot w.mdev k) :: (tl_entries w.mdev).drop (k + 1) := by
          rw [← tl_entries_drop_cons w.mdev k k2, List.take_append_drop]
        have hB : (tl_at w.mdev (tl_slot w.mdev k)).isBarrier = true := by
          simp [Tl_entry.isBarrier, k4]
        rw [hsplit, current_epoch_after_barrier _ _ _ hB,
          ← tl_entries_drop_cons w.mdev k k2] at hE
        refine ⟨by rw [hdrop]; exact hE, ?_⟩
        intro hx
        exfalso
        have hd : done_of ((if (tl_at { w.mdev with tl_begin := b } b).sector_nr ≠ nr
            then tr ++ [Event.printk (Msg.invalid_barrier_number
              ((tl_at { w.mdev with tl_begin := b } b).sector_nr % 2 ^ 32) nr)] else tr)) = []
            := by
          rw [r1]; split <;> simp [done_of]
        revert hx
        split
        · rw [done_of_append, hd]; simp [done_of]
        · rw [hd]; simp
    · refine Or.inr (Or.inr (Or.inr ⟨id, ?_⟩))
      intro _ hE
      exfalso
      have hnil : tl_entries w.mdev = [] := by
        rw [← List.length_eq_zero, tl_entries_length]; omega
      rw [hnil] at hE
      simp [current_epoch] at hE

theorem receive_barrier_ack_due (E : Tl_entry) (fuel : Nat) (w w1 : World) (b s : Nat)
    (r : Bool) (h : receive_barrier_ack fuel w (some (b, s)) = some (w1, r)) :
    barrier_due E w w1 := by
  unfold receive_barrier_ack at h
  dsimp only at h
  generalize hw0 : (if w.mdev.state ≠ Drbd_State.Primary
    then ({ w with trace := w.trace ++ [Event.printk Msg.got_barrier_ack_while_not_PRI] } : World)
    else w) = w0 at h
  have h0 : barrier_due E w w0 := by
    rw [← hw0]
    split
    · exact barrier_due_trace E w _ (by simp [done_of])
    · exact barrier_due_refl E w
  split at h
  · exact Option.noConfusion h
  · next x hx =>
    cases h
    exact barrier_due_trans h0 (barrier_due_trans (tl_release_due E fuel w0 x b s hx)
      (barrier_due_mdev E _ _ ⟨rfl, rfl, rfl, rfl⟩ rfl rfl rfl rfl))

theorem receive_block_ack_due (E : Tl_entry) (fuel : Nat) (w w1 : World) (bn id : Nat)
    (r : Bool) (hE0 : E.req ≠ TL_BARRIER) (hf : w.mdev.tl_size ≤ fuel)
    (h : receive_block_ack fuel w (some (bn, id)) = some (w1, r)) :
    barrier_due E w w1 := by
  unfold receive_block_ack at h
  dsimp only at h
  generalize hw0 : (if w.mdev.state ≠ Drbd_State.Primary
    then ({ w with trace := w.trace ++ [Event.printk Msg.got_blk_ack_while_not_PRI] } : World)
    else w) = w0 at h
  have h0 : barrier_due E w w0 := by
    rw [← hw0]
    split
    · exact barrier_due_trace E w _ (by simp [done_of])
    · exact barrier_due_refl E w
  have hsz : w0.mdev.tl_size = w.mdev.tl_size := by
    rw [← hw0]; split <;> rfl
  split at h
  · cases h
    exact barrier_due_trans h0 (barrier_due_trace E w0 _ (by simp [done_of]))
  · split at h
    · exact Option.noConfusion h
    · next x hx =>
      cases h
      refine barrier_due_trans h0 (barrier_due_trans
        (drbd_end_req_due E fuel w0 x id RQ_DRBD_SENT 1 hE0 (by rw [hsz]; exact hf) hx) ?_)
      split
      · exact barrier_due_mdev E _ _ ⟨rfl, rfl, rfl, rfl⟩ rfl rfl rfl rfl
      · exact barrier_due_refl E x

theorem drbd_do_request_disk_due (E : Tl_entry) (w : World) (r : Nat) :
    barrier_due E w (drbd_do_request_disk w r) := by
  unfold drbd_do_request_disk
  dsimp only
  refine barrier_due_neutral E w _
    ((if drbd_do_request_sending w r = false ∧ (w.reqs r).cmd = WRITE ∧
          w.mdev.state ≠ Drbd_State.Secondary then
        [Event.set_block_status ((w.reqs r).sector >>> (w.mdev.blk_size_b - 9))
          w.mdev.blk_size_b SS_OUT_OF_SYNC]
      else []) ++ [Event.ll_rw_block (w.reqs r).cmd r])
    ?_ ?_ ?_ (set_rq_status_sector _ _ _ _) ?_ ?_
  · split <;> exact ⟨rfl, rfl, rfl, rfl⟩
  · split <;> rfl
  · unfold link_up
    dsimp only
    split <;> exact id
  · dsimp only
    rw [List.append_assoc]
  · split <;> simp [done_of]

theorem drbd_do_request_due (E : Tl_entry) (fuel : Nat) (w w1 : World) (r : Nat) (k : Bool)
    (ob od : SendOutcome) (hr0 : r ≠ TL_BARRIER) (hE0 : E.req ≠ TL_BARRIER)
    (hf : w.mdev.tl_size ≤ fuel) (h : drbd_do_request fuel w r k ob od = some w1) :
    barrier_due E w w1 := by
  unfold drbd_do_request at h
  split at h
  · cases h
    exact barrier_due_trace E w _ (by simp [done_of])
  · split at h
    · unfold drbd_do_request_net at h
      dsimp only at h
      generalize hwd : drbd_do_request_disk w r = wd at h
      have hd : barrier_due E w wd := by rw [← hwd]; exact drbd_do_request_disk_due E w r
      generalize hws : drbd_send_data wd ((wd.reqs r).current_nr_sectors <<< 9)
        ((wd.reqs r).sector >>> (wd.mdev.blk_size_b - 9)) r ob od = ws at h
      have hs : barrier_due E wd ws.1 := by rw [← hws]; exact drbd_send_data_due E wd _ _ r ob od hr0
      generalize hw3 : (if ws.2 ≠ 0
        then ({ ws.1 with mdev := { ws.1.mdev with
          send_cnt := (ws.1.mdev.send_cnt + ((wd.reqs r).current_nr_sectors <<< 1)) % 2 ^ 32 } }
            : World)
        else ws.1) = w3 at h
      have h3 : barrier_due E ws.1 w3 := by
        rw [← hw3]
        split
        · exact barrier_due_mdev E _ _ ⟨rfl, rfl, rfl, rfl⟩ rfl rfl rfl rfl
        · exact barrier_due_refl E _
      have h03 := barrier_due_trans hd (barrier_due_trans hs h3)
      split at h
      · intro hwf
        obtain ⟨_, hsz, _⟩ := h03 hwf
        exact barrier_due_trans h03 (drbd_end_req_due E fuel w3 w1 r RQ_DRBD_SENT 1 hE0
          (by rw [hsz]; exact hf) h) hwf
      · cases h
        exact h03
    · cases h
      exact drbd_do_request_disk_due E w r

/-- Each action that keeps the log keeps the barrier mechanism. -/
theorem exec_due (E : Tl_entry) (fuel : Nat) (w w1 : World) (a : Action)
    (hE0 : E.req ≠ TL_BARRIER) (hf : w.mdev.tl_size ≤ fuel) (ha : keeps_log E a)
    (h : exec fuel w a = some w1) : barrier_due E w w1 := by
  cases a with
  | do_request r rq k ob od =>
    simp only [exec] at h
    obtain ⟨hr, hr0⟩ := ha
    have h1 : barrier_due E w ({ w with reqs := req_update w.reqs r rq } : World) :=
      barrier_due_neutral E w _ [] ⟨rfl, rfl, rfl, rfl⟩ rfl id
        (by show (req_update w.reqs r rq E.req).sector = _
            rw [req_update_ne _ _ _ _ (fun hh => hr hh.symm)])
        (by simp) rfl
    exact barrier_due_trans h1 (drbd_do_request_due E fuel _ w1 r k ob od hr0 hE0 hf h)
  | dio_end r u =>
    simp only [exec, drbd_dio_end] at h
    exact drbd_end_req_due E fuel w w1 r _ u hE0 hf h
  | block_ack bn id =>
    simp only [exec] at h
    cases hx : receive_block_ack fuel w (some (bn, id)) with
    | none => rw [hx] at h; exact Option.noConfusion h
    | some x =>
      obtain ⟨x1, r⟩ := x
      rw [hx] at h
      cases h
      exact receive_block_ack_due E fuel w x1 bn id r hE0 hf hx
  | barrier_ack b s =>
    simp only [exec] at h
    cases hx : receive_barrier_ack fuel w (some (b, s)) with
    | none => rw [hx] at h; exact Option.noConfusion h
    | some x =>
      obtain ⟨x1, r⟩ := x
      rw [hx] at h
      cases h
      exact receive_barrier_ack_due E fuel w x1 b s r hx
  | asender o =>
    simp only [exec] at h
    cases h
    exact test_and_send_barrier_due E w o
  | sync_data bs bn ob od =>
    simp only [exec] at h
    cases h
    exact ds_buffer_send_one_due E w bs bn ob od
  | tl_clear => exact absurd ha id

theorem run_due (E : Tl_entry) (fuel : Nat) (hE0 : E.req ≠ TL_BARRIER) :
    ∀ (as : List Action) (w w1 : World), tl_wf w.mdev → w.mdev.tl_size ≤ fuel →
      (∀ a ∈ as, keeps_log E a) → run fuel as w = some w1 → barrier_due E w w1 := by
  intro as
  induction as with
  | nil =>
    intro w w1 _ _ _ h
    simp only [run] at h
    cases h
    exact barrier_due_refl E w
  | cons a rest ih =>
    intro w w1 hwf hf ha h
    simp only [run] at h
    cases hx : exec fuel w a with
    | none => rw [hx] at h; exact Option.noConfusion h
    | some x =>
      rw [hx] at h
      dsimp only at h
      have h1 := exec_due E fuel w x a hE0 hf (ha a (List.mem_cons_self _ _)) hx
      obtain ⟨hwfx, hsz, -⟩ := h1 hwf
      exact barrier_due_trans h1 (ih x w1 hwfx (by rw [hsz]; exact hf)
        (fun b hb => ha b (List.mem_cons_of_mem _ hb)) h)

/-- What `drbd_send` appends to the trace: nothing when its guard fails, else
the packet followed by diagnostics. -/
theorem drbd_send_trace (w : World) (cmd : Drbd_Packet_Cmd) (a b hs ds : Nat) (o : SendOutcome) :
    ((drbd_send w cmd a b hs ds o).1 = w ∧
      (w.mdev.sock = false ∨ w.mdev.cstate.toNat < Drbd_CState.WFReportParams.toNat)) ∨
    (w.mdev.sock = true ∧ Drbd_CState.WFReportParams.toNat ≤ w.mdev.cstate.toNat ∧
      ∃ rest, (drbd_send w cmd a b hs ds o).1.trace =
          w.trace ++ Event.send cmd a b hs ds o.err :: rest ∧
        ∀ e ∈ rest, e.isDataSend = false ∧ e.isBarrierSend = false) := by
  rcases drbd_send_cases w cmd a b hs ds o with
    ⟨hg, h, _⟩ | ⟨g1, g2, ⟨h, _⟩ | ⟨h, _⟩ | ⟨h, _⟩ | ⟨h, _⟩⟩
  · exact Or.inl ⟨h, hg⟩
  · refine Or.inr ⟨g1, g2, _, by rw [h], ?_⟩
    intro e he
    simp only [List.mem_cons, List.mem_singleton, List.not_mem_nil, or_false] at he
    rcases he with rfl | rfl <;> exact ⟨rfl, rfl⟩
  · refine Or.inr ⟨g1, g2, _, by rw [h], ?_⟩
    intro e he
    simp only [List.mem_cons, List.mem_singleton, List.not_mem_nil, or_false] at he
    rcases he with rfl | rfl <;> exact ⟨rfl, rfl⟩
  · refine Or.inr ⟨g1, g2, _, by rw [h], ?_⟩
    intro e he
    simp only [List.mem_cons, List.mem_singleton, List.not_mem_nil, or_false] at he
    rcases he with rfl
    exact ⟨rfl, rfl⟩
  · refine Or.inr ⟨g1, g2, [], by rw [h], ?_⟩
    intro e he
    exact absurd he (List.not_mem_nil _)

theorem no_send_of_printk_ite (c : Prop) [Decidable c] (m : Msg) (e : Event)
    (he : e ∈ (if c then [Event.printk m] else [])) :
    e.isDataSend = false ∧ e.isBarrierSend = false := by
  split at he
  · rw [List.mem_singleton] at he
    rw [he]
    exact ⟨rfl, rfl⟩
  · exact absurd he (List.not_mem_nil _)

/-- The statement that sends the barrier appends no Data packet; when
`ISSUE_BARRIER` is set it sends a Barrier packet unless the guard of
`drbd_send` fails, which then fails for every later send too. -/
theorem test_and_send_barrier_trace (w : World) (o : SendOutcome) :
    ∃ d, (test_and_send_barrier w o).trace = w.trace ++ d ∧
      (∀ e ∈ d, e.isDataSend = false) ∧
      (test_and_send_barrier w o).reqs = w.reqs ∧
      (barrier_flag w → barrier_sent d ∨ (test_and_send_barrier w o).mdev.sock = false ∨
        (test_and_send_barrier w o).mdev.cstate.toNat < Drbd_CState.WFReportParams.toNat) := by
  unfold test_and_send_barrier
  split
  · unfold _drbd_send_barrier
    dsimp only
    generalize hwb : tl_add_barrier ({ w with mdev := { w.mdev with
      flags := clear_bit ISSUE_BARRIER w.mdev.flags } } : World) = wb
    have htr1 : ∃ d1, wb.1.trace = w.trace ++ d1 ∧ ∀ e ∈ d1, e.isDataSend = false := by
      subst hwb
      exact ⟨_, rfl, fun e he => (no_send_of_printk_ite _ _ e he).1⟩
    have hrq1 : wb.1.reqs = w.reqs := by subst hwb; rfl
    obtain ⟨d1, htr1, hnd1⟩ := htr1
    have hm := (drbd_send_mdev wb.1 Drbd_Packet_Cmd.Barrier wb.2 0 sizeof_Drbd_Barrier_Packet 0
      o).1
    have hrq2 : (drbd_send wb.1 Drbd_Packet_Cmd.Barrier wb.2 0 sizeof_Drbd_Barrier_Packet 0
        o).1.reqs = wb.1.reqs := by
      rcases drbd_send_cases wb.1 Drbd_Packet_Cmd.Barrier wb.2 0 sizeof_Drbd_Barrier_Packet 0 o
        with ⟨_, h, _⟩ | ⟨_, _, ⟨h, _⟩ | ⟨h, _⟩ | ⟨h, _⟩ | ⟨h, _⟩⟩ <;> rw [h]
    have key : ∃ d, (drbd_send wb.1 Drbd_Packet_Cmd.Barrier wb.2 0 sizeof_Drbd_Barrier_Packet 0
          o).1.trace = w.trace ++ d ∧ (∀ e ∈ d, e.isDataSend = false) ∧
        (barrier_sent d ∨
          (drbd_send wb.1 Drbd_Packet_Cmd.Barrier wb.2 0 sizeof_Drbd_Barrier_Packet 0
            o).1.mdev.sock = false ∨
          (drbd_send wb.1 Drbd_Packet_Cmd.Barrier wb.2 0 sizeof_Drbd_Barrier_Packet 0
            o).1.mdev.cstate.toNat < Drbd_CState.WFReportParams.toNat) := by
      rcases drbd_send_trace wb.1 Drbd_Packet_Cmd.Barrier wb.2 0 sizeof_Drbd_Barrier_Packet 0 o
        with ⟨h, hg⟩ | ⟨_, _, rest, h, hrest⟩
      · refine ⟨d1, by rw [h, htr1], hnd1, Or.inr ?_⟩
        rw [h]
        exact hg
      · refine ⟨d1 ++ Event.send Drbd_Packet_Cmd.Barrier wb.2 0 sizeof_Drbd_Barrier_Packet 0
          o.err :: rest, by rw [h, htr1, List.append_assoc], ?_, Or.inl ?_⟩
        · intro e he
          rw [List.mem_append, List.mem_cons] at he
          rcases he with he | rfl | he
          · exact hnd1 e he
          · rfl
          · exact (hrest e he).1
        · exact ⟨_, List.mem_append_right _ (List.mem_cons_self _ _), rfl⟩
    obtain ⟨d, k1, k2, k3⟩ := key
    split
    · exact ⟨d, k1, k2, hrq2.trans hrq1, fun _ => k3⟩
    · exact ⟨d, k1, k2, hrq2.trans hrq1, fun _ => k3⟩
  · next hfl =>
    refine ⟨[], by simp, fun e he => absurd he (List.not_mem_nil _), rfl, ?_⟩
    intro hf
    exact absurd hf hfl

/-- A list that is split at an element which is not in a prefix `x`: the
prefix lies before the element. -/
theorem prefix_of_split {α : Type} (e : α) : ∀ (x y b c : List α),
    x ++ y = b ++ e :: c → e ∉ x → ∃ t, b = x ++ t := by
  intro x
  induction x with
  | nil => intro y b c _ _; exact ⟨b, rfl⟩
  | cons a t ih =>
    intro y b c h hx
    cases b with
    | nil =>
      simp only [List.nil_append, List.cons_append, List.cons.injEq] at h
      exact absurd (List.mem_cons.2 (Or.inl h.1.symm)) hx
    | cons a1 b1 =>
      simp only [List.cons_append, List.cons.injEq] at h
      obtain ⟨t1, ht1⟩ := ih y b1 c h.2 (fun hm => hx (List.mem_cons_of_mem _ hm))
      exact ⟨t1, by rw [h.1, ht1]; rfl⟩

theorem data_guarded_of_no_data (F Q : Prop) (l : List Event)
    (h : ∀ e ∈ l, e.isDataSend = false) : data_guarded F Q l := by
  intro b e c hl he
  have hm : e ∈ l := by rw [hl]; exact List.mem_append_right _ (List.mem_cons_self _ _)
  rw [h e hm] at he
  exact Bool.noConfusion he

theorem data_guarded_append_left (F Q : Prop) (l1 l2 : List Event)
    (h1 : ∀ e ∈ l1, e.isDataSend = false) (h2 : data_guarded F Q l2) :
    data_guarded F Q (l1 ++ l2) := by
  intro b e c hl he
  have hx : e ∉ l1 := by
    intro hm
    rw [h1 e hm] at he
    exact Bool.noConfusion he
  obtain ⟨t, ht⟩ := prefix_of_split e l1 l2 b c hl hx
  rw [ht, List.append_assoc] at hl
  obtain ⟨q, hb⟩ := h2 t e c (List.append_cancel_left hl) he
  refine ⟨q, fun hf => ?_⟩
  rw [ht]
  exact barrier_sent_append_right (hb hf) _

theorem data_guarded_append_right (F Q : Prop) (l1 l2 : List Event)
    (h1 : data_guarded F Q l1) (h2 : ∀ e ∈ l2, e.isDataSend = false) :
    data_guarded F Q (l1 ++ l2) := by
  intro b e c hl he
  have hx : e ∉ l2 := by
    intro hm
    rw [h2 e hm] at he
    exact Bool.noConfusion he
  rcases List.append_eq_append_iff.1 hl with ⟨a, _, ha⟩ | ⟨c1, hc1, hc2⟩
  · exact absurd (by rw [ha]; exact List.mem_append_right _ (List.mem_cons_self _ _)) hx
  · cases c1 with
    | nil =>
      simp only [List.nil_append] at hc2
      exact absurd (by rw [← hc2]; exact List.mem_cons_self _ _) hx
    | cons e1 c2 =>
      simp only [List.cons_append, List.cons.injEq] at hc2
      rw [← hc2.1] at hc1
      exact h1 b e c2 hc1 he

theorem test_and_send_barrier_sock (w : World) (o : SendOutcome) :
    (test_and_send_barrier w o).mdev.sock = w.mdev.sock := by
  unfold test_and_send_barrier
  split
  · unfold _drbd_send_barrier
    dsimp only
    split
    · show (inc_pending _).sock = _
      unfold inc_pending
      dsimp only
      rw [(drbd_send_mdev _ _ _ _ _ _ _).1]
      rfl
    · rw [(drbd_send_mdev _ _ _ _ _ _ _).1]
      rfl
  · rfl

/-- The Data packet of `drbd_send_data` goes out only over a socket, and after
a Barrier packet when `ISSUE_BARRIER` was set. -/
theorem drbd_send_data_guard (w : World) (ds bn id : Nat) (ob od : SendOutcome) :
    ∃ d, (drbd_send_data w ds bn id ob od).1.trace = w.trace ++ d ∧
      data_guarded (barrier_flag w) (w.mdev.sock = true) d := by
  obtain ⟨dT, t1, t2, -, t4⟩ := test_and_send_barrier_trace w ob
  have hsock := test_and_send_barrier_sock w ob
  unfold drbd_send_data
  dsimp only
  generalize test_and_send_barrier w ob = wt at t1 t4 hsock
  have hlog : ∀ (x : World) (ret : Int), ∃ dL,
      (drbd_send_data_logged x ret ds bn id).1.trace = x.trace ++ dL ∧
      ∀ e ∈ dL, e.isDataSend = false := by
    intro x ret
    unfold drbd_send_data_logged
    split
    · split
      · dsimp only
        have htl : ∃ dL, (tl_add x id).trace = x.trace ++ dL ∧
            ∀ e ∈ dL, e.isDataSend = false :=
          ⟨_, rfl, fun e he => (no_send_of_printk_ite _ _ e he).1⟩
        obtain ⟨dL, a1, a2⟩ := htl
        split
        · exact ⟨dL, a1, a2⟩
        · exact ⟨dL, a1, a2⟩
      · refine ⟨_, rfl, ?_⟩
        intro e he
        rw [List.mem_singleton] at he
        rw [he]; rfl
    · exact ⟨[], by simp, fun e he => absurd he (List.not_mem_nil _)⟩
  obtain ⟨dL, l1, l2⟩ := hlog (drbd_send wt Drbd_Packet_Cmd.Data bn id sizeof_Drbd_Data_Packet ds
    od).1 (drbd_send wt Drbd_Packet_Cmd.Data bn id sizeof_Drbd_Data_Packet ds od).2
  rcases drbd_send_trace wt Drbd_Packet_Cmd.Data bn id sizeof_Drbd_Data_Packet ds od with
    ⟨h, _⟩ | ⟨g1, g2, rest, h, hrest⟩
  · refine ⟨dT ++ dL, by rw [l1, h, t1, List.append_assoc], ?_⟩
    apply data_guarded_of_no_data
    intro e he
    rcases List.mem_append.1 he with he | he
    · exact t2 e he
    · exact l2 e he
  · refine ⟨(dT ++ Event.send Drbd_Packet_Cmd.Data bn id sizeof_Drbd_Data_Packet ds od.err ::
      rest) ++ dL, by rw [l1, h, t1]; simp only [List.append_assoc], ?_⟩
    apply data_guarded_append_right _ _ _ _ ?_ l2
    intro b e c hl he
    have hx : e ∉ dT := by
      intro hm
      rw [t2 e hm] at he
      exact Bool.noConfusion he
    obtain ⟨t, ht⟩ := prefix_of_split e dT _ b c hl hx
    refine ⟨by rw [← hsock]; exact g1, fun hf => ?_⟩
    rcases t4 hf with hb | hb | hb
    · rw [ht]
      exact barrier_sent_append_left hb _
    · rw [g1] at hb; exact Bool.noConfusion hb
    · omega

theorem data_guarded_mono {F F1 Q Q1 : Prop} {l : List Event} (h : data_guarded F Q l)
    (hF : F1 → F) (hQ : Q → Q1) : data_guarded F1 Q1 l := by
  intro b e c hl he
  obtain ⟨q, hb⟩ := h b e c hl he
  exact ⟨hQ q, fun hf => hb (hF hf)⟩

/-- The trace of `drbd_end_req` holds no Data packet. -/
theorem drbd_end_req_no_data (fuel : Nat) (w w1 : World) (req ns u : Nat) (hwf : tl_wf w.mdev)
    (hf : w.mdev.tl_size ≤ fuel) (h : drbd_end_req fuel w req ns u = some w1) :
    ∃ d, w1.trace = w.trace ++ d ∧ ∀ e ∈ d, e.isDataSend = false := by
  obtain ⟨w1', e, -, -, out⟩ := drbd_end_req_spec fuel w req ns u hwf hf
  rw [h] at e
  cases e
  rcases out with ⟨-, ht, -⟩ | ⟨-, -, m, ht⟩ | ⟨tail, ht, htail, -⟩
  · exact ⟨[], by rw [ht]; simp, fun e he => absurd he (List.not_mem_nil _)⟩
  · refine ⟨_, ht, ?_⟩
    intro e he
    rw [List.mem_singleton] at he
    rw [he]; rfl
  · refine ⟨_, ht, ?_⟩
    intro e he
    rcases List.mem_cons.1 he with rfl | he
    · rfl
    · rcases htail e he with rfl | rfl <;> rfl

/-- The step of `drbd_do_request`: a Data packet goes out only on a connected
Primary with a socket, and after a Barrier packet of the same step when
`ISSUE_BARRIER` was set. -/
theorem exec_do_request_guard (fuel : Nat) (w w3 : World) (r : Nat) (rq : request) (k : Bool)
    (ob od : SendOutcome) (hr0 : r ≠ TL_BARRIER) (hwf : tl_wf w.mdev)
    (hf : w.mdev.tl_size ≤ fuel)
    (h : exec fuel w (Action.do_request r rq k ob od) = some w3) :
    ∃ d3, w3.trace = w.trace ++ d3 ∧ data_guarded (barrier_flag w) (link_up w) d3 := by
  simp only [exec] at h
  generalize hw' : ({ w with reqs := req_update w.reqs r rq } : World) = w' at h
  have hm' : w'.mdev = w.mdev := by subst hw'; rfl
  have ht' : w'.trace = w.trace := by subst hw'; rfl
  have hwf' : tl_wf w'.mdev := by rw [hm']; exact hwf
  obtain ⟨f1, f2, f3, f4, dD, f5, f6⟩ := drbd_do_request_disk_due default w' r hwf'
  have hnodisk : ∀ e ∈ dD, e.isDataSend = false := by
    have : (drbd_do_request_disk w' r).trace = w'.trace ++
        ((if drbd_do_request_sending w' r = false ∧ (w'.reqs r).cmd = WRITE ∧
            w'.mdev.state ≠ Drbd_State.Secondary then
          [Event.set_block_status ((w'.reqs r).sector >>> (w'.mdev.blk_size_b - 9))
            w'.mdev.blk_size_b SS_OUT_OF_SYNC]
        else []) ++ [Event.ll_rw_block (w'.reqs r).cmd r]) := by
      unfold drbd_do_request_disk
      dsimp only
      rw [List.append_assoc]
    rw [this] at f5
    rw [← List.append_cancel_left f5]
    intro e he
    rcases List.mem_append.1 he with he | he
    · split at he
      · rw [List.mem_singleton] at he
        rw [he]; rfl
      · exact absurd he (List.not_mem_nil _)
    · rw [List.mem_singleton] at he
      rw [he]; rfl
  have hflag : (drbd_do_request_disk w' r).mdev.flags = w.mdev.flags := by
    rw [← hm']
    unfold drbd_do_request_disk
    dsimp only
    split <;> rfl
  have hsock : (drbd_do_request_disk w' r).mdev.sock = w.mdev.sock := by
    rw [← hm']
    unfold drbd_do_request_disk
    dsimp only
    split <;> rfl
  unfold drbd_do_request at h
  split at h
  · cases h
    refine ⟨_, by rw [← ht'], ?_⟩
    apply data_guarded_of_no_data
    intro e he
    rw [List.mem_singleton] at he
    rw [he]; rfl
  · split at h
    · next hsend =>
      have hprim : w.mdev.state = Drbd_State.Primary ∧
          Drbd_CState.Connected.toNat ≤ w.mdev.cstate.toNat := by
        unfold drbd_do_request_sending at hsend
        rw [decide_eq_true_eq, hm'] at hsend
        exact ⟨hsend.2.1, hsend.2.2.1⟩
      unfold drbd_do_request_net at h
      dsimp only at h
      generalize hwd : drbd_do_request_disk w' r = wd at h f1 f2 f5 hflag hsock
      obtain ⟨d, g1, g2⟩ := drbd_send_data_guard wd ((wd.reqs r).current_nr_sectors <<< 9)
        ((wd.reqs r).sector >>> (wd.mdev.blk_size_b - 9)) r ob od
      obtain ⟨s1, s2, -⟩ := drbd_send_data_due default wd ((wd.reqs r).current_nr_sectors <<< 9)
        ((wd.reqs r).sector >>> (wd.mdev.blk_size_b - 9)) r ob od hr0 f1
      generalize hws : drbd_send_data wd ((wd.reqs r).current_nr_sectors <<< 9)
        ((wd.reqs r).sector >>> (wd.mdev.blk_size_b - 9)) r ob od = ws at h g1 s1 s2
      generalize hw3 : (if ws.2 ≠ 0
        then ({ ws.1 with mdev := { ws.1.mdev with
          send_cnt := (ws.1.mdev.send_cnt + ((wd.reqs r).current_nr_sectors <<< 1)) % 2 ^ 32 } }
            : World)
        else ws.1) = wx at h
      have hx1 : wx.trace = ws.1.trace := by rw [← hw3]; split <;> rfl
      have hx2 : tl_wf wx.mdev := by rw [← hw3]; split <;> exact s1
      have hx3 : wx.mdev.tl_size = ws.1.mdev.tl_size := by rw [← hw3]; split <;> rfl
      have hg : data_guarded (barrier_flag w) (link_up w) (dD ++ d) := by
        apply data_guarded_append_left _ _ _ _ hnodisk
        refine data_guarded_mono g2 ?_ ?_
        · unfold barrier_flag; rw [hflag]; exact id
        · intro hs
          exact ⟨hprim.1, hprim.2, by rw [← hsock]; exact hs⟩
      split at h
      · obtain ⟨dE, e1, e2⟩ := drbd_end_req_no_data fuel wx w3 r RQ_DRBD_SENT 1 hx2
          (by rw [hx3, s2, f2, hm']; exact hf) h
        refine ⟨(dD ++ d) ++ dE, by
          rw [e1, hx1, g1, f5, ht']; simp only [List.append_assoc], ?_⟩
        exact data_guarded_append_right _ _ _ _ hg e2
      · cases h
        exact ⟨dD ++ d, by rw [hx1, g1, f5, ht', List.append_assoc], hg⟩
    · cases h
      exact ⟨dD, by rw [f5, ht'], data_guarded_of_no_data _ _ _ hnodisk⟩

/-- A Data packet that `drbd_send_data` reports as sent has gone out whole and
its request is logged: unless the log is full, the entry is in the current
epoch. -/
theorem drbd_send_data_logged_entry (w : World) (ds bn id : Nat) (ob od : SendOutcome)
    (hids : id ≠ ID_SYNCER) (hid0 : id ≠ TL_BARRIER) (hwf : tl_wf w.mdev)
    (hret : (drbd_send_data w ds bn id ob od).2 ≠ 0) :
    ∃ wA pre ret dt,
      wA.trace = w.trace ++ pre ++
        Event.send Drbd_Packet_Cmd.Data bn id sizeof_Drbd_Data_Packet ds ret :: dt ∧
      tl_wf wA.mdev ∧ wA.mdev.tl_size = w.mdev.tl_size ∧ wA.reqs = w.reqs ∧
      done_of dt = [] ∧
      (log_trouble dt ∨
        (⟨id, (w.reqs id).sector⟩ : Tl_entry) ∈ current_epoch (tl_entries wA.mdev)) ∧
      ∀ E, barrier_due E wA (drbd_send_data w ds bn id ob od).1 := by
  obtain ⟨dT, t1, -, t3, -⟩ := test_and_send_barrier_trace w ob
  obtain ⟨u1, u2, -⟩ := test_and_send_barrier_due default w ob hwf
  unfold drbd_send_data at hret ⊢
  dsimp only at hret ⊢
  generalize test_and_send_barrier w ob = wt at t1 t3 u1 u2 hret
  have hcases := drbd_send_cases wt Drbd_Packet_Cmd.Data bn id sizeof_Drbd_Data_Packet ds od
  generalize drbd_send wt Drbd_Packet_Cmd.Data bn id sizeof_Drbd_Data_Packet ds od = S
    at hcases hret
  unfold drbd_send_data_logged at hret ⊢
  rw [if_pos hids] at hret ⊢
  by_cases hok : S.2 = ((ds + sizeof_Drbd_Data_Packet : Nat) : Int)
  · rw [if_pos hok]
    dsimp only
    have hS : S.1 = { wt with trace := wt.trace ++
        [Event.send Drbd_Packet_Cmd.Data bn id sizeof_Drbd_Data_Packet ds od.err] } := by
      have hnn : (0 : Int) ≤ ((ds + sizeof_Drbd_Data_Packet : Nat) : Int) := Int.ofNat_nonneg _
      have hcomm : ((sizeof_Drbd_Data_Packet + ds : Nat) : Int)
          = ((ds + sizeof_Drbd_Data_Packet : Nat) : Int) := by rw [Nat.add_comm]
      rcases hcases with ⟨_, _, h⟩ | ⟨_, _, ⟨_, h⟩ | ⟨_, h⟩ | ⟨_, h1, _, h2⟩ | ⟨h, _⟩⟩
      · omega
      · rw [h] at hok; omega
      · rw [h] at hok; omega
      · rw [h1, ← hcomm] at hok; exact absurd hok h2
      · exact h
    have hmS : S.1.mdev = wt.mdev := by rw [hS]
    have hrS : S.1.reqs = wt.reqs := by rw [hS]
    have htS : S.1.trace = w.trace ++ dT ++
        [Event.send Drbd_Packet_Cmd.Data bn id sizeof_Drbd_Data_Packet ds od.err] := by
      rw [hS]; dsimp only; rw [t1]
    have hwfS : tl_wf S.1.mdev := by rw [hmS]; exact u1
    have hA : ∃ dt, (tl_add S.1 id).trace = S.1.trace ++ dt ∧
        dt = (if (if S.1.mdev.tl_end + 1 = S.1.mdev.tl_size then 0 else S.1.mdev.tl_end + 1)
          = S.1.mdev.tl_begin then [Event.printk Msg.transferlog_too_small] else []) :=
      ⟨_, rfl, rfl⟩
    obtain ⟨dt, a1, a2⟩ := hA
    refine ⟨tl_add S.1 id, dT, od.err, dt, ?_, tl_pushed_wf _ _ hwfS, ?_, ?_, ?_, ?_, ?_⟩
    · rw [a1, htS]
      simp only [List.append_assoc, List.singleton_append]
    · show S.1.mdev.tl_size = _
      rw [hmS]; exact u2
    · show S.1.reqs = _
      rw [hrS, t3]
    · rw [a2]
      split <;> simp [done_of]
    · by_cases hroom : tl_count S.1.mdev + 1 < S.1.mdev.tl_size
      · right
        rw [(tl_add_entries S.1 id hwfS hroom).2, hrS, t3,
          current_epoch_append_data _ _ (by simp [Tl_entry.isBarrier, hid0])]
        exact List.mem_append_right _ (List.mem_singleton.2 rfl)
      · left
        left
        rw [a2, if_pos (tl_full_next S.1.mdev hwfS hroom)]
        exact List.mem_singleton.2 rfl
    · intro E
      split
      · exact barrier_due_mdev E _ _ ⟨rfl, rfl, rfl, rfl⟩ rfl rfl rfl rfl
      · exact barrier_due_refl E _
  · rw [if_neg hok] at hret
    exact absurd rfl hret

/-- The step of `drbd_do_request` that hands the write `r` to the peer: its
Data packet is in the trace, and after it the request is logged; unless the
log is full, its entry is in the current epoch. -/
theorem exec_do_request_logged (fuel : Nat) (w0 w1 : World) (r : Nat) (rq : request)
    (ob od : SendOutcome) (hrs : r ≠ ID_SYNCER) (hr0 : r ≠ TL_BARRIER) (hwf : tl_wf w0.mdev)
    (hf : w0.mdev.tl_size ≤ fuel)
    (hhand : handed_to_peer { w0 with reqs := req_update w0.reqs r rq } r ob od)
    (h : exec fuel w0 (Action.do_request r rq true ob od) = some w1) :
    ∃ wA pre bn ds ret dt,
      wA.trace = w0.trace ++ pre ++
        Event.send Drbd_Packet_Cmd.Data bn r sizeof_Drbd_Data_Packet ds ret :: dt ∧
      tl_wf wA.mdev ∧ wA.mdev.tl_size = w0.mdev.tl_size ∧ (wA.reqs r).sector = rq.sector ∧
      done_of dt = [] ∧
      (log_trouble dt ∨ (⟨r, rq.sector⟩ : Tl_entry) ∈ current_epoch (tl_entries wA.mdev)) ∧
      barrier_due ⟨r, rq.sector⟩ wA w1 := by
  simp only [exec] at h
  generalize hw' : ({ w0 with reqs := req_update w0.reqs r rq } : World) = w' at h hhand
  have hm' : w'.mdev = w0.mdev := by subst hw'; rfl
  have ht' : w'.trace = w0.trace := by subst hw'; rfl
  have hr' : w'.reqs r = rq := by subst hw'; exact req_update_same _ _ _
  have hwf' : tl_wf w'.mdev := by rw [hm']; exact hwf
  obtain ⟨hs1, hs2⟩ := hhand
  obtain ⟨f1, f2, -, -, dD, f5, -⟩ := drbd_do_request_disk_due default w' r hwf'
  have hreq := drbd_do_request_disk_req w' r
  have hbs : (drbd_do_request_disk w' r).mdev.blk_size_b = w'.mdev.blk_size_b := by
    unfold drbd_do_request_disk
    dsimp only
    split <;> rfl
  unfold drbd_do_request at h
  rw [if_neg (by simp), if_pos hs1] at h
  unfold drbd_do_request_net at h
  dsimp only at h
  rw [hreq, hbs] at h
  dsimp only at h
  generalize hwd : drbd_do_request_disk w' r = wd at h f1 f2 f5 hs2 hreq
  have hsec : (wd.reqs r).sector = rq.sector := by rw [hreq, hr']
  obtain ⟨wA, pre, ret, dt, a1, a2, a3, a4, a7, a5, a6⟩ := drbd_send_data_logged_entry wd
    ((w'.reqs r).current_nr_sectors <<< 9) ((w'.reqs r).sector >>> (w'.mdev.blk_size_b - 9)) r
    ob od hrs hr0 f1 hs2
  rw [hsec] at a5
  generalize hws : drbd_send_data wd ((w'.reqs r).current_nr_sectors <<< 9)
    ((w'.reqs r).sector >>> (w'.mdev.blk_size_b - 9)) r ob od = ws at h a6 hs2
  rw [if_pos hs2] at h
  dsimp only at h
  have h3 : barrier_due ⟨r, rq.sector⟩ wA ({ ws.1 with mdev := { ws.1.mdev with
      send_cnt := (ws.1.mdev.send_cnt + ((w'.reqs r).current_nr_sectors <<< 1)) % 2 ^ 32 } }
        : World) :=
    barrier_due_trans (a6 _) (barrier_due_mdev _ _ _ ⟨rfl, rfl, rfl, rfl⟩ rfl rfl rfl rfl)
  refine ⟨wA, dD ++ pre, (w'.reqs r).sector >>> (w'.mdev.blk_size_b - 9),
    (w'.reqs r).current_nr_sectors <<< 9, ret, dt,
    by rw [a1, f5, ht']; simp only [List.append_assoc],
    a2, by rw [a3, f2, hm'], by rw [a4]; exact hsec, a7, a5, ?_⟩
  split at h
  · intro hA
    obtain ⟨b1, b2, -⟩ := h3 hA
    exact barrier_due_trans h3 (drbd_end_req_due _ fuel _ w1 r RQ_DRBD_SENT 1 hr0
      (by rw [b2, a3, f2, hm']; exact hf) h) hA
  · cases h
    exact h3

/-- C1, counterexample: on a connected Primary under protocol C the write of
sector 8 (request 101) is sent, its local write finishes, and a second write
of sector 8 (request 102) is submitted before the peer has acknowledged the
first. The two Data packets go out with no Barrier between them. -/
theorem no_barrier_before_ack_counterexample :
    world0.mdev.state = Drbd_State.Primary ∧ world0.mdev.cstate = Drbd_CState.Connected ∧
    (rq_write 8).cmd = WRITE ∧
    ∃ w, run 4 [Action.do_request 101 (rq_write 8) true barrier_taken data_taken,
        Action.dio_end 101 1,
        Action.do_request 102 (rq_write 8) true barrier_taken data_taken] world0 = some w ∧
      w.trace = [Event.ll_rw_block WRITE 101,
        Event.send Drbd_Packet_Cmd.Data 1 101 24 4096 4120,
        Event.ll_rw_block WRITE 102,
        Event.send Drbd_Packet_Cmd.Data 1 102 24 4096 4120] :=
  ⟨rfl, rfl, rfl, _, rfl, by decide⟩

/-- C1: let `drbd_do_request` hand the write W1 (request `r1`) to the peer, let
any actions of the Primary follow that do not submit `r1` again and do not
clear the log, and let then a write W2 be submitted. The trace up to the
submission of W2 holds the Data packet of W1, followed by a stretch `dA`. If
W1 was completed in `dA` (`end_that_request_first/last` for `r1`) and the
transfer log did not complain in `dA`, then every Data packet sent in the step
of W2 comes after a Barrier packet that was sent after the Data packet of
W1. -/
theorem barrier_after_completed_write (fuel : Nat) (w0 w1 w2 w3 : World) (r1 r2 : Nat)
    (rq1 rq2 : request) (k2 : Bool) (ob1 od1 ob2 od2 : SendOutcome) (mid : List Action)
    (hr1s : r1 ≠ ID_SYNCER) (hr10 : r1 ≠ TL_BARRIER) (hr20 : r2 ≠ TL_BARRIER)
    (hwf : tl_wf w0.mdev) (hf : w0.mdev.tl_size ≤ fuel)
    (hhand : handed_to_peer { w0 with reqs := req_update w0.reqs r1 rq1 } r1 ob1 od1)
    (h1 : exec fuel w0 (Action.do_request r1 rq1 true ob1 od1) = some w1)
    (hmid : ∀ a ∈ mid, keeps_log ⟨r1, rq1.sector⟩ a)
    (h2 : run fuel mid w1 = some w2)
    (h3 : exec fuel w2 (Action.do_request r2 rq2 k2 ob2 od2) = some w3) :
    ∃ pre bn ds ret dA d3,
      w2.trace = w0.trace ++ pre ++
        Event.send Drbd_Packet_Cmd.Data bn r1 sizeof_Drbd_Data_Packet ds ret :: dA ∧
      w3.trace = w2.trace ++ d3 ∧
      (r1 ∈ done_of dA → ¬ log_trouble dA →
        ∀ b e c, d3 = b ++ e :: c → e.isDataSend = true → barrier_sent (dA ++ b)) := by
  obtain ⟨wA, pre, bn, ds, ret, dt, a1, a2, a3, a4, a7, a5, a6⟩ :=
    exec_do_request_logged fuel w0 w1 r1 rq1 ob1 od1 hr1s hr10 hwf hf hhand h1
  obtain ⟨b1, b2, -⟩ := a6 a2
  have hrun := run_due ⟨r1, rq1.sector⟩ fuel hr10 mid w1 w2 b1
    (by rw [b2, a3]; exact hf) hmid h2
  obtain ⟨c1, c2, -, -, d, c5, c6⟩ := barrier_due_trans a6 hrun a2
  obtain ⟨d3, g1, g2⟩ := exec_do_request_guard fuel w2 w3 r2 rq2 k2 ob2 od2 hr20 c1
    (by rw [c2, a3]; exact hf) h3
  refine ⟨pre, bn, ds, ret, dt ++ d, d3, by rw [c5, a1]; simp only [List.append_assoc,
    List.cons_append], g1, ?_⟩
  intro hdone hq b e c hsplit he
  obtain ⟨hlink, hbar⟩ := g2 b e c hsplit he
  have hd : r1 ∈ done_of d := by
    rw [done_of_append, a7, List.nil_append] at hdone
    exact hdone
  rcases c6 with h | h | h | ⟨-, h⟩
  · exact barrier_sent_append_left (barrier_sent_append_right h _) _
  · exact absurd (log_trouble_append_right h _) hq
  · exact absurd hlink h
  · rcases a5 with a5 | a5
    · exact absurd (log_trouble_append_left a5 _) hq
    · exact barrier_sent_append_right (hbar ((h a4 a5).2 hd)) _

/-- C1, witness: the write of sector 8 (request 101) is sent, written and
acknowledged; the second write of sector 8 (request 102) then goes out after
Barrier 1. -/
theorem barrier_after_completed_write_witness :
    (∃ pre bn ds ret dA d3,
      world_sent_done.trace = world0.trace ++ pre ++
        Event.send Drbd_Packet_Cmd.Data bn 101 sizeof_Drbd_Data_Packet ds ret :: dA ∧
      world_second_sent.trace = world_sent_done.trace ++ d3 ∧
      (101 ∈ done_of dA → ¬ log_trouble dA →
        ∀ b e c, d3 = b ++ e :: c → e.isDataSend = true → barrier_sent (dA ++ b))) ∧
    world_second_sent.trace = [Event.ll_rw_block WRITE 101,
      Event.send Drbd_Packet_Cmd.Data 1 101 24 4096 4120,
      Event.end_request 101 1, Event.wake_asender,
      Event.ll_rw_block WRITE 102,
      Event.send Drbd_Packet_Cmd.Barrier 1 0 12 0 12,
      Event.send Drbd_Packet_Cmd.Data 1 102 24 4096 4120] :=
  ⟨barrier_after_completed_write 4 world0 world_sent world_sent_done world_second_sent 101 102
    (rq_write 8) (rq_write 8) true barrier_taken data_taken barrier_taken data_taken
    [Action.dio_end 101 1, Action.block_ack 1 101] (by decide) (by decide) (by decide)
    (by decide) (by decide) ⟨by decide, by decide⟩ rfl (by simp [keeps_log]) rfl rfl,
   by decide⟩

/-! ## The epochs of the two nodes -/

theorem last_data_append : ∀ (L1 L2 : List (Option Nat)) (b : Bool),
    last_data b (L1 ++ L2) = last_data (last_data b L1) L2
  | [], _, _ => rfl
  | none :: t, L2, _ => by
    show last_data true (t ++ L2) = last_data (last_data true t) L2
    exact last_data_append t L2 true
  | some _ :: t, L2, _ => by
    show last_data false (t ++ L2) = last_data (last_data false t) L2
    exact last_data_append t L2 false

theorem spaced_append : ∀ (L1 L2 : List (Option Nat)) (b : Bool),
    spaced b (L1 ++ L2) = (spaced b L1 && spaced (last_data b L1) L2)
  | [], _, _ => by simp [spaced, last_data]
  | none :: t, L2, _ => by
    show spaced true (t ++ L2) = (spaced true t && spaced (last_data true t) L2)
    exact spaced_append t L2 true
  | some _ :: t, L2, b => by
    show (b && spaced false (t ++ L2)) = ((b && spaced false t) && spaced (last_data false t) L2)
    rw [spaced_append t L2 false, Bool.and_assoc]

theorem last_data_replicate (k : Nat) (b : Bool) :
    last_data b (List.replicate k none) = (b || decide (0 < k)) := by
  induction k generalizing b with
  | zero => simp [last_data]
  | succ n ih =>
    show last_data true (List.replicate n none) = _
    rw [ih]; simp

theorem spaced_replicate (k : Nat) (b : Bool) : spaced b (List.replicate k none) = true := by
  induction k generalizing b with
  | zero => rfl
  | succ n ih => exact ih true

theorem syms_of_acks_append : ∀ (l1 l2 : List Pkt),
    syms_of_acks (l1 ++ l2) = syms_of_acks l1 ++ syms_of_acks l2
  | [], _ => rfl
  | pk :: t, l2 => by
    show _ ++ syms_of_acks (t ++ l2) = (_ ++ syms_of_acks t) ++ syms_of_acks l2
    rw [syms_of_acks_append t l2, List.append_assoc]

theorem syms_of_pkts_append : ∀ (l1 l2 : List Pkt),
    syms_of_pkts (l1 ++ l2) = syms_of_pkts l1 ++ syms_of_pkts l2
  | [], _ => rfl
  | pk :: t, l2 => by
    show _ ++ syms_of_pkts (t ++ l2) = (_ ++ syms_of_pkts t) ++ syms_of_pkts l2
    rw [syms_of_pkts_append t l2, List.append_assoc]

theorem sent_of_append (d1 d2 : List Event) : sent_of (d1 ++ d2) = sent_of d1 ++ sent_of d2 := by
  unfold sent_of
  rw [List.filterMap_append]

theorem sym_data (e : Tl_entry) (h : e.req ≠ TL_BARRIER) : e.sym = none := by
  unfold Tl_entry.sym; rw [if_neg h]

theorem sym_barrier (n : Nat) : (⟨TL_BARRIER, n⟩ : Tl_entry).sym = some n := by
  unfold Tl_entry.sym; rw [if_pos rfl]

theorem LogRun_trans {es f o1 es1 f1 o2 es2 f2} (h1 : LogRun es f o1 es1 f1)
    (h2 : LogRun es1 f1 o2 es2 f2) : LogRun es f (o1 ++ o2) es2 f2 := by
  induction h2 with
  | refl => rw [List.append_nil]; exact h1
  | data out es3 f3 bn id ds sec _ hs h0 ih =>
    rw [← List.append_assoc]; exact LogRun.data _ _ _ _ _ bn id ds sec ih hs h0
  | sync out es3 f3 bn ds _ ih =>
    rw [← List.append_assoc]; exact LogRun.sync _ _ _ _ _ bn ds ih
  | barrier out es3 n _ ih =>
    rw [← List.append_assoc]; exact LogRun.barrier _ _ _ _ n ih
  | flag out es3 f3 _ hl ih => exact LogRun.flag _ _ _ _ _ ih hl

theorem map_sym_replicate (ds : List Tl_entry) (k : Nat)
    (h : ds.map Tl_entry.sym = List.replicate k none) :
    ds.length = k ∧ (∀ e ∈ ds, e.req ≠ TL_BARRIER) ∧ data_count ds = k := by
  have hlen : ds.length = k := by
    have := congrArg List.length h
    rw [List.length_map, List.length_replicate] at this
    exact this
  have hall : ∀ e ∈ ds, e.req ≠ TL_BARRIER := by
    intro e he hb
    have h1 : e.sym ∈ ds.map Tl_entry.sym := List.mem_map_of_mem _ he
    rw [h] at h1
    have h2 := List.eq_of_mem_replicate h1
    unfold Tl_entry.sym at h2
    rw [if_pos hb] at h2
    exact absurd h2 (by simp)
  refine ⟨hlen, hall, ?_⟩
  unfold data_count
  rw [List.filter_eq_self.2, hlen]
  intro e he
  have := hall e he
  simp [Tl_entry.isBarrier, this]

theorem sym_eq_some (B : Tl_entry) (n : Nat) (h : B.sym = some n) : B = ⟨TL_BARRIER, n⟩ := by
  unfold Tl_entry.sym at h
  by_cases hb : B.req = TL_BARRIER
  · rw [if_pos hb] at h
    cases B
    simp only [Tl_entry.mk.injEq]
    exact ⟨hb, Option.some.inj h⟩
  · rw [if_neg hb] at h
    exact absurd h (by simp)

theorem data_count_barrier_cons (B : Tl_entry) (ds : List Tl_entry) (h : B.req = TL_BARRIER) :
    data_count (B :: ds) = data_count ds := by
  unfold data_count
  rw [List.filter_cons_of_neg (by simp [Tl_entry.isBarrier, h])]

/-- The send path keeps the log matched with the rest of the pair. -/
theorem matched_LogRun {es f out es1 f1} (h : LogRun es f out es1 f1) (to_s to_p : List Pkt)
    (ep : Nat) (up : Bool) (hm : Pair.matched es f to_s to_p ep up) :
    Pair.matched es1 f1 (to_s ++ out) to_p ep up := by
  induction h with
  | refl => rw [List.append_nil]; exact hm
  | data out es3 f3 bn id ds sec _ hs h0 ih =>
    obtain ⟨rel, pend, a1, a2, a3, a4, X, a5, a6⟩ := ih
    refine ⟨rel, pend ++ [⟨id, sec⟩], by rw [a1, List.append_assoc], a2, ?_, ?_,
      X ++ [none], ?_, ?_⟩
    · rw [List.map_append, spaced_append, a3, Bool.true_and]
      show spaced _ [(⟨id, sec⟩ : Tl_entry).sym] = true
      rw [sym_data _ h0]; rfl
    · intro _
      rw [List.map_append, last_data_append]
      show last_data _ [(⟨id, sec⟩ : Tl_entry).sym] = true
      rw [sym_data _ h0]; rfl
    · rw [List.map_append, a5, List.append_assoc]
      show _ ++ (X ++ [(⟨id, sec⟩ : Tl_entry).sym]) = _
      rw [sym_data _ h0]
    · intro hu
      rw [a6 hu, ← List.append_assoc to_s, syms_of_pkts_append (to_s ++ out), List.append_assoc]
      congr 2
      show [none] = (if _ then (if id = ID_SYNCER then [] else [none]) else _) ++ []
      rw [if_pos rfl, if_neg hs]; rfl
  | sync out es3 f3 bn ds _ ih =>
    obtain ⟨rel, pend, a1, a2, a3, a4, X, a5, a6⟩ := ih
    refine ⟨rel, pend, a1, a2, a3, a4, X, a5, ?_⟩
    intro hu
    rw [a6 hu, ← List.append_assoc to_s, syms_of_pkts_append (to_s ++ out)]
    have : syms_of_pkts [⟨Drbd_Packet_Cmd.Data, bn, ID_SYNCER, ds⟩] = [] := by
      show (if _ then (if ID_SYNCER = ID_SYNCER then [] else [none]) else _) ++ [] = _
      rw [if_pos rfl, if_pos rfl]; rfl
    rw [this, List.append_nil]
  | barrier out es3 n _ ih =>
    obtain ⟨rel, pend, a1, a2, a3, a4, X, a5, a6⟩ := ih
    refine ⟨rel, pend ++ [⟨TL_BARRIER, n⟩], by rw [a1, List.append_assoc], a2, ?_, ?_,
      X ++ [some n], ?_, ?_⟩
    · rw [List.map_append, spaced_append, a3, a4 rfl]
      show spaced true [(⟨TL_BARRIER, n⟩ : Tl_entry).sym] = true
      rw [sym_barrier]; rfl
    · intro h; exact absurd h (by simp)
    · rw [List.map_append, a5, List.append_assoc]
      show _ ++ (X ++ [(⟨TL_BARRIER, n⟩ : Tl_entry).sym]) = _
      rw [sym_barrier]
    · intro hu
      rw [a6 hu, ← List.append_assoc to_s, syms_of_pkts_append (to_s ++ out), List.append_assoc]
      congr 2
  | flag out es3 f3 _ hl ih =>
    obtain ⟨rel, pend, a1, a2, a3, a4, X, a5, a6⟩ := ih
    refine ⟨rel, pend, a1, a2, a3, ?_, X, a5, a6⟩
    intro _
    rw [a1, List.map_append, last_data_append] at hl
    cases rel with
    | none => exact hl
    | some B =>
      have hB : B.sym = some B.sector_nr := by
        unfold Tl_entry.sym; rw [if_pos (a2 B rfl)]
      have : last_data false (List.map Tl_entry.sym (some B).toList) = false := by
        show last_data false [B.sym] = false
        rw [hB]; rfl
      rw [this] at hl
      exact hl

/-- A packet for the Primary that is no `BarrierAck` leaves the match as it
is. -/
theorem matched_block_ack (es : List Tl_entry) (f : Bool) (to_s to_p : List Pkt) (ep : Nat)
    (up : Bool) (pk : Pkt) (hc : pk.cmd ≠ Drbd_Packet_Cmd.BarrierAck)
    (hm : Pair.matched es f to_s (pk :: to_p) ep up) : Pair.matched es f to_s to_p ep up := by
  obtain ⟨rel, pend, a1, a2, a3, a4, X, a5, a6⟩ := hm
  refine ⟨rel, pend, a1, a2, a3, a4, X, ?_, a6⟩
  rw [a5]
  show ((if _ then _ else []) ++ syms_of_acks to_p) ++ X = _
  rw [if_neg hc, List.nil_append]

/-- The `BarrierAck` with the fields `n`, `k` that the Primary receives next:
the log holds, after its first entry, writes and then barrier `n`, and `k`
writes lie before this barrier; with `tl_begin` on the barrier the log is
matched again. -/
theorem matched_barrier_ack (es : List Tl_entry) (f : Bool) (to_s to_p : List Pkt) (ep : Nat)
    (up : Bool) (n k x : Nat)
    (hm : Pair.matched es f to_s (⟨Drbd_Packet_Cmd.BarrierAck, n, k, x⟩ :: to_p) ep up) :
    ∃ e0 ds post, es = e0 :: (ds ++ ⟨TL_BARRIER, n⟩ :: post) ∧
      (∀ e ∈ ds, e.req ≠ TL_BARRIER) ∧ data_count (e0 :: ds) = k ∧
      Pair.matched (⟨TL_BARRIER, n⟩ :: post) f to_s to_p ep up := by
  obtain ⟨rel, pend, a1, a2, a3, a4, X, a5, a6⟩ := hm
  have a5b : pend.map Tl_entry.sym =
      List.replicate k none ++ ([some n] ++ (syms_of_acks to_p ++ X)) := by
    rw [a5]
    show ((if _ then _ else []) ++ syms_of_acks to_p) ++ X = _
    rw [if_pos rfl]
    simp only [List.append_assoc]
  obtain ⟨ds, l1, b1, b2, b3⟩ := List.map_eq_append_iff.1 a5b
  obtain ⟨lB, post, c1, c2, c3⟩ := List.map_eq_append_iff.1 b3
  obtain ⟨B, t, e1, e2, e3⟩ := List.map_eq_cons_iff.1 c2
  have ht : t = [] := List.map_eq_nil_iff.1 e3
  have hB := sym_eq_some B n e2
  obtain ⟨g1, g2, g3⟩ := map_sym_replicate ds k b2
  rw [a5b, spaced_append, spaced_replicate, last_data_replicate] at a3
  have hk : 0 < k ∧ spaced false (syms_of_acks to_p ++ X) = true := by
    have : (decide (0 < k) && spaced false (syms_of_acks to_p ++ X)) = true := by
      simpa [spaced] using a3
    simpa using this
  have hpend : pend = ds ++ ⟨TL_BARRIER, n⟩ :: post := by
    rw [b1, c1, e1, ht, hB]; rfl
  have hnew : Pair.matched (⟨TL_BARRIER, n⟩ :: post) f to_s to_p ep up := by
    refine ⟨some ⟨TL_BARRIER, n⟩, post, rfl, ?_, ?_, ?_, X, c3, a6⟩
    · intro B hB; cases hB; rfl
    · rw [c3]; exact hk.2
    · intro hf
      have := a4 hf
      rw [a5b, last_data_append, ← c3, last_data_append] at this
      exact this
  cases rel with
  | some B0 =>
    refine ⟨B0, ds, post, by rw [a1, hpend]; rfl, g2, ?_, hnew⟩
    rw [data_count_barrier_cons B0 ds (a2 B0 rfl)]; exact g3
  | none =>
    cases ds with
    | nil => simp at g1; omega
    | cons d0 ds1 =>
      refine ⟨d0, ds1, post, by rw [a1, hpend]; rfl, ?_, g3, hnew⟩
      intro e he
      exact g2 e (List.mem_cons_of_mem _ he)

/-- The receiver of the Secondary takes a packet from the wire and answers
with `acks`. -/
theorem matched_deliver (es : List Tl_entry) (f : Bool) (to_s to_s1 to_p acks : List Pkt)
    (ep ep1 : Nat) (up1 : Bool) (hm : Pair.matched es f to_s to_p ep true)
    (h : ∃ X1, List.replicate ep none ++ syms_of_pkts to_s = syms_of_acks acks ++ X1 ∧
      (up1 = true → X1 = List.replicate ep1 none ++ syms_of_pkts to_s1)) :
    Pair.matched es f to_s1 (to_p ++ acks) ep1 up1 := by
  obtain ⟨rel, pend, a1, a2, a3, a4, X, a5, a6⟩ := hm
  obtain ⟨X1, h1, h2⟩ := h
  refine ⟨rel, pend, a1, a2, a3, a4, X1, ?_, h2⟩
  rw [a5, a6 rfl, h1, syms_of_acks_append, List.append_assoc]

/-! ## What the Primary sends is what it logs -/

theorem sends_logged_refl (w : World) : sends_logged w w :=
  fun hwf hw => ⟨hwf, rfl, rfl, hw, [], by simp, Or.inr (LogRun.refl _ _)⟩

theorem sends_logged_trans {w w1 w2 : World} (h1 : sends_logged w w1)
    (h2 : sends_logged w1 w2) : sends_logged w w2 := by
  intro hwf hw
  obtain ⟨a1, a2, a7, a3, d1, a4, a5⟩ := h1 hwf hw
  obtain ⟨b1, b2, b7, b3, d2, b4, b5⟩ := h2 a1 a3
  refine ⟨b1, b2.trans a2, b7.trans a7, b3, d1 ++ d2, by rw [b4, a4, List.append_assoc], ?_⟩
  rcases a5 with h | h
  · exact Or.inl (List.mem_append_left _ h)
  · rcases b5 with g | g
    · exact Or.inl (List.mem_append_right _ g)
    · rw [sent_of_append]; exact Or.inr (LogRun_trans h g)

/-- A step that keeps the ring, the flags and the connection and sends
nothing. -/
theorem sends_logged_neutral (w w1 : World) (d : List Event)
    (hr : same_ring w.mdev w1.mdev) (hfl : w1.mdev.flags = w.mdev.flags)
    (hs : w1.mdev.sock = w.mdev.sock) (hc : w1.mdev.cstate = w.mdev.cstate)
    (hst : w1.mdev.state = w.mdev.state)
    (ht : w1.trace = w.trace ++ d) (hd : sent_of d = []) : sends_logged w w1 := by
  intro hwf hw
  refine ⟨same_ring_wf hr hwf, hr.2.2.2, hst, ?_, d, ht, Or.inr ?_⟩
  · unfold wired; rw [hs, hc]; exact hw
  · rw [hd, same_ring_entries hr, hfl]; exact LogRun.refl _ _

/-- A step that sets `ISSUE_BARRIER` on a log that ends in a write, and sends
nothing. -/
theorem sends_logged_flag (w w1 : World) (d : List Event)
    (hr : same_ring w.mdev w1.mdev)
    (hfl : w1.mdev.flags = set_bit ISSUE_BARRIER w.mdev.flags)
    (hs : w1.mdev.sock = w.mdev.sock) (hc : w1.mdev.cstate = w.mdev.cstate)
    (hst : w1.mdev.state = w.mdev.state)
    (ht : w1.trace = w.trace ++ d) (hd : sent_of d = [])
    (hl : last_data false ((tl_entries w.mdev).map Tl_entry.sym) = true) :
    sends_logged w w1 := by
  intro hwf hw
  refine ⟨same_ring_wf hr hwf, hr.2.2.2, hst, ?_, d, ht, Or.inr ?_⟩
  · unfold wired; rw [hs, hc]; exact hw
  · rw [hd, same_ring_entries hr, hfl, test_bit_set_bit]
    exact LogRun.flag _ _ _ _ _ (LogRun.refl _ _) hl

theorem sends_logged_mdev (w : World) (m : Drbd_Conf) (hr : same_ring w.mdev m)
    (hfl : m.flags = w.mdev.flags) (hs : m.sock = w.mdev.sock)
    (hc : m.cstate = w.mdev.cstate) (hst : m.state = w.mdev.state) :
    sends_logged w { w with mdev := m } :=
  sends_logged_neutral w _ [] hr hfl hs hc hst (by simp) rfl

theorem sends_logged_trace (w : World) (d : List Event) (hd : sent_of d = []) :
    sends_logged w { w with trace := w.trace ++ d } :=
  sends_logged_neutral w _ d ⟨rfl, rfl, rfl, rfl⟩ rfl rfl rfl rfl rfl hd

/-- A send that the socket takes whole, on a device that can send. -/
theorem drbd_send_taken_eq (w : World) (cmd : Drbd_Packet_Cmd) (a b hs ds : Nat)
    (o : SendOutcome) (hw : wired w) (ho : taken o (hs + ds)) :
    drbd_send w cmd a b hs ds o =
      ({ w with trace := w.trace ++ [Event.send cmd a b hs ds ((hs + ds : Nat) : Int)] },
        ((hs + ds : Nat) : Int)) := by
  obtain ⟨h1, h2⟩ := hw
  obtain ⟨h3, h4⟩ := ho
  unfold drbd_send
  dsimp only
  rw [if_neg (by rw [h1]; simp), if_neg (Nat.not_lt.2 h2), if_neg (by rw [h4]; simp),
    if_neg (by rw [h3]; exact not_lt.2 (Int.ofNat_nonneg _)), if_neg (by rw [h3]; simp), h3]

theorem sent_of_whole (cmd : Drbd_Packet_Cmd) (a b hs ds : Nat) :
    sent_of [Event.send cmd a b hs ds ((hs + ds : Nat) : Int)] = [⟨cmd, a, b, ds⟩] := by
  unfold sent_of
  simp

theorem sent_of_too_small (c : Prop) [Decidable c] :
    sent_of (if c then [Event.printk Msg.transferlog_too_small] else []) = [] := by
  split <;> rfl

theorem test_bit_clear_bit (nr flags : Nat) : test_bit nr (clear_bit nr flags) = false := by
  unfold test_bit clear_bit
  split
  · next h => rw [Nat.testBit_xor, h, Nat.testBit_two_pow_self]; rfl
  · next h => simpa using h

/-- The data packet of a request and its entry in the log. -/
theorem send_add_logged (w : World) (bn id ds : Nat) (hs : id ≠ ID_SYNCER)
    (h0 : id ≠ TL_BARRIER) :
    sends_logged w (tl_add { w with trace := w.trace ++
      [Event.send Drbd_Packet_Cmd.Data bn id sizeof_Drbd_Data_Packet ds
        ((sizeof_Drbd_Data_Packet + ds : Nat) : Int)] } id) := by
  intro hwf hw
  refine ⟨tl_pushed_wf _ _ hwf, rfl, rfl, hw, _ ++ _, (List.append_assoc _ _ _), ?_⟩
  by_cases hroom : tl_count w.mdev + 1 < w.mdev.tl_size
  · right
    rw [sent_of_append, sent_of_whole, sent_of_too_small, List.append_nil]
    have := (tl_add_entries { w with trace := w.trace ++
      [Event.send Drbd_Packet_Cmd.Data bn id sizeof_Drbd_Data_Packet ds
        ((sizeof_Drbd_Data_Packet + ds : Nat) : Int)] } id hwf hroom).2
    rw [this]
    exact LogRun.data _ _ [] _ _ bn id ds _ (LogRun.refl _ _) hs h0
  · left
    apply List.mem_append_right
    show _ ∈ (if _ = w.mdev.tl_begin then _ else _)
    rw [if_pos (tl_full_next w.mdev hwf hroom)]
    exact List.mem_singleton.2 rfl

/-- The barrier packet and its entry in the log. -/
theorem barrier_add_logged (w : World) (hf : test_bit ISSUE_BARRIER w.mdev.flags = true) :
    sends_logged w
      { (tl_add_barrier { w with mdev :=
            { w.mdev with flags := clear_bit ISSUE_BARRIER w.mdev.flags } }).1 with
        trace := (tl_add_barrier { w with mdev :=
            { w.mdev with flags := clear_bit ISSUE_BARRIER w.mdev.flags } }).1.trace ++
          [Event.send Drbd_Packet_Cmd.Barrier (tl_add_barrier { w with mdev :=
            { w.mdev with flags := clear_bit ISSUE_BARRIER w.mdev.flags } }).2 0
            sizeof_Drbd_Barrier_Packet 0 ((sizeof_Drbd_Barrier_Packet + 0 : Nat) : Int)] } := by
  intro hwf hw
  have hwf1 : tl_wf ({ w with mdev :=
      { w.mdev with flags := clear_bit ISSUE_BARRIER w.mdev.flags } } : World).mdev := hwf
  refine ⟨tl_pushed_wf _ _ hwf1, rfl, rfl, hw, _ ++ _, (List.append_assoc _ _ _), ?_⟩
  by_cases hroom : tl_count w.mdev + 1 < w.mdev.tl_size
  · right
    rw [sent_of_append, sent_of_too_small, sent_of_whole, List.nil_append]
    have := (tl_add_barrier_entries { w with mdev :=
      { w.mdev with flags := clear_bit ISSUE_BARRIER w.mdev.flags } } hwf1 hroom).2
    have he : tl_entries ({ w with mdev :=
        { w.mdev with flags := clear_bit ISSUE_BARRIER w.mdev.flags } } : World).mdev
        = tl_entries w.mdev := same_ring_entries ⟨rfl, rfl, rfl, rfl⟩
    rw [he] at this
    show LogRun _ _ _ (tl_entries (tl_add_barrier _).1.mdev)
      (test_bit ISSUE_BARRIER (clear_bit ISSUE_BARRIER w.mdev.flags))
    rw [this, test_bit_clear_bit, hf]
    exact LogRun.barrier _ _ [] _ _ (LogRun.refl _ _)
  · left
    apply List.mem_append_left
    show _ ∈ (if _ = w.mdev.tl_begin then _ else _)
    rw [if_pos (tl_full_next w.mdev hwf hroom)]
    exact List.mem_singleton.2 rfl

theorem send_sync_logged (w : World) (bn ds : Nat) :
    sends_logged w { w with trace := w.trace ++
      [Event.send Drbd_Packet_Cmd.Data bn ID_SYNCER sizeof_Drbd_Data_Packet ds
        ((sizeof_Drbd_Data_Packet + ds : Nat) : Int)] } := by
  intro hwf hw
  refine ⟨hwf, rfl, rfl, hw, _, rfl, Or.inr ?_⟩
  rw [sent_of_whole]
  exact LogRun.sync _ _ [] _ _ bn ds (LogRun.refl _ _)

theorem _drbd_send_barrier_taken (w : World) (o : SendOutcome) (hw : wired w)
    (ho : taken o sizeof_Drbd_Barrier_Packet) :
    (_drbd_send_barrier w o).1 =
      { (tl_add_barrier w).1 with
        mdev := inc_pending (tl_add_barrier w).1.mdev,
        trace := (tl_add_barrier w).1.trace ++
          [Event.send Drbd_Packet_Cmd.Barrier (tl_add_barrier w).2 0
            sizeof_Drbd_Barrier_Packet 0 ((sizeof_Drbd_Barrier_Packet + 0 : Nat) : Int)] } := by
  have hw1 : wired (tl_add_barrier w).1 := hw
  have e := drbd_send_taken_eq (tl_add_barrier w).1 Drbd_Packet_Cmd.Barrier (tl_add_barrier w).2 0
    sizeof_Drbd_Barrier_Packet 0 o hw1 ho
  unfold _drbd_send_barrier
  simp only [e]
  rw [if_pos (show ((sizeof_Drbd_Barrier_Packet + 0 : Nat) : Int)
    = (sizeof_Drbd_Barrier_Packet : Int) from rfl)]

theorem test_and_send_barrier_logged (w : World) (o : SendOutcome)
    (ho : taken o sizeof_Drbd_Barrier_Packet) :
    sends_logged w (test_and_send_barrier w o) := by
  intro hwf hw
  by_cases hf : test_bit ISSUE_BARRIER w.mdev.flags = true
  · have key : test_and_send_barrier w o = (_drbd_send_barrier
        { w with mdev := { w.mdev with flags := clear_bit ISSUE_BARRIER w.mdev.flags } }
        o).1 := by
      unfold test_and_send_barrier
      rw [if_pos hf]
    have hw1 : wired ({ w with mdev :=
        { w.mdev with flags := clear_bit ISSUE_BARRIER w.mdev.flags } } : World) := hw
    rw [key, _drbd_send_barrier_taken _ o hw1 ho]
    exact sends_logged_trans (barrier_add_logged w hf)
      (sends_logged_mdev _ _ ⟨rfl, rfl, rfl, rfl⟩ rfl rfl rfl rfl) hwf hw
  · have key : test_and_send_barrier w o = w := by
      unfold test_and_send_barrier
      rw [if_neg hf]
    rw [key]
    exact sends_logged_refl w hwf hw

theorem drbd_send_data_tail_logged (w : World) (ds bn id : Nat) (od : SendOutcome)
    (h0 : id ≠ TL_BARRIER) (hod : taken od (sizeof_Drbd_Data_Packet + ds)) :
    sends_logged w (drbd_send_data_logged
      (drbd_send w Drbd_Packet_Cmd.Data bn id sizeof_Drbd_Data_Packet ds od).1
      (drbd_send w Drbd_Packet_Cmd.Data bn id sizeof_Drbd_Data_Packet ds od).2 ds bn id).1 := by
  intro hwf hw
  rw [drbd_send_taken_eq w _ _ _ _ _ _ hw hod]
  dsimp only
  by_cases hid : id = ID_SYNCER
  · have key : ∀ (x : World) (r : Int), (drbd_send_data_logged x r ds bn id).1 = x := by
      intro x r
      unfold drbd_send_data_logged
      rw [if_neg (not_not.2 hid)]
    rw [key]
    subst hid
    exact send_sync_logged w bn ds hwf hw
  · have key : ∀ (x : World), (drbd_send_data_logged x
        ((sizeof_Drbd_Data_Packet + ds : Nat) : Int) ds bn id).1 =
        (if (tl_add x id).mdev.wire_protocol ≠ DRBD_PROT_A
          then { tl_add x id with mdev := inc_pending (tl_add x id).mdev } else tl_add x id) := by
      intro x
      unfold drbd_send_data_logged
      rw [if_pos hid, if_pos (by rw [Nat.add_comm])]
    rw [key]
    refine sends_logged_trans (send_add_logged w bn id ds hid h0) ?_ hwf hw
    split
    · exact sends_logged_mdev _ _ ⟨rfl, rfl, rfl, rfl⟩ rfl rfl rfl rfl
    · exact sends_logged_refl _

/-- The function `drbd_send_data` when the socket takes every packet whole. -/
theorem drbd_send_data_sends (w : World) (ds bn id : Nat) (ob od : SendOutcome)
    (h0 : id ≠ TL_BARRIER) (hob : taken ob sizeof_Drbd_Barrier_Packet)
    (hod : taken od (sizeof_Drbd_Data_Packet + ds)) :
    sends_logged w (drbd_send_data w ds bn id ob od).1 := by
  unfold drbd_send_data
  dsimp only
  exact sends_logged_trans (test_and_send_barrier_logged w ob hob)
    (drbd_send_data_tail_logged _ ds bn id od h0 hod)

theorem sent_of_nil_of : ∀ (l : List Event),
    (∀ e ∈ l, ∀ c a b hs ds r, e ≠ Event.send c a b hs ds r) → sent_of l = []
  | [], _ => rfl
  | e :: t, h => by
    have ht := sent_of_nil_of t (fun x hx => h x (List.mem_cons_of_mem _ hx))
    have he := h e (List.mem_cons_self _ _)
    unfold sent_of at ht ⊢
    rw [List.filterMap_cons, ht]
    cases e with
    | send c a b hs ds r => exact absurd rfl (he c a b hs ds r)
    | _ => rfl

theorem last_data_of_contains (es : List Tl_entry) (s : Nat)
    (h : contains_sector_spec es s = true) :
    last_data false (es.map Tl_entry.sym) = true := by
  rcases List.eq_nil_or_concat es with he | ⟨L, b, he⟩
  · rw [he] at h
    simp [contains_sector_spec, current_epoch] at h
  · rw [List.concat_eq_append] at he
    rw [he] at h ⊢
    by_cases hb : b.req = TL_BARRIER
    · have : current_epoch (L ++ [b]) = [] := by
        unfold current_epoch
        rw [List.reverse_append, List.reverse_singleton, List.singleton_append,
          List.takeWhile_cons_of_neg (by simp [Tl_entry.isBarrier, hb])]
        rfl
      unfold contains_sector_spec at h
      rw [this] at h
      simp at h
    · rw [List.map_append, last_data_append]
      show last_data _ [b.sym] = true
      rw [sym_data b hb]; rfl

theorem drbd_end_req_sends (fuel : Nat) (w w1 : World) (req ns u : Nat)
    (hf : w.mdev.tl_size ≤ fuel) (h : drbd_end_req fuel w req ns u = some w1) :
    sends_logged w w1 := by
  intro hwf hw
  obtain ⟨w1', e, -, -, out⟩ := drbd_end_req_spec fuel w req ns u hwf hf
  rw [h] at e
  cases e
  rcases out with ⟨hm, ht, -, -, -⟩ | ⟨hm, -, m, ht⟩ | ⟨tail, ht, htail, -, hm, -⟩
  · exact sends_logged_neutral w w1 [] (by rw [hm]; exact ⟨rfl, rfl, rfl, rfl⟩) (by rw [hm])
      (by rw [hm]) (by rw [hm]) (by rw [hm]) (by rw [ht]; simp) rfl hwf hw
  · exact sends_logged_neutral w w1 _ (by rw [hm]; exact ⟨rfl, rfl, rfl, rfl⟩) (by rw [hm])
      (by rw [hm]) (by rw [hm]) (by rw [hm]) ht rfl hwf hw
  · have hd : sent_of (Event.end_request req (u &&& (w.reqs req).rq_status) :: tail) = [] := by
      apply sent_of_nil_of
      intro x hx c a b hs ds r hh
      rcases List.mem_cons.1 hx with h1 | h1
      · rw [h1] at hh; exact Event.noConfusion hh
      · rcases htail x h1 with h2 | h2 <;> · rw [h2] at hh; exact Event.noConfusion hh
    by_cases hdep : dep_cond w req = true
    · rw [if_pos hdep] at hm
      have hl : last_data false ((tl_entries w.mdev).map Tl_entry.sym) = true := by
        unfold dep_cond at hdep
        rw [Bool.and_eq_true] at hdep
        exact last_data_of_contains _ _ hdep.2
      exact sends_logged_flag w w1 _ (by rw [hm]; exact ⟨rfl, rfl, rfl, rfl⟩) (by rw [hm])
        (by rw [hm]) (by rw [hm]) (by rw [hm]) ht hd hl hwf hw
    · rw [if_neg hdep] at hm
      exact sends_logged_neutral w w1 _ (by rw [hm]; exact ⟨rfl, rfl, rfl, rfl⟩) (by rw [hm])
        (by rw [hm]) (by rw [hm]) (by rw [hm]) ht hd hwf hw

theorem drbd_do_request_disk_sends (w : World) (r : Nat) :
    sends_logged w (drbd_do_request_disk w r) := by
  unfold drbd_do_request_disk
  dsimp only
  refine sends_logged_neutral w _
    ((if drbd_do_request_sending w r = false ∧ (w.reqs r).cmd = WRITE ∧
          w.mdev.state ≠ Drbd_State.Secondary then
        [Event.set_block_status ((w.reqs r).sector >>> (w.mdev.blk_size_b - 9))
          w.mdev.blk_size_b SS_OUT_OF_SYNC]
      else []) ++ [Event.ll_rw_block (w.reqs r).cmd r])
    ?_ ?_ ?_ ?_ ?_ ?_ ?_
  · split <;> exact ⟨rfl, rfl, rfl, rfl⟩
  · split <;> rfl
  · split <;> rfl
  · split <;> rfl
  · split <;> rfl
  · dsimp only
    rw [List.append_assoc]
  · split <;> rfl

theorem drbd_do_request_disk_nr_sectors (w : World) (r : Nat) :
    ((drbd_do_request_disk w r).reqs r).current_nr_sectors = (w.reqs r).current_nr_sectors := by
  unfold drbd_do_request_disk
  simp [set_rq_status, req_update]

theorem drbd_do_request_sends (fuel : Nat) (w w1 : World) (r : Nat) (k : Bool)
    (ob od : SendOutcome) (hr0 : r ≠ TL_BARRIER) (hob : taken ob sizeof_Drbd_Barrier_Packet)
    (hod : taken od (sizeof_Drbd_Data_Packet + (w.reqs r).current_nr_sectors <<< 9))
    (hf : w.mdev.tl_size ≤ fuel) (h : drbd_do_request fuel w r k ob od = some w1) :
    sends_logged w w1 := by
  unfold drbd_do_request at h
  split at h
  · cases h
    exact sends_logged_trace w _ rfl
  · split at h
    · unfold drbd_do_request_net at h
      dsimp only at h
      have hn := drbd_do_request_disk_nr_sectors w r
      generalize hwd : drbd_do_request_disk w r = wd at h hn
      have hd : sends_logged w wd := by rw [← hwd]; exact drbd_do_request_disk_sends w r
      generalize hws : drbd_send_data wd ((wd.reqs r).current_nr_sectors <<< 9)
        ((wd.reqs r).sector >>> (wd.mdev.blk_size_b - 9)) r ob od = ws at h
      have hs : sends_logged wd ws.1 := by
        rw [← hws]
        exact drbd_send_data_sends wd _ _ r ob od hr0 hob (by rw [hn]; exact hod)
      generalize hw3 : (if ws.2 ≠ 0
        then ({ ws.1 with mdev := { ws.1.mdev with
          send_cnt := (ws.1.mdev.send_cnt + ((wd.reqs r).current_nr_sectors <<< 1)) % 2 ^ 32 } }
            : World)
        else ws.1) = w3 at h
      have h3 : sends_logged ws.1 w3 := by
        rw [← hw3]
        split
        · exact sends_logged_mdev _ _ ⟨rfl, rfl, rfl, rfl⟩ rfl rfl rfl rfl
        · exact sends_logged_refl _
      have h03 := sends_logged_trans hd (sends_logged_trans hs h3)
      split at h
      · intro hwf hw
        obtain ⟨_, hsz, _⟩ := h03 hwf hw
        exact sends_logged_trans h03 (drbd_end_req_sends fuel w3 w1 r RQ_DRBD_SENT 1
          (by rw [hsz]; exact hf) h) hwf hw
      · cases h
        exact h03
    · cases h
      exact drbd_do_request_disk_sends w r

theorem ds_buffer_send_one_sends (w : World) (bs bn : Nat) (ob od : SendOutcome)
    (hob : taken ob sizeof_Drbd_Barrier_Packet)
    (hod : taken od (sizeof_Drbd_Data_Packet + bs)) :
    sends_logged w (ds_buffer_send_one w bs bn ob od) := by
  have hid : ID_SYNCER ≠ TL_BARRIER := by decide
  unfold ds_buffer_send_one
  dsimp only
  split
  · exact sends_logged_trans (drbd_send_data_sends w bs bn ID_SYNCER ob od hid hob hod)
      (sends_logged_trace _ _ rfl)
  · exact sends_logged_trans (drbd_send_data_sends w bs bn ID_SYNCER ob od hid hob hod)
      (sends_logged_mdev _ _ ⟨rfl, rfl, rfl, rfl⟩ rfl rfl rfl rfl)

theorem receive_block_ack_sends (fuel : Nat) (w w1 : World) (bn id : Nat) (r : Bool)
    (hf : w.mdev.tl_size ≤ fuel)
    (h : receive_block_ack fuel w (some (bn, id)) = some (w1, r)) : sends_logged w w1 := by
  unfold receive_block_ack at h
  dsimp only at h
  generalize hw0 : (if w.mdev.state ≠ Drbd_State.Primary
    then ({ w with trace := w.trace ++ [Event.printk Msg.got_blk_ack_while_not_PRI] } : World)
    else w) = w0 at h
  have h0 : sends_logged w w0 := by
    rw [← hw0]
    split
    · exact sends_logged_trace w _ rfl
    · exact sends_logged_refl w
  have hsz : w0.mdev.tl_size = w.mdev.tl_size := by
    rw [← hw0]; split <;> rfl
  split at h
  · cases h
    exact sends_logged_trans h0 (sends_logged_trace w0 _ rfl)
  · split at h
    · exact Option.noConfusion h
    · next x hx =>
      cases h
      refine sends_logged_trans h0 (sends_logged_trans
        (drbd_end_req_sends fuel w0 x id RQ_DRBD_SENT 1 (by rw [hsz]; exact hf) hx) ?_)
      split
      · exact sends_logged_mdev _ _ ⟨rfl, rfl, rfl, rfl⟩ rfl rfl rfl rfl
      · exact sends_logged_refl x

/-- Each action of the Primary on a connection that delivers every packet:
what is sent is what is logged. -/
theorem exec_sends (fuel : Nat) (w w1 : World) (a : Action) (hf : w.mdev.tl_size ≤ fuel)
    (ha : (Move.primary a).whole) (h : exec fuel w a = some w1) : sends_logged w w1 := by
  cases a with
  | do_request r rq k ob od =>
    simp only [exec] at h
    obtain ⟨hr0, hob, hod⟩ := ha
    have h1 : sends_logged w ({ w with reqs := req_update w.reqs r rq } : World) :=
      sends_logged_neutral w _ [] ⟨rfl, rfl, rfl, rfl⟩ rfl rfl rfl rfl (by simp) rfl
    refine sends_logged_trans h1 (drbd_do_request_sends fuel _ w1 r k ob od hr0 hob ?_ hf h)
    show taken od (sizeof_Drbd_Data_Packet + (req_update w.reqs r rq r).current_nr_sectors <<< 9)
    rw [req_update_same]
    exact hod
  | dio_end r u =>
    simp only [exec, drbd_dio_end] at h
    exact drbd_end_req_sends fuel w w1 r _ u hf h
  | block_ack bn id =>
    simp only [exec] at h
    cases hx : receive_block_ack fuel w (some (bn, id)) with
    | none => rw [hx] at h; exact Option.noConfusion h
    | some x =>
      obtain ⟨x1, r⟩ := x
      rw [hx] at h
      cases h
      exact receive_block_ack_sends fuel w x1 bn id r hf hx
  | barrier_ack b s => exact absurd ha id
  | asender o =>
    simp only [exec] at h
    cases h
    exact test_and_send_barrier_logged w o ha
  | sync_data bs bn ob od =>
    simp only [exec] at h
    cases h
    exact ds_buffer_send_one_sends w bs bn ob od ha.1 ha.2
  | tl_clear => exact absurd ha id

/-! ## What the Secondary counts is what it acknowledges -/

theorem epoch_step_refl (w : World) : epoch_step 0 w w :=
  ⟨rfl, rfl, rfl, [], by simp, rfl⟩

theorem epoch_step_trans {a b : Nat} {w w1 w2 : World} (h1 : epoch_step a w w1)
    (h2 : epoch_step b w1 w2) : epoch_step (a + b) w w2 := by
  obtain ⟨a1, a2, a3, d1, a4, a5⟩ := h1
  obtain ⟨b1, b2, b3, d2, b4, b5⟩ := h2
  refine ⟨b1.trans a1, b2.trans a2, by rw [b3, a3, Nat.add_assoc], d1 ++ d2,
    by rw [b4, a4, List.append_assoc], ?_⟩
  rw [sent_of_append, syms_of_acks_append, a5, b5]; rfl

theorem epoch_step_trace (w : World) (d : List Event) (hd : sent_of d = []) :
    epoch_step 0 w { w with trace := w.trace ++ d } :=
  ⟨rfl, rfl, rfl, d, rfl, by rw [hd]; rfl⟩

theorem epoch_step_mdev (k : Nat) (w : World) (m : Drbd_Conf) (hs : m.sock = w.mdev.sock)
    (hc : m.cstate = w.mdev.cstate) (he : m.epoch_size = w.mdev.epoch_size + k) :
    epoch_step k w { w with mdev := m } :=
  ⟨hs, hc, he, [], by simp, rfl⟩

theorem syms_sent_send (cmd : Drbd_Packet_Cmd) (a b hs ds : Nat) (ret : Int)
    (rest : List Event) (hc : cmd ≠ Drbd_Packet_Cmd.BarrierAck) (hrest : sent_of rest = []) :
    syms_of_acks (sent_of (Event.send cmd a b hs ds ret :: rest)) = [] := by
  have e : sent_of (Event.send cmd a b hs ds ret :: rest) =
      (if ret = ((hs + ds : Nat) : Int) then [⟨cmd, a, b, ds⟩] else []) := by
    have : sent_of (Event.send cmd a b hs ds ret :: rest) =
        sent_of [Event.send cmd a b hs ds ret] ++ sent_of rest :=
      sent_of_append [_] rest
    rw [this, hrest, List.append_nil]
    unfold sent_of
    by_cases hr : ret = ((hs + ds : Nat) : Int)
    · rw [if_pos hr]; simp [hr]
    · rw [if_neg hr]
      have hr1 : ¬ ret = (hs : Int) + (ds : Int) := by
        intro hh; apply hr; rw [hh]; push_cast; rfl
      simp [hr1]
  rw [e]
  split
  · show (if _ then _ else []) ++ [] = []
    rw [if_neg hc]; rfl
  · rfl

/-- A send of the Secondary that is no `BarrierAck`, with no timer firing and
no error of the socket. -/
theorem drbd_send_quiet (w : World) (cmd : Drbd_Packet_Cmd) (a b hs ds : Nat)
    (o : SendOutcome) (hc : cmd ≠ Drbd_Packet_Cmd.BarrierAck) (h1 : o.signalled = false)
    (h2 : 0 ≤ o.err) : epoch_step 0 w (drbd_send w cmd a b hs ds o).1 := by
  have hm := drbd_send_taken w cmd a b hs ds o ⟨Or.inr h1, h2⟩
  refine ⟨by rw [hm], by rw [hm], by rw [hm]; rfl, ?_⟩
  rcases drbd_send_cases w cmd a b hs ds o with
    ⟨_, h, _⟩ | ⟨_, _, ⟨h, _⟩ | ⟨h, _⟩ | ⟨h, _⟩ | ⟨h, _⟩⟩
  · rw [h]; exact ⟨[], by simp, rfl⟩
  · rw [h]; exact ⟨_, rfl, syms_sent_send _ _ _ _ _ _ _ hc rfl⟩
  · rw [h]; exact ⟨_, rfl, syms_sent_send _ _ _ _ _ _ _ hc rfl⟩
  · rw [h]; exact ⟨_, rfl, syms_sent_send _ _ _ _ _ _ _ hc rfl⟩
  · rw [h]; exact ⟨_, rfl, syms_sent_send _ _ _ _ _ _ _ hc rfl⟩

theorem drbd_send_ack_quiet (w : World) (cmd : Drbd_Packet_Cmd) (a b : Nat) (o : SendOutcome)
    (hc : cmd ≠ Drbd_Packet_Cmd.BarrierAck) (h1 : o.signalled = false) (h2 : 0 ≤ o.err) :
    epoch_step 0 w (drbd_send_ack w cmd a b o).1 := by
  unfold drbd_send_ack
  exact drbd_send_quiet w cmd a b _ _ o hc h1 h2

theorem ack_round_quiet (w : World) (m : Drbd_Conf) (hs : m.sock = w.mdev.sock)
    (hc : m.cstate = w.mdev.cstate) (he : m.epoch_size = w.mdev.epoch_size + 0)
    (cmd : Drbd_Packet_Cmd) (a b : Nat) (o : SendOutcome)
    (hcmd : cmd ≠ Drbd_Packet_Cmd.BarrierAck) (h1 : o.signalled = false) (h2 : 0 ≤ o.err) :
    epoch_step 0 w { (drbd_send_ack { w with mdev := m } cmd a b o).1 with
      mdev := dec_unacked (drbd_send_ack { w with mdev := m } cmd a b o).1.mdev } :=
  @epoch_step_trans 0 0 _ _ _
    (@epoch_step_trans 0 0 _ _ _ (epoch_step_mdev 0 w m hs hc he)
      (drbd_send_ack_quiet { w with mdev := m } cmd a b o hcmd h1 h2))
    (epoch_step_mdev 0 _ _ rfl rfl rfl)

theorem receive_barrier_loop_quiet (o : Nat → SendOutcome)
    (ho : ∀ j, (o j).signalled = false ∧ 0 ≤ (o j).err) :
    ∀ (n i : Nat) (w : World), epoch_step 0 w (receive_barrier_loop o n i w)
  | 0, _, w => epoch_step_refl w
  | n + 1, i, w => by
    unfold receive_barrier_loop
    dsimp only
    split
    · refine @epoch_step_trans 0 0 w _ _ ?_ (receive_barrier_loop_quiet o ho n (i + 1) _)
      exact ack_round_quiet w _ (by rfl) (by rfl) (by rfl) _ _ _ _ (by decide) (ho i).1 (ho i).2
    · refine @epoch_step_trans 0 0 w _ _ ?_ (receive_barrier_loop_quiet o ho n (i + 1) _)
      exact epoch_step_mdev 0 w _ (by rfl) (by rfl) (by rfl)

theorem receive_barrier_shape (w : World) (n : Nat) (o : Nat → SendOutcome)
    (ho : ∀ j, (o j).signalled = false ∧ 0 ≤ (o j).err) :
    ∃ w2, epoch_step 0 w w2 ∧
      receive_barrier w (some n) o =
        ({ (drbd_send_b_ack { w2 with mdev := { w2.mdev with epoch_size := 0, epoch_set := [] } }
              n w.mdev.epoch_size (o w.mdev.epoch_size)).1 with
            mdev := dec_unacked (drbd_send_b_ack
              { w2 with mdev := { w2.mdev with epoch_size := 0, epoch_set := [] } }
              n w.mdev.epoch_size (o w.mdev.epoch_size)).1.mdev }, true) := by
  unfold receive_barrier
  dsimp only
  by_cases hs : w.mdev.state ≠ Drbd_State.Secondary
  · rw [if_pos hs]
    refine ⟨receive_barrier_loop o w.mdev.epoch_size 0
      { w with mdev := inc_unacked w.mdev,
               trace := w.trace ++ [Event.printk Msg.got_barrier_while_not_SEC] }, ?_, rfl⟩
    refine @epoch_step_trans 0 0 w _ _ ?_ (receive_barrier_loop_quiet o ho _ 0 _)
    exact ⟨rfl, rfl, rfl, _, rfl, rfl⟩
  · rw [if_neg hs]
    refine ⟨receive_barrier_loop o w.mdev.epoch_size 0
      { w with mdev := inc_unacked w.mdev }, ?_, rfl⟩
    refine @epoch_step_trans 0 0 w _ _ ?_ (receive_barrier_loop_quiet o ho _ 0 _)
    exact ⟨rfl, rfl, rfl, [], by simp, rfl⟩

/-- The function `receive_barrier` on a Secondary that can send: it answers
with a `BarrierAck` that carries the barrier number it received and the number
of writes in the epoch set, and empties the epoch set. -/
theorem receive_barrier_pair (w : World) (n : Nat) (o : Nat → SendOutcome) (hw : wired w)
    (ho : ∀ j, (o j).signalled = false ∧ 0 ≤ (o j).err)
    (hb : taken (o w.mdev.epoch_size) sizeof_Drbd_BarrierAck_Packet) :
    (receive_barrier w (some n) o).2 = true ∧ wired (receive_barrier w (some n) o).1 ∧
    (receive_barrier w (some n) o).1.mdev.epoch_size = 0 ∧
    ∃ d, (receive_barrier w (some n) o).1.trace = w.trace ++ d ∧
      syms_of_acks (sent_of d) = List.replicate w.mdev.epoch_size none ++ [some n] := by
  obtain ⟨w2, ⟨a1, a2, -, d2, a4, a5⟩, heq⟩ := receive_barrier_shape w n o ho
  have hw3 : wired ({ w2 with mdev := { w2.mdev with epoch_size := 0, epoch_set := [] } }
      : World) := by
    unfold wired
    show w2.mdev.sock = true ∧ _ ≤ w2.mdev.cstate.toNat
    rw [a1, a2]; exact hw
  rw [heq]
  unfold drbd_send_b_ack
  rw [drbd_send_taken_eq _ _ _ _ sizeof_Drbd_BarrierAck_Packet 0 _ hw3 hb]
  refine ⟨rfl, hw3, rfl, d2 ++ [Event.send Drbd_Packet_Cmd.BarrierAck n w.mdev.epoch_size
    sizeof_Drbd_BarrierAck_Packet 0 ((sizeof_Drbd_BarrierAck_Packet + 0 : Nat) : Int)], ?_, ?_⟩
  · show w2.trace ++ _ = _
    rw [a4, List.append_assoc]
  · rw [sent_of_append, syms_of_acks_append, a5, sent_of_whole, List.nil_append]
    show (if _ then _ else []) ++ [] = _
    rw [if_pos rfl, List.append_nil]

/-- The function `receive_data` enters a write into the epoch set, a block of
the syncer not, and sends no `BarrierAck`. -/
theorem receive_data_pair (fuel : Nat) (w w1 : World) (ds bn id : Nat) (gb pl b : Bool)
    (h : receive_data fuel w ds ⟨some (bn, id), gb, pl⟩ ack_taken = some (w1, b)) :
    ∃ k, epoch_step k w w1 ∧ (b = true → k = if id = ID_SYNCER then 0 else 1) := by
  have hack : ack_taken.signalled = false ∧ 0 ≤ ack_taken.err := by decide
  unfold receive_data at h
  dsimp only at h
  generalize hw0 : (if w.mdev.state ≠ Drbd_State.Secondary
      then ({ w with trace := w.trace ++ [Event.printk Msg.got_data_while_not_SEC] } : World)
      else w) = w0 at h
  have e0 : epoch_step 0 w w0 := by
    rw [← hw0]; split
    · exact epoch_step_trace w _ rfl
    · exact epoch_step_refl w
  split at h
  · exact Option.noConfusion h
  · next wx hx =>
    have hwx : epoch_step 0 w wx := by
      split at hx
      · split at hx
        · exact Option.noConfusion hx
        · cases hx
          exact @epoch_step_trans 0 0 _ _ _ e0 ⟨rfl, rfl, rfl, _, rfl, rfl⟩
      · cases hx
        exact e0
    split at h
    · cases h
      exact ⟨0, @epoch_step_trans 0 0 _ _ _ hwx (epoch_step_trace wx _ rfl),
        fun hb => absurd hb (by simp)⟩
    · generalize hW2 : (if id ≠ ID_SYNCER then (_ : World) else _) = w2 at h
      have e2 : epoch_step (if id = ID_SYNCER then 0 else 1) wx w2 := by
        rw [← hW2]
        by_cases hid : id = ID_SYNCER
        · rw [if_neg (not_not.2 hid), if_pos hid]
          split
          · exact epoch_step_trace wx _ rfl
          · exact epoch_step_mdev 0 wx _ rfl rfl rfl
          · exact @epoch_step_trans 0 0 _ _ _ (epoch_step_mdev 0 wx _ rfl rfl rfl)
              (drbd_send_ack_quiet _ _ _ _ _ (by decide) hack.1 hack.2)
        · rw [if_pos hid, if_neg hid]
          split
          · refine ⟨rfl, rfl, rfl, _, rfl, ?_⟩
            split <;> rfl
          · refine ⟨rfl, rfl, rfl, _, rfl, ?_⟩
            split <;> rfl
      split at h
      · cases h
        exact ⟨_, epoch_step_trans hwx e2, fun hb => absurd hb (by simp)⟩
      · generalize hW3 : (if w2.mdev.wire_protocol = DRBD_PROT_B ∧ id ≠ ID_SYNCER
            then (_ : World) else _) = w3 at h
        have e3 : epoch_step 0 w2 w3 := by
          rw [← hW3]
          split
          · exact @epoch_step_trans 0 0 _ _ _
              (drbd_send_ack_quiet _ _ _ _ _ (by decide) hack.1 hack.2)
              (epoch_step_mdev 0 _ _ rfl rfl rfl)
          · exact epoch_step_refl w2
        cases h
        refine ⟨0 + (if id = ID_SYNCER then 0 else 1) + 0 + 0,
          epoch_step_trans (epoch_step_trans (epoch_step_trans hwx e2) e3)
            ⟨rfl, rfl, rfl, _, rfl, rfl⟩, fun _ => by omega⟩

/-! ## The acknowledgement of a barrier and the transfer log -/

/-- The function `receive_barrier_ack` on a log that holds, after its first
entry, the writes `ds` and then barrier `n`, when `k` is the number of writes
before that barrier: `tl_release` prints nothing and puts `tl_begin` on the
barrier. -/
theorem receive_barrier_ack_matched (fuel : Nat) (w : World) (n k : Nat) (hwf : tl_wf w.mdev)
    (hs : w.mdev.tl_size ≤ 2 ^ 31) (hf : w.mdev.tl_size ≤ fuel)
    (hst : w.mdev.state = Drbd_State.Primary)
    (e0 : Tl_entry) (ds post : List Tl_entry)
    (hE : tl_entries w.mdev = e0 :: (ds ++ ⟨TL_BARRIER, n⟩ :: post))
    (hds : ∀ e ∈ ds, e.req ≠ TL_BARRIER) (hk : data_count (e0 :: ds) = k) :
    ∃ w1, receive_barrier_ack fuel w (some (n, k)) = some (w1, true) ∧ w1.trace = w.trace ∧
      tl_entries w1.mdev = ⟨TL_BARRIER, n⟩ :: post ∧ tl_wf w1.mdev ∧
      w1.mdev.tl_size = w.mdev.tl_size ∧ w1.mdev.flags = w.mdev.flags ∧
      w1.mdev.sock = w.mdev.sock ∧ w1.mdev.cstate = w.mdev.cstate ∧
      w1.mdev.state = w.mdev.state := by
  obtain ⟨x, hx, -, -, hent, -, -⟩ := tl_release_advances_to_barrier w n k fuel hwf hf hs e0 ds
    ⟨TL_BARRIER, n⟩ post hE hds rfl
  have hspec := tl_release_spec w n k fuel hwf hf hs e0 ds ⟨TL_BARRIER, n⟩ post hE hds rfl
  rw [if_neg (not_not.2 rfl), if_neg (not_not.2 hk), List.append_nil, List.append_nil] at hspec
  have hxe : x = { w with mdev := { w.mdev with tl_begin := tl_slot w.mdev (ds.length + 1) } } :=
    Option.some.inj (hx.symm.trans hspec)
  have heq : receive_barrier_ack fuel w (some (n, k)) =
      some ({ x with mdev := dec_pending x.mdev }, true) := by
    unfold receive_barrier_ack
    dsimp only
    rw [if_neg (not_not.2 hst), hx]
  have hwfx : tl_wf ({ x with mdev := dec_pending x.mdev } : World).mdev :=
    (receive_barrier_ack_due ⟨1, 0⟩ fuel w _ n k true heq hwf).1
  refine ⟨_, heq, ?_, ?_, hwfx, ?_, ?_, ?_, ?_, ?_⟩
  · rw [hxe]
  · rw [← hent]; exact same_ring_entries ⟨rfl, rfl, rfl, rfl⟩
  · rw [hxe]; rfl
  · rw [hxe]; rfl
  · rw [hxe]; rfl
  · rw [hxe]; rfl
  · rw [hxe]; rfl

/-- What `receive_barrier_ack` keeps on any log. -/
theorem receive_barrier_ack_frame (fuel : Nat) (w w1 : World) (n k : Nat) (r : Bool)
    (h : receive_barrier_ack fuel w (some (n, k)) = some (w1, r)) :
    w1.mdev.state = w.mdev.state ∧ w1.mdev.sock = w.mdev.sock ∧
    w1.mdev.cstate = w.mdev.cstate ∧ ∃ d, w1.trace = w.trace ++ d := by
  unfold receive_barrier_ack at h
  dsimp only at h
  generalize hw0 : (if w.mdev.state ≠ Drbd_State.Primary
    then ({ w with trace := w.trace ++ [Event.printk Msg.got_barrier_ack_while_not_PRI] } : World)
    else w) = w0 at h
  have h0 : w0.mdev = w.mdev ∧ ∃ d, w0.trace = w.trace ++ d := by
    rw [← hw0]
    split
    · exact ⟨rfl, _, rfl⟩
    · exact ⟨rfl, [], by simp⟩
  split at h
  · exact Option.noConfusion h
  · next x hx =>
    cases h
    obtain ⟨b, d, hxe, -⟩ := tl_release_returns fuel w0 x n k hx
    obtain ⟨hm, d0, ht⟩ := h0
    rw [hxe]
    refine ⟨by rw [← hm]; rfl, by rw [← hm]; rfl, by rw [← hm]; rfl, d0 ++ d, ?_⟩
    show w0.trace ++ d = _
    rw [ht, List.append_assoc]

/-! ## The invariant of the pair -/

/-- A step of the Primary that sends what it logs keeps the invariant; `to_p1`
is what is left on the way to the Primary. -/
theorem inv_of_sends (st : Pair) (p1 : World) (to_p1 : List Pkt) (hinv : st.inv)
    (hs : sends_logged st.p p1)
    (hm : ∀ es f, Pair.matched es f st.to_s st.to_p st.s.mdev.epoch_size st.s_up →
      Pair.matched es f st.to_s to_p1 st.s.mdev.epoch_size st.s_up) :
    Pair.inv ⟨p1, st.s, st.to_s ++ sent_of (p1.trace.drop st.p.trace.length), to_p1, st.s_up⟩ ∧
    p1.mdev.tl_size = st.p.mdev.tl_size := by
  obtain ⟨i1, i2, i3, i4, i5, i6⟩ := hinv
  obtain ⟨a1, a2, a3, a4, d, a5, a6⟩ := hs i1 i4
  refine ⟨⟨a1, by rw [a2]; exact i2, by rw [a3]; exact i3, a4, i5, ?_⟩, a2⟩
  show _ ∈ p1.trace ∨ Pair.matched (tl_entries p1.mdev) _
    (st.to_s ++ sent_of (p1.trace.drop st.p.trace.length)) to_p1 st.s.mdev.epoch_size st.s_up
  rw [a5, List.drop_left]
  rcases i6 with h | h
  · exact Or.inl (List.mem_append_left _ h)
  · rcases a6 with g | g
    · exact Or.inl (List.mem_append_right _ g)
    · exact Or.inr (matched_LogRun g _ _ _ _ (hm _ _ h))

theorem whole_out (ep : Nat) :
    (∀ j, ((fun i => if i = ep then b_ack_taken else ack_taken) j).signalled = false ∧
      0 ≤ ((fun i => if i = ep then b_ack_taken else ack_taken) j).err) ∧
    taken ((fun i => if i = ep then b_ack_taken else ack_taken) ep)
      sizeof_Drbd_BarrierAck_Packet := by
  refine ⟨?_, ?_⟩
  · intro j
    dsimp only
    split <;> exact ⟨rfl, by decide⟩
  · dsimp only
    rw [if_pos rfl]
    exact ⟨rfl, rfl⟩

/-- Every move on a connection that delivers every packet keeps the
invariant of the pair. -/
theorem Pair.step_inv (fuel : Nat) (st st1 : Pair) (mv : Move) (hinv : st.inv)
    (hf : st.p.mdev.tl_size ≤ fuel) (hw : mv.whole) (h : st.step fuel mv = some st1) :
    st1.inv ∧ st1.p.mdev.tl_size = st.p.mdev.tl_size := by
  cases mv with
  | primary a =>
    simp only [Pair.step, Pair.primary] at h
    cases hx : exec fuel st.p a with
    | none => rw [hx] at h; exact Option.noConfusion h
    | some p1 =>
      rw [hx] at h
      cases h
      exact inv_of_sends st p1 st.to_p hinv (exec_sends fuel st.p p1 a hf hw hx) (fun _ _ x => x)
  | deliver gb pl =>
    simp only [Pair.step, Pair.deliver] at h
    split at h
    · exact Option.noConfusion h
    · next hup =>
      have hup1 : st.s_up = true := by simpa using hup
      obtain ⟨i1, i2, i3, i4, i5, i6⟩ := hinv
      split at h
      · exact Option.noConfusion h
      · next pk rest hto =>
        split at h
        · next hc =>
          split at h
          · exact Option.noConfusion h
          · next r hr =>
            cases h
            obtain ⟨r1, r2⟩ := r
            obtain ⟨k, ⟨e1, e2, e3, d, e4, e5⟩, hk⟩ :=
              receive_data_pair fuel st.s r1 pk.data_size pk.a pk.b gb pl r2 hr
            refine ⟨⟨i1, i2, i3, i4, ?_, ?_⟩, rfl⟩
            · show r1.mdev.sock = true ∧ _ ≤ r1.mdev.cstate.toNat
              rw [e1, e2]; exact i5
            · rcases i6 with g | g
              · exact Or.inl g
              · right
                show Pair.matched _ _ rest (st.to_p ++ sent_of (r1.trace.drop st.s.trace.length))
                  r1.mdev.epoch_size r2
                rw [e4, List.drop_left, e3]
                rw [hup1, hto] at g
                refine matched_deliver _ _ _ _ _ _ _ _ _ g ⟨_, by rw [e5, List.nil_append], ?_⟩
                intro hr2
                rw [hk hr2]
                show _ ++ ((if _ then (if pk.b = ID_SYNCER then [] else [none]) else _) ++ _) = _
                rw [if_pos hc]
                split
                · rfl
                · rw [List.replicate_succ', List.append_assoc]
        · next hc =>
          cases h
          obtain ⟨o1, o2⟩ := whole_out st.s.mdev.epoch_size
          obtain ⟨b1, b2, b3, d, b4, b5⟩ := receive_barrier_pair st.s pk.a _ i5 o1 o2
          generalize hR : receive_barrier st.s (some pk.a)
            (fun i => if i = st.s.mdev.epoch_size then b_ack_taken else ack_taken) = R
            at b1 b2 b3 b4
          refine ⟨⟨i1, i2, i3, i4, b2, ?_⟩, rfl⟩
          rcases i6 with g | g
          · exact Or.inl g
          · right
            show Pair.matched _ _ rest (st.to_p ++ sent_of (List.drop st.s.trace.length
              R.1.trace)) R.1.mdev.epoch_size R.2
            rw [b4, List.drop_left, b3, b1]
            rw [hup1, hto] at g
            refine matched_deliver _ _ _ _ _ _ _ _ _ g ⟨syms_of_pkts rest, ?_, fun _ => rfl⟩
            rw [b5]
            show _ ++ ((if _ then _ else (if _ then [some pk.a] else [])) ++ _) = _
            rw [if_neg (by rw [hc]; decide), if_pos hc, List.append_assoc]
        · exact Option.noConfusion h
  | ack =>
    simp only [Pair.step, Pair.ack] at h
    split at h
    · exact Option.noConfusion h
    · next pk rest hto =>
      split at h
      · next hc =>
        split at h
        · exact Option.noConfusion h
        · next r hr =>
          cases h
          obtain ⟨r1, r2⟩ := r
          obtain ⟨i1, i2, i3, i4, i5, i6⟩ := hinv
          rcases i6 with g | g
          · obtain ⟨f1, f2, f3, d, f4⟩ := receive_barrier_ack_frame fuel st.p r1 pk.a pk.b r2 hr
            obtain ⟨g1, g2, -⟩ := receive_barrier_ack_due ⟨1, 0⟩ fuel st.p r1 pk.a pk.b r2 hr i1
            refine ⟨⟨g1, by rw [g2]; exact i2, by rw [f1]; exact i3, ?_, i5, Or.inl ?_⟩, g2⟩
            · show r1.mdev.sock = true ∧ _ ≤ r1.mdev.cstate.toNat
              rw [f2, f3]; exact i4
            · show _ ∈ r1.trace
              rw [f4]; exact List.mem_append_left _ g
          · rw [hto] at g
            obtain ⟨c, a, b, x⟩ := pk
            dsimp only at hc hr
            subst hc
            obtain ⟨e0, ds, post, m1, m2, m3, m4⟩ := matched_barrier_ack _ _ _ _ _ _ a b x g
            obtain ⟨w1, q1, q2, q3, q4, q5, q6, q7, q8, q9⟩ :=
              receive_barrier_ack_matched fuel st.p a b i1 i2 hf i3 e0 ds post m1 m2 m3
            rw [q1] at hr
            cases hr
            refine ⟨⟨q4, by rw [q5]; exact i2, by rw [q9]; exact i3, ?_, i5, Or.inr ?_⟩, q5⟩
            · show r1.mdev.sock = true ∧ _ ≤ r1.mdev.cstate.toNat
              rw [q7, q8]; exact i4
            · show Pair.matched (tl_entries r1.mdev) (test_bit ISSUE_BARRIER r1.mdev.flags)
                (st.to_s ++ sent_of (r1.trace.drop st.p.trace.length)) rest _ _
              rw [q2, List.drop_length, q3, q6]
              show Pair.matched _ _ (st.to_s ++ []) rest _ _
              rw [List.append_nil]
              exact m4
      · next hc =>
        split at h
        · exact Option.noConfusion h
        · next r hr =>
          cases h
          obtain ⟨r1, r2⟩ := r
          refine inv_of_sends st r1 rest hinv
            (receive_block_ack_sends fuel st.p r1 pk.a pk.b r2 hf hr) ?_
          intro es f hm
          rw [hto] at hm
          exact matched_block_ack es f _ _ _ _ pk (by rw [hc]; decide) hm
      · next hc =>
        split at h
        · exact Option.noConfusion h
        · next r hr =>
          cases h
          obtain ⟨r1, r2⟩ := r
          refine inv_of_sends st r1 rest hinv
            (receive_block_ack_sends fuel st.p r1 pk.a pk.b r2 hf hr) ?_
          intro es f hm
          rw [hto] at hm
          exact matched_block_ack es f _ _ _ _ pk (by rw [hc]; decide) hm
      · exact Option.noConfusion h

theorem Pair.run_inv (fuel : Nat) : ∀ (mvs : List Move) (st st1 : Pair), st.inv →
    st.p.mdev.tl_size ≤ fuel → (∀ m ∈ mvs, m.whole) → Pair.run fuel mvs st = some st1 →
    st1.inv ∧ st1.p.mdev.tl_size = st.p.mdev.tl_size := by
  intro mvs
  induction mvs with
  | nil =>
    intro st st1 hinv _ _ h
    simp only [Pair.run] at h
    cases h
    exact ⟨hinv, rfl⟩
  | cons m rest ih =>
    intro st st1 hinv hf hm h
    simp only [Pair.run] at h
    cases hx : st.step fuel m with
    | none => rw [hx] at h; exact Option.noConfusion h
    | some x =>
      rw [hx] at h
      dsimp only at h
      obtain ⟨j1, j2⟩ := Pair.step_inv fuel st x m hinv hf (hm m (List.mem_cons_self _ _)) hx
      obtain ⟨k1, k2⟩ := ih x st1 j1 (by rw [j2]; exact hf)
        (fun b hb => hm b (List.mem_cons_of_mem _ hb)) h
      exact ⟨k1, k2.trans j2⟩

theorem Pair.fresh_inv (st : Pair) (h : st.fresh) : st.inv := by
  obtain ⟨h1, h2, h3, h4, h5, h6, h7, h8, h9, h10, h11⟩ := h
  refine ⟨h1, h2, h5, h6, h7, Or.inr ⟨none, [], ?_, ?_, rfl, ?_, [], ?_, ?_⟩⟩
  · unfold tl_entries tl_count
    rw [h3]
    simp [ring_take]
  · intro B hB; cases hB
  · intro hf
    rw [h4] at hf
    exact absurd hf (by simp)
  · rw [h10]; rfl
  · intro _
    rw [h8, h9]; rfl

/-- C3, counterexample: on a transfer log of two slots (protocol B, every
packet delivered in order and taken whole) the Primary sends three writes,
which overruns the log (`transferlog too small`), the third write is
completed, and the fourth write is preceded by barrier 1. The Secondary has
counted three writes and answers `BarrierAck` with the fields 1 and 3; the
Primary finds one entry before the barrier and `tl_release` prints
`tl messed up` and `Epoch set size wrong` (found 1, reported 3). -/
theorem barrier_ack_after_overflow_counterexample :
    (pair_b 2).fresh ∧ (∀ m ∈ run_overflow, m.whole) ∧
    Pair.run 2 run_overflow (pair_b 2) = some pair_overflow ∧
    sent_of pair_overflow.p.trace =
      [⟨Drbd_Packet_Cmd.Data, 1, 101, 4096⟩, ⟨Drbd_Packet_Cmd.Data, 2, 102, 4096⟩,
       ⟨Drbd_Packet_Cmd.Data, 3, 103, 4096⟩, ⟨Drbd_Packet_Cmd.Barrier, 1, 0, 0⟩,
       ⟨Drbd_Packet_Cmd.Data, 4, 104, 4096⟩] ∧
    pair_overflow.to_p = [⟨Drbd_Packet_Cmd.BarrierAck, 1, 3, 0⟩] ∧
    (receive_barrier_ack 2 pair_overflow.p (some (1, 3))).map (fun r => r.1.trace) =
      some (pair_overflow.p.trace ++
        [Event.printk Msg.tl_messed_up, Event.printk (Msg.epoch_set_size_wrong 1 3)]) := by
  refine ⟨⟨by decide, by decide, rfl, rfl, rfl, ⟨rfl, by decide⟩, ⟨rfl, by decide⟩, rfl, rfl,
    rfl, rfl⟩, ?_, rfl, by decide, by decide, by decide⟩
  intro m hm
  simp only [run_overflow, write_move, List.mem_cons, List.mem_singleton, List.not_mem_nil,
    or_false] at hm
  rcases hm with h | h | h | h | h | h | h | h | h | h | h | h <;> subst h <;>
    first
    | exact ⟨by decide, ⟨rfl, rfl⟩, ⟨rfl, rfl⟩⟩
    | exact True.intro

/-- C3: a Primary and a Secondary start with an empty transfer log, a clear
`ISSUE_BARRIER` flag, an empty epoch set and nothing on the wire. They run any
sequence of moves in which the connection delivers every packet in order: the
Primary submits requests, completes local writes, runs its asender and its
syncer (`drbd_send_data`, `_drbd_send_barrier` with the socket taking every
packet whole), the Secondary reads `Data` and `Barrier` packets
(`receive_data`, `receive_barrier`), and the Primary reads the
acknowledgements (`receive_block_ack`, `receive_barrier_ack`). If neither the
transfer log of the Primary (`transferlog too small`) nor the epoch set of the
Secondary (`tl_size too small`) has overflown, then the `BarrierAck` with the
fields `n`, `k` that the Primary reads next matches the log: the log holds,
after its first entry, writes and then the barrier number `n`, exactly `k`
writes lie before that barrier, `receive_barrier_ack` returns TRUE and prints
nothing, and `tl_begin` ends on barrier `n`. -/
theorem barrier_ack_matches_log (fuel : Nat) (st0 st : Pair) (mvs : List Move) (n k x : Nat)
    (rest : List Pkt) (h0 : st0.fresh) (hf : st0.p.mdev.tl_size ≤ fuel)
    (hm : ∀ m ∈ mvs, m.whole) (hrun : Pair.run fuel mvs st0 = some st)
    (hno : Event.printk Msg.transferlog_too_small ∉ st.p.trace)
    (_hsec : Event.printk Msg.tl_size_too_small ∉ st.s.trace)
    (hack : st.to_p = ⟨Drbd_Packet_Cmd.BarrierAck, n, k, x⟩ :: rest) :
    ∃ e0 ds post p1, tl_entries st.p.mdev = e0 :: (ds ++ ⟨TL_BARRIER, n⟩ :: post) ∧
      (∀ e ∈ ds, e.req ≠ TL_BARRIER) ∧ data_count (e0 :: ds) = k ∧
      receive_barrier_ack fuel st.p (some (n, k)) = some (p1, true) ∧
      p1.trace = st.p.trace ∧ tl_entries p1.mdev = ⟨TL_BARRIER, n⟩ :: post := by
  obtain ⟨⟨i1, i2, i3, -, -, i6⟩, hsz⟩ :=
    Pair.run_inv fuel mvs st0 st (Pair.fresh_inv st0 h0) hf hm hrun
  rcases i6 with g | g
  · exact absurd g hno
  · rw [hack] at g
    obtain ⟨e0, ds, post, m1, m2, m3, -⟩ := matched_barrier_ack _ _ _ _ _ _ n k x g
    obtain ⟨w1, q1, q2, q3, -⟩ := receive_barrier_ack_matched fuel st.p n k i1 i2
      (by rw [hsz]; exact hf) i3 e0 ds post m1 m2 m3
    exact ⟨e0, ds, post, w1, m1, m2, m3, q1, q2, q3⟩

/-- C3, witness: on a transfer log of four slots one write is sent, received,
acknowledged and completed; the second write is preceded by barrier 1, and
the `BarrierAck` with the fields 1 and 1 that comes back finds the log
`[write 101, barrier 1, write 102]`. -/
theorem barrier_ack_matches_log_witness :
    pair_epoch.to_p = [⟨Drbd_Packet_Cmd.BarrierAck, 1, 1, 0⟩] ∧
    tl_entries pair_epoch.p.mdev = [⟨101, 8⟩, ⟨TL_BARRIER, 1⟩, ⟨102, 8⟩] ∧
    ∃ e0 ds post p1,
      tl_entries pair_epoch.p.mdev = e0 :: (ds ++ ⟨TL_BARRIER, 1⟩ :: post) ∧
      (∀ e ∈ ds, e.req ≠ TL_BARRIER) ∧ data_count (e0 :: ds) = 1 ∧
      receive_barrier_ack 4 pair_epoch.p (some (1, 1)) = some (p1, true) ∧
      p1.trace = pair_epoch.p.trace ∧ tl_entries p1.mdev = ⟨TL_BARRIER, 1⟩ :: post :=
  ⟨by decide, by decide,
    barrier_ack_matches_log 4 (pair_b 4) pair_epoch run_epoch 1 1 0 []
      ⟨by decide, by decide, rfl, rfl, rfl, ⟨rfl, by decide⟩, ⟨rfl, by decide⟩, rfl, rfl, rfl,
        rfl⟩
      (by decide)
      (by
        intro m hm
        simp only [run_epoch, write_move, List.mem_cons, List.mem_singleton, List.not_mem_nil,
          or_false] at hm
        rcases hm with h | h | h | h | h | h <;> subst h <;>
          first
          | exact ⟨by decide, ⟨rfl, rfl⟩, ⟨rfl, rfl⟩⟩
          | exact True.intro)
      rfl (by decide) (by decide) (by decide)⟩

/-! ## The logarithm of the block size -/

theorem drbd_log2_loop_hangs : ∀ (fuel : Nat) (i bits add_one : Int), i ≤ 0 →
    drbd_log2_loop fuel i bits add_one = none := by
  intro fuel
  induction fuel with
  | zero => intro i bits a _; rfl
  | succ n ih =>
    intro i bits a hi
    unfold drbd_log2_loop
    rw [if_neg (by omega)]
    apply ih
    cases i with
    | ofNat m =>
      have hm : m = 0 := by
        have : (m : Int) ≤ 0 := hi
        omega
      subst hm
      have hs : (((0 : Nat) : ℤ) >>> (1 : ℤ)) = (((0 : Nat) >>> 1 : ℕ) : ℤ) :=
        Int.shiftRight_coe_nat 0 1
      show ((0 : Nat) : ℤ) >>> (1 : ℤ) ≤ 0
      rw [hs]
      simp
    | negSucc m =>
      have hs : (Int.negSucc m) >>> (1 : ℤ) = Int.negSucc (m >>> 1) := Int.shiftRight_negSucc m 1
      rw [hs]
      exact Int.le_of_lt (Int.negSucc_lt_zero _)

/-- What the loop of `drbd_log2` computes from `m >= 1`: with `fl` the number
of rounds (`2^fl <= m < 2^(fl+1)`), it returns `bits + fl + add_one` when `m`
is `2^fl`, else `bits + fl + 1`. -/
theorem drbd_log2_loop_value : ∀ (fuel : Nat) (m : Nat) (bits a : Int), 1 ≤ m → m < 2 ^ fuel →
    ∃ fl : Nat, 2 ^ fl ≤ m ∧ m < 2 ^ (fl + 1) ∧
      drbd_log2_loop fuel (m : Int) bits a = some (bits + fl + (if m = 2 ^ fl then a else 1)) := by
  intro fuel
  induction fuel with
  | zero => intro m bits a h1 h2; simp at h2; omega
  | succ n ih =>
    intro m bits a h1 h2
    unfold drbd_log2_loop
    by_cases hi : m = 1
    · subst hi
      refine ⟨0, by norm_num, by norm_num, ?_⟩
      simp
    · rw [if_neg (by omega)]
      have hs : ((m : ℤ) >>> (1 : ℤ)) = ((m >>> 1 : ℕ) : ℤ) := Int.shiftRight_coe_nat m 1
      rw [hs, Nat.shiftRight_eq_div_pow, pow_one]
      have hm2 : m < 2 * 2 ^ n := by rw [pow_succ] at h2; omega
      obtain ⟨fl, a1, a2, a3⟩ := ih (m / 2) (bits + 1)
        (if (m : Int) % 2 = 1 then 1 else a) (by omega) (by omega)
      rw [a3]
      have p1 : 2 ^ (fl + 1) = 2 * 2 ^ fl := by rw [pow_succ, Nat.mul_comm]
      have p2 : 2 ^ (fl + 1 + 1) = 2 * 2 ^ (fl + 1) := by rw [pow_succ, Nat.mul_comm]
      refine ⟨fl + 1, by rw [p1]; omega, by rw [p2]; rw [p1] at a2 ⊢; omega, ?_⟩
      congr 1
      have e1 : (if m / 2 = 2 ^ fl then (if (m : Int) % 2 = 1 then 1 else a) else (1 : Int))
          = (if m = 2 ^ (fl + 1) then a else 1) := by
        rw [p1]
        by_cases h : m = 2 * 2 ^ fl
        · rw [if_pos h, if_pos (by omega), if_neg (by omega)]
        · rw [if_neg h]
          by_cases h3 : m / 2 = 2 ^ fl
          · rw [if_pos h3, if_pos (by omega)]
          · rw [if_neg h3]
      rw [e1]
      push_cast
      omega

/-- C38: `drbd_log2` does not terminate for any argument below 1: the loop
`while (i != 1) { ...; i >>= 1; }` stays at 0 (or at -1 for a negative
argument) for ever, so the embedding returns `none` with every fuel. The value
0 reaches it from the peer: a `Data` packet with `length == 0` makes
`receive_data` call `drbd_log2(0)` (0 is never `1 << blk_size_b`), and a
`ReportParams` of a Primary with `blksize == 0` that passes the checks of
`receive_param` makes a device that is not Primary call `drbd_log2(0)`. -/
theorem drbd_log2_hangs_below_one (MOD_VERSION fuel : Nat) :
    (∀ i : Int, i ≤ 0 → drbd_log2 fuel i = none) ∧
    (∀ (w : World) (bn id : Nat) (gb pl : Bool) (o : SendOutcome),
      receive_data fuel w 0 ⟨some (bn, id), gb, pl⟩ o = none) ∧
    (∀ (w : World) (param : Drbd_Parameter_P) (env : ParamEnv),
      handshake_passes MOD_VERSION w param env → w.mdev.state ≠ Drbd_State.Primary →
      param.state = Drbd_State.Primary → param.blksize = 0 →
      receive_param MOD_VERSION fuel w (some param) env = none) := by
  have h0 : ∀ i : Int, i ≤ 0 → drbd_log2 fuel i = none :=
    fun i hi => drbd_log2_loop_hangs fuel i 0 0 hi
  refine ⟨h0, ?_, ?_⟩
  · intro w bn id gb pl o
    unfold receive_data
    dsimp only
    have hne : ∀ k : Nat, (0 : Nat) ≠ 1 <<< k := by
      intro k
      rw [Nat.shiftLeft_eq, one_mul]
      exact (Nat.pos_pow_of_pos k (by norm_num)).ne
    rw [if_pos (hne _)]
    rw [h0 (((0 : Nat) : Int)) (by simp)]
  · intro w param env hp hs hps hb
    obtain ⟨c1, c2, c3, lls, c4, c5⟩ := hp
    unfold receive_param
    dsimp only
    rw [if_neg c1, if_neg (not_not.2 c2), if_neg (not_not.2 c3), c4]
    dsimp only
    rw [if_neg (by
      rintro ⟨x1, x2⟩
      rcases c5 with c5 | c5
      · exact x1 c5
      · exact x2 c5)]
    unfold receive_param_accept
    dsimp only
    have hb0 : receive_param_blksize ({ w.mdev with o_state := param.state } : Drbd_Conf) param
        = 0 := by
      unfold receive_param_blksize
      rw [if_neg hs, if_pos hps, hb]
      rfl
    rw [hb0, h0 0 (le_refl _)]

/-- C38, the failing inputs evaluated: `drbd_log2(0)` with a fuel of 64, a
`Data` packet of length 0 at the Secondary `world_secondary`, and the
parameters `param_blksize_zero` at the Secondary `world_tie_a`. -/
theorem drbd_log2_hangs_below_one_witness :
    drbd_log2 64 0 = none ∧
    receive_data 64 world_secondary 0 ⟨some (1, 101), true, true⟩ ack_taken = none ∧
    receive_param 58 64 world_tie_a (some param_blksize_zero) env_ok = none :=
  ⟨(drbd_log2_hangs_below_one 58 64).1 0 (le_refl _),
   (drbd_log2_hangs_below_one 58 64).2.1 world_secondary 1 101 true true ack_taken,
   (drbd_log2_hangs_below_one 58 64).2.2 world_tie_a param_blksize_zero env_ok
     ⟨by decide, rfl, rfl, 2048, rfl, Or.inl rfl⟩ (by decide) rfl rfl⟩

/-- C40: for every `i >= 1` (below `2^fuel`, so that the loop has the rounds
it needs) `drbd_log2(i)` returns the least `b` with `2^b >= i`, the base-2
logarithm rounded up; for a power of two `i == 2^k` it returns `k`, and
`1 << drbd_log2(i)` is `i` again. -/
theorem drbd_log2_rounds_up (fuel : Nat) (m : Nat) (h1 : 1 ≤ m) (h2 : m < 2 ^ fuel) :
    ∃ b : Nat, drbd_log2 fuel (m : Int) = some (b : Int) ∧ m ≤ 2 ^ b ∧
      (∀ c : Nat, m ≤ 2 ^ c → b ≤ c) ∧
      (∀ k : Nat, m = 2 ^ k → b = k ∧ 1 <<< b = m) := by
  obtain ⟨fl, a1, a2, a3⟩ := drbd_log2_loop_value fuel m 0 0 h1 h2
  unfold drbd_log2
  rw [a3]
  by_cases hp : m = 2 ^ fl
  · refine ⟨fl, by rw [if_pos hp]; simp, by omega, ?_, ?_⟩
    · intro c hc
      rw [hp] at hc
      exact (Nat.pow_le_pow_iff_right (by norm_num)).1 hc
    · intro k hk
      have : fl = k := Nat.pow_right_injective (le_refl 2) (hp.symm.trans hk)
      subst this
      exact ⟨rfl, by rw [Nat.shiftLeft_eq, one_mul, hp]⟩
  · refine ⟨fl + 1, by rw [if_neg hp]; congr 1; push_cast; omega, by omega, ?_, ?_⟩
    · intro c hc
      have : 2 ^ fl < 2 ^ c := by omega
      exact (Nat.pow_lt_pow_iff_right (by norm_num)).1 this
    · intro k hk
      exfalso
      rw [hk] at a1 a2
      have x1 : fl ≤ k := (Nat.pow_le_pow_iff_right (by norm_num)).1 a1
      have x2 : k < fl + 1 := (Nat.pow_lt_pow_iff_right (by norm_num)).1 a2
      have : fl = k := by omega
      subst this
      exact hp hk

/-- C40, witness: `drbd_log2(4096) == 12`, and `drbd_log2(5) == 3`. -/
theorem drbd_log2_rounds_up_witness :
    (∃ b : Nat, drbd_log2 31 ((4096 : Nat) : Int) = some (b : Int) ∧ 4096 ≤ 2 ^ b ∧
      (∀ c : Nat, 4096 ≤ 2 ^ c → b ≤ c) ∧
      (∀ k : Nat, 4096 = 2 ^ k → b = k ∧ 1 <<< b = 4096)) ∧
    drbd_log2 31 4096 = some 12 ∧ drbd_log2 31 5 = some 3 :=
  ⟨drbd_log2_rounds_up 31 4096 (by decide) (by decide), by decide, by decide⟩

/-! ## The end of a connection -/

theorem es_clear_loop_mdev : ∀ (n i : Nat) (w : World),
    (es_clear_loop n i w).mdev =
      { w.mdev with epoch_set := (es_clear_loop n i w).mdev.epoch_set } := by
  intro n
  induction n with
  | zero => intro i w; rfl
  | succ n ih =>
    intro i w
    unfold es_clear_loop
    simp only
    split
    · rw [ih]
    · exact ih _ _

theorem sl_clear_loop_mdev : ∀ (n i : Nat) (w : World),
    (sl_clear_loop n i w).mdev =
      { w.mdev with sync_log := (sl_clear_loop n i w).mdev.sync_log } := by
  intro n
  induction n with
  | zero => intro i w; rfl
  | succ n ih =>
    intro i w
    unfold sl_clear_loop
    simp only
    split
    · rw [ih]
    · exact ih _ _

theorem getD_set_none (l : List (Option buffer_head)) (k j : Nat)
    (h : l.getD j none = none) : (l.set k none).getD j none = none := by
  rw [List.getD_eq_getElem?_getD, List.getElem?_set]
  rw [List.getD_eq_getElem?_getD] at h
  split
  · split <;> rfl
  · exact h

theorem sl_clear_loop_stays : ∀ (n i : Nat) (w : World) (j : Nat),
    w.mdev.sync_log.getD j none = none →
    (sl_clear_loop n i w).mdev.sync_log.getD j none = none := by
  intro n
  induction n with
  | zero => intro i w j h; exact h
  | succ n ih =>
    intro i w j h
    unfold sl_clear_loop
    simp only
    split
    · exact ih _ _ _ (getD_set_none _ _ _ h)
    · exact ih _ _ _ h

theorem getD_set_self_none (l : List (Option buffer_head)) (k : Nat) :
    (l.set k none).getD k none = none := by
  by_cases hk : k < l.length
  · simp [List.getD_eq_getElem?_getD, List.getElem?_set, hk]
  · simp [List.getD_eq_getElem?_getD, List.getElem?_set, hk]

theorem sl_clear_loop_slots : ∀ (n i : Nat) (w : World) (j : Nat), i ≤ j → j < i + n →
    (sl_clear_loop n i w).mdev.sync_log.getD j none = none := by
  intro n
  induction n with
  | zero => intro i w j h1 h2; omega
  | succ n ih =>
    intro i w j h1 h2
    unfold sl_clear_loop
    simp only
    by_cases hj : j = i
    · subst hj
      split
      · apply sl_clear_loop_stays
        exact getD_set_self_none _ _
      · next hn => exact sl_clear_loop_stays _ _ _ _ hn
    · split
      · exact ih _ _ _ (by omega) (by omega)
      · exact ih _ _ _ (by omega) (by omega)

theorem drbdd_out_sock_cstate (w : World) :
    (drbdd_out_sock w).mdev.cstate =
      (if w.mdev.cstate = Drbd_CState.StandAllone then Drbd_CState.StandAllone
       else Drbd_CState.Unconnected) := by
  unfold drbdd_out_sock set_cstate
  by_cases hc : w.mdev.cstate = Drbd_CState.StandAllone
  · rw [if_pos hc]
    by_cases hk : w.mdev.sock = true
    · simp [hk, hc]
    · simp [hk, hc]
  · rw [if_neg hc]
    by_cases hk : w.mdev.sock = true
    · simp [hk, hc]
    · simp [hk, hc]

/-- C36: when the connection is lost, the part of `drbdd` after `out` returns
(on a Primary with a well-formed log and fuel for one walk of it), and it
leaves `bit_map_gen` a copy of the generation counters as they were on entry,
`cstate` at `Unconnected` unless it was `StandAllone`, `pending_cnt` at 0 and
the role as it was. On a Primary the transfer log is empty afterwards,
`ISSUE_BARRIER` is clear and `gen_cnt[ConnectedCnt]` is one higher (the write
of the meta-data also stores the role in `gen_cnt[PrimaryInd]`). On a Secondary
`epoch_size` is 0, every slot of the sync log is empty, `unacked_cnt` is 0 and
the generation counters are as before. -/
theorem drbdd_out_resets (fuel : Nat) (w : World) (md : Option Int)
    (hlog : w.mdev.state = Drbd_State.Primary → tl_wf w.mdev ∧ w.mdev.tl_size ≤ fuel) :
    ∃ w1, drbdd_out fuel w md = some w1 ∧
      w1.mdev.bit_map_gen = (List.range (PrimaryInd + 1)).map (fun i => w.mdev.gen_cnt.getD i 0) ∧
      w1.mdev.cstate = (if w.mdev.cstate = Drbd_CState.StandAllone then Drbd_CState.StandAllone
                        else Drbd_CState.Unconnected) ∧
      w1.mdev.pending_cnt = 0 ∧
      w1.mdev.state = w.mdev.state ∧
      (w.mdev.state = Drbd_State.Primary →
        w1.mdev.tl_begin = w1.mdev.tl_end ∧ tl_entries w1.mdev = [] ∧
        test_bit ISSUE_BARRIER w1.mdev.flags = false ∧
        w1.mdev.gen_cnt =
          (w.mdev.gen_cnt.set ConnectedCnt ((w.mdev.gen_cnt.getD ConnectedCnt 0 + 1) % 2 ^ 32)).set
            PrimaryInd 1) ∧
      (w.mdev.state = Drbd_State.Secondary →
        w1.mdev.epoch_size = 0 ∧
        (∀ i, i < SYNC_LOG_S → w1.mdev.sync_log.getD i none = none) ∧
        w1.mdev.unacked_cnt = 0 ∧ w1.mdev.gen_cnt = w.mdev.gen_cnt) := by
  have hm := drbdd_out_sock_mdev w
  have hcs := drbdd_out_sock_cstate w
  generalize hw3 : drbdd_out_snapshot (drbdd_out_sock w) = w3
  have h3 : w3.mdev = { (drbdd_out_sock w).mdev with
      bit_map_gen := (List.range (PrimaryInd + 1)).map (fun i => w.mdev.gen_cnt.getD i 0) } := by
    rw [← hw3]
    unfold drbdd_out_snapshot
    dsimp only
    congr 2
    rw [hm]
  have h3s : w3.mdev.state = w.mdev.state := by rw [h3]; dsimp only; rw [hm]
  have h3c : w3.mdev.cstate = (drbdd_out_sock w).mdev.cstate := by rw [h3]
  have h3g : w3.mdev.gen_cnt = w.mdev.gen_cnt := by rw [h3]; dsimp only; rw [hm]
  have h3b : w3.mdev.bit_map_gen =
      (List.range (PrimaryInd + 1)).map (fun i => w.mdev.gen_cnt.getD i 0) := by rw [h3]
  unfold drbdd_out
  rw [hw3]
  cases hs : w.mdev.state with
  | Primary =>
    obtain ⟨hwf, hf⟩ := hlog hs
    have hwf3 : tl_wf w3.mdev := by
      unfold tl_wf at hwf ⊢
      rw [h3]; dsimp only; rw [hm]; exact hwf
    have hf3 : w3.mdev.tl_size ≤ fuel := by rw [h3]; dsimp only; rw [hm]; exact hf
    obtain ⟨x, -, hx, xb, xe, -, -, -, -, xl, xs⟩ := tl_clear_spec fuel w3 hwf3 hf3
    have hfr := tl_clear_frame fuel w3 x hx
    unfold log_step at hfr
    have hxs : x.mdev.state = Drbd_State.Primary := by rw [hfr]; dsimp only; rw [h3s, hs]
    unfold drbdd_out_role
    rw [h3s, hs]
    dsimp only
    rw [hx]
    dsimp only
    refine ⟨_, rfl, ?_, ?_, rfl, ?_, ?_, ?_⟩
    · dsimp only
      rw [(drbd_md_inc_mdev _ _ _).1]; dsimp only; rw [hfr]; exact h3b
    · dsimp only
      rw [(drbd_md_inc_mdev _ _ _).1]; dsimp only; rw [hfr]; dsimp only
      rw [h3c, hcs]
    · dsimp only
      rw [(drbd_md_inc_gen_cnt _ _ _).2.1]; exact hxs
    · intro _
      have e1 : (drbd_md_inc
          { x with mdev := { x.mdev with flags := clear_bit ISSUE_BARRIER x.mdev.flags } }
          ConnectedCnt md).mdev.tl_begin = 0 := by
        rw [(drbd_md_inc_mdev _ _ _).1]; exact xb
      have e2 : (drbd_md_inc
          { x with mdev := { x.mdev with flags := clear_bit ISSUE_BARRIER x.mdev.flags } }
          ConnectedCnt md).mdev.tl_end = 0 := by
        rw [(drbd_md_inc_mdev _ _ _).1]; exact xe
      refine ⟨?_, ?_, ?_, ?_⟩
      · dsimp only
        rw [e1, e2]
      · apply (tl_entries_nil_iff _ ?_).2
        · dsimp only
          rw [e1, e2]
        · unfold tl_wf at hwf3 ⊢
          dsimp only
          rw [(drbd_md_inc_mdev _ _ _).1]
          dsimp only
          rw [xl, xs, xb, xe]
          exact ⟨hwf3.1, by omega, by omega⟩
      · dsimp only
        rw [(drbd_md_inc_mdev _ _ _).1]
        exact test_bit_clear_bit _ _
      · dsimp only
        rw [(drbd_md_inc_gen_cnt _ _ _).1]
        dsimp only
        rw [if_pos hxs]
        have hg : x.mdev.gen_cnt = w.mdev.gen_cnt := by rw [hfr]; exact h3g
        rw [hg]
    · intro h; exact Drbd_State.noConfusion h
  | Secondary =>
    unfold drbdd_out_role
    rw [h3s, hs]
    dsimp only
    refine ⟨_, rfl, ?_, ?_, rfl, ?_, ?_, ?_⟩
    · dsimp only
      unfold sl_clear es_clear
      rw [sl_clear_loop_mdev]; dsimp only
      rw [es_clear_loop_mdev]; exact h3b
    · dsimp only
      unfold sl_clear es_clear
      rw [sl_clear_loop_mdev]; dsimp only
      rw [es_clear_loop_mdev]; dsimp only
      rw [h3c, hcs]
    · dsimp only
      unfold sl_clear es_clear
      rw [sl_clear_loop_mdev]; dsimp only
      rw [es_clear_loop_mdev]; dsimp only
      rw [h3s, hs]
    · intro h; exact Drbd_State.noConfusion h
    · intro _
      refine ⟨?_, ?_, rfl, ?_⟩
      · dsimp only
        unfold sl_clear es_clear
        rw [sl_clear_loop_mdev]
      · intro i hi
        dsimp only
        unfold sl_clear
        exact sl_clear_loop_slots _ _ _ _ (Nat.zero_le _) (by omega)
      · dsimp only
        unfold sl_clear es_clear
        rw [(sl_clear_loop_keeps _ _ _).1]
        dsimp only
        rw [(es_clear_loop_keeps _ _ _).1]
        exact h3g
  | Unknown =>
    unfold drbdd_out_role
    rw [h3s, hs]
    dsimp only
    refine ⟨_, rfl, h3b, ?_, rfl, ?_, ?_, ?_⟩
    · dsimp only
      rw [h3c, hcs]
    · exact h3s.trans hs
    · intro h; exact Drbd_State.noConfusion h
    · intro h; exact Drbd_State.noConfusion h

theorem drbdd_out_resets_witness :
    (∃ w1, drbdd_out 0 world_secondary_busy none = some w1 ∧
      w1.mdev.bit_map_gen = (List.range (PrimaryInd + 1)).map
        (fun i => world_secondary_busy.mdev.gen_cnt.getD i 0) ∧
      w1.mdev.cstate = (if world_secondary_busy.mdev.cstate = Drbd_CState.StandAllone
                        then Drbd_CState.StandAllone else Drbd_CState.Unconnected) ∧
      w1.mdev.pending_cnt = 0 ∧
      w1.mdev.state = world_secondary_busy.mdev.state ∧
      (world_secondary_busy.mdev.state = Drbd_State.Primary →
        w1.mdev.tl_begin = w1.mdev.tl_end ∧ tl_entries w1.mdev = [] ∧
        test_bit ISSUE_BARRIER w1.mdev.flags = false ∧
        w1.mdev.gen_cnt =
          (world_secondary_busy.mdev.gen_cnt.set ConnectedCnt
            ((world_secondary_busy.mdev.gen_cnt.getD ConnectedCnt 0 + 1) % 2 ^ 32)).set
            PrimaryInd 1) ∧
      (world_secondary_busy.mdev.state = Drbd_State.Secondary →
        w1.mdev.epoch_size = 0 ∧
        (∀ i, i < SYNC_LOG_S → w1.mdev.sync_log.getD i none = none) ∧
        w1.mdev.unacked_cnt = 0 ∧ w1.mdev.gen_cnt = world_secondary_busy.mdev.gen_cnt)) ∧
    world_secondary_busy.mdev.state = Drbd_State.Secondary ∧
    world_secondary_busy.mdev.unacked_cnt = 3 ∧
    world_secondary_busy.mdev.sync_log.getD 3 none = some ⟨7, false⟩ :=
  ⟨drbdd_out_resets 0 world_secondary_busy none (fun h => Drbd_State.noConfusion h),
   rfl, rfl, rfl⟩

/-! ## A change of the connection state of the peer -/

/-- C37: `receive_cstate` with a header received returns TRUE, adopts the
connection state of the peer and leaves the role alone; it clears
`gen_cnt[Consistent]` exactly when the role is Secondary and the adopted state
is `SyncingAll` or `SyncingQuick` (the write of the meta-data that follows
stores the role, 0 for a Secondary, in `gen_cnt[PrimaryInd]`), and otherwise
the generation counters are unchanged. Without a header it returns FALSE and
changes nothing. -/
theorem receive_cstate_adopts (w : World) (cs : Drbd_CState) (md : Option Int) :
    (receive_cstate w (some cs) md).2 = true ∧
    (receive_cstate w (some cs) md).1.mdev.cstate = cs ∧
    (receive_cstate w (some cs) md).1.mdev.state = w.mdev.state ∧
    (receive_cstate w (some cs) md).1.mdev.gen_cnt =
      (if w.mdev.state = Drbd_State.Secondary ∧
          (cs = Drbd_CState.SyncingAll ∨ cs = Drbd_CState.SyncingQuick)
       then (w.mdev.gen_cnt.set Consistent 0).set PrimaryInd 0 else w.mdev.gen_cnt) ∧
    receive_cstate w none md = (w, false) := by
  unfold receive_cstate set_cstate
  dsimp only
  by_cases h : w.mdev.state = Drbd_State.Secondary ∧
      (cs = Drbd_CState.SyncingAll ∨ cs = Drbd_CState.SyncingQuick)
  · rw [if_pos h, if_pos h]
    dsimp only
    refine ⟨rfl, ?_, ?_, ?_, rfl⟩
    · rw [(drbd_md_write_mdev _ _).1]
    · rw [(drbd_md_write_gen_cnt _ _).2]
    · rw [(drbd_md_write_gen_cnt _ _).1]
      dsimp only
      rw [if_neg (by rw [h.1]; exact fun e => Drbd_State.noConfusion e)]
  · rw [if_neg h, if_neg h]
    exact ⟨rfl, rfl, rfl, rfl, rfl⟩

/-! ## The bound of the bitmap -/

/-- The bitmap of `bm_init` has fewer words than bytes as soon as it has two
bytes and a word has more than one byte. -/
theorem bm_init_words_lt_size (LN2_BPL dev dev_size : Nat) (sbm : BitMap) (m : List Msg)
    (h : bm_init LN2_BPL dev dev_size = (some sbm, m)) (hl : 3 < LN2_BPL) (h2 : 2 ≤ sbm.size) :
    sbm.bm.length < sbm.size := by
  unfold bm_init at h
  dsimp only at h
  split at h
  · cases h
  · cases h
    dsimp only at h2 ⊢
    rw [List.length_replicate]
    have hs : 2 ≤ sizeof_long LN2_BPL := by
      unfold sizeof_long
      calc 2 = 2 ^ 1 := rfl
        _ ≤ 2 ^ (LN2_BPL - 3) := Nat.pow_le_pow_right (by decide) (by omega)
    generalize sizeof_long LN2_BPL = s at hs
    generalize dev_size >>> (BM_BLOCK_SIZE_B - 7) = n at h2
    rw [Nat.div_lt_iff_lt_mul (by omega)]
    obtain ⟨a, rfl⟩ : ∃ a, n = a + 2 := ⟨n - 2, by omega⟩
    obtain ⟨b, rfl⟩ : ∃ b, s = b + 2 := ⟨s - 2, by omega⟩
    have : (a + 2) * (b + 2) = a * b + 2 * a + 2 * b + 4 := by
      rw [Nat.add_mul, Nat.mul_add, Nat.mul_add]; omega
    rw [this]
    have := Nat.zero_le (a * b)
    omega

/-- C39: with a bit to set (`bit != 0`), `bm_set_bit` takes the branch
'BitMap too small' exactly when the word index of the bit is at or beyond
`sbm->size`, the number of BYTES of the bitmap; for a word index between the
number of words of the bitmap and `size` the test passes and the word, which
lies outside the allocation, is accessed. -/
theorem bm_set_bit_bound_in_bytes (LN2_BPL : Nat) (sbm : BitMap)
    (blocknr ln2_block_size bit : Nat) (hl : ln2_block_size ≤ BM_BLOCK_SIZE_B) (hb : bit ≠ 0) :
    (sbm.size ≤ (blocknr >>> (BM_BLOCK_SIZE_B - ln2_block_size)) >>> LN2_BPL →
      bm_set_bit LN2_BPL sbm blocknr ln2_block_size bit = some (sbm, [Msg.BitMap_too_small])) ∧
    ((blocknr >>> (BM_BLOCK_SIZE_B - ln2_block_size)) >>> LN2_BPL < sbm.size →
      bm_set_bit LN2_BPL sbm blocknr ln2_block_size bit ≠ some (sbm, [Msg.BitMap_too_small]) ∧
      (sbm.bm.length ≤ (blocknr >>> (BM_BLOCK_SIZE_B - ln2_block_size)) >>> LN2_BPL →
        bm_set_bit LN2_BPL sbm blocknr ln2_block_size bit = none)) := by
  unfold bm_set_bit
  rw [if_neg (by omega)]
  dsimp only
  rw [if_neg (fun h => hb h.1)]
  unfold bm_set_bit_word
  dsimp only
  refine ⟨fun h => by rw [if_pos h], fun h => ?_⟩
  rw [if_neg (by omega)]
  refine ⟨?_, fun h2 => by rw [if_pos h2]⟩
  split
  · exact fun e => Option.noConfusion e
  · intro e
    have e2 := congrArg (fun r => (r.getD default).2) e
    dsimp only at e2
    exact List.noConfusion e2

theorem bm_set_bit_bound_in_bytes_witness :
    bm_init 6 0 256 = (some bm_256k, [Msg.vmallocing_for_bitmap 8]) ∧
    bm_256k.size = 8 ∧ bm_256k.bm.length = 1 ∧ bm_256k.size / sizeof_long 6 = 1 ∧
    (64 >>> (BM_BLOCK_SIZE_B - 12)) >>> 6 = 1 ∧
    bm_set_bit 6 bm_256k 64 12 1 ≠ some (bm_256k, [Msg.BitMap_too_small]) ∧
    bm_set_bit 6 bm_256k 64 12 1 = none :=
  ⟨by decide, by decide, by decide, by decide, by decide,
   ((bm_set_bit_bound_in_bytes 6 bm_256k 64 12 1 (by decide) (by decide)).2 (by decide)).1,
   ((bm_set_bit_bound_in_bytes 6 bm_256k 64 12 1 (by decide) (by decide)).2 (by decide)).2
     (by decide)⟩

/-! ## One barrier for one setting of the flag -/

theorem wire_of_append (a b : List Event) : wire_of (a ++ b) = wire_of a ++ wire_of b := by
  unfold wire_of
  exact List.filter_append _ _

theorem drbd_send_wire (w : World) (cmd : Drbd_Packet_Cmd) (a b hs ds : Nat) (o : SendOutcome) :
    (drbd_send w cmd a b hs ds o).1.br_cnt = w.br_cnt ∧
    (drbd_send w cmd a b hs ds o).1.reqs = w.reqs ∧
    ∃ d, (drbd_send w cmd a b hs ds o).1.trace = w.trace ++ d ∧
      wire_of d = (if wired w then [Event.send cmd a b hs ds o.err] else []) := by
  rcases drbd_send_cases w cmd a b hs ds o with ⟨h, e, -⟩ | ⟨h1, h2, h⟩
  · rw [e]
    refine ⟨rfl, rfl, [], (List.append_nil _).symm, ?_⟩
    rw [if_neg]
    · rfl
    · unfold wired
      rcases h with h | h
      · rw [h]; simp
      · omega
  · have hw : wired w := ⟨h1, h2⟩
    rw [if_pos hw]
    rcases h with ⟨e, -⟩ | ⟨e, -⟩ | ⟨e, -⟩ | ⟨e, -⟩ <;> rw [e] <;>
      exact ⟨rfl, rfl, _, rfl, rfl⟩

theorem tl_add_barrier_shape (w : World) :
    (tl_add_barrier w).1.mdev = tl_pushed w.mdev ⟨TL_BARRIER, (tl_add_barrier w).2⟩ ∧
    (tl_add_barrier w).1.br_cnt = (tl_add_barrier w).2 ∧
    (tl_add_barrier w).1.reqs = w.reqs ∧
    ∃ d, (tl_add_barrier w).1.trace = w.trace ++ d ∧ wire_of d = [] := by
  unfold tl_add_barrier tl_pushed
  dsimp only
  refine ⟨rfl, rfl, rfl, _, rfl, ?_⟩
  split <;> split <;> rfl

theorem tl_add_shape (w : World) (x : Nat) :
    (tl_add w x).mdev = tl_pushed w.mdev ⟨x, (w.reqs x).sector⟩ ∧
    (tl_add w x).br_cnt = w.br_cnt ∧
    ∃ d, (tl_add w x).trace = w.trace ++ d ∧ wire_of d = [] := by
  unfold tl_add tl_pushed
  dsimp only
  refine ⟨rfl, rfl, _, rfl, ?_⟩
  split <;> split <;> rfl

theorem wired_congr (w w1 : World) (h1 : w1.mdev.sock = w.mdev.sock)
    (h2 : w1.mdev.cstate = w.mdev.cstate) : wired w1 ↔ wired w := by
  unfold wired
  rw [h1, h2]

theorem _drbd_send_barrier_shape (w : World) (o : SendOutcome) :
    same_ring (tl_pushed w.mdev ⟨TL_BARRIER, (tl_add_barrier w).2⟩)
      (_drbd_send_barrier w o).1.mdev ∧
    (_drbd_send_barrier w o).1.mdev.flags = w.mdev.flags ∧
    (_drbd_send_barrier w o).1.br_cnt = (tl_add_barrier w).2 ∧
    (_drbd_send_barrier w o).1.reqs = w.reqs ∧
    ∃ d, (_drbd_send_barrier w o).1.trace = w.trace ++ d ∧
      wire_of d = (if wired w then
        [Event.send Drbd_Packet_Cmd.Barrier (tl_add_barrier w).2 0 sizeof_Drbd_Barrier_Packet 0
          o.err] else []) := by
  obtain ⟨a1, a2, a3, d1, a4, a5⟩ := tl_add_barrier_shape w
  obtain ⟨b1, b2, d2, b3, b4⟩ := drbd_send_wire (tl_add_barrier w).1 Drbd_Packet_Cmd.Barrier
    (tl_add_barrier w).2 0 sizeof_Drbd_Barrier_Packet 0 o
  have b0 := (drbd_send_mdev (tl_add_barrier w).1 Drbd_Packet_Cmd.Barrier
    (tl_add_barrier w).2 0 sizeof_Drbd_Barrier_Packet 0 o).1
  have hwc : wired (tl_add_barrier w).1 ↔ wired w :=
    wired_congr _ _ (by rw [a1]; rfl) (by rw [a1]; rfl)
  have hwire : wire_of (d1 ++ d2) = (if wired w then
      [Event.send Drbd_Packet_Cmd.Barrier (tl_add_barrier w).2 0 sizeof_Drbd_Barrier_Packet 0
        o.err] else []) := by
    rw [wire_of_append, a5, b4, List.nil_append]
    by_cases hw : wired w
    · rw [if_pos hw, if_pos (hwc.2 hw)]
    · rw [if_neg hw, if_neg (fun h => hw (hwc.1 h))]
  unfold _drbd_send_barrier
  dsimp only
  split
  · dsimp only
    refine ⟨?_, ?_, b1.trans a2, b2.trans a3, d1 ++ d2, ?_, hwire⟩
    · unfold same_ring inc_pending
      dsimp only
      rw [b0]
      dsimp only
      rw [a1]
      exact ⟨rfl, rfl, rfl, rfl⟩
    · unfold inc_pending
      dsimp only
      rw [b0]
      dsimp only
      rw [a1]
      rfl
    · rw [b3, a4, List.append_assoc]
  · refine ⟨?_, ?_, b1.trans a2, b2.trans a3, d1 ++ d2, ?_, hwire⟩
    · unfold same_ring
      rw [b0]
      dsimp only
      rw [a1]
      exact ⟨rfl, rfl, rfl, rfl⟩
    · rw [b0]
      dsimp only
      rw [a1]
      rfl
    · rw [b3, a4, List.append_assoc]

theorem tl_pushed_same_ring (m m1 : Drbd_Conf) (e : Tl_entry) (h : same_ring m m1) :
    same_ring (tl_pushed m e) (tl_pushed m1 e) := by
  unfold same_ring at h ⊢
  unfold tl_pushed
  dsimp only
  obtain ⟨h1, h2, h3, h4⟩ := h
  rw [h1, h3, h4]
  exact ⟨rfl, h2, rfl, rfl⟩

theorem tl_pushed_after (m m1 : Drbd_Conf) (e : Tl_entry) (h : same_ring m m1) (hwf : tl_wf m)
    (hroom : tl_count m + 1 < m.tl_size) :
    tl_wf (tl_pushed m1 e) ∧ tl_entries (tl_pushed m1 e) = tl_entries m ++ [e] ∧
    tl_count (tl_pushed m1 e) = tl_count m + 1 := by
  obtain ⟨a1, a2⟩ := tl_append_spec m e hwf hroom
  have hr := tl_pushed_same_ring m m1 e h
  refine ⟨same_ring_wf hr a1, (same_ring_entries hr).trans a2, ?_⟩
  rw [same_ring_count hr, ← tl_entries_length, a2, List.length_append, tl_entries_length]
  rfl

theorem test_and_send_barrier_shape (w : World) (o : SendOutcome) :
    test_bit ISSUE_BARRIER (test_and_send_barrier w o).mdev.flags = false ∧
    (test_and_send_barrier w o).reqs = w.reqs ∧
    (test_bit ISSUE_BARRIER w.mdev.flags = false → test_and_send_barrier w o = w) ∧
    (test_bit ISSUE_BARRIER w.mdev.flags = true →
      same_ring (tl_pushed w.mdev ⟨TL_BARRIER, (tl_add_barrier w).2⟩)
        (test_and_send_barrier w o).mdev ∧
      (test_and_send_barrier w o).br_cnt = (tl_add_barrier w).2) ∧
    ∃ d, (test_and_send_barrier w o).trace = w.trace ++ d ∧
      wire_of d = (if test_bit ISSUE_BARRIER w.mdev.flags = true ∧ wired w then
        [Event.send Drbd_Packet_Cmd.Barrier (tl_add_barrier w).2 0 sizeof_Drbd_Barrier_Packet 0
          o.err] else []) := by
  unfold test_and_send_barrier
  by_cases hf : test_bit ISSUE_BARRIER w.mdev.flags = true
  · rw [if_pos hf]
    obtain ⟨a1, a2, a3, a4, d, a5, a6⟩ := _drbd_send_barrier_shape
      { w with mdev := { w.mdev with flags := clear_bit ISSUE_BARRIER w.mdev.flags } } o
    refine ⟨?_, a4, fun h => ?_, fun _ => ⟨a1, a3⟩, d, a5, ?_⟩
    · rw [a2]
      exact test_bit_clear_bit _ _
    · rw [hf] at h; exact Bool.noConfusion h
    · rw [a6]
      have hwc : wired ({ w with mdev := { w.mdev with
          flags := clear_bit ISSUE_BARRIER w.mdev.flags } } : World) ↔ wired w :=
        wired_congr _ _ rfl rfl
      by_cases hw : wired w
      · rw [if_pos (hwc.2 hw), if_pos ⟨hf, hw⟩]
        rfl
      · rw [if_neg (fun h => hw (hwc.1 h)), if_neg (fun h => hw h.2)]
  · have hf0 : test_bit ISSUE_BARRIER w.mdev.flags = false := by simpa using hf
    rw [if_neg hf]
    refine ⟨hf0, rfl, fun _ => rfl, fun h => absurd h hf, [], (List.append_nil _).symm, ?_⟩
    rw [if_neg (fun h => hf h.1)]
    rfl

theorem drbd_send_wired_back (w : World) (cmd : Drbd_Packet_Cmd) (a b hs ds : Nat)
    (o : SendOutcome) (h : wired (drbd_send w cmd a b hs ds o).1) : wired w := by
  rcases drbd_send_cases w cmd a b hs ds o with ⟨-, e, -⟩ | ⟨h1, h2, -⟩
  · rw [e] at h; exact h
  · exact ⟨h1, h2⟩

theorem test_and_send_barrier_wired_back (w : World) (o : SendOutcome)
    (h : wired (test_and_send_barrier w o)) : wired w := by
  unfold test_and_send_barrier at h
  split at h
  · unfold _drbd_send_barrier at h
    dsimp only at h
    split at h
    · have h2 : wired (drbd_send (tl_add_barrier { w with mdev := { w.mdev with
          flags := clear_bit ISSUE_BARRIER w.mdev.flags } }).1 Drbd_Packet_Cmd.Barrier
          (tl_add_barrier { w with mdev := { w.mdev with
            flags := clear_bit ISSUE_BARRIER w.mdev.flags } }).2 0
          sizeof_Drbd_Barrier_Packet 0 o).1 := h
      have h3 := drbd_send_wired_back _ _ _ _ _ _ _ h2
      exact h3
    · have h3 := drbd_send_wired_back _ _ _ _ _ _ _ h
      exact h3
  · exact h

/-- C31: the flag `ISSUE_BARRIER` is clear after `drbd_send_data` and after
`drbd_try_send_barrier`. With a well-formed log that has room for two entries,
`drbd_send_data` appends to the log a BARRIER entry with the next barrier number
exactly when the flag was set, and after it at most the entry of the write; on
the wire (the calls of `sock_sendmsg`, which need a socket and a connection
state from `WFReportParams` on) the Barrier packet with that number goes out
first, exactly when the flag was set, and the Data packet after it.
a Data packet goes out only on a connection on which the Barrier packet of a
set flag has gone out. `drbd_try_send_barrier` appends the BARRIER entry and
sends the one Barrier packet exactly when the flag was set, and changes nothing
when it was clear. -/
theorem barrier_drained_once (w : World) (ds bn id : Nat) (ob od : SendOutcome)
    (hwf : tl_wf w.mdev) (hroom : tl_count w.mdev + 2 < w.mdev.tl_size) :
    test_bit ISSUE_BARRIER (drbd_send_data w ds bn id ob od).1.mdev.flags = false ∧
    test_bit ISSUE_BARRIER (drbd_try_send_barrier w ob).mdev.flags = false ∧
    (∃ D, (D = [] ∨ D = [⟨id, (w.reqs id).sector⟩]) ∧
      tl_entries (drbd_send_data w ds bn id ob od).1.mdev =
        tl_entries w.mdev ++
          (if test_bit ISSUE_BARRIER w.mdev.flags = true
           then [⟨TL_BARRIER, (tl_add_barrier w).2⟩] else []) ++ D) ∧
    (∃ d, (drbd_send_data w ds bn id ob od).1.trace = w.trace ++ d ∧
      wire_of d =
        (if test_bit ISSUE_BARRIER w.mdev.flags = true ∧ wired w then
          [Event.send Drbd_Packet_Cmd.Barrier (tl_add_barrier w).2 0 sizeof_Drbd_Barrier_Packet 0
            ob.err] else []) ++
        (if wired (test_and_send_barrier w ob) then
          [Event.send Drbd_Packet_Cmd.Data bn id sizeof_Drbd_Data_Packet ds od.err] else [])) ∧
    (wired (test_and_send_barrier w ob) → wired w) ∧
    tl_entries (drbd_try_send_barrier w ob).mdev =
      tl_entries w.mdev ++
        (if test_bit ISSUE_BARRIER w.mdev.flags = true
         then [⟨TL_BARRIER, (tl_add_barrier w).2⟩] else []) ∧
    (∃ d, (drbd_try_send_barrier w ob).trace = w.trace ++ d ∧
      wire_of d =
        (if test_bit ISSUE_BARRIER w.mdev.flags = true ∧ wired w then
          [Event.send Drbd_Packet_Cmd.Barrier (tl_add_barrier w).2 0 sizeof_Drbd_Barrier_Packet 0
            ob.err] else [])) ∧
    (test_bit ISSUE_BARRIER w.mdev.flags = false → drbd_try_send_barrier w ob = w) := by
  obtain ⟨a1, a2, a3, a4, d1, a5, a6⟩ := test_and_send_barrier_shape w ob
  have hback := test_and_send_barrier_wired_back w ob
  have hring : tl_wf (test_and_send_barrier w ob).mdev ∧
      tl_count (test_and_send_barrier w ob).mdev + 1 < (test_and_send_barrier w ob).mdev.tl_size ∧
      tl_entries (test_and_send_barrier w ob).mdev = tl_entries w.mdev ++
        (if test_bit ISSUE_BARRIER w.mdev.flags = true
         then [⟨TL_BARRIER, (tl_add_barrier w).2⟩] else []) := by
    by_cases hf : test_bit ISSUE_BARRIER w.mdev.flags = true
    · rw [if_pos hf]
      obtain ⟨r1, -⟩ := a4 hf
      obtain ⟨p1, p2, p3⟩ := tl_pushed_after w.mdev w.mdev ⟨TL_BARRIER, (tl_add_barrier w).2⟩
        (same_ring_refl _) hwf (by omega)
      refine ⟨same_ring_wf r1 p1, ?_, (same_ring_entries r1).trans p2⟩
      rw [same_ring_count r1, p3, r1.2.2.2]
      show tl_count w.mdev + 1 + 1 < w.mdev.tl_size
      omega
    · rw [if_neg hf]
      rw [a3 (by simpa using hf), List.append_nil]
      exact ⟨hwf, by omega, rfl⟩
  obtain ⟨g1, g2, g3⟩ := hring
  generalize hwb : test_and_send_barrier w ob = wb at a1 a2 a5 g1 g2 g3 hback
  obtain ⟨b1, b2, d2, b3, b4⟩ := drbd_send_wire wb Drbd_Packet_Cmd.Data bn id
    sizeof_Drbd_Data_Packet ds od
  have b0 := (drbd_send_mdev wb Drbd_Packet_Cmd.Data bn id sizeof_Drbd_Data_Packet ds od).1
  have hsr : same_ring wb.mdev
      (drbd_send wb Drbd_Packet_Cmd.Data bn id sizeof_Drbd_Data_Packet ds od).1.mdev := by
    rw [b0]; exact ⟨rfl, rfl, rfl, rfl⟩
  have hfl : (drbd_send wb Drbd_Packet_Cmd.Data bn id sizeof_Drbd_Data_Packet ds od).1.mdev.flags
      = wb.mdev.flags := by rw [b0]
  refine ⟨?_, ?_, ?_, ?_, hback, ?_, ?_, ?_⟩
  · unfold drbd_send_data
    dsimp only
    rw [hwb]
    unfold drbd_send_data_logged
    split
    · split
      · dsimp only
        split
        · unfold inc_pending
          dsimp only
          rw [(tl_add_shape _ _).1]
          unfold tl_pushed
          dsimp only
          rw [hfl]; exact a1
        · rw [(tl_add_shape _ _).1]
          unfold tl_pushed
          dsimp only
          rw [hfl]; exact a1
      · dsimp only
        rw [hfl]; exact a1
    · dsimp only
      rw [hfl]; exact a1
  · unfold drbd_try_send_barrier
    rw [hwb]; exact a1
  · unfold drbd_send_data
    dsimp only
    rw [hwb]
    unfold drbd_send_data_logged
    split
    · split
      · refine ⟨[⟨id, (w.reqs id).sector⟩], Or.inr rfl, ?_⟩
        obtain ⟨p1, p2, -⟩ := tl_pushed_after wb.mdev _
          ⟨id, ((drbd_send wb Drbd_Packet_Cmd.Data bn id sizeof_Drbd_Data_Packet ds od).1.reqs
            id).sector⟩ hsr g1 g2
        rw [b2, a2] at p2
        rw [← g3, ← p2]
        dsimp only
        split
        · apply same_ring_entries
          unfold inc_pending
          dsimp only
          rw [(tl_add_shape _ _).1, b2, a2]
          exact ⟨rfl, rfl, rfl, rfl⟩
        · rw [(tl_add_shape _ _).1, b2, a2]
      · refine ⟨[], Or.inl rfl, ?_⟩
        dsimp only
        rw [List.append_nil, ← g3]
        exact same_ring_entries hsr
    · refine ⟨[], Or.inl rfl, ?_⟩
      dsimp only
      rw [List.append_nil, ← g3]
      exact same_ring_entries hsr
  · unfold drbd_send_data
    dsimp only
    rw [hwb]
    unfold drbd_send_data_logged
    split
    · split
      · dsimp only
        obtain ⟨-, -, d3, c1, c2⟩ := tl_add_shape
          (drbd_send wb Drbd_Packet_Cmd.Data bn id sizeof_Drbd_Data_Packet ds od).1 id
        refine ⟨d1 ++ (d2 ++ d3), ?_, ?_⟩
        · split
          · dsimp only
            rw [c1, b3, a5, List.append_assoc, List.append_assoc]
          · rw [c1, b3, a5, List.append_assoc, List.append_assoc]
        · rw [wire_of_append, wire_of_append, a6, b4, c2, List.append_nil]
      · refine ⟨d1 ++ (d2 ++ [Event.set_block_status bn
          (drbd_send wb Drbd_Packet_Cmd.Data bn id sizeof_Drbd_Data_Packet ds od).1.mdev.blk_size_b
          SS_OUT_OF_SYNC]), ?_, ?_⟩
        · dsimp only
          rw [b3, a5, List.append_assoc, List.append_assoc]
        · rw [wire_of_append, wire_of_append, a6, b4]
          show _ ++ (_ ++ []) = _
          rw [List.append_nil]
    · refine ⟨d1 ++ d2, ?_, ?_⟩
      · dsimp only
        rw [b3, a5, List.append_assoc]
      · rw [wire_of_append, a6, b4]
  · unfold drbd_try_send_barrier
    rw [hwb]; exact g3
  · unfold drbd_try_send_barrier
    rw [hwb]; exact ⟨d1, a5, a6⟩
  · intro h
    unfold drbd_try_send_barrier
    exact a3 h

theorem barrier_drained_once_witness :
    tl_wf world_flagged.mdev ∧ tl_count world_flagged.mdev + 2 < world_flagged.mdev.tl_size ∧
    test_bit ISSUE_BARRIER world_flagged.mdev.flags = true ∧ wired world_flagged ∧
    tl_entries world_flagged.mdev = [] ∧
    test_bit ISSUE_BARRIER
      (drbd_send_data world_flagged 4096 1 101 barrier_taken data_taken).1.mdev.flags = false ∧
    tl_entries (drbd_send_data world_flagged 4096 1 101 barrier_taken data_taken).1.mdev =
      [⟨TL_BARRIER, 1⟩, ⟨101, 8⟩] ∧
    wire_of (drbd_send_data world_flagged 4096 1 101 barrier_taken data_taken).1.trace =
      [Event.send Drbd_Packet_Cmd.Barrier 1 0 sizeof_Drbd_Barrier_Packet 0 12,
       Event.send Drbd_Packet_Cmd.Data 1 101 sizeof_Drbd_Data_Packet 4096 4120] ∧
    (test_bit ISSUE_BARRIER
        (drbd_send_data world_flagged 4096 1 101 barrier_taken data_taken).1.mdev.flags = false →
      drbd_try_send_barrier
        (drbd_send_data world_flagged 4096 1 101 barrier_taken data_taken).1 barrier_taken =
        (drbd_send_data world_flagged 4096 1 101 barrier_taken data_taken).1) :=
  ⟨by decide, by decide, by decide, by decide, by decide,
   (barrier_drained_once world_flagged 4096 1 101 barrier_taken data_taken
     (by decide) (by decide)).1,
   by decide, by decide,
   (barrier_drained_once (drbd_send_data world_flagged 4096 1 101 barrier_taken data_taken).1
     4096 1 101 barrier_taken data_taken (by decide) (by decide)).2.2.2.2.2.2.2⟩

/-! ## The write that is logged is the write that was sent -/

theorem drbd_send_returns_size (w : World) (cmd : Drbd_Packet_Cmd) (a b hs ds : Nat)
    (o : SendOutcome) :
    (drbd_send w cmd a b hs ds o).2 = ((hs + ds : Nat) : Int) ↔ sent_whole w o (hs + ds) := by
  unfold drbd_send sent_whole wired
  dsimp only
  by_cases h1 : w.mdev.sock = false
  · rw [if_pos h1]
    constructor
    · intro h
      have h' : (-1000 : Int) = ((hs + ds : Nat) : Int) := h
      omega
    · intro h
      rw [h1] at h
      exact absurd h.1.1 (by decide)
  · rw [if_neg h1]
    by_cases h2 : w.mdev.cstate.toNat < Drbd_CState.WFReportParams.toNat
    · rw [if_pos h2]
      constructor
      · intro h
        have h' : (-1001 : Int) = ((hs + ds : Nat) : Int) := h
        omega
      · intro h
        have := h.1.2
        omega
    · rw [if_neg h2]
      by_cases h3 : w.mdev.timeout ≠ 0 ∧ o.signalled = true
      · rw [if_pos h3]
        constructor
        · intro h
          have h' : (-1002 : Int) = ((hs + ds : Nat) : Int) := h
          omega
        · intro h
          exact absurd h3 h.2.1
      · rw [if_neg h3]
        by_cases h4 : o.err < 0
        · rw [if_pos h4]
          constructor
          · intro h
            have h' : (-1003 : Int) = ((hs + ds : Nat) : Int) := h
            omega
          · intro h
            have := h.2.2
            omega
        · rw [if_neg h4]
          constructor
          · intro h
            exact ⟨⟨by simpa using h1, by omega⟩, h3, h⟩
          · intro h
            exact h.2.2

theorem test_and_send_barrier_ring (w : World) (o : SendOutcome) (hwf : tl_wf w.mdev)
    (hroom : tl_count w.mdev + 2 < w.mdev.tl_size) :
    tl_wf (test_and_send_barrier w o).mdev ∧
    tl_count (test_and_send_barrier w o).mdev + 1 < (test_and_send_barrier w o).mdev.tl_size ∧
    tl_entries (test_and_send_barrier w o).mdev = tl_entries w.mdev ++
      (if test_bit ISSUE_BARRIER w.mdev.flags = true
       then [⟨TL_BARRIER, (tl_add_barrier w).2⟩] else []) := by
  obtain ⟨-, -, a3, a4, -⟩ := test_and_send_barrier_shape w o
  by_cases hf : test_bit ISSUE_BARRIER w.mdev.flags = true
  · rw [if_pos hf]
    obtain ⟨r1, -⟩ := a4 hf
    obtain ⟨p1, p2, p3⟩ := tl_pushed_after w.mdev w.mdev ⟨TL_BARRIER, (tl_add_barrier w).2⟩
      (same_ring_refl _) hwf (by omega)
    refine ⟨same_ring_wf r1 p1, ?_, (same_ring_entries r1).trans p2⟩
    rw [same_ring_count r1, p3, r1.2.2.2]
    show tl_count w.mdev + 1 + 1 < w.mdev.tl_size
    omega
  · rw [if_neg hf]
    rw [a3 (by simpa using hf), List.append_nil]
    exact ⟨hwf, by omega, rfl⟩

theorem drbd_send_no_status (w : World) (cmd : Drbd_Packet_Cmd) (a b hs ds : Nat)
    (o : SendOutcome) :
    ∃ d, (drbd_send w cmd a b hs ds o).1.trace = w.trace ++ d ∧
      ∀ e ∈ d, e.isSetBlockStatus = false := by
  rcases drbd_send_cases w cmd a b hs ds o with ⟨-, e, -⟩ | ⟨-, -, h⟩
  · rw [e]
    exact ⟨[], (List.append_nil _).symm, fun e he => absurd he (List.not_mem_nil e)⟩
  · rcases h with ⟨e, -⟩ | ⟨e, -⟩ | ⟨e, -⟩ | ⟨e, -⟩ <;> rw [e] <;>
      refine ⟨_, rfl, fun x hx => ?_⟩ <;>
      simp only [List.mem_cons, List.mem_singleton, List.not_mem_nil, or_false] at hx <;>
      rcases hx with rfl | rfl | rfl <;> rfl

theorem tl_add_no_status (w : World) (x : Nat) :
    ∃ d, (tl_add w x).trace = w.trace ++ d ∧ ∀ e ∈ d, e.isSetBlockStatus = false := by
  unfold tl_add
  dsimp only
  refine ⟨_, rfl, fun e he => ?_⟩
  split at he <;> split at he
  · rw [List.mem_singleton] at he; rw [he]; rfl
  · exact absurd he (List.not_mem_nil e)
  · rw [List.mem_singleton] at he; rw [he]; rfl
  · exact absurd he (List.not_mem_nil e)

/-- C32: let `wb` be the state after the barrier statement of `drbd_send_data`
(it is the state on entry when `ISSUE_BARRIER` is clear). For an application
write (`block_id != ID_SYNCER`): when the socket takes the whole packet, the
request is appended to the transfer log, `pending_cnt` is incremented exactly
when the protocol is not A, nothing is marked in the bitmap and the size of the
packet is returned; otherwise the log and `pending_cnt` are as in `wb`, the
last event is the marking of the block as out of sync, and 0 is returned. For
a resync block the log and `pending_cnt` are as in `wb`, nothing is marked and
the value of `drbd_send` is returned. -/
theorem data_logged_iff_sent (w : World) (ds bn id : Nat) (ob od : SendOutcome)
    (hwf : tl_wf w.mdev) (hroom : tl_count w.mdev + 2 < w.mdev.tl_size) :
    (test_bit ISSUE_BARRIER w.mdev.flags = false → test_and_send_barrier w ob = w) ∧
    (id ≠ ID_SYNCER →
      sent_whole (test_and_send_barrier w ob) od (sizeof_Drbd_Data_Packet + ds) →
      (drbd_send_data w ds bn id ob od).2 = ((sizeof_Drbd_Data_Packet + ds : Nat) : Int) ∧
      tl_entries (drbd_send_data w ds bn id ob od).1.mdev =
        tl_entries (test_and_send_barrier w ob).mdev ++ [⟨id, (w.reqs id).sector⟩] ∧
      (drbd_send_data w ds bn id ob od).1.mdev.pending_cnt =
        (if (test_and_send_barrier w ob).mdev.wire_protocol ≠ DRBD_PROT_A
         then ((test_and_send_barrier w ob).mdev.pending_cnt + 1) % 2 ^ 32
         else (test_and_send_barrier w ob).mdev.pending_cnt) ∧
      ∃ d, (drbd_send_data w ds bn id ob od).1.trace = (test_and_send_barrier w ob).trace ++ d ∧
        ∀ e ∈ d, e.isSetBlockStatus = false) ∧
    (id ≠ ID_SYNCER →
      ¬ sent_whole (test_and_send_barrier w ob) od (sizeof_Drbd_Data_Packet + ds) →
      (drbd_send_data w ds bn id ob od).2 = 0 ∧
      tl_entries (drbd_send_data w ds bn id ob od).1.mdev =
        tl_entries (test_and_send_barrier w ob).mdev ∧
      (drbd_send_data w ds bn id ob od).1.mdev.pending_cnt =
        (test_and_send_barrier w ob).mdev.pending_cnt ∧
      ∃ d, (drbd_send_data w ds bn id ob od).1.trace = (test_and_send_barrier w ob).trace ++ d ++
        [Event.set_block_status bn (test_and_send_barrier w ob).mdev.blk_size_b SS_OUT_OF_SYNC]) ∧
    (id = ID_SYNCER →
      (drbd_send_data w ds bn id ob od).2 =
        (drbd_send (test_and_send_barrier w ob) Drbd_Packet_Cmd.Data bn id
          sizeof_Drbd_Data_Packet ds od).2 ∧
      tl_entries (drbd_send_data w ds bn id ob od).1.mdev =
        tl_entries (test_and_send_barrier w ob).mdev ∧
      (drbd_send_data w ds bn id ob od).1.mdev.pending_cnt =
        (test_and_send_barrier w ob).mdev.pending_cnt ∧
      ∃ d, (drbd_send_data w ds bn id ob od).1.trace = (test_and_send_barrier w ob).trace ++ d ∧
        ∀ e ∈ d, e.isSetBlockStatus = false) := by
  obtain ⟨-, a2, a3, -, -⟩ := test_and_send_barrier_shape w ob
  obtain ⟨g1, g2, -⟩ := test_and_send_barrier_ring w ob hwf hroom
  have hiff := drbd_send_returns_size (test_and_send_barrier w ob) Drbd_Packet_Cmd.Data bn id
    sizeof_Drbd_Data_Packet ds od
  generalize hwb : test_and_send_barrier w ob = wb at a2 a3 g1 g2 hiff
  obtain ⟨d2, b3, b4⟩ := drbd_send_no_status wb Drbd_Packet_Cmd.Data bn id
    sizeof_Drbd_Data_Packet ds od
  obtain ⟨-, b2, -⟩ := drbd_send_wire wb Drbd_Packet_Cmd.Data bn id sizeof_Drbd_Data_Packet ds od
  have b0 := (drbd_send_mdev wb Drbd_Packet_Cmd.Data bn id sizeof_Drbd_Data_Packet ds od).1
  have hsr : same_ring wb.mdev
      (drbd_send wb Drbd_Packet_Cmd.Data bn id sizeof_Drbd_Data_Packet ds od).1.mdev := by
    rw [b0]; exact ⟨rfl, rfl, rfl, rfl⟩
  have hpc : (drbd_send wb Drbd_Packet_Cmd.Data bn id sizeof_Drbd_Data_Packet ds
      od).1.mdev.pending_cnt = wb.mdev.pending_cnt := by rw [b0]
  have hwp : (drbd_send wb Drbd_Packet_Cmd.Data bn id sizeof_Drbd_Data_Packet ds
      od).1.mdev.wire_protocol = wb.mdev.wire_protocol := by rw [b0]
  have hbs : (drbd_send wb Drbd_Packet_Cmd.Data bn id sizeof_Drbd_Data_Packet ds
      od).1.mdev.blk_size_b = wb.mdev.blk_size_b := by rw [b0]
  have hsz : ((ds + sizeof_Drbd_Data_Packet : Nat) : Int) =
      ((sizeof_Drbd_Data_Packet + ds : Nat) : Int) := by rw [Nat.add_comm]
  refine ⟨a3, fun hid hwhole => ?_, fun hid hnot => ?_, fun hid => ?_⟩
  · have hret := hiff.2 hwhole
    unfold drbd_send_data
    dsimp only
    rw [hwb]
    unfold drbd_send_data_logged
    rw [if_pos hid, if_pos (hret.trans hsz.symm)]
    dsimp only
    obtain ⟨p1, p2, -⟩ := tl_pushed_after wb.mdev _
      ⟨id, ((drbd_send wb Drbd_Packet_Cmd.Data bn id sizeof_Drbd_Data_Packet ds od).1.reqs
        id).sector⟩ hsr g1 g2
    rw [b2, a2] at p2
    obtain ⟨c1, -, -⟩ := tl_add_shape
      (drbd_send wb Drbd_Packet_Cmd.Data bn id sizeof_Drbd_Data_Packet ds od).1 id
    rw [b2, a2] at c1
    obtain ⟨d3, c3, c4⟩ := tl_add_no_status
      (drbd_send wb Drbd_Packet_Cmd.Data bn id sizeof_Drbd_Data_Packet ds od).1 id
    have hwp3 : (tl_add (drbd_send wb Drbd_Packet_Cmd.Data bn id sizeof_Drbd_Data_Packet ds
        od).1 id).mdev.wire_protocol = wb.mdev.wire_protocol := by
      rw [c1]; exact hwp
    have hpc3 : (tl_add (drbd_send wb Drbd_Packet_Cmd.Data bn id sizeof_Drbd_Data_Packet ds
        od).1 id).mdev.pending_cnt = wb.mdev.pending_cnt := by
      rw [c1]; exact hpc
    have htr : ∀ e ∈ d2 ++ d3, e.isSetBlockStatus = false := by
      intro e he
      rcases List.mem_append.1 he with h | h
      · exact b4 e h
      · exact c4 e h
    rw [hwp3]
    refine ⟨hret, ?_, ?_, d2 ++ d3, ?_, htr⟩
    · rw [← p2]
      split
      · apply same_ring_entries
        unfold inc_pending
        dsimp only
        rw [c1]
        exact ⟨rfl, rfl, rfl, rfl⟩
      · rw [c1]
    · split
      · unfold inc_pending
        dsimp only
        rw [hpc3]
      · exact hpc3
    · split
      · dsimp only
        rw [c3, b3, List.append_assoc]
      · rw [c3, b3, List.append_assoc]
  · have hret : ¬ (drbd_send wb Drbd_Packet_Cmd.Data bn id sizeof_Drbd_Data_Packet ds od).2 =
        ((ds + sizeof_Drbd_Data_Packet : Nat) : Int) := by
      rw [hsz]; exact fun h => hnot (hiff.1 h)
    unfold drbd_send_data
    dsimp only
    rw [hwb]
    unfold drbd_send_data_logged
    rw [if_pos hid, if_neg hret]
    dsimp only
    refine ⟨rfl, same_ring_entries hsr, hpc, d2, ?_⟩
    rw [b3, hbs]
  · unfold drbd_send_data
    dsimp only
    rw [hwb]
    unfold drbd_send_data_logged
    rw [if_neg (fun h => h hid)]
    exact ⟨rfl, same_ring_entries hsr, hpc, d2, b3, b4⟩

theorem data_logged_iff_sent_witness :
    tl_wf world_flagged.mdev ∧ tl_count world_flagged.mdev + 2 < world_flagged.mdev.tl_size ∧
    (101 : Nat) ≠ ID_SYNCER ∧
    sent_whole (test_and_send_barrier world_flagged barrier_taken) data_taken
      (sizeof_Drbd_Data_Packet + 4096) ∧
    ¬ sent_whole (test_and_send_barrier world_flagged barrier_taken) data_short
      (sizeof_Drbd_Data_Packet + 4096) ∧
    (test_and_send_barrier world_flagged barrier_taken).mdev.pending_cnt = 1 ∧
    (drbd_send_data world_flagged 4096 1 101 barrier_taken data_taken).1.mdev.pending_cnt = 2 ∧
    (drbd_send_data world_flagged 4096 1 101 barrier_taken data_taken).2 = 4120 ∧
    tl_entries (drbd_send_data world_flagged 4096 1 101 barrier_taken data_taken).1.mdev =
      tl_entries (test_and_send_barrier world_flagged barrier_taken).mdev ++ [⟨101, 8⟩] ∧
    (drbd_send_data world_flagged 4096 1 101 barrier_taken data_short).2 = 0 ∧
    (drbd_send_data world_flagged 4096 1 101 barrier_taken data_short).1.mdev.pending_cnt = 1 ∧
    tl_entries (drbd_send_data world_flagged 4096 1 101 barrier_taken data_short).1.mdev =
      tl_entries (test_and_send_barrier world_flagged barrier_taken).mdev :=
  ⟨by decide, by decide, by decide, by decide, by decide, by decide, by decide, by decide,
   ((data_logged_iff_sent world_flagged 4096 1 101 barrier_taken data_taken (by decide)
      (by decide)).2.1 (by decide) (by decide)).2.1,
   by decide, by decide,
   ((data_logged_iff_sent world_flagged 4096 1 101 barrier_taken data_short (by decide)
      (by decide)).2.2.1 (by decide) (by decide)).2.1⟩

/-! ## The acknowledgements of the Secondary -/

theorem getD_set_entry (l : List Tl_epoch_entry) (i j : Nat) (x : Tl_epoch_entry) :
    (l.set i x).getD j default = if j = i ∧ i < l.length then x else l.getD j default := by
  rw [List.getD_eq_getElem?_getD, List.getD_eq_getElem?_getD, List.getElem?_set]
  by_cases h : i = j
  · subst h
    by_cases h2 : i < l.length
    · simp [h2]
    · simp [h2]
      rw [List.getElem?_eq_none (by omega)]
      rfl
  · rw [if_neg h, if_neg (fun hh => h hh.1.symm)]

theorem epoch_seg_succ (m : Drbd_Conf) (i n : Nat) :
    epoch_seg m i (n + 1) = m.epoch_set.getD i default :: epoch_seg m (i + 1) n := by
  unfold epoch_seg
  rw [List.range'_succ, List.map_cons]

theorem epoch_seg_congr (m m1 : Drbd_Conf) (i n : Nat)
    (h : ∀ j, i ≤ j → m1.epoch_set.getD j default = m.epoch_set.getD j default) :
    epoch_seg m1 i n = epoch_seg m i n := by
  unfold epoch_seg
  apply List.map_congr_left
  intro j hj
  rw [List.mem_range'_1] at hj
  exact h j hj.1

theorem epoch_live_seg (m : Drbd_Conf) : epoch_live m = epoch_seg m 0 m.epoch_size := by
  unfold epoch_live epoch_seg
  rw [List.range_eq_range']

theorem write_acked_append (a b : List Event) :
    write_acked (a ++ b) = write_acked a ++ write_acked b := by
  unfold write_acked
  exact List.filterMap_append _ _ _

theorem barrier_acked_append (a b : List Event) :
    barrier_acked (a ++ b) = barrier_acked a ++ barrier_acked b := by
  unfold barrier_acked
  exact List.filterMap_append _ _ _

theorem filterMap_filter_of {α β : Type} (f : α → Option β) (p : α → Bool)
    (h : ∀ x, p x = false → f x = none) :
    ∀ l : List α, (l.filter p).filterMap f = l.filterMap f
  | [] => rfl
  | x :: t => by
    have ih := filterMap_filter_of f p h t
    cases hp : p x with
    | true => rw [List.filter_cons_of_pos hp, List.filterMap_cons, List.filterMap_cons, ih]
    | false =>
      rw [List.filter_cons_of_neg (by rw [hp]; decide), List.filterMap_cons, h x hp, ih]

theorem write_acked_wire (d : List Event) : write_acked (wire_of d) = write_acked d := by
  unfold write_acked wire_of
  apply filterMap_filter_of
  intro x hx
  cases x <;> first | rfl | exact Bool.noConfusion hx

theorem barrier_acked_wire (d : List Event) : barrier_acked (wire_of d) = barrier_acked d := by
  unfold barrier_acked wire_of
  apply filterMap_filter_of
  intro x hx
  cases x <;> first | rfl | exact Bool.noConfusion hx

theorem drbd_send_ack_taken_eq (w : World) (cmd : Drbd_Packet_Cmd) (a b : Nat) (o : SendOutcome)
    (hw : wired w) (ho : taken o sizeof_Drbd_BlockAck_Packet) :
    (drbd_send_ack w cmd a b o).1 =
      { w with trace := w.trace ++ [Event.send cmd a b sizeof_Drbd_BlockAck_Packet 0
        ((sizeof_Drbd_BlockAck_Packet + 0 : Nat) : Int)] } := by
  unfold drbd_send_ack
  rw [drbd_send_taken_eq w cmd a b sizeof_Drbd_BlockAck_Packet 0 o hw ho]

theorem u32_dec_pos (x : Nat) (h1 : 0 < x) (h2 : x < 2 ^ 32) : u32_dec x = x - 1 := by
  unfold u32_dec
  rw [Nat.mod_eq_of_lt h2, if_neg (by omega)]

theorem default_entry_block_id : (default : Tl_epoch_entry).block_id = 0 := rfl

theorem entry_in_range (l : List Tl_epoch_entry) (i : Nat)
    (h : (l.getD i default).block_id ≠ 0) : i < l.length := by
  by_contra hn
  rw [List.getD_eq_default _ _ (by omega)] at h
  exact h default_entry_block_id

theorem sec_frame_refl (w : World) (hw : wired w) : sec_frame w w := ⟨hw, rfl, rfl, rfl, rfl⟩

theorem sec_frame_trans {w w1 w2 : World} (h1 : sec_frame w w1) (h2 : sec_frame w1 w2) :
    sec_frame w w2 :=
  ⟨h2.1, h2.2.1.trans h1.2.1, h2.2.2.1.trans h1.2.2.1, h2.2.2.2.1.trans h1.2.2.2.1,
    h2.2.2.2.2.trans h1.2.2.2.2⟩

theorem acked_at_frame (w : World) (i : Nat) (x : Tl_epoch_entry) (hw : wired w) :
    sec_frame w (acked_at w i x) ∧ (acked_at w i x).mdev.sync_log = w.mdev.sync_log ∧
    (acked_at w i x).mdev.unacked_cnt = u32_dec w.mdev.unacked_cnt ∧
    (∀ j, j ≠ i → (acked_at w i x).mdev.epoch_set.getD j default =
      w.mdev.epoch_set.getD j default) := by
  refine ⟨⟨hw, rfl, rfl, rfl, ?_⟩, rfl, rfl, fun j hj => ?_⟩
  · show (w.mdev.epoch_set.set i x).length = _
    rw [List.length_set]
  · show (w.mdev.epoch_set.set i x).getD j default = _
    rw [getD_set_entry, if_neg (fun h => hj h.1)]

theorem acked_at_self (w : World) (i : Nat) (x : Tl_epoch_entry)
    (h : i < w.mdev.epoch_set.length) :
    (acked_at w i x).mdev.epoch_set.getD i default = x := by
  show (w.mdev.epoch_set.set i x).getD i default = _
  rw [getD_set_entry, if_pos ⟨rfl, h⟩]

theorem asender_epoch_loop_ready (o : Nat → SendOutcome) (n i : Nat) (w : World) (hw : wired w)
    (ho : taken (o i) sizeof_Drbd_BlockAck_Packet)
    (hr : (w.mdev.epoch_set.getD i default).ready = true) :
    asender_epoch_loop o (n + 1) i w =
      asender_epoch_loop o n (i + 1)
        (acked_at w i { w.mdev.epoch_set.getD i default with block_id := 0 }) := by
  have hr2 : (w.mdev.epoch_set.getD i default).block_id ≠ 0 ∧
      (w.mdev.epoch_set.getD i default).bh.uptodate = true := by
    unfold Tl_epoch_entry.ready at hr
    exact of_decide_eq_true hr
  have hw1 : wired ({ w with mdev := { w.mdev with epoch_set := (w.mdev.epoch_set.set i
      { w.mdev.epoch_set.getD i default with block_id := 0 }) } } : World) := hw
  rw [asender_epoch_loop]
  dsimp only
  rw [if_pos hr2, drbd_send_ack_taken_eq _ _ _ _ _ hw1 ho]
  rfl

theorem asender_epoch_loop_skip (o : Nat → SendOutcome) (n i : Nat) (w : World)
    (hr : (w.mdev.epoch_set.getD i default).ready = false) :
    asender_epoch_loop o (n + 1) i w = asender_epoch_loop o n (i + 1) w := by
  have hr2 : ¬ ((w.mdev.epoch_set.getD i default).block_id ≠ 0 ∧
      (w.mdev.epoch_set.getD i default).bh.uptodate = true) := by
    unfold Tl_epoch_entry.ready at hr
    exact of_decide_eq_false hr
  rw [asender_epoch_loop]
  dsimp only
  rw [if_neg hr2]

theorem asender_epoch_loop_effect (o : Nat → SendOutcome)
    (ho : ∀ j, taken (o j) sizeof_Drbd_BlockAck_Packet) :
    ∀ (n i : Nat) (w : World), wired w →
      sec_frame w (asender_epoch_loop o n i w) ∧
      (asender_epoch_loop o n i w).mdev.sync_log = w.mdev.sync_log ∧
      (∀ j, j < i → (asender_epoch_loop o n i w).mdev.epoch_set.getD j default =
        w.mdev.epoch_set.getD j default) ∧
      epoch_seg (asender_epoch_loop o n i w).mdev i n =
        (epoch_seg w.mdev i n).map Tl_epoch_entry.scanned ∧
      (∃ d, (asender_epoch_loop o n i w).trace = w.trace ++ d ∧
        wire_of d = ((epoch_seg w.mdev i n).filter Tl_epoch_entry.ready).map write_ack_of) ∧
      (w.mdev.unacked_cnt < 2 ^ 32 →
        ((epoch_seg w.mdev i n).filter Tl_epoch_entry.ready).length ≤ w.mdev.unacked_cnt →
        (asender_epoch_loop o n i w).mdev.unacked_cnt =
          w.mdev.unacked_cnt - ((epoch_seg w.mdev i n).filter Tl_epoch_entry.ready).length)
  | 0, i, w, hw => by
    unfold asender_epoch_loop
    exact ⟨sec_frame_refl w hw, rfl, fun _ _ => rfl, rfl, ⟨[], (List.append_nil _).symm, rfl⟩,
      fun _ _ => rfl⟩
  | n + 1, i, w, hw => by
    rw [epoch_seg_succ, epoch_seg_succ]
    cases hr : (w.mdev.epoch_set.getD i default).ready with
    | true =>
      have hlt : i < w.mdev.epoch_set.length := by
        apply entry_in_range
        unfold Tl_epoch_entry.ready at hr
        exact (of_decide_eq_true hr).1
      rw [asender_epoch_loop_ready o n i w hw (ho i) hr]
      obtain ⟨f1, f2, f3, f4⟩ := acked_at_frame w i
        { w.mdev.epoch_set.getD i default with block_id := 0 } hw
      have f5 := acked_at_self w i { w.mdev.epoch_set.getD i default with block_id := 0 } hlt
      obtain ⟨g1, g2, g3, g4, ⟨d, g5, g6⟩, g7⟩ := asender_epoch_loop_effect o ho n (i + 1)
        (acked_at w i { w.mdev.epoch_set.getD i default with block_id := 0 }) f1.1
      have hseg : epoch_seg (acked_at w i
          { w.mdev.epoch_set.getD i default with block_id := 0 }).mdev (i + 1) n =
          epoch_seg w.mdev (i + 1) n :=
        epoch_seg_congr _ _ _ _ (fun j hj => f4 j (by omega))
      rw [hseg] at g4 g6 g7
      refine ⟨sec_frame_trans f1 g1, g2.trans f2, fun j hj => ?_, ?_, ?_, ?_⟩
      · rw [g3 j (by omega), f4 j (by omega)]
      · rw [List.map_cons, g4, g3 i (by omega), f5]
        congr 1
        unfold Tl_epoch_entry.scanned
        rw [if_pos hr]
      · refine ⟨write_ack_of (w.mdev.epoch_set.getD i default) :: d, ?_, ?_⟩
        · rw [g5]
          show w.trace ++ [_] ++ d = _
          rw [List.append_assoc]; rfl
        · rw [List.filter_cons_of_pos hr, List.map_cons, ← g6]
          rfl
      · intro hu hc
        rw [List.filter_cons_of_pos hr, List.length_cons] at hc ⊢
        have hu1 : (acked_at w i
            { w.mdev.epoch_set.getD i default with block_id := 0 }).mdev.unacked_cnt =
            w.mdev.unacked_cnt - 1 := by
          rw [f3]; exact u32_dec_pos _ (by omega) hu
        rw [g7 (by omega) (by omega), hu1]
        omega
    | false =>
      rw [asender_epoch_loop_skip o n i w hr]
      obtain ⟨g1, g2, g3, g4, ⟨d, g5, g6⟩, g7⟩ := asender_epoch_loop_effect o ho n (i + 1) w hw
      refine ⟨g1, g2, fun j hj => g3 j (by omega), ?_, ⟨d, g5, ?_⟩, ?_⟩
      · rw [List.map_cons, g4, g3 i (by omega)]
        congr 1
        unfold Tl_epoch_entry.scanned
        rw [if_neg (by rw [hr]; decide)]
      · rw [List.filter_cons_of_neg (by rw [hr]; decide)]
        exact g6
      · rw [List.filter_cons_of_neg (by rw [hr]; decide)]
        exact g7

theorem waited_at_frame (w : World) (i : Nat) (hw : wired w) :
    sec_frame w (waited_at w i) ∧ (waited_at w i).mdev.sync_log = w.mdev.sync_log ∧
    (waited_at w i).mdev.unacked_cnt = w.mdev.unacked_cnt ∧
    (waited_at w i).trace = w.trace ∧
    (∀ j, j ≠ i → (waited_at w i).mdev.epoch_set.getD j default =
      w.mdev.epoch_set.getD j default) := by
  refine ⟨⟨hw, rfl, rfl, rfl, ?_⟩, rfl, rfl, rfl, fun j hj => ?_⟩
  · show (w.mdev.epoch_set.set i _).length = _
    rw [List.length_set]
  · show (w.mdev.epoch_set.set i _).getD j default = _
    rw [getD_set_entry, if_neg (fun h => hj h.1)]

theorem receive_barrier_loop_ack (o : Nat → SendOutcome) (n i : Nat) (w : World) (hw : wired w)
    (ho : taken (o i) sizeof_Drbd_BlockAck_Packet)
    (hr : w.mdev.wire_protocol = DRBD_PROT_C ∧ (w.mdev.epoch_set.getD i default).block_id ≠ 0) :
    receive_barrier_loop o (n + 1) i w =
      receive_barrier_loop o n (i + 1)
        (acked_at w i ⟨{ (w.mdev.epoch_set.getD i default).bh with uptodate := true }, 0⟩) := by
  have hw1 : wired ({ w with mdev := { w.mdev with epoch_set := (w.mdev.epoch_set.set i
      ⟨{ (w.mdev.epoch_set.getD i default).bh with uptodate := true }, 0⟩) } } : World) := hw
  rw [receive_barrier_loop]
  dsimp only
  rw [if_pos hr, drbd_send_ack_taken_eq _ _ _ _ _ hw1 ho]
  rfl

theorem receive_barrier_loop_wait (o : Nat → SendOutcome) (n i : Nat) (w : World)
    (hr : ¬ (w.mdev.wire_protocol = DRBD_PROT_C ∧
      (w.mdev.epoch_set.getD i default).block_id ≠ 0)) :
    receive_barrier_loop o (n + 1) i w = receive_barrier_loop o n (i + 1) (waited_at w i) := by
  rw [receive_barrier_loop]
  dsimp only
  rw [if_neg hr]
  rfl

theorem receive_barrier_loop_effect (o : Nat → SendOutcome) :
    ∀ (n i : Nat) (w : World), wired w →
      (∀ j, i ≤ j → j < i + n → taken (o j) sizeof_Drbd_BlockAck_Packet) →
      sec_frame w (receive_barrier_loop o n i w) ∧
      (receive_barrier_loop o n i w).mdev.sync_log = w.mdev.sync_log ∧
      (∃ d, (receive_barrier_loop o n i w).trace = w.trace ++ d ∧
        wire_of d = (if w.mdev.wire_protocol = DRBD_PROT_C then
          ((epoch_seg w.mdev i n).filter Tl_epoch_entry.owed).map write_ack_of
          else [])) ∧
      (w.mdev.unacked_cnt < 2 ^ 32 →
        (w.mdev.wire_protocol = DRBD_PROT_C →
          ((epoch_seg w.mdev i n).filter Tl_epoch_entry.owed).length ≤
            w.mdev.unacked_cnt) →
        (receive_barrier_loop o n i w).mdev.unacked_cnt =
          w.mdev.unacked_cnt - (if w.mdev.wire_protocol = DRBD_PROT_C then
            ((epoch_seg w.mdev i n).filter Tl_epoch_entry.owed).length else 0))
  | 0, i, w, hw, _ => by
    unfold receive_barrier_loop
    refine ⟨sec_frame_refl w hw, rfl, ⟨[], (List.append_nil _).symm, ?_⟩, fun _ _ => ?_⟩
    · split <;> rfl
    · split <;> rfl
  | n + 1, i, w, hw, ho => by
    rw [epoch_seg_succ]
    by_cases hr : w.mdev.wire_protocol = DRBD_PROT_C ∧
        (w.mdev.epoch_set.getD i default).block_id ≠ 0
    · rw [receive_barrier_loop_ack o n i w hw (ho i (Nat.le_refl _) (by omega)) hr]
      obtain ⟨f1, f2, f3, f4⟩ := acked_at_frame w i
        ⟨{ (w.mdev.epoch_set.getD i default).bh with uptodate := true }, 0⟩ hw
      obtain ⟨g1, g2, ⟨d, g5, g6⟩, g7⟩ := receive_barrier_loop_effect o n (i + 1)
        (acked_at w i ⟨{ (w.mdev.epoch_set.getD i default).bh with uptodate := true }, 0⟩) f1.1
        (fun j h1 h2 => ho j (by omega) (by omega))
      have hseg : epoch_seg (acked_at w i
          ⟨{ (w.mdev.epoch_set.getD i default).bh with uptodate := true }, 0⟩).mdev (i + 1) n =
          epoch_seg w.mdev (i + 1) n :=
        epoch_seg_congr _ _ _ _ (fun j hj => f4 j (by omega))
      rw [hseg, f1.2.2.1] at g6 g7
      have hp : (w.mdev.epoch_set.getD i default).owed = true := decide_eq_true hr.2
      rw [if_pos hr.1] at g6 g7 ⊢
      rw [List.filter_cons_of_pos hp]
      refine ⟨sec_frame_trans f1 g1, g2.trans f2, ?_, ?_⟩
      · refine ⟨write_ack_of (w.mdev.epoch_set.getD i default) :: d, ?_, ?_⟩
        · rw [g5]
          show w.trace ++ [_] ++ d = _
          rw [List.append_assoc]; rfl
        · rw [List.map_cons, ← g6]
          rfl
      · intro hu hc
        have hc2 := hc hr.1
        rw [List.length_cons] at hc2 ⊢
        have hu1 : (acked_at w i ⟨{ (w.mdev.epoch_set.getD i default).bh with
            uptodate := true }, 0⟩).mdev.unacked_cnt = w.mdev.unacked_cnt - 1 := by
          rw [f3]; exact u32_dec_pos _ (by omega) hu
        rw [if_pos hr.1, g7 (by omega) (fun _ => by omega), hu1]
        omega
    · rw [receive_barrier_loop_wait o n i w hr]
      obtain ⟨f1, f2, f3, f5, f4⟩ := waited_at_frame w i hw
      obtain ⟨g1, g2, ⟨d, g5, g6⟩, g7⟩ := receive_barrier_loop_effect o n (i + 1)
        (waited_at w i) f1.1 (fun j h1 h2 => ho j (by omega) (by omega))
      have hseg : epoch_seg (waited_at w i).mdev (i + 1) n = epoch_seg w.mdev (i + 1) n :=
        epoch_seg_congr _ _ _ _ (fun j hj => f4 j (by omega))
      rw [hseg, f1.2.2.1] at g6 g7
      rw [f3] at g7
      refine ⟨sec_frame_trans f1 g1, g2.trans f2, ⟨d, by rw [g5, f5], ?_⟩, ?_⟩
      · by_cases hC : w.mdev.wire_protocol = DRBD_PROT_C
        · rw [if_pos hC] at g6 ⊢
          rw [List.filter_cons_of_neg (by
            have : ¬ (w.mdev.epoch_set.getD i default).block_id ≠ 0 := fun h => hr ⟨hC, h⟩
            unfold Tl_epoch_entry.owed
            simpa using this)]
          exact g6
        · rw [if_neg hC] at g6 ⊢
          exact g6
      · intro hu hc
        by_cases hC : w.mdev.wire_protocol = DRBD_PROT_C
        · have hn : ¬ (w.mdev.epoch_set.getD i default).owed = true := by
            have : ¬ (w.mdev.epoch_set.getD i default).block_id ≠ 0 := fun h => hr ⟨hC, h⟩
            unfold Tl_epoch_entry.owed
            simpa using this
          have hc2 := hc hC
          rw [List.filter_cons_of_neg hn] at hc2
          rw [if_pos hC] at g7 ⊢
          rw [List.filter_cons_of_neg hn]
          exact g7 hu (fun _ => hc2)
        · rw [if_neg hC] at g7 ⊢
          exact g7 hu (fun h => absurd h hC)

theorem epoch_pending_seg (m : Drbd_Conf) :
    epoch_pending m = (epoch_seg m 0 m.epoch_size).filter Tl_epoch_entry.owed := by
  unfold epoch_pending
  rw [epoch_live_seg]

theorem drbd_send_b_ack_taken_eq (w : World) (a b : Nat) (o : SendOutcome)
    (hw : wired w) (ho : taken o sizeof_Drbd_BarrierAck_Packet) :
    (drbd_send_b_ack w a b o).1 =
      { w with trace := w.trace ++ [Event.send Drbd_Packet_Cmd.BarrierAck a b
        sizeof_Drbd_BarrierAck_Packet 0 ((sizeof_Drbd_BarrierAck_Packet + 0 : Nat) : Int)] } := by
  unfold drbd_send_b_ack
  rw [drbd_send_taken_eq w _ a b sizeof_Drbd_BarrierAck_Packet 0 o hw ho]

/-- What `receive_barrier` does on a connection that takes its
acknowledgements whole. -/
theorem receive_barrier_effect (w : World) (nr : Nat) (o : Nat → SendOutcome) (hw : wired w)
    (ho : ∀ j, j < w.mdev.epoch_size → taken (o j) sizeof_Drbd_BlockAck_Packet)
    (hb : taken (o w.mdev.epoch_size) sizeof_Drbd_BarrierAck_Packet) :
    (receive_barrier w (some nr) o).2 = true ∧
    wired (receive_barrier w (some nr) o).1 ∧
    (receive_barrier w (some nr) o).1.mdev.state = w.mdev.state ∧
    (receive_barrier w (some nr) o).1.mdev.wire_protocol = w.mdev.wire_protocol ∧
    (receive_barrier w (some nr) o).1.mdev.epoch_size = 0 ∧
    (receive_barrier w (some nr) o).1.mdev.epoch_set = [] ∧
    (receive_barrier w (some nr) o).1.mdev.sync_log = w.mdev.sync_log ∧
    (∃ d, (receive_barrier w (some nr) o).1.trace = w.trace ++ d ∧
      wire_of d =
        (if w.mdev.wire_protocol = DRBD_PROT_C then (epoch_pending w.mdev).map write_ack_of
         else []) ++
        [Event.send Drbd_Packet_Cmd.BarrierAck nr w.mdev.epoch_size
          sizeof_Drbd_BarrierAck_Packet 0 ((sizeof_Drbd_BarrierAck_Packet + 0 : Nat) : Int)]) ∧
    (w.mdev.unacked_cnt + 1 < 2 ^ 32 →
      (w.mdev.wire_protocol = DRBD_PROT_C →
        (epoch_pending w.mdev).length ≤ w.mdev.unacked_cnt) →
      (receive_barrier w (some nr) o).1.mdev.unacked_cnt =
        w.mdev.unacked_cnt - (if w.mdev.wire_protocol = DRBD_PROT_C
          then (epoch_pending w.mdev).length else 0)) := by
  rw [epoch_pending_seg]
  unfold receive_barrier
  dsimp only
  generalize hw0 : (if w.mdev.state ≠ Drbd_State.Secondary
      then ({ w with trace := w.trace ++ [Event.printk Msg.got_barrier_while_not_SEC] } : World)
      else w) = w0
  have h0 : w0.mdev = w.mdev ∧ ∃ d0, w0.trace = w.trace ++ d0 ∧ wire_of d0 = [] := by
    rw [← hw0]
    split
    · exact ⟨rfl, _, rfl, rfl⟩
    · exact ⟨rfl, [], (List.append_nil _).symm, rfl⟩
  obtain ⟨hm, d0, ht0, hwd0⟩ := h0
  have hw1 : wired ({ w0 with mdev := inc_unacked w0.mdev } : World) := by
    unfold wired inc_unacked
    dsimp only
    rw [hm]; exact hw
  obtain ⟨f1, f2, ⟨d1, f3, f4⟩, f5⟩ := receive_barrier_loop_effect o
    (inc_unacked w0.mdev).epoch_size 0 { w0 with mdev := inc_unacked w0.mdev } hw1
    (fun j _ hj => ho j (by
      have : (inc_unacked w0.mdev).epoch_size = w.mdev.epoch_size := by rw [← hm]; rfl
      omega))
  have e1 : (inc_unacked w0.mdev).epoch_size = w.mdev.epoch_size := by rw [← hm]; rfl
  have e2 : ({ w0 with mdev := inc_unacked w0.mdev } : World).mdev.wire_protocol =
      w.mdev.wire_protocol := by rw [← hm]; rfl
  have e3 : epoch_seg ({ w0 with mdev := inc_unacked w0.mdev } : World).mdev 0
      (inc_unacked w0.mdev).epoch_size = epoch_seg w.mdev 0 w.mdev.epoch_size := by
    rw [e1]
    exact epoch_seg_congr _ _ _ _ (fun j _ => by rw [← hm]; rfl)
  have e4 : ({ w0 with mdev := inc_unacked w0.mdev } : World).mdev.unacked_cnt =
      (w.mdev.unacked_cnt + 1) % 2 ^ 32 := by rw [← hm]; rfl
  rw [e2, e3] at f4 f5
  rw [e4] at f5
  generalize receive_barrier_loop o (inc_unacked w0.mdev).epoch_size 0
    { w0 with mdev := inc_unacked w0.mdev } = L at f1 f2 f3 f5
  have hw3 : wired ({ L with mdev := { L.mdev with epoch_size := 0, epoch_set := [] } } : World) :=
    f1.1
  rw [drbd_send_b_ack_taken_eq _ _ _ _ hw3 (by rw [e1]; exact hb)]
  dsimp only
  refine ⟨rfl, hw3, ?_, ?_, rfl, rfl, ?_, ⟨d0 ++ d1 ++ [Event.send Drbd_Packet_Cmd.BarrierAck nr
    w.mdev.epoch_size sizeof_Drbd_BarrierAck_Packet 0
    ((sizeof_Drbd_BarrierAck_Packet + 0 : Nat) : Int)], ?_, ?_⟩, ?_⟩
  · show L.mdev.state = _
    rw [f1.2.1]; show w0.mdev.state = _; rw [hm]
  · show L.mdev.wire_protocol = _
    rw [f1.2.2.1]; exact e2
  · show L.mdev.sync_log = _
    rw [f2]; show w0.mdev.sync_log = _; rw [hm]
  · show L.trace ++ _ = _
    rw [f3]
    show w0.trace ++ d1 ++ _ = _
    rw [ht0, e1, List.append_assoc, List.append_assoc, List.append_assoc]
  · rw [wire_of_append, wire_of_append, hwd0, f4, List.nil_append]
    rfl
  · intro hu hc
    show u32_dec L.mdev.unacked_cnt = _
    rw [Nat.mod_eq_of_lt hu] at f5
    have h5 := f5 (by omega) (fun hC => by have := hc hC; omega)
    rw [h5]
    by_cases hC : w.mdev.wire_protocol = DRBD_PROT_C
    · have := hc hC
      rw [if_pos hC]
      rw [u32_dec_pos _ (by omega) (by omega)]
      omega
    · rw [if_neg hC]
      rw [u32_dec_pos _ (by omega) (by omega)]
      omega

theorem wire_of_nil_of (d : List Event) (h : ∀ e ∈ d, e.isSend = false) : wire_of d = [] := by
  unfold wire_of
  rw [List.filter_eq_nil_iff]
  intro e he
  rw [h e he]
  decide

/-- What `receive_data` does with a Data packet whose header has arrived. -/
theorem receive_data_effect (fuel : Nat) (w w1 : World) (ds bn id : Nat) (gb pl r : Bool)
    (o : SendOutcome)
    (h : receive_data fuel w ds ⟨some (bn, id), gb, pl⟩ o = some (w1, r)) :
    r = (gb && pl) ∧
    w1.mdev.state = w.mdev.state ∧ w1.mdev.wire_protocol = w.mdev.wire_protocol ∧
    w1.mdev.sock = w.mdev.sock ∧
    (o.signalled = false ∧ 0 ≤ o.err → w1.mdev.cstate = w.mdev.cstate) ∧
    ∃ d, w1.trace = w.trace ++ d ∧
      (id ≠ ID_SYNCER →
        w1.mdev.sync_log = w.mdev.sync_log ∧
        wire_of d = (if r = true ∧ w.mdev.wire_protocol = DRBD_PROT_B ∧ wired w then
          [Event.send Drbd_Packet_Cmd.RecvAck bn id sizeof_Drbd_BlockAck_Packet 0 o.err]
          else []) ∧
        (gb = false → w1.mdev.epoch_size = w.mdev.epoch_size ∧
          w1.mdev.epoch_set = w.mdev.epoch_set ∧ w1.mdev.unacked_cnt = w.mdev.unacked_cnt) ∧
        (gb = true → w1.mdev.epoch_size = w.mdev.epoch_size + 1 ∧
          w1.mdev.epoch_set = w.mdev.epoch_set.take w.mdev.epoch_size ++ [⟨⟨bn, false⟩, id⟩] ∧
          w1.mdev.unacked_cnt =
            (if w.mdev.wire_protocol = DRBD_PROT_A then w.mdev.unacked_cnt
             else if r = true ∧ w.mdev.wire_protocol = DRBD_PROT_B
               then u32_dec ((w.mdev.unacked_cnt + 1) % 2 ^ 32)
               else (w.mdev.unacked_cnt + 1) % 2 ^ 32))) ∧
      (id = ID_SYNCER →
        w1.mdev.epoch_size = w.mdev.epoch_size ∧ w1.mdev.epoch_set = w.mdev.epoch_set ∧
        w1.mdev.unacked_cnt = w.mdev.unacked_cnt ∧
        (gb = false → w1.mdev.sync_log = w.mdev.sync_log ∧ wire_of d = []) ∧
        (gb = true →
          (sync_log_insert ⟨bn, false⟩ w.mdev.sync_log = none ∧
            w1.mdev.sync_log = w.mdev.sync_log ∧ wire_of d = [] ∧
            Event.printk Msg.SYNC_LOG_S_too_small ∈ d) ∨
          (∃ sl rb, sync_log_insert ⟨bn, false⟩ w.mdev.sync_log = some (sl, rb) ∧
            w1.mdev.sync_log = sl ∧
            wire_of d = (if wired w then rb.toList.map (fun bnr =>
              Event.send Drbd_Packet_Cmd.WriteAck bnr ID_SYNCER sizeof_Drbd_BlockAck_Packet 0
                o.err) else [])))) := by
  unfold receive_data at h
  dsimp only at h
  generalize hw0 : (if w.mdev.state ≠ Drbd_State.Secondary
      then ({ w with trace := w.trace ++ [Event.printk Msg.got_data_while_not_SEC] } : World)
      else w) = w0 at h
  have h0 : w0.mdev = w.mdev ∧ ∃ d0, w0.trace = w.trace ++ d0 ∧ wire_of d0 = [] ∧
      Event.printk Msg.SYNC_LOG_S_too_small ∉ d0 := by
    rw [← hw0]
    split
    · exact ⟨rfl, _, rfl, rfl, by simp⟩
    · exact ⟨rfl, [], (List.append_nil _).symm, rfl, by simp⟩
  split at h
  · exact Option.noConfusion h
  · next wx hx =>
    have hwx : wx.mdev = { w.mdev with blk_size_b := wx.mdev.blk_size_b } ∧
        ∃ dx, wx.trace = w.trace ++ dx ∧ wire_of dx = [] := by
      obtain ⟨hm, d0, ht, hd, -⟩ := h0
      split at hx
      · split at hx
        · exact Option.noConfusion hx
        · cases hx
          refine ⟨?_, d0 ++ [Event.printk (Msg.blksize ds)], ?_, ?_⟩
          · dsimp only; rw [hm]
          · dsimp only; rw [ht, List.append_assoc]
          · rw [wire_of_append, hd]; rfl
      · cases hx
        exact ⟨by rw [hm], d0, ht, hd⟩
    obtain ⟨hmx, dx, htx, hdx⟩ := hwx
    have hxw : wired wx ↔ wired w := wired_congr _ _ (by rw [hmx]) (by rw [hmx])
    split at h
    · next hgb =>
      have hgb' : gb = false := hgb
      cases h
      subst hgb'
      refine ⟨rfl, by dsimp only; rw [hmx], by dsimp only; rw [hmx], by dsimp only; rw [hmx],
        fun _ => by dsimp only; rw [hmx], dx ++ [Event.printk Msg.getblk_failed], ?_, ?_, ?_⟩
      · dsimp only; rw [htx, List.append_assoc]
      · intro _
        refine ⟨by dsimp only; rw [hmx], ?_, fun _ => ?_, fun hh => Bool.noConfusion hh⟩
        · rw [if_neg (fun hh => Bool.noConfusion hh.1), wire_of_append, hdx]; rfl
        · dsimp only; rw [hmx]; exact ⟨rfl, rfl, rfl⟩
      · intro _
        refine ⟨by dsimp only; rw [hmx], by dsimp only; rw [hmx], by dsimp only; rw [hmx],
          fun _ => ⟨by dsimp only; rw [hmx], ?_⟩, fun hh => Bool.noConfusion hh⟩
        rw [wire_of_append, hdx]; rfl
    · next hgb =>
      have hgb' : gb = true := by
        have : ¬ gb = false := hgb
        simpa using this
      subst hgb'
      generalize hW2 : (if id ≠ ID_SYNCER then (_ : World) else _) = w2 at h
      have F2 : w2.mdev.state = w.mdev.state ∧ w2.mdev.wire_protocol = w.mdev.wire_protocol ∧
          w2.mdev.sock = w.mdev.sock ∧
          (o.signalled = false ∧ 0 ≤ o.err → w2.mdev.cstate = w.mdev.cstate) ∧
          ∃ d2, w2.trace = w.trace ++ d2 ∧
            (id ≠ ID_SYNCER →
              w2.mdev.cstate = w.mdev.cstate ∧ w2.mdev.sync_log = w.mdev.sync_log ∧
              wire_of d2 = [] ∧ w2.mdev.epoch_size = w.mdev.epoch_size + 1 ∧
              w2.mdev.epoch_set = w.mdev.epoch_set.take w.mdev.epoch_size ++
                [⟨⟨bn, false⟩, id⟩] ∧
              w2.mdev.unacked_cnt = (if w.mdev.wire_protocol = DRBD_PROT_A
                then w.mdev.unacked_cnt else (w.mdev.unacked_cnt + 1) % 2 ^ 32)) ∧
            (id = ID_SYNCER →
              w2.mdev.epoch_size = w.mdev.epoch_size ∧ w2.mdev.epoch_set = w.mdev.epoch_set ∧
              w2.mdev.unacked_cnt = w.mdev.unacked_cnt ∧
              ((sync_log_insert ⟨bn, false⟩ w.mdev.sync_log = none ∧
                  w2.mdev.sync_log = w.mdev.sync_log ∧ wire_of d2 = [] ∧
                  Event.printk Msg.SYNC_LOG_S_too_small ∈ d2) ∨
                (∃ sl rb, sync_log_insert ⟨bn, false⟩ w.mdev.sync_log = some (sl, rb) ∧
                  w2.mdev.sync_log = sl ∧
                  wire_of d2 = (if wired w then rb.toList.map (fun bnr =>
                    Event.send Drbd_Packet_Cmd.WriteAck bnr ID_SYNCER
                      sizeof_Drbd_BlockAck_Packet 0 o.err) else [])))) := by
        rw [← hW2]
        by_cases hid : id = ID_SYNCER
        · rw [if_neg (not_not.2 hid)]
          have hsl : wx.mdev.sync_log = w.mdev.sync_log := by rw [hmx]
          rw [hsl]
          split
          · next hins =>
            refine ⟨by dsimp only; rw [hmx], by dsimp only; rw [hmx], by dsimp only; rw [hmx],
              fun _ => by dsimp only; rw [hmx],
              dx ++ [Event.printk Msg.SYNC_LOG_S_too_small], ?_, fun hh => absurd hid hh,
              fun _ => ⟨by dsimp only; rw [hmx], by dsimp only; rw [hmx],
                by dsimp only; rw [hmx], Or.inl ⟨hins, by dsimp only; rw [hmx], ?_, ?_⟩⟩⟩
            · dsimp only; rw [htx, List.append_assoc]
            · rw [wire_of_append, hdx]; rfl
            · simp
          · next sl hins =>
            refine ⟨by dsimp only; rw [hmx], by dsimp only; rw [hmx], by dsimp only; rw [hmx],
              fun _ => by dsimp only; rw [hmx],
              dx, htx, fun hh => absurd hid hh,
              fun _ => ⟨by dsimp only; rw [hmx], by dsimp only; rw [hmx],
                by dsimp only; rw [hmx], Or.inr ⟨sl, none, hins, rfl, ?_⟩⟩⟩
            rw [hdx]
            split <;> rfl
          · next sl bnr hins =>
            unfold drbd_send_ack
            obtain ⟨-, -, d3, b3, b4⟩ := drbd_send_wire
              { wx with mdev := { wx.mdev with sync_log := sl } }
              Drbd_Packet_Cmd.WriteAck bnr ID_SYNCER sizeof_Drbd_BlockAck_Packet 0 o
            have b0 := (drbd_send_mdev { wx with mdev := { wx.mdev with sync_log := sl } }
              Drbd_Packet_Cmd.WriteAck bnr ID_SYNCER sizeof_Drbd_BlockAck_Packet 0 o).1
            have hwc : wired ({ wx with mdev := { wx.mdev with sync_log := sl } } : World) ↔
                wired w := (wired_congr _ wx rfl rfl).trans hxw
            refine ⟨by rw [b0]; dsimp only; rw [hmx], by rw [b0]; dsimp only; rw [hmx],
              by rw [b0]; dsimp only; rw [hmx],
              fun ho => ?_, dx ++ d3, ?_, fun hh => absurd hid hh,
              fun _ => ⟨by rw [b0]; dsimp only; rw [hmx], by rw [b0]; dsimp only; rw [hmx],
                by rw [b0]; dsimp only; rw [hmx], Or.inr ⟨sl, some bnr, hins, by rw [b0], ?_⟩⟩⟩
            · rw [drbd_send_taken _ _ _ _ _ _ o ⟨Or.inr ho.1, ho.2⟩]
              dsimp only; rw [hmx]
            · rw [b3]; dsimp only; rw [htx, List.append_assoc]
            · rw [wire_of_append, hdx, b4, List.nil_append]
              by_cases hw : wired w
              · rw [if_pos hw, if_pos (hwc.2 hw)]; rfl
              · rw [if_neg hw, if_neg (fun hh => hw (hwc.1 hh))]
        · rw [if_pos hid]
          have hp : wx.mdev.wire_protocol = w.mdev.wire_protocol := by rw [hmx]
          refine ⟨?_, ?_, ?_, fun _ => ?_, dx ++ (if wx.mdev.tl_size < wx.mdev.epoch_size + 1
            then [Event.printk Msg.tl_size_too_small] else []), ?_, fun _ => ⟨?_, ?_, ?_, ?_, ?_, ?_⟩,
            fun hh => absurd hh hid⟩
          · dsimp only; split <;> (try unfold inc_unacked) <;> dsimp only <;> rw [hmx]
          · dsimp only; split <;> (try unfold inc_unacked) <;> dsimp only <;> rw [hmx]
          · dsimp only; split <;> (try unfold inc_unacked) <;> dsimp only <;> rw [hmx]
          · dsimp only; split <;> (try unfold inc_unacked) <;> dsimp only <;> rw [hmx]
          · dsimp only; rw [htx, List.append_assoc]
          · dsimp only; split <;> (try unfold inc_unacked) <;> dsimp only <;> rw [hmx]
          · dsimp only; split <;> (try unfold inc_unacked) <;> dsimp only <;> rw [hmx]
          · rw [wire_of_append, hdx]
            split <;> rfl
          · dsimp only; split <;> (try unfold inc_unacked) <;> dsimp only <;> rw [hmx]
          · dsimp only; split <;> (try unfold inc_unacked) <;> dsimp only <;> rw [hmx]
          · dsimp only
            rw [hp]
            by_cases hA : w.mdev.wire_protocol = DRBD_PROT_A
            · rw [if_neg (not_not.2 hA), if_pos hA]
              dsimp only; rw [hmx]
            · rw [if_pos hA, if_neg hA]
              unfold inc_unacked
              dsimp only; rw [hmx]
      obtain ⟨s1, s2, s3, s4, d2, s5, s6, s7⟩ := F2
      split at h
      · next hpl =>
        have hpl' : pl = false := hpl
        subst hpl'
        cases h
        refine ⟨rfl, s1, s2, s3, s4, d2, s5, fun hid => ?_, fun hid => ?_⟩
        · obtain ⟨-, c2, c3, c4, c5, c6⟩ := s6 hid
          refine ⟨c2, ?_, fun hh => Bool.noConfusion hh, fun _ => ⟨c4, c5, ?_⟩⟩
          · rw [if_neg (fun hh => Bool.noConfusion hh.1)]; exact c3
          · rw [c6]
            by_cases hA : w.mdev.wire_protocol = DRBD_PROT_A
            · rw [if_pos hA, if_pos hA]
            · rw [if_neg hA, if_neg hA, if_neg (fun hh => Bool.noConfusion hh.1)]
        · obtain ⟨c1, c2, c3, c4⟩ := s7 hid
          exact ⟨c1, c2, c3, fun hh => Bool.noConfusion hh, fun _ => c4⟩
      · next hpl =>
        have hpl' : pl = true := by
          have : ¬ pl = false := hpl
          simpa using this
        subst hpl'
        generalize hW3 : (if w2.mdev.wire_protocol = DRBD_PROT_B ∧ id ≠ ID_SYNCER
          then (_ : World) else _) = w3 at h
        have F3 : w3.mdev.state = w2.mdev.state ∧
            w3.mdev.wire_protocol = w2.mdev.wire_protocol ∧ w3.mdev.sock = w2.mdev.sock ∧
            (o.signalled = false ∧ 0 ≤ o.err → w3.mdev.cstate = w2.mdev.cstate) ∧
            w3.mdev.epoch_size = w2.mdev.epoch_size ∧ w3.mdev.epoch_set = w2.mdev.epoch_set ∧
            w3.mdev.sync_log = w2.mdev.sync_log ∧
            w3.mdev.unacked_cnt = (if w2.mdev.wire_protocol = DRBD_PROT_B ∧ id ≠ ID_SYNCER
              then u32_dec w2.mdev.unacked_cnt else w2.mdev.unacked_cnt) ∧
            ∃ d3, w3.trace = w2.trace ++ d3 ∧
              wire_of d3 = (if (w2.mdev.wire_protocol = DRBD_PROT_B ∧ id ≠ ID_SYNCER) ∧ wired w2
                then [Event.send Drbd_Packet_Cmd.RecvAck bn id sizeof_Drbd_BlockAck_Packet 0
                  o.err] else []) := by
          rw [← hW3]
          by_cases hc : w2.mdev.wire_protocol = DRBD_PROT_B ∧ id ≠ ID_SYNCER
          · rw [if_pos hc, if_pos hc]
            unfold drbd_send_ack
            obtain ⟨-, -, d3, b3, b4⟩ := drbd_send_wire w2 Drbd_Packet_Cmd.RecvAck bn id
              sizeof_Drbd_BlockAck_Packet 0 o
            have b0 := (drbd_send_mdev w2 Drbd_Packet_Cmd.RecvAck bn id
              sizeof_Drbd_BlockAck_Packet 0 o).1
            refine ⟨by unfold dec_unacked; dsimp only; rw [b0],
              by unfold dec_unacked; dsimp only; rw [b0],
              by unfold dec_unacked; dsimp only; rw [b0], fun ho => ?_,
              by unfold dec_unacked; dsimp only; rw [b0],
              by unfold dec_unacked; dsimp only; rw [b0],
              by unfold dec_unacked; dsimp only; rw [b0],
              by unfold dec_unacked; dsimp only; rw [b0], d3, b3, ?_⟩
            · unfold dec_unacked
              dsimp only
              rw [drbd_send_taken _ _ _ _ _ _ o ⟨Or.inr ho.1, ho.2⟩]
            · rw [b4]
              by_cases hw : wired w2
              · rw [if_pos hw, if_pos ⟨hc, hw⟩]
              · rw [if_neg hw, if_neg (fun hh => hw hh.2)]
          · rw [if_neg hc, if_neg hc]
            exact ⟨rfl, rfl, rfl, fun _ => rfl, rfl, rfl, rfl, rfl, [],
              (List.append_nil _).symm, by rw [if_neg (fun hh => hc hh.1)]; rfl⟩
        obtain ⟨t1, t2, t3, t4, t5, t6, t7, t8, d3, t9, t10⟩ := F3
        cases h
        refine ⟨rfl, t1.trans s1, t2.trans s2, t3.trans s3, fun ho => (t4 ho).trans (s4 ho),
          d2 ++ d3 ++ [Event.ll_rw_block WRITE bn], ?_, fun hid => ?_, fun hid => ?_⟩
        · show w3.trace ++ _ = _
          rw [t9, s5, List.append_assoc, List.append_assoc, List.append_assoc]
        · obtain ⟨c1, c2, c3, c4, c5, c6⟩ := s6 hid
          have hww : wired w2 ↔ wired w := wired_congr _ _ s3 c1
          refine ⟨t7.trans c2, ?_, fun hh => Bool.noConfusion hh,
            fun _ => ⟨t5.trans c4, t6.trans c5, ?_⟩⟩
          · rw [wire_of_append, wire_of_append, c3, t10, List.nil_append, s2]
            show _ ++ [] = _
            rw [List.append_nil]
            by_cases hB : w.mdev.wire_protocol = DRBD_PROT_B
            · by_cases hw : wired w
              · rw [if_pos ⟨⟨hB, hid⟩, hww.2 hw⟩, if_pos ⟨rfl, hB, hw⟩]
              · rw [if_neg (fun hh => hw (hww.1 hh.2)), if_neg (fun hh => hw hh.2.2)]
            · rw [if_neg (fun hh => hB hh.1.1), if_neg (fun hh => hB hh.2.1)]
          · show w3.mdev.unacked_cnt = _
            rw [t8, c6, s2]
            by_cases hA : w.mdev.wire_protocol = DRBD_PROT_A
            · have hB : ¬ w.mdev.wire_protocol = DRBD_PROT_B := by rw [hA]; decide
              rw [if_neg (fun hh => hB hh.1), if_pos hA, if_pos hA]
            · rw [if_neg hA, if_neg hA]
              by_cases hB : w.mdev.wire_protocol = DRBD_PROT_B
              · rw [if_pos ⟨hB, hid⟩, if_pos ⟨rfl, hB⟩]
              · rw [if_neg (fun hh => hB hh.1), if_neg (fun hh => hB hh.2)]
        · obtain ⟨c1, c2, c3, c4⟩ := s7 hid
          have hd3 : wire_of d3 = [] := by
            rw [t10, if_neg (fun hh => hh.1.2 hid)]
          have hwd : wire_of (d2 ++ d3 ++ [Event.ll_rw_block WRITE bn]) = wire_of d2 := by
            rw [wire_of_append, wire_of_append, hd3, List.append_nil]
            show _ ++ [] = _
            rw [List.append_nil]
          have hu : w3.mdev.unacked_cnt = w2.mdev.unacked_cnt := by
            rw [t8, if_neg (fun hh => hh.2 hid)]
          refine ⟨t5.trans c1, t6.trans c2, hu.trans c3, fun hh => Bool.noConfusion hh,
            fun _ => ?_⟩
          rcases c4 with ⟨e1, e2, e3, e4⟩ | ⟨sl, rb, e1, e2, e3⟩
          · refine Or.inl ⟨e1, t7.trans e2, hwd.trans e3, ?_⟩
            simp only [List.mem_append]
            exact Or.inl (Or.inl e4)
          · exact Or.inr ⟨sl, rb, e1, t7.trans e2, hwd.trans e3⟩

theorem u32_dec_inc (u : Nat) (h : u < 2 ^ 32) : u32_dec ((u + 1) % 2 ^ 32) = u := by
  by_cases h1 : u + 1 < 2 ^ 32
  · rw [Nat.mod_eq_of_lt h1, u32_dec_pos _ (by omega) h1]
    omega
  · have h2 : u + 1 = 2 ^ 32 := by omega
    rw [h2, Nat.mod_self]
    unfold u32_dec
    rw [if_pos (Nat.zero_mod _)]
    omega

theorem sync_log_insert_mem (bh : buffer_head) :
    ∀ (l sl : List (Option buffer_head)) (rb : Option Nat),
      sync_log_insert bh l = some (sl, rb) → some bh ∈ sl
  | [], sl, rb, h => by
    unfold sync_log_insert at h
    exact Option.noConfusion h
  | none :: t, sl, rb, h => by
    unfold sync_log_insert at h
    cases h
    exact List.mem_cons_self _ _
  | some b :: t, sl, rb, h => by
    unfold sync_log_insert at h
    split at h
    · cases h
      exact List.mem_cons_self _ _
    · cases hr : sync_log_insert bh t with
      | none => rw [hr] at h; exact Option.noConfusion h
      | some p =>
        rw [hr] at h
        cases h
        exact List.mem_cons_of_mem _ (sync_log_insert_mem bh t p.1 p.2 hr)

theorem receive_data_returns_of (fuel : Nat) (w : World) (ds : Nat) (rd : RecvData)
    (o : SendOutcome) (h1 : 1 ≤ ds) (h2 : ds < 2 ^ fuel) :
    ∃ p, receive_data fuel w ds rd o = some p := by
  obtain ⟨b, hb⟩ := drbd_log2_terminates fuel (ds : Int) (by omega) (by exact_mod_cast h2)
  cases hrd : receive_data fuel w ds rd o with
  | some p => exact ⟨p, rfl⟩
  | none =>
    exfalso
    unfold receive_data at hrd
    dsimp only at hrd
    rw [hb] at hrd
    dsimp only at hrd
    generalize (if w.mdev.state ≠ Drbd_State.Secondary
      then ({ w with trace := w.trace ++ [Event.printk Msg.got_data_while_not_SEC] } : World)
      else w) = w0 at hrd
    split at hrd
    · exact Option.noConfusion hrd
    · split at hrd
      · next hx => split at hx <;> exact Option.noConfusion hx
      · split at hrd
        · exact Option.noConfusion hrd
        · split at hrd
          · exact Option.noConfusion hrd
          · exact Option.noConfusion hrd

/-- C35: `receive_data` returns for every Data packet of at least one byte
whose header has arrived, with TRUE exactly when buffer and payload were there.
For an application write (`block_id != ID_SYNCER`) the only packet it hands to
the socket is `RecvAck{block_nr, block_id}`, exactly when it returns TRUE under
protocol B (and the connection is there), and then `unacked_cnt` is as before;
under the other protocols it sends nothing. A resync block leaves epoch set,
`epoch_size` and `unacked_cnt` alone under every protocol; it is put into the
sync log when a slot is free or holds a finished buffer, and every packet sent
for it is a `WriteAck{_, ID_SYNCER}`. -/
theorem recv_ack_iff_protocol_b (fuel : Nat) (w : World) (ds bn id : Nat) (gb pl : Bool)
    (o : SendOutcome) (h1 : 1 ≤ ds) (h2 : ds < 2 ^ fuel) (hu : w.mdev.unacked_cnt < 2 ^ 32) :
    ∃ w1 d, receive_data fuel w ds ⟨some (bn, id), gb, pl⟩ o = some (w1, gb && pl) ∧
      w1.trace = w.trace ++ d ∧ w1.mdev.wire_protocol = w.mdev.wire_protocol ∧
      (id ≠ ID_SYNCER →
        w1.mdev.sync_log = w.mdev.sync_log ∧
        wire_of d = (if (gb && pl) = true ∧ w.mdev.wire_protocol = DRBD_PROT_B ∧ wired w then
          [Event.send Drbd_Packet_Cmd.RecvAck bn id sizeof_Drbd_BlockAck_Packet 0 o.err]
          else []) ∧
        ((gb && pl) = true → w.mdev.wire_protocol = DRBD_PROT_B →
          w1.mdev.unacked_cnt = w.mdev.unacked_cnt) ∧
        (gb = true → w1.mdev.epoch_size = w.mdev.epoch_size + 1 ∧
          w1.mdev.epoch_set = w.mdev.epoch_set.take w.mdev.epoch_size ++ [⟨⟨bn, false⟩, id⟩])) ∧
      (id = ID_SYNCER →
        w1.mdev.epoch_size = w.mdev.epoch_size ∧ w1.mdev.epoch_set = w.mdev.epoch_set ∧
        w1.mdev.unacked_cnt = w.mdev.unacked_cnt ∧
        (∀ e ∈ wire_of d, ∃ bnr, e = Event.send Drbd_Packet_Cmd.WriteAck bnr ID_SYNCER
          sizeof_Drbd_BlockAck_Packet 0 o.err) ∧
        (gb = true →
          (sync_log_insert ⟨bn, false⟩ w.mdev.sync_log = none ∧
            w1.mdev.sync_log = w.mdev.sync_log ∧
            Event.printk Msg.SYNC_LOG_S_too_small ∈ d) ∨
          (∃ rb, sync_log_insert ⟨bn, false⟩ w.mdev.sync_log = some (w1.mdev.sync_log, rb) ∧
            some ⟨bn, false⟩ ∈ w1.mdev.sync_log))) := by
  obtain ⟨⟨w1, r⟩, hrd⟩ := receive_data_returns_of fuel w ds ⟨some (bn, id), gb, pl⟩ o h1 h2
  obtain ⟨e1, -, e3, -, -, d, e6, e7, e8⟩ := receive_data_effect fuel w w1 ds bn id gb pl r o hrd
  subst e1
  refine ⟨w1, d, hrd, e6, e3, fun hid => ?_, fun hid => ?_⟩
  · obtain ⟨c1, c2, -, c4⟩ := e7 hid
    refine ⟨c1, c2, fun hr hB => ?_, fun hg => ⟨(c4 hg).1, (c4 hg).2.1⟩⟩
    have hg : gb = true := by
      cases gb
      · exact Bool.noConfusion hr
      · rfl
    have hA : ¬ w.mdev.wire_protocol = DRBD_PROT_A := by rw [hB]; decide
    rw [(c4 hg).2.2, if_neg hA, if_pos ⟨hr, hB⟩]
    exact u32_dec_inc _ hu
  · obtain ⟨c1, c2, c3, c4, c5⟩ := e8 hid
    refine ⟨c1, c2, c3, fun e he => ?_, fun hg => ?_⟩
    · cases gb with
      | false =>
        rw [(c4 rfl).2] at he
        exact absurd he (List.not_mem_nil e)
      | true =>
        rcases c5 rfl with ⟨-, -, hw, -⟩ | ⟨sl, rb, -, -, hw⟩
        · rw [hw] at he
          exact absurd he (List.not_mem_nil e)
        · rw [hw] at he
          split at he
          · rw [List.mem_map] at he
            obtain ⟨bnr, -, rfl⟩ := he
            exact ⟨bnr, rfl⟩
          · exact absurd he (List.not_mem_nil e)
    · rcases c5 hg with ⟨a1, a2, -, a4⟩ | ⟨sl, rb, a1, a2, -⟩
      · exact Or.inl ⟨a1, a2, a4⟩
      · subst a2
        exact Or.inr ⟨rb, a1, sync_log_insert_mem _ _ _ _ a1⟩

theorem recv_ack_iff_protocol_b_witness :
    secondary_b.mdev.wire_protocol = DRBD_PROT_B ∧ wired secondary_b ∧
    (101 : Nat) ≠ ID_SYNCER ∧
    (∃ w1 d, receive_data 13 secondary_b 4096 ⟨some (7, 101), true, true⟩ ack_taken =
        some (w1, true) ∧ w1.trace = secondary_b.trace ++ d ∧
      wire_of d = [Event.send Drbd_Packet_Cmd.RecvAck 7 101 sizeof_Drbd_BlockAck_Packet 0 24] ∧
      w1.mdev.unacked_cnt = secondary_b.mdev.unacked_cnt ∧
      w1.mdev.epoch_set = [⟨⟨7, false⟩, 101⟩]) :=
  ⟨by decide, by decide, by decide,
   (recv_ack_iff_protocol_b 13 secondary_b 4096 7 101 true true ack_taken (by decide) (by decide)
      (by decide)).elim (fun w1 hw1 => hw1.elim (fun d hd =>
        ⟨w1, d, hd.1, hd.2.1, (hd.2.2.2.1 (by decide)).2.1.trans (if_pos (by decide)),
          (hd.2.2.2.1 (by decide)).2.2.1 rfl (by decide),
          ((hd.2.2.2.1 (by decide)).2.2.2 rfl).2⟩))⟩

theorem write_acked_syncer (d : List Event)
    (h : ∀ e ∈ wire_of d, ∃ bnr, e = Event.send Drbd_Packet_Cmd.WriteAck bnr ID_SYNCER
      sizeof_Drbd_BlockAck_Packet 0 ((sizeof_Drbd_BlockAck_Packet + 0 : Nat) : Int)) :
    write_acked d = [] ∧ barrier_acked d = [] := by
  rw [← write_acked_wire, ← barrier_acked_wire]
  generalize wire_of d = l at h
  induction l with
  | nil => exact ⟨rfl, rfl⟩
  | cons e t ih =>
    obtain ⟨bnr, rfl⟩ := h e (List.mem_cons_self _ _)
    obtain ⟨i1, i2⟩ := ih (fun x hx => h x (List.mem_cons_of_mem _ hx))
    constructor
    · unfold write_acked at i1 ⊢
      rw [List.filterMap_cons]
      dsimp only
      rw [if_neg (not_not.2 rfl)]
      exact i1
    · unfold barrier_acked at i2 ⊢
      rw [List.filterMap_cons]
      exact i2

theorem write_acked_acks (L : List Tl_epoch_entry) (h : ∀ e ∈ L, e.block_id ≠ ID_SYNCER) :
    write_acked (L.map write_ack_of) = L.map Tl_epoch_entry.key ∧
    barrier_acked (L.map write_ack_of) = [] := by
  induction L with
  | nil => exact ⟨rfl, rfl⟩
  | cons e t ih =>
    obtain ⟨i1, i2⟩ := ih (fun x hx => h x (List.mem_cons_of_mem _ hx))
    constructor
    · rw [List.map_cons, List.map_cons]
      unfold write_acked at i1 ⊢
      rw [List.filterMap_cons]
      unfold write_ack_of at i1 ⊢
      dsimp only
      rw [if_pos (h e (List.mem_cons_self _ _)), i1]
      rfl
    · rw [List.map_cons]
      unfold barrier_acked at i2 ⊢
      rw [List.filterMap_cons]
      exact i2

theorem asender_sync_loop_effect (o : Nat → SendOutcome)
    (ho : ∀ j, taken (o j) sizeof_Drbd_BlockAck_Packet) :
    ∀ (n i : Nat) (w : World), wired w →
      wired (asender_sync_loop o n i w) ∧
      (asender_sync_loop o n i w).mdev =
        { w.mdev with sync_log := (asender_sync_loop o n i w).mdev.sync_log } ∧
      ∃ d, (asender_sync_loop o n i w).trace = w.trace ++ d ∧
        ∀ e ∈ wire_of d, ∃ bnr, e = Event.send Drbd_Packet_Cmd.WriteAck bnr ID_SYNCER
          sizeof_Drbd_BlockAck_Packet 0 ((sizeof_Drbd_BlockAck_Packet + 0 : Nat) : Int)
  | 0, i, w, hw => by
    unfold asender_sync_loop
    exact ⟨hw, rfl, [], (List.append_nil _).symm, fun e he => absurd he (List.not_mem_nil e)⟩
  | n + 1, i, w, hw => by
    unfold asender_sync_loop
    split
    · next bh hbh =>
      split
      · have hw1 : wired ({ w with
            mdev := { w.mdev with sync_log := w.mdev.sync_log.set i none },
            trace := w.trace ++ [Event.bforget bh] } : World) := hw
        dsimp only
        rw [drbd_send_ack_taken_eq _ _ _ _ _ hw1 (ho i)]
        dsimp only
        obtain ⟨g1, g2, d, g3, g4⟩ := asender_sync_loop_effect o ho n (i + 1)
          ({ w with
            mdev := { w.mdev with sync_log := w.mdev.sync_log.set i none },
            trace := w.trace ++ [Event.bforget bh] ++
              [Event.send Drbd_Packet_Cmd.WriteAck bh.b_blocknr ID_SYNCER
                sizeof_Drbd_BlockAck_Packet 0 ((sizeof_Drbd_BlockAck_Packet + 0 : Nat) : Int)] }
            : World) hw
        refine ⟨g1, ?_, [Event.bforget bh] ++
            [Event.send Drbd_Packet_Cmd.WriteAck bh.b_blocknr ID_SYNCER
              sizeof_Drbd_BlockAck_Packet 0 ((sizeof_Drbd_BlockAck_Packet + 0 : Nat) : Int)] ++ d,
          ?_, ?_⟩
        · rw [g2]
        · rw [g3, List.append_assoc, List.append_assoc, List.append_assoc]
        · intro e he
          rw [wire_of_append] at he
          rcases List.mem_append.1 he with h | h
          · have h' : e ∈ [Event.send Drbd_Packet_Cmd.WriteAck bh.b_blocknr ID_SYNCER
                sizeof_Drbd_BlockAck_Packet 0
                ((sizeof_Drbd_BlockAck_Packet + 0 : Nat) : Int)] := h
            rw [List.mem_singleton] at h'
            exact ⟨_, h'⟩
          · exact g4 e h
      · exact asender_sync_loop_effect o ho n (i + 1) w hw
    · exact asender_sync_loop_effect o ho n (i + 1) w hw

theorem drbd_send_cmd_quiet (w : World) (cmd : Drbd_Packet_Cmd) (o : SendOutcome)
    (hc : cmd = Drbd_Packet_Cmd.Ping ∨ cmd = Drbd_Packet_Cmd.Postpone)
    (ho : o.signalled = false ∧ 0 ≤ o.err) :
    (drbd_send_cmd w cmd o).1.mdev = w.mdev ∧
    ∃ d, (drbd_send_cmd w cmd o).1.trace = w.trace ++ d ∧
      write_acked d = [] ∧ barrier_acked d = [] := by
  unfold drbd_send_cmd
  refine ⟨drbd_send_taken _ _ _ _ _ _ o ⟨Or.inr ho.1, ho.2⟩, ?_⟩
  obtain ⟨-, -, d, h1, h2⟩ := drbd_send_wire w cmd 0 0 sizeof_Drbd_Packet 0 o
  refine ⟨d, h1, ?_, ?_⟩
  · rw [← write_acked_wire, h2]
    split
    · rcases hc with rfl | rfl <;> rfl
    · rfl
  · rw [← barrier_acked_wire, h2]
    split
    · rcases hc with rfl | rfl <;> rfl
    · rfl

/-- What a round of `drbd_asender` does on a device that is not Primary, on a
connection that takes every packet whole. -/
theorem drbd_asender_round_effect (w : World) (tp : Bool) (op opp ob : SendOutcome)
    (os oe : Nat → SendOutcome) (hw : wired w) (hs : w.mdev.state ≠ Drbd_State.Primary)
    (h1 : op.signalled = false ∧ 0 ≤ op.err) (h2 : opp.signalled = false ∧ 0 ≤ opp.err)
    (hos : ∀ j, taken (os j) sizeof_Drbd_BlockAck_Packet)
    (hoe : ∀ j, taken (oe j) sizeof_Drbd_BlockAck_Packet) :
    sec_frame w (drbd_asender_round w tp op opp ob os oe) ∧
    epoch_live (drbd_asender_round w tp op opp ob os oe).mdev =
      (if w.mdev.wire_protocol = DRBD_PROT_C
       then (epoch_live w.mdev).map Tl_epoch_entry.scanned else epoch_live w.mdev) ∧
    (∃ d1 d2, (drbd_asender_round w tp op opp ob os oe).trace = w.trace ++ d1 ++ d2 ∧
      write_acked d1 = [] ∧ barrier_acked d1 = [] ∧
      wire_of d2 = (if w.mdev.wire_protocol = DRBD_PROT_C
        then ((epoch_live w.mdev).filter Tl_epoch_entry.ready).map write_ack_of else [])) ∧
    (w.mdev.unacked_cnt < 2 ^ 32 →
      (w.mdev.wire_protocol = DRBD_PROT_C →
        ((epoch_live w.mdev).filter Tl_epoch_entry.ready).length ≤ w.mdev.unacked_cnt) →
      (drbd_asender_round w tp op opp ob os oe).mdev.unacked_cnt =
        w.mdev.unacked_cnt - (if w.mdev.wire_protocol = DRBD_PROT_C
          then ((epoch_live w.mdev).filter Tl_epoch_entry.ready).length else 0)) := by
  unfold drbd_asender_round
  dsimp only
  generalize hW1 : (if test_bit SEND_PING w.mdev.flags = true then (_ : World) else _) = w1
  have F1 : w1.mdev = { w.mdev with flags := w1.mdev.flags, pending_cnt := w1.mdev.pending_cnt } ∧
      ∃ d, w1.trace = w.trace ++ d ∧ write_acked d = [] ∧ barrier_acked d = [] := by
    rw [← hW1]
    split
    · obtain ⟨a1, d, a2, a3, a4⟩ := drbd_send_cmd_quiet
        { w with mdev := { w.mdev with flags := clear_bit SEND_PING w.mdev.flags } }
        Drbd_Packet_Cmd.Ping op (Or.inl rfl) h1
      split
      · refine ⟨?_, d, a2, a3, a4⟩
        unfold inc_pending
        dsimp only
        rw [a1]
      · refine ⟨?_, d, a2, a3, a4⟩
        rw [a1]
    · exact ⟨rfl, [], (List.append_nil _).symm, rfl, rfl⟩
  obtain ⟨m1, d1, t1, x1, y1⟩ := F1
  generalize hW2 : (if test_bit SEND_POSTPONE w1.mdev.flags = true then (_ : World) else _) = w2
  have F2 : w2.mdev = { w1.mdev with flags := w2.mdev.flags } ∧
      ∃ d, w2.trace = w1.trace ++ d ∧ write_acked d = [] ∧ barrier_acked d = [] := by
    rw [← hW2]
    split
    · obtain ⟨a1, d, a2, a3, a4⟩ := drbd_send_cmd_quiet
        { w1 with
          mdev := { w1.mdev with flags := clear_bit SEND_POSTPONE w1.mdev.flags },
          trace := w1.trace ++
            ([Event.printk Msg.sending_postpone_packet, Event.printk Msg.expire_now] ++
              (if tp = true then [Event.printk Msg.p_timeout_is_act] else [])) }
        Drbd_Packet_Cmd.Postpone opp (Or.inr rfl) h2
      refine ⟨by rw [a1], ([Event.printk Msg.sending_postpone_packet,
        Event.printk Msg.expire_now] ++
          (if tp = true then [Event.printk Msg.p_timeout_is_act] else [])) ++ d, ?_, ?_, ?_⟩
      · rw [a2, List.append_assoc]
      · rw [write_acked_append, a3, List.append_nil]
        split <;> rfl
      · rw [barrier_acked_append, a4, List.append_nil]
        split <;> rfl
    · exact ⟨rfl, [], (List.append_nil _).symm, rfl, rfl⟩
  obtain ⟨m2, d2, t2, x2, y2⟩ := F2
  have hw2 : wired w2 := (wired_congr w w2 (by rw [m2]; dsimp only; rw [m1])
    (by rw [m2]; dsimp only; rw [m1])).2 hw
  have hs2 : w2.mdev.state = w.mdev.state := by rw [m2]; dsimp only; rw [m1]
  rw [if_neg (by rw [hs2]; exact hs)]
  obtain ⟨g1, g2, d3, g3, g4⟩ := asender_sync_loop_effect os hos SYNC_LOG_S 0 w2 hw2
  generalize asender_sync_loop os SYNC_LOG_S 0 w2 = w3 at g1 g2 g3
  obtain ⟨x3, y3⟩ := write_acked_syncer d3 g4
  have hp3 : w3.mdev.wire_protocol = w.mdev.wire_protocol := by
    rw [g2]; dsimp only; rw [m2]; dsimp only; rw [m1]
  have hz3 : w3.mdev.epoch_size = w.mdev.epoch_size := by
    rw [g2]; dsimp only; rw [m2]; dsimp only; rw [m1]
  have hl3 : w3.mdev.epoch_set = w.mdev.epoch_set := by
    rw [g2]; dsimp only; rw [m2]; dsimp only; rw [m1]
  have hu3 : w3.mdev.unacked_cnt = w.mdev.unacked_cnt := by
    rw [g2]; dsimp only; rw [m2]; dsimp only; rw [m1]
  have hst3 : w3.mdev.state = w.mdev.state := by
    rw [g2]; dsimp only; rw [m2]; dsimp only; rw [m1]
  have hlive3 : epoch_live w3.mdev = epoch_live w.mdev := by
    unfold epoch_live
    rw [hz3, hl3]
  have hfr3 : sec_frame w w3 := ⟨g1, hst3, hp3, hz3, by rw [hl3]⟩
  have htr3 : w3.trace = w.trace ++ (d1 ++ d2 ++ d3) := by
    rw [g3, t2, t1, List.append_assoc, List.append_assoc, List.append_assoc]
  have hq : write_acked (d1 ++ d2 ++ d3) = [] ∧ barrier_acked (d1 ++ d2 ++ d3) = [] := by
    rw [write_acked_append, write_acked_append, barrier_acked_append, barrier_acked_append,
      x1, x2, x3, y1, y2, y3]
    exact ⟨rfl, rfl⟩
  rw [hp3]
  by_cases hC : w.mdev.wire_protocol = DRBD_PROT_C
  · rw [if_neg (not_not.2 hC), if_pos hC, if_pos hC, if_pos hC]
    obtain ⟨e1, -, -, e4, ⟨d4, e5, e6⟩, e7⟩ := asender_epoch_loop_effect oe hoe
      w3.mdev.epoch_size 0 w3 g1
    rw [← epoch_live_seg, hlive3] at e4 e6 e7
    rw [hu3] at e7
    refine ⟨sec_frame_trans hfr3 e1, ?_, ⟨d1 ++ d2 ++ d3, d4, ?_, hq.1, hq.2, e6⟩,
      fun hu hc => e7 hu (hc hC)⟩
    · rw [epoch_live_seg, e1.2.2.2.1]
      exact e4
    · rw [e5, htr3, List.append_assoc]
  · rw [if_pos hC, if_neg hC, if_neg hC, if_neg hC]
    refine ⟨hfr3, hlive3, ⟨d1 ++ d2 ++ d3, [], ?_, hq.1, hq.2, rfl⟩, fun _ _ => hu3⟩
    rw [htr3, List.append_nil]

theorem epoch_keys_congr (g g1 : Nat → Tl_epoch_entry)
    (h : ∀ j, (g1 j).block_id = (g j).block_id ∧ (g1 j).bh.b_blocknr = (g j).bh.b_blocknr) :
    ∀ l : List Nat,
      (((l.map g1).filter Tl_epoch_entry.owed).map Tl_epoch_entry.key =
        ((l.map g).filter Tl_epoch_entry.owed).map Tl_epoch_entry.key) ∧
      ((l.map g1).filter Tl_epoch_entry.owed).length =
        ((l.map g).filter Tl_epoch_entry.owed).length ∧
      ((∀ e ∈ l.map g, e.block_id ≠ ID_SYNCER) → ∀ e ∈ l.map g1, e.block_id ≠ ID_SYNCER)
  | [] => ⟨rfl, rfl, fun _ e he => absurd he (List.not_mem_nil e)⟩
  | j :: t => by
    obtain ⟨i1, i2, i3⟩ := epoch_keys_congr g g1 h t
    have ho : (g1 j).owed = (g j).owed := by
      unfold Tl_epoch_entry.owed
      rw [(h j).1]
    have hk : (g1 j).key = (g j).key := by
      unfold Tl_epoch_entry.key
      rw [(h j).1, (h j).2]
    rw [List.map_cons, List.map_cons]
    refine ⟨?_, ?_, ?_⟩
    · cases hj : (g j).owed with
      | true =>
        rw [List.filter_cons_of_pos (ho.trans hj), List.filter_cons_of_pos hj, List.map_cons,
          List.map_cons, hk, i1]
      | false =>
        rw [List.filter_cons_of_neg (by rw [ho, hj]; decide),
          List.filter_cons_of_neg (by rw [hj]; decide)]
        exact i1
    · cases hj : (g j).owed with
      | true =>
        rw [List.filter_cons_of_pos (ho.trans hj), List.filter_cons_of_pos hj, List.length_cons,
          List.length_cons, i2]
      | false =>
        rw [List.filter_cons_of_neg (by rw [ho, hj]; decide),
          List.filter_cons_of_neg (by rw [hj]; decide)]
        exact i2
    · intro hall e he
      rcases List.mem_cons.1 he with rfl | he
      · rw [(h j).1]
        exact hall _ (List.mem_cons_self _ _)
      · exact i3 (fun x hx => hall x (List.mem_cons_of_mem _ hx)) e he

/-- The completion of a write changes neither which entries are owed an
acknowledgement nor their block numbers and ids. -/
theorem epoch_written_effect (w : World) (i : Nat) (hw : wired w) :
    sec_frame w (epoch_written w i) ∧ (epoch_written w i).trace = w.trace ∧
    (epoch_written w i).mdev.unacked_cnt = w.mdev.unacked_cnt ∧
    (epoch_pending (epoch_written w i).mdev).map Tl_epoch_entry.key =
      (epoch_pending w.mdev).map Tl_epoch_entry.key ∧
    (epoch_pending (epoch_written w i).mdev).length = (epoch_pending w.mdev).length ∧
    ((∀ e ∈ epoch_live w.mdev, e.block_id ≠ ID_SYNCER) →
      ∀ e ∈ epoch_live (epoch_written w i).mdev, e.block_id ≠ ID_SYNCER) := by
  unfold epoch_written
  dsimp only
  split
  · refine ⟨⟨hw, rfl, rfl, rfl, ?_⟩, rfl, rfl, ?_⟩
    · show (w.mdev.epoch_set.set i _).length = _
      rw [List.length_set]
    · unfold epoch_pending epoch_live
      dsimp only
      apply epoch_keys_congr
      intro j
      rw [getD_set_entry]
      split
      · next hj => rw [hj.1]; exact ⟨rfl, rfl⟩
      · exact ⟨rfl, rfl⟩
  · exact ⟨sec_frame_refl w hw, rfl, rfl, rfl, rfl, fun h => h⟩

/-! ## Every write of an epoch is acknowledged once -/

theorem epoch_live_length (m : Drbd_Conf) : (epoch_live m).length = m.epoch_size := by
  unfold epoch_live
  rw [List.length_map, List.length_range]

theorem epoch_pending_le (m : Drbd_Conf) : (epoch_pending m).length ≤ m.epoch_size := by
  unfold epoch_pending
  exact (List.length_filter_le _ _).trans (le_of_eq (epoch_live_length m))

theorem epoch_pending_sub (m : Drbd_Conf) : ∀ e ∈ epoch_pending m, e ∈ epoch_live m := by
  intro e he
  unfold epoch_pending at he
  exact (List.mem_filter.1 he).1

theorem epoch_live_pushed (m m1 : Drbd_Conf) (x : Tl_epoch_entry)
    (hs : m1.epoch_size = m.epoch_size + 1)
    (he : m1.epoch_set = m.epoch_set.take m.epoch_size ++ [x])
    (hl : m.epoch_size ≤ m.epoch_set.length) :
    epoch_live m1 = epoch_live m ++ [x] := by
  have hlen : (m.epoch_set.take m.epoch_size).length = m.epoch_size := by
    rw [List.length_take]; omega
  unfold epoch_live
  rw [hs, List.range_succ, List.map_append, List.map_singleton, he]
  congr 1
  · apply List.map_congr_left
    intro j hj
    rw [List.mem_range] at hj
    rw [List.getD_eq_getElem?_getD, List.getD_eq_getElem?_getD,
      List.getElem?_append_left (by omega), List.getElem?_take_of_lt hj]
  · rw [List.getD_eq_getElem?_getD, List.getElem?_append_right (by omega), hlen, Nat.sub_self]
    rfl

theorem scanned_perm : ∀ L : List Tl_epoch_entry,
    List.Perm ((L.filter Tl_epoch_entry.ready).map Tl_epoch_entry.key ++
        ((L.map Tl_epoch_entry.scanned).filter Tl_epoch_entry.owed).map Tl_epoch_entry.key)
      ((L.filter Tl_epoch_entry.owed).map Tl_epoch_entry.key) ∧
    (L.filter Tl_epoch_entry.ready).length +
        ((L.map Tl_epoch_entry.scanned).filter Tl_epoch_entry.owed).length =
      (L.filter Tl_epoch_entry.owed).length ∧
    ((∀ e ∈ L, e.block_id ≠ ID_SYNCER) →
      ∀ e ∈ L.map Tl_epoch_entry.scanned, e.block_id ≠ ID_SYNCER)
  | [] => ⟨List.Perm.refl _, rfl, fun _ e he => absurd he (List.not_mem_nil e)⟩
  | e :: t => by
    obtain ⟨i1, i2, i3⟩ := scanned_perm t
    rw [List.map_cons]
    cases hr : e.ready with
    | true =>
      have ho : e.owed = true := by
        unfold Tl_epoch_entry.ready at hr
        unfold Tl_epoch_entry.owed
        exact decide_eq_true (of_decide_eq_true hr).1
      have hsc : e.scanned = { e with block_id := 0 } := by
        unfold Tl_epoch_entry.scanned
        rw [if_pos hr]
      have hso : e.scanned.owed = false := by rw [hsc]; rfl
      rw [List.filter_cons_of_pos hr, List.filter_cons_of_pos ho,
        List.filter_cons_of_neg (by rw [hso]; decide)]
      refine ⟨?_, ?_, ?_⟩
      · rw [List.map_cons, List.map_cons, List.cons_append]
        exact List.Perm.cons _ i1
      · rw [List.length_cons, List.length_cons]
        omega
      · intro hall x hx
        rcases List.mem_cons.1 hx with rfl | hx
        · rw [hsc]
          show (0 : Nat) ≠ ID_SYNCER
          decide
        · exact i3 (fun y hy => hall y (List.mem_cons_of_mem _ hy)) x hx
    | false =>
      have hsc : e.scanned = e := by
        unfold Tl_epoch_entry.scanned
        rw [if_neg (by rw [hr]; decide)]
      rw [List.filter_cons_of_neg (by rw [hr]; decide), hsc]
      refine ⟨?_, ?_, ?_⟩
      · cases ho : e.owed with
        | true =>
          rw [@List.filter_cons_of_pos _ Tl_epoch_entry.owed e t ho,
            @List.filter_cons_of_pos _ Tl_epoch_entry.owed e _ ho, List.map_cons, List.map_cons]
          exact List.perm_middle.trans (List.Perm.cons _ i1)
        | false =>
          rw [@List.filter_cons_of_neg _ Tl_epoch_entry.owed e t (by rw [ho]; decide),
            @List.filter_cons_of_neg _ Tl_epoch_entry.owed e _ (by rw [ho]; decide)]
          exact i1
      · cases ho : e.owed with
        | true =>
          rw [@List.filter_cons_of_pos _ Tl_epoch_entry.owed e t ho,
            @List.filter_cons_of_pos _ Tl_epoch_entry.owed e _ ho, List.length_cons,
            List.length_cons]
          omega
        | false =>
          rw [@List.filter_cons_of_neg _ Tl_epoch_entry.owed e t (by rw [ho]; decide),
            @List.filter_cons_of_neg _ Tl_epoch_entry.owed e _ (by rw [ho]; decide)]
          exact i2
      · intro hall x hx
        rcases List.mem_cons.1 hx with rfl | hx
        · exact hall _ (List.mem_cons_self _ _)
        · exact i3 (fun y hy => hall y (List.mem_cons_of_mem _ hy)) x hx

theorem sec_step_barrier (w : World) (nr : Nat) (hinv : sec_inv w) :
    sec_run_ok w (receive_barrier w (some nr)
      (fun i => if i = w.mdev.epoch_size then b_ack_taken else ack_taken)).1
      [SecMove.barrier nr] := by
  obtain ⟨hw, hs, hl, hid⟩ := hinv
  obtain ⟨-, r2, r3, r4, r5, r6, -, ⟨d, r8, r9⟩, r10⟩ := receive_barrier_effect w nr
    (fun i => if i = w.mdev.epoch_size then b_ack_taken else ack_taken) hw
    (fun j hj => by
      show taken (if j = w.mdev.epoch_size then b_ack_taken else ack_taken) _
      rw [if_neg (by omega)]; exact ⟨rfl, rfl⟩)
    (by
      show taken (if w.mdev.epoch_size = w.mdev.epoch_size then b_ack_taken else ack_taken) _
      rw [if_pos rfl]; exact ⟨rfl, rfl⟩)
  generalize (receive_barrier w (some nr)
      (fun i => if i = w.mdev.epoch_size then b_ack_taken else ack_taken)).1 = w1
    at r2 r3 r4 r5 r6 r8 r10
  have hlive : epoch_live w1.mdev = [] := by
    unfold epoch_live; rw [r5]; rfl
  have hpend : epoch_pending w1.mdev = [] := by
    unfold epoch_pending; rw [hlive]; rfl
  have hpid : ∀ e ∈ epoch_pending w.mdev, e.block_id ≠ ID_SYNCER :=
    fun e he => hid e (epoch_pending_sub _ e he)
  obtain ⟨q1, q2⟩ := write_acked_acks (epoch_pending w.mdev) hpid
  refine ⟨⟨r2, r3.trans hs, by rw [r5]; exact Nat.zero_le _, by rw [hlive]; simp⟩, r4, r5, d, r8,
    ?_, fun hC _ => ⟨?_, fun hu hb => ?_⟩⟩
  · rw [← barrier_acked_wire, r9, barrier_acked_append]
    split
    · rw [q2]; rfl
    · rfl
  · rw [← write_acked_wire, r9, if_pos hC, write_acked_append, q1, hpend]
    refine List.Perm.of_eq ?_
    show _ ++ [] ++ [] = _ ++ []
    rw [List.append_nil, List.append_nil]
  · have hle := epoch_pending_le w.mdev
    have hb' : w.mdev.epoch_size + 1 < 2 ^ 32 := hb
    rw [r10 (by omega) (fun _ => by omega), if_pos hC, hpend, hu]
    simp

theorem sec_step_scan (w : World) (tp : Bool) (hinv : sec_inv w) :
    sec_run_ok w (drbd_asender_round w tp cmd_taken cmd_taken ⟨sizeof_Drbd_Barrier_Packet, false⟩
      (fun _ => ack_taken) (fun _ => ack_taken)) [SecMove.scan tp] := by
  obtain ⟨hw, hs, hl, hid⟩ := hinv
  obtain ⟨f1, f2, ⟨d1, d2, f3, f4, f5, f6⟩, f7⟩ := drbd_asender_round_effect w tp cmd_taken
    cmd_taken ⟨sizeof_Drbd_Barrier_Packet, false⟩ (fun _ => ack_taken) (fun _ => ack_taken) hw
    (by rw [hs]; exact fun h => Drbd_State.noConfusion h) (by decide) (by decide)
    (fun _ => ⟨rfl, rfl⟩) (fun _ => ⟨rfl, rfl⟩)
  generalize drbd_asender_round w tp cmd_taken cmd_taken ⟨sizeof_Drbd_Barrier_Packet, false⟩
    (fun _ => ack_taken) (fun _ => ack_taken) = w1 at f1 f2 f3 f7
  obtain ⟨p1, p2, p3⟩ := scanned_perm (epoch_live w.mdev)
  have hrid : ∀ e ∈ (epoch_live w.mdev).filter Tl_epoch_entry.ready, e.block_id ≠ ID_SYNCER :=
    fun e he => hid e (List.mem_filter.1 he).1
  obtain ⟨q1, q2⟩ := write_acked_acks _ hrid
  refine ⟨⟨f1.1, f1.2.1.trans hs, ?_, ?_⟩, f1.2.2.1, f1.2.2.2.1, d1 ++ d2,
    by rw [f3, List.append_assoc], ?_, fun hC _ => ⟨?_, fun hu hb => ?_⟩⟩
  · rw [f1.2.2.2.1, f1.2.2.2.2]; exact hl
  · rw [f2]
    split
    · exact p3 hid
    · exact hid
  · rw [barrier_acked_append, f5, ← barrier_acked_wire, f6]
    split
    · rw [q2]; rfl
    · rfl
  · rw [write_acked_append, f4, ← write_acked_wire, f6, if_pos hC, q1, List.nil_append]
    unfold epoch_pending
    rw [f2, if_pos hC]
    refine p1.trans (List.Perm.of_eq ?_)
    show _ = _ ++ []
    rw [List.append_nil]
  · have hle := epoch_pending_le w.mdev
    have hp2 : ((epoch_live w.mdev).filter Tl_epoch_entry.ready).length +
        (epoch_pending w1.mdev).length = (epoch_pending w.mdev).length := by
      unfold epoch_pending
      rw [f2, if_pos hC]
      exact p2
    have hb' : w.mdev.epoch_size + 1 < 2 ^ 32 := hb
    rw [f7 (by omega) (fun _ => by omega), if_pos hC]
    omega

theorem sec_step_written (w : World) (i : Nat) (hinv : sec_inv w) :
    sec_run_ok w (epoch_written w i) [SecMove.written i] := by
  obtain ⟨hw, hs, hl, hid⟩ := hinv
  obtain ⟨f1, f2, f3, f4, f5, f6⟩ := epoch_written_effect w i hw
  refine ⟨⟨f1.1, f1.2.1.trans hs, ?_, f6 hid⟩, f1.2.2.1, f1.2.2.2.1, [],
    by rw [f2, List.append_nil], rfl, fun _ _ => ⟨?_, fun hu _ => ?_⟩⟩
  · rw [f1.2.2.2.1, f1.2.2.2.2]; exact hl
  · rw [f4]
    refine List.Perm.of_eq ?_
    show [] ++ _ = _ ++ []
    rw [List.nil_append, List.append_nil]
  · rw [f3, f5]; exact hu

theorem sec_step_data (fuel : Nat) (w w1 : World) (ds bn id : Nat) (hinv : sec_inv w)
    (h : receive_data fuel w ds ⟨some (bn, id), true, true⟩ ack_taken = some (w1, true)) :
    sec_run_ok w w1 [SecMove.data ds bn id] := by
  obtain ⟨hw, hs, hl, hid⟩ := hinv
  obtain ⟨-, e2, e3, e4, e5, d, e6, e7, e8⟩ :=
    receive_data_effect fuel w w1 ds bn id true true true ack_taken h
  have hw1 : wired w1 := (wired_congr w w1 e4 (e5 (by decide))).2 hw
  by_cases hsy : id = ID_SYNCER
  · obtain ⟨c1, c2, c3, -, c5⟩ := e8 hsy
    have hlive : epoch_live w1.mdev = epoch_live w.mdev := by
      unfold epoch_live; rw [c1, c2]
    have hpend : epoch_pending w1.mdev = epoch_pending w.mdev := by
      unfold epoch_pending; rw [hlive]
    have hwire : ∀ e ∈ wire_of d, ∃ bnr, e = Event.send Drbd_Packet_Cmd.WriteAck bnr ID_SYNCER
        sizeof_Drbd_BlockAck_Packet 0 ((sizeof_Drbd_BlockAck_Packet + 0 : Nat) : Int) := by
      intro e he
      rcases c5 rfl with ⟨-, -, hwd, -⟩ | ⟨sl, rb, -, -, hwd⟩
      · rw [hwd] at he
        exact absurd he (List.not_mem_nil e)
      · rw [hwd, if_pos hw, List.mem_map] at he
        obtain ⟨bnr, -, rfl⟩ := he
        exact ⟨bnr, rfl⟩
    obtain ⟨q1, q2⟩ := write_acked_syncer d hwire
    have hrec : received [SecMove.data ds bn id] = [] := by
      show (if id ≠ ID_SYNCER then [(bn, id)] else []) ++ [] = []
      rw [if_neg (not_not.2 hsy)]
      rfl
    refine ⟨⟨hw1, e2.trans hs, by rw [c1, c2]; exact hl, by rw [hlive]; exact hid⟩, e3, ?_, d, e6,
      ?_, fun _ _ => ⟨?_, fun hu _ => ?_⟩⟩
    · show _ = (if id ≠ ID_SYNCER then _ else _)
      rw [if_neg (not_not.2 hsy)]
      exact c1
    · rw [q2]
      rfl
    · rw [q1, hpend, hrec, List.nil_append, List.append_nil]
    · rw [c3, hpend]; exact hu
  · obtain ⟨-, c2, -, c4⟩ := e7 hsy
    obtain ⟨c5, c6, c7⟩ := c4 rfl
    have hlive : epoch_live w1.mdev = epoch_live w.mdev ++ [⟨⟨bn, false⟩, id⟩] :=
      epoch_live_pushed w.mdev w1.mdev _ c5 c6 hl
    have hq : write_acked d = [] ∧ barrier_acked d = [] := by
      rw [← write_acked_wire, ← barrier_acked_wire, c2]
      split <;> exact ⟨rfl, rfl⟩
    have hrec : received [SecMove.data ds bn id] = [(bn, id)] := by
      show (if id ≠ ID_SYNCER then [(bn, id)] else []) ++ [] = _
      rw [if_pos hsy]
      rfl
    refine ⟨⟨hw1, e2.trans hs, ?_, ?_⟩, e3, ?_, d, e6, ?_, fun hC hnz => ?_⟩
    · rw [c5, c6, List.length_append, List.length_take]
      show _ ≤ _ + 1
      omega
    · rw [hlive]
      intro e he
      rcases List.mem_append.1 he with h1 | h1
      · exact hid e h1
      · rw [List.mem_singleton] at h1
        rw [h1]; exact hsy
    · show _ = (if id ≠ ID_SYNCER then _ else _)
      rw [if_pos hsy]
      exact c5
    · rw [hq.2]
      rfl
    · have hid0 : id ≠ 0 := by
        have := hnz (bn, id) (by rw [hrec]; exact List.mem_singleton_self _)
        exact this
      have hpend : epoch_pending w1.mdev = epoch_pending w.mdev ++ [⟨⟨bn, false⟩, id⟩] := by
        unfold epoch_pending
        rw [hlive, List.filter_append]
        congr 1
        rw [List.filter_cons_of_pos (by
          unfold Tl_epoch_entry.owed
          exact decide_eq_true hid0)]
        rfl
      refine ⟨?_, fun hu hb => ?_⟩
      · rw [hq.1, hpend, hrec, List.nil_append, List.map_append]
        rfl
      · have hle := epoch_pending_le w.mdev
        have hb' : w.mdev.epoch_size + 1 < 2 ^ 32 := hb
        have hA : ¬ w.mdev.wire_protocol = DRBD_PROT_A := by rw [hC]; decide
        have hB : ¬ w.mdev.wire_protocol = DRBD_PROT_B := by rw [hC]; decide
        rw [c7, if_neg hA, if_neg (fun hh => hB hh.2), hpend, List.length_append,
          Nat.mod_eq_of_lt (by omega), hu]
        rfl

theorem sec_step_effect (fuel : Nat) (w w1 : World) (m : SecMove) (hinv : sec_inv w)
    (hst : sec_step fuel w m = some w1) : sec_run_ok w w1 [m] := by
  cases m with
  | data ds bn id =>
    dsimp only [sec_step] at hst
    split at hst
    · next x heq =>
      cases hst
      exact sec_step_data fuel w _ ds bn id hinv heq
    · exact Option.noConfusion hst
  | barrier nr =>
    dsimp only [sec_step] at hst
    cases hst
    exact sec_step_barrier w nr hinv
  | scan tp =>
    dsimp only [sec_step] at hst
    cases hst
    exact sec_step_scan w tp hinv
  | written i =>
    dsimp only [sec_step] at hst
    cases hst
    exact sec_step_written w i hinv

theorem epoch_count_from_cons (k : Nat) (m : SecMove) (t : List SecMove) :
    epoch_count_from k (m :: t) = epoch_count_from (epoch_count_from k [m]) t := by
  cases m <;> rfl

theorem barrier_replies_cons (k : Nat) (m : SecMove) (t : List SecMove) :
    barrier_replies k (m :: t) =
      barrier_replies k [m] ++ barrier_replies (epoch_count_from k [m]) t := by
  cases m <;> rfl

theorem received_cons (m : SecMove) (t : List SecMove) :
    received (m :: t) = received [m] ++ received t := by
  cases m with
  | data ds bn id =>
    show _ ++ received t = (_ ++ []) ++ received t
    rw [List.append_nil]
  | barrier nr => rfl
  | scan tp => rfl
  | written i => rfl

theorem epoch_count_from_single_le (k : Nat) (m : SecMove) : epoch_count_from k [m] ≤ k + 1 := by
  cases m with
  | data ds bn id =>
    show (if id ≠ ID_SYNCER then k + 1 else k) ≤ k + 1
    split <;> omega
  | barrier nr => exact Nat.zero_le _
  | scan tp => exact Nat.le_succ k
  | written i => exact Nat.le_succ k

theorem epoch_count_from_le : ∀ (ms : List SecMove) (k : Nat),
    epoch_count_from k ms ≤ k + ms.length
  | [], k => Nat.le_refl k
  | m :: t, k => by
    rw [epoch_count_from_cons, List.length_cons]
    have h1 := epoch_count_from_le t (epoch_count_from k [m])
    have h2 := epoch_count_from_single_le k m
    omega

theorem sec_run_ok_refl (w : World) (hinv : sec_inv w) : sec_run_ok w w [] :=
  ⟨hinv, rfl, rfl, [], (List.append_nil _).symm, rfl, fun _ _ =>
    ⟨List.Perm.of_eq (by
      show [] ++ _ = _ ++ []
      rw [List.nil_append, List.append_nil]), fun hu _ => hu⟩⟩

theorem sec_run_ok_trans (w w1 w2 : World) (m : SecMove) (t : List SecMove)
    (h1 : sec_run_ok w w1 [m]) (h2 : sec_run_ok w1 w2 t) : sec_run_ok w w2 (m :: t) := by
  obtain ⟨a1, a2, a3, d1, a4, a5, a6⟩ := h1
  obtain ⟨b1, b2, b3, d2, b4, b5, b6⟩ := h2
  refine ⟨b1, b2.trans a2, ?_, d1 ++ d2, ?_, ?_, fun hC hnz => ?_⟩
  · rw [epoch_count_from_cons, ← a3]; exact b3
  · rw [b4, a4, List.append_assoc]
  · rw [barrier_acked_append, a5, b5, a3, ← barrier_replies_cons]
  · rw [received_cons] at hnz ⊢
    obtain ⟨p1, u1⟩ := a6 hC (fun p hp => hnz p (List.mem_append_left _ hp))
    obtain ⟨p2, u2⟩ := b6 (a2.trans hC) (fun p hp => hnz p (List.mem_append_right _ hp))
    refine ⟨?_, fun hu hb => ?_⟩
    · rw [write_acked_append, List.append_assoc]
      exact ((List.Perm.append_left (write_acked d1) p2).trans
        (List.Perm.of_eq (List.append_assoc _ _ _).symm)).trans
        ((List.Perm.append_right (received t) p1).trans
          (List.Perm.of_eq (List.append_assoc _ _ _)))
    · rw [List.length_cons] at hb
      have hle := epoch_count_from_single_le w.mdev.epoch_size m
      exact u2 (u1 hu (by show _ + 1 < _; omega)) (by rw [a3]; omega)

theorem sec_run_effect (fuel : Nat) : ∀ (ms : List SecMove) (w w1 : World), sec_inv w →
    sec_run fuel ms w = some w1 → sec_run_ok w w1 ms
  | [], w, w1, hinv, h => by
    unfold sec_run at h
    cases h
    exact sec_run_ok_refl w hinv
  | m :: t, w, w1, hinv, h => by
    unfold sec_run at h
    split at h
    · exact Option.noConfusion h
    · next x hx =>
      have h1 := sec_step_effect fuel w x m hinv hx
      exact sec_run_ok_trans w x w1 m t h1 (sec_run_effect fuel t x w1 h1.1 h)

theorem sec_fresh_inv (w : World) (h : sec_fresh w) :
    sec_inv w ∧ epoch_pending w.mdev = [] := by
  obtain ⟨h1, h2, h3, -⟩ := h
  have hlive : epoch_live w.mdev = [] := by
    unfold epoch_live; rw [h3]; rfl
  refine ⟨⟨h1, h2, by rw [h3]; exact Nat.zero_le _, by rw [hlive]; simp⟩, ?_⟩
  unfold epoch_pending
  rw [hlive]
  rfl

/-- C33: on a Secondary whose connection has taken every acknowledgement whole
since it started with an empty epoch set, after any sequence of Data packets,
Barrier packets, rounds of `drbd_asender` and completed writes: `epoch_size`
is the number of application Data packets (`block_id != ID_SYNCER`) since the
last Barrier packet, every BarrierAck sent so far carries the number of its
barrier and that count, and a Barrier packet `nr` arriving now makes
`receive_barrier` send, under protocol C, one WriteAck for every epoch entry
whose `block_id` is not 0, then `BarrierAck{nr, N}` with that count `N`, and
leave `epoch_size` 0. -/
theorem barrier_ack_counts_epoch (fuel : Nat) (ms : List SecMove) (w0 w : World) (nr : Nat)
    (hf : sec_fresh w0) (hrun : sec_run fuel ms w0 = some w) :
    w.mdev.epoch_size = epoch_count_from 0 ms ∧
    (∃ d, w.trace = w0.trace ++ d ∧ barrier_acked d = barrier_replies 0 ms) ∧
    ∃ w1 d, sec_step fuel w (SecMove.barrier nr) = some w1 ∧ w1.trace = w.trace ++ d ∧
      wire_of d =
        (if w.mdev.wire_protocol = DRBD_PROT_C then (epoch_pending w.mdev).map write_ack_of
         else []) ++
        [Event.send Drbd_Packet_Cmd.BarrierAck nr (epoch_count_from 0 ms)
          sizeof_Drbd_BarrierAck_Packet 0 ((sizeof_Drbd_BarrierAck_Packet + 0 : Nat) : Int)] ∧
      w1.mdev.epoch_size = 0 ∧ w1.mdev.epoch_set = [] := by
  obtain ⟨hinv0, -⟩ := sec_fresh_inv w0 hf
  obtain ⟨hinv, -, a3, d, a4, a5, -⟩ := sec_run_effect fuel ms w0 w hinv0 hrun
  rw [hf.2.2.1] at a3 a5
  refine ⟨a3, ⟨d, a4, a5⟩, ?_⟩
  obtain ⟨-, -, -, -, r5, r6, -, ⟨d1, r8, r9⟩, -⟩ := receive_barrier_effect w nr
    (fun i => if i = w.mdev.epoch_size then b_ack_taken else ack_taken) hinv.1
    (fun j hj => by
      show taken (if j = w.mdev.epoch_size then b_ack_taken else ack_taken) _
      rw [if_neg (by omega)]; exact ⟨rfl, rfl⟩)
    (by
      show taken (if w.mdev.epoch_size = w.mdev.epoch_size then b_ack_taken else ack_taken) _
      rw [if_pos rfl]; exact ⟨rfl, rfl⟩)
  rw [a3] at r9
  exact ⟨_, d1, rfl, r8, r9, r5, r6⟩

theorem barrier_ack_counts_epoch_witness :
    sec_fresh world_secondary ∧ sec_run 0 moves_epoch world_secondary = some world_epoch_open ∧
    epoch_count_from 0 moves_epoch = 2 ∧ world_epoch_open.mdev.epoch_size = 2 ∧
    world_epoch_open.mdev.wire_protocol = DRBD_PROT_C ∧
    (epoch_pending world_epoch_open.mdev).map write_ack_of =
      [Event.send Drbd_Packet_Cmd.WriteAck 8 102 sizeof_Drbd_BlockAck_Packet 0 24] ∧
    ∃ w1 d, sec_step 0 world_epoch_open (SecMove.barrier 5) = some w1 ∧
      w1.trace = world_epoch_open.trace ++ d ∧
      wire_of d =
        (if world_epoch_open.mdev.wire_protocol = DRBD_PROT_C
         then (epoch_pending world_epoch_open.mdev).map write_ack_of else []) ++
        [Event.send Drbd_Packet_Cmd.BarrierAck 5 (epoch_count_from 0 moves_epoch)
          sizeof_Drbd_BarrierAck_Packet 0 ((sizeof_Drbd_BarrierAck_Packet + 0 : Nat) : Int)] ∧
      w1.mdev.epoch_size = 0 ∧ w1.mdev.epoch_set = [] :=
  ⟨by decide, rfl, by decide, by decide, by decide, by decide,
   (barrier_ack_counts_epoch 0 moves_epoch world_secondary world_epoch_open 5 (by decide)
     rfl).2.2⟩

/-- C34: on a Secondary under protocol C whose connection has taken every
acknowledgement whole since it started with an empty epoch set and
`unacked_cnt == 0`, after any sequence of Data packets, Barrier packets, rounds
of `drbd_asender` and completed writes in which no application write carries
the block id 0: the WriteAck packets sent for application writes together with
the epoch entries whose `block_id` is still not 0 are, entry for entry, the
application writes received (each is acknowledged once or still owed), and
`unacked_cnt` is the number of entries still owed. A round of `drbd_asender`
acknowledges exactly the owed entries whose buffer is up to date, leaves their
`block_id` 0 and lowers `unacked_cnt` by their number; `receive_barrier`
acknowledges all entries still owed and leaves `unacked_cnt` 0. -/
theorem write_ack_exactly_once (fuel : Nat) (ms : List SecMove) (w0 w : World)
    (hf : sec_fresh w0) (hC : w0.mdev.wire_protocol = DRBD_PROT_C)
    (hrun : sec_run fuel ms w0 = some w) (hnz : ∀ p ∈ received ms, p.2 ≠ 0)
    (hlen : ms.length + 1 < 2 ^ 32) :
    (∃ d, w.trace = w0.trace ++ d ∧
      List.Perm (write_acked d ++ (epoch_pending w.mdev).map Tl_epoch_entry.key)
        (received ms)) ∧
    w.mdev.unacked_cnt = (epoch_pending w.mdev).length ∧
    (∀ tp, ∃ w1 d1, sec_step fuel w (SecMove.scan tp) = some w1 ∧ w1.trace = w.trace ++ d1 ∧
      write_acked d1 =
        ((epoch_live w.mdev).filter Tl_epoch_entry.ready).map Tl_epoch_entry.key ∧
      epoch_live w1.mdev = (epoch_live w.mdev).map Tl_epoch_entry.scanned ∧
      w1.mdev.unacked_cnt + ((epoch_live w.mdev).filter Tl_epoch_entry.ready).length =
        w.mdev.unacked_cnt ∧
      w1.mdev.unacked_cnt = (epoch_pending w1.mdev).length) ∧
    (∀ nr, ∃ w1 d1, sec_step fuel w (SecMove.barrier nr) = some w1 ∧
      w1.trace = w.trace ++ d1 ∧
      write_acked d1 = (epoch_pending w.mdev).map Tl_epoch_entry.key ∧
      w1.mdev.epoch_size = 0 ∧ w1.mdev.unacked_cnt = 0) := by
  obtain ⟨hinv0, hp0⟩ := sec_fresh_inv w0 hf
  obtain ⟨hinv, a2, a3, d, a4, -, a6⟩ := sec_run_effect fuel ms w0 w hinv0 hrun
  obtain ⟨p, u⟩ := a6 hC hnz
  rw [hp0] at p u
  have hu : w.mdev.unacked_cnt = (epoch_pending w.mdev).length :=
    u hf.2.2.2 (by rw [hf.2.2.1]; omega)
  have hwC : w.mdev.wire_protocol = DRBD_PROT_C := a2.trans hC
  have hsz : w.mdev.epoch_size + 1 < 2 ^ 32 := by
    have := epoch_count_from_le ms w0.mdev.epoch_size
    rw [hf.2.2.1] at this
    rw [a3, hf.2.2.1]
    omega
  have hnil : ∀ p ∈ ([] : List (Nat × Nat)), p.2 ≠ 0 :=
    fun p hp => absurd hp (List.not_mem_nil p)
  refine ⟨⟨d, a4, p⟩, hu, fun tp => ?_, fun nr => ?_⟩
  · obtain ⟨hw, hs, hl, hid⟩ := hinv
    obtain ⟨f1, f2, ⟨d1, d2, f3, f4, -, f6⟩, f7⟩ := drbd_asender_round_effect w tp cmd_taken
      cmd_taken ⟨sizeof_Drbd_Barrier_Packet, false⟩ (fun _ => ack_taken) (fun _ => ack_taken) hw
      (by rw [hs]; exact fun h => Drbd_State.noConfusion h) (by decide) (by decide)
      (fun _ => ⟨rfl, rfl⟩) (fun _ => ⟨rfl, rfl⟩)
    rw [if_pos hwC] at f2 f6 f7
    obtain ⟨-, p2, -⟩ := scanned_perm (epoch_live w.mdev)
    have hrid : ∀ e ∈ (epoch_live w.mdev).filter Tl_epoch_entry.ready,
        e.block_id ≠ ID_SYNCER := fun e he => hid e (List.mem_filter.1 he).1
    obtain ⟨q1, -⟩ := write_acked_acks _ hrid
    have hle := epoch_pending_le w.mdev
    have hp2 : ((epoch_live w.mdev).filter Tl_epoch_entry.ready).length +
        (epoch_pending (drbd_asender_round w tp cmd_taken cmd_taken
          ⟨sizeof_Drbd_Barrier_Packet, false⟩ (fun _ => ack_taken)
          (fun _ => ack_taken)).mdev).length = (epoch_pending w.mdev).length := by
      unfold epoch_pending
      rw [f2]
      exact p2
    have hu1 := f7 (by omega) (fun _ => by omega)
    refine ⟨_, d1 ++ d2, rfl, by rw [f3, List.append_assoc], ?_, f2, ?_, ?_⟩
    · rw [write_acked_append, f4, ← write_acked_wire, f6, q1, List.nil_append]
    · rw [hu1]; omega
    · rw [hu1]; omega
  · obtain ⟨b1, -, b3, d1, b4, -, b6⟩ := sec_step_barrier w nr hinv
    obtain ⟨bp, bu⟩ := b6 hwC hnil
    have hb0 : (receive_barrier w (some nr)
        (fun i => if i = w.mdev.epoch_size then b_ack_taken else ack_taken)).1.mdev.epoch_size
        = 0 := b3
    have hpend : epoch_pending (receive_barrier w (some nr)
        (fun i => if i = w.mdev.epoch_size then b_ack_taken else ack_taken)).1.mdev = [] := by
      have := epoch_pending_le (receive_barrier w (some nr)
        (fun i => if i = w.mdev.epoch_size then b_ack_taken else ack_taken)).1.mdev
      rw [hb0] at this
      exact List.eq_nil_of_length_eq_zero (by omega)
    refine ⟨_, d1, rfl, b4, ?_, hb0, ?_⟩
    · rw [hpend] at bp
      have h1 : write_acked d1 ++ [] = (epoch_pending w.mdev).map Tl_epoch_entry.key ++ [] →
          write_acked d1 = (epoch_pending w.mdev).map Tl_epoch_entry.key := by
        intro h; rw [List.append_nil, List.append_nil] at h; exact h
      obtain ⟨-, -, -, -, -, -, -, ⟨d2, r8, r9⟩, -⟩ := receive_barrier_effect w nr
        (fun i => if i = w.mdev.epoch_size then b_ack_taken else ack_taken) hinv.1
        (fun j hj => by
          show taken (if j = w.mdev.epoch_size then b_ack_taken else ack_taken) _
          rw [if_neg (by omega)]; exact ⟨rfl, rfl⟩)
        (by
          show taken (if w.mdev.epoch_size = w.mdev.epoch_size then b_ack_taken
            else ack_taken) _
          rw [if_pos rfl]; exact ⟨rfl, rfl⟩)
      have hd : d1 = d2 := List.append_cancel_left (b4.symm.trans r8)
      have hpid : ∀ e ∈ epoch_pending w.mdev, e.block_id ≠ ID_SYNCER :=
        fun e he => hinv.2.2.2 e (epoch_pending_sub _ e he)
      rw [hd, ← write_acked_wire, r9, if_pos hwC, write_acked_append,
        (write_acked_acks _ hpid).1]
      show _ ++ [] = _
      rw [List.append_nil]
    · rw [bu hu hsz, hpend]
      rfl

theorem write_ack_exactly_once_witness :
    sec_fresh world_secondary ∧ world_secondary.mdev.wire_protocol = DRBD_PROT_C ∧
    sec_run 0 moves_epoch world_secondary = some world_epoch_open ∧
    received moves_epoch = [(7, 101), (8, 102)] ∧
    write_acked world_epoch_open.trace = [(7, 101)] ∧
    (epoch_pending world_epoch_open.mdev).map Tl_epoch_entry.key = [(8, 102)] ∧
    world_epoch_open.mdev.unacked_cnt = 1 ∧
    world_epoch_open.mdev.unacked_cnt = (epoch_pending world_epoch_open.mdev).length :=
  ⟨by decide, by decide, rfl, by decide, by decide, by decide, by decide,
   (write_ack_exactly_once 0 moves_epoch world_secondary world_epoch_open (by decide)
     (by decide) rfl (by decide) (by decide)).2.1⟩

/-! ## The completions made by `tl_clear` -/

theorem sent_completes_congr {r1 r : request} (hc : r1.cmd = r.cmd)
    (hs : r1.rq_status = r.rq_status) : sent_completes r1 ↔ sent_completes r := by
  unfold sent_completes
  rw [hc, hs]

theorem tl_live_congr {w1 w : World} (e : Tl_entry) (hm : w1.minor = w.minor)
    (hs : (w1.reqs e.req).rq_status = (w.reqs e.req).rq_status)
    (hd : (w1.reqs e.req).rq_dev = (w.reqs e.req).rq_dev)
    (hx : (w1.reqs e.req).sector = (w.reqs e.req).sector) : tl_live w1 e ↔ tl_live w e := by
  unfold tl_live
  rw [hm, hs, hd, hx]

theorem sent_completes_sent {r : request} (hc : r.cmd ≠ READ)
    (hs : r.rq_status = RQ_DRBD_SENT ||| 1) : ¬ sent_completes r := by
  unfold sent_completes
  rw [hs]
  intro h
  rcases h with h | h | h
  · exact hc h
  · revert h; decide
  · revert h; decide

/-- What `drbd_end_req(req, RQ_DRBD_SENT, 1)` does. -/
theorem drbd_end_req_sent (fuel : Nat) (w : World) (req : Nat) (h : tl_wf w.mdev)
    (hf : w.mdev.tl_size ≤ fuel) :
    ∃ w1 new, drbd_end_req fuel w req RQ_DRBD_SENT 1 = some w1 ∧
      w1.minor = w.minor ∧
      (∀ a, (w1.reqs a).rq_dev = (w.reqs a).rq_dev ∧ (w1.reqs a).sector = (w.reqs a).sector ∧
        (w1.reqs a).cmd = (w.reqs a).cmd ∧
        (a ≠ req → (w1.reqs a).rq_status = (w.reqs a).rq_status)) ∧
      w1.trace = w.trace ++ new ∧
      ((sent_completes (w.reqs req) ∧ (w1.reqs req).rq_status = RQ_INACTIVE ∧
          Event.end_request req (1 &&& (w.reqs req).rq_status) ∈ new ∧
          ∀ r ok, Event.end_request r ok ∈ new →
            r = req ∧ ok = 1 &&& (w.reqs req).rq_status) ∨
       (¬ sent_completes (w.reqs req) ∧ (∀ r ok, Event.end_request r ok ∉ new) ∧
          ((w.reqs req).rq_status &&& 0xfffe = RQ_DRBD_NOTHING →
            (w1.reqs req).rq_status = RQ_DRBD_SENT ||| 1) ∧
          ((w.reqs req).rq_status &&& 0xfffe ≠ RQ_DRBD_NOTHING →
            (w1.reqs req).rq_status = (w.reqs req).rq_status))) := by
  have hfr : ∀ v a, ((set_rq_status w req v).reqs a).rq_dev = (w.reqs a).rq_dev ∧
      ((set_rq_status w req v).reqs a).sector = (w.reqs a).sector ∧
      ((set_rq_status w req v).reqs a).cmd = (w.reqs a).cmd ∧
      (a ≠ req → ((set_rq_status w req v).reqs a).rq_status = (w.reqs a).rq_status) := by
    intro v a
    refine ⟨set_rq_status_dev _ _ _ _, set_rq_status_sector _ _ _ _, set_rq_status_cmd _ _ _ _,
      ?_⟩
    intro ha
    rw [set_rq_status_status, if_neg ha]
  have hcompl : ∀ wake, sent_completes (w.reqs req) →
      ∃ w1 new, end_it_unlocked fuel w req 1 wake = some w1 ∧
      w1.minor = w.minor ∧
      (∀ a, (w1.reqs a).rq_dev = (w.reqs a).rq_dev ∧ (w1.reqs a).sector = (w.reqs a).sector ∧
        (w1.reqs a).cmd = (w.reqs a).cmd ∧
        (a ≠ req → (w1.reqs a).rq_status = (w.reqs a).rq_status)) ∧
      w1.trace = w.trace ++ new ∧
      ((sent_completes (w.reqs req) ∧ (w1.reqs req).rq_status = RQ_INACTIVE ∧
          Event.end_request req (1 &&& (w.reqs req).rq_status) ∈ new ∧
          ∀ r ok, Event.end_request r ok ∈ new →
            r = req ∧ ok = 1 &&& (w.reqs req).rq_status) ∨
       (¬ sent_completes (w.reqs req) ∧ (∀ r ok, Event.end_request r ok ∉ new) ∧
          ((w.reqs req).rq_status &&& 0xfffe = RQ_DRBD_NOTHING →
            (w1.reqs req).rq_status = RQ_DRBD_SENT ||| 1) ∧
          ((w.reqs req).rq_status &&& 0xfffe ≠ RQ_DRBD_NOTHING →
            (w1.reqs req).rq_status = (w.reqs req).rq_status))) := by
    intro wake hc
    obtain ⟨w1, tail, h1, h2, h3, h4, -, h6, -⟩ := end_it_unlocked_spec fuel w req 1 wake h hf
    refine ⟨w1, _, h1, h6, ?_, h2, Or.inl ⟨hc, ?_, List.mem_cons_self _ _, ?_⟩⟩
    · intro a; rw [h4]; exact hfr _ a
    · rw [h4, set_rq_status_status, if_pos rfl]
    · intro r ok hmem
      rcases List.mem_cons.mp hmem with hm | hm
      · injection hm with e1 e2
        exact ⟨e1, e2⟩
      · rcases h3 _ hm with e1 | e1 <;> cases e1
  have hsame : ∀ a, (w.reqs a).rq_dev = (w.reqs a).rq_dev ∧
      (w.reqs a).sector = (w.reqs a).sector ∧ (w.reqs a).cmd = (w.reqs a).cmd ∧
      (a ≠ req → (w.reqs a).rq_status = (w.reqs a).rq_status) :=
    fun a => ⟨rfl, rfl, rfl, fun _ => rfl⟩
  have hprint : ∀ m, ¬ sent_completes (w.reqs req) →
      (w.reqs req).rq_status &&& 0xfffe ≠ RQ_DRBD_NOTHING →
      ∃ w1 new, some ({ w with trace := w.trace ++ [Event.printk m] } : World) = some w1 ∧
      w1.minor = w.minor ∧
      (∀ a, (w1.reqs a).rq_dev = (w.reqs a).rq_dev ∧ (w1.reqs a).sector = (w.reqs a).sector ∧
        (w1.reqs a).cmd = (w.reqs a).cmd ∧
        (a ≠ req → (w1.reqs a).rq_status = (w.reqs a).rq_status)) ∧
      w1.trace = w.trace ++ new ∧
      ((sent_completes (w.reqs req) ∧ (w1.reqs req).rq_status = RQ_INACTIVE ∧
          Event.end_request req (1 &&& (w.reqs req).rq_status) ∈ new ∧
          ∀ r ok, Event.end_request r ok ∈ new →
            r = req ∧ ok = 1 &&& (w.reqs req).rq_status) ∨
       (¬ sent_completes (w.reqs req) ∧ (∀ r ok, Event.end_request r ok ∉ new) ∧
          ((w.reqs req).rq_status &&& 0xfffe = RQ_DRBD_NOTHING →
            (w1.reqs req).rq_status = RQ_DRBD_SENT ||| 1) ∧
          ((w.reqs req).rq_status &&& 0xfffe ≠ RQ_DRBD_NOTHING →
            (w1.reqs req).rq_status = (w.reqs req).rq_status))) := by
    intro m hn hno
    refine ⟨_, [Event.printk m], rfl, rfl, hsame, rfl, Or.inr ⟨hn, ?_, ?_, fun _ => rfl⟩⟩
    · intro r ok hmem
      rcases List.mem_cons.mp hmem with hm | hm
      · cases hm
      · cases hm
    · intro h1; exact absurd h1 hno
  unfold drbd_end_req
  simp only
  split
  · next hr => exact hcompl _ (Or.inl hr)
  · next hr =>
    split
    · next h1 => exact hcompl _ (Or.inr (Or.inl h1))
    · next h1 =>
      split
      · next h2 =>
        have hn : ¬ sent_completes (w.reqs req) := by
          unfold sent_completes
          rw [h2]
          intro hx
          rcases hx with hx | hx | hx
          · exact hr hx
          · revert hx; decide
          · revert hx; decide
        refine ⟨_, [], rfl, rfl, hfr _, by simp [set_rq_status], Or.inr ⟨hn, by simp, ?_, ?_⟩⟩
        · intro _
          rw [set_rq_status_status, if_pos rfl]
          rfl
        · intro hx; exact absurd h2 hx
      · next h2 =>
        split
        · next h3 =>
          have hn : ¬ sent_completes (w.reqs req) := by
            unfold sent_completes
            rw [h3]
            intro hx
            rcases hx with hx | hx | hx
            · exact hr hx
            · revert hx; decide
            · revert hx; decide
          rw [if_neg (by decide)]
          exact hprint _ hn h2
        · next h3 =>
          split
          · next h4 =>
            rw [if_pos True.intro]
            exact hcompl _ (Or.inr (Or.inr h4))
          · next h4 =>
            have hn : ¬ sent_completes (w.reqs req) := by
              unfold sent_completes
              intro hx
              rcases hx with hx | hx | hx
              · exact hr hx
              · exact h1 hx
              · exact h4 hx
            exact hprint _ hn h2

theorem ClearEnds_nil (et : Bool) (w : World) : ClearEnds et w w [] := by
  refine ⟨rfl, fun _ => ⟨rfl, rfl, rfl⟩, [], by simp, by simp, ?_, fun _ _ => rfl⟩
  intro a ha
  obtain ⟨_, e, he, _⟩ := ha
  cases he

theorem tl_handled_append (et : Bool) (w : World) (s1 s2 : List Tl_entry) (a : Nat) :
    tl_handled et w (s1 ++ s2) a ↔ tl_handled et w s1 a ∨ tl_handled et w s2 a := by
  unfold tl_handled
  constructor
  · rintro ⟨he, e, hm, hd, hr, hl⟩
    rcases List.mem_append.mp hm with hm | hm
    · exact Or.inl ⟨he, e, hm, hd, hr, hl⟩
    · exact Or.inr ⟨he, e, hm, hd, hr, hl⟩
  · rintro (⟨he, e, hm, hd, hr, hl⟩ | ⟨he, e, hm, hd, hr, hl⟩)
    · exact ⟨he, e, List.mem_append_left _ hm, hd, hr, hl⟩
    · exact ⟨he, e, List.mem_append_right _ hm, hd, hr, hl⟩

theorem tl_handled_congr {w1 w : World} (et : Bool) (seg : List Tl_entry) (a : Nat)
    (hm : w1.minor = w.minor)
    (hs : (w1.reqs a).rq_status = (w.reqs a).rq_status)
    (hd : (w1.reqs a).rq_dev = (w.reqs a).rq_dev)
    (hx : (w1.reqs a).sector = (w.reqs a).sector) :
    tl_handled et w1 seg a ↔ tl_handled et w seg a := by
  unfold tl_handled
  constructor
  · rintro ⟨he, e, hmem, hdat, hr, hl⟩
    subst hr
    exact ⟨he, e, hmem, hdat, rfl, (tl_live_congr e hm hs hd hx).mp hl⟩
  · rintro ⟨he, e, hmem, hdat, hr, hl⟩
    subst hr
    exact ⟨he, e, hmem, hdat, rfl, (tl_live_congr e hm hs hd hx).mpr hl⟩

theorem tl_handled_live {et : Bool} {w : World} {seg : List Tl_entry} {a : Nat}
    (h : tl_handled et w seg a) : (w.reqs a).rq_status ≠ RQ_INACTIVE := by
  obtain ⟨_, e, _, _, hr, hl⟩ := h
  subst hr
  exact hl.1

theorem ClearEnds_trans {et : Bool} {w w1 w2 : World} {s1 s2 : List Tl_entry}
    (h1 : ClearEnds et w w1 s1) (h2 : ClearEnds et w1 w2 s2) :
    ClearEnds et w w2 (s1 ++ s2) := by
  obtain ⟨m1, q1, n1, t1, e1, c1, f1⟩ := h1
  obtain ⟨m2, q2, n2, t2, e2, c2, f2⟩ := h2
  -- a request handled in the first part is not handled (with effect) in the second
  have hsecond : ∀ a, tl_handled et w s1 a →
      (w2.reqs a).rq_status = (w1.reqs a).rq_status ∧
      ∀ ok, Event.end_request a ok ∉ n2 := by
    intro a ha
    by_cases hc : sent_completes (w.reqs a)
    · have hin := ((c1 a ha).1 hc).2
      have hnot : ¬ tl_handled et w1 s2 a := fun hx => tl_handled_live hx hin
      exact ⟨f2 a hnot, fun ok hmem => hnot (e2 a ok hmem).1⟩
    · have hcmd : (w1.reqs a).cmd ≠ READ := by
        rw [(q1 a).2.2]
        exact fun hx => hc (Or.inl hx)
      have hn1 : ¬ sent_completes (w1.reqs a) := by
        by_cases hno : (w.reqs a).rq_status &&& 0xfffe = RQ_DRBD_NOTHING
        · exact sent_completes_sent hcmd (((c1 a ha).2 hc).1 hno)
        · rw [sent_completes_congr (q1 a).2.2 (((c1 a ha).2 hc).2 hno)]
          exact hc
      have hno1 : (w1.reqs a).rq_status &&& 0xfffe ≠ RQ_DRBD_NOTHING := by
        by_cases hno : (w.reqs a).rq_status &&& 0xfffe = RQ_DRBD_NOTHING
        · rw [((c1 a ha).2 hc).1 hno]
          decide
        · rw [((c1 a ha).2 hc).2 hno]
          exact hno
      refine ⟨?_, fun ok hmem => hn1 (e2 a ok hmem).2.1⟩
      by_cases h2a : tl_handled et w1 s2 a
      · exact ((c2 a h2a).2 hn1).2 hno1
      · exact f2 a h2a
  -- a request not handled in the first part looks the same to the second
  have hfirst : ∀ a, ¬ tl_handled et w s1 a →
      (tl_handled et w1 s2 a ↔ tl_handled et w s2 a) ∧
      (sent_completes (w1.reqs a) ↔ sent_completes (w.reqs a)) ∧
      (w1.reqs a).rq_status = (w.reqs a).rq_status := by
    intro a ha
    exact ⟨tl_handled_congr et s2 a m1 (f1 a ha) (q1 a).1 (q1 a).2.1,
      sent_completes_congr (q1 a).2.2 (f1 a ha), f1 a ha⟩
  refine ⟨m2.trans m1, ?_, n1 ++ n2, ?_, ?_, ?_, ?_⟩
  · intro a
    exact ⟨(q2 a).1.trans (q1 a).1, (q2 a).2.1.trans (q1 a).2.1, (q2 a).2.2.trans (q1 a).2.2⟩
  · rw [t2, t1, List.append_assoc]
  · intro req ok hmem
    rcases List.mem_append.mp hmem with hm | hm
    · obtain ⟨x1, x2, x3⟩ := e1 req ok hm
      exact ⟨(tl_handled_append et w s1 s2 req).mpr (Or.inl x1), x2, x3⟩
    · have hnh : ¬ tl_handled et w s1 req := fun hx => (hsecond req hx).2 ok hm
      obtain ⟨y1, y2, y3⟩ := hfirst req hnh
      obtain ⟨x1, x2, x3⟩ := e2 req ok hm
      exact ⟨(tl_handled_append et w s1 s2 req).mpr (Or.inr (y1.mp x1)), y2.mp x2,
        by rw [x3, y3]⟩
  · intro a ha
    by_cases h1a : tl_handled et w s1 a
    · obtain ⟨hst, -⟩ := hsecond a h1a
      refine ⟨fun hc => ?_, fun hc => ?_⟩
      · obtain ⟨x1, x2⟩ := (c1 a h1a).1 hc
        exact ⟨List.mem_append_left _ x1, by rw [hst, x2]⟩
      · obtain ⟨x1, x2⟩ := (c1 a h1a).2 hc
        exact ⟨fun hno => by rw [hst]; exact x1 hno, fun hno => by rw [hst]; exact x2 hno⟩
    · obtain ⟨y1, y2, y3⟩ := hfirst a h1a
      have h2a : tl_handled et w1 s2 a := by
        rcases (tl_handled_append et w s1 s2 a).mp ha with hx | hx
        · exact absurd hx h1a
        · exact y1.mpr hx
      refine ⟨fun hc => ?_, fun hc => ?_⟩
      · obtain ⟨x1, x2⟩ := (c2 a h2a).1 (y2.mpr hc)
        rw [y3] at x1
        exact ⟨List.mem_append_right _ x1, x2⟩
      · obtain ⟨x1, x2⟩ := (c2 a h2a).2 (fun hx => hc (y2.mp hx))
        rw [y3] at x1 x2
        exact ⟨x1, x2⟩
  · intro a ha
    have h1a : ¬ tl_handled et w s1 a :=
      fun hx => ha ((tl_handled_append et w s1 s2 a).mpr (Or.inl hx))
    obtain ⟨y1, -, y3⟩ := hfirst a h1a
    have h2a : ¬ tl_handled et w1 s2 a :=
      fun hx => ha ((tl_handled_append et w s1 s2 a).mpr (Or.inr (y1.mp hx)))
    rw [f2 a h2a, y3]

theorem tl_clear_body_ends (f0 : Nat) (et : Bool) (w w1 : World) (e : Tl_entry)
    (h : tl_wf w.mdev) (hf : w.mdev.tl_size ≤ f0) (hb : tl_clear_body f0 et w e = some w1) :
    ClearEnds et w w1 [e] := by
  have hnone : ¬ (et = true ∧ e.req ≠ TL_BARRIER ∧ tl_live w e) →
      ∀ a, ¬ tl_handled et w [e] a := by
    intro hn a ha
    obtain ⟨h1, e1, hm, hd, -, hl⟩ := ha
    rw [List.mem_singleton] at hm
    subst hm
    exact hn ⟨h1, hd, hl⟩
  unfold tl_clear_body at hb
  by_cases hbar : e.req = TL_BARRIER
  · simp only [hbar, ne_eq, not_true_eq_false, if_false] at hb
    cases hb
    have hn := hnone (fun hx => hx.2.1 hbar)
    exact ⟨rfl, fun _ => ⟨rfl, rfl, rfl⟩, [], by simp, by simp,
      fun a ha => absurd ha (hn a), fun _ _ => rfl⟩
  · simp only [ne_eq, hbar, not_false_eq_true, if_true] at hb
    split at hb
    · next hl =>
      obtain ⟨het, hl1, hl2, hl3⟩ := hl
      have hlive : tl_live w e := ⟨hl1, hl2, hl3⟩
      obtain ⟨w2, new, h2, hmin, hq, ht, hcase⟩ := drbd_end_req_sent f0
        { w with trace := w.trace ++
          [Event.set_block_status (e.sector_nr >>> (w.mdev.blk_size_b - 9)) w.mdev.blk_size_b
            SS_OUT_OF_SYNC] } e.req h hf
      rw [h2] at hb
      cases hb
      have hself : tl_handled et w [e] e.req :=
        ⟨het, e, List.mem_singleton.mpr rfl, hbar, rfl, hlive⟩
      have honly : ∀ a, tl_handled et w [e] a → a = e.req := by
        intro a ha
        obtain ⟨-, e1, hm, -, hr, -⟩ := ha
        rw [List.mem_singleton] at hm
        rw [← hr, hm]
      refine ⟨hmin, fun a => ⟨(hq a).1, (hq a).2.1, (hq a).2.2.1⟩,
        Event.set_block_status (e.sector_nr >>> (w.mdev.blk_size_b - 9)) w.mdev.blk_size_b
          SS_OUT_OF_SYNC :: new, ?_, ?_, ?_, ?_⟩
      · dsimp only
        rw [ht]
        simp
      · intro req ok hmem
        rcases List.mem_cons.mp hmem with hm | hm
        · cases hm
        · rcases hcase with ⟨hc, -, -, honl⟩ | ⟨-, hno, -, -⟩
          · obtain ⟨x1, x2⟩ := honl req ok hm
            subst x1
            exact ⟨hself, hc, x2⟩
          · exact absurd hm (hno req ok)
      · intro a ha
        have := honly a ha
        subst this
        rcases hcase with ⟨hc, hin, hmem, -⟩ | ⟨hn, -, x1, x2⟩
        · exact ⟨fun _ => ⟨List.mem_cons_of_mem _ hmem, hin⟩, fun hx => absurd hc hx⟩
        · exact ⟨fun hx => absurd hx hn, fun _ => ⟨x1, x2⟩⟩
      · intro a ha
        have hne : a ≠ e.req := fun hx => ha (hx ▸ hself)
        exact (hq a).2.2.2 hne
    · next hl =>
      cases hb
      have hn := hnone (fun hx => hl ⟨hx.1, hx.2.2.1, hx.2.2.2.1, hx.2.2.2.2⟩)
      refine ⟨rfl, fun _ => ⟨rfl, rfl, rfl⟩, [_], rfl, ?_,
        fun a ha => absurd ha (hn a), fun _ _ => rfl⟩
      intro req ok hmem
      rcases List.mem_cons.mp hmem with hm | hm
      · cases hm
      · cases hm

theorem tl_clear_loop_ends (f0 : Nat) (et : Bool) (w0 : World) (h : tl_wf w0.mdev)
    (hf : w0.mdev.tl_size ≤ f0) :
    ∀ k j (w : World) fuel, same_ring w0.mdev w.mdev → j + k = tl_count w0.mdev → k < fuel →
      ∃ w1, tl_clear_loop f0 et fuel w (tl_slot w0.mdev j) = some w1 ∧
        ClearRel et w w1 ((tl_entries w0.mdev).drop j) ∧
        ClearEnds et w w1 ((tl_entries w0.mdev).drop j) := by
  intro k
  induction k with
  | zero =>
    intro j w fuel hr hj hfu
    obtain ⟨f, rfl⟩ : ∃ f, fuel = f + 1 := ⟨fuel - 1, by omega⟩
    have hjc : j = tl_count w0.mdev := by omega
    subst hjc
    unfold tl_clear_loop
    rw [tl_slot_count _ h, ← hr.2.2.1, if_pos rfl]
    refine ⟨w, rfl, ?_⟩
    rw [List.drop_of_length_le (by rw [tl_entries_length])]
    exact ⟨ClearRel_nil et w, ClearEnds_nil et w⟩
  | succ k ih =>
    intro j w fuel hr hj hfu
    obtain ⟨f, rfl⟩ : ∃ f, fuel = f + 1 := ⟨fuel - 1, by omega⟩
    have hjc : j < tl_count w0.mdev := by omega
    have hwf : tl_wf w.mdev := same_ring_wf hr h
    have hfw : w.mdev.tl_size ≤ f0 := by rw [hr.2.2.2]; exact hf
    obtain ⟨w1, hb1, hrel1⟩ := tl_clear_body_spec f0 et w (tl_at w0.mdev (tl_slot w0.mdev j))
      hwf hfw
    have hends1 := tl_clear_body_ends f0 et w w1 _ hwf hfw hb1
    obtain ⟨w2, hl2, hrel2, hends2⟩ :=
      ih (j + 1) w1 f (same_ring_trans hr hrel1.1) (by omega) (by omega)
    unfold tl_clear_loop
    rw [hr.2.2.1, if_neg (tl_slot_ne_end _ h j hjc), same_ring_at hr, hb1]
    simp only
    rw [hrel1.1.2.2.2, hr.2.2.2, tl_slot_next _ h j hjc, hl2]
    refine ⟨w2, rfl, ?_⟩
    rw [tl_entries_drop_cons _ j hjc]
    exact ⟨ClearRel_trans hrel1 hrel2, ClearEnds_trans hends1 hends2⟩

/-- What `tl_clear` does to the requests of a well-formed ring. -/
theorem tl_clear_ends (fuel : Nat) (w w1 : World) (h : tl_wf w.mdev)
    (hf : w.mdev.tl_size ≤ fuel) (hc : tl_clear fuel w = some w1) :
    ClearEnds (decide (w.mdev.wire_protocol = DRBD_PROT_B ∨
      w.mdev.wire_protocol = DRBD_PROT_C)) w w1 (tl_entries w.mdev) := by
  have hcnt := tl_count_lt w.mdev h
  obtain ⟨w2, hl, -, hends⟩ :=
    tl_clear_loop_ends fuel
      (decide (w.mdev.wire_protocol = DRBD_PROT_B ∨ w.mdev.wire_protocol = DRBD_PROT_C)) w h hf
      (tl_count w.mdev) 0 w fuel (same_ring_refl _) (by omega) (by omega)
  have h0 : tl_slot w.mdev 0 = w.mdev.tl_begin := by
    unfold tl_slot; simp [h.2.1]
  rw [h0] at hl
  rw [List.drop_zero] at hends
  unfold tl_clear at hc
  simp only [hl] at hc
  cases hc
  exact hends

/-- C8, counterexample: under protocol C two writes (requests 101 and 102,
sectors 8 and 16) are handed to the disk and sent to the peer, and the local
write of request 101 finishes with success. The connection is lost (the
disconnect path sets `cstate` to `Unconnected`) and `tl_clear` runs. The entry
of request 102 lies in the log and the request is live, yet `tl_clear` does
not complete it: the only completion is that of request 101, and request 102,
whose local write is outstanding, stays active with
`rq_status == RQ_DRBD_SENT | 1`. -/
theorem tl_clear_defers_unwritten_counterexample :
    world0.mdev.wire_protocol = DRBD_PROT_C ∧
    ∃ wm w, run 4 [Action.do_request 101 (rq_write 8) true barrier_taken data_taken,
        Action.do_request 102 (rq_write 16) true barrier_taken data_taken,
        Action.dio_end 101 1] world0 = some wm ∧
      wm.mdev.wire_protocol = DRBD_PROT_C ∧
      (⟨102, 16⟩ : Tl_entry) ∈ tl_entries wm.mdev ∧
      (⟨102, 16⟩ : Tl_entry).req ≠ TL_BARRIER ∧ tl_live wm ⟨102, 16⟩ ∧
      (wm.reqs 102).rq_status = RQ_DRBD_NOTHING ∧
      tl_clear 4 { wm with mdev := set_cstate wm.mdev Drbd_CState.Unconnected } = some w ∧
      w.trace = wm.trace ++ [Event.set_block_status 1 12 SS_OUT_OF_SYNC,
        Event.end_request 101 1, Event.set_block_status 2 12 SS_OUT_OF_SYNC] ∧
      (w.reqs 102).rq_status = RQ_DRBD_SENT ||| 1 ∧ (w.reqs 102).rq_status ≠ RQ_INACTIVE :=
  ⟨rfl, _, _, rfl, by decide, by decide, by decide, by decide, by decide, rfl, by decide,
    by decide, by decide⟩

/-- C8 (amended): on a well-formed ring `tl_clear` returns; the
`set_block_status` calls it makes are exactly one `SS_OUT_OF_SYNC` mark per
data entry between `tl_begin` and `tl_end`, in log order, for block
`sector_nr >> (blk_size_b - 9)`, and none for a BARRIER entry; the ring is
reset to `tl_begin == tl_end == transfer_log`, after which `tl_dependence` is
FALSE for every sector. A request is completed exactly when the protocol is B
or C, a data entry of the log names it, it is still live, and the event "sent"
finishes it (its local write has been reported, or it is a read or a
Secondary's write); the flag of the completion is `1 & rq_status`, the result
of the local write, and the request is `RQ_INACTIVE` afterwards. A live
request of a data entry under B or C that "sent" does not finish is not
completed: with its local write outstanding (`RQ_DRBD_NOTHING`) its
`rq_status` becomes `RQ_DRBD_SENT | 1`, otherwise `rq_status` is kept. The
`rq_status` of every other request is kept. -/
theorem tl_clear_marks_and_resets (fuel : Nat) (w : World) (h : tl_wf w.mdev)
    (hf : w.mdev.tl_size ≤ fuel) :
    ∃ w1 new, tl_clear fuel w = some w1 ∧
      w1.mdev.tl_begin = 0 ∧ w1.mdev.tl_end = 0 ∧
      (∀ s f, 0 < f → tl_dependence f w1.mdev s = some false) ∧
      w1.trace = w.trace ++ new ∧
      sbs_of new = ((tl_entries w.mdev).filter (fun e => !e.isBarrier)).map
        (fun e => (e.sector_nr >>> (w.mdev.blk_size_b - 9), w.mdev.blk_size_b, SS_OUT_OF_SYNC)) ∧
      (∀ req ok, Event.end_request req ok ∈ new ↔
        (w.mdev.wire_protocol = DRBD_PROT_B ∨ w.mdev.wire_protocol = DRBD_PROT_C) ∧
        (∃ e ∈ tl_entries w.mdev, e.req ≠ TL_BARRIER ∧ e.req = req ∧ tl_live w e) ∧
        sent_completes (w.reqs req) ∧ ok = 1 &&& (w.reqs req).rq_status) ∧
      (∀ e ∈ tl_entries w.mdev, e.req ≠ TL_BARRIER → tl_live w e →
        (w.mdev.wire_protocol = DRBD_PROT_B ∨ w.mdev.wire_protocol = DRBD_PROT_C) →
        (sent_completes (w.reqs e.req) → (w1.reqs e.req).rq_status = RQ_INACTIVE) ∧
        (¬ sent_completes (w.reqs e.req) →
          ((w.reqs e.req).rq_status &&& 0xfffe = RQ_DRBD_NOTHING →
            (w1.reqs e.req).rq_status = RQ_DRBD_SENT ||| 1) ∧
          ((w.reqs e.req).rq_status &&& 0xfffe ≠ RQ_DRBD_NOTHING →
            (w1.reqs e.req).rq_status = (w.reqs e.req).rq_status))) ∧
      (∀ a, ¬ ((w.mdev.wire_protocol = DRBD_PROT_B ∨ w.mdev.wire_protocol = DRBD_PROT_C) ∧
          ∃ e ∈ tl_entries w.mdev, e.req ≠ TL_BARRIER ∧ e.req = a ∧ tl_live w e) →
        (w1.reqs a).rq_status = (w.reqs a).rq_status) := by
  obtain ⟨w1, new, h1, h2, h3, h4, h5, h6, -, -, -⟩ := tl_clear_spec fuel w h hf
  obtain ⟨-, -, n2, t2, e2, c2, f2⟩ := tl_clear_ends fuel w w1 h hf h1
  have hn : n2 = new := List.append_cancel_left (t2.symm.trans h5)
  subst hn
  have hiff : ∀ a, tl_handled (decide (w.mdev.wire_protocol = DRBD_PROT_B ∨
      w.mdev.wire_protocol = DRBD_PROT_C)) w (tl_entries w.mdev) a ↔
      ((w.mdev.wire_protocol = DRBD_PROT_B ∨ w.mdev.wire_protocol = DRBD_PROT_C) ∧
        ∃ e ∈ tl_entries w.mdev, e.req ≠ TL_BARRIER ∧ e.req = a ∧ tl_live w e) := by
    intro a
    unfold tl_handled
    rw [decide_eq_true_iff]
  refine ⟨w1, n2, h1, h2, h3, h4, h5, h6, ?_, ?_, ?_⟩
  · intro req ok
    constructor
    · intro hmem
      obtain ⟨x1, x2, x3⟩ := e2 req ok hmem
      obtain ⟨y1, y2⟩ := (hiff req).mp x1
      exact ⟨y1, y2, x2, x3⟩
    · rintro ⟨y1, y2, x2, x3⟩
      rw [x3]
      exact ((c2 req ((hiff req).mpr ⟨y1, y2⟩)).1 x2).1
  · intro e he hd hl hp
    have hh := c2 e.req ((hiff e.req).mpr ⟨hp, e, he, hd, rfl, hl⟩)
    exact ⟨fun hc => (hh.1 hc).2, hh.2⟩
  · intro a ha
    exact f2 a (fun hx => ha ((hiff a).mp hx))

/-- C8 (amended), witness: the disconnected Primary `world_clear`, whose log
holds a write of sector 8 whose local write is done, barrier 1, and a write of
sector 16 still in progress. -/
theorem tl_clear_marks_and_resets_witness :
    tl_wf world_clear.mdev ∧ world_clear.mdev.tl_size ≤ 4 ∧
    ∃ w1 new, tl_clear 4 world_clear = some w1 ∧
      w1.mdev.tl_begin = 0 ∧ w1.mdev.tl_end = 0 ∧
      (∀ s f, 0 < f → tl_dependence f w1.mdev s = some false) ∧
      w1.trace = world_clear.trace ++ new ∧
      sbs_of new = ((tl_entries world_clear.mdev).filter (fun e => !e.isBarrier)).map
        (fun e => (e.sector_nr >>> (world_clear.mdev.blk_size_b - 9),
          world_clear.mdev.blk_size_b, SS_OUT_OF_SYNC)) ∧
      (∀ req ok, Event.end_request req ok ∈ new ↔
        (world_clear.mdev.wire_protocol = DRBD_PROT_B ∨
          world_clear.mdev.wire_protocol = DRBD_PROT_C) ∧
        (∃ e ∈ tl_entries world_clear.mdev, e.req ≠ TL_BARRIER ∧ e.req = req ∧
          tl_live world_clear e) ∧
        sent_completes (world_clear.reqs req) ∧ ok = 1 &&& (world_clear.reqs req).rq_status) ∧
      (∀ e ∈ tl_entries world_clear.mdev, e.req ≠ TL_BARRIER → tl_live world_clear e →
        (world_clear.mdev.wire_protocol = DRBD_PROT_B ∨
          world_clear.mdev.wire_protocol = DRBD_PROT_C) →
        (sent_completes (world_clear.reqs e.req) → (w1.reqs e.req).rq_status = RQ_INACTIVE) ∧
        (¬ sent_completes (world_clear.reqs e.req) →
          ((world_clear.reqs e.req).rq_status &&& 0xfffe = RQ_DRBD_NOTHING →
            (w1.reqs e.req).rq_status = RQ_DRBD_SENT ||| 1) ∧
          ((world_clear.reqs e.req).rq_status &&& 0xfffe ≠ RQ_DRBD_NOTHING →
            (w1.reqs e.req).rq_status = (world_clear.reqs e.req).rq_status))) ∧
      (∀ a, ¬ ((world_clear.mdev.wire_protocol = DRBD_PROT_B ∨
            world_clear.mdev.wire_protocol = DRBD_PROT_C) ∧
          ∃ e ∈ tl_entries world_clear.mdev, e.req ≠ TL_BARRIER ∧ e.req = a ∧
            tl_live world_clear e) →
        (w1.reqs a).rq_status = (world_clear.reqs a).rq_status) :=
  ⟨by decide, by decide, tl_clear_marks_and_resets 4 world_clear (by decide) (by decide)⟩

/-! ## The primary indicator after a demotion -/

/-- C24 (defect of the demotion path): `drbd_md_write` defines
`gen_cnt[PrimaryInd]` as `state == Primary`, and a promotion stores it through
`drbd_md_inc`; a demotion does not call `drbd_md_write`. So after a successful
`drbd_set_state(Secondary)` on a Primary whose indicator is 1 the role is
Secondary while `gen_cnt[PrimaryInd]` is still 1, the next `drbd_send_param`
reports the role Secondary together with the indicator 1, and a
`drbd_md_write` at that point would store 0. -/
theorem drbd_set_state_demotion_stale_ind (MV : Nat) (w w1 : World) (env : ParamEnv)
    (ll : Option Nat) (u : Nat) (res : Option Int) (hlen : w.mdev.gen_cnt.length = 5)
    (h : drbd_set_state MV w Drbd_NewState.Secondary env = some (w1, 0))
    (hrole : w.mdev.state = Drbd_State.Primary)
    (hind : w.mdev.gen_cnt.getD PrimaryInd 0 = 1) :
    w1.mdev.state = Drbd_State.Secondary ∧
    w1.mdev.gen_cnt.getD PrimaryInd 0 = 1 ∧
    (drbd_send_param_block MV w1 ll u).state = Drbd_State.Secondary ∧
    (drbd_send_param_block MV w1 ll u).gen_cnt.getD PrimaryInd 0 = 1 ∧
    (drbd_md_write w1 res).mdev.gen_cnt.getD PrimaryInd 0 = 0 := by
  obtain ⟨h1, -, h3⟩ := drbd_set_state_primary_ind MV w w1 Drbd_NewState.Secondary env ll u
    hlen h (by rw [hrole]; decide)
  obtain ⟨h4, h5⟩ := h3 rfl
  have h1s : w1.mdev.state = Drbd_State.Secondary := h1
  refine ⟨h1s, by rw [h4, hind], h1s, by rw [h5, hind], ?_⟩
  rw [(drbd_md_write_gen_cnt w1 res).1, getD_set_of_lt _ _ _ _ (by rw [h4, hlen]; decide),
    if_pos rfl, h1s]
  decide

/-- C24, witness: the demotion of the Primary `world_handshake`, whose
counters are `[1, 1, 5, 1, 1]`. -/
theorem drbd_set_state_demotion_stale_ind_witness :
    world_handshake.mdev.gen_cnt.length = 5 ∧
    drbd_set_state 58 world_handshake Drbd_NewState.Secondary env_ok =
      some (((drbd_set_state 58 world_handshake Drbd_NewState.Secondary env_ok).getD
        (world0, 0)).1, 0) ∧
    world_handshake.mdev.state = Drbd_State.Primary ∧
    world_handshake.mdev.gen_cnt.getD PrimaryInd 0 = 1 ∧
    ((drbd_set_state 58 world_handshake Drbd_NewState.Secondary env_ok).getD
      (world0, 0)).1.mdev.state = Drbd_State.Secondary ∧
    ((drbd_set_state 58 world_handshake Drbd_NewState.Secondary env_ok).getD
      (world0, 0)).1.mdev.gen_cnt.getD PrimaryInd 0 = 1 ∧
    (drbd_send_param_block 58 ((drbd_set_state 58 world_handshake Drbd_NewState.Secondary
      env_ok).getD (world0, 0)).1 (some 2048) 0).state = Drbd_State.Secondary ∧
    (drbd_send_param_block 58 ((drbd_set_state 58 world_handshake Drbd_NewState.Secondary
      env_ok).getD (world0, 0)).1 (some 2048) 0).gen_cnt.getD PrimaryInd 0 = 1 ∧
    (drbd_md_write ((drbd_set_state 58 world_handshake Drbd_NewState.Secondary
      env_ok).getD (world0, 0)).1 (some 24)).mdev.gen_cnt.getD PrimaryInd 0 = 0 :=
  ⟨by decide, rfl, rfl, rfl,
    drbd_set_state_demotion_stale_ind 58 world_handshake
      ((drbd_set_state 58 world_handshake Drbd_NewState.Secondary env_ok).getD (world0, 0)).1
      env_ok (some 2048) 0 (some 24) (by decide) rfl rfl rfl⟩

end Drbd
